import Mathlib

/-!
# zlib_inflate (lib/zlib_inflate/inflate.c): a shallow embedding

The decoder of `inflate.c` is embedded as pure functions over explicit state.
C `unsigned` and `unsigned long` are both 32 bits wide on the target of this
kernel tree (ARM), so unsigned arithmetic that can wrap is taken modulo `2^32`.

Memory model.  A byte buffer behind a read pointer (`next_in`, `next`) is the
list of the bytes from the pointer on.  The output area is the list of the bytes
stored *below* the write cursor (`next_out`, `put`), oldest first, so that
`put - k` is the byte `k` places from the end of that list.  The window is a
list indexed from `0`; a byte of memory that no list element stands for reads
as `0`.
-/

set_option autoImplicit false

namespace Inflate

/-! ## Constants of zlib.h, inftrees.h and inflate.h -/

def Z_NO_FLUSH : Int := 0
def Z_PACKET_FLUSH : Int := 2
def Z_FINISH : Int := 5
def Z_BLOCK : Int := 6

def Z_OK : Int := 0
def Z_STREAM_END : Int := 1
def Z_NEED_DICT : Int := 2
def Z_STREAM_ERROR : Int := -2
def Z_DATA_ERROR : Int := -3
def Z_MEM_ERROR : Int := -4
def Z_BUF_ERROR : Int := -5

def Z_DEFLATED : Nat := 8

/-- The `codetype` argument of `zlib_inflate_table`. -/
inductive codetype where
  | CODES | LENS | DISTS
  deriving DecidableEq, Repr

/-- The `inflate_mode` enumeration of inflate.h, in declaration order. -/
inductive inflate_mode where
  | HEAD | FLAGS | TIME | OS | EXLEN | EXTRA | NAME | COMMENT | HCRC
  | DICTID | DICT | TYPE | TYPEDO | STORED | COPY | TABLE | LENLENS
  | CODELENS | LEN | LENEXT | DIST | DISTEXT | MATCH | LIT | CHECK
  | LENGTH | DONE | BAD | MEM | SYNC
  deriving DecidableEq, Repr

open inflate_mode

/-- The integer value of an enumerator, used by `state->mode < CHECK`. -/
def inflate_mode.toNat : inflate_mode → Nat
  | HEAD => 0 | FLAGS => 1 | TIME => 2 | OS => 3 | EXLEN => 4 | EXTRA => 5
  | NAME => 6 | COMMENT => 7 | HCRC => 8 | DICTID => 9 | DICT => 10
  | TYPE => 11 | TYPEDO => 12 | STORED => 13 | COPY => 14 | TABLE => 15
  | LENLENS => 16 | CODELENS => 17 | LEN => 18 | LENEXT => 19 | DIST => 20
  | DISTEXT => 21 | MATCH => 22 | LIT => 23 | CHECK => 24 | LENGTH => 25
  | DONE => 26 | BAD => 27 | MEM => 28 | SYNC => 29

/-- A Huffman table entry `code` of inftrees.h: `op` and `bits` are
`unsigned char`, `val` is `unsigned short`. -/
structure code where
  op : Nat
  bits : Nat
  val : Nat
  deriving DecidableEq, Repr

/-! ## 32-bit unsigned arithmetic -/

/-- Reduction of a natural number to a C `unsigned` (32 bits). -/
def u32 (x : Nat) : Nat := x % 4294967296

/-- Unsigned subtraction `a - b` on 32 bits. -/
def sub32 (a b : Nat) : Nat := (a % 4294967296 + 4294967296 - b % 4294967296) % 4294967296

/-- Unsigned addition `a + b` on 32 bits. -/
def add32 (a b : Nat) : Nat := (a + b) % 4294967296

/-! ## The state and the stream -/

/-- The fields of `struct inflate_state` that `inflate.c` reads or writes.
`codes`, `next` and `work` are only handed to the table builder and are
represented by the tables it returns. -/
structure inflate_state where
  mode : inflate_mode
  last : Nat
  wrap : Nat
  havedict : Nat
  dmax : Nat
  check : Nat
  total : Nat
  wbits : Nat
  wsize : Nat
  whave : Nat
  write : Nat
  window : List Nat
  hold : Nat
  bits : Nat
  length : Nat
  offset : Nat
  extra : Nat
  lencode : List code
  distcode : List code
  lenbits : Nat
  distbits : Nat
  ncode : Nat
  nlen : Nat
  ndist : Nat
  have_ : Nat
  lens : List Nat
  deriving DecidableEq, Repr

/-- The `z_stream` of zlib.h.  `next_in = none` is the null pointer, and
`state = none` is a null `strm->state`. -/
structure z_stream where
  next_in : Option (List Nat)
  avail_in : Nat
  total_in : Nat
  next_out : List Nat
  avail_out : Nat
  total_out : Nat
  msg : Option String
  state : Option inflate_state
  data_type : Nat
  adler : Nat
  deriving DecidableEq, Repr

/-! ## Memory helpers -/

/-- The `k` bytes stored just below a cursor whose stored bytes are `l`. -/
def below (l : List Nat) (k : Nat) : List Nat :=
  List.replicate (k - l.length) 0 ++ l.drop (l.length - k)

/-- The `n` bytes read upward from `k` places below the cursor: `memcpy`'s
source `cursor - k` with length `n`. -/
def readBack (l : List Nat) (k n : Nat) : List Nat :=
  (below l k).take n

/-- The first `n` bytes of a buffer, bytes beyond its end reading as `0`. -/
def readFwd (l : List Nat) (n : Nat) : List Nat :=
  l.take n ++ List.replicate (n - l.length) 0

/-- Writes the bytes `src` into `dst` from index `off` on: `memcpy(dst + off, src, |src|)`. -/
def memcpy (dst : List Nat) (off : Nat) (src : List Nat) : List Nat :=
  readFwd dst off ++ src ++ dst.drop (off + src.length)

/-! ## Adler-32 -/

/-- Modelled from the spec: `zlib_adler32` is not part of the sources at hand.
The spec treats `adler32(prev, buf)` as the Adler-32 primitive of RFC 1950:
the low half sums the bytes and the high half sums the low halves, both modulo
65521. -/
def adler32_fold (adler : Nat) (buf : List Nat) : Nat :=
  let r := buf.foldl (fun (s : Nat × Nat) b => ((s.1 + b) % 65521, (s.2 + (s.1 + b) % 65521) % 65521))
    (adler % 65536, (adler / 65536) % 65536)
  r.2 * 65536 + r.1

/-- Modelled from the spec: `zlib_adler32(adler, buf, len)`; a null `buf`
(`none`) yields the initial value `1`. -/
def zlib_adler32 (adler : Nat) (buf : Option (List Nat)) : Nat :=
  match buf with
  | none => 1
  | some b => adler32_fold adler b

/-! ## Fixed tables -/

/-- Reverses the low `n` bits of `x`. -/
def bitrev : Nat → Nat → Nat
  | 0, _ => 0
  | n + 1, x => (x % 2) * 2 ^ n + bitrev n (x / 2)

/-- The base lengths of the length symbols 257..285, in groups of equal extra
bits (`lbase` of inftrees.c). -/
def lbase : List Nat :=
  [3, 4, 5, 6, 7, 8, 9, 10] ++ [11, 13, 15, 17] ++ [19, 23, 27, 31] ++ [35, 43, 51, 59] ++
  [67, 83, 99, 115] ++ [131, 163, 195, 227] ++ [258]

/-- The `op` of the length symbols 257..285: 16 plus the number of extra bits. -/
def lext : List Nat :=
  [16, 16, 16, 16, 16, 16, 16, 16, 17, 17, 17, 17, 18, 18, 18, 18, 19, 19, 19, 19,
   20, 20, 20, 20, 21, 21, 21, 21, 16]

/-- The base distances of the distance symbols 0..29, in pairs of equal extra
bits (`dbase` of inftrees.c). -/
def dbase : List Nat :=
  [1, 2, 3, 4] ++ [5, 7] ++ [9, 13] ++ [17, 25] ++ [33, 49] ++ [65, 97] ++ [129, 193] ++
  [257, 385] ++ [513, 769] ++ [1025, 1537] ++ [2049, 3073] ++ [4097, 6145] ++
  [8193, 12289] ++ [16385, 24577]

/-- The `op` of the distance symbols 0..29: 16 plus the number of extra bits. -/
def dext : List Nat :=
  [16, 16, 16, 16, 17, 17, 18, 18, 19, 19, 20, 20, 21, 21, 22, 22, 23, 23, 24, 24,
   25, 25, 26, 26, 27, 27, 28, 28, 29, 29]

/-- The table entry of a literal/length symbol coded on `bits` bits: a literal
has `op = 0`, end of block `op = 96`, a length `op = 16 + extra bits`, and the
two unused symbols are invalid (`op = 64`). -/
def lenEntry (sym bits : Nat) : code :=
  if sym < 256 then ⟨0, bits, sym⟩
  else if sym = 256 then ⟨96, bits, 0⟩
  else if sym < 286 then ⟨lext.getD (sym - 257) 0, bits, lbase.getD (sym - 257) 0⟩
  else ⟨64, bits, 0⟩

/-- Modelled from the spec: `inffixed.h` is not part of the sources at hand.
The spec names the fixed Huffman tables constant data; this is the 512-entry
root table of the fixed literal/length code of RFC 1951 (symbols 256..279 on 7
bits, 0..143 and 280..287 on 8, 144..255 on 9), indexed by the next 9 input
bits, in the entry layout the decoder reads. -/
def lenfix : List code :=
  (List.range 512).map (fun i =>
    if bitrev 7 (i % 128) < 24 then lenEntry (256 + bitrev 7 (i % 128)) 7
    else if bitrev 8 (i % 256) < 192 then lenEntry (bitrev 8 (i % 256) - 48) 8
    else if bitrev 8 (i % 256) < 200 then lenEntry (280 + (bitrev 8 (i % 256) - 192)) 8
    else lenEntry (144 + (bitrev 9 i - 400)) 9)

/-- Modelled from the spec: `inffixed.h` is not part of the sources at hand.
The 32-entry table of the fixed distance code of RFC 1951 (5-bit codes), indexed
by the next 5 input bits; codes 30 and 31 are invalid. -/
def distfix : List code :=
  (List.range 32).map (fun i =>
    if bitrev 5 i < 30 then ⟨dext.getD (bitrev 5 i) 0, 5, dbase.getD (bitrev 5 i) 0⟩
    else ⟨64, 5, 0⟩)

/-! ## Reset, init, window update -/

def zlib_inflateReset (strm : z_stream) : Int × z_stream :=
  match strm.state with
  | none => (Z_STREAM_ERROR, strm)
  | some state =>
    (Z_OK,
     { strm with
       total_in := 0, total_out := 0, msg := none, adler := 1,
       state := some { state with
         total := 0, mode := HEAD, last := 0, havedict := 0, dmax := 32768,
         hold := 0, bits := 0, lencode := [], distcode := [],
         wsize := (1 <<< state.wbits) % 4294967296, write := 0, whave := 0 } })

/-- The stream is not null here; `ws` is the `inflate_state` of the workspace
that `strm->state` is pointed at, with whatever it held before. -/
def zlib_inflateInit2 (strm : z_stream) (ws : inflate_state) (windowBits : Int) : Int × z_stream :=
  let strm := { strm with msg := none, state := some ws }
  let state := if windowBits < 0 then { ws with wrap := 0 }
    else { ws with wrap := ((windowBits / 16) + 1).toNat }
  let windowBits := if windowBits < 0 then -windowBits else windowBits
  if windowBits < 8 ∨ windowBits > 15 then
    (Z_STREAM_ERROR, { strm with state := some state })
  else
    zlib_inflateReset { strm with state := some { state with wbits := windowBits.toNat } }

def zlib_fixedtables (state : inflate_state) : inflate_state :=
  { state with lencode := lenfix, lenbits := 9, distcode := distfix, distbits := 5 }

/-- The window update; `next_out` already stands at the end of the output. -/
def zlib_updatewindow (strm : z_stream) (state : inflate_state) (out : Nat) : inflate_state :=
  let copy := sub32 out strm.avail_out
  if copy ≥ state.wsize then
    { state with
      window := memcpy state.window 0 (readBack strm.next_out state.wsize state.wsize),
      write := 0, whave := state.wsize }
  else
    let dist := sub32 state.wsize state.write
    let dist := if dist > copy then copy else dist
    let window := memcpy state.window state.write (readBack strm.next_out copy dist)
    let copy := copy - dist
    if copy ≠ 0 then
      { state with
        window := memcpy window 0 (readBack strm.next_out copy copy),
        write := copy, whave := state.wsize }
    else
      let write := add32 state.write dist
      let write := if write = state.wsize then 0 else write
      { state with
        window := window, write := write,
        whave := if state.whave < state.wsize then add32 state.whave dist else state.whave }

def zlib_inflateSyncPacket (strm : z_stream) : Int × z_stream :=
  match strm.state with
  | none => (Z_STREAM_ERROR, strm)
  | some state =>
    if state.mode = STORED ∧ state.bits = 0 then
      (Z_OK, { strm with state := some { state with mode := TYPE } })
    else (Z_DATA_ERROR, strm)

/-! ## The locals of `zlib_inflate` and its macros -/

/-- The stream, the state and the local variables of a running `zlib_inflate`.
`strm.state` is not used while the call runs: the state is `state`. -/
structure Cfg where
  strm : z_stream
  state : inflate_state
  next : Option (List Nat)
  put : List Nat
  have_ : Nat
  left : Nat
  hold : Nat
  bits : Nat
  in_ : Nat
  out : Nat
  ret : Int
  deriving DecidableEq, Repr

/-- What one pass through the `switch` ends in: `break` (go round the loop
again), `goto inf_leave`, or a `return` from inside the loop. -/
inductive Outcome where
  | cont (c : Cfg)
  | leave (c : Cfg)
  | done (r : Int) (strm : z_stream)
  deriving DecidableEq, Repr

def LOAD (strm : z_stream) (state : inflate_state) (c : Cfg) : Cfg :=
  { c with
    strm := strm, state := state,
    put := strm.next_out, left := strm.avail_out,
    next := strm.next_in, have_ := strm.avail_in,
    hold := state.hold, bits := state.bits }

def RESTORE (c : Cfg) : Cfg :=
  { c with
    strm := { c.strm with
      next_out := c.put, avail_out := c.left,
      next_in := c.next, avail_in := c.have_ },
    state := { c.state with hold := c.hold, bits := c.bits } }

/-- The stream as the caller sees it, with the state behind `strm->state`. -/
def Cfg.result (c : Cfg) : z_stream :=
  { c.strm with state := some c.state }

def INITBITS (c : Cfg) : Cfg :=
  { c with hold := 0, bits := 0 }

/-- The macro `PULLBYTE`; `none` is its `goto inf_leave`. -/
def PULLBYTE (c : Cfg) : Option Cfg :=
  if c.have_ = 0 then none
  else some { c with
    have_ := c.have_ - 1,
    hold := u32 (c.hold + u32 ((c.next.getD []).headD 0 <<< c.bits)),
    next := c.next.map List.tail,
    bits := add32 c.bits 8 }

/-- The loop of `NEEDBITS(n)`, which makes at most `have` pulls. -/
def NEEDBITS_loop : Nat → Nat → Cfg → Bool × Cfg
  | 0, _, c => (false, c)
  | fuel + 1, n, c =>
    if c.bits < n then
      match PULLBYTE c with
      | none => (false, c)
      | some c1 => NEEDBITS_loop fuel n c1
    else (true, c)

/-- The macro `NEEDBITS(n)`; the flag is false on its `goto inf_leave`. -/
def NEEDBITS (n : Nat) (c : Cfg) : Bool × Cfg :=
  NEEDBITS_loop (c.have_ + 1) n c

def BITS (c : Cfg) (n : Nat) : Nat :=
  u32 c.hold &&& sub32 (1 <<< n) 1

def DROPBITS (n : Nat) (c : Cfg) : Cfg :=
  { c with hold := c.hold >>> n, bits := sub32 c.bits n }

def BYTEBITS (c : Cfg) : Cfg :=
  { c with hold := c.hold >>> (c.bits &&& 7), bits := sub32 c.bits (c.bits &&& 7) }

def REVERSE (q : Nat) : Nat :=
  u32 (((q >>> 24) &&& 0xff) + ((q >>> 8) &&& 0xff00) +
    u32 ((q &&& 0xff00) <<< 8) + u32 ((q &&& 0xff) <<< 24))

/-- The assignment `strm->msg = ...; state->mode = BAD`. -/
def Cfg.bad (c : Cfg) (msg : String) : Cfg :=
  { c with strm := { c.strm with msg := some msg }, state := { c.state with mode := BAD } }

def Cfg.setMode (c : Cfg) (m : inflate_mode) : Cfg :=
  { c with state := { c.state with mode := m } }

/-- The parts of the decoder that live in other files: the table builder
`zlib_inflate_table(type, lens, codes, &next, &bits, work)`, which returns its
status, the table it stored at `next`, and the root width it settled on; and
`inflate_fast(strm, start)`, which updates the stream and the state. -/
structure Ext where
  inflate_table : codetype → List Nat → Nat → Nat → Int × List code × Nat
  inflate_fast : z_stream → inflate_state → Nat → z_stream × inflate_state

/-! ## The cases of the `switch`, one function each

A case that falls through into the next one calls it. -/

def case_HEAD (c : Cfg) : Outcome :=
  if c.state.wrap = 0 then .cont (c.setMode TYPEDO)
  else
    match NEEDBITS 16 c with
    | (false, c) => .leave c
    | (true, c) =>
      if u32 ((BITS c 8 <<< 8) + (c.hold >>> 8)) % 31 ≠ 0 then
        .cont (c.bad "incorrect header check")
      else if BITS c 4 ≠ Z_DEFLATED then
        .cont (c.bad "unknown compression method")
      else
        let c := DROPBITS 4 c
        let len := add32 (BITS c 4) 8
        if len > c.state.wbits then .cont (c.bad "invalid window size")
        else
          .cont (INITBITS { c with
            strm := { c.strm with adler := zlib_adler32 0 none },
            state := { c.state with
              dmax := u32 (1 <<< len),
              check := zlib_adler32 0 none,
              mode := if c.hold &&& 0x200 ≠ 0 then DICTID else TYPE } })

def case_TYPEDO (c : Cfg) : Outcome :=
  if c.state.last ≠ 0 then .cont ((BYTEBITS c).setMode CHECK)
  else
    match NEEDBITS 3 c with
    | (false, c) => .leave c
    | (true, c) =>
      let c := { c with state := { c.state with last := BITS c 1 } }
      let c := DROPBITS 1 c
      let c1 :=
        if BITS c 2 = 0 then c.setMode STORED
        else if BITS c 2 = 1 then { c with state := { zlib_fixedtables c.state with mode := LEN } }
        else if BITS c 2 = 2 then c.setMode TABLE
        else c.bad "invalid block type"
      .cont (DROPBITS 2 c1)

def case_TYPE (flush : Int) (c : Cfg) : Outcome :=
  if flush = Z_BLOCK then .leave c else case_TYPEDO c

def case_DICT (flush : Int) (c : Cfg) : Outcome :=
  if c.state.havedict = 0 then .done Z_NEED_DICT (RESTORE c).result
  else
    case_TYPE flush { c with
      strm := { c.strm with adler := zlib_adler32 0 none },
      state := { c.state with check := zlib_adler32 0 none, mode := TYPE } }

def case_DICTID (flush : Int) (c : Cfg) : Outcome :=
  match NEEDBITS 32 c with
  | (false, c) => .leave c
  | (true, c) =>
    case_DICT flush (INITBITS { c with
      strm := { c.strm with adler := REVERSE c.hold },
      state := { c.state with check := REVERSE c.hold } }
      |>.setMode DICT)

def case_COPY (c : Cfg) : Outcome :=
  let copy := c.state.length
  if copy ≠ 0 then
    let copy := if copy > c.have_ then c.have_ else copy
    let copy := if copy > c.left then c.left else copy
    if copy = 0 then .leave c
    else
      .cont { c with
        put := c.put ++ readFwd (c.next.getD []) copy,
        have_ := c.have_ - copy,
        next := c.next.map (List.drop copy),
        left := c.left - copy,
        state := { c.state with length := c.state.length - copy } }
  else .cont (c.setMode TYPE)

def case_STORED (c : Cfg) : Outcome :=
  match NEEDBITS 32 (BYTEBITS c) with
  | (false, c) => .leave c
  | (true, c) =>
    if c.hold &&& 0xffff ≠ (c.hold >>> 16) ^^^ 0xffff then
      .cont (c.bad "invalid stored block lengths")
    else
      case_COPY (INITBITS { c with state := { c.state with length := u32 c.hold &&& 0xffff } }
        |>.setMode COPY)

def order : List Nat :=
  [16, 17, 18, 0, 8, 7, 9, 6, 10, 5, 11, 4, 12, 3, 13, 2, 14, 1, 15]

/-- The result of a loop that pulls bytes until a table entry fits: the entry
and the locals, or the locals at its `goto inf_leave`. -/
inductive Pulled where
  | got (this : code) (c : Cfg)
  | short (c : Cfg)
  deriving DecidableEq, Repr

/-- The loop `for (;;) { this = table[BITS(n)]; if (this.bits <= bits) break; PULLBYTE(); }`,
which makes at most `have` pulls. -/
def code_loop (table : List code) (n : Nat) : Nat → Cfg → Pulled
  | 0, c => .short c
  | fuel + 1, c =>
    let this := table.getD (BITS c n) ⟨0, 0, 0⟩
    if this.bits ≤ c.bits then .got this c
    else
      match PULLBYTE c with
      | none => .short c
      | some c1 => code_loop table n fuel c1

/-- The second-level loop, entered with the root entry `last`. -/
def code_loop2 (table : List code) (last : code) : Nat → Cfg → Pulled
  | 0, c => .short c
  | fuel + 1, c =>
    let this := table.getD (last.val + (BITS c (last.bits + last.op) >>> last.bits)) ⟨0, 0, 0⟩
    if last.bits + this.bits ≤ c.bits then .got this c
    else
      match PULLBYTE c with
      | none => .short c
      | some c1 => code_loop2 table last fuel c1

/-- The second-level lookup `last = this; for (;;) { ... } DROPBITS(last.bits);`
entered with the root entry `last`. -/
def code_second (table : List code) (last : code) (c : Cfg) : Pulled :=
  match code_loop2 table last (c.have_ + 1) c with
  | .short c => .short c
  | .got this c => .got this (DROPBITS last.bits c)

/-- The loop `while (state->have < state->ncode)` of LENLENS; the flag is false
on a `goto inf_leave`. -/
def lenlens_loop : Nat → Cfg → Bool × Cfg
  | 0, c => (true, c)
  | fuel + 1, c =>
    if c.state.have_ < c.state.ncode then
      match NEEDBITS 3 c with
      | (false, c) => (false, c)
      | (true, c) =>
        lenlens_loop fuel (DROPBITS 3 { c with state := { c.state with
          lens := memcpy c.state.lens (order.getD c.state.have_ 0) [BITS c 3 % 65536],
          have_ := c.state.have_ + 1 } })
    else (true, c)

/-- The loop `while (state->have < 19) state->lens[order[state->have++]] = 0`. -/
def lenlens_fill : Nat → inflate_state → inflate_state
  | 0, state => state
  | fuel + 1, state =>
    if state.have_ < 19 then
      lenlens_fill fuel { state with
        lens := memcpy state.lens (order.getD state.have_ 0) [0],
        have_ := state.have_ + 1 }
    else state

/-- What reading a repeat code (16, 17 or 18) in CODELENS ends in: a
`goto inf_leave`, a `break` out of the `while`, or the pair `len`, `copy`. -/
inductive Repeat where
  | leave (c : Cfg)
  | stop (c : Cfg)
  | rep (c : Cfg) (len copy : Nat)
  deriving DecidableEq, Repr

/-- The branch `else` of `if (this.val < 16)` up to the assignment of `copy`. -/
def codelens_repeat (this : code) (c : Cfg) : Repeat :=
  if this.val = 16 then
    match NEEDBITS (this.bits + 2) c with
    | (false, c) => .leave c
    | (true, c) =>
      let c := DROPBITS this.bits c
      if c.state.have_ = 0 then .stop (c.bad "invalid bit length repeat")
      else .rep (DROPBITS 2 c) (c.state.lens.getD (c.state.have_ - 1) 0) (add32 3 (BITS c 2))
  else if this.val = 17 then
    match NEEDBITS (this.bits + 3) c with
    | (false, c) => .leave c
    | (true, c) =>
      let c := DROPBITS this.bits c
      .rep (DROPBITS 3 c) 0 (add32 3 (BITS c 3))
  else
    match NEEDBITS (this.bits + 7) c with
    | (false, c) => .leave c
    | (true, c) =>
      let c := DROPBITS this.bits c
      .rep (DROPBITS 7 c) 0 (add32 11 (BITS c 7))

/-- The loop `while (state->have < state->nlen + state->ndist)` of CODELENS;
the flag is false on a `goto inf_leave`, true when the loop ends or breaks. -/
def codelens_loop : Nat → Cfg → Bool × Cfg
  | 0, c => (true, c)
  | fuel + 1, c =>
    if c.state.have_ < add32 c.state.nlen c.state.ndist then
      match code_loop c.state.lencode c.state.lenbits (c.have_ + 1) c with
      | .short c => (false, c)
      | .got this c =>
        if this.val < 16 then
          match NEEDBITS this.bits c with
          | (false, c) => (false, c)
          | (true, c) =>
            let c := DROPBITS this.bits c
            codelens_loop fuel { c with state := { c.state with
              lens := memcpy c.state.lens c.state.have_ [this.val],
              have_ := c.state.have_ + 1 } }
        else
          match codelens_repeat this c with
          | .leave c => (false, c)
          | .stop c => (true, c)
          | .rep c len copy =>
            if add32 c.state.have_ copy > add32 c.state.nlen c.state.ndist then
              (true, c.bad "invalid bit length repeat")
            else
              codelens_loop fuel { c with state := { c.state with
                lens := memcpy c.state.lens c.state.have_ (List.replicate copy (len % 65536)),
                have_ := c.state.have_ + copy } }
    else (true, c)

/-- The loop `do { *put++ = *from++; } while (--copy)` of MATCH, run for the
given number of rounds.  `from` is an index into the window (`some i`), or the
place `offset` bytes below `put` in the output (`none`). -/
def match_copy (window : List Nat) (offset : Nat) : Nat → Option Nat → List Nat → List Nat
  | 0, _, put => put
  | n + 1, some i, put => match_copy window offset n (some (i + 1)) (put ++ [window.getD i 0])
  | n + 1, none, put => match_copy window offset n none (put ++ [(below put offset).headD 0])

/-- The source `from` of the copy of MATCH (an index into the window, or `none`
for the output `offset` bytes below `put`) and the count `copy` before it is
capped by `left`. -/
def match_source (c : Cfg) : Option Nat × Nat :=
  let copy := sub32 c.out c.left
  if c.state.offset > copy then
    let copy := c.state.offset - copy
    let fc : Nat × Nat :=
      if copy > c.state.write then
        (sub32 c.state.wsize (copy - c.state.write), copy - c.state.write)
      else (c.state.write - copy, copy)
    (some fc.1, if fc.2 > c.state.length then c.state.length else fc.2)
  else (none, c.state.length)

def case_MATCH (c : Cfg) : Outcome :=
  if c.left = 0 then .leave c
  else
    let fc := match_source c
    let copy := if fc.2 > c.left then c.left else fc.2
    let length := c.state.length - copy
    .cont { c with
      left := c.left - copy,
      put := match_copy c.state.window c.state.offset (if copy = 0 then 4294967296 else copy)
        fc.1 c.put,
      state := { c.state with length := length, mode := if length = 0 then LEN else c.state.mode } }

/-- The rest of DISTEXT after the extra bits: the distance test, then MATCH. -/
def DISTEXT_tail (c : Cfg) : Outcome :=
  if c.state.offset > sub32 (add32 c.state.whave c.out) c.left then
    .cont (c.bad "invalid distance too far back")
  else case_MATCH (c.setMode MATCH)

def case_DISTEXT (c : Cfg) : Outcome :=
  if c.state.extra ≠ 0 then
    match NEEDBITS c.state.extra c with
    | (false, c) => .leave c
    | (true, c) =>
      DISTEXT_tail (DROPBITS c.state.extra { c with state := { c.state with
        offset := add32 c.state.offset (BITS c c.state.extra) } })
  else DISTEXT_tail c

/-- The rest of DIST once the entry `this` is settled. -/
def DIST_tail (this : code) (c : Cfg) : Outcome :=
  let c := DROPBITS this.bits c
  if this.op &&& 64 ≠ 0 then .cont (c.bad "invalid distance code")
  else
    case_DISTEXT { c with state := { c.state with
      offset := this.val, extra := this.op &&& 15, mode := DISTEXT } }

def case_DIST (c : Cfg) : Outcome :=
  match code_loop c.state.distcode c.state.distbits (c.have_ + 1) c with
  | .short c => .leave c
  | .got this c =>
    if this.op &&& 0xf0 = 0 then
      match code_second c.state.distcode this c with
      | .short c => .leave c
      | .got this c => DIST_tail this c
    else DIST_tail this c

def case_LENEXT (c : Cfg) : Outcome :=
  if c.state.extra ≠ 0 then
    match NEEDBITS c.state.extra c with
    | (false, c) => .leave c
    | (true, c) =>
      case_DIST ((DROPBITS c.state.extra { c with state := { c.state with
        length := add32 c.state.length (BITS c c.state.extra) } }).setMode DIST)
  else case_DIST (c.setMode DIST)

/-- The rest of LEN once the entry `this` is settled. -/
def LEN_tail (this : code) (c : Cfg) : Outcome :=
  let c := DROPBITS this.bits c
  let c := { c with state := { c.state with length := this.val } }
  if this.op = 0 then .cont (c.setMode LIT)
  else if this.op &&& 32 ≠ 0 then .cont (c.setMode TYPE)
  else if this.op &&& 64 ≠ 0 then .cont (c.bad "invalid literal/length code")
  else
    case_LENEXT { c with state := { c.state with extra := this.op &&& 15, mode := LENEXT } }

def case_LEN (E : Ext) (c : Cfg) : Outcome :=
  if c.have_ ≥ 6 ∧ c.left ≥ 258 then
    let c := RESTORE c
    let r := E.inflate_fast c.strm c.state c.out
    .cont (LOAD r.1 r.2 c)
  else
    match code_loop c.state.lencode c.state.lenbits (c.have_ + 1) c with
    | .short c => .leave c
    | .got this c =>
      if this.op ≠ 0 ∧ this.op &&& 0xf0 = 0 then
        match code_second c.state.lencode this c with
        | .short c => .leave c
        | .got this c => LEN_tail this c
      else LEN_tail this c

def case_LIT (c : Cfg) : Outcome :=
  if c.left = 0 then .leave c
  else
    .cont ({ c with put := c.put ++ [c.state.length % 256], left := c.left - 1 }.setMode LEN)

/-- The rest of CODELENS after its `while` loop: the two table builds, then LEN. -/
def CODELENS_tail (E : Ext) (c : Cfg) : Outcome :=
  if c.state.mode = BAD then .cont c
  else
    let r := E.inflate_table .LENS c.state.lens c.state.nlen 9
    let c := { c with ret := r.1, state := { c.state with lencode := r.2.1, lenbits := r.2.2 } }
    if r.1 ≠ 0 then .cont (c.bad "invalid literal/lengths set")
    else
      let r := E.inflate_table .DISTS (c.state.lens.drop c.state.nlen) c.state.ndist 6
      let c := { c with ret := r.1, state := { c.state with distcode := r.2.1, distbits := r.2.2 } }
      if r.1 ≠ 0 then .cont (c.bad "invalid distances set")
      else case_LEN E (c.setMode LEN)

def case_CODELENS (E : Ext) (c : Cfg) : Outcome :=
  match codelens_loop (add32 c.state.nlen c.state.ndist) c with
  | (false, c) => .leave c
  | (true, c) => CODELENS_tail E c

/-- The rest of LENLENS after its first `while` loop. -/
def LENLENS_tail (E : Ext) (c : Cfg) : Outcome :=
  let c := { c with state := lenlens_fill 19 c.state }
  let r := E.inflate_table .CODES c.state.lens 19 7
  let c := { c with ret := r.1, state := { c.state with lencode := r.2.1, lenbits := r.2.2 } }
  if r.1 ≠ 0 then .cont (c.bad "invalid code lengths set")
  else case_CODELENS E { c with state := { c.state with have_ := 0, mode := CODELENS } }

def case_LENLENS (E : Ext) (c : Cfg) : Outcome :=
  match lenlens_loop c.state.ncode c with
  | (false, c) => .leave c
  | (true, c) => LENLENS_tail E c

def case_TABLE (E : Ext) (c : Cfg) : Outcome :=
  match NEEDBITS 14 c with
  | (false, c) => .leave c
  | (true, c) =>
    let c := DROPBITS 5 { c with state := { c.state with nlen := add32 (BITS c 5) 257 } }
    let c := DROPBITS 5 { c with state := { c.state with ndist := add32 (BITS c 5) 1 } }
    let c := DROPBITS 4 { c with state := { c.state with ncode := add32 (BITS c 4) 4 } }
    if c.state.nlen > 286 ∨ c.state.ndist > 30 then
      .cont (c.bad "too many length or distance symbols")
    else case_LENLENS E { c with state := { c.state with have_ := 0, mode := LENLENS } }

def case_DONE (c : Cfg) : Outcome :=
  .leave { c with ret := Z_STREAM_END }

/-- The statements of CHECK from `out -= left` to `out = left`: the output of
this call is counted and folded into the checksum. -/
def CHECK_update (c : Cfg) : Cfg :=
  let out := sub32 c.out c.left
  let check := if out ≠ 0 then zlib_adler32 c.state.check (some (readBack c.put out out))
    else c.state.check
  { c with
    out := c.left,
    strm := { c.strm with
      total_out := add32 c.strm.total_out out,
      adler := if out ≠ 0 then check else c.strm.adler },
    state := { c.state with total := add32 c.state.total out, check := check } }

/-- The rest of CHECK once the 32 bits of the trailer are in `hold`. -/
def CHECK_tail (c : Cfg) : Outcome :=
  if REVERSE (CHECK_update c).hold ≠ (CHECK_update c).state.check then
    .cont ((CHECK_update c).bad "incorrect data check")
  else case_DONE ((INITBITS (CHECK_update c)).setMode DONE)

def case_CHECK (c : Cfg) : Outcome :=
  if c.state.wrap ≠ 0 then
    match NEEDBITS 32 c with
    | (false, c) => .leave c
    | (true, c) => CHECK_tail c
  else case_DONE (c.setMode DONE)

def case_BAD (c : Cfg) : Outcome :=
  .leave { c with ret := Z_DATA_ERROR }

/-- One pass through `switch (state->mode)`. -/
def step (E : Ext) (flush : Int) (c : Cfg) : Outcome :=
  match c.state.mode with
  | HEAD => case_HEAD c
  | DICTID => case_DICTID flush c
  | DICT => case_DICT flush c
  | TYPE => case_TYPE flush c
  | TYPEDO => case_TYPEDO c
  | STORED => case_STORED c
  | COPY => case_COPY c
  | TABLE => case_TABLE E c
  | LENLENS => case_LENLENS E c
  | CODELENS => case_CODELENS E c
  | LEN => case_LEN E c
  | LENEXT => case_LENEXT c
  | DIST => case_DIST c
  | DISTEXT => case_DISTEXT c
  | MATCH => case_MATCH c
  | LIT => case_LIT c
  | CHECK => case_CHECK c
  | DONE => case_DONE c
  | BAD => case_BAD c
  | MEM => .done Z_MEM_ERROR c.result
  | _ => .done Z_STREAM_ERROR c.result

/-- The loop `for (;;) switch (state->mode)`, run for at most `fuel` passes;
`none` when the passes run out before the loop is left. -/
def inflate_loop (E : Ext) (flush : Int) : Nat → Cfg → Option Outcome
  | 0, _ => none
  | fuel + 1, c =>
    match step E flush c with
    | .cont c1 => inflate_loop E flush fuel c1
    | o => some o

/-- The stream and the state that the code after the label `inf_leave` leaves
behind, up to the assignment of `strm->data_type`: the locals are restored, the
window is updated, the counters and the checksum take in this call. -/
def leave_stream (c : Cfg) : z_stream :=
  let c := RESTORE c
  let state :=
    if c.state.wsize ≠ 0 ∨ (c.state.mode.toNat < CHECK.toNat ∧ c.out ≠ c.strm.avail_out) then
      zlib_updatewindow c.strm c.state c.out
    else c.state
  let in_ := sub32 c.in_ c.strm.avail_in
  let out := sub32 c.out c.strm.avail_out
  let check := if state.wrap ≠ 0 ∧ out ≠ 0 then
      zlib_adler32 state.check (some (readBack c.strm.next_out out out))
    else state.check
  let state := { state with total := add32 state.total out, check := check }
  { c.strm with
    total_in := add32 c.strm.total_in in_,
    total_out := add32 c.strm.total_out out,
    adler := if state.wrap ≠ 0 ∧ out ≠ 0 then check else c.strm.adler,
    data_type := state.bits + (if state.last ≠ 0 then 64 else 0) +
      (if state.mode = TYPE then 128 else 0),
    state := some state }

/-- The code from the label `inf_leave` to the end of `zlib_inflate`; `in` and
`out` are by then `in - avail_in` and `out - avail_out`. -/
def inf_leave (flush : Int) (c : Cfg) : Int × z_stream :=
  if flush = Z_PACKET_FLUSH ∧ c.ret = Z_OK ∧
      (leave_stream c).avail_out ≠ 0 ∧ (leave_stream c).avail_in = 0 then
    zlib_inflateSyncPacket (leave_stream c)
  else if ((sub32 c.in_ c.have_ = 0 ∧ sub32 c.out c.left = 0) ∨ flush = Z_FINISH) ∧
      c.ret = Z_OK then
    (Z_BUF_ERROR, leave_stream c)
  else (c.ret, leave_stream c)

/-- The locals of `zlib_inflate` when it reaches its loop: a pending TYPE has
become TYPEDO, the locals are loaded, `in` and `out` are set and `ret` is `Z_OK`. -/
def enter (strm : z_stream) (state : inflate_state) : Cfg :=
  let state := if state.mode = TYPE then { state with mode := TYPEDO } else state
  LOAD strm state
    { strm := strm, state := state, next := none, put := [], have_ := 0, left := 0,
      hold := 0, bits := 0, in_ := strm.avail_in, out := strm.avail_out, ret := Z_OK }

/-- The function `zlib_inflate(strm, flush)` for a non-null `strm`, its main
loop run for at most `fuel` passes. -/
def zlib_inflate (E : Ext) (fuel : Nat) (strm : z_stream) (flush : Int) : Option (Int × z_stream) :=
  match strm.state with
  | none => some (Z_STREAM_ERROR, strm)
  | some state =>
    if strm.next_in = none ∧ strm.avail_in ≠ 0 then some (Z_STREAM_ERROR, strm)
    else
      match inflate_loop E flush fuel (enter strm state) with
      | none => none
      | some (.cont _) => none
      | some (.leave c) => some (inf_leave flush c)
      | some (.done r s) => some (r, s)

/-- The function `zlib_inflateIncomp(z)`; a null `z->state` is outside its domain
(the function dereferences it), and is answered here by `Z_STREAM_ERROR`. -/
def zlib_inflateIncomp (z : z_stream) : Int × z_stream :=
  match z.state with
  | none => (Z_STREAM_ERROR, z)
  | some state =>
    if state.mode ≠ TYPE ∧ state.mode ≠ HEAD then (Z_DATA_ERROR, z)
    else
      let z1 : z_stream := { z with
        avail_out := 0, next_out := readFwd (z.next_in.getD []) z.avail_in }
      let state := zlib_updatewindow z1 state z.avail_in
      let check := zlib_adler32 state.check (z.next_in.map fun l => readFwd l z.avail_in)
      (Z_OK, { z with
        adler := check,
        total_out := add32 z.total_out z.avail_in,
        total_in := add32 z.total_in z.avail_in,
        next_in := z.next_in.map (List.drop z.avail_in),
        avail_in := 0,
        state := some { state with check := check, total := add32 state.total z.avail_in } })

/-! ## Running the decoder on concrete streams -/

/-- A table builder and a fast path that do nothing, for streams that never
reach them (stored and fixed blocks decoded with fewer than 6 bytes of input or
258 bytes of output space left). -/
def noExt : Ext where
  inflate_table := fun _ _ _ bits => (-1, [], bits)
  inflate_fast := fun strm state _ => (strm, state)

/-- A workspace whose memory is all zero. -/
def ws0 : inflate_state :=
  { mode := HEAD, last := 0, wrap := 0, havedict := 0, dmax := 0, check := 0, total := 0,
    wbits := 0, wsize := 0, whave := 0, write := 0, window := [], hold := 0, bits := 0,
    length := 0, offset := 0, extra := 0, lencode := [], distcode := [], lenbits := 0,
    distbits := 0, ncode := 0, nlen := 0, ndist := 0, have_ := 0, lens := [] }

/-- A stream with no buffers attached. -/
def strm0 : z_stream :=
  { next_in := none, avail_in := 0, total_in := 0, next_out := [], avail_out := 0,
    total_out := 0, msg := none, state := none, data_type := 0, adler := 0 }

/-- The stream after `zlib_inflateInit2(strm, windowBits)` on a zeroed workspace. -/
def initStream (windowBits : Int) : z_stream :=
  (zlib_inflateInit2 strm0 ws0 windowBits).2

/-- The caller hands the decoder the input bytes `inp` and `avail_out` bytes of
output space at the current output position. -/
def feed (strm : z_stream) (inp : List Nat) (avail_out : Nat) : z_stream :=
  { strm with next_in := some inp, avail_in := inp.length, avail_out := avail_out }

end Inflate

namespace Inflate

open inflate_mode

/-- The input of scenario S3 as the spec writes it. -/
def S3_input : List Nat :=
  [0x78, 0x9C, 0x01, 0x02, 0x00, 0xFD, 0xFF, 0x48, 0x69, 0x00, 0xA7, 0x00, 0xC9]

/-- A raw stream: a stored block of 257 bytes, then a final fixed-Huffman block
holding one match of length 3 at distance 257 and the end-of-block code. -/
def far_stream : List Nat :=
  [0x00, 0x01, 0x01, 0xFE, 0xFE] ++ List.replicate 257 65 ++ [0x03, 0x06, 0x00, 0x00]

/-- A raw stream: a stored block of 300 bytes, then a final fixed-Huffman block
holding one match of length 3 at distance 300 and the end-of-block code. -/
def resume_stream : List Nat :=
  [0x00, 0x2C, 0x01, 0xD3, 0xFE] ++ List.replicate 300 65 ++ [0x03, 0x86, 0x15, 0x00]

/-- A zlib header with FDICT set, a 4-byte dictionary identifier, and two more bytes. -/
def dict_stream : List Nat :=
  [0x78, 0x20, 0x01, 0x02, 0x03, 0x04, 0x09, 0x09]

/-- A second call on the stream a first call returned, with new input and
output space. -/
def thenCall (E : Ext) (fuel : Nat) (r : Option (Int × z_stream)) (inp : List Nat)
    (avail_out : Nat) (flush : Int) : Option (Int × z_stream) :=
  r.bind fun r => zlib_inflate E fuel (feed r.2 inp avail_out) flush

/-- The locals with which a second call, on the stream a first call returned,
enters its loop. -/
def thenEnter (r : Option (Int × z_stream)) (inp : List Nat) (avail_out : Nat) : Option Cfg :=
  r.bind fun r => r.2.state.map fun st => enter (feed r.2 inp avail_out) st

/-! ## Relations and invariants used in the proofs -/

/-- The locals `c1` differ from `c` at most in the accumulator and the input cursor. -/
def Acc (c c1 : Cfg) : Prop :=
  c1.strm = c.strm ∧ c1.state = c.state ∧ c1.put = c.put ∧ c1.left = c.left ∧
  c1.in_ = c.in_ ∧ c1.out = c.out ∧ c1.ret = c.ret

/-- The locals a pulling loop ends with. -/
def Pulled.cfg : Pulled → Cfg
  | .got _ c => c
  | .short c => c

/-- The locals are those of a call that has not touched `in`, `out` and `ret`. -/
def K (in0 out0 : Nat) (c : Cfg) : Prop :=
  c.in_ = in0 ∧ c.ret = Z_OK ∧ c.out = out0

/-- Loop invariant: `in` is untouched, and `out` and `ret` are untouched unless
the mode is BAD. -/
def J (in0 out0 : Nat) (c : Cfg) : Prop :=
  c.in_ = in0 ∧ ((c.ret = Z_OK ∧ c.out = out0) ∨ c.state.mode = BAD)

/-- What holds of the locals at `inf_leave`. -/
def JL (in0 out0 : Nat) (c : Cfg) : Prop :=
  c.in_ = in0 ∧ ((c.ret = Z_OK ∧ c.out = out0) ∨
    (c.ret ≠ Z_OK ∧ (c.ret = Z_DATA_ERROR → c.state.mode = BAD)))

/-- The invariant `J` read on an outcome of the `switch`. -/
def JO (in0 out0 : Nat) : Outcome → Prop
  | .cont c => J in0 out0 c
  | .leave c => JL in0 out0 c
  | .done r _ => r ≠ Z_OK ∧ r ≠ Z_DATA_ERROR

/-- The locals `c1` come from `c` by code that writes no output and leaves the
counters, the checksum and the window alone; it may have moved to mode BAD. -/
structure Same (c c1 : Cfg) : Prop where
  put : c1.put = c.put
  left : c1.left = c.left
  in_ : c1.in_ = c.in_
  out : c1.out = c.out
  ret : c1.ret = c.ret
  adler : c1.strm.adler = c.strm.adler
  total_in : c1.strm.total_in = c.strm.total_in
  total_out : c1.strm.total_out = c.strm.total_out
  check : c1.state.check = c.state.check
  wrap : c1.state.wrap = c.state.wrap
  total : c1.state.total = c.state.total
  wsize : c1.state.wsize = c.state.wsize
  whave : c1.state.whave = c.state.whave
  write : c1.state.write = c.state.write
  window : c1.state.window = c.state.window
  havedict : c1.state.havedict = c.state.havedict
  mode : c1.state.mode = c.state.mode ∨ c1.state.mode = BAD

/-- The locals a repeat code ends with. -/
def Repeat.cfg : Repeat → Cfg
  | .leave c => c
  | .stop c => c
  | .rep c _ _ => c

/-- The stream carries a decoder state, and it is in mode BAD. -/
def isBad (s : z_stream) : Prop :=
  ∃ st, s.state = some st ∧ st.mode = BAD

/-- The stream a call returned (the empty stream if the call ran out of passes). -/
def streamOf (r : Option (Int × z_stream)) : z_stream :=
  (r.getD (0, strm0)).2

/-- The value of a byte string read as a little-endian number. -/
def le_bytes : List Nat → Nat
  | [] => 0
  | b :: bs => b + 256 * le_bytes bs

/-- The decoder state behind a stream (a zeroed state if there is none). -/
def stateOf (s : z_stream) : inflate_state :=
  s.state.getD ws0

/-- The locals of a call that resumes in STORED with an empty accumulator: the
decoder has read `78 9C 01`, and the next input is a stored header whose NLEN is
not the complement of LEN (scenario S6), then the two data bytes. -/
def S6_cfg : Cfg :=
  (thenEnter (zlib_inflate noExt 16 (feed (initStream 15) [0x78, 0x9C, 0x01] 8) Z_NO_FLUSH)
    [0x02, 0x00, 0xFD, 0xFE, 0x48, 0x69] 8).getD (enter strm0 ws0)

/-- The four bytes of a 32-bit value, most significant first. -/
def be32 (a : Nat) : List Nat :=
  [a / 16777216 % 256, a / 65536 % 256, a / 256 % 256, a % 256]

/-- One final stored block carrying `B`: the byte `01`, LEN, its complement, `B`. -/
def stored_block (B : List Nat) : List Nat :=
  [0x01, B.length % 256, B.length / 256, (65535 - B.length) % 256, (65535 - B.length) / 256] ++ B

/-- The stored block of `B` in the zlib wrapper: header `78 9C`, the block, and
the Adler-32 of `B`, most significant byte first. -/
def zlib_stored (B : List Nat) : List Nat :=
  [0x78, 0x9C] ++ stored_block B ++ be32 (adler32_fold 1 B)

/-- The input of scenario S3 with the Adler-32 of `48 69` as its trailer. -/
def S3_fixed : List Nat :=
  [0x78, 0x9C, 0x01, 0x02, 0x00, 0xFD, 0xFF, 0x48, 0x69, 0x00, 0xFB, 0x00, 0xB2]

/-- The stream a first call leaves behind on `dict_stream`, where it returns
`Z_NEED_DICT`. -/
def need_dict_stream : z_stream :=
  streamOf (zlib_inflate noExt 10 (feed (initStream 15) dict_stream 0) Z_NO_FLUSH)

/-- The locals with which the loop was left for `inf_leave` (those of an idle
call if it was not). -/
def leaveCfg (o : Option Outcome) : Cfg :=
  match o with
  | some (.leave c) => c
  | _ => enter strm0 ws0

/-- The fields of the state and the stream that the loop of `zlib_inflate`
only reads: the window with its cursors and sizes, and the three counters. -/
structure Fv where
  window : List Nat
  whave : Nat
  write : Nat
  wsize : Nat
  wrap : Nat
  total : Nat
  total_in : Nat
  total_out : Nat

/-- The window fields of a state are those of `v`. -/
def Hard (v : Fv) (st : inflate_state) : Prop :=
  st.window = v.window ∧ st.whave = v.whave ∧ st.write = v.write ∧ st.wsize = v.wsize ∧
  st.wrap = v.wrap

/-- The counters are those of `v`, and `ret` is still `Z_OK`. -/
def Soft (v : Fv) (c : Cfg) : Prop :=
  c.state.total = v.total ∧ c.strm.total_in = v.total_in ∧ c.strm.total_out = v.total_out ∧
  c.ret = Z_OK

def FK (v : Fv) (c : Cfg) : Prop :=
  Hard v c.state ∧ Soft v c

/-- Loop invariant: the window fields are untouched, and so are the counters
unless the mode is BAD. -/
def FJ (v : Fv) (c : Cfg) : Prop :=
  Hard v c.state ∧ (Soft v c ∨ c.state.mode = BAD)

/-- What holds of the window fields and the counters at `inf_leave`. -/
def FL (v : Fv) (c : Cfg) : Prop :=
  Hard v c.state ∧ (Soft v c ∨ c.ret = Z_STREAM_END ∨ c.ret = Z_DATA_ERROR)

/-- The invariant `FJ` read on an outcome of the `switch`. -/
def FO (v : Fv) : Outcome → Prop
  | .cont c => FJ v c
  | .leave c => FL v c
  | .done r s => r ≠ Z_BUF_ERROR ∧ ∃ st, s.state = some st ∧ Hard v st

/-- The contract of the fast path as far as the window and the counters go:
`inflate_fast` reads the window and leaves it, its cursors and the counters as
they are. -/
def FastFrame (E : Ext) : Prop :=
  ∀ strm st out,
    (E.inflate_fast strm st out).2.window = st.window ∧
    (E.inflate_fast strm st out).2.whave = st.whave ∧
    (E.inflate_fast strm st out).2.write = st.write ∧
    (E.inflate_fast strm st out).2.wsize = st.wsize ∧
    (E.inflate_fast strm st out).2.wrap = st.wrap ∧
    (E.inflate_fast strm st out).2.total = st.total ∧
    (E.inflate_fast strm st out).1.total_in = strm.total_in ∧
    (E.inflate_fast strm st out).1.total_out = strm.total_out

/-- The stream a first call leaves behind after the zlib header `78 9C`: the
decoder waits in mode TYPE. -/
def type_stream : z_stream :=
  streamOf (zlib_inflate noExt 10 (feed (initStream 15) [0x78, 0x9C] 8) Z_NO_FLUSH)

/-- The window fields and the counters a call starts with. -/
def Fv.ofStream (strm : z_stream) (st : inflate_state) : Fv :=
  { window := st.window, whave := st.whave, write := st.write, wsize := st.wsize,
    wrap := st.wrap, total := st.total, total_in := strm.total_in,
    total_out := strm.total_out }

/-- The window of `st` is a ring buffer of the history `H`: `whave` counts the
bytes held, at most `wsize`; while the window is not full `write` equals
`whave`; and the byte `d` places before the end of `H`, for `1 ≤ d ≤ whave`, is
at index `(write - d) mod wsize`. Bytes are read with `0` for memory the list
does not reach. -/
def Represents (st : inflate_state) (H : List Nat) : Prop :=
  st.whave = min st.wsize H.length ∧ st.write < st.wsize ∧
  (st.whave < st.wsize → st.write = st.whave) ∧
  ∀ d, 1 ≤ d → d ≤ st.whave →
    st.window.getD ((st.write + st.wsize - d) % st.wsize) 0 = H.getD (H.length - d) 0

/-- The modes in four kinds: `0` for the modes before the zlib header is done
(HEAD, DICTID, DICT), `1` for the modes that decode blocks and the trailer,
`2` for DONE, and `3` for the modes a call never leaves again (BAD, MEM, SYNC
and the gzip header modes, which this decoder does not handle). -/
def kind : inflate_mode → Nat
  | HEAD => 0
  | DICTID => 0
  | DICT => 0
  | TYPE => 1
  | TYPEDO => 1
  | STORED => 1
  | COPY => 1
  | TABLE => 1
  | LENLENS => 1
  | CODELENS => 1
  | LEN => 1
  | LENEXT => 1
  | DIST => 1
  | DISTEXT => 1
  | MATCH => 1
  | LIT => 1
  | CHECK => 1
  | DONE => 2
  | _ => 3

/-- The checksum a call of kind 2 has reached when it wrote the bytes between
`out0` and `left`: `chk` with those bytes folded in. -/
def finalCheck (chk out0 : Nat) (c : Cfg) : Nat :=
  if sub32 out0 c.left ≠ 0 then
    zlib_adler32 chk (some (readBack c.put (sub32 out0 c.left) (sub32 out0 c.left)))
  else chk

/-- The locals of a zlib-wrapped call in a block-decoding mode: `out` and `ret`
are untouched and the running checksum is that of the bytes `T` written by
earlier calls. -/
def CK (T : List Nat) (out0 : Nat) (c : Cfg) : Prop :=
  c.state.wrap ≠ 0 ∧ kind c.state.mode = 1 ∧ c.out = out0 ∧ c.ret = Z_OK ∧
  c.state.check = adler32_fold 1 T ∧ c.strm.adler = adler32_fold 1 T

/-- The locals of a zlib-wrapped call in a mode before the header is done:
nothing has been written. -/
def CP (T : List Nat) (out0 : Nat) (c : Cfg) : Prop :=
  c.state.wrap ≠ 0 ∧ kind c.state.mode = 0 ∧ c.out = out0 ∧ c.ret = Z_OK ∧
  c.left = out0 ∧ T = []

/-- As `CK`, but the mode may have become BAD. -/
def CKB (T : List Nat) (out0 : Nat) (c : Cfg) : Prop :=
  c.state.wrap ≠ 0 ∧ c.out = out0 ∧ c.ret = Z_OK ∧
  (c.state.mode = BAD ∨ (kind c.state.mode = 1 ∧ c.state.check = adler32_fold 1 T ∧ c.strm.adler = adler32_fold 1 T))

/-- Loop invariant for the checksum of a zlib-wrapped stream. -/
def CJ (T : List Nat) (out0 : Nat) (c : Cfg) : Prop :=
  c.state.wrap ≠ 0 ∧
  ((kind c.state.mode = 0 ∧ c.out = out0 ∧ c.ret = Z_OK ∧ c.left = out0 ∧ T = []) ∨
   (kind c.state.mode = 1 ∧ c.out = out0 ∧ c.ret = Z_OK ∧ c.state.check = adler32_fold 1 T ∧
      c.strm.adler = adler32_fold 1 T) ∨
   (kind c.state.mode = 2 ∧ c.out = out0 ∧ c.left = out0 ∧ c.state.check = adler32_fold 1 T ∧
      c.strm.adler = adler32_fold 1 T) ∨
   kind c.state.mode = 3)

/-- What holds of the checksum at `inf_leave`. -/
def CL (T : List Nat) (out0 : Nat) (c : Cfg) : Prop :=
  c.state.wrap ≠ 0 ∧
  ((kind c.state.mode = 3 ∧ c.ret ≠ Z_STREAM_END) ∨
   (c.ret = Z_OK ∧ c.out = out0 ∧
      ((kind c.state.mode = 0 ∧ c.left = out0 ∧ T = []) ∨
       (kind c.state.mode = 1 ∧ c.state.check = adler32_fold 1 T ∧ c.strm.adler = adler32_fold 1 T))) ∨
   (c.ret = Z_STREAM_END ∧ kind c.state.mode = 2 ∧ c.out = c.left ∧
      c.state.check = finalCheck (adler32_fold 1 T) out0 c ∧ c.strm.adler = finalCheck (adler32_fold 1 T) out0 c))

/-- The invariant `CJ` read on an outcome of the `switch`. -/
def CO (T : List Nat) (out0 : Nat) : Outcome → Prop
  | .cont c => CJ T out0 c
  | .leave c => CL T out0 c
  | .done r s => r ≠ Z_STREAM_END ∧ ∃ st, s.state = some st ∧ st.wrap ≠ 0 ∧
      (kind st.mode = 3 ∨ (kind st.mode = 0 ∧ s.avail_out = out0 ∧ T = []))

/-- The contract of the fast path as far as the checksum goes: called in mode
LEN, `inflate_fast` leaves `wrap`, `check` and `adler` alone, and comes back in
a block-decoding mode or in BAD. -/
def FastCheck (E : Ext) : Prop :=
  ∀ strm st out, st.mode = LEN →
    (E.inflate_fast strm st out).2.wrap = st.wrap ∧
    (E.inflate_fast strm st out).2.check = st.check ∧
    (E.inflate_fast strm st out).1.adler = strm.adler ∧
    (kind (E.inflate_fast strm st out).2.mode = 1 ∨ (E.inflate_fast strm st out).2.mode = BAD)

/-- The checksum of a zlib-wrapped decoder follows the bytes `T` its calls have
written so far: before the header is done nothing has been written, and from
then on `check` and `adler` are the Adler-32 of `T`, unless the decoder is in a
mode it never leaves. -/
def Tracked (s : z_stream) (T : List Nat) : Prop :=
  ∃ st, s.state = some st ∧ st.wrap ≠ 0 ∧
    ((kind st.mode = 0 ∧ T = []) ∨ kind st.mode = 3 ∨
     ((kind st.mode = 1 ∨ kind st.mode = 2) ∧ st.check = adler32_fold 1 T ∧
        s.adler = adler32_fold 1 T))

/-- What the caller sets before one call of `zlib_inflate`: the input and the
output buffer, and the flush value. -/
structure Call where
  next_in : Option (List Nat)
  avail_in : Nat
  next_out : List Nat
  avail_out : Nat
  flush : Int
  deriving DecidableEq, Repr

/-- The stream with the caller's buffers attached. -/
def supply (s : z_stream) (k : Call) : z_stream :=
  { s with
    next_in := k.next_in
    avail_in := k.avail_in
    next_out := k.next_out
    avail_out := k.avail_out }

/-- The bytes a call wrote: what the stream it returned holds below the output
cursor beyond what was there when the call began. -/
def written (k : Call) (s1 : z_stream) : List Nat :=
  s1.next_out.drop k.next_out.length

/-- A sequence of calls of `zlib_inflate`, each on the stream the one before
returned: the last return code, the last stream, and all the bytes written;
`none` when a call does not return within `fuel` passes. -/
def run (E : Ext) (fuel : Nat) : Int → z_stream → List Nat → List Call →
    Option (Int × z_stream × List Nat)
  | r, s, T, [] => some (r, s, T)
  | _, s, T, k :: ks =>
    match zlib_inflate E fuel (supply s k) k.flush with
    | none => none
    | some (r, s1) => run E fuel r s1 (T ++ written k s1) ks

/-- The stream a sequence of calls ends with (the empty stream if a call did not
return). -/
def runStream (o : Option (Int × z_stream × List Nat)) : z_stream :=
  (o.getD (0, strm0, [])).2.1

/-- The stored stream of `Hi` decoded in two calls, the first with one byte of
output space, the second with the rest of the input and eight more bytes. -/
def two_calls : List Call :=
  [{ next_in := some (zlib_stored [72, 105]), avail_in := 13, next_out := [], avail_out := 1,
     flush := Z_NO_FLUSH },
   { next_in := some [105, 0, 251, 0, 178], avail_in := 5, next_out := [72], avail_out := 8,
     flush := Z_NO_FLUSH }]

/-! ## A stream decoded in pieces -/

/-- What the caller offers for one call: `n_in` more bytes of the stream, and
`n_out` bytes of output space after what has been written. -/
structure Piece where
  n_in : Nat
  n_out : Nat
  flush : Int
  deriving DecidableEq, Repr

/-- The stream with the next `n_in` bytes of the unread input `R` and `n_out`
bytes of output space attached; the output cursor stays where the call before
left it. -/
def offer (s : z_stream) (R : List Nat) (k : Piece) : z_stream :=
  { s with
    next_in := some (R.take k.n_in)
    avail_in := (R.take k.n_in).length
    avail_out := k.n_out }

/-- A stream decoded in pieces: each call is offered the start of the input that
the calls before it have not consumed. The result is the last return code, the
last stream (its `next_out` holds all the bytes written) and the input not yet
consumed; `none` when a call does not return within `fuel` passes. -/
def pieces (E : Ext) (fuel : Nat) : Int → z_stream → List Nat → List Piece →
    Option (Int × z_stream × List Nat)
  | r, s, R, [] => some (r, s, R)
  | _, s, R, k :: ks =>
    match zlib_inflate E fuel (offer s R k) k.flush with
    | none => none
    | some (r, s1) => pieces E fuel r s1 (R.drop ((R.take k.n_in).length - s1.avail_in)) ks

/-! ## The cursors of the window -/

/-- The cursors of the window are in range: the window has a size that fits 32
bits, `write` is below it, `whave` is at most it, and as long as the window is
not full `write` equals `whave`. -/
def Cursors (st : inflate_state) : Prop :=
  0 < st.wsize ∧ st.wsize < 4294967296 ∧ st.write < st.wsize ∧ st.whave ≤ st.wsize ∧
  (st.whave < st.wsize → st.write = st.whave)

/-- The streams a caller gets to after `zlib_inflateInit2` has accepted its
window size: by calls of `zlib_inflate` on buffers of its choice that return,
and by calls of `zlib_inflateIncomp` on input of its choice. -/
inductive Reachable (E : Ext) : z_stream → Prop
  | init (strm : z_stream) (ws : inflate_state) (w : Int) :
      (8 ≤ w ∧ w ≤ 15) ∨ (-15 ≤ w ∧ w ≤ -8) → Reachable E (zlib_inflateInit2 strm ws w).2
  | call (s s1 : z_stream) (k : Call) (fuel : Nat) (r : Int) :
      Reachable E s → zlib_inflate E fuel (supply s k) k.flush = some (r, s1) → Reachable E s1
  | incomp (s : z_stream) (next_in : Option (List Nat)) (avail_in : Nat) :
      Reachable E s →
      Reachable E (zlib_inflateIncomp { s with next_in := next_in, avail_in := avail_in }).2

/-- A first call on the stored stream of `Hi` with one byte of output space. -/
def first_call : Call :=
  { next_in := some (zlib_stored [72, 105]), avail_in := 13, next_out := [], avail_out := 1,
    flush := Z_NO_FLUSH }

/-! ## Reading the code lengths -/

/-- The state `st1` comes from `st` by appending the lengths `L` to the code
lengths read so far: `have` grows by their number, the first `have` entries of
`lens` (entries the list does not reach reading as `0`) are the old ones
followed by `L`, and nothing is written from the new `have` on; the counts
`nlen` and `ndist` and the mode are those of `st`. -/
def Appends (st st1 : inflate_state) (L : List Nat) : Prop :=
  st1.have_ = st.have_ + L.length ∧
  readFwd st1.lens st1.have_ = readFwd st.lens st.have_ ++ L ∧
  (∀ i, st1.have_ ≤ i → st1.lens.getD i 0 = st.lens.getD i 0) ∧
  st1.nlen = st.nlen ∧ st1.ndist = st.ndist ∧ st1.mode = st.mode

/-- The locals `c3` are those of a rejected repeat code: mode BAD with the
message of a bad repeat, and `lens` and `have` as they were in `c`. -/
def RepeatRejected (c c3 : Cfg) : Prop :=
  c3.state.mode = BAD ∧ c3.strm.msg = some "invalid bit length repeat" ∧
  c3.state.lens = c.state.lens ∧ c3.state.have_ = c.state.have_

/-- Locals in CODELENS on a table whose only entry is the symbol `val` with a
code of one bit, with the byte `hold` in the accumulator; `have` lengths have
been read, of `257 + 1`. -/
def codelens_cfg (val hold have_ : Nat) : Cfg :=
  { enter strm0 { ws0 with
      mode := CODELENS, lencode := [⟨0, 1, val⟩], lenbits := 0, nlen := 257, ndist := 1,
      have_ := have_, lens := [7] } with
    hold := hold, bits := 8 }

/-- What a repeat of `copy` times the length `len` does in one round of the
loop of CODELENS run with `fuel + 1` rounds from the locals `c`: rejected if it
would take the count of lengths past `nlen + ndist`, else the lengths are
appended and the loop goes on. -/
def RepeatOutcome (fuel : Nat) (c : Cfg) (copy len : Nat) : Prop :=
  (c.state.nlen + c.state.ndist < c.state.have_ + copy →
    ∃ c3, codelens_loop (fuel + 1) c = (true, c3) ∧ RepeatRejected c c3) ∧
  (c.state.have_ + copy ≤ c.state.nlen + c.state.ndist →
    ∃ c3, codelens_loop (fuel + 1) c = codelens_loop fuel c3 ∧
      Appends c.state c3.state (List.replicate copy len))

/-- Locals in MATCH with an empty window of 256 bytes: this call has written
the byte `72`, 7 bytes of output space are left, and 3 bytes are to be copied
from 1 byte back. -/
def match_cfg : Cfg :=
  { enter strm0 { ws0 with mode := MATCH, wsize := 256, length := 3, offset := 1 } with
    put := [72], left := 7, out := 8 }

/-! ## The bit accumulator -/

/-- The accumulator primitives: `PULLBYTE()`, `DROPBITS(n)`, `BYTEBITS()` and
`INITBITS()`. -/
inductive Prim where
  | pull
  | drop (n : Nat)
  | align
  | init
  deriving DecidableEq, Repr

/-- The number of bits a primitive removes from the accumulator of `c`. -/
def Prim.removes (c : Cfg) : Prim → Nat
  | .pull => 0
  | .drop n => n
  | .align => c.bits &&& 7
  | .init => c.bits

/-- One primitive on the locals `c`; `none` is the `goto inf_leave` of a
`PULLBYTE()` without input. -/
def Prim.run (c : Cfg) : Prim → Option Cfg
  | .pull => PULLBYTE c
  | .drop n => some (DROPBITS n c)
  | .align => some (BYTEBITS c)
  | .init => some (INITBITS c)

/-- A sequence of primitives run from the locals `c`: the locals it ends in and
the number of bits removed from the accumulator, counted on from `t`. -/
def runPrims : List Prim → Cfg → Nat → Option (Cfg × Nat)
  | [], c, t => some (c, t)
  | p :: ps, c, t =>
    match p.run c with
    | none => none
    | some c1 => runPrims ps c1 (t + p.removes c)

/-- The sequence keeps within the width of the accumulator: a byte is pulled
only while `bits ≤ 24`, and `DROPBITS(n)` is used with `n ≤ bits`. -/
def fits : List Prim → Cfg → Bool
  | [], _ => true
  | p :: ps, c =>
    (match p with
      | .pull => decide (c.bits ≤ 24)
      | .drop n => decide (n ≤ c.bits)
      | _ => true) &&
    (match p.run c with
      | none => true
      | some c1 => fits ps c1)

/-- Locals with an empty accumulator and the input bytes `I` at hand. -/
def acc_cfg (I : List Nat) : Cfg :=
  { enter strm0 ws0 with next := some I, have_ := I.length }

/-- Every entry of the table has a code of at most 15 bits; an index beyond
the table reads as the zero entry. -/
def TabBits (t : List code) : Prop :=
  ∀ i, (t.getD i ⟨0, 0, 0⟩).bits ≤ 15

/-- The two-level codes of the table are at most 15 bits long: for a root entry
that links to a sub-table (`op & 0xf0 = 0`, and `op ≠ 0` in a literal/length
table, `lit` true), the bits of the root and of any of the `2 ^ op` entries of
the sub-table add up to at most 15. -/
def LinkBits (lit : Bool) (t : List code) : Prop :=
  ∀ i k, (lit = true → (t.getD i ⟨0, 0, 0⟩).op ≠ 0) →
    (t.getD i ⟨0, 0, 0⟩).op &&& 0xf0 = 0 → k < 2 ^ (t.getD i ⟨0, 0, 0⟩).op →
    (t.getD i ⟨0, 0, 0⟩).bits + (t.getD ((t.getD i ⟨0, 0, 0⟩).val + k) ⟨0, 0, 0⟩).bits ≤ 15

/-- The modes by what they ask of the accumulator and the tables: `1` for the
modes that read 32 bits at once (DICTID, CHECK), `2` for CODELENS, `3` and `4`
for the modes that decode with the literal/length and distance tables, `4` for
the two that read `extra` bits (LENEXT, DISTEXT), `0` for the others. -/
def acc_kind : inflate_mode → Nat
  | DICTID => 1
  | CHECK => 1
  | CODELENS => 2
  | LEN => 3
  | LENEXT => 4
  | DIST => 3
  | DISTEXT => 4
  | MATCH => 3
  | LIT => 3
  | _ => 0

/-- The codes of the literal/length and the distance table of the state are at
most 15 bits long. -/
def TabAll (st : inflate_state) : Prop :=
  TabBits st.lencode ∧ LinkBits true st.lencode ∧
  TabBits st.distcode ∧ LinkBits false st.distcode

/-- The tables of the state are as its mode needs them: in CODELENS the codes
of `lencode` are at most 15 bits long, in the decoding modes those of
`lencode` and `distcode` are, and in LENEXT and DISTEXT `extra` is at most 15. -/
def Tabs (st : inflate_state) : Prop :=
  (acc_kind st.mode = 2 → TabBits st.lencode) ∧
  (3 ≤ acc_kind st.mode → TabAll st) ∧
  (acc_kind st.mode = 4 → st.extra ≤ 15)

/-- Loop invariant for the accumulator: at most 32 bits are held, in the local
`bits` and in the copy the state keeps; in DICTID and CHECK `bits` is a
multiple of 8; and the tables are as the mode needs them. -/
def BJ (c : Cfg) : Prop :=
  c.bits ≤ 32 ∧ c.state.bits ≤ 32 ∧ (acc_kind c.state.mode = 1 → c.bits % 8 = 0) ∧
  Tabs c.state

/-- The invariant `BJ` on a state between calls. -/
def BS (st : inflate_state) : Prop :=
  st.bits ≤ 32 ∧ (acc_kind st.mode = 1 → st.bits % 8 = 0) ∧ Tabs st

/-- The invariant `BJ` read on an outcome of the `switch`. -/
def BO : Outcome → Prop
  | .cont c => BJ c
  | .leave c => BJ c
  | .done _ s => ∃ st, s.state = some st ∧ BS st

/-- The contract of the table builder as far as code lengths go: the codes of
every table it stores are at most 15 bits long. -/
def TableBits (E : Ext) : Prop :=
  ∀ ty lens codes bits,
    TabBits (E.inflate_table ty lens codes bits).2.1 ∧
    LinkBits (decide (ty ≠ codetype.DISTS)) (E.inflate_table ty lens codes bits).2.1

/-- The contract of the fast path as far as the accumulator goes: called in
mode LEN with at most 32 bits held, `inflate_fast` comes back with at most 32
bits held, the tables untouched, and in mode LEN, TYPE or BAD. -/
def FastBits (E : Ext) : Prop :=
  ∀ strm st out, st.mode = LEN → st.bits ≤ 32 →
    (E.inflate_fast strm st out).2.bits ≤ 32 ∧
    (E.inflate_fast strm st out).2.lencode = st.lencode ∧
    (E.inflate_fast strm st out).2.distcode = st.distcode ∧
    ((E.inflate_fast strm st out).2.mode = LEN ∨ (E.inflate_fast strm st out).2.mode = TYPE ∨
      (E.inflate_fast strm st out).2.mode = BAD)

/-- What the loops of TABLE to CODELENS keep of the state: the accumulator copy
and the tables; and the mode, unless it becomes BAD. -/
structure Kept (st st1 : inflate_state) : Prop where
  bits : st1.bits = st.bits
  lencode : st1.lencode = st.lencode
  distcode : st1.distcode = st.distcode
  mode : st1.mode = st.mode ∨ st1.mode = BAD

/-- What a repeat of `copy` times the length `len` does in a pass through
CODELENS from the locals `c`: rejected if it would take the count of lengths
past `nlen + ndist`, else the lengths are appended and the pass goes on as a
pass from the locals with the lengths appended. -/
def RepeatPass (E : Ext) (flush : Int) (c : Cfg) (copy len : Nat) : Prop :=
  (c.state.nlen + c.state.ndist < c.state.have_ + copy →
    ∃ c3, step E flush c = .cont c3 ∧ RepeatRejected c c3) ∧
  (c.state.have_ + copy ≤ c.state.nlen + c.state.ndist →
    ∃ c3, step E flush c = step E flush c3 ∧
      Appends c.state c3.state (List.replicate copy len))

/-! ## Accounting for the output -/

/-- The entries of a literal/length table that the decoder takes for a length
(or for a link to a sub-table) carry a value from 1 to 65535: `val` is an
`unsigned short`, a length base is at least 3, and a sub-table lies behind the
root table. -/
def LenTab (t : List code) : Prop :=
  ∀ i, (t.getD i ⟨0, 0, 0⟩).op ≠ 0 → (t.getD i ⟨0, 0, 0⟩).op &&& 32 = 0 →
    (t.getD i ⟨0, 0, 0⟩).op &&& 64 = 0 →
    1 ≤ (t.getD i ⟨0, 0, 0⟩).val ∧ (t.getD i ⟨0, 0, 0⟩).val ≤ 65535

/-- What the modes that decode a match ask of the state: in the decoding modes
the literal/length table is a `LenTab`; in LENEXT a length from 1 to 65535 is
pending with at most 15 extra bits to read; in DIST, DISTEXT and MATCH a length
of at least 1 is pending. -/
def LS (st : inflate_state) : Prop :=
  (3 ≤ acc_kind st.mode → LenTab st.lencode) ∧
  (st.mode = LENEXT → 1 ≤ st.length ∧ st.length ≤ 65535 ∧ st.extra ≤ 15) ∧
  (st.mode = DIST ∨ st.mode = DISTEXT ∨ st.mode = MATCH → 1 ≤ st.length)

/-- The modes in which a call has written nothing yet when it meets them: the
modes before the zlib header is done, and the modes the loop answers by a
`return`. -/
def quiet (m : inflate_mode) : Prop :=
  kind m = 0 ∨ (kind m = 3 ∧ m ≠ BAD)

/-- The locals are past the trailer check of a zlib stream: the mode is DONE,
or BAD with the message of a failed check. -/
def Passed (c : Cfg) : Prop :=
  c.state.wrap ≠ 0 ∧
  (c.state.mode = DONE ∨ (c.state.mode = BAD ∧ c.strm.msg = some "incorrect data check"))

/-- The output cursor `put` with `left` bytes of space stands `out0 - left`
bytes past the place `P0` where the call began. -/
def Acct (P0 : List Nat) (out0 : Nat) (put : List Nat) (left : Nat) : Prop :=
  ∃ O, put = P0 ++ O ∧ left + O.length = out0

/-- Loop invariant for the output, without the part on `ret`: the locals and
the stream account for the bytes written since the call began at `P0` with
`out0` bytes of space; the state is as its mode needs it; `wrap` is `w0` and `wbits` is `b0`; in a
quiet mode nothing has been written; `out` is `out0`, or `left` once the trailer
check is passed. -/
def PB (P0 : List Nat) (out0 w0 b0 : Nat) (c : Cfg) : Prop :=
  Acct P0 out0 c.put c.left ∧ Acct P0 out0 c.strm.next_out c.strm.avail_out ∧
  LS c.state ∧ (c.state.wrap = w0 ∧ c.state.wbits = b0) ∧
  (quiet c.state.mode → c.put = P0 ∧ c.strm.next_out = P0) ∧
  (Passed c → c.out = c.left) ∧ (¬ Passed c → c.out = out0)

/-- Loop invariant for the output. -/
def PJ (P0 : List Nat) (out0 w0 b0 : Nat) (c : Cfg) : Prop :=
  PB P0 out0 w0 b0 c ∧ (c.ret = Z_OK ∨ c.state.mode = BAD)

/-- What holds of the output at `inf_leave`. -/
def PL (P0 : List Nat) (out0 w0 b0 : Nat) (c : Cfg) : Prop :=
  PB P0 out0 w0 b0 c ∧
  ((c.ret = Z_OK ∧ kind c.state.mode ≤ 1) ∨ (c.ret = Z_DATA_ERROR ∧ c.state.mode = BAD) ∨
    (c.ret = Z_STREAM_END ∧ c.state.mode = DONE))

/-- The invariant `PJ` read on an outcome of the `switch`. -/
def PO (P0 : List Nat) (out0 w0 b0 : Nat) : Outcome → Prop
  | .cont c => PJ P0 out0 w0 b0 c
  | .leave c => PL P0 out0 w0 b0 c
  | .done r s => r ≠ Z_STREAM_END ∧ s.next_out = P0 ∧ s.avail_out = out0 ∧
      ∃ st, s.state = some st ∧ LS st ∧ st.wrap = w0 ∧ st.wbits = b0

/-- The contract of the table builder as far as lengths go: the literal/length
table it stores is a `LenTab`. -/
def TableLens (E : Ext) : Prop :=
  ∀ lens codes bits, LenTab (E.inflate_table .LENS lens codes bits).2.1

/-- The contract of the fast path as far as the output goes: called in mode
LEN, `inflate_fast` moves `next_out` up over the bytes it wrote and lowers
`avail_out` by their number, leaves the literal/length table, `wrap` and `wbits` alone,
and comes back in mode LEN or TYPE, or in BAD with a message of its own. -/
def FastOut (E : Ext) : Prop :=
  ∀ strm st out, st.mode = LEN →
    (∃ W, (E.inflate_fast strm st out).1.next_out = strm.next_out ++ W ∧
      (E.inflate_fast strm st out).1.avail_out + W.length = strm.avail_out) ∧
    (E.inflate_fast strm st out).2.lencode = st.lencode ∧
    ((E.inflate_fast strm st out).2.wrap = st.wrap ∧
      (E.inflate_fast strm st out).2.wbits = st.wbits) ∧
    ((E.inflate_fast strm st out).2.mode = LEN ∨ (E.inflate_fast strm st out).2.mode = TYPE ∨
      ((E.inflate_fast strm st out).2.mode = BAD ∧
        (E.inflate_fast strm st out).1.msg ≠ some "incorrect data check"))

/-- The locals `c1` come from `c` by code that writes no output: the output
cursor and its count, `out`, `wrap` and `wbits` are as they were. -/
structure Frame (c c1 : Cfg) : Prop where
  put : c1.put = c.put
  left : c1.left = c.left
  out : c1.out = c.out
  next_out : c1.strm.next_out = c.strm.next_out
  avail_out : c1.strm.avail_out = c.strm.avail_out
  wrap : c1.state.wrap = c.state.wrap ∧ c1.state.wbits = c.state.wbits

/-- As `Frame`, for a loop inside a case: `ret` is as it was, and the mode and
the message are as they were unless the loop has set the mode BAD with a
message of its own. -/
structure Calm (c c1 : Cfg) : Prop where
  frame : Frame c c1
  ret : c1.ret = c.ret
  mode : (c1.state.mode = c.state.mode ∧ c1.strm.msg = c.strm.msg) ∨
    (c1.state.mode = BAD ∧ c1.strm.msg ≠ some "incorrect data check")

/-- The call that returned the stream `s` has left the decoder past the trailer
check of a zlib stream: `wrap` is on, and the mode is DONE, or BAD with the
message of the check. -/
def pastTrailer (s : z_stream) : Bool :=
  match s.state with
  | none => false
  | some st =>
    decide (st.wrap ≠ 0) &&
      (decide (st.mode = DONE) ||
        (decide (st.mode = BAD) && decide (s.msg = some "incorrect data check")))

/-- The bytes a call of `zlib_inflate` enters in the window: the bytes it wrote,
or none of them when it has left the decoder past the trailer check. -/
def entered (k : Call) (s1 : z_stream) : List Nat :=
  if pastTrailer s1 then [] else written k s1

/-- The streams a caller gets to after `zlib_inflateInit2` has accepted its
window size, each with the history of the bytes entered in its window since the
last reset: a reset empties the history, a call of `zlib_inflate` that returns
adds the bytes it entered, and a call of `zlib_inflateIncomp` that returns
`Z_OK` adds its input bytes. -/
inductive ReachH (E : Ext) : z_stream → List Nat → Prop
  | init (strm : z_stream) (ws : inflate_state) (w : Int) :
      (8 ≤ w ∧ w ≤ 15) ∨ (-15 ≤ w ∧ w ≤ -8) → ReachH E (zlib_inflateInit2 strm ws w).2 []
  | reset (s : z_stream) (H : List Nat) :
      ReachH E s H → ReachH E (zlib_inflateReset s).2 []
  | call (s s1 : z_stream) (k : Call) (fuel : Nat) (r : Int) (H : List Nat) :
      ReachH E s H → k.avail_out < 4294967296 →
      zlib_inflate E fuel (supply s k) k.flush = some (r, s1) → ReachH E s1 (H ++ entered k s1)
  | incomp (s : z_stream) (next_in : Option (List Nat)) (avail_in : Nat) (H : List Nat) :
      ReachH E s H → avail_in < 4294967296 →
      ReachH E (zlib_inflateIncomp { s with next_in := next_in, avail_in := avail_in }).2
        (H ++ if (zlib_inflateIncomp { s with next_in := next_in, avail_in := avail_in }).1 = Z_OK
          then readFwd (next_in.getD []) avail_in else [])

/-! ## Decoding in pieces and in one call -/

/-- The case LEN with the fast path not taken. -/
def case_LEN_slow (c : Cfg) : Outcome :=
  match code_loop c.state.lencode c.state.lenbits (c.have_ + 1) c with
  | .short c => .leave c
  | .got this c =>
    if this.op ≠ 0 ∧ this.op &&& 0xf0 = 0 then
      match code_second c.state.lencode this c with
      | .short c => .leave c
      | .got this c => LEN_tail this c
    else LEN_tail this c

/-- What the cases TABLE, LENLENS and CODELENS end in before they fall into
LEN: an outcome of their own, or the locals with which LEN is entered. -/
inductive Pre where
  | out (o : Outcome)
  | len (c : Cfg)

/-- The outcome of a pass, given what LEN does. -/
def Pre.run (K : Cfg → Outcome) : Pre → Outcome
  | .out o => o
  | .len c => K c

/-- The rest of CODELENS after its loop, up to LEN. -/
def CODELENS_pre (E : Ext) (c : Cfg) : Pre :=
  if c.state.mode = BAD then .out (.cont c)
  else
    let r := E.inflate_table .LENS c.state.lens c.state.nlen 9
    let c := { c with ret := r.1, state := { c.state with lencode := r.2.1, lenbits := r.2.2 } }
    if r.1 ≠ 0 then .out (.cont (c.bad "invalid literal/lengths set"))
    else
      let r := E.inflate_table .DISTS (c.state.lens.drop c.state.nlen) c.state.ndist 6
      let c := { c with ret := r.1, state := { c.state with distcode := r.2.1, distbits := r.2.2 } }
      if r.1 ≠ 0 then .out (.cont (c.bad "invalid distances set"))
      else .len (c.setMode LEN)

/-- The case CODELENS up to LEN. -/
def case_CODELENS_pre (E : Ext) (c : Cfg) : Pre :=
  match codelens_loop (add32 c.state.nlen c.state.ndist) c with
  | (false, c) => .out (.leave c)
  | (true, c) => CODELENS_pre E c

/-- The rest of LENLENS after its first loop, up to LEN. -/
def LENLENS_pre (E : Ext) (c : Cfg) : Pre :=
  let c := { c with state := lenlens_fill 19 c.state }
  let r := E.inflate_table .CODES c.state.lens 19 7
  let c := { c with ret := r.1, state := { c.state with lencode := r.2.1, lenbits := r.2.2 } }
  if r.1 ≠ 0 then .out (.cont (c.bad "invalid code lengths set"))
  else case_CODELENS_pre E { c with state := { c.state with have_ := 0, mode := CODELENS } }

/-- The case LENLENS up to LEN. -/
def case_LENLENS_pre (E : Ext) (c : Cfg) : Pre :=
  match lenlens_loop c.state.ncode c with
  | (false, c) => .out (.leave c)
  | (true, c) => LENLENS_pre E c

/-- The case TABLE up to LEN. -/
def case_TABLE_pre (E : Ext) (c : Cfg) : Pre :=
  match NEEDBITS 14 c with
  | (false, c) => .out (.leave c)
  | (true, c) =>
    let c := DROPBITS 5 { c with state := { c.state with nlen := add32 (BITS c 5) 257 } }
    let c := DROPBITS 5 { c with state := { c.state with ndist := add32 (BITS c 5) 1 } }
    let c := DROPBITS 4 { c with state := { c.state with ncode := add32 (BITS c 4) 4 } }
    if c.state.nlen > 286 ∨ c.state.ndist > 30 then
      .out (.cont (c.bad "too many length or distance symbols"))
    else case_LENLENS_pre E { c with state := { c.state with have_ := 0, mode := LENLENS } }

/-- One pass through the `switch` with the fast path of LEN not taken. -/
def sstep (E : Ext) (flush : Int) (c : Cfg) : Outcome :=
  match c.state.mode with
  | TABLE => (case_TABLE_pre E c).run case_LEN_slow
  | LENLENS => (case_LENLENS_pre E c).run case_LEN_slow
  | CODELENS => (case_CODELENS_pre E c).run case_LEN_slow
  | LEN => case_LEN_slow c
  | _ => step E flush c

/-- The locals after `n` passes without the fast path that each ended in a
`break`; `none` when one of them left the loop. -/
def slow_passes (E : Ext) (flush : Int) : Nat → Cfg → Option Cfg
  | 0, c => some c
  | n + 1, c =>
    match sstep E flush c with
    | .cont c1 => slow_passes E flush n c1
    | _ => none

/-- What two decodes of the same stream share while they stand at the same
place of it: the accumulator is the same, the input `l` that the first has left
is the end of the input `I` that it was offered, and the second has `l ++ X`
left, `X` being the input behind `I`. -/
def In (I X : List Nat) (c C : Cfg) : Prop :=
  c.hold = C.hold ∧ c.bits = C.bits ∧
  ∃ U l, I = U ++ l ∧ c.next = some l ∧ c.have_ = l.length ∧
    C.next = some (l ++ X) ∧ C.have_ = l.length + X.length

/-- The mode with a pending TYPE read as TYPEDO, which is what the entry of a
call makes of it. -/
def vmode (m : inflate_mode) : inflate_mode :=
  if m = TYPE then TYPEDO else m

/-- The modes in which `state->length` holds a value that is still to be used. -/
def lenLive (m : inflate_mode) : Bool :=
  decide (m = COPY ∨ m = LENEXT ∨ m = DIST ∨ m = DISTEXT ∨ m = MATCH ∨ m = LIT)

/-- The modes in which `state->offset` holds a value that is still to be used. -/
def offLive (m : inflate_mode) : Bool :=
  decide (m = DISTEXT ∨ m = MATCH)

/-- The modes in which `state->extra` holds a value that is still to be used. -/
def extLive (m : inflate_mode) : Bool :=
  decide (m = LENEXT ∨ m = DISTEXT)

/-- The part of the state that decides how the decode goes on, apart from the
accumulator, the window and the checksum: a field that the mode does not use
any more reads as zero. -/
structure View where
  mode : inflate_mode
  last : Nat
  wrap : Nat
  havedict : Nat
  wbits : Nat
  wsize : Nat
  lencode : List code
  distcode : List code
  lenbits : Nat
  distbits : Nat
  ncode : Nat
  nlen : Nat
  ndist : Nat
  have_ : Nat
  lens : List Nat
  length : Nat
  offset : Nat
  extra : Nat

/-- The view of a state. -/
def view (st : inflate_state) : View :=
  { mode := vmode st.mode, last := st.last, wrap := st.wrap, havedict := st.havedict,
    wbits := st.wbits, wsize := st.wsize, lencode := st.lencode, distcode := st.distcode,
    lenbits := st.lenbits, distbits := st.distbits, ncode := st.ncode, nlen := st.nlen,
    ndist := st.ndist, have_ := st.have_, lens := st.lens,
    length := if lenLive st.mode then st.length else 0,
    offset := if offLive st.mode then st.offset else 0,
    extra := if extLive st.mode then st.extra else 0 }

/-- The entries of the root of a table are replicated: an index of `n` bits
that agrees with the index `i` in the low `bits` bits of the entry at `i` holds
the same entry. `n` is at most 32, and `bits`, an `unsigned char`, at most 255. -/
def PrefixTab (t : List code) (n : Nat) : Prop :=
  n ≤ 32 ∧ (∀ i, (t.getD i ⟨0, 0, 0⟩).bits ≤ 255) ∧ ∀ i j, i < 2 ^ n → j < 2 ^ n →
    j % 2 ^ (t.getD i ⟨0, 0, 0⟩).bits = i % 2 ^ (t.getD i ⟨0, 0, 0⟩).bits →
    t.getD j ⟨0, 0, 0⟩ = t.getD i ⟨0, 0, 0⟩

/-- The tables of the state are replicated where the mode reads them. -/
def TabsP (st : inflate_state) : Prop :=
  (2 ≤ acc_kind st.mode → PrefixTab st.lencode st.lenbits) ∧
  (3 ≤ acc_kind st.mode → PrefixTab st.distcode st.distbits)

/-- What a call that decodes a stream in pieces (locals `c`) shares with the
decode of the whole stream in one call without the fast path (locals `C`)
while the mode decodes: `P` is where the output began, `H` what the calls
before this one wrote, `I` the input that this call was offered and `X` the
input behind it, `ob` the output space of this call and `OB` that of the decode
in one call. -/
structure Core (P H I X : List Nat) (ob OB : Nat) (c C : Cfg) : Prop where
  inp : In I X c C
  left : c.left ≤ C.left
  ret : c.ret = Z_OK ∧ C.ret = Z_OK
  view : view c.state = view C.state
  acct : ∃ O, c.put = P ++ (H ++ O) ∧ c.left + O.length = c.out ∧
    C.left + (H.length + O.length) = C.out
  bnd : c.out < 4294967296 ∧ C.out < 4294967296 ∧ c.out + c.state.wsize < 4294967296
  win : Represents c.state H ∧ Represents C.state []
  chk : c.state.wrap ≠ 0 →
    (H = [] ∧ c.state.check = C.state.check) ∨
      (H ≠ [] ∧ c.state.check = adler32_fold C.state.check H)
  pre : kind c.state.mode = 0 → H = [] ∧ c.put = P
  ls : LS c.state
  tabs : TabsP c.state
  dist : c.state.mode = MATCH →
    c.state.offset ≤ c.state.wsize ∧ c.state.offset + C.left ≤ C.out
  outs : c.out = ob ∧ C.out = OB
  big : OB + c.state.wsize < 4294967296

/-- The relation between a decode in pieces and the decode in one call: the
output is the same and so is the mode, which is one that this decoder sets, and
while the mode decodes the locals agree as `Core` has it. -/
structure Rel (P H I X : List Nat) (ob OB : Nat) (c C : Cfg) : Prop where
  put : c.put = C.put
  mode : vmode c.state.mode = vmode C.state.mode
  good : kind c.state.mode = 3 → c.state.mode = BAD
  core : kind c.state.mode ≤ 1 → Core P H I X ob OB c C

/-- The shape the pulling loops share: bytes are pulled until `stop` holds of
the locals; the flag is false when the input (or the fuel) runs out first. -/
def pullUntil (stop : Cfg → Bool) : Nat → Cfg → Bool × Cfg
  | 0, c => (false, c)
  | fuel + 1, c =>
    if stop c then (true, c)
    else
      match PULLBYTE c with
      | none => (false, c)
      | some c1 => pullUntil stop fuel c1

/-- The test that ends the loop of `NEEDBITS(n)`. -/
def stopBits (n : Nat) (c : Cfg) : Bool := decide (¬ c.bits < n)

/-- The test that ends the loop that looks a code up in the root of a table. -/
def stopCode (table : List code) (n : Nat) (c : Cfg) : Bool :=
  decide ((table.getD (BITS c n) ⟨0, 0, 0⟩).bits ≤ c.bits)

/-- The test that ends the loop that looks a code up in a sub-table. -/
def stopCode2 (table : List code) (last : code) (c : Cfg) : Bool :=
  decide (last.bits +
    (table.getD (last.val + (BITS c (last.bits + last.op) >>> last.bits)) ⟨0, 0, 0⟩).bits ≤ c.bits)

/-- A stop test that reads the accumulator only. -/
def AccOnly (stop : Cfg → Bool) : Prop :=
  ∀ c C : Cfg, c.hold = C.hold → c.bits = C.bits → stop c = stop C

/-- The first state and the second have the same window, checksum and `wrap`. -/
structure Fx (st st1 : inflate_state) : Prop where
  wsize : st1.wsize = st.wsize
  whave : st1.whave = st.whave
  write : st1.write = st.write
  window : st1.window = st.window
  check : st1.check = st.check
  wrap : st1.wrap = st.wrap

/-- The locals `c1` differ from `c` in the accumulator, the input cursor, the
message and the decoding fields of the state at most. -/
structure Qt (c c1 : Cfg) : Prop where
  put : c1.put = c.put
  left : c1.left = c.left
  out : c1.out = c.out
  ret : c1.ret = c.ret
  fx : Fx c.state c1.state

/-- Why a call that decodes a piece went to `inf_leave` with `Z_OK`: it has no
input left, or no room left, or it was asked to stop at a block boundary. With
the whole input and room as short, the decode in one call leaves there too. -/
def Why (flush : Int) (c1 C2 : Cfg) (O : Outcome) : Prop :=
  (c1.have_ = 0 ∧ (C2.have_ = 0 → O = .leave C2)) ∨
  (c1.left = 0 ∧ (C2.left = 0 → O = .leave C2)) ∨
  (flush = Z_BLOCK ∧ c1.state.mode = TYPE)

/-- How the outcome `o` of a pass of a call that decodes a piece, begun with
the locals `c`, stands to the outcome `O` of a pass of the decode in one call:
both passes did the same, or the piece got less far and the decode in one call,
taken up to where the piece stands (locals `C2`), ends its pass in `O`. -/
def Out (E : Ext) (f0 flush : Int) (P H I X : List Nat) (ob OB : Nat) (c : Cfg) : Outcome → Outcome → Prop
  | .cont c1, O =>
    c.put <+: c1.put ∧
    ((∃ C1, O = .cont C1 ∧ Rel P H I X ob OB c1 C1) ∨
     (∃ C2, Rel P H I X ob OB c1 C2 ∧ sstep E f0 C2 = O ∧ c1.left < c.left))
  | .leave c1, O =>
    c.put <+: c1.put ∧
    ((c1.ret = Z_OK ∧ kind c1.state.mode ≤ 1 ∧
        ∃ C2, Rel P H I X ob OB c1 C2 ∧ sstep E f0 C2 = O ∧ Why flush c1 C2 O) ∨
     ((c1.ret = Z_STREAM_END ∨ c1.ret = Z_DATA_ERROR) ∧ 2 ≤ kind c1.state.mode ∧
        ∃ C1, O = .leave C1 ∧ Rel P H I X ob OB c1 C1 ∧ C1.ret = c1.ret ∧
          sstep E f0 C1 = .leave C1))
  | .done r s, O =>
    ∃ c1 C2, s = (RESTORE c1).result ∧ c1.put = c.put ∧ kind c1.state.mode = 0 ∧
      Rel P H I X ob OB c1 C2 ∧ sstep E f0 C2 = O ∧ O = .done r (RESTORE C2).result ∧
      r = Z_NEED_DICT

/-- As `Qt`, but the checksum may have been set. -/
structure Qt0 (c c1 : Cfg) : Prop where
  put : c1.put = c.put
  left : c1.left = c.left
  out : c1.out = c.out
  ret : c1.ret = c.ret
  wsize : c1.state.wsize = c.state.wsize
  whave : c1.state.whave = c.state.whave
  write : c1.state.write = c.state.write
  window : c1.state.window = c.state.window
  wrap : c1.state.wrap = c.state.wrap

/-- The locals `C` with the accumulator, the output cursor and the view of the
state apart from the mode read from `c`; `length`, `offset` and `extra` are read
from `c` where the flag is set. This is what `C` is when the two are related and
the flags are set for fields that the mode uses. -/
def tr (bl bo be : Bool) (c C : Cfg) : Cfg :=
  { C with
    hold := c.hold, bits := c.bits, put := c.put,
    state := { C.state with
      last := c.state.last, wrap := c.state.wrap, havedict := c.state.havedict,
      wbits := c.state.wbits, wsize := c.state.wsize, lencode := c.state.lencode,
      distcode := c.state.distcode, lenbits := c.state.lenbits, distbits := c.state.distbits,
      ncode := c.state.ncode, nlen := c.state.nlen, ndist := c.state.ndist,
      have_ := c.state.have_, lens := c.state.lens,
      length := bif bl then c.state.length else C.state.length,
      offset := bif bo then c.state.offset else C.state.offset,
      extra := bif be then c.state.extra else C.state.extra } }

/-- The low `n` bits of an accumulator. -/
def bitsOf (hold n : Nat) : Nat :=
  u32 hold &&& sub32 (1 <<< n) 1

/-- The locals after COPY has copied `k` bytes from the input to the output. -/
def copied (k : Nat) (c : Cfg) : Cfg :=
  { c with
    put := c.put ++ readFwd (c.next.getD []) k,
    have_ := c.have_ - k,
    next := c.next.map (List.drop k),
    left := c.left - k,
    state := { c.state with length := c.state.length - k } }

/-- The `n` bytes that a match at distance `off` adds to the output `T`: each is
the byte `off` places before it, and reads as `0` where that is no byte. -/
def lz (T : List Nat) (off : Nat) : Nat → List Nat
  | 0 => []
  | n + 1 => lz T off n ++ [(T ++ lz T off n).getD (T.length + n - off) 0]

/-- The locals after MATCH has written the bytes `W`. -/
def matched (W : List Nat) (c : Cfg) : Cfg :=
  { c with
    left := c.left - W.length, put := c.put ++ W,
    state := { c.state with
      length := c.state.length - W.length,
      mode := if c.state.length - W.length = 0 then LEN else c.state.mode } }

/-- The pass ends with a distance in `state->offset` that the window can hold,
if it ends where a distance has been read: in LEN or MATCH, or in BAD for a
distance that reaches too far back. -/
def Near (O : Outcome) : Prop :=
  ∀ C1, (O = .cont C1 ∨ O = .leave C1) →
    (C1.state.mode = LEN ∨ C1.state.mode = MATCH ∨
      (C1.state.mode = BAD ∧ C1.strm.msg = some "invalid distance too far back")) →
    C1.state.offset ≤ C1.state.wsize


/-- The accumulator of `c1` holds the bits of `c` and possibly more above them. -/
def Grow (c c1 : Cfg) : Prop :=
  c.bits ≤ c1.bits ∧
    ∀ m, m ≤ c.bits → m ≤ 32 → c1.hold % 4294967296 % 2 ^ m = c.hold % 4294967296 % 2 ^ m


/-- `Out` read on what a case that falls into LEN ends in before LEN. -/
def OutP (E : Ext) (f0 flush : Int) (P H I X : List Nat) (ob OB : Nat) (c : Cfg) : Pre → Pre → Prop
  | .out o, PC => Out E f0 flush P H I X ob OB c o (PC.run case_LEN_slow)
  | .len c1, PC => ∃ C1, PC = .len C1 ∧ Rel P H I X ob OB c1 C1 ∧ c1.state.mode = LEN ∧
      c1.put = c.put ∧ c1.left = c.left

/-- The contract of the table builder as far as the replication of entries goes:
a table that it returns with the status 0 is a `PrefixTab` at the root width that
it returns. -/
def TablePrefix (E : Ext) : Prop :=
  ∀ type lens codes bits, (E.inflate_table type lens codes bits).1 = 0 →
    PrefixTab (E.inflate_table type lens codes bits).2.1
      (E.inflate_table type lens codes bits).2.2

/-- The locals `c1` are the locals `c` up to what no pass reads: the stream
behind the locals, the copies of `hold` and `bits` in the state, `dmax`,
`total`, and of `length`, `offset` and `extra` those that the mode does not use. -/
structure LiveEq (c c1 : Cfg) : Prop where
  put : c1.put = c.put
  left : c1.left = c.left
  out : c1.out = c.out
  ret : c1.ret = c.ret
  hold : c1.hold = c.hold
  bits : c1.bits = c.bits
  next : c1.next = c.next
  have_ : c1.have_ = c.have_
  mode : c1.state.mode = c.state.mode
  view : view c1.state = view c.state
  fx : Fx c.state c1.state

/-- The locals after the fast path of LEN. -/
def fast_path (E : Ext) (c : Cfg) : Cfg :=
  LOAD (E.inflate_fast (RESTORE c).strm (RESTORE c).state (RESTORE c).out).1
    (E.inflate_fast (RESTORE c).strm (RESTORE c).state (RESTORE c).out).2 (RESTORE c)

/-- The locals of a pass that starts from what `inflate_fast(strm, start)` is
handed: the stream, the state behind it, and `out` as the output space at the
start of the call. -/
def fast_entry (strm : z_stream) (state : inflate_state) (out : Nat) : Cfg :=
  LOAD strm state
    { strm := strm, state := state, next := none, put := [], have_ := 0, left := 0,
      hold := 0, bits := 0, in_ := 0, out := out, ret := Z_OK }

/-- The locals after `inflate_fast(strm, start)` has run on what it was handed. -/
def fast_exit (E : Ext) (strm : z_stream) (state : inflate_state) (out : Nat) : Cfg :=
  LOAD (E.inflate_fast strm state out).1 (E.inflate_fast strm state out).2
    (fast_entry strm state out)

/-- The contract of the fast path as far as decoding goes. Handed a state in
mode LEN with at least 6 bytes of input and 258 bytes of output space,
`inflate_fast` leaves the locals as passes without it leave them, up to what no
pass reads: as one or more passes that each end in a `break`; or, when the pass
without it runs out of input, as that pass leaves them at `inf_leave`. -/
def FastSlow (E : Ext) : Prop :=
  ∀ (flush : Int) (strm : z_stream) (state : inflate_state) (out : Nat),
    state.mode = LEN → 6 ≤ strm.avail_in → 258 ≤ strm.avail_out →
    (∃ n cn, slow_passes E flush (n + 1) (fast_entry strm state out) = some cn ∧
      LiveEq cn (fast_exit E strm state out)) ∨
    (∃ c1, sstep E flush (fast_entry strm state out) = .leave c1 ∧ c1.ret = Z_OK ∧
      LiveEq c1 (fast_exit E strm state out) ∧
      c1.have_ < strm.avail_in ∧ c1.left ≤ strm.avail_out)

/-- The decode in one call without the fast path has made `k` passes from `C0`
and stands where a pass ends as the pass from `C2` does. -/
def OnTrack (E : Ext) (f0 : Int) (C0 : Cfg) (k : Nat) (C2 : Cfg) : Prop :=
  ∃ C, slow_passes E f0 k C0 = some C ∧ sstep E f0 C2 = sstep E f0 C

/-- The decode in one call without the fast path never reads a distance that
the window cannot hold. -/
def NearAll (E : Ext) (f0 : Int) (C0 : Cfg) : Prop :=
  ∀ k C, slow_passes E f0 k C0 = some C → Near (sstep E f0 C)

/-- The decode in one call without the fast path leaves its loop in the pass
`K`, with the outcome `Oe`. -/
def RefEnd (E : Ext) (f0 : Int) (C0 : Cfg) (K : Nat) (Oe : Outcome) : Prop :=
  ∃ CK, slow_passes E f0 K C0 = some CK ∧ sstep E f0 CK = Oe ∧ ∀ c, Oe ≠ .cont c

/-- The pass from the locals `c` comes to the test of the fast path with the
locals `c1`: it starts in LEN, or in one of the cases that fall into LEN and
gets through it. -/
def Enters (E : Ext) (c c1 : Cfg) : Prop :=
  (c.state.mode = LEN ∧ c1 = c) ∨
  (c.state.mode = TABLE ∧ case_TABLE_pre E c = .len c1) ∨
  (c.state.mode = LENLENS ∧ case_LENLENS_pre E c = .len c1) ∨
  (c.state.mode = CODELENS ∧ case_CODELENS_pre E c = .len c1)

/-- What the proofs about a decode in pieces assume: the contracts of the table
builder and of the fast path, and of the decode in one call without the fast
path, begun with the locals `C0` and the flush value `f0`, that it is not asked
to stop at block boundaries, reads no distance that the window cannot hold, and
leaves its loop in the pass `K` with the outcome `Oe`. -/
structure Setup (E : Ext) (f0 : Int) (C0 : Cfg) (K : Nat) (Oe : Outcome) : Prop where
  tabs : TablePrefix E
  lens : TableLens E
  fast : FastSlow E
  noblock : f0 ≠ Z_BLOCK
  near : NearAll E f0 C0
  ends : RefEnd E f0 C0 K Oe

/-- Between two calls of a decode in pieces: the stream `s` carries a state, the
calls so far wrote `H`, which is no more than the output space `u` that they
were given, and whatever the caller offers next of the unread input `R`, with
output space that the decode in one call (which has `N`) has left as well, the
next call enters its loop on the track of the decode in one call. -/
def Mid (E : Ext) (f0 : Int) (C0 : Cfg) (P : List Nat) (N : Nat) (s : z_stream)
    (R : List Nat) (u : Nat) : Prop :=
  ∃ st H, s.state = some st ∧ H.length ≤ u ∧
    ∀ q : Piece, H.length + q.n_out ≤ N →
      ∃ k C2, Rel P H (R.take q.n_in) (R.drop q.n_in) q.n_out N (enter (offer s R q) st) C2 ∧
        OnTrack E f0 C0 k C2

/-- The output that the outcome of a loop leaves. -/
def Outcome.put : Outcome → List Nat
  | .cont c => c.put
  | .leave c => c.put
  | .done _ s => s.next_out

/-- The code that the outcome of a loop carries: `ret`, or the code returned
from inside the loop. -/
def Outcome.code : Outcome → Int
  | .cont c => c.ret
  | .leave c => c.ret
  | .done r _ => r

/-- What a pass through LEN and the cases it falls into, taken without the fast
path from locals with `ret = r`, `out = o` and `left = l`, leaves alone: `ret`
and `out`; and when it goes to `inf_leave`, `left` as well, and it goes there
only with no input left, or because there was no output space. It does not
return from inside the loop. -/
def Stays (r : Int) (o l : Nat) : Outcome → Prop
  | .cont c1 => c1.ret = r ∧ c1.out = o
  | .leave c1 => c1.ret = r ∧ c1.out = o ∧ c1.left = l ∧ (c1.have_ = 0 ∨ l = 0)
  | .done _ _ => False

/-- A table builder that builds no table, and a fast path that does what one
pass through LEN without it does. -/
def slowExt : Ext where
  inflate_table := fun _ _ _ bits => (-1, [], bits)
  inflate_fast := fun strm state out =>
    match case_LEN_slow (fast_entry strm state out) with
    | .cont c => ((RESTORE c).strm, (RESTORE c).state)
    | .leave c => ((RESTORE c).strm, (RESTORE c).state)
    | .done _ _ => (strm, state)

/-- The test of `Near` as a Boolean. -/
def nearB : Outcome → Bool
  | .cont c =>
    !(c.state.mode == LEN || c.state.mode == MATCH ||
        (c.state.mode == BAD && c.strm.msg == some "invalid distance too far back")) ||
      decide (c.state.offset ≤ c.state.wsize)
  | .leave c =>
    !(c.state.mode == LEN || c.state.mode == MATCH ||
        (c.state.mode == BAD && c.strm.msg == some "invalid distance too far back")) ||
      decide (c.state.offset ≤ c.state.wsize)
  | .done _ _ => true

/-- The test of `NearAll` on a decode that leaves its loop within `n` passes. -/
def near_run (E : Ext) (f : Int) : Nat → Cfg → Bool
  | 0, _ => false
  | n + 1, C =>
    nearB (sstep E f C) &&
      match sstep E f C with
      | .cont C1 => near_run E f n C1
      | _ => true

/-- A zlib stream with one fixed-Huffman block: the literals `a`, `b`, `c`, `a`,
a match of length 8 at distance 3, and the end of the block; then the Adler-32
of the twelve bytes `abcabcabcabc`. -/
def fixed_stream : List Nat :=
  [0x78, 0x01, 0x4B, 0x4C, 0x4A, 0x4E, 0x84, 0x21, 0x00, 0x1D, 0xE0, 0x04, 0x99]

/-- What a call with `Z_FINISH` returns when it is given all of `fixed_stream`
and 300 bytes of output space, the fast path being `slowExt`. -/
def fixed_one : Int × z_stream :=
  (zlib_inflate slowExt 40
    (offer (zlib_inflateInit2 strm0 ws0 15).2 fixed_stream ⟨fixed_stream.length, 300, Z_FINISH⟩)
    Z_FINISH).getD (Z_OK, strm0)

end Inflate

/-! # Theorems -/

namespace Inflate

open inflate_mode

/-! ## Lemmas

The arithmetic helpers are kept folded in the proofs below; a proof that needs
their bodies unfolds them by name. -/

attribute [irreducible] u32 sub32 add32 REVERSE BITS adler32_fold zlib_adler32

lemma Acc.arefl (c : Cfg) : Acc c c := ⟨rfl, rfl, rfl, rfl, rfl, rfl, rfl⟩

lemma Acc.atrans {a b c : Cfg} (h1 : Acc a b) (h2 : Acc b c) : Acc a c := by
  obtain ⟨h11, h12, h13, h14, h15, h16, h17⟩ := h1
  obtain ⟨h21, h22, h23, h24, h25, h26, h27⟩ := h2
  exact ⟨h21.trans h11, h22.trans h12, h23.trans h13, h24.trans h14, h25.trans h15,
    h26.trans h16, h27.trans h17⟩

lemma PULLBYTE_acc {c c1 : Cfg} (h : PULLBYTE c = some c1) : Acc c c1 := by
  unfold PULLBYTE at h
  split at h
  · cases h
  · cases h; exact ⟨rfl, rfl, rfl, rfl, rfl, rfl, rfl⟩

lemma NEEDBITS_loop_acc (fuel n : Nat) (c : Cfg) : Acc c (NEEDBITS_loop fuel n c).2 := by
  induction fuel generalizing c with
  | zero => exact Acc.arefl c
  | succ f ih =>
    unfold NEEDBITS_loop
    split
    · cases h : PULLBYTE c with
      | none => exact Acc.arefl c
      | some c1 => exact (PULLBYTE_acc h).atrans (ih c1)
    · exact Acc.arefl c

lemma NEEDBITS_acc (n : Nat) (c : Cfg) : Acc c (NEEDBITS n c).2 :=
  NEEDBITS_loop_acc _ n c

lemma code_loop_acc (table : List code) (n fuel : Nat) (c : Cfg) :
    Acc c (code_loop table n fuel c).cfg := by
  induction fuel generalizing c with
  | zero => exact Acc.arefl c
  | succ f ih =>
    unfold code_loop
    simp only []
    split
    · exact Acc.arefl c
    · cases h : PULLBYTE c with
      | none => exact Acc.arefl c
      | some c1 => exact (PULLBYTE_acc h).atrans (ih c1)

lemma code_loop2_acc (table : List code) (last : code) (fuel : Nat) (c : Cfg) :
    Acc c (code_loop2 table last fuel c).cfg := by
  induction fuel generalizing c with
  | zero => exact Acc.arefl c
  | succ f ih =>
    unfold code_loop2
    simp only []
    split
    · exact Acc.arefl c
    · cases h : PULLBYTE c with
      | none => exact Acc.arefl c
      | some c1 => exact (PULLBYTE_acc h).atrans (ih c1)

lemma K_of_acc {in0 out0 : Nat} {c c1 : Cfg} (h : Acc c c1) (hk : K in0 out0 c) :
    K in0 out0 c1 := by
  obtain ⟨_, _, _, _, h5, h6, h7⟩ := h
  obtain ⟨k1, k2, k3⟩ := hk
  exact ⟨h5.trans k1, h7.trans k2, h6.trans k3⟩

lemma J_of_K {in0 out0 : Nat} {c : Cfg} (hk : K in0 out0 c) : J in0 out0 c :=
  ⟨hk.1, Or.inl ⟨hk.2.1, hk.2.2⟩⟩

lemma JL_of_K {in0 out0 : Nat} {c : Cfg} (hk : K in0 out0 c) : JL in0 out0 c :=
  ⟨hk.1, Or.inl ⟨hk.2.1, hk.2.2⟩⟩

lemma K_setMode {in0 out0 : Nat} {c : Cfg} (m : inflate_mode) (hk : K in0 out0 c) :
    K in0 out0 (c.setMode m) := hk

lemma J_bad {in0 out0 : Nat} {c : Cfg} (msg : String) (hk : c.in_ = in0) :
    J in0 out0 (c.bad msg) := ⟨hk, Or.inr rfl⟩

lemma case_HEAD_J (in0 out0 : Nat) (c : Cfg) (h : K in0 out0 c) : JO in0 out0 (case_HEAD c) := by
  unfold case_HEAD
  have hA := K_of_acc (NEEDBITS_acc 16 c) h
  rcases hN : NEEDBITS 16 c with ⟨b, c1⟩
  rw [hN] at hA
  obtain ⟨k1, k2, k3⟩ := hA
  obtain ⟨h1, h2, h3⟩ := h
  simp only [] at k1 k2 k3
  cases b <;> simp only [] <;> (repeat' split) <;>
    simp [JO, J, JL, Cfg.setMode, Cfg.bad, INITBITS, DROPBITS, BYTEBITS, *]

lemma case_TYPEDO_J (in0 out0 : Nat) (c : Cfg) (h : K in0 out0 c) : JO in0 out0 (case_TYPEDO c) := by
  unfold case_TYPEDO
  have hA := K_of_acc (NEEDBITS_acc 3 c) h
  rcases hN : NEEDBITS 3 c with ⟨b, c1⟩
  rw [hN] at hA
  obtain ⟨k1, k2, k3⟩ := hA
  obtain ⟨h1, h2, h3⟩ := h
  simp only [] at k1 k2 k3
  cases b <;> simp only [] <;> (repeat' split) <;>
    simp [JO, J, JL, Cfg.setMode, Cfg.bad, INITBITS, DROPBITS, BYTEBITS, *]

lemma Same.srefl (c : Cfg) : Same c c := by
  constructor <;> first | rfl | exact Or.inl rfl

lemma Same.strans {a b c : Cfg} (h1 : Same a b) (h2 : Same b c) : Same a c := by
  constructor
  · exact h2.put.trans h1.put
  · exact h2.left.trans h1.left
  · exact h2.in_.trans h1.in_
  · exact h2.out.trans h1.out
  · exact h2.ret.trans h1.ret
  · exact h2.adler.trans h1.adler
  · exact h2.total_in.trans h1.total_in
  · exact h2.total_out.trans h1.total_out
  · exact h2.check.trans h1.check
  · exact h2.wrap.trans h1.wrap
  · exact h2.total.trans h1.total
  · exact h2.wsize.trans h1.wsize
  · exact h2.whave.trans h1.whave
  · exact h2.write.trans h1.write
  · exact h2.window.trans h1.window
  · exact h2.havedict.trans h1.havedict
  · rcases h2.mode with h | h
    · rcases h1.mode with h' | h'
      · exact Or.inl (h.trans h')
      · exact Or.inr (h.trans h')
    · exact Or.inr h

lemma Same_of_acc {c c1 : Cfg} (h : Acc c c1) : Same c c1 := by
  obtain ⟨h1, h2, h3, h4, h5, h6, h7⟩ := h
  constructor <;> simp [*]

lemma Same_bad (c : Cfg) (msg : String) : Same c (c.bad msg) := by
  constructor <;> simp [Cfg.bad]

lemma Same_DROPBITS (n : Nat) (c : Cfg) : Same c (DROPBITS n c) := by
  constructor <;> simp [DROPBITS]

lemma lenlens_loop_same (fuel : Nat) (c : Cfg) : Same c (lenlens_loop fuel c).2 := by
  induction fuel generalizing c with
  | zero => exact Same.srefl c
  | succ f ih =>
    unfold lenlens_loop
    split
    · have hA := Same_of_acc (NEEDBITS_acc 3 c)
      rcases hN : NEEDBITS 3 c with ⟨b, c1⟩
      rw [hN] at hA
      cases b
      · exact hA
      · simp only []
        refine (hA.strans ?_).strans (ih _)
        constructor <;> simp [DROPBITS]
    · exact Same.srefl c

lemma codelens_repeat_same (this : code) (c : Cfg) :
    Same c (codelens_repeat this c).cfg := by
  unfold codelens_repeat
  split
  · have hA := Same_of_acc (NEEDBITS_acc (this.bits + 2) c)
    rcases hN : NEEDBITS (this.bits + 2) c with ⟨b, c1⟩
    rw [hN] at hA
    cases b
    · exact hA
    · simp only []
      split
      · exact hA.strans ((Same_DROPBITS _ _).strans (Same_bad _ _))
      · exact hA.strans ((Same_DROPBITS _ _).strans (Same_DROPBITS _ _))
  · split
    · have hA := Same_of_acc (NEEDBITS_acc (this.bits + 3) c)
      rcases hN : NEEDBITS (this.bits + 3) c with ⟨b, c1⟩
      rw [hN] at hA
      cases b
      · exact hA
      · exact hA.strans ((Same_DROPBITS _ _).strans (Same_DROPBITS _ _))
    · have hA := Same_of_acc (NEEDBITS_acc (this.bits + 7) c)
      rcases hN : NEEDBITS (this.bits + 7) c with ⟨b, c1⟩
      rw [hN] at hA
      cases b
      · exact hA
      · exact hA.strans ((Same_DROPBITS _ _).strans (Same_DROPBITS _ _))

lemma codelens_loop_same (fuel : Nat) (c : Cfg) : Same c (codelens_loop fuel c).2 := by
  induction fuel generalizing c with
  | zero => exact Same.srefl c
  | succ f ih =>
    unfold codelens_loop
    split
    · have hC := Same_of_acc (code_loop_acc c.state.lencode c.state.lenbits (c.have_ + 1) c)
      rcases hL : code_loop c.state.lencode c.state.lenbits (c.have_ + 1) c with ⟨this, c1⟩ | c1
      · rw [hL] at hC
        simp only [Pulled.cfg] at hC
        simp only []
        split
        · have hA := Same_of_acc (NEEDBITS_acc this.bits c1)
          rcases hN : NEEDBITS this.bits c1 with ⟨b, c2⟩
          rw [hN] at hA
          cases b
          · exact hC.strans hA
          · simp only []
            refine ((hC.strans hA).strans ?_).strans (ih _)
            constructor <;> simp [DROPBITS]
        · have hR := codelens_repeat_same this c1
          rcases hr : codelens_repeat this c1 with c2 | c2 | ⟨c2, len, copy⟩
          · rw [hr] at hR; exact hC.strans hR
          · rw [hr] at hR; exact hC.strans hR
          · rw [hr] at hR
            simp only [Repeat.cfg] at hR
            simp only []
            split
            · exact (hC.strans hR).strans (Same_bad _ _)
            · refine ((hC.strans hR).strans ?_).strans (ih _)
              constructor <;> simp
      · rw [hL] at hC
        exact hC
    · exact Same.srefl c

lemma K_of_same {in0 out0 : Nat} {c c1 : Cfg} (h : Same c c1) (hk : K in0 out0 c) :
    K in0 out0 c1 :=
  ⟨h.in_.trans hk.1, h.ret.trans hk.2.1, h.out.trans hk.2.2⟩

lemma code_second_acc (table : List code) (last : code) (c : Cfg) :
    Acc c (code_second table last c).cfg := by
  unfold code_second
  have h := code_loop2_acc table last (c.have_ + 1) c
  rcases hL : code_loop2 table last (c.have_ + 1) c with ⟨this, c1⟩ | c1
  · rw [hL] at h
    exact h.atrans ⟨rfl, rfl, rfl, rfl, rfl, rfl, rfl⟩
  · rw [hL] at h
    exact h

lemma case_TYPE_J (in0 out0 : Nat) (flush : Int) (c : Cfg) (h : K in0 out0 c) :
    JO in0 out0 (case_TYPE flush c) := by
  unfold case_TYPE
  split_ifs
  · exact ⟨h.1, Or.inl ⟨h.2.1, h.2.2⟩⟩
  · exact case_TYPEDO_J in0 out0 c h

lemma case_DICT_J (in0 out0 : Nat) (flush : Int) (c : Cfg) (h : K in0 out0 c) :
    JO in0 out0 (case_DICT flush c) := by
  unfold case_DICT
  obtain ⟨k1, k2, k3⟩ := h
  split_ifs
  · exact ⟨by decide, by decide⟩
  · refine case_TYPE_J in0 out0 flush _ ?_
    simp [K, Cfg.setMode, Cfg.bad, INITBITS, DROPBITS, BYTEBITS, k1, k2, k3]

lemma case_DICTID_J (in0 out0 : Nat) (flush : Int) (c : Cfg) (h : K in0 out0 c) :
    JO in0 out0 (case_DICTID flush c) := by
  unfold case_DICTID
  have hA := K_of_acc (NEEDBITS_acc 32 c) h
  rcases hN : NEEDBITS 32 c with ⟨b, c1⟩
  rw [hN] at hA
  obtain ⟨k1, k2, k3⟩ := hA
  simp only [] at k1 k2 k3
  cases b <;> simp only []
  · simp [JO, J, JL, K, Cfg.setMode, Cfg.bad, INITBITS, DROPBITS, BYTEBITS, k1, k2, k3]
  · refine case_DICT_J in0 out0 flush _ ?_
    simp [K, Cfg.setMode, Cfg.bad, INITBITS, DROPBITS, BYTEBITS, k1, k2, k3]

lemma case_COPY_J (in0 out0 : Nat) (c : Cfg) (h : K in0 out0 c) : JO in0 out0 (case_COPY c) := by
  unfold case_COPY
  obtain ⟨k1, k2, k3⟩ := h
  simp only []
  split_ifs <;> simp [JO, J, JL, K, Cfg.setMode, Cfg.bad, INITBITS, DROPBITS, BYTEBITS, k1, k2, k3]

lemma case_STORED_J (in0 out0 : Nat) (c : Cfg) (h : K in0 out0 c) : JO in0 out0 (case_STORED c) := by
  unfold case_STORED
  have hA := K_of_acc (NEEDBITS_acc 32 (BYTEBITS c)) h
  rcases hN : NEEDBITS 32 (BYTEBITS c) with ⟨b, c1⟩
  rw [hN] at hA
  obtain ⟨k1, k2, k3⟩ := hA
  simp only [] at k1 k2 k3
  cases b <;> simp only []
  · simp [JO, J, JL, K, Cfg.setMode, Cfg.bad, INITBITS, DROPBITS, BYTEBITS, k1, k2, k3]
  · split_ifs
    · simp [JO, J, JL, K, Cfg.setMode, Cfg.bad, INITBITS, DROPBITS, BYTEBITS, k1, k2, k3]
    · refine case_COPY_J in0 out0 _ ?_
      simp [K, Cfg.setMode, Cfg.bad, INITBITS, DROPBITS, BYTEBITS, k1, k2, k3]

lemma case_MATCH_J (in0 out0 : Nat) (c : Cfg) (h : K in0 out0 c) : JO in0 out0 (case_MATCH c) := by
  unfold case_MATCH
  obtain ⟨k1, k2, k3⟩ := h
  by_cases hl : c.left = 0
  · rw [if_pos hl]; simp [JO, J, JL, K, Cfg.setMode, Cfg.bad, INITBITS, DROPBITS, BYTEBITS, k1, k2, k3]
  · rw [if_neg hl]; simp [JO, J, JL, K, Cfg.setMode, Cfg.bad, INITBITS, DROPBITS, BYTEBITS, k1, k2, k3]

lemma DISTEXT_tail_J (in0 out0 : Nat) (c : Cfg) (h : K in0 out0 c) :
    JO in0 out0 (DISTEXT_tail c) := by
  unfold DISTEXT_tail
  obtain ⟨k1, k2, k3⟩ := h
  split_ifs
  · simp [JO, J, JL, K, Cfg.setMode, Cfg.bad, INITBITS, DROPBITS, BYTEBITS, k1, k2, k3]
  · refine case_MATCH_J in0 out0 _ ?_
    simp [K, Cfg.setMode, Cfg.bad, INITBITS, DROPBITS, BYTEBITS, k1, k2, k3]

lemma case_DISTEXT_J (in0 out0 : Nat) (c : Cfg) (h : K in0 out0 c) :
    JO in0 out0 (case_DISTEXT c) := by
  unfold case_DISTEXT
  have hA := K_of_acc (NEEDBITS_acc c.state.extra c) h
  rcases hN : NEEDBITS c.state.extra c with ⟨b, c1⟩
  rw [hN] at hA
  obtain ⟨k1, k2, k3⟩ := hA
  simp only [] at k1 k2 k3
  split_ifs
  · cases b <;> simp only []
    · simp [JO, J, JL, K, Cfg.setMode, Cfg.bad, INITBITS, DROPBITS, BYTEBITS, k1, k2, k3]
    · refine DISTEXT_tail_J in0 out0 _ ?_
      simp [K, Cfg.setMode, Cfg.bad, INITBITS, DROPBITS, BYTEBITS, k1, k2, k3]
  · exact DISTEXT_tail_J in0 out0 _ h

lemma DIST_tail_J (in0 out0 : Nat) (this : code) (c : Cfg) (h : K in0 out0 c) :
    JO in0 out0 (DIST_tail this c) := by
  unfold DIST_tail
  obtain ⟨k1, k2, k3⟩ := h
  simp only []
  split_ifs
  · simp [JO, J, JL, K, Cfg.setMode, Cfg.bad, INITBITS, DROPBITS, BYTEBITS, k1, k2, k3]
  · refine case_DISTEXT_J in0 out0 _ ?_
    simp [K, Cfg.setMode, Cfg.bad, INITBITS, DROPBITS, BYTEBITS, k1, k2, k3]

lemma case_DIST_J (in0 out0 : Nat) (c : Cfg) (h : K in0 out0 c) : JO in0 out0 (case_DIST c) := by
  unfold case_DIST
  have hC := K_of_acc (code_loop_acc c.state.distcode c.state.distbits (c.have_ + 1) c) h
  rcases hL : code_loop c.state.distcode c.state.distbits (c.have_ + 1) c with ⟨this, c1⟩ | c1
  · rw [hL] at hC
    simp only [Pulled.cfg] at hC
    simp only []
    have hS := K_of_acc (code_second_acc c1.state.distcode this c1) hC
    split_ifs
    · rcases hL2 : code_second c1.state.distcode this c1 with ⟨this2, c2⟩ | c2
      · rw [hL2] at hS
        exact DIST_tail_J in0 out0 this2 c2 hS
      · rw [hL2] at hS
        exact ⟨hS.1, Or.inl ⟨hS.2.1, hS.2.2⟩⟩
    · exact DIST_tail_J in0 out0 this c1 hC
  · rw [hL] at hC
    exact ⟨hC.1, Or.inl ⟨hC.2.1, hC.2.2⟩⟩

lemma case_LENEXT_J (in0 out0 : Nat) (c : Cfg) (h : K in0 out0 c) :
    JO in0 out0 (case_LENEXT c) := by
  unfold case_LENEXT
  have hA := K_of_acc (NEEDBITS_acc c.state.extra c) h
  rcases hN : NEEDBITS c.state.extra c with ⟨b, c1⟩
  rw [hN] at hA
  obtain ⟨k1, k2, k3⟩ := hA
  simp only [] at k1 k2 k3
  split_ifs
  · cases b <;> simp only []
    · simp [JO, J, JL, K, Cfg.setMode, Cfg.bad, INITBITS, DROPBITS, BYTEBITS, k1, k2, k3]
    · refine case_DIST_J in0 out0 _ ?_
      simp [K, Cfg.setMode, Cfg.bad, INITBITS, DROPBITS, BYTEBITS, k1, k2, k3]
  · exact case_DIST_J in0 out0 _ h

lemma LEN_tail_J (in0 out0 : Nat) (this : code) (c : Cfg) (h : K in0 out0 c) :
    JO in0 out0 (LEN_tail this c) := by
  unfold LEN_tail
  obtain ⟨k1, k2, k3⟩ := h
  simp only []
  split_ifs
  · simp [JO, J, JL, K, Cfg.setMode, Cfg.bad, INITBITS, DROPBITS, BYTEBITS, k1, k2, k3]
  · simp [JO, J, JL, K, Cfg.setMode, Cfg.bad, INITBITS, DROPBITS, BYTEBITS, k1, k2, k3]
  · simp [JO, J, JL, K, Cfg.setMode, Cfg.bad, INITBITS, DROPBITS, BYTEBITS, k1, k2, k3]
  · refine case_LENEXT_J in0 out0 _ ?_
    simp [K, Cfg.setMode, Cfg.bad, INITBITS, DROPBITS, BYTEBITS, k1, k2, k3]

lemma case_LEN_J (E : Ext) (in0 out0 : Nat) (c : Cfg) (h : K in0 out0 c) :
    JO in0 out0 (case_LEN E c) := by
  unfold case_LEN
  split_ifs
  · obtain ⟨k1, k2, k3⟩ := h
    simp [JO, J, LOAD, RESTORE, k1, k2, k3]
  · have hC := K_of_acc (code_loop_acc c.state.lencode c.state.lenbits (c.have_ + 1) c) h
    rcases hL : code_loop c.state.lencode c.state.lenbits (c.have_ + 1) c with ⟨this, c1⟩ | c1
    · rw [hL] at hC
      simp only [Pulled.cfg] at hC
      simp only []
      have hS := K_of_acc (code_second_acc c1.state.lencode this c1) hC
      split_ifs
      · rcases hL2 : code_second c1.state.lencode this c1 with ⟨this2, c2⟩ | c2
        · rw [hL2] at hS
          exact LEN_tail_J in0 out0 this2 c2 hS
        · rw [hL2] at hS
          exact ⟨hS.1, Or.inl ⟨hS.2.1, hS.2.2⟩⟩
      · exact LEN_tail_J in0 out0 this c1 hC
    · rw [hL] at hC
      exact ⟨hC.1, Or.inl ⟨hC.2.1, hC.2.2⟩⟩

lemma case_LIT_J (in0 out0 : Nat) (c : Cfg) (h : K in0 out0 c) : JO in0 out0 (case_LIT c) := by
  unfold case_LIT
  obtain ⟨k1, k2, k3⟩ := h
  split_ifs <;> simp [JO, J, JL, K, Cfg.setMode, Cfg.bad, INITBITS, DROPBITS, BYTEBITS, k1, k2, k3]

lemma CODELENS_tail_J (E : Ext) (in0 out0 : Nat) (c : Cfg) (h : K in0 out0 c) :
    JO in0 out0 (CODELENS_tail E c) := by
  unfold CODELENS_tail
  obtain ⟨k1, k2, k3⟩ := h
  simp only []
  split_ifs with h1 h2 h3
  · simp [JO, J, JL, K, Cfg.setMode, Cfg.bad, INITBITS, DROPBITS, BYTEBITS, k1, k2, k3]
  · simp [JO, J, JL, K, Cfg.setMode, Cfg.bad, INITBITS, DROPBITS, BYTEBITS, k1, k2, k3]
  · simp [JO, J, JL, K, Cfg.setMode, Cfg.bad, INITBITS, DROPBITS, BYTEBITS, k1, k2, k3]
  · refine case_LEN_J E in0 out0 _ ?_
    have h3' : (E.inflate_table codetype.DISTS (List.drop c.state.nlen c.state.lens) c.state.ndist 6).1 = 0 := by
      simpa using h3
    simp [K, Cfg.setMode, k1, k3, h3', Z_OK]

lemma case_CODELENS_J (E : Ext) (in0 out0 : Nat) (c : Cfg) (h : K in0 out0 c) :
    JO in0 out0 (case_CODELENS E c) := by
  unfold case_CODELENS
  have hA := K_of_same (codelens_loop_same (add32 c.state.nlen c.state.ndist) c) h
  rcases hN : codelens_loop (add32 c.state.nlen c.state.ndist) c with ⟨b, c1⟩
  rw [hN] at hA
  cases b <;> simp only []
  · exact ⟨hA.1, Or.inl ⟨hA.2.1, hA.2.2⟩⟩
  · exact CODELENS_tail_J E in0 out0 c1 hA

lemma LENLENS_tail_J (E : Ext) (in0 out0 : Nat) (c : Cfg) (h : K in0 out0 c) :
    JO in0 out0 (LENLENS_tail E c) := by
  unfold LENLENS_tail
  obtain ⟨k1, k2, k3⟩ := h
  simp only []
  split_ifs with h1
  · simp [JO, J, JL, K, Cfg.setMode, Cfg.bad, INITBITS, DROPBITS, BYTEBITS, k1, k2, k3]
  · refine case_CODELENS_J E in0 out0 _ ?_
    have h1' : (E.inflate_table codetype.CODES (lenlens_fill 19 c.state).lens 19 7).1 = 0 := by
      simpa using h1
    simp [K, k1, k3, h1', Z_OK]

lemma case_LENLENS_J (E : Ext) (in0 out0 : Nat) (c : Cfg) (h : K in0 out0 c) :
    JO in0 out0 (case_LENLENS E c) := by
  unfold case_LENLENS
  have hA := K_of_same (lenlens_loop_same c.state.ncode c) h
  rcases hN : lenlens_loop c.state.ncode c with ⟨b, c1⟩
  rw [hN] at hA
  cases b <;> simp only []
  · exact ⟨hA.1, Or.inl ⟨hA.2.1, hA.2.2⟩⟩
  · exact LENLENS_tail_J E in0 out0 c1 hA

lemma case_TABLE_J (E : Ext) (in0 out0 : Nat) (c : Cfg) (h : K in0 out0 c) :
    JO in0 out0 (case_TABLE E c) := by
  unfold case_TABLE
  have hA := K_of_acc (NEEDBITS_acc 14 c) h
  rcases hN : NEEDBITS 14 c with ⟨b, c1⟩
  rw [hN] at hA
  obtain ⟨k1, k2, k3⟩ := hA
  simp only [] at k1 k2 k3
  cases b <;> simp only []
  · simp [JO, J, JL, K, Cfg.setMode, Cfg.bad, INITBITS, DROPBITS, BYTEBITS, k1, k2, k3]
  · split_ifs
    · simp [JO, J, JL, K, Cfg.setMode, Cfg.bad, INITBITS, DROPBITS, BYTEBITS, k1, k2, k3]
    · refine case_LENLENS_J E in0 out0 _ ?_
      simp [K, Cfg.setMode, Cfg.bad, INITBITS, DROPBITS, BYTEBITS, k1, k2, k3]

lemma case_DONE_J (in0 out0 : Nat) (c : Cfg) (h : c.in_ = in0) : JO in0 out0 (case_DONE c) := by
  simp [case_DONE, JO, JL, h, Z_STREAM_END, Z_OK, Z_DATA_ERROR]

lemma CHECK_tail_J (in0 out0 : Nat) (c : Cfg) (h : K in0 out0 c) :
    JO in0 out0 (CHECK_tail c) := by
  unfold CHECK_tail
  have k1 : (CHECK_update c).in_ = in0 := h.1
  by_cases hr : REVERSE (CHECK_update c).hold ≠ (CHECK_update c).state.check
  · rw [if_pos hr]
    exact ⟨k1, Or.inr rfl⟩
  · rw [if_neg hr]
    exact case_DONE_J in0 out0 _ k1

lemma case_CHECK_J (in0 out0 : Nat) (c : Cfg) (h : K in0 out0 c) :
    JO in0 out0 (case_CHECK c) := by
  unfold case_CHECK
  have hA := K_of_acc (NEEDBITS_acc 32 c) h
  rcases hN : NEEDBITS 32 c with ⟨b, c1⟩
  rw [hN] at hA
  split_ifs
  · cases b <;> simp only []
    · exact ⟨hA.1, Or.inl ⟨hA.2.1, hA.2.2⟩⟩
    · exact CHECK_tail_J in0 out0 c1 hA
  · exact case_DONE_J in0 out0 _ h.1

lemma step_J (E : Ext) (flush : Int) (in0 out0 : Nat) (c : Cfg) (h : J in0 out0 c) :
    JO in0 out0 (step E flush c) := by
  unfold step
  by_cases hb : c.state.mode = BAD
  · rw [hb]
    simp [case_BAD, JO, JL, h.1, hb, Z_OK, Z_DATA_ERROR]
  · have hk : K in0 out0 c := by
      rcases h.2 with h2 | h2
      · exact ⟨h.1, h2.1, h2.2⟩
      · exact absurd h2 hb
    split
    · exact case_HEAD_J in0 out0 c hk
    · exact case_DICTID_J in0 out0 flush c hk
    · exact case_DICT_J in0 out0 flush c hk
    · exact case_TYPE_J in0 out0 flush c hk
    · exact case_TYPEDO_J in0 out0 c hk
    · exact case_STORED_J in0 out0 c hk
    · exact case_COPY_J in0 out0 c hk
    · exact case_TABLE_J E in0 out0 c hk
    · exact case_LENLENS_J E in0 out0 c hk
    · exact case_CODELENS_J E in0 out0 c hk
    · exact case_LEN_J E in0 out0 c hk
    · exact case_LENEXT_J in0 out0 c hk
    · exact case_DIST_J in0 out0 c hk
    · exact case_DISTEXT_J in0 out0 c hk
    · exact case_MATCH_J in0 out0 c hk
    · exact case_LIT_J in0 out0 c hk
    · exact case_CHECK_J in0 out0 c hk
    · exact case_DONE_J in0 out0 c hk.1
    · exact absurd (by assumption) hb
    · exact ⟨by decide, by decide⟩
    · exact ⟨by decide, by decide⟩

/-- Whatever the loop ends in satisfies the invariant read on outcomes, and
the loop never ends in a `break`. -/
lemma inflate_loop_J (E : Ext) (flush : Int) (in0 out0 : Nat) (fuel : Nat) (c : Cfg)
    (h : J in0 out0 c) (o : Outcome) (ho : inflate_loop E flush fuel c = some o) :
    JO in0 out0 o ∧ ∀ c1, o ≠ .cont c1 := by
  induction fuel generalizing c with
  | zero => simp [inflate_loop] at ho
  | succ f ih =>
    unfold inflate_loop at ho
    have hs := step_J E flush in0 out0 c h
    rcases hst : step E flush c with c1 | c1 | ⟨r, s⟩
    · rw [hst] at ho hs
      exact ih c1 hs ho
    · rw [hst] at ho hs
      simp only [Option.some.injEq] at ho
      subst ho
      exact ⟨hs, fun _ => by simp⟩
    · rw [hst] at ho hs
      simp only [Option.some.injEq] at ho
      subst ho
      exact ⟨hs, fun _ => by simp⟩

lemma sub32_self (a : Nat) : sub32 a a = 0 := by
  unfold sub32
  omega

lemma zlib_updatewindow_mode (strm : z_stream) (state : inflate_state) (out : Nat) :
    (zlib_updatewindow strm state out).mode = state.mode := by
  unfold zlib_updatewindow
  simp only []
  split_ifs <;> rfl

lemma enter_J (strm : z_stream) (state : inflate_state) :
    J strm.avail_in strm.avail_out (enter strm state) := by
  simp [J, enter, LOAD]

lemma leave_stream_frame (c : Cfg) :
    (leave_stream c).avail_in = c.have_ ∧ (leave_stream c).avail_out = c.left ∧
    (leave_stream c).next_in = c.next ∧ (leave_stream c).next_out = c.put ∧
    ∃ st, (leave_stream c).state = some st ∧ st.mode = c.state.mode := by
  unfold leave_stream
  simp only [RESTORE]
  refine ⟨trivial, trivial, trivial, trivial, ?_⟩
  split_ifs <;> simp [zlib_updatewindow_mode]

/-- The return value of `inf_leave` when the packet test does not apply. -/
lemma inf_leave_no_packet (flush : Int) (c : Cfg) (hf : flush ≠ Z_PACKET_FLUSH) :
    (inf_leave flush c).2 = leave_stream c ∧
    ((inf_leave flush c).1 = c.ret ∨ ((inf_leave flush c).1 = Z_BUF_ERROR ∧ c.ret = Z_OK)) ∧
    (c.ret = Z_OK → sub32 c.in_ c.have_ = 0 → sub32 c.out c.left = 0 →
      (inf_leave flush c).1 = Z_BUF_ERROR) := by
  unfold inf_leave
  rw [if_neg (fun h => hf h.1)]
  split_ifs with h1
  · exact ⟨rfl, Or.inr ⟨rfl, h1.2⟩, fun _ _ _ => rfl⟩
  · refine ⟨rfl, Or.inl rfl, fun a b d => ?_⟩
    exact absurd ⟨Or.inl ⟨b, d⟩, a⟩ h1

/-- A call in mode BAD that is not a usage error returns `Z_DATA_ERROR`, leaves
the input where it was, and stays in mode BAD. -/
lemma bad_call (E : Ext) (fuel : Nat) (s : z_stream) (flush : Int) (hb : isBad s)
    (hu : ¬ (s.next_in = none ∧ s.avail_in ≠ 0)) :
    ∃ s2, zlib_inflate E (fuel + 1) s flush = some (Z_DATA_ERROR, s2) ∧
      s2.avail_in = s.avail_in ∧ s2.next_in = s.next_in ∧ isBad s2 := by
  obtain ⟨st, hst, hm⟩ := hb
  have he : (enter s st).state.mode = BAD := by simp [enter, LOAD, hm]
  have hstep : step E flush (enter s st) = .leave { enter s st with ret := Z_DATA_ERROR } := by
    unfold step
    rw [he]
    rfl
  have hloop : inflate_loop E flush (fuel + 1) (enter s st) =
      some (.leave { enter s st with ret := Z_DATA_ERROR }) := by
    unfold inflate_loop
    rw [hstep]
  refine ⟨leave_stream { enter s st with ret := Z_DATA_ERROR }, ?_, ?_⟩
  · unfold zlib_inflate
    rw [hst]
    simp only [hu, if_false, hloop]
    unfold inf_leave
    have h1 : ¬ (Z_DATA_ERROR = Z_OK) := by decide
    simp [h1]
  · obtain ⟨f1, f2, f3, f4, st2, f5, f6⟩ := leave_stream_frame { enter s st with ret := Z_DATA_ERROR }
    refine ⟨?_, ?_, st2, f5, ?_⟩
    · rw [f1]; simp [enter, LOAD]
    · rw [f3]; simp [enter, LOAD]
    · rw [f6]; exact he

lemma u32_of_lt {x : Nat} (h : x < 4294967296) : u32 x = x := by
  unfold u32
  exact Nat.mod_eq_of_lt h

lemma u32_lt (x : Nat) : u32 x < 4294967296 := by
  unfold u32
  omega

lemma add32_of_lt {a b : Nat} (h : a + b < 4294967296) : add32 a b = a + b := by
  unfold add32
  exact Nat.mod_eq_of_lt h

lemma sub32_of_le {a b : Nat} (h : b ≤ a) (ha : a < 4294967296) : sub32 a b = a - b := by
  unfold sub32
  omega

lemma mask_sub32 (n : Nat) (hn : n ≤ 32) : sub32 (1 <<< n) 1 = 2 ^ n - 1 := by
  have h1 : 1 <<< n = 2 ^ n := by simp [Nat.shiftLeft_eq]
  have h2 : 2 ^ n ≤ 2 ^ 32 := Nat.pow_le_pow_right (by decide) hn
  have h3 : 0 < 2 ^ n := Nat.two_pow_pos n
  rw [h1]
  unfold sub32
  norm_num at h2
  rcases Nat.lt_or_ge (2 ^ n) 4294967296 with h | h
  · omega
  · have : 2 ^ n = 4294967296 := by omega
    rw [this]

/-- The macro `BITS(n)` is the low `n` bits of the 32-bit accumulator. -/
lemma BITS_mod (c : Cfg) (n : Nat) (hn : n ≤ 32) : BITS c n = c.hold % 4294967296 % 2 ^ n := by
  unfold BITS
  rw [mask_sub32 n hn, Nat.and_pow_two_sub_one_eq_mod]
  unfold u32
  rfl

lemma and_65535 (x : Nat) : x &&& 65535 = x % 65536 :=
  Nat.and_pow_two_sub_one_eq_mod x 16

lemma and_255 (x : Nat) : x &&& 255 = x % 256 :=
  Nat.and_pow_two_sub_one_eq_mod x 8

lemma and_7 (x : Nat) : x &&& 7 = x % 8 :=
  Nat.and_pow_two_sub_one_eq_mod x 3

lemma and_512_ne_zero (x : Nat) : x &&& 512 ≠ 0 ↔ x / 512 % 2 = 1 := by
  have h512 : (512 : Nat) = 2 ^ 9 := by norm_num
  rw [h512, Nat.and_two_pow, Nat.testBit_to_div_mod]
  by_cases h : x / 2 ^ 9 % 2 = 1
  · simp [h]
  · simp [h]

lemma and_65280 (x : Nat) : x &&& 65280 = (x / 256 % 256) * 256 := by
  apply Nat.eq_of_testBit_eq
  intro i
  have h1 : (65280 : Nat) = (2 ^ 8 - 1) <<< 8 := by decide
  have h2 : x / 256 % 256 * 256 = (x >>> 8 % 2 ^ 8) <<< 8 := by
    rw [Nat.shiftLeft_eq, Nat.shiftRight_eq_div_pow]
    norm_num
  rw [h2, h1]
  simp only [Nat.testBit_and, Nat.testBit_shiftLeft, Nat.testBit_mod_two_pow,
    Nat.testBit_shiftRight, Nat.testBit_two_pow_sub_one]
  by_cases hi : i ≥ 8
  · have : 8 + (i - 8) = i := by omega
    simp only [hi, this, decide_True, Bool.true_and]
    exact Bool.and_comm _ _
  · simp [hi]

lemma xor_65535 {m : Nat} (h : m < 65536) : m ^^^ 65535 = 65535 - m := by
  apply Nat.eq_of_testBit_eq
  intro i
  have h1 : (65535 : Nat) = 2 ^ 16 - 1 := by norm_num
  have h2 : 65535 - m = 2 ^ 16 - (m + 1) := by omega
  rw [h2, Nat.testBit_xor, h1, Nat.testBit_two_pow_sub_one,
    Nat.testBit_two_pow_sub_succ (by norm_num; exact h)]
  by_cases hi : i < 16
  · simp [hi]
  · have : m.testBit i = false := by
      apply Nat.testBit_lt_two_pow
      have : 2 ^ 16 ≤ 2 ^ i := Nat.pow_le_pow_right (by decide) (by omega)
      omega
    simp [hi, this]

lemma le_bytes_lt (bs : List Nat) (hb : ∀ b ∈ bs, b < 256) : le_bytes bs < 2 ^ (8 * bs.length) := by
  induction bs with
  | nil => simp [le_bytes]
  | cons b bs ih =>
    have h1 := ih (fun x hx => hb x (List.mem_cons_of_mem _ hx))
    have h2 := hb b (List.mem_cons_self _ _)
    simp only [le_bytes, List.length_cons]
    have : 2 ^ (8 * (bs.length + 1)) = 256 * 2 ^ (8 * bs.length) := by
      rw [Nat.mul_add, Nat.pow_add]; norm_num; ring
    rw [this]
    omega

lemma PULLBYTE_some (c : Cfg) (h : c.have_ ≠ 0) :
    PULLBYTE c = some { c with
      have_ := c.have_ - 1,
      hold := u32 (c.hold + u32 ((c.next.getD []).headD 0 <<< c.bits)),
      next := c.next.map List.tail,
      bits := add32 c.bits 8 } := by
  unfold PULLBYTE
  rw [if_neg h]

/-- With the bytes `bs` next in the input and room for them in the accumulator,
a `NEEDBITS(n)` that needs exactly these bytes pulls them in little-endian order. -/
lemma NEEDBITS_loop_bytes (bs rest : List Nat) (n : Nat) :
    ∀ (fuel : Nat) (c : Cfg), c.next = some (bs ++ rest) → bs.length ≤ c.have_ →
      bs.length < fuel → (∀ b ∈ bs, b < 256) → c.hold < 2 ^ c.bits →
      c.bits + 8 * bs.length ≤ 32 → n ≤ c.bits + 8 * bs.length →
      (bs ≠ [] → c.bits + 8 * (bs.length - 1) < n) →
      NEEDBITS_loop fuel n c = (true, { c with
        have_ := c.have_ - bs.length, next := some rest,
        hold := c.hold + le_bytes bs * 2 ^ c.bits, bits := c.bits + 8 * bs.length }) := by
  induction bs with
  | nil =>
    intro fuel c hn _ hf _ _ _ hle _
    obtain ⟨f, rfl⟩ : ∃ f, fuel = f + 1 := ⟨fuel - 1, by simp at hf; omega⟩
    unfold NEEDBITS_loop
    simp only [List.length_nil, Nat.mul_zero, Nat.add_zero] at hle
    rw [if_neg (by omega)]
    simp only [List.nil_append] at hn
    simp [le_bytes, ← hn]
  | cons b bs ih =>
    intro fuel c hn hh hf hb hhold hroom hle hgt
    obtain ⟨f, rfl⟩ : ∃ f, fuel = f + 1 := ⟨fuel - 1, by simp at hf; omega⟩
    simp only [List.length_cons] at hh hf hroom hle hgt
    have hgt' := hgt (by simp)
    simp only [Nat.add_sub_cancel] at hgt'
    unfold NEEDBITS_loop
    rw [if_pos (by omega), PULLBYTE_some c (by omega)]
    simp only []
    have hb0 : b < 256 := hb b (List.mem_cons_self _ _)
    have hbits : c.bits + 8 ≤ 32 := by omega
    have hpow : 2 ^ (c.bits + 8) = 2 ^ c.bits * 256 := by rw [Nat.pow_add]
    have hp32 : 2 ^ (c.bits + 8) ≤ 2 ^ 32 := Nat.pow_le_pow_right (by decide) hbits
    have hpos : 0 < 2 ^ c.bits := Nat.two_pow_pos _
    have hsh : b <<< c.bits = b * 2 ^ c.bits := Nat.shiftLeft_eq _ _
    have hmul : b * 2 ^ c.bits + 2 ^ c.bits ≤ 2 ^ c.bits * 256 := by nlinarith
    have hnext : (c.next.getD []).headD 0 = b := by rw [hn]; rfl
    have hhold1 : u32 (c.hold + u32 (b <<< c.bits)) = c.hold + b * 2 ^ c.bits := by
      have hin : u32 (b * 2 ^ c.bits) = b * 2 ^ c.bits :=
        u32_of_lt (by norm_num at hp32; omega)
      rw [hsh, hin, u32_of_lt (by norm_num at hp32; omega)]
    have hbits1 : add32 c.bits 8 = c.bits + 8 := add32_of_lt (by omega)
    rw [hnext, hhold1, hbits1]
    rw [ih f _ (by simp [hn]) (by simp; omega) (by omega)
      (fun x hx => hb x (List.mem_cons_of_mem _ hx)) (by simp only []; omega)
      (by simp only []; omega) (by simp only []; omega)
      (by intro hne; simp only []; have : 0 < bs.length := List.length_pos.mpr hne; omega)]
    simp only [Prod.mk.injEq, true_and, le_bytes, List.length_cons]
    congr 1
    · omega
    · rw [hpow]; ring
    · omega

lemma and_two_pow_ne_zero (x k : Nat) : x &&& 2 ^ k ≠ 0 ↔ x / 2 ^ k % 2 = 1 := by
  rw [Nat.and_two_pow, Nat.testBit_to_div_mod]
  have hk : 2 ^ k ≠ 0 := Nat.pos_iff_ne_zero.mp (Nat.two_pow_pos k)
  by_cases h : x / 2 ^ k % 2 = 1
  · simp [h, hk]
  · simp [h]

lemma NEEDBITS_bytes (bs rest : List Nat) (n : Nat) (c : Cfg)
    (hn : c.next = some (bs ++ rest)) (hh : bs.length ≤ c.have_) (hb : ∀ b ∈ bs, b < 256)
    (hhold : c.hold < 2 ^ c.bits) (hroom : c.bits + 8 * bs.length ≤ 32)
    (hle : n ≤ c.bits + 8 * bs.length) (hgt : bs ≠ [] → c.bits + 8 * (bs.length - 1) < n) :
    NEEDBITS n c = (true, { c with
      have_ := c.have_ - bs.length, next := some rest,
      hold := c.hold + le_bytes bs * 2 ^ c.bits, bits := c.bits + 8 * bs.length }) := by
  unfold NEEDBITS
  exact NEEDBITS_loop_bytes bs rest n _ c hn hh (by omega) hb hhold hroom hle hgt

lemma hdr_arith (b0 b1 : Nat) (hb0 : b0 < 256) (hb1 : b1 < 256) :
    (b0 + 256 * b1) % 256 = b0 ∧ (b0 + 256 * b1) / 256 = b1 ∧
    (b0 + 256 * b1) % 16 = b0 % 16 ∧ (b0 + 256 * b1) / 16 % 16 = b0 / 16 ∧
    (b0 + 256 * b1) / 16 / 512 % 2 = b1 / 32 % 2 ∧ b0 + 256 * b1 < 65536 := by
  refine ⟨?_, ?_, ?_, ?_, ?_, ?_⟩ <;> omega

/-- The HEAD case on an empty accumulator with the two header bytes at hand. -/
lemma case_HEAD_bytes (c : Cfg) (b0 b1 : Nat) (rest : List Nat)
    (hw : c.state.wrap ≠ 0) (hbits : c.bits = 0) (hhold : c.hold = 0)
    (hn : c.next = some (b0 :: b1 :: rest)) (hh : 2 ≤ c.have_)
    (hb0 : b0 < 256) (hb1 : b1 < 256) :
    ∃ c1, case_HEAD c = .cont c1 ∧ c1.have_ = c.have_ - 2 ∧ c1.next = some rest ∧
      c1.put = c.put ∧ c1.left = c.left ∧
      (((b0 * 256 + b1) % 31 = 0 ∧ b0 % 16 = 8 ∧ b0 / 16 + 8 ≤ c.state.wbits) →
        c1.hold = 0 ∧ c1.bits = 0 ∧ c1.state.check = 1 ∧ c1.strm.adler = 1 ∧
        c1.state.mode = (if b1 &&& 0x20 ≠ 0 then DICTID else TYPE)) ∧
      (¬ ((b0 * 256 + b1) % 31 = 0 ∧ b0 % 16 = 8 ∧ b0 / 16 + 8 ≤ c.state.wbits) →
        c1.state.mode = BAD) := by
  have hN := NEEDBITS_bytes [b0, b1] rest 16 c (by simpa using hn) (by simpa using hh)
    (by intro b hb; simp at hb; rcases hb with rfl | rfl <;> assumption)
    (by rw [hhold, hbits]; norm_num) (by rw [hbits]; norm_num) (by rw [hbits]; norm_num)
    (by intro _; rw [hbits]; norm_num)
  unfold case_HEAD
  rw [if_neg hw, hN]
  obtain ⟨c2, hc2⟩ : ∃ c2 : Cfg, c2 = { c with
      have_ := c.have_ - [b0, b1].length, next := some rest,
      hold := c.hold + le_bytes [b0, b1] * 2 ^ c.bits,
      bits := c.bits + 8 * [b0, b1].length } := ⟨_, rfl⟩
  rw [← hc2]
  have hH : c2.hold = b0 + 256 * b1 := by
    rw [hc2]; simp [le_bytes, hhold, hbits]
  have hS : c2.state = c.state := by rw [hc2]
  have hlt : c2.hold < 4294967296 := by rw [hH]; omega
  obtain ⟨a1, a2, a3, a4, a5, a6⟩ := hdr_arith b0 b1 hb0 hb1
  have e0 : BITS c2 8 = b0 := by
    rw [BITS_mod c2 8 (by decide), hH, Nat.mod_eq_of_lt (show b0 + 256 * b1 < 4294967296 by omega)]
    exact a1
  have e1 : u32 (BITS c2 8 <<< 8 + c2.hold >>> 8) % 31 = (b0 * 256 + b1) % 31 := by
    rw [e0, Nat.shiftLeft_eq, Nat.shiftRight_eq_div_pow, hH]
    have : (b0 + 256 * b1) / 2 ^ 8 = b1 := a2
    rw [this, u32_of_lt (by omega)]
  have e2 : BITS c2 4 = b0 % 16 := by
    rw [BITS_mod c2 4 (by decide), hH, Nat.mod_eq_of_lt (show b0 + 256 * b1 < 4294967296 by omega)]
    exact a3
  have e3 : add32 (BITS (DROPBITS 4 c2) 4) 8 = b0 / 16 + 8 := by
    rw [BITS_mod _ 4 (by decide)]
    simp only [DROPBITS, hH, Nat.shiftRight_eq_div_pow]
    rw [Nat.mod_eq_of_lt (show (b0 + 256 * b1) / 2 ^ 4 < 4294967296 by omega)]
    have : (b0 + 256 * b1) / 2 ^ 4 % 2 ^ 4 = b0 / 16 := a4
    rw [this, add32_of_lt (by omega)]
  have e4 : (DROPBITS 4 c2).hold &&& 0x200 ≠ 0 ↔ b1 &&& 0x20 ≠ 0 := by
    have h1 := and_two_pow_ne_zero (DROPBITS 4 c2).hold 9
    have h2 := and_two_pow_ne_zero b1 5
    refine h1.trans (Iff.trans ?_ h2.symm)
    simp only [DROPBITS, hH, Nat.shiftRight_eq_div_pow]
    have : (b0 + 256 * b1) / 2 ^ 4 / 2 ^ 9 % 2 = b1 / 2 ^ 5 % 2 := a5
    rw [this]
  simp only []
  rw [e1, e2, e3]
  have hwb : (DROPBITS 4 c2).state.wbits = c.state.wbits := by rw [hc2]; rfl
  rw [hwb]
  by_cases h31 : (b0 * 256 + b1) % 31 ≠ 0
  · rw [if_pos h31]
    refine ⟨_, rfl, ?_⟩
    simp [Cfg.bad, hc2]
    intro h; exact absurd h h31
  · rw [if_neg h31]
    by_cases hm : b0 % 16 ≠ Z_DEFLATED
    · rw [if_pos hm]
      refine ⟨_, rfl, ?_⟩
      simp [Cfg.bad, hc2]
      intro _ h; exact absurd h hm
    · rw [if_neg hm]
      by_cases hwin : b0 / 16 + 8 > c.state.wbits
      · rw [if_pos hwin]
        refine ⟨_, rfl, ?_⟩
        simp [Cfg.bad, DROPBITS, hc2]
        intro _ _ h; omega
      · rw [if_neg hwin]
        refine ⟨_, rfl, ?_⟩
        have hm' : b0 % 16 = 8 := by simpa [Z_DEFLATED] using hm
        have h31' : (b0 * 256 + b1) % 31 = 0 := by simpa using h31
        simp only [INITBITS, zlib_adler32, true_and]
        refine ⟨by rw [hc2]; rfl, by rw [hc2]; rfl, by rw [hc2]; rfl, by rw [hc2]; rfl, ?_, ?_⟩
        · intro _
          by_cases hd : b1 &&& 0x20 ≠ 0
          · rw [if_pos (e4.mpr hd), if_pos hd]
          · rw [if_neg (fun h => hd (e4.mp h)), if_neg hd]
        · intro h
          exact absurd ⟨h31', hm', by omega⟩ h

lemma inflate_loop_cont (E : Ext) (flush : Int) (fuel : Nat) (c c1 : Cfg)
    (h : step E flush c = .cont c1) :
    inflate_loop E flush (fuel + 1) c = inflate_loop E flush fuel c1 := by
  rw [inflate_loop, h]

lemma inflate_loop_leave (E : Ext) (flush : Int) (fuel : Nat) (c c1 : Cfg)
    (h : step E flush c = .leave c1) :
    inflate_loop E flush (fuel + 1) c = some (.leave c1) := by
  rw [inflate_loop, h]

lemma step_bad (E : Ext) (flush : Int) (c : Cfg) (h : c.state.mode = BAD) :
    step E flush c = .leave { c with ret := Z_DATA_ERROR } := by
  unfold step
  rw [h]
  rfl

lemma zlib_inflate_leave (E : Ext) (fuel : Nat) (s : z_stream) (st : inflate_state)
    (flush : Int) (c : Cfg) (hs : s.state = some st)
    (hu : ¬ (s.next_in = none ∧ s.avail_in ≠ 0))
    (hl : inflate_loop E flush fuel (enter s st) = some (.leave c)) :
    zlib_inflate E fuel s flush = some (inf_leave flush c) := by
  unfold zlib_inflate
  rw [hs]
  simp only [hu, if_false, hl]

lemma inf_leave_of_ne_ok (flush : Int) (c : Cfg) (h : c.ret ≠ Z_OK) :
    inf_leave flush c = (c.ret, leave_stream c) := by
  unfold inf_leave
  rw [if_neg (fun hh => h hh.2.1), if_neg (fun hh => h hh.2)]

/-- The accumulator after `BYTEBITS()`. -/
lemma BYTEBITS_eq (c : Cfg) (hb : c.bits ≤ 32) (hh : c.hold < 2 ^ c.bits) :
    (BYTEBITS c).bits = c.bits - c.bits % 8 ∧ (BYTEBITS c).hold = c.hold / 2 ^ (c.bits % 8) ∧
    (BYTEBITS c).hold < 2 ^ (BYTEBITS c).bits := by
  have h1 : (BYTEBITS c).bits = c.bits - c.bits % 8 := by
    simp only [BYTEBITS, and_7]
    exact sub32_of_le (Nat.mod_le _ _) (by omega)
  have h2 : (BYTEBITS c).hold = c.hold / 2 ^ (c.bits % 8) := by
    simp only [BYTEBITS, and_7, Nat.shiftRight_eq_div_pow]
  refine ⟨h1, h2, ?_⟩
  rw [h1, h2]
  apply Nat.div_lt_of_lt_mul
  rw [← Nat.pow_add]
  have : c.bits % 8 + (c.bits - c.bits % 8) = c.bits := by
    have := Nat.mod_le c.bits 8
    omega
  rw [this]
  exact hh

/-- The STORED case when the bytes `bs` complete the 32 bits of the header:
`v` is the header, low half LEN and high half NLEN. -/
lemma case_STORED_bytes (c : Cfg) (bs rest : List Nat)
    (hb : c.bits ≤ 32) (hh : c.hold < 2 ^ c.bits) (hn : c.next = some (bs ++ rest))
    (hl : bs.length ≤ c.have_) (hbs : ∀ b ∈ bs, b < 256)
    (h32 : (c.bits - c.bits % 8) + 8 * bs.length = 32) :
    ∃ (c2 : Cfg) (v : Nat), v = c.hold / 2 ^ (c.bits % 8) + le_bytes bs * 2 ^ (c.bits - c.bits % 8) ∧
      v < 4294967296 ∧
      c2.strm = c.strm ∧ c2.state = c.state ∧ c2.put = c.put ∧ c2.left = c.left ∧
      c2.in_ = c.in_ ∧ c2.out = c.out ∧ c2.ret = c.ret ∧
      c2.next = some rest ∧ c2.have_ = c.have_ - bs.length ∧
      (v % 65536 ≠ 65535 - v / 65536 →
        case_STORED c = .cont (c2.bad "invalid stored block lengths")) ∧
      (v % 65536 = 65535 - v / 65536 →
        case_STORED c = case_COPY { c2 with
          hold := 0, bits := 0,
          state := { c2.state with length := v % 65536, mode := COPY } }) := by
  obtain ⟨e1, e2, e3⟩ := BYTEBITS_eq c hb hh
  have hN := NEEDBITS_bytes bs rest 32 (BYTEBITS c) hn hl hbs e3
    (by rw [e1]; omega) (by rw [e1]; omega)
    (by intro hne; rw [e1]; have : 0 < bs.length := List.length_pos.mpr hne; omega)
  obtain ⟨c2, hc2⟩ : ∃ c2 : Cfg, c2 = { BYTEBITS c with
      have_ := (BYTEBITS c).have_ - bs.length, next := some rest,
      hold := (BYTEBITS c).hold + le_bytes bs * 2 ^ (BYTEBITS c).bits,
      bits := (BYTEBITS c).bits + 8 * bs.length } := ⟨_, rfl⟩
  rw [← hc2] at hN
  have hv : c2.hold = c.hold / 2 ^ (c.bits % 8) + le_bytes bs * 2 ^ (c.bits - c.bits % 8) := by
    rw [hc2]; simp only []; rw [e1, e2]
  have hlt : c2.hold < 4294967296 := by
    rw [hv]
    have h1 := le_bytes_lt bs hbs
    have h2 : c.hold / 2 ^ (c.bits % 8) < 2 ^ (c.bits - c.bits % 8) := by rw [← e2, ← e1]; exact e3
    have h3 : 2 ^ (c.bits - c.bits % 8) * 2 ^ (8 * bs.length) = 4294967296 := by
      rw [← Nat.pow_add, h32]
    nlinarith
  have hf : c2.strm = c.strm ∧ c2.state = c.state ∧ c2.put = c.put ∧ c2.left = c.left ∧
      c2.in_ = c.in_ ∧ c2.out = c.out ∧ c2.ret = c.ret ∧
      c2.next = some rest ∧ c2.have_ = c.have_ - bs.length := by
    subst hc2
    simp [BYTEBITS]
  obtain ⟨f1, f2, f3, f4, f5, f6, f7, f8, f9⟩ := hf
  refine ⟨c2, c2.hold, hv, hlt, f1, f2, f3, f4, f5, f6, f7, f8, f9, ?_, ?_⟩
  · intro hne
    unfold case_STORED
    rw [hN]
    simp only []
    rw [if_pos]
    rw [and_65535, Nat.shiftRight_eq_div_pow, xor_65535 (by norm_num; omega)]
    exact hne
  · intro heq
    unfold case_STORED
    rw [hN]
    simp only []
    rw [if_neg]
    · simp only [INITBITS, Cfg.setMode, and_65535, u32_of_lt hlt]
    · rw [and_65535, Nat.shiftRight_eq_div_pow, xor_65535 (by norm_num; omega)]
      exact fun h => h heq

lemma leave_stream_msg (c : Cfg) : (leave_stream c).msg = c.strm.msg := by
  unfold leave_stream
  simp only [RESTORE]

/-- TYPEDO on the byte `01`: a final stored block. -/
lemma case_TYPEDO_01 (c : Cfg) (rest : List Nat)
    (hlast : c.state.last = 0) (hbits : c.bits = 0) (hhold : c.hold = 0)
    (hn : c.next = some (0x01 :: rest)) (hh : 1 ≤ c.have_) :
    case_TYPEDO c = .cont { c with
      have_ := c.have_ - 1, next := some rest, hold := 0, bits := 5,
      state := { c.state with last := 1, mode := STORED } } := by
  have hN := NEEDBITS_bytes [0x01] rest 3 c (by simpa using hn) (by simpa using hh)
    (by intro b hb; simp at hb; rw [hb]; decide)
    (by rw [hhold, hbits]; norm_num) (by rw [hbits]; norm_num) (by rw [hbits]; norm_num)
    (by intro _; rw [hbits]; norm_num)
  unfold case_TYPEDO
  rw [if_neg (by simp [hlast]), hN]
  simp only [le_bytes, hhold, hbits, List.length_cons, List.length_nil]
  norm_num
  simp only [BITS_mod _ 1 (by decide), BITS_mod _ 2 (by decide), DROPBITS]
  norm_num [Cfg.setMode, sub32_of_le, Nat.shiftRight_eq_div_pow]

/-- The HEAD case on an accepted header, with the locals it leaves. -/
lemma case_HEAD_accept (c : Cfg) (b0 b1 : Nat) (rest : List Nat)
    (hw : c.state.wrap ≠ 0) (hbits : c.bits = 0) (hhold : c.hold = 0)
    (hn : c.next = some (b0 :: b1 :: rest)) (hh : 2 ≤ c.have_)
    (hb0 : b0 < 256) (hb1 : b1 < 256)
    (h31 : (b0 * 256 + b1) % 31 = 0) (hm : b0 % 16 = 8) (hwin : b0 / 16 + 8 ≤ c.state.wbits) :
    case_HEAD c = .cont { c with
      have_ := c.have_ - 2, next := some rest, hold := 0, bits := 0,
      strm := { c.strm with adler := 1 },
      state := { c.state with
        dmax := u32 (1 <<< (b0 / 16 + 8)), check := 1,
        mode := if b1 &&& 0x20 ≠ 0 then DICTID else TYPE } } := by
  have hN := NEEDBITS_bytes [b0, b1] rest 16 c (by simpa using hn) (by simpa using hh)
    (by intro b hb; simp at hb; rcases hb with rfl | rfl <;> assumption)
    (by rw [hhold, hbits]; norm_num) (by rw [hbits]; norm_num) (by rw [hbits]; norm_num)
    (by intro _; rw [hbits]; norm_num)
  unfold case_HEAD
  rw [if_neg hw, hN]
  obtain ⟨c2, hc2⟩ : ∃ c2 : Cfg, c2 = { c with
      have_ := c.have_ - [b0, b1].length, next := some rest,
      hold := c.hold + le_bytes [b0, b1] * 2 ^ c.bits,
      bits := c.bits + 8 * [b0, b1].length } := ⟨_, rfl⟩
  rw [← hc2]
  have hH : c2.hold = b0 + 256 * b1 := by
    rw [hc2]; simp [le_bytes, hhold, hbits]
  obtain ⟨a1, a2, a3, a4, a5, a6⟩ := hdr_arith b0 b1 hb0 hb1
  have e0 : BITS c2 8 = b0 := by
    rw [BITS_mod c2 8 (by decide), hH, Nat.mod_eq_of_lt (show b0 + 256 * b1 < 4294967296 by omega)]
    exact a1
  have e1 : u32 (BITS c2 8 <<< 8 + c2.hold >>> 8) % 31 = (b0 * 256 + b1) % 31 := by
    rw [e0, Nat.shiftLeft_eq, Nat.shiftRight_eq_div_pow, hH]
    have : (b0 + 256 * b1) / 2 ^ 8 = b1 := a2
    rw [this, u32_of_lt (by omega)]
  have e2 : BITS c2 4 = b0 % 16 := by
    rw [BITS_mod c2 4 (by decide), hH, Nat.mod_eq_of_lt (show b0 + 256 * b1 < 4294967296 by omega)]
    exact a3
  have e3 : add32 (BITS (DROPBITS 4 c2) 4) 8 = b0 / 16 + 8 := by
    rw [BITS_mod _ 4 (by decide)]
    simp only [DROPBITS, hH, Nat.shiftRight_eq_div_pow]
    rw [Nat.mod_eq_of_lt (show (b0 + 256 * b1) / 2 ^ 4 < 4294967296 by omega)]
    have : (b0 + 256 * b1) / 2 ^ 4 % 2 ^ 4 = b0 / 16 := a4
    rw [this, add32_of_lt (by omega)]
  have e4 : (DROPBITS 4 c2).hold &&& 0x200 ≠ 0 ↔ b1 &&& 0x20 ≠ 0 := by
    have h1 := and_two_pow_ne_zero (DROPBITS 4 c2).hold 9
    have h2 := and_two_pow_ne_zero b1 5
    refine h1.trans (Iff.trans ?_ h2.symm)
    simp only [DROPBITS, hH, Nat.shiftRight_eq_div_pow]
    have : (b0 + 256 * b1) / 2 ^ 4 / 2 ^ 9 % 2 = b1 / 2 ^ 5 % 2 := a5
    rw [this]
  simp only []
  rw [e1, e2, e3]
  have hwb : (DROPBITS 4 c2).state.wbits = c.state.wbits := by rw [hc2]; rfl
  rw [hwb, if_neg (by simp [h31]), if_neg (by simp [hm, Z_DEFLATED]), if_neg (by omega)]
  have hmode : (if (DROPBITS 4 c2).hold &&& 0x200 ≠ 0 then DICTID else TYPE) =
      (if b1 &&& 0x20 ≠ 0 then DICTID else TYPE) := by
    by_cases hd : b1 &&& 0x20 ≠ 0
    · rw [if_pos (e4.mpr hd), if_pos hd]
    · rw [if_neg (fun h => hd (e4.mp h)), if_neg hd]
  rw [hmode, hc2]
  simp [INITBITS, DROPBITS, zlib_adler32]

lemma REVERSE_eq (q : Nat) (hq : q < 4294967296) :
    REVERSE q = q / 16777216 + (q / 65536 % 256) * 256 + (q / 256 % 256) * 65536 +
      (q % 256) * 16777216 := by
  unfold REVERSE
  simp only [and_255, and_65280, Nat.shiftRight_eq_div_pow, Nat.shiftLeft_eq]
  norm_num
  have h1 : u32 (q / 256 % 256 * 256 * 256) = q / 256 % 256 * 65536 := by
    rw [u32_of_lt (by omega)]; ring
  have h2 : u32 (q % 256 * 16777216) = q % 256 * 16777216 := u32_of_lt (by omega)
  have h3 : q / 256 / 256 % 256 = q / 65536 % 256 := by omega
  have h4 : q / 16777216 % 256 = q / 16777216 := by omega
  rw [h1, h2, h3, h4, u32_of_lt (by omega)]

lemma REVERSE_bytes (t0 t1 t2 t3 : Nat) (h0 : t0 < 256) (h1 : t1 < 256) (h2 : t2 < 256)
    (h3 : t3 < 256) :
    REVERSE (le_bytes [t0, t1, t2, t3]) = t3 + 256 * t2 + 65536 * t1 + 16777216 * t0 := by
  have hq : le_bytes [t0, t1, t2, t3] = t0 + 256 * t1 + 65536 * t2 + 16777216 * t3 := by
    simp only [le_bytes]
    ring
  rw [REVERSE_eq _ (by rw [hq]; omega), hq]
  have e1 : (t0 + 256 * t1 + 65536 * t2 + 16777216 * t3) / 16777216 = t3 := by omega
  have e2 : (t0 + 256 * t1 + 65536 * t2 + 16777216 * t3) / 65536 % 256 = t2 := by omega
  have e3 : (t0 + 256 * t1 + 65536 * t2 + 16777216 * t3) / 256 % 256 = t1 := by omega
  have e4 : (t0 + 256 * t1 + 65536 * t2 + 16777216 * t3) % 256 = t0 := by omega
  rw [e1, e2, e3, e4]
  ring

/-- The trailer bytes of a 32-bit value read through the accumulator and
reversed give the value back. -/
lemma REVERSE_be32 (a : Nat) (ha : a < 4294967296) : REVERSE (le_bytes (be32 a)) = a := by
  unfold be32
  rw [REVERSE_bytes _ _ _ _ (by omega) (by omega) (by omega) (by omega)]
  omega

lemma be32_lt (a : Nat) : ∀ b ∈ be32 a, b < 256 := by
  intro b hb
  simp only [be32, List.mem_cons, List.mem_singleton, List.not_mem_nil, or_false] at hb
  rcases hb with rfl | rfl | rfl | rfl <;> omega

lemma adler32_fold_lt (adler : Nat) (buf : List Nat) : adler32_fold adler buf < 4294967296 := by
  unfold adler32_fold
  simp only []
  have key : ∀ (l : List Nat) (s : Nat × Nat), s.1 < 65536 → s.2 < 65536 →
      (l.foldl (fun (s : Nat × Nat) b => ((s.1 + b) % 65521, (s.2 + (s.1 + b) % 65521) % 65521))
        s).1 < 65536 ∧
      (l.foldl (fun (s : Nat × Nat) b => ((s.1 + b) % 65521, (s.2 + (s.1 + b) % 65521) % 65521))
        s).2 < 65536 := by
    intro l
    induction l with
    | nil => intro s h1 h2; exact ⟨h1, h2⟩
    | cons b l ih =>
      intro s _ _
      simp only [List.foldl_cons]
      exact ih _ (by simp only []; omega) (by simp only []; omega)
  obtain ⟨h1, h2⟩ := key buf (adler % 65536, adler / 65536 % 65536)
    (by simp only []; omega) (by simp only []; omega)
  omega

lemma adler32_fold_nil (adler : Nat) (h : adler < 4294967296) : adler32_fold adler [] = adler := by
  unfold adler32_fold
  simp only [List.foldl_nil]
  omega

/-- Adler-32 of a concatenation is the fold of the second part from the
checksum of the first. -/
lemma adler32_fold_append (adler : Nat) (a b : List Nat) :
    adler32_fold (adler32_fold adler a) b = adler32_fold adler (a ++ b) := by
  unfold adler32_fold
  simp only [List.foldl_append]
  have key : ∀ (l : List Nat) (s : Nat × Nat), s.1 < 65536 → s.2 < 65536 →
      (l.foldl (fun (s : Nat × Nat) b => ((s.1 + b) % 65521, (s.2 + (s.1 + b) % 65521) % 65521))
        s).1 < 65536 ∧
      (l.foldl (fun (s : Nat × Nat) b => ((s.1 + b) % 65521, (s.2 + (s.1 + b) % 65521) % 65521))
        s).2 < 65536 := by
    intro l
    induction l with
    | nil => intro s h1 h2; exact ⟨h1, h2⟩
    | cons b l ih =>
      intro s _ _
      simp only [List.foldl_cons]
      exact ih _ (by simp only []; omega) (by simp only []; omega)
  obtain ⟨h1, h2⟩ := key a (adler % 65536, adler / 65536 % 65536)
    (by simp only []; omega) (by simp only []; omega)
  generalize List.foldl (fun (s : Nat × Nat) b =>
    ((s.1 + b) % 65521, (s.2 + (s.1 + b) % 65521) % 65521))
    (adler % 65536, adler / 65536 % 65536) a = r at h1 h2
  have e1 : (r.2 * 65536 + r.1) % 65536 = r.1 := by omega
  have e2 : (r.2 * 65536 + r.1) / 65536 % 65536 = r.2 := by omega
  rw [e1, e2]

/-- STORED on a header whose NLEN is the complement of LEN = `n`, read from an
accumulator that holds fewer than 8 bits, all of them zero. -/
lemma case_STORED_len (c : Cfg) (n : Nat) (rest : List Nat)
    (hb : c.bits < 8) (hh : c.hold = 0) (hn16 : n ≤ 65535)
    (hn : c.next = some ([n % 256, n / 256, (65535 - n) % 256, (65535 - n) / 256] ++ rest))
    (hl : 4 ≤ c.have_) :
    case_STORED c = case_COPY { c with
      next := some rest, have_ := c.have_ - 4, hold := 0, bits := 0,
      state := { c.state with length := n, mode := COPY } } := by
  obtain ⟨c2, v, hv, _, f1, f2, f3, f4, f5, f6, f7, f8, f9, _, hgood⟩ :=
    case_STORED_bytes c [n % 256, n / 256, (65535 - n) % 256, (65535 - n) / 256] rest
      (by omega) (by rw [hh]; exact Nat.two_pow_pos _) hn (by simpa using hl)
      (by
        intro b hb
        simp only [List.mem_cons, List.mem_singleton, List.not_mem_nil, or_false] at hb
        rcases hb with rfl | rfl | rfl | rfl <;> omega)
      (by simp only [List.length_cons, List.length_nil]; omega)
  have hmod : c.bits % 8 = c.bits := Nat.mod_eq_of_lt hb
  have hv' : v = n + 65536 * (65535 - n) := by
    rw [hv, hh, hmod]
    simp only [le_bytes, Nat.sub_self, Nat.pow_zero, Nat.zero_div]
    omega
  have hlen : v % 65536 = n := by rw [hv']; omega
  have hgood' := hgood (by rw [hv']; omega)
  rw [hgood', hlen]
  congr 1
  cases c2
  cases c
  simp only [List.length_cons, List.length_nil] at f9
  simp_all

/-- COPY when the whole stored block is at hand and fits the output space. -/
lemma case_COPY_all (c : Cfg) (hlen : c.state.length ≠ 0)
    (h1 : c.state.length ≤ c.have_) (h2 : c.state.length ≤ c.left) :
    case_COPY c = .cont { c with
      put := c.put ++ readFwd (c.next.getD []) c.state.length,
      have_ := c.have_ - c.state.length,
      next := c.next.map (List.drop c.state.length),
      left := c.left - c.state.length,
      state := { c.state with length := 0 } } := by
  unfold case_COPY
  have e1 : (if c.state.length > c.have_ then c.have_ else c.state.length) = c.state.length :=
    if_neg (by omega)
  have e2 : (if c.state.length > c.left then c.left else c.state.length) = c.state.length :=
    if_neg (by omega)
  simp only [e1, e2, if_pos hlen, if_neg hlen, Nat.sub_self]

lemma case_COPY_done (c : Cfg) (hlen : c.state.length = 0) :
    case_COPY c = .cont (c.setMode TYPE) := by
  unfold case_COPY
  simp only []
  rw [if_neg (by simp [hlen])]

/-- TYPE after the final block, on an empty accumulator: on to CHECK. -/
lemma case_TYPE_last (flush : Int) (c : Cfg) (hf : flush ≠ Z_BLOCK) (hlast : c.state.last ≠ 0)
    (hb : c.bits = 0) (hh : c.hold = 0) :
    case_TYPE flush c = .cont (c.setMode CHECK) := by
  unfold case_TYPE case_TYPEDO
  rw [if_neg hf, if_pos hlast]
  have : BYTEBITS c = c := by
    cases c
    simp only [BYTEBITS] at hb hh ⊢
    subst hb hh
    simp [sub32_self]
  rw [this]

/-- CHECK with the four trailer bytes `be32 a` at hand, where `a` is the
checksum once the output of this call is folded in. -/
lemma case_CHECK_be32 (c : Cfg) (a : Nat) (rest : List Nat)
    (hw : c.state.wrap ≠ 0) (hb : c.bits = 0) (hh : c.hold = 0) (ha : a < 4294967296)
    (hn : c.next = some (be32 a ++ rest)) (hl : 4 ≤ c.have_)
    (hc : (CHECK_update c).state.check = a) :
    case_CHECK c = .leave { (CHECK_update c).setMode DONE with
      next := some rest, have_ := c.have_ - 4, hold := 0, bits := 0, ret := Z_STREAM_END } := by
  have hN := NEEDBITS_bytes (be32 a) rest 32 c hn (by simpa [be32] using hl) (be32_lt a)
    (by rw [hh, hb]; norm_num) (by rw [hb]; simp [be32]) (by rw [hb]; simp [be32])
    (by intro _; rw [hb]; simp [be32])
  unfold case_CHECK
  rw [if_pos hw, hN]
  simp only []
  unfold CHECK_tail
  have hhold2 : (CHECK_update { c with
      have_ := c.have_ - (be32 a).length, next := some rest,
      hold := c.hold + le_bytes (be32 a) * 2 ^ c.bits,
      bits := c.bits + 8 * (be32 a).length }).hold = le_bytes (be32 a) := by
    simp [CHECK_update, hh, hb]
  have hcheck2 : (CHECK_update { c with
      have_ := c.have_ - (be32 a).length, next := some rest,
      hold := c.hold + le_bytes (be32 a) * 2 ^ c.bits,
      bits := c.bits + 8 * (be32 a).length }).state.check = a := by
    rw [← hc]
    simp [CHECK_update]
  rw [hhold2, hcheck2, REVERSE_be32 a ha, if_neg (by simp)]
  simp [case_DONE, CHECK_update, INITBITS, Cfg.setMode, be32]

lemma readFwd_append (B rest : List Nat) : readFwd (B ++ rest) B.length = B := by
  unfold readFwd
  simp

/-- The passes that decode one final stored block: from locals with an empty
accumulator whose pass is TYPEDO, with the block next in the input and room for
`B` in the output, the loop comes, in at most 3 passes, to mode TYPE with `B`
written and the block consumed. -/
lemma stored_block_passes (E : Ext) (flush : Int) (c : Cfg) (B rest : List Nat)
    (hstep : step E flush c = case_TYPEDO c)
    (hB : B.length ≤ 65535) (hlast : c.state.last = 0) (hb : c.bits = 0) (hh : c.hold = 0)
    (hn : c.next = some (stored_block B ++ rest)) (hl : B.length + 5 ≤ c.have_)
    (hleft : B.length ≤ c.left) :
    ∃ k, k ≤ 3 ∧ ∀ f, inflate_loop E flush (f + k) c = inflate_loop E flush f { c with
      put := c.put ++ B, left := c.left - B.length, next := some rest,
      have_ := c.have_ - (B.length + 5), hold := 0, bits := 0,
      state := { c.state with last := 1, length := 0, mode := TYPE } } := by
  have h1 := case_TYPEDO_01 c
    ([B.length % 256, B.length / 256, (65535 - B.length) % 256, (65535 - B.length) / 256] ++
      (B ++ rest)) hlast hb hh (by rw [hn]; simp [stored_block]) (by omega)
  rw [← hstep] at h1
  obtain ⟨c1, hc1⟩ : ∃ c1 : Cfg, c1 = { c with
      have_ := c.have_ - 1,
      next := some ([B.length % 256, B.length / 256, (65535 - B.length) % 256,
        (65535 - B.length) / 256] ++ (B ++ rest)),
      hold := 0, bits := 5,
      state := { c.state with last := 1, mode := STORED } } := ⟨_, rfl⟩
  rw [← hc1] at h1
  have h2 := case_STORED_len c1 B.length (B ++ rest) (by rw [hc1]; simp) (by rw [hc1])
    hB (by rw [hc1]) (by rw [hc1]; simp only []; omega)
  have hs2 : step E flush c1 = case_STORED c1 := by
    unfold step
    have : c1.state.mode = STORED := by rw [hc1]
    rw [this]
  obtain ⟨c2, hc2⟩ : ∃ c2 : Cfg, c2 = { c1 with
      next := some (B ++ rest), have_ := c1.have_ - 4, hold := 0, bits := 0,
      state := { c1.state with length := B.length, mode := COPY } } := ⟨_, rfl⟩
  rw [← hc2] at h2
  by_cases hz : B.length = 0
  · have hB0 : B = [] := List.length_eq_zero.mp hz
    refine ⟨2, by omega, fun f => ?_⟩
    have h3 := case_COPY_done c2 (by rw [hc2]; exact hz)
    rw [inflate_loop_cont E flush (f + 1) c c1 h1,
      inflate_loop_cont E flush f c1 (c2.setMode TYPE) (by rw [hs2, h2, h3])]
    congr 1
    subst hc2 hc1 hB0
    simp [Cfg.setMode]
    omega
  · refine ⟨3, by omega, fun f => ?_⟩
    have h3 := case_COPY_all c2 (by rw [hc2]; exact hz)
      (by rw [hc2, hc1]; simp only []; omega) (by rw [hc2, hc1]; exact hleft)
    obtain ⟨c3, hc3⟩ : ∃ c3 : Cfg, c3 = { c2 with
        put := c2.put ++ readFwd (c2.next.getD []) c2.state.length,
        have_ := c2.have_ - c2.state.length,
        next := c2.next.map (List.drop c2.state.length),
        left := c2.left - c2.state.length,
        state := { c2.state with length := 0 } } := ⟨_, rfl⟩
    rw [← hc3] at h3
    have hs3 : step E flush c3 = case_COPY c3 := by
      unfold step
      have : c3.state.mode = COPY := by rw [hc3, hc2]
      rw [this]
    have h4 := case_COPY_done c3 (by rw [hc3])
    rw [inflate_loop_cont E flush (f + 2) c c1 h1,
      inflate_loop_cont E flush (f + 1) c1 c3 (by rw [hs2, h2, h3]),
      inflate_loop_cont E flush f c3 (c3.setMode TYPE) (by rw [hs3, h4])]
    congr 1
    subst hc3 hc2 hc1
    simp [Cfg.setMode, readFwd_append]
    omega

lemma readBack_append (P B : List Nat) : readBack (P ++ B) B.length B.length = B := by
  unfold readBack below
  simp

lemma zlib_updatewindow_check (strm : z_stream) (state : inflate_state) (out : Nat) :
    (zlib_updatewindow strm state out).check = state.check ∧
    (zlib_updatewindow strm state out).wrap = state.wrap := by
  unfold zlib_updatewindow
  simp only []
  split_ifs <;> exact ⟨rfl, rfl⟩

/-- When `inf_leave` finds no output left to count, it leaves the checksum alone. -/
lemma leave_stream_quiet (c : Cfg) (h : sub32 c.out c.left = 0) :
    (leave_stream c).adler = c.strm.adler ∧
    ∃ st, (leave_stream c).state = some st ∧ st.check = c.state.check ∧
      st.mode = c.state.mode := by
  unfold leave_stream
  simp only [RESTORE, h, ne_eq, not_true_eq_false, and_false, if_false]
  refine ⟨trivial, ?_⟩
  split_ifs <;>
    simp [zlib_updatewindow_mode, (zlib_updatewindow_check _ _ _).1]

/-- The state and the stream that `zlib_inflateInit2` leaves for a window size
in range. -/
lemma init_state (strm : z_stream) (ws : inflate_state) (w : Int) (hw : w = 15 ∨ w = -15) :
    ∃ st, (zlib_inflateInit2 strm ws w).2.state = some st ∧ st.mode = HEAD ∧
      st.wrap = (if w = 15 then 1 else 0) ∧ st.wbits = 15 ∧ st.hold = 0 ∧ st.bits = 0 ∧
      st.last = 0 ∧ (zlib_inflateInit2 strm ws w).2.next_out = strm.next_out := by
  rcases hw with rfl | rfl
  · exact ⟨_, by simp [zlib_inflateInit2, zlib_inflateReset]; rfl, rfl, by simp, rfl, rfl, rfl,
      rfl, by simp [zlib_inflateInit2, zlib_inflateReset]⟩
  · exact ⟨_, by simp [zlib_inflateInit2, zlib_inflateReset]; rfl, rfl, by simp, rfl, rfl, rfl,
      rfl, by simp [zlib_inflateInit2, zlib_inflateReset]⟩

lemma step_of_HEAD (E : Ext) (flush : Int) (c : Cfg) (h : c.state.mode = HEAD) :
    step E flush c = case_HEAD c := by
  unfold step; rw [h]

lemma step_of_TYPE (E : Ext) (flush : Int) (c : Cfg) (h : c.state.mode = TYPE) :
    step E flush c = case_TYPE flush c := by
  unfold step; rw [h]

lemma step_of_TYPEDO (E : Ext) (flush : Int) (c : Cfg) (h : c.state.mode = TYPEDO) :
    step E flush c = case_TYPEDO c := by
  unfold step; rw [h]

lemma step_of_CHECK (E : Ext) (flush : Int) (c : Cfg) (h : c.state.mode = CHECK) :
    step E flush c = case_CHECK c := by
  unfold step; rw [h]

lemma CHECK_update_adler (c : Cfg) :
    (CHECK_update c).strm.adler =
      if sub32 c.out c.left ≠ 0 then (CHECK_update c).state.check else c.strm.adler := by
  unfold CHECK_update
  simp only []

/-- A call on a decoder in HEAD with wrap on, given the zlib-wrapped stored block
of `B` and room for `B`. -/
lemma zlib_stored_call (E : Ext) (fuel : Nat) (flush : Int) (s : z_stream)
    (st : inflate_state) (B : List Nat)
    (hs : s.state = some st) (hmode : st.mode = HEAD) (hwrap : st.wrap ≠ 0)
    (hwb : 15 ≤ st.wbits) (hhold : st.hold = 0) (hbits : st.bits = 0) (hlast : st.last = 0)
    (hin : s.next_in = some (zlib_stored B)) (havail : s.avail_in = (zlib_stored B).length)
    (hB : B.length ≤ 65535) (hm : B.length ≤ s.avail_out) (hm32 : s.avail_out < 4294967296)
    (hf : flush ≠ Z_BLOCK) :
    ∃ s1, zlib_inflate E (fuel + 6) s flush = some (Z_STREAM_END, s1) ∧
      s1.next_out = s.next_out ++ B ∧ s1.avail_in = 0 ∧
      s1.avail_out = s.avail_out - B.length ∧ s1.adler = adler32_fold 1 B ∧
      ∃ st1, s1.state = some st1 ∧ st1.check = adler32_fold 1 B ∧ st1.mode = DONE := by
  have hlen : (zlib_stored B).length = B.length + 11 := by
    simp [zlib_stored, stored_block, be32]
  obtain ⟨c0, hc0⟩ : ∃ c0, c0 = enter s st := ⟨_, rfl⟩
  have e_state : c0.state = st := by rw [hc0]; simp [enter, LOAD, hmode]
  have e_next : c0.next = some ([0x78, 0x9C] ++ (stored_block B ++ be32 (adler32_fold 1 B))) := by
    rw [hc0]; simp [enter, LOAD, hin, zlib_stored]
  have e_have : c0.have_ = B.length + 11 := by rw [hc0]; simp [enter, LOAD, havail, hlen]
  have e_put : c0.put = s.next_out := by rw [hc0]; simp [enter, LOAD]
  have e_left : c0.left = s.avail_out := by rw [hc0]; simp [enter, LOAD]
  have e_out : c0.out = s.avail_out := by rw [hc0]; simp [enter, LOAD]
  have e_hold : c0.hold = 0 := by rw [hc0]; simp [enter, LOAD, hmode, hhold]
  have e_bits : c0.bits = 0 := by rw [hc0]; simp [enter, LOAD, hmode, hbits]
  -- pass 1: HEAD
  have h1 := case_HEAD_accept c0 0x78 0x9C (stored_block B ++ be32 (adler32_fold 1 B))
    (by rw [e_state]; exact hwrap) e_bits e_hold (by rw [e_next]; rfl) (by omega)
    (by decide) (by decide) (by decide) (by decide) (by rw [e_state]; omega)
  have hmode1 : (if (0x9C : Nat) &&& 0x20 ≠ 0 then DICTID else TYPE) = TYPE := by decide
  rw [hmode1] at h1
  obtain ⟨c1, hc1⟩ : ∃ c1 : Cfg, c1 = { c0 with
      have_ := c0.have_ - 2, next := some (stored_block B ++ be32 (adler32_fold 1 B)),
      hold := 0, bits := 0, strm := { c0.strm with adler := 1 },
      state := { c0.state with dmax := u32 (1 <<< (0x78 / 16 + 8)), check := 1, mode := TYPE } } :=
    ⟨_, rfl⟩
  rw [← hc1] at h1
  have hs1 : step E flush c0 = .cont c1 := by
    rw [step_of_HEAD E flush c0 (by rw [e_state]; exact hmode)]; exact h1
  -- passes 2 to 4: the stored block
  obtain ⟨k, hk, h2⟩ := stored_block_passes E flush c1 B (be32 (adler32_fold 1 B))
    (by
      rw [step_of_TYPE E flush c1 (by rw [hc1])]
      unfold case_TYPE
      rw [if_neg hf])
    hB (by rw [hc1]; simp only []; rw [e_state]; exact hlast) (by rw [hc1]) (by rw [hc1])
    (by rw [hc1]) (by rw [hc1]; simp only []; omega) (by rw [hc1]; simp only []; omega)
  obtain ⟨c4, hc4⟩ : ∃ c4 : Cfg, c4 = { c1 with
      put := c1.put ++ B, left := c1.left - B.length, next := some (be32 (adler32_fold 1 B)),
      have_ := c1.have_ - (B.length + 5), hold := 0, bits := 0,
      state := { c1.state with last := 1, length := 0, mode := TYPE } } := ⟨_, rfl⟩
  rw [← hc4] at h2
  -- pass 5: TYPE, on to CHECK
  have h5 : step E flush c4 = .cont (c4.setMode CHECK) := by
    rw [step_of_TYPE E flush c4 (by rw [hc4])]
    exact case_TYPE_last flush c4 hf (by rw [hc4]; simp) (by rw [hc4]) (by rw [hc4])
  -- pass 6: CHECK
  have hout5 : sub32 (c4.setMode CHECK).out (c4.setMode CHECK).left = B.length := by
    rw [hc4, hc1]
    simp only [Cfg.setMode]
    rw [e_out, e_left, sub32_of_le (Nat.sub_le _ _) hm32]
    omega
  have hput5 : (c4.setMode CHECK).put = s.next_out ++ B := by
    rw [hc4, hc1]; simp only [Cfg.setMode]; rw [e_put]
  have hcheck5 : (CHECK_update (c4.setMode CHECK)).state.check = adler32_fold 1 B := by
    simp only [CHECK_update]
    rw [hout5, hput5, readBack_append]
    by_cases hz : B.length = 0
    · rw [if_neg (by simp [hz])]
      have : B = [] := List.length_eq_zero.mp hz
      rw [this, adler32_fold_nil 1 (by decide), hc4, hc1]
      rfl
    · rw [if_pos hz, hc4, hc1]
      simp [Cfg.setMode, zlib_adler32]
  have h6 := case_CHECK_be32 (c4.setMode CHECK) (adler32_fold 1 B) []
    (by rw [hc4, hc1]; simp only [Cfg.setMode]; rw [e_state]; exact hwrap)
    (by rw [hc4]; rfl) (by rw [hc4]; rfl) (adler32_fold_lt _ _)
    (by rw [hc4]; simp [Cfg.setMode]) (by rw [hc4, hc1]; simp only [Cfg.setMode]; omega) hcheck5
  obtain ⟨c6, hc6⟩ : ∃ c6 : Cfg, c6 = { (CHECK_update (c4.setMode CHECK)).setMode DONE with
      next := some [], have_ := (c4.setMode CHECK).have_ - 4, hold := 0, bits := 0,
      ret := Z_STREAM_END } := ⟨_, rfl⟩
  rw [← hc6] at h6
  have hloop : inflate_loop E flush (fuel + 6) c0 = some (.leave c6) := by
    have e : fuel + 6 = (fuel + (3 - k) + 1 + 1 + k) + 1 := by omega
    rw [e, inflate_loop_cont E flush _ c0 c1 hs1, h2,
      inflate_loop_cont E flush _ c4 _ h5]
    have h6' : step E flush (c4.setMode CHECK) = .leave c6 := by
      rw [step_of_CHECK E flush _ rfl]; exact h6
    obtain ⟨j, hj⟩ : ∃ j, fuel + (3 - k) = j := ⟨_, rfl⟩
    rw [hj]
    exact inflate_loop_leave E flush j _ c6 h6'
  rw [hc0] at hloop
  have hu : ¬ (s.next_in = none ∧ s.avail_in ≠ 0) := by rw [hin]; simp
  have hret' : c6.ret = Z_STREAM_END := by rw [hc6]
  have hret : c6.ret ≠ Z_OK := by rw [hret']; decide
  refine ⟨leave_stream c6, ?_, ?_⟩
  · rw [zlib_inflate_leave E (fuel + 6) s st flush c6 hs hu hloop,
      inf_leave_of_ne_ok flush c6 hret, hret']
  · obtain ⟨g1, g2, _, g4, _⟩ := leave_stream_frame c6
    have hq : sub32 c6.out c6.left = 0 := by
      rw [hc6]
      simp only [Cfg.setMode, CHECK_update]
      exact sub32_self _
    obtain ⟨q1, st1, q2, q3, q4⟩ := leave_stream_quiet c6 hq
    have hadler : c6.strm.adler = adler32_fold 1 B := by
      have e6 : c6.strm.adler = (CHECK_update (c4.setMode CHECK)).strm.adler := by rw [hc6]; rfl
      rw [e6, CHECK_update_adler, hout5, hcheck5]
      by_cases hz : B.length = 0
      · rw [if_neg (by simp [hz])]
        have : B = [] := List.length_eq_zero.mp hz
        rw [this, adler32_fold_nil 1 (by decide), hc4, hc1]
        rfl
      · rw [if_pos hz]
    refine ⟨?_, ?_, ?_, ?_, st1, q2, ?_, ?_⟩
    · rw [g4, hc6]; simp only [Cfg.setMode, CHECK_update]; exact hput5
    · rw [g1, hc6, hc4, hc1]; simp only [Cfg.setMode]; omega
    · rw [g2, hc6]; simp only [Cfg.setMode, CHECK_update]; rw [hc4, hc1]; simp only []; rw [e_left]
    · rw [q1]; exact hadler
    · rw [q3, hc6]; simp only [Cfg.setMode]; exact hcheck5
    · rw [q4, hc6]; rfl

/-- A call on a decoder in HEAD with wrap off, given the raw stored block of `B`
and room for `B`. -/
lemma raw_stored_call (E : Ext) (fuel : Nat) (flush : Int) (s : z_stream)
    (st : inflate_state) (B : List Nat)
    (hs : s.state = some st) (hmode : st.mode = HEAD) (hwrap : st.wrap = 0)
    (hhold : st.hold = 0) (hbits : st.bits = 0) (hlast : st.last = 0)
    (hin : s.next_in = some (stored_block B)) (havail : s.avail_in = (stored_block B).length)
    (hB : B.length ≤ 65535) (hm : B.length ≤ s.avail_out) (hf : flush ≠ Z_BLOCK) :
    ∃ s1, zlib_inflate E (fuel + 6) s flush = some (Z_STREAM_END, s1) ∧
      s1.next_out = s.next_out ++ B ∧ s1.avail_in = 0 ∧
      s1.avail_out = s.avail_out - B.length ∧
      ∃ st1, s1.state = some st1 ∧ st1.mode = DONE := by
  have hlen : (stored_block B).length = B.length + 5 := by simp [stored_block]
  obtain ⟨c0, hc0⟩ : ∃ c0, c0 = enter s st := ⟨_, rfl⟩
  have e_state : c0.state = st := by rw [hc0]; simp [enter, LOAD, hmode]
  have e_next : c0.next = some (stored_block B ++ []) := by
    rw [hc0]; simp [enter, LOAD, hin]
  have e_have : c0.have_ = B.length + 5 := by rw [hc0]; simp [enter, LOAD, havail, hlen]
  have e_put : c0.put = s.next_out := by rw [hc0]; simp [enter, LOAD]
  have e_left : c0.left = s.avail_out := by rw [hc0]; simp [enter, LOAD]
  have e_hold : c0.hold = 0 := by rw [hc0]; simp [enter, LOAD, hmode, hhold]
  have e_bits : c0.bits = 0 := by rw [hc0]; simp [enter, LOAD, hmode, hbits]
  -- pass 1: HEAD
  have hs1 : step E flush c0 = .cont (c0.setMode TYPEDO) := by
    rw [step_of_HEAD E flush c0 (by rw [e_state]; exact hmode)]
    unfold case_HEAD
    rw [if_pos (by rw [e_state]; exact hwrap)]
  -- passes 2 to 4: the stored block
  obtain ⟨k, hk, h2⟩ := stored_block_passes E flush (c0.setMode TYPEDO) B []
    (step_of_TYPEDO E flush _ rfl) hB
    (by simp only [Cfg.setMode]; rw [e_state]; exact hlast) e_bits e_hold e_next
    (by simp only [Cfg.setMode]; omega) (by simp only [Cfg.setMode]; omega)
  obtain ⟨c4, hc4⟩ : ∃ c4 : Cfg, c4 = { c0.setMode TYPEDO with
      put := (c0.setMode TYPEDO).put ++ B, left := (c0.setMode TYPEDO).left - B.length,
      next := some [], have_ := (c0.setMode TYPEDO).have_ - (B.length + 5), hold := 0, bits := 0,
      state := { (c0.setMode TYPEDO).state with last := 1, length := 0, mode := TYPE } } :=
    ⟨_, rfl⟩
  rw [← hc4] at h2
  -- pass 5: TYPE, on to CHECK
  have h5 : step E flush c4 = .cont (c4.setMode CHECK) := by
    rw [step_of_TYPE E flush c4 (by rw [hc4])]
    exact case_TYPE_last flush c4 hf (by rw [hc4]; simp) (by rw [hc4]) (by rw [hc4])
  -- pass 6: CHECK with wrap off
  have h6 : step E flush (c4.setMode CHECK) =
      .leave { (c4.setMode CHECK).setMode DONE with ret := Z_STREAM_END } := by
    rw [step_of_CHECK E flush _ rfl]
    unfold case_CHECK
    rw [if_neg (by rw [hc4]; simp only [Cfg.setMode]; rw [e_state]; simp [hwrap])]
    rfl
  obtain ⟨c6, hc6⟩ : ∃ c6 : Cfg, c6 =
      { (c4.setMode CHECK).setMode DONE with ret := Z_STREAM_END } := ⟨_, rfl⟩
  rw [← hc6] at h6
  have hloop : inflate_loop E flush (fuel + 6) c0 = some (.leave c6) := by
    have e : fuel + 6 = (fuel + (3 - k) + 1 + 1 + k) + 1 := by omega
    rw [e, inflate_loop_cont E flush _ c0 _ hs1, h2,
      inflate_loop_cont E flush _ c4 _ h5]
    obtain ⟨j, hj⟩ : ∃ j, fuel + (3 - k) = j := ⟨_, rfl⟩
    rw [hj]
    exact inflate_loop_leave E flush j _ c6 h6
  rw [hc0] at hloop
  have hu : ¬ (s.next_in = none ∧ s.avail_in ≠ 0) := by rw [hin]; simp
  have hret' : c6.ret = Z_STREAM_END := by rw [hc6]
  have hret : c6.ret ≠ Z_OK := by rw [hret']; decide
  refine ⟨leave_stream c6, ?_, ?_⟩
  · rw [zlib_inflate_leave E (fuel + 6) s st flush c6 hs hu hloop,
      inf_leave_of_ne_ok flush c6 hret, hret']
  · obtain ⟨g1, g2, _, g4, st1, g5, g6⟩ := leave_stream_frame c6
    refine ⟨?_, ?_, ?_, st1, g5, ?_⟩
    · rw [g4, hc6, hc4]; simp only [Cfg.setMode]; rw [e_put]
    · rw [g1, hc6, hc4]; simp only [Cfg.setMode]; omega
    · rw [g2, hc6, hc4]; simp only [Cfg.setMode]; rw [e_left]
    · rw [g6, hc6]; rfl

/-- The `switch` looks at `flush` only to compare it with `Z_BLOCK`. -/
lemma step_flush (E : Ext) (f1 f2 : Int) (h1 : f1 ≠ Z_BLOCK) (h2 : f2 ≠ Z_BLOCK) (c : Cfg) :
    step E f1 c = step E f2 c := by
  have hT : ∀ c, case_TYPE f1 c = case_TYPE f2 c := by
    intro c
    simp only [case_TYPE, if_neg h1, if_neg h2]
  have hD : ∀ c, case_DICT f1 c = case_DICT f2 c := by
    intro c
    simp only [case_DICT, hT]
  unfold step
  split <;> first
    | rfl
    | exact hT c
    | exact hD c
    | simp only [case_DICTID, hD]

lemma inflate_loop_flush (E : Ext) (f1 f2 : Int) (h1 : f1 ≠ Z_BLOCK) (h2 : f2 ≠ Z_BLOCK)
    (fuel : Nat) (c : Cfg) :
    inflate_loop E f1 fuel c = inflate_loop E f2 fuel c := by
  induction fuel generalizing c with
  | zero => rfl
  | succ f ih =>
    unfold inflate_loop
    rw [step_flush E f1 f2 h1 h2 c]
    cases step E f2 c with
    | cont c1 => exact ih c1
    | leave c1 => rfl
    | done r s => rfl

lemma zlib_updatewindow_rest (strm : z_stream) (state : inflate_state) (out : Nat) :
    (zlib_updatewindow strm state out).bits = state.bits ∧
    (zlib_updatewindow strm state out).hold = state.hold ∧
    (zlib_updatewindow strm state out).total = state.total ∧
    (zlib_updatewindow strm state out).wsize = state.wsize ∧
    (zlib_updatewindow strm state out).last = state.last ∧
    (zlib_updatewindow strm state out).havedict = state.havedict := by
  unfold zlib_updatewindow
  simp only []
  split_ifs <;> exact ⟨rfl, rfl, rfl, rfl, rfl, rfl⟩

lemma leave_stream_bits (c : Cfg) :
    ∃ st, (leave_stream c).state = some st ∧ st.mode = c.state.mode ∧ st.bits = c.bits := by
  unfold leave_stream
  simp only [RESTORE]
  split_ifs <;> simp [zlib_updatewindow_mode, (zlib_updatewindow_rest _ _ _).1]

/-- DICTID with the four identifier bytes at hand and no dictionary set: the
call returns `Z_NEED_DICT` from mode DICT. -/
lemma case_DICTID_need (flush : Int) (c : Cfg) (t0 t1 t2 t3 : Nat) (rest : List Nat)
    (hbits : c.bits = 0) (hhold : c.hold = 0)
    (hn : c.next = some (t0 :: t1 :: t2 :: t3 :: rest)) (hh : 4 ≤ c.have_)
    (h0 : t0 < 256) (h1 : t1 < 256) (h2 : t2 < 256) (h3 : t3 < 256)
    (hd : c.state.havedict = 0) :
    case_DICTID flush c = .done Z_NEED_DICT
      { c.strm with
        adler := t3 + 256 * t2 + 65536 * t1 + 16777216 * t0,
        next_out := c.put, avail_out := c.left, next_in := some rest,
        avail_in := c.have_ - 4,
        state := some { c.state with
          check := t3 + 256 * t2 + 65536 * t1 + 16777216 * t0, mode := DICT,
          hold := 0, bits := 0 } } := by
  have hN := NEEDBITS_bytes [t0, t1, t2, t3] rest 32 c (by simpa using hn) (by simpa using hh)
    (by intro b hb; simp at hb; rcases hb with rfl | rfl | rfl | rfl <;> assumption)
    (by rw [hhold, hbits]; norm_num) (by rw [hbits]; norm_num) (by rw [hbits]; norm_num)
    (by intro _; rw [hbits]; norm_num)
  unfold case_DICTID
  rw [hN]
  simp only [hhold, hbits, zero_add, pow_zero, mul_one,
    REVERSE_bytes t0 t1 t2 t3 h0 h1 h2 h3, case_DICT, INITBITS, Cfg.setMode, hd, if_true,
    RESTORE, Cfg.result, List.length_cons, List.length_nil]

lemma FK_of_acc {v : Fv} {c c1 : Cfg} (h : Acc c c1) (hk : FK v c) : FK v c1 := by
  obtain ⟨h1, h2, _, _, _, _, h7⟩ := h
  unfold FK Soft at *
  rw [h1, h2, h7]
  exact hk

lemma FK_of_same {v : Fv} {c c1 : Cfg} (h : Same c c1) (hk : FK v c) : FK v c1 := by
  obtain ⟨⟨k1, k2, k3, k4, k6⟩, k7, k8, k9, k10⟩ := hk
  exact ⟨⟨h.window.trans k1, h.whave.trans k2, h.write.trans k3, h.wsize.trans k4,
    h.wrap.trans k6⟩, h.total.trans k7, h.total_in.trans k8,
    h.total_out.trans k9, h.ret.trans k10⟩

lemma lenlens_fill_frame (fuel : Nat) (st : inflate_state) :
    (lenlens_fill fuel st).window = st.window ∧ (lenlens_fill fuel st).whave = st.whave ∧
    (lenlens_fill fuel st).write = st.write ∧ (lenlens_fill fuel st).wsize = st.wsize ∧
    (lenlens_fill fuel st).wrap = st.wrap ∧ (lenlens_fill fuel st).total = st.total := by
  induction fuel generalizing st with
  | zero => exact ⟨rfl, rfl, rfl, rfl, rfl, rfl⟩
  | succ f ih =>
    unfold lenlens_fill
    split
    · exact ih _
    · exact ⟨rfl, rfl, rfl, rfl, rfl, rfl⟩

lemma FL_of_FK {v : Fv} {c : Cfg} (hk : FK v c) : FL v c :=
  ⟨hk.1, Or.inl hk.2⟩

lemma case_HEAD_F (v : Fv) (c : Cfg) (h : FK v c) : FO v (case_HEAD c) := by
  unfold case_HEAD
  have hA := FK_of_acc (NEEDBITS_acc 16 c) h
  rcases hN : NEEDBITS 16 c with ⟨b, c1⟩
  rw [hN] at hA
  obtain ⟨⟨k1, k2, k3, k4, k6⟩, k7, k8, k9, k10⟩ := hA
  simp only [] at k1 k2 k3 k4 k6 k7 k8 k9 k10
  obtain ⟨⟨h1, h2, h3, h4, h6⟩, h7, h8, h9, h10⟩ := h
  cases b <;> simp only [] <;> (repeat' split) <;>
    simp [FO, FJ, FL, Hard, Soft, Cfg.setMode, Cfg.bad, zlib_fixedtables, INITBITS, DROPBITS, BYTEBITS, *]

lemma case_TYPEDO_F (v : Fv) (c : Cfg) (h : FK v c) : FO v (case_TYPEDO c) := by
  unfold case_TYPEDO
  have hA := FK_of_acc (NEEDBITS_acc 3 c) h
  rcases hN : NEEDBITS 3 c with ⟨b, c1⟩
  rw [hN] at hA
  obtain ⟨⟨k1, k2, k3, k4, k6⟩, k7, k8, k9, k10⟩ := hA
  simp only [] at k1 k2 k3 k4 k6 k7 k8 k9 k10
  obtain ⟨⟨h1, h2, h3, h4, h6⟩, h7, h8, h9, h10⟩ := h
  cases b <;> simp only [] <;> (repeat' split) <;>
    simp [FO, FJ, FL, Hard, Soft, Cfg.setMode, Cfg.bad, zlib_fixedtables, INITBITS, DROPBITS, BYTEBITS, *]

lemma case_TYPE_F (v : Fv) (flush : Int) (c : Cfg) (h : FK v c) :
    FO v (case_TYPE flush c) := by
  unfold case_TYPE
  split_ifs
  · exact FL_of_FK h
  · exact case_TYPEDO_F v c h

lemma case_DICT_F (v : Fv) (flush : Int) (c : Cfg) (h : FK v c) :
    FO v (case_DICT flush c) := by
  unfold case_DICT
  obtain ⟨⟨k1, k2, k3, k4, k6⟩, k7, k8, k9, k10⟩ := h
  split_ifs
  · simp [FO, RESTORE, Cfg.result, Hard, k1, k2, k3, k4, k6, Z_NEED_DICT, Z_BUF_ERROR]
  · refine case_TYPE_F v flush _ ?_
    simp [FK, Cfg.setMode, Cfg.bad, zlib_fixedtables, INITBITS, DROPBITS, BYTEBITS, Hard, Soft, k1, k2, k3, k4, k6, k7, k8, k9, k10, Z_OK]

lemma case_DICTID_F (v : Fv) (flush : Int) (c : Cfg) (h : FK v c) :
    FO v (case_DICTID flush c) := by
  unfold case_DICTID
  have hA := FK_of_acc (NEEDBITS_acc 32 c) h
  rcases hN : NEEDBITS 32 c with ⟨b, c1⟩
  rw [hN] at hA
  obtain ⟨⟨k1, k2, k3, k4, k6⟩, k7, k8, k9, k10⟩ := hA
  simp only [] at k1 k2 k3 k4 k6 k7 k8 k9 k10
  cases b <;> simp only []
  · simp [FO, FJ, FL, FK, Cfg.setMode, Cfg.bad, zlib_fixedtables, INITBITS, DROPBITS, BYTEBITS, Hard, Soft, k1, k2, k3, k4, k6, k7, k8, k9, k10, Z_OK]
  · refine case_DICT_F v flush _ ?_
    simp [FK, Cfg.setMode, Cfg.bad, zlib_fixedtables, INITBITS, DROPBITS, BYTEBITS, Hard, Soft, k1, k2, k3, k4, k6, k7, k8, k9, k10, Z_OK]

lemma case_COPY_F (v : Fv) (c : Cfg) (h : FK v c) : FO v (case_COPY c) := by
  unfold case_COPY
  obtain ⟨⟨k1, k2, k3, k4, k6⟩, k7, k8, k9, k10⟩ := h
  simp only []
  split_ifs <;> simp [FO, FJ, FL, FK, Cfg.setMode, Cfg.bad, zlib_fixedtables, INITBITS, DROPBITS, BYTEBITS, Hard, Soft, k1, k2, k3, k4, k6, k7, k8, k9, k10, Z_OK]

lemma case_STORED_F (v : Fv) (c : Cfg) (h : FK v c) : FO v (case_STORED c) := by
  unfold case_STORED
  have hA := FK_of_acc (NEEDBITS_acc 32 (BYTEBITS c)) h
  rcases hN : NEEDBITS 32 (BYTEBITS c) with ⟨b, c1⟩
  rw [hN] at hA
  obtain ⟨⟨k1, k2, k3, k4, k6⟩, k7, k8, k9, k10⟩ := hA
  simp only [] at k1 k2 k3 k4 k6 k7 k8 k9 k10
  cases b <;> simp only []
  · simp [FO, FJ, FL, FK, Cfg.setMode, Cfg.bad, zlib_fixedtables, INITBITS, DROPBITS, BYTEBITS, Hard, Soft, k1, k2, k3, k4, k6, k7, k8, k9, k10, Z_OK]
  · split_ifs
    · simp [FO, FJ, FL, FK, Cfg.setMode, Cfg.bad, zlib_fixedtables, INITBITS, DROPBITS, BYTEBITS, Hard, Soft, k1, k2, k3, k4, k6, k7, k8, k9, k10, Z_OK]
    · refine case_COPY_F v _ ?_
      simp [FK, Cfg.setMode, Cfg.bad, zlib_fixedtables, INITBITS, DROPBITS, BYTEBITS, Hard, Soft, k1, k2, k3, k4, k6, k7, k8, k9, k10, Z_OK]

lemma case_MATCH_F (v : Fv) (c : Cfg) (h : FK v c) : FO v (case_MATCH c) := by
  unfold case_MATCH
  obtain ⟨⟨k1, k2, k3, k4, k6⟩, k7, k8, k9, k10⟩ := h
  by_cases hl : c.left = 0
  · rw [if_pos hl]; simp [FO, FJ, FL, FK, Cfg.setMode, Cfg.bad, zlib_fixedtables, INITBITS, DROPBITS, BYTEBITS, Hard, Soft, k1, k2, k3, k4, k6, k7, k8, k9, k10, Z_OK]
  · rw [if_neg hl]; simp [FO, FJ, FL, FK, Cfg.setMode, Cfg.bad, zlib_fixedtables, INITBITS, DROPBITS, BYTEBITS, Hard, Soft, k1, k2, k3, k4, k6, k7, k8, k9, k10, Z_OK]

lemma DISTEXT_tail_F (v : Fv) (c : Cfg) (h : FK v c) :
    FO v (DISTEXT_tail c) := by
  unfold DISTEXT_tail
  obtain ⟨⟨k1, k2, k3, k4, k6⟩, k7, k8, k9, k10⟩ := h
  split_ifs
  · simp [FO, FJ, FL, FK, Cfg.setMode, Cfg.bad, zlib_fixedtables, INITBITS, DROPBITS, BYTEBITS, Hard, Soft, k1, k2, k3, k4, k6, k7, k8, k9, k10, Z_OK]
  · refine case_MATCH_F v _ ?_
    simp [FK, Cfg.setMode, Cfg.bad, zlib_fixedtables, INITBITS, DROPBITS, BYTEBITS, Hard, Soft, k1, k2, k3, k4, k6, k7, k8, k9, k10, Z_OK]

lemma case_DISTEXT_F (v : Fv) (c : Cfg) (h : FK v c) :
    FO v (case_DISTEXT c) := by
  unfold case_DISTEXT
  have hA := FK_of_acc (NEEDBITS_acc c.state.extra c) h
  rcases hN : NEEDBITS c.state.extra c with ⟨b, c1⟩
  rw [hN] at hA
  obtain ⟨⟨k1, k2, k3, k4, k6⟩, k7, k8, k9, k10⟩ := hA
  simp only [] at k1 k2 k3 k4 k6 k7 k8 k9 k10
  split_ifs
  · cases b <;> simp only []
    · simp [FO, FJ, FL, FK, Cfg.setMode, Cfg.bad, zlib_fixedtables, INITBITS, DROPBITS, BYTEBITS, Hard, Soft, k1, k2, k3, k4, k6, k7, k8, k9, k10, Z_OK]
    · refine DISTEXT_tail_F v _ ?_
      simp [FK, Cfg.setMode, Cfg.bad, zlib_fixedtables, INITBITS, DROPBITS, BYTEBITS, Hard, Soft, k1, k2, k3, k4, k6, k7, k8, k9, k10, Z_OK]
  · exact DISTEXT_tail_F v _ h

lemma DIST_tail_F (v : Fv) (this : code) (c : Cfg) (h : FK v c) :
    FO v (DIST_tail this c) := by
  unfold DIST_tail
  obtain ⟨⟨k1, k2, k3, k4, k6⟩, k7, k8, k9, k10⟩ := h
  simp only []
  split_ifs
  · simp [FO, FJ, FL, FK, Cfg.setMode, Cfg.bad, zlib_fixedtables, INITBITS, DROPBITS, BYTEBITS, Hard, Soft, k1, k2, k3, k4, k6, k7, k8, k9, k10, Z_OK]
  · refine case_DISTEXT_F v _ ?_
    simp [FK, Cfg.setMode, Cfg.bad, zlib_fixedtables, INITBITS, DROPBITS, BYTEBITS, Hard, Soft, k1, k2, k3, k4, k6, k7, k8, k9, k10, Z_OK]

lemma case_DIST_F (v : Fv) (c : Cfg) (h : FK v c) : FO v (case_DIST c) := by
  unfold case_DIST
  have hC := FK_of_acc (code_loop_acc c.state.distcode c.state.distbits (c.have_ + 1) c) h
  rcases hL : code_loop c.state.distcode c.state.distbits (c.have_ + 1) c with ⟨this, c1⟩ | c1
  · rw [hL] at hC
    simp only [Pulled.cfg] at hC
    simp only []
    have hS := FK_of_acc (code_second_acc c1.state.distcode this c1) hC
    split_ifs
    · rcases hL2 : code_second c1.state.distcode this c1 with ⟨this2, c2⟩ | c2
      · rw [hL2] at hS
        exact DIST_tail_F v this2 c2 hS
      · rw [hL2] at hS
        exact FL_of_FK hS
    · exact DIST_tail_F v this c1 hC
  · rw [hL] at hC
    exact FL_of_FK hC

lemma case_LENEXT_F (v : Fv) (c : Cfg) (h : FK v c) :
    FO v (case_LENEXT c) := by
  unfold case_LENEXT
  have hA := FK_of_acc (NEEDBITS_acc c.state.extra c) h
  rcases hN : NEEDBITS c.state.extra c with ⟨b, c1⟩
  rw [hN] at hA
  obtain ⟨⟨k1, k2, k3, k4, k6⟩, k7, k8, k9, k10⟩ := hA
  simp only [] at k1 k2 k3 k4 k6 k7 k8 k9 k10
  split_ifs
  · cases b <;> simp only []
    · simp [FO, FJ, FL, FK, Cfg.setMode, Cfg.bad, zlib_fixedtables, INITBITS, DROPBITS, BYTEBITS, Hard, Soft, k1, k2, k3, k4, k6, k7, k8, k9, k10, Z_OK]
    · refine case_DIST_F v _ ?_
      simp [FK, Cfg.setMode, Cfg.bad, zlib_fixedtables, INITBITS, DROPBITS, BYTEBITS, Hard, Soft, k1, k2, k3, k4, k6, k7, k8, k9, k10, Z_OK]
  · exact case_DIST_F v _ h

lemma LEN_tail_F (v : Fv) (this : code) (c : Cfg) (h : FK v c) :
    FO v (LEN_tail this c) := by
  unfold LEN_tail
  obtain ⟨⟨k1, k2, k3, k4, k6⟩, k7, k8, k9, k10⟩ := h
  simp only []
  split_ifs
  · simp [FO, FJ, FL, FK, Cfg.setMode, Cfg.bad, zlib_fixedtables, INITBITS, DROPBITS, BYTEBITS, Hard, Soft, k1, k2, k3, k4, k6, k7, k8, k9, k10, Z_OK]
  · simp [FO, FJ, FL, FK, Cfg.setMode, Cfg.bad, zlib_fixedtables, INITBITS, DROPBITS, BYTEBITS, Hard, Soft, k1, k2, k3, k4, k6, k7, k8, k9, k10, Z_OK]
  · simp [FO, FJ, FL, FK, Cfg.setMode, Cfg.bad, zlib_fixedtables, INITBITS, DROPBITS, BYTEBITS, Hard, Soft, k1, k2, k3, k4, k6, k7, k8, k9, k10, Z_OK]
  · refine case_LENEXT_F v _ ?_
    simp [FK, Cfg.setMode, Cfg.bad, zlib_fixedtables, INITBITS, DROPBITS, BYTEBITS, Hard, Soft, k1, k2, k3, k4, k6, k7, k8, k9, k10, Z_OK]

lemma case_LEN_F (E : Ext) (hE : FastFrame E) (v : Fv) (c : Cfg) (h : FK v c) :
    FO v (case_LEN E c) := by
  unfold case_LEN
  split_ifs
  · obtain ⟨⟨k1, k2, k3, k4, k6⟩, k7, k8, k9, k10⟩ := h
    obtain ⟨f1, f2, f3, f4, f6, f7, f8, f9⟩ := hE (RESTORE c).strm (RESTORE c).state
      (RESTORE c).out
    exact ⟨⟨f1.trans k1, f2.trans k2, f3.trans k3, f4.trans k4, f6.trans k6⟩,
      Or.inl ⟨f7.trans k7, f8.trans k8, f9.trans k9, k10⟩⟩
  · have hC := FK_of_acc (code_loop_acc c.state.lencode c.state.lenbits (c.have_ + 1) c) h
    rcases hL : code_loop c.state.lencode c.state.lenbits (c.have_ + 1) c with ⟨this, c1⟩ | c1
    · rw [hL] at hC
      simp only [Pulled.cfg] at hC
      simp only []
      have hS := FK_of_acc (code_second_acc c1.state.lencode this c1) hC
      split_ifs
      · rcases hL2 : code_second c1.state.lencode this c1 with ⟨this2, c2⟩ | c2
        · rw [hL2] at hS
          exact LEN_tail_F v this2 c2 hS
        · rw [hL2] at hS
          exact FL_of_FK hS
      · exact LEN_tail_F v this c1 hC
    · rw [hL] at hC
      exact FL_of_FK hC

lemma case_LIT_F (v : Fv) (c : Cfg) (h : FK v c) : FO v (case_LIT c) := by
  unfold case_LIT
  obtain ⟨⟨k1, k2, k3, k4, k6⟩, k7, k8, k9, k10⟩ := h
  split_ifs <;> simp [FO, FJ, FL, FK, Cfg.setMode, Cfg.bad, zlib_fixedtables, INITBITS, DROPBITS, BYTEBITS, Hard, Soft, k1, k2, k3, k4, k6, k7, k8, k9, k10, Z_OK]

lemma CODELENS_tail_F (E : Ext) (hE : FastFrame E) (v : Fv) (c : Cfg) (h : FK v c) :
    FO v (CODELENS_tail E c) := by
  unfold CODELENS_tail
  obtain ⟨⟨k1, k2, k3, k4, k6⟩, k7, k8, k9, k10⟩ := h
  simp only []
  split_ifs with h1 h2 h3
  · simp [FO, FJ, FL, FK, Cfg.setMode, Cfg.bad, zlib_fixedtables, INITBITS, DROPBITS, BYTEBITS, Hard, Soft, k1, k2, k3, k4, k6, k7, k8, k9, k10, Z_OK]
  · simp [FO, FJ, FL, FK, Cfg.setMode, Cfg.bad, zlib_fixedtables, INITBITS, DROPBITS, BYTEBITS, Hard, Soft, k1, k2, k3, k4, k6, k7, k8, k9, k10, Z_OK]
  · simp [FO, FJ, FL, FK, Cfg.setMode, Cfg.bad, zlib_fixedtables, INITBITS, DROPBITS, BYTEBITS, Hard, Soft, k1, k2, k3, k4, k6, k7, k8, k9, k10, Z_OK]
  · refine case_LEN_F E hE v _ ?_
    have h3' : (E.inflate_table codetype.DISTS (List.drop c.state.nlen c.state.lens) c.state.ndist 6).1 = 0 := by
      simpa using h3
    simp [FK, Cfg.setMode, Hard, Soft, k1, k2, k3, k4, k6, k7, k8, k9, k10, h3', Z_OK]

lemma case_CODELENS_F (E : Ext) (hE : FastFrame E) (v : Fv) (c : Cfg) (h : FK v c) :
    FO v (case_CODELENS E c) := by
  unfold case_CODELENS
  have hA := FK_of_same (codelens_loop_same (add32 c.state.nlen c.state.ndist) c) h
  rcases hN : codelens_loop (add32 c.state.nlen c.state.ndist) c with ⟨b, c1⟩
  rw [hN] at hA
  cases b <;> simp only []
  · exact FL_of_FK hA
  · exact CODELENS_tail_F E hE v c1 hA

lemma LENLENS_tail_F (E : Ext) (hE : FastFrame E) (v : Fv) (c : Cfg) (h : FK v c) :
    FO v (LENLENS_tail E c) := by
  unfold LENLENS_tail
  obtain ⟨⟨k1, k2, k3, k4, k6⟩, k7, k8, k9, k10⟩ := h
  obtain ⟨g1, g2, g3, g4, g6, g7⟩ := lenlens_fill_frame 19 c.state
  rw [← g1] at k1
  rw [← g2] at k2
  rw [← g3] at k3
  rw [← g4] at k4
  rw [← g6] at k6
  rw [← g7] at k7
  simp only []
  split_ifs with h1
  · simp [FO, FJ, FL, FK, Cfg.setMode, Cfg.bad, zlib_fixedtables, INITBITS, DROPBITS, BYTEBITS, Hard, Soft, k1, k2, k3, k4, k6, k7, k8, k9, k10, Z_OK]
  · refine case_CODELENS_F E hE v _ ?_
    have h1' : (E.inflate_table codetype.CODES (lenlens_fill 19 c.state).lens 19 7).1 = 0 := by
      simpa using h1
    simp [FK, Hard, Soft, k1, k2, k3, k4, k6, k7, k8, k9, k10, h1', Z_OK]

lemma case_LENLENS_F (E : Ext) (hE : FastFrame E) (v : Fv) (c : Cfg) (h : FK v c) :
    FO v (case_LENLENS E c) := by
  unfold case_LENLENS
  have hA := FK_of_same (lenlens_loop_same c.state.ncode c) h
  rcases hN : lenlens_loop c.state.ncode c with ⟨b, c1⟩
  rw [hN] at hA
  cases b <;> simp only []
  · exact FL_of_FK hA
  · exact LENLENS_tail_F E hE v c1 hA

lemma case_TABLE_F (E : Ext) (hE : FastFrame E) (v : Fv) (c : Cfg) (h : FK v c) :
    FO v (case_TABLE E c) := by
  unfold case_TABLE
  have hA := FK_of_acc (NEEDBITS_acc 14 c) h
  rcases hN : NEEDBITS 14 c with ⟨b, c1⟩
  rw [hN] at hA
  obtain ⟨⟨k1, k2, k3, k4, k6⟩, k7, k8, k9, k10⟩ := hA
  simp only [] at k1 k2 k3 k4 k6 k7 k8 k9 k10
  cases b <;> simp only []
  · simp [FO, FJ, FL, FK, Cfg.setMode, Cfg.bad, zlib_fixedtables, INITBITS, DROPBITS, BYTEBITS, Hard, Soft, k1, k2, k3, k4, k6, k7, k8, k9, k10, Z_OK]
  · split_ifs
    · simp [FO, FJ, FL, FK, Cfg.setMode, Cfg.bad, zlib_fixedtables, INITBITS, DROPBITS, BYTEBITS, Hard, Soft, k1, k2, k3, k4, k6, k7, k8, k9, k10, Z_OK]
    · refine case_LENLENS_F E hE v _ ?_
      simp [FK, Cfg.setMode, Cfg.bad, zlib_fixedtables, INITBITS, DROPBITS, BYTEBITS, Hard, Soft, k1, k2, k3, k4, k6, k7, k8, k9, k10, Z_OK]

lemma case_DONE_F (v : Fv) (c : Cfg) (h : Hard v c.state) : FO v (case_DONE c) := by
  simp [case_DONE, FO, FL, h]

lemma CHECK_tail_F (v : Fv) (c : Cfg) (h : FK v c) :
    FO v (CHECK_tail c) := by
  unfold CHECK_tail
  have k1 : Hard v (CHECK_update c).state := h.1
  by_cases hr : REVERSE (CHECK_update c).hold ≠ (CHECK_update c).state.check
  · rw [if_pos hr]
    exact ⟨k1, Or.inr rfl⟩
  · rw [if_neg hr]
    exact case_DONE_F v _ k1

lemma case_CHECK_F (v : Fv) (c : Cfg) (h : FK v c) :
    FO v (case_CHECK c) := by
  unfold case_CHECK
  have hA := FK_of_acc (NEEDBITS_acc 32 c) h
  rcases hN : NEEDBITS 32 c with ⟨b, c1⟩
  rw [hN] at hA
  split_ifs
  · cases b <;> simp only []
    · exact FL_of_FK hA
    · exact CHECK_tail_F v c1 hA
  · exact case_DONE_F v _ h.1

lemma step_F (E : Ext) (hE : FastFrame E) (flush : Int) (v : Fv) (c : Cfg) (h : FJ v c) :
    FO v (step E flush c) := by
  unfold step
  by_cases hb : c.state.mode = BAD
  · rw [hb]
    simp [case_BAD, FO, FL, h.1]
  · have hk : FK v c := by
      rcases h.2 with h2 | h2
      · exact ⟨h.1, h2⟩
      · exact absurd h2 hb
    split
    · exact case_HEAD_F v c hk
    · exact case_DICTID_F v flush c hk
    · exact case_DICT_F v flush c hk
    · exact case_TYPE_F v flush c hk
    · exact case_TYPEDO_F v c hk
    · exact case_STORED_F v c hk
    · exact case_COPY_F v c hk
    · exact case_TABLE_F E hE v c hk
    · exact case_LENLENS_F E hE v c hk
    · exact case_CODELENS_F E hE v c hk
    · exact case_LEN_F E hE v c hk
    · exact case_LENEXT_F v c hk
    · exact case_DIST_F v c hk
    · exact case_DISTEXT_F v c hk
    · exact case_MATCH_F v c hk
    · exact case_LIT_F v c hk
    · exact case_CHECK_F v c hk
    · exact case_DONE_F v c hk.1
    · exact absurd (by assumption) hb
    · exact ⟨by decide, _, rfl, hk.1⟩
    · exact ⟨by decide, _, rfl, hk.1⟩

lemma inflate_loop_F (E : Ext) (hE : FastFrame E) (flush : Int) (v : Fv) (fuel : Nat) (c : Cfg)
    (h : FJ v c) (o : Outcome) (ho : inflate_loop E flush fuel c = some o) : FO v o := by
  induction fuel generalizing c with
  | zero => simp [inflate_loop] at ho
  | succ f ih =>
    unfold inflate_loop at ho
    have hs := step_F E hE flush v c h
    rcases hst : step E flush c with c1 | c1 | ⟨r, s⟩
    · rw [hst] at ho hs
      exact ih c1 hs ho
    · rw [hst] at ho hs
      simp only [Option.some.injEq] at ho
      subst ho
      exact hs
    · rw [hst] at ho hs
      simp only [Option.some.injEq] at ho
      subst ho
      exact hs

lemma memcpy_nil_getD (dst : List Nat) (off i : Nat) :
    (memcpy dst off []).getD i 0 = dst.getD i 0 := by
  unfold memcpy readFwd
  simp only [List.append_nil, List.length_nil, Nat.add_zero]
  by_cases h : off ≤ dst.length
  · rw [Nat.sub_eq_zero_of_le h]
    simp
  · have h1 : dst.length ≤ off := by omega
    rw [List.take_of_length_le h1, List.drop_of_length_le h1, List.append_nil]
    by_cases hi : i < dst.length
    · rw [List.getD_append _ _ _ _ hi]
    · have e1 : dst.getD i 0 = 0 := List.getD_eq_default _ _ (by omega)
      rw [e1, List.getD_append_right _ _ _ _ (by omega), List.getD_eq_getElem?_getD,
        List.getElem?_replicate]
      split_ifs <;> rfl

/-- A window update for a call that wrote nothing leaves the window alone. -/
lemma zlib_updatewindow_zero (strm : z_stream) (st : inflate_state) (out : Nat)
    (h0 : sub32 out strm.avail_out = 0) (hw : st.write < st.wsize)
    (h32 : st.wsize < 4294967296) :
    (zlib_updatewindow strm st out).whave = st.whave ∧
    (zlib_updatewindow strm st out).write = st.write ∧
    ∀ i, (zlib_updatewindow strm st out).window.getD i 0 = st.window.getD i 0 := by
  have hc : ¬ (0 ≥ st.wsize) := by omega
  have ha : add32 st.write 0 = st.write := add32_of_lt (by omega)
  have hne : ¬ (st.write = st.wsize) := by omega
  have hd : (if sub32 st.wsize st.write > 0 then 0 else sub32 st.wsize st.write) = 0 := by
    split_ifs with h
    · rfl
    · omega
  unfold zlib_updatewindow
  simp only [h0, if_neg hc, hd, Nat.sub_self, ne_eq, not_true_eq_false, if_false, ha, if_neg hne]
  refine ⟨?_, trivial, ?_⟩
  · split_ifs with h
    · exact add32_of_lt (by omega)
    · rfl
  · intro i
    have : readBack strm.next_out 0 0 = [] := by simp [readBack]
    rw [this]
    exact memcpy_nil_getD _ _ _

lemma add32_zero {a : Nat} (h : a < 4294967296) : add32 a 0 = a := add32_of_lt (by omega)

/-- What `inf_leave` leaves behind when the call consumed and wrote nothing. -/
lemma leave_stream_idle (c : Cfg) (hin0 : sub32 c.in_ c.have_ = 0)
    (hout0 : sub32 c.out c.left = 0) (hw : c.state.write < c.state.wsize)
    (h32 : c.state.wsize < 4294967296) :
    (leave_stream c).total_in = add32 c.strm.total_in 0 ∧
    (leave_stream c).total_out = add32 c.strm.total_out 0 ∧
    ∃ st1, (leave_stream c).state = some st1 ∧ st1.total = add32 c.state.total 0 ∧
      st1.whave = c.state.whave ∧ st1.write = c.state.write ∧ st1.wsize = c.state.wsize ∧
      st1.wrap = c.state.wrap ∧ ∀ i, st1.window.getD i 0 = c.state.window.getD i 0 := by
  have hws : c.state.wsize ≠ 0 := by omega
  obtain ⟨z1, z2, z3⟩ := zlib_updatewindow_zero (RESTORE c).strm (RESTORE c).state c.out
    hout0 hw h32
  obtain ⟨r1, r2, r3, r4, r5, r6⟩ := zlib_updatewindow_rest (RESTORE c).strm (RESTORE c).state
    c.out
  obtain ⟨q1, q2⟩ := zlib_updatewindow_check (RESTORE c).strm (RESTORE c).state c.out
  unfold leave_stream
  simp only [RESTORE] at z1 z2 z3 r1 r2 r3 r4 r5 r6 q1 q2 ⊢
  simp only [hin0, hout0, hws, ne_eq, not_false_eq_true, true_or, if_true, not_true_eq_false,
    and_false, if_false, true_and]
  exact ⟨_, rfl, by rw [r3], z1, z2, r4, q2, z3⟩

lemma readFwd_length (l : List Nat) (n : Nat) : (readFwd l n).length = n := by
  unfold readFwd
  simp only [List.length_append, List.length_take, List.length_replicate]
  omega

lemma readFwd_getD (l : List Nat) (n i : Nat) (h : i < n) :
    (readFwd l n).getD i 0 = l.getD i 0 := by
  unfold readFwd
  by_cases hi : i < l.length
  · rw [List.getD_append _ _ _ _ (by simp; omega)]
    simp only [List.getD_eq_getElem?_getD, List.getElem?_take, h, if_true]
  · have e1 : l.getD i 0 = 0 := List.getD_eq_default _ _ (by omega)
    rw [e1, List.getD_append_right _ _ _ _ (by simp; omega), List.getD_eq_getElem?_getD,
      List.getElem?_replicate]
    split_ifs <;> rfl

lemma memcpy_getD (dst : List Nat) (off : Nat) (src : List Nat) (i : Nat) :
    (memcpy dst off src).getD i 0 =
      if i < off then dst.getD i 0
      else if i < off + src.length then src.getD (i - off) 0
      else dst.getD i 0 := by
  unfold memcpy
  have hl := readFwd_length dst off
  split_ifs with h1 h2
  · rw [List.append_assoc, List.getD_append _ _ _ _ (by omega)]
    exact readFwd_getD dst off i h1
  · rw [List.append_assoc, List.getD_append_right _ _ _ _ (by omega), hl,
      List.getD_append _ _ _ _ (by omega)]
  · rw [List.getD_append_right _ _ _ _ (by simp [hl]; omega)]
    simp only [List.length_append, hl, List.getD_eq_getElem?_getD, List.getElem?_drop]
    congr 2
    omega

lemma readBack_suffix (P O : List Nat) (k n : Nat) (hk : k ≤ O.length) :
    readBack (P ++ O) k n = (O.drop (O.length - k)).take n := by
  unfold readBack below
  have h1 : k - (P ++ O).length = 0 := by simp; omega
  have h2 : (P ++ O).length - k = P.length + (O.length - k) := by simp; omega
  rw [h1, h2, List.replicate_zero, List.nil_append, ← List.drop_drop, List.drop_left]

lemma ring_idx (w n d : Nat) (hw : w < n) (hdn : d ≤ n) :
    (w + n - d) % n = if d ≤ w then w - d else w + n - d := by
  split_ifs with h
  · have : w + n - d = (w - d) + n := by omega
    rw [this, Nat.add_mod_right, Nat.mod_eq_of_lt (by omega)]
  · exact Nat.mod_eq_of_lt (by omega)

lemma append_getD_back (H O : List Nat) (d : Nat) (hH : d ≤ H.length + O.length) :
    (H ++ O).getD ((H ++ O).length - d) 0 =
      if d ≤ O.length then O.getD (O.length - d) 0 else H.getD (H.length - (d - O.length)) 0 := by
  split_ifs with h
  · rw [List.getD_append_right _ _ _ _ (by simp; omega)]
    congr 1
    simp
    omega
  · rw [List.getD_append _ _ _ _ (by simp; omega)]
    congr 1
    simp
    omega

lemma take_drop_getD (l : List Nat) (a n i : Nat) :
    ((l.drop a).take n).getD i 0 = if i < n then l.getD (a + i) 0 else 0 := by
  simp only [List.getD_eq_getElem?_getD, List.getElem?_take, List.getElem?_drop]
  split_ifs <;> rfl

lemma ring_shift (w n k d : Nat) (hw : w < n) (hk : w + k ≤ n) (hd1 : 1 ≤ d) (hdn : d ≤ n) :
    ((if w + k = n then 0 else w + k) + n - d) % n =
      if d ≤ k then w + k - d else (w + n - (d - k)) % n := by
  rw [ring_idx w n (d - k) hw (by omega)]
  by_cases h1 : w + k = n
  · rw [if_pos h1, ring_idx 0 n d (by omega) hdn]
    split_ifs <;> omega
  · rw [if_neg h1, ring_idx (w + k) n d (by omega) hdn]
    split_ifs <;> omega

lemma ring_old_outside (w n k d : Nat) (hw : w < n) (hd : 1 ≤ d)
    (hdn : d + k ≤ n) :
    (w + n - d) % n < w ∨ w + k ≤ (w + n - d) % n := by
  rw [ring_idx w n d hw (by omega)]
  split_ifs <;> omega

/-- The window update keeps the window a ring buffer of the history: if it
represents `H` and the call wrote the bytes `O`, it then represents `H ++ O`. -/
lemma zlib_updatewindow_represents (strm : z_stream) (st : inflate_state) (out : Nat)
    (H P O : List Nat) (hR : Represents st H) (h32 : st.wsize < 4294967296)
    (hno : strm.next_out = P ++ O) (hcopy : sub32 out strm.avail_out = O.length) :
    Represents (zlib_updatewindow strm st out) (H ++ O) := by
  obtain ⟨hwh, hw, hwr, hget⟩ := hR
  have hwh1 : st.whave ≤ st.wsize := by rw [hwh]; exact Nat.min_le_left _ _
  have hwh2 : st.whave ≤ H.length := by rw [hwh]; exact Nat.min_le_right _ _
  have hwh3 : st.whave < st.wsize → st.whave = H.length := by
    intro h
    rw [hwh, Nat.min_def] at h ⊢
    split_ifs at h ⊢ <;> omega
  clear hwh
  have hsub : sub32 st.wsize st.write = st.wsize - st.write := sub32_of_le (by omega) h32
  unfold zlib_updatewindow
  simp only [hcopy, hno, hsub]
  by_cases hA : O.length ≥ st.wsize
  · rw [if_pos hA]
    refine ⟨?_, ?_, ?_, ?_⟩
    · simp only [List.length_append, Nat.min_def]
      split_ifs <;> omega
    · simp only []
      omega
    · intro h
      simp only [] at h
      omega
    · intro d hd1 hd2
      simp only [] at hd2 ⊢
      have hX := readBack_suffix P O st.wsize st.wsize hA
      have hl : ((O.drop (O.length - st.wsize)).take st.wsize).length = st.wsize := by
        simp
        omega
      have hi : (0 + st.wsize - d) % st.wsize = st.wsize - d := by
        rw [ring_idx 0 st.wsize d (by omega) hd2, if_neg (by omega)]
        omega
      have hd3 : d ≤ O.length := by omega
      rw [hi, memcpy_getD, hX, hl, if_neg (by omega), if_pos (by omega), take_drop_getD,
        if_pos (by omega), append_getD_back H O d (by omega), if_pos hd3]
      congr 1
      omega
  · rw [if_neg hA]
    by_cases hB : O.length ≤ st.wsize - st.write
    · have hd : (if st.wsize - st.write > O.length then O.length else st.wsize - st.write) =
          O.length := by
        split_ifs <;> omega
      have ha : add32 st.write O.length = st.write + O.length := add32_of_lt (by omega)
      have hb : (if st.whave < st.wsize then add32 st.whave O.length else st.whave) =
          if st.whave < st.wsize then st.whave + O.length else st.whave := by
        split_ifs with h
        · have := hwr h
          exact add32_of_lt (by omega)
        · rfl
      simp only [hd, Nat.sub_self, ne_eq, not_true_eq_false, if_false, ha, hb,
        readBack_append]
      refine ⟨?_, ?_, ?_, ?_⟩
      · simp only [List.length_append, Nat.min_def]
        split_ifs <;> omega
      · simp only []
        split_ifs <;> omega
      · simp only []
        split_ifs <;> omega
      · intro d hd1 hd2
        simp only [] at hd2 ⊢
        have hdn : d ≤ st.wsize := by
          split_ifs at hd2 <;> omega
        have hdH : d ≤ H.length + O.length := by
          split_ifs at hd2 <;> omega
        rw [ring_shift st.write st.wsize O.length d hw (by omega) hd1 hdn, memcpy_getD,
          append_getD_back H O d hdH]
        by_cases hdk : d ≤ O.length
        · rw [if_pos hdk, if_pos hdk, if_neg (by omega), if_pos (by omega)]
          congr 1
          omega
        · rw [if_neg hdk, if_neg hdk]
          have hd' : d - O.length ≤ st.whave := by
            split_ifs at hd2 <;> omega
          rw [← hget (d - O.length) (by omega) hd']
          rcases ring_old_outside st.write st.wsize O.length (d - O.length) hw
            (by omega) (by omega) with h | h
          · rw [if_pos h]
          · rw [if_neg (by omega), if_neg (by omega)]
    · have hd : (if st.wsize - st.write > O.length then O.length else st.wsize - st.write) =
          st.wsize - st.write := by
        split_ifs <;> omega
      have hne : O.length - (st.wsize - st.write) ≠ 0 := by omega
      have hX1 := readBack_suffix P O O.length (st.wsize - st.write) (le_refl _)
      have hX2 := readBack_suffix P O (O.length - (st.wsize - st.write))
        (O.length - (st.wsize - st.write)) (by omega)
      have hl1 : ((O.drop (O.length - O.length)).take (st.wsize - st.write)).length =
          st.wsize - st.write := by
        simp
        omega
      have hl2 : ((O.drop (O.length - (O.length - (st.wsize - st.write)))).take
          (O.length - (st.wsize - st.write))).length = O.length - (st.wsize - st.write) := by
        simp
        omega
      simp only [hd, ne_eq, hne, not_false_eq_true, if_true, hX1, hX2]
      refine ⟨?_, ?_, ?_, ?_⟩
      · simp only [List.length_append, Nat.min_def]
        split_ifs with h
        · rfl
        · by_cases hh : st.whave < st.wsize
          · have := hwr hh
            have := hwh3 hh
            omega
          · omega
      · simp only []
        omega
      · intro h
        simp only [] at h
        omega
      · intro d hd1 hd2
        simp only [] at hd2 ⊢
        have hdH : d ≤ H.length + O.length := by
          by_cases hh : st.whave < st.wsize
          · have := hwr hh
            have := hwh3 hh
            omega
          · omega
        rw [ring_idx _ st.wsize d (by omega) hd2, memcpy_getD, memcpy_getD, hl1, hl2,
          take_drop_getD, take_drop_getD, append_getD_back H O d hdH]
        by_cases hc : d ≤ O.length - (st.wsize - st.write)
        · rw [if_pos hc, if_neg (by omega), if_pos (by omega), if_pos (by omega),
            if_pos (by omega)]
          congr 1
          omega
        · rw [if_neg hc, if_neg (by omega), if_neg (by omega)]
          by_cases hdk : d ≤ O.length
          · rw [if_neg (by omega), if_pos (by omega), if_pos (by omega), if_pos hdk]
            congr 1
            omega
          · have hd' : d - O.length ≤ st.whave := by
              by_cases hh : st.whave < st.wsize
              · have := hwr hh
                omega
              · omega
            rw [if_pos (by omega), if_neg hdk, ← hget (d - O.length) (by omega) hd',
              ring_idx st.write st.wsize (d - O.length) hw (by omega), if_pos (by omega)]
            congr 1
            omega

lemma Represents_congr {st st1 : inflate_state} {H : List Nat} (h1 : st1.window = st.window)
    (h2 : st1.whave = st.whave) (h3 : st1.write = st.write) (h4 : st1.wsize = st.wsize)
    (hR : Represents st H) : Represents st1 H := by
  unfold Represents at *
  rw [h1, h2, h3, h4]
  exact hR

lemma leave_stream_window (c : Cfg) (hws : c.state.wsize ≠ 0) :
    ∃ stl, (leave_stream c).state = some stl ∧
      stl.window = (zlib_updatewindow (RESTORE c).strm (RESTORE c).state c.out).window ∧
      stl.whave = (zlib_updatewindow (RESTORE c).strm (RESTORE c).state c.out).whave ∧
      stl.write = (zlib_updatewindow (RESTORE c).strm (RESTORE c).state c.out).write ∧
      stl.wsize = (zlib_updatewindow (RESTORE c).strm (RESTORE c).state c.out).wsize := by
  unfold leave_stream
  simp only [RESTORE, hws, ne_eq, not_false_eq_true, true_or, if_true]
  exact ⟨_, rfl, rfl, rfl, rfl, rfl⟩

/-- The locals at `inf_leave` of a call that returned `Z_OK` or `Z_BUF_ERROR`
have `ret = Z_OK`, and the stream returned is the one `inf_leave` leaves, up to
the mode. -/
lemma ok_call_leave (E : Ext) (hE : FastFrame E) (fuel : Nat) (strm s1 : z_stream)
    (st : inflate_state) (flush r : Int) (hs : strm.state = some st)
    (hcall : zlib_inflate E fuel strm flush = some (r, s1))
    (hr : r = Z_OK ∨ r = Z_BUF_ERROR) :
    ∃ c, inflate_loop E flush fuel (enter strm st) = some (.leave c) ∧ c.ret = Z_OK ∧
      c.out = strm.avail_out ∧ c.in_ = strm.avail_in ∧
      FL (Fv.ofStream strm st) c ∧
      s1.next_out = c.put ∧ s1.avail_out = c.left ∧ s1.avail_in = c.have_ ∧
      ∃ stl m, (leave_stream c).state = some stl ∧ s1.state = some { stl with mode := m } ∧
        s1.adler = (leave_stream c).adler ∧ s1.total_in = (leave_stream c).total_in ∧
        s1.total_out = (leave_stream c).total_out := by
  have hF0 : FJ (Fv.ofStream strm st) (enter strm st) := by
    unfold enter LOAD
    simp only []
    split_ifs <;> exact ⟨⟨rfl, rfl, rfl, rfl, rfl⟩, Or.inl ⟨rfl, rfl, rfl, rfl⟩⟩
  unfold zlib_inflate at hcall
  rw [hs] at hcall
  simp only [] at hcall
  split_ifs at hcall with hu
  · simp only [Option.some.injEq, Prod.mk.injEq] at hcall
    rcases hr with h | h <;> rw [h] at hcall <;> exact absurd hcall.1 (by decide)
  · cases hl : inflate_loop E flush fuel (enter strm st) with
    | none => simp [hl] at hcall
    | some o =>
      have hJ := (inflate_loop_J E flush _ _ fuel _ (enter_J strm st) o hl).1
      have hF := inflate_loop_F E hE flush _ fuel _ hF0 o hl
      rw [hl] at hcall
      cases o with
      | cont c => simp at hcall
      | done r0 s =>
        simp only [Option.some.injEq, Prod.mk.injEq] at hcall
        rcases hr with h | h
        · exact absurd (hcall.1.trans h) hJ.1
        · exact absurd (hcall.1.trans h) hF.1
      | leave c =>
        simp only [Option.some.injEq] at hcall
        obtain ⟨a1, a2, a3, a4, -⟩ := leave_stream_frame c
        obtain ⟨stl, b1, b2, b3⟩ := leave_stream_bits c
        have hres : c.ret = Z_OK ∧ ∃ m, s1 =
            { leave_stream c with state := some { stl with mode := m } } := by
          unfold inf_leave at hcall
          split_ifs at hcall with h1 h2
          · refine ⟨h1.2.1, ?_⟩
            unfold zlib_inflateSyncPacket at hcall
            rw [b1] at hcall
            simp only [] at hcall
            split_ifs at hcall
            · simp only [Prod.mk.injEq] at hcall
              exact ⟨TYPE, hcall.2.symm⟩
            · simp only [Prod.mk.injEq] at hcall
              rcases hr with h | h <;> rw [h] at hcall <;> exact absurd hcall.1 (by decide)
          · simp only [Prod.mk.injEq] at hcall
            refine ⟨h2.2, stl.mode, ?_⟩
            rw [← hcall.2, ← b1]
          · simp only [Prod.mk.injEq] at hcall
            have hro : c.ret = Z_OK := by
              rcases hF.2 with g | g | g
              · exact g.2.2.2
              · rw [g] at hcall
                rcases hr with h | h <;> rw [h] at hcall <;> exact absurd hcall.1 (by decide)
              · rw [g] at hcall
                rcases hr with h | h <;> rw [h] at hcall <;> exact absurd hcall.1 (by decide)
            refine ⟨hro, stl.mode, ?_⟩
            rw [← hcall.2, ← b1]
        obtain ⟨hro, m, hs1⟩ := hres
        have hout0 : c.out = strm.avail_out := by
          rcases hJ.2 with g | g
          · exact g.2
          · exact absurd hro g.1
        refine ⟨c, rfl, hro, hout0, hJ.1, hF, ?_, ?_, ?_, stl, m, b1, ?_, ?_, ?_, ?_⟩ <;>
          rw [hs1] <;> simp only [a1, a2, a3, a4]

/-- The state `zlib_inflateIncomp` leaves in mode HEAD or TYPE. -/
lemma zlib_inflateIncomp_state (z : z_stream) (st : inflate_state) (inp : List Nat)
    (hs : z.state = some st) (hm : st.mode = HEAD ∨ st.mode = TYPE)
    (hin : z.next_in = some inp) (hlen : z.avail_in ≤ inp.length) :
    (zlib_inflateIncomp z).2.state = some
      { zlib_updatewindow { z with next_out := inp.take z.avail_in, avail_out := 0 } st
          z.avail_in with
        check := adler32_fold st.check (inp.take z.avail_in),
        total := add32 st.total z.avail_in } := by
  obtain ⟨ni, ai, ti, nxo, ao, tto, msg, state, dt, ad⟩ := z
  simp only at hs hin hlen
  subst hs hin
  have hm2 : ¬ (st.mode ≠ TYPE ∧ st.mode ≠ HEAD) := by
    rcases hm with h | h <;> simp [h]
  have hr : readFwd inp ai = inp.take ai := by
    simp [readFwd, Nat.sub_eq_zero_of_le hlen]
  simp only [zlib_inflateIncomp, if_neg hm2, Option.map_some', Option.getD_some, hr,
    zlib_adler32, zlib_updatewindow_check, zlib_updatewindow_mode, and_self, true_and]
  unfold zlib_updatewindow
  simp only []
  split_ifs <;> rfl

@[simp] lemma kind_HEAD : kind HEAD = 0 := rfl

@[simp] lemma kind_FLAGS : kind FLAGS = 3 := rfl

@[simp] lemma kind_TIME : kind TIME = 3 := rfl

@[simp] lemma kind_OS : kind OS = 3 := rfl

@[simp] lemma kind_EXLEN : kind EXLEN = 3 := rfl

@[simp] lemma kind_EXTRA : kind EXTRA = 3 := rfl

@[simp] lemma kind_NAME : kind NAME = 3 := rfl

@[simp] lemma kind_COMMENT : kind COMMENT = 3 := rfl

@[simp] lemma kind_HCRC : kind HCRC = 3 := rfl

@[simp] lemma kind_DICTID : kind DICTID = 0 := rfl

@[simp] lemma kind_DICT : kind DICT = 0 := rfl

@[simp] lemma kind_TYPE : kind TYPE = 1 := rfl

@[simp] lemma kind_TYPEDO : kind TYPEDO = 1 := rfl

@[simp] lemma kind_STORED : kind STORED = 1 := rfl

@[simp] lemma kind_COPY : kind COPY = 1 := rfl

@[simp] lemma kind_TABLE : kind TABLE = 1 := rfl

@[simp] lemma kind_LENLENS : kind LENLENS = 1 := rfl

@[simp] lemma kind_CODELENS : kind CODELENS = 1 := rfl

@[simp] lemma kind_LEN : kind LEN = 1 := rfl

@[simp] lemma kind_LENEXT : kind LENEXT = 1 := rfl

@[simp] lemma kind_DIST : kind DIST = 1 := rfl

@[simp] lemma kind_DISTEXT : kind DISTEXT = 1 := rfl

@[simp] lemma kind_MATCH : kind MATCH = 1 := rfl

@[simp] lemma kind_LIT : kind LIT = 1 := rfl

@[simp] lemma kind_CHECK : kind CHECK = 1 := rfl

@[simp] lemma kind_LENGTH : kind LENGTH = 3 := rfl

@[simp] lemma kind_DONE : kind DONE = 2 := rfl

@[simp] lemma kind_BAD : kind BAD = 3 := rfl

@[simp] lemma kind_MEM : kind MEM = 3 := rfl

@[simp] lemma kind_SYNC : kind SYNC = 3 := rfl

@[simp] lemma adler32_fold_one_nil : adler32_fold 1 [] = 1 :=
  adler32_fold_nil 1 (by decide)

lemma CK_of_acc {T : List Nat} {out0 : Nat} {c c1 : Cfg} (h : Acc c c1) (hk : CK T out0 c) :
    CK T out0 c1 := by
  obtain ⟨h1, h2, _, _, _, h6, h7⟩ := h
  unfold CK at *
  rw [h1, h2, h6, h7]
  exact hk

lemma CP_of_acc {T : List Nat} {out0 : Nat} {c c1 : Cfg} (h : Acc c c1) (hk : CP T out0 c) :
    CP T out0 c1 := by
  obtain ⟨_, h2, _, h4, _, h6, h7⟩ := h
  unfold CP at *
  rw [h2, h4, h6, h7]
  exact hk

lemma CKB_of_same {T : List Nat} {out0 : Nat} {c c1 : Cfg} (h : Same c c1) (hk : CK T out0 c) :
    CKB T out0 c1 := by
  obtain ⟨k1, k2, k3, k4, k5, k6⟩ := hk
  refine ⟨by rw [h.wrap]; exact k1, h.out.trans k3, h.ret.trans k4, ?_⟩
  rcases h.mode with hm | hm
  · exact Or.inr ⟨by rw [hm]; exact k2, h.check.trans k5, h.adler.trans k6⟩
  · exact Or.inl hm

lemma CK_of_same {T : List Nat} {out0 : Nat} {c c1 : Cfg} (h : Same c c1)
    (hm : c1.state.mode = c.state.mode) (hk : CK T out0 c) : CK T out0 c1 := by
  obtain ⟨k1, k2, k3, k4, k5, k6⟩ := hk
  exact ⟨by rw [h.wrap]; exact k1, by rw [hm]; exact k2, h.out.trans k3, h.ret.trans k4,
    h.check.trans k5, h.adler.trans k6⟩

lemma CL_of_CK {T : List Nat} {out0 : Nat} {c : Cfg} (hk : CK T out0 c) : CL T out0 c :=
  ⟨hk.1, Or.inr (Or.inl ⟨hk.2.2.2.1, hk.2.2.1, Or.inr ⟨hk.2.1, hk.2.2.2.2⟩⟩)⟩

lemma CL_of_CKB {T : List Nat} {out0 : Nat} {c : Cfg} (hk : CKB T out0 c) : CL T out0 c := by
  obtain ⟨k1, k3, k4, hm⟩ := hk
  refine ⟨k1, ?_⟩
  rcases hm with hm | hm
  · refine Or.inl ⟨by rw [hm]; rfl, ?_⟩
    rw [k4]
    decide
  · exact Or.inr (Or.inl ⟨k4, k3, Or.inr hm⟩)

lemma lenlens_loop_mode (fuel : Nat) (c : Cfg) :
    (lenlens_loop fuel c).2.state.mode = c.state.mode := by
  induction fuel generalizing c with
  | zero => rfl
  | succ f ih =>
    unfold lenlens_loop
    split
    · have hA := NEEDBITS_acc 3 c
      rcases hN : NEEDBITS 3 c with ⟨b, c1⟩
      rw [hN] at hA
      cases b
      · simp only []
        rw [hA.2.1]
      · simp only []
        rw [ih]
        simp only [DROPBITS]
        rw [hA.2.1]
    · rfl

lemma lenlens_fill_check (fuel : Nat) (st : inflate_state) :
    (lenlens_fill fuel st).wrap = st.wrap ∧ (lenlens_fill fuel st).check = st.check ∧
    (lenlens_fill fuel st).mode = st.mode := by
  induction fuel generalizing st with
  | zero => exact ⟨rfl, rfl, rfl⟩
  | succ f ih =>
    unfold lenlens_fill
    split
    · exact ih _
    · exact ⟨rfl, rfl, rfl⟩

lemma case_HEAD_G (T : List Nat) (out0 : Nat) (c : Cfg) (h : CP T out0 c) : CO T out0 (case_HEAD c) := by
  unfold case_HEAD
  have hA := CP_of_acc (NEEDBITS_acc 16 c) h
  rcases hN : NEEDBITS 16 c with ⟨b, c1⟩
  rw [hN] at hA
  obtain ⟨k1, k2, k3, k4, k5, k6⟩ := hA
  obtain ⟨h1, h2, h3, h4, h5, h6⟩ := h
  simp only [] at k1 k2 k3 k4 k5 k6
  rw [if_neg h1]
  cases b <;> simp only [] <;> (repeat' split) <;>
    simp [CO, CJ, CL, zlib_adler32, Cfg.setMode, Cfg.bad, zlib_fixedtables, INITBITS,
      DROPBITS, BYTEBITS, Z_OK, Z_STREAM_END, Z_DATA_ERROR, *]

lemma case_TYPEDO_G (T : List Nat) (out0 : Nat) (c : Cfg) (h : CK T out0 c) : CO T out0 (case_TYPEDO c) := by
  unfold case_TYPEDO
  have hA := CK_of_acc (NEEDBITS_acc 3 c) h
  rcases hN : NEEDBITS 3 c with ⟨b, c1⟩
  rw [hN] at hA
  obtain ⟨k1, k2, k3, k4, k5, k6⟩ := hA
  obtain ⟨h1, h2, h3, h4, h5, h6⟩ := h
  simp only [] at k1 k2 k3 k4 k5 k6
  cases b <;> simp only [] <;> (repeat' split) <;>
    simp [CO, CJ, CL, Cfg.setMode, Cfg.bad, zlib_fixedtables, INITBITS,
      DROPBITS, BYTEBITS, Z_OK, Z_STREAM_END, Z_DATA_ERROR, *]

lemma case_TYPE_G (T : List Nat) (out0 : Nat) (flush : Int) (c : Cfg) (h : CK T out0 c) :
    CO T out0 (case_TYPE flush c) := by
  unfold case_TYPE
  split_ifs
  · exact CL_of_CK h
  · exact case_TYPEDO_G T out0 c h

lemma case_DICT_G (T : List Nat) (out0 : Nat) (flush : Int) (c : Cfg) (h : CP T out0 c) :
    CO T out0 (case_DICT flush c) := by
  unfold case_DICT
  obtain ⟨k1, k2, k3, k4, k5, k6⟩ := h
  split_ifs
  · simp [CO, RESTORE, Cfg.result, k1, k2, k5, k6, Z_NEED_DICT, Z_STREAM_END]
  · refine case_TYPE_G T out0 flush _ ?_
    simp [CK, zlib_adler32, k1, k3, k4, k6]

lemma case_DICTID_G (T : List Nat) (out0 : Nat) (flush : Int) (c : Cfg) (h : CP T out0 c) :
    CO T out0 (case_DICTID flush c) := by
  unfold case_DICTID
  have hA := CP_of_acc (NEEDBITS_acc 32 c) h
  rcases hN : NEEDBITS 32 c with ⟨b, c1⟩
  rw [hN] at hA
  obtain ⟨k1, k2, k3, k4, k5, k6⟩ := hA
  simp only [] at k1 k2 k3 k4 k5 k6
  cases b <;> simp only []
  · simp [CO, CL, k1, k2, k3, k4, k5, k6]
  · refine case_DICT_G T out0 flush _ ?_
    simp [CP, Cfg.setMode, INITBITS, k1, k3, k4, k5, k6]

lemma case_COPY_G (T : List Nat) (out0 : Nat) (c : Cfg) (h : CK T out0 c) : CO T out0 (case_COPY c) := by
  unfold case_COPY
  obtain ⟨k1, k2, k3, k4, k5, k6⟩ := h
  simp only []
  split_ifs <;> simp [CO, CJ, CL, CK, CP, Cfg.setMode, Cfg.bad, zlib_fixedtables, INITBITS, DROPBITS, BYTEBITS, k1, k2, k3, k4, k5, k6, Z_OK, Z_STREAM_END, Z_DATA_ERROR]

lemma case_STORED_G (T : List Nat) (out0 : Nat) (c : Cfg) (h : CK T out0 c) : CO T out0 (case_STORED c) := by
  unfold case_STORED
  have hA := CK_of_acc (NEEDBITS_acc 32 (BYTEBITS c)) h
  rcases hN : NEEDBITS 32 (BYTEBITS c) with ⟨b, c1⟩
  rw [hN] at hA
  obtain ⟨k1, k2, k3, k4, k5, k6⟩ := hA
  simp only [] at k1 k2 k3 k4 k5 k6
  cases b <;> simp only []
  · simp [CO, CJ, CL, CK, CP, Cfg.setMode, Cfg.bad, zlib_fixedtables, INITBITS, DROPBITS, BYTEBITS, k1, k2, k3, k4, k5, k6, Z_OK, Z_STREAM_END, Z_DATA_ERROR]
  · split_ifs
    · simp [CO, CJ, CL, CK, CP, Cfg.setMode, Cfg.bad, zlib_fixedtables, INITBITS, DROPBITS, BYTEBITS, k1, k2, k3, k4, k5, k6, Z_OK, Z_STREAM_END, Z_DATA_ERROR]
    · refine case_COPY_G T out0 _ ?_
      simp [CK, CP, Cfg.setMode, Cfg.bad, zlib_fixedtables, INITBITS, DROPBITS, BYTEBITS, k1, k2, k3, k4, k5, k6, Z_OK, Z_STREAM_END, Z_DATA_ERROR]

lemma case_MATCH_G (T : List Nat) (out0 : Nat) (c : Cfg) (h : CK T out0 c) : CO T out0 (case_MATCH c) := by
  unfold case_MATCH
  obtain ⟨k1, k2, k3, k4, k5, k6⟩ := h
  by_cases hl : c.left = 0
  · rw [if_pos hl]; simp [CO, CJ, CL, CK, CP, Cfg.setMode, Cfg.bad, zlib_fixedtables, INITBITS, DROPBITS, BYTEBITS, k1, k2, k3, k4, k5, k6, Z_OK, Z_STREAM_END, Z_DATA_ERROR]
  · rw [if_neg hl]
    simp only [CO, CJ]
    split_ifs <;> simp [k1, k2, k3, k4, k5, k6]

lemma DISTEXT_tail_G (T : List Nat) (out0 : Nat) (c : Cfg) (h : CK T out0 c) :
    CO T out0 (DISTEXT_tail c) := by
  unfold DISTEXT_tail
  obtain ⟨k1, k2, k3, k4, k5, k6⟩ := h
  split_ifs
  · simp [CO, CJ, CL, CK, CP, Cfg.setMode, Cfg.bad, zlib_fixedtables, INITBITS, DROPBITS, BYTEBITS, k1, k2, k3, k4, k5, k6, Z_OK, Z_STREAM_END, Z_DATA_ERROR]
  · refine case_MATCH_G T out0 _ ?_
    simp [CK, CP, Cfg.setMode, Cfg.bad, zlib_fixedtables, INITBITS, DROPBITS, BYTEBITS, k1, k2, k3, k4, k5, k6, Z_OK, Z_STREAM_END, Z_DATA_ERROR]

lemma case_DISTEXT_G (T : List Nat) (out0 : Nat) (c : Cfg) (h : CK T out0 c) :
    CO T out0 (case_DISTEXT c) := by
  unfold case_DISTEXT
  have hA := CK_of_acc (NEEDBITS_acc c.state.extra c) h
  rcases hN : NEEDBITS c.state.extra c with ⟨b, c1⟩
  rw [hN] at hA
  obtain ⟨k1, k2, k3, k4, k5, k6⟩ := hA
  simp only [] at k1 k2 k3 k4 k5 k6
  split_ifs
  · cases b <;> simp only []
    · simp [CO, CJ, CL, CK, CP, Cfg.setMode, Cfg.bad, zlib_fixedtables, INITBITS, DROPBITS, BYTEBITS, k1, k2, k3, k4, k5, k6, Z_OK, Z_STREAM_END, Z_DATA_ERROR]
    · refine DISTEXT_tail_G T out0 _ ?_
      simp [CK, CP, Cfg.setMode, Cfg.bad, zlib_fixedtables, INITBITS, DROPBITS, BYTEBITS, k1, k2, k3, k4, k5, k6, Z_OK, Z_STREAM_END, Z_DATA_ERROR]
  · exact DISTEXT_tail_G T out0 _ h

lemma DIST_tail_G (T : List Nat) (out0 : Nat) (this : code) (c : Cfg) (h : CK T out0 c) :
    CO T out0 (DIST_tail this c) := by
  unfold DIST_tail
  obtain ⟨k1, k2, k3, k4, k5, k6⟩ := h
  simp only []
  split_ifs
  · simp [CO, CJ, CL, CK, CP, Cfg.setMode, Cfg.bad, zlib_fixedtables, INITBITS, DROPBITS, BYTEBITS, k1, k2, k3, k4, k5, k6, Z_OK, Z_STREAM_END, Z_DATA_ERROR]
  · refine case_DISTEXT_G T out0 _ ?_
    simp [CK, CP, Cfg.setMode, Cfg.bad, zlib_fixedtables, INITBITS, DROPBITS, BYTEBITS, k1, k2, k3, k4, k5, k6, Z_OK, Z_STREAM_END, Z_DATA_ERROR]

lemma case_DIST_G (T : List Nat) (out0 : Nat) (c : Cfg) (h : CK T out0 c) : CO T out0 (case_DIST c) := by
  unfold case_DIST
  have hC := CK_of_acc (code_loop_acc c.state.distcode c.state.distbits (c.have_ + 1) c) h
  rcases hL : code_loop c.state.distcode c.state.distbits (c.have_ + 1) c with ⟨this, c1⟩ | c1
  · rw [hL] at hC
    simp only [Pulled.cfg] at hC
    simp only []
    have hS := CK_of_acc (code_second_acc c1.state.distcode this c1) hC
    split_ifs
    · rcases hL2 : code_second c1.state.distcode this c1 with ⟨this2, c2⟩ | c2
      · rw [hL2] at hS
        exact DIST_tail_G T out0 this2 c2 hS
      · rw [hL2] at hS
        exact CL_of_CK hS
    · exact DIST_tail_G T out0 this c1 hC
  · rw [hL] at hC
    exact CL_of_CK hC

lemma case_LENEXT_G (T : List Nat) (out0 : Nat) (c : Cfg) (h : CK T out0 c) :
    CO T out0 (case_LENEXT c) := by
  unfold case_LENEXT
  have hA := CK_of_acc (NEEDBITS_acc c.state.extra c) h
  rcases hN : NEEDBITS c.state.extra c with ⟨b, c1⟩
  rw [hN] at hA
  obtain ⟨k1, k2, k3, k4, k5, k6⟩ := hA
  simp only [] at k1 k2 k3 k4 k5 k6
  split_ifs
  · cases b <;> simp only []
    · simp [CO, CJ, CL, CK, CP, Cfg.setMode, Cfg.bad, zlib_fixedtables, INITBITS, DROPBITS, BYTEBITS, k1, k2, k3, k4, k5, k6, Z_OK, Z_STREAM_END, Z_DATA_ERROR]
    · refine case_DIST_G T out0 _ ?_
      simp [CK, CP, Cfg.setMode, Cfg.bad, zlib_fixedtables, INITBITS, DROPBITS, BYTEBITS, k1, k2, k3, k4, k5, k6, Z_OK, Z_STREAM_END, Z_DATA_ERROR]
  · refine case_DIST_G T out0 _ ?_
    obtain ⟨h1, h2, h3, h4, h5, h6⟩ := h
    simp [CK, Cfg.setMode, h1, h3, h4, h5, h6]

lemma LEN_tail_G (T : List Nat) (out0 : Nat) (this : code) (c : Cfg) (h : CK T out0 c) :
    CO T out0 (LEN_tail this c) := by
  unfold LEN_tail
  obtain ⟨k1, k2, k3, k4, k5, k6⟩ := h
  simp only []
  split_ifs
  · simp [CO, CJ, CL, CK, CP, Cfg.setMode, Cfg.bad, zlib_fixedtables, INITBITS, DROPBITS, BYTEBITS, k1, k2, k3, k4, k5, k6, Z_OK, Z_STREAM_END, Z_DATA_ERROR]
  · simp [CO, CJ, CL, CK, CP, Cfg.setMode, Cfg.bad, zlib_fixedtables, INITBITS, DROPBITS, BYTEBITS, k1, k2, k3, k4, k5, k6, Z_OK, Z_STREAM_END, Z_DATA_ERROR]
  · simp [CO, CJ, CL, CK, CP, Cfg.setMode, Cfg.bad, zlib_fixedtables, INITBITS, DROPBITS, BYTEBITS, k1, k2, k3, k4, k5, k6, Z_OK, Z_STREAM_END, Z_DATA_ERROR]
  · refine case_LENEXT_G T out0 _ ?_
    simp [CK, CP, Cfg.setMode, Cfg.bad, zlib_fixedtables, INITBITS, DROPBITS, BYTEBITS, k1, k2, k3, k4, k5, k6, Z_OK, Z_STREAM_END, Z_DATA_ERROR]

lemma case_LEN_G (E : Ext) (hE : FastCheck E) (T : List Nat) (out0 : Nat) (c : Cfg) (h : CK T out0 c)
    (hm : c.state.mode = LEN) : CO T out0 (case_LEN E c) := by
  unfold case_LEN
  split_ifs
  · obtain ⟨k1, k2, k3, k4, k5, k6⟩ := h
    obtain ⟨f1, f2, f3, f4⟩ := hE (RESTORE c).strm (RESTORE c).state (RESTORE c).out hm
    refine ⟨f1.trans_ne k1, ?_⟩
    rcases f4 with f4 | f4
    · exact Or.inr (Or.inl ⟨f4, k3, k4, f2.trans k5, f3.trans k6⟩)
    · refine Or.inr (Or.inr (Or.inr ?_))
      show kind (E.inflate_fast (RESTORE c).strm (RESTORE c).state (RESTORE c).out).2.mode = 3
      rw [f4]
      rfl
  · have hC := CK_of_acc (code_loop_acc c.state.lencode c.state.lenbits (c.have_ + 1) c) h
    rcases hL : code_loop c.state.lencode c.state.lenbits (c.have_ + 1) c with ⟨this, c1⟩ | c1
    · rw [hL] at hC
      simp only [Pulled.cfg] at hC
      simp only []
      have hS := CK_of_acc (code_second_acc c1.state.lencode this c1) hC
      split_ifs
      · rcases hL2 : code_second c1.state.lencode this c1 with ⟨this2, c2⟩ | c2
        · rw [hL2] at hS
          exact LEN_tail_G T out0 this2 c2 hS
        · rw [hL2] at hS
          exact CL_of_CK hS
      · exact LEN_tail_G T out0 this c1 hC
    · rw [hL] at hC
      exact CL_of_CK hC

lemma case_LIT_G (T : List Nat) (out0 : Nat) (c : Cfg) (h : CK T out0 c) : CO T out0 (case_LIT c) := by
  unfold case_LIT
  obtain ⟨k1, k2, k3, k4, k5, k6⟩ := h
  split_ifs <;> simp [CO, CJ, CL, CK, CP, Cfg.setMode, Cfg.bad, zlib_fixedtables, INITBITS, DROPBITS, BYTEBITS, k1, k2, k3, k4, k5, k6, Z_OK, Z_STREAM_END, Z_DATA_ERROR]

lemma CODELENS_tail_G (E : Ext) (hE : FastCheck E) (T : List Nat) (out0 : Nat) (c : Cfg) (h : CKB T out0 c) :
    CO T out0 (CODELENS_tail E c) := by
  unfold CODELENS_tail
  obtain ⟨k1, k3, k4, hm⟩ := h
  simp only []
  split_ifs with h1 h2 h3
  · simp [CO, CJ, k1, h1]
  · simp [CO, CJ, Cfg.bad, k1]
  · simp [CO, CJ, Cfg.bad, k1]
  · obtain ⟨k2, k5, k6⟩ := hm.resolve_left h1
    have h3' : (E.inflate_table codetype.DISTS (List.drop c.state.nlen c.state.lens) c.state.ndist 6).1 = 0 := by
      simpa using h3
    refine case_LEN_G E hE T out0 _ ?_ rfl
    simp [CK, Cfg.setMode, k1, k3, k5, k6, h3', Z_OK]

lemma case_CODELENS_G (E : Ext) (hE : FastCheck E) (T : List Nat) (out0 : Nat) (c : Cfg) (h : CK T out0 c) :
    CO T out0 (case_CODELENS E c) := by
  unfold case_CODELENS
  have hA := CKB_of_same (codelens_loop_same (add32 c.state.nlen c.state.ndist) c) h
  rcases hN : codelens_loop (add32 c.state.nlen c.state.ndist) c with ⟨b, c1⟩
  rw [hN] at hA
  cases b <;> simp only []
  · exact CL_of_CKB hA
  · exact CODELENS_tail_G E hE T out0 c1 hA

lemma LENLENS_tail_G (E : Ext) (hE : FastCheck E) (T : List Nat) (out0 : Nat) (c : Cfg) (h : CK T out0 c) :
    CO T out0 (LENLENS_tail E c) := by
  unfold LENLENS_tail
  obtain ⟨k1, k2, k3, k4, k5, k6⟩ := h
  obtain ⟨g1, g2, g3⟩ := lenlens_fill_check 19 c.state
  simp only []
  split_ifs with h1
  · simp [CO, CJ, Cfg.bad, k1, g1]
  · refine case_CODELENS_G E hE T out0 _ ?_
    have h1' : (E.inflate_table codetype.CODES (lenlens_fill 19 c.state).lens 19 7).1 = 0 := by
      simpa using h1
    simp [CK, k1, k3, k5, k6, g1, g2, h1', Z_OK]

lemma case_LENLENS_G (E : Ext) (hE : FastCheck E) (T : List Nat) (out0 : Nat) (c : Cfg) (h : CK T out0 c) :
    CO T out0 (case_LENLENS E c) := by
  unfold case_LENLENS
  have hA := CK_of_same (lenlens_loop_same c.state.ncode c) (lenlens_loop_mode c.state.ncode c) h
  rcases hN : lenlens_loop c.state.ncode c with ⟨b, c1⟩
  rw [hN] at hA
  cases b <;> simp only []
  · exact CL_of_CK hA
  · exact LENLENS_tail_G E hE T out0 c1 hA

lemma case_TABLE_G (E : Ext) (hE : FastCheck E) (T : List Nat) (out0 : Nat) (c : Cfg) (h : CK T out0 c) :
    CO T out0 (case_TABLE E c) := by
  unfold case_TABLE
  have hA := CK_of_acc (NEEDBITS_acc 14 c) h
  rcases hN : NEEDBITS 14 c with ⟨b, c1⟩
  rw [hN] at hA
  obtain ⟨k1, k2, k3, k4, k5, k6⟩ := hA
  simp only [] at k1 k2 k3 k4 k5 k6
  cases b <;> simp only []
  · simp [CO, CJ, CL, CK, CP, Cfg.setMode, Cfg.bad, zlib_fixedtables, INITBITS, DROPBITS, BYTEBITS, k1, k2, k3, k4, k5, k6, Z_OK, Z_STREAM_END, Z_DATA_ERROR]
  · split_ifs
    · simp [CO, CJ, CL, CK, CP, Cfg.setMode, Cfg.bad, zlib_fixedtables, INITBITS, DROPBITS, BYTEBITS, k1, k2, k3, k4, k5, k6, Z_OK, Z_STREAM_END, Z_DATA_ERROR]
    · refine case_LENLENS_G E hE T out0 _ ?_
      simp [CK, CP, Cfg.setMode, Cfg.bad, zlib_fixedtables, INITBITS, DROPBITS, BYTEBITS, k1, k2, k3, k4, k5, k6, Z_OK, Z_STREAM_END, Z_DATA_ERROR]

lemma case_DONE_G (T : List Nat) (out0 : Nat) (c : Cfg) (h1 : c.state.wrap ≠ 0)
    (h2 : kind c.state.mode = 2) (h3 : c.out = out0) (h4 : c.left = out0)
    (h5 : c.state.check = adler32_fold 1 T) (h6 : c.strm.adler = adler32_fold 1 T) : CO T out0 (case_DONE c) := by
  simp [case_DONE, CO, CL, finalCheck, sub32_self, h1, h2, h3, h4, h5, h6]

lemma CHECK_tail_G (T : List Nat) (out0 : Nat) (c : Cfg) (h : CK T out0 c) :
    CO T out0 (CHECK_tail c) := by
  obtain ⟨k1, k2, k3, k4, k5, k6⟩ := h
  have e1 : (CHECK_update c).state.check = finalCheck (adler32_fold 1 T) out0 c := by
    simp only [CHECK_update, finalCheck, k3, k5]
  have e2 : (CHECK_update c).strm.adler = finalCheck (adler32_fold 1 T) out0 c := by
    simp only [CHECK_update, finalCheck, k3, k5, k6]
    split_ifs <;> rfl
  have e3 : (CHECK_update c).state.wrap ≠ 0 := k1
  have e4 : (CHECK_update c).out = (CHECK_update c).left := rfl
  have e5 : finalCheck (adler32_fold 1 T) out0 ((INITBITS (CHECK_update c)).setMode DONE) =
      finalCheck (adler32_fold 1 T) out0 c := rfl
  unfold CHECK_tail
  by_cases hr : REVERSE (CHECK_update c).hold ≠ (CHECK_update c).state.check
  · rw [if_pos hr]
    exact ⟨e3, Or.inr (Or.inr (Or.inr rfl))⟩
  · rw [if_neg hr]
    unfold case_DONE
    refine ⟨e3, Or.inr (Or.inr ⟨rfl, rfl, e4, ?_, ?_⟩)⟩
    · exact e1
    · exact e2

lemma case_CHECK_G (T : List Nat) (out0 : Nat) (c : Cfg) (h : CK T out0 c) :
    CO T out0 (case_CHECK c) := by
  unfold case_CHECK
  have hA := CK_of_acc (NEEDBITS_acc 32 c) h
  rcases hN : NEEDBITS 32 c with ⟨b, c1⟩
  rw [hN] at hA
  rw [if_pos h.1]
  cases b <;> simp only []
  · exact CL_of_CK hA
  · exact CHECK_tail_G T out0 c1 hA

lemma step_G (E : Ext) (hE : FastCheck E) (flush : Int) (T : List Nat) (out0 : Nat) (c : Cfg)
    (h : CJ T out0 c) : CO T out0 (step E flush c) := by
  obtain ⟨hw, hd⟩ := h
  have hp : kind c.state.mode = 0 → CP T out0 c := by
    intro hk
    rcases hd with g | g | g | g
    · exact ⟨hw, g.1, g.2.1, g.2.2.1, g.2.2.2.1, g.2.2.2.2⟩
    · rw [hk] at g; exact absurd g.1 (by decide)
    · rw [hk] at g; exact absurd g.1 (by decide)
    · rw [hk] at g; exact absurd g (by decide)
  have hn : kind c.state.mode = 1 → CK T out0 c := by
    intro hk
    rcases hd with g | g | g | g
    · rw [hk] at g; exact absurd g.1 (by decide)
    · exact ⟨hw, g.1, g.2.1, g.2.2.1, g.2.2.2.1, g.2.2.2.2⟩
    · rw [hk] at g; exact absurd g.1 (by decide)
    · rw [hk] at g; exact absurd g (by decide)
  unfold step
  split
  · exact case_HEAD_G T out0 c (hp (by simp [*]))
  · exact case_DICTID_G T out0 flush c (hp (by simp [*]))
  · exact case_DICT_G T out0 flush c (hp (by simp [*]))
  · exact case_TYPE_G T out0 flush c (hn (by simp [*]))
  · exact case_TYPEDO_G T out0 c (hn (by simp [*]))
  · exact case_STORED_G T out0 c (hn (by simp [*]))
  · exact case_COPY_G T out0 c (hn (by simp [*]))
  · exact case_TABLE_G E hE T out0 c (hn (by simp [*]))
  · exact case_LENLENS_G E hE T out0 c (hn (by simp [*]))
  · exact case_CODELENS_G E hE T out0 c (hn (by simp [*]))
  · exact case_LEN_G E hE T out0 c (hn (by simp [*])) (by assumption)
  · exact case_LENEXT_G T out0 c (hn (by simp [*]))
  · exact case_DIST_G T out0 c (hn (by simp [*]))
  · exact case_DISTEXT_G T out0 c (hn (by simp [*]))
  · exact case_MATCH_G T out0 c (hn (by simp [*]))
  · exact case_LIT_G T out0 c (hn (by simp [*]))
  · exact case_CHECK_G T out0 c (hn (by simp [*]))
  · rename_i hm
    rcases hd with g | g | g | g
    · rw [hm] at g; exact absurd g.1 (by decide)
    · rw [hm] at g; exact absurd g.1 (by decide)
    · exact case_DONE_G T out0 c hw g.1 g.2.1 g.2.2.1 g.2.2.2.1 g.2.2.2.2
    · rw [hm] at g; exact absurd g (by decide)
  · rename_i hm
    simp [case_BAD, CO, CL, hw, hm, Z_DATA_ERROR, Z_STREAM_END]
  · rename_i hm
    exact ⟨by decide, c.state, rfl, hw, Or.inl (by rw [hm]; rfl)⟩
  · rename_i h1 h2 h3 h4 h5 h6 h7 h8 h9 h10 h11 h12 h13 h14 h15 h16 h17 h18 h19 h20
    refine ⟨by decide, c.state, rfl, hw, Or.inl ?_⟩
    cases hm : c.state.mode <;> first | rfl | (exfalso; simp_all)

lemma inflate_loop_G (E : Ext) (hE : FastCheck E) (flush : Int) (T : List Nat) (out0 : Nat) (fuel : Nat)
    (c : Cfg) (h : CJ T out0 c) (o : Outcome)
    (ho : inflate_loop E flush fuel c = some o) : CO T out0 o := by
  induction fuel generalizing c with
  | zero => simp [inflate_loop] at ho
  | succ f ih =>
    unfold inflate_loop at ho
    have hs := step_G E hE flush T out0 c h
    rcases hst : step E flush c with c1 | c1 | ⟨r, s⟩
    · rw [hst] at ho hs
      exact ih c1 hs ho
    · rw [hst] at ho hs
      simp only [Option.some.injEq] at ho
      subst ho
      exact hs
    · rw [hst] at ho hs
      simp only [Option.some.injEq] at ho
      subst ho
      exact hs

lemma fold_emitted (T P O : List Nat) (n : Nat) (hn : n = O.length) :
    (if n ≠ 0 then zlib_adler32 (adler32_fold 1 T) (some (readBack (P ++ O) n n))
      else adler32_fold 1 T) = adler32_fold 1 (T ++ O) := by
  subst hn
  by_cases h : O.length = 0
  · have : O = [] := List.length_eq_zero.mp h
    subst this
    simp
  · rw [if_pos h, readBack_append]
    unfold zlib_adler32
    exact adler32_fold_append 1 T O

/-- The checksum fields that `inf_leave` leaves behind. -/
lemma leave_stream_check (c : Cfg) :
    (leave_stream c).next_out = c.put ∧ (leave_stream c).avail_out = c.left ∧
    (leave_stream c).adler =
      (if c.state.wrap ≠ 0 ∧ sub32 c.out c.left ≠ 0 then
        zlib_adler32 c.state.check
          (some (readBack c.put (sub32 c.out c.left) (sub32 c.out c.left)))
      else c.strm.adler) ∧
    ∃ stl, (leave_stream c).state = some stl ∧ stl.mode = c.state.mode ∧
      stl.wrap = c.state.wrap ∧
      stl.check =
        (if c.state.wrap ≠ 0 ∧ sub32 c.out c.left ≠ 0 then
          zlib_adler32 c.state.check
            (some (readBack c.put (sub32 c.out c.left) (sub32 c.out c.left)))
        else c.state.check) := by
  obtain ⟨q1, q2⟩ := zlib_updatewindow_check (RESTORE c).strm (RESTORE c).state c.out
  have q3 := zlib_updatewindow_mode (RESTORE c).strm (RESTORE c).state c.out
  unfold leave_stream
  simp only [RESTORE] at q1 q2 q3 ⊢
  by_cases hu : c.state.wsize ≠ 0 ∨ (c.state.mode.toNat < CHECK.toNat ∧ c.out ≠ c.left) <;>
    by_cases hc : c.state.wrap ≠ 0 ∧ sub32 c.out c.left ≠ 0 <;>
    simp [hu, hc, q1, q2, q3]

/-- The stream `inf_leave` returns is the one `leave_stream` builds, except that
the packet test may turn mode STORED into TYPE; and `Z_STREAM_END` comes from
`ret` alone. -/
lemma inf_leave_shape (flush : Int) (c : Cfg) :
    ((inf_leave flush c).1 = Z_STREAM_END → c.ret = Z_STREAM_END) ∧
    ((inf_leave flush c).2 = leave_stream c ∨
      ∃ stl, (leave_stream c).state = some stl ∧ stl.mode = STORED ∧
        (inf_leave flush c).2 = { leave_stream c with state := some { stl with mode := TYPE } }) := by
  obtain ⟨stl, b1, b2, b3⟩ := leave_stream_bits c
  unfold inf_leave
  split_ifs with h1 h2
  · unfold zlib_inflateSyncPacket
    rw [b1]
    simp only []
    split_ifs with h3
    · exact ⟨fun h => absurd (show Z_OK = Z_STREAM_END from h) (by decide),
        Or.inr ⟨stl, rfl, h3.1, rfl⟩⟩
    · exact ⟨fun h => absurd (show Z_DATA_ERROR = Z_STREAM_END from h) (by decide), Or.inl rfl⟩
  · exact ⟨fun h => absurd (show Z_BUF_ERROR = Z_STREAM_END from h) (by decide), Or.inl rfl⟩
  · exact ⟨fun h => h, Or.inl rfl⟩

lemma enter_CJ (strm : z_stream) (st : inflate_state) (T : List Nat)
    (hT : Tracked strm T) (hs : strm.state = some st) :
    CJ T strm.avail_out (enter strm st) := by
  obtain ⟨st0, hs0, hw, hd⟩ := hT
  rw [hs] at hs0
  cases hs0
  unfold enter LOAD
  simp only []
  split_ifs with hm
  · refine ⟨hw, Or.inr (Or.inl ⟨rfl, rfl, rfl, ?_⟩)⟩
    rw [hm] at hd
    rcases hd with g | g | g
    · exact absurd g.1 (by decide)
    · exact absurd g (by decide)
    · exact g.2
  · refine ⟨hw, ?_⟩
    rcases hd with g | g | ⟨g | g, g2⟩
    · exact Or.inl ⟨g.1, rfl, rfl, rfl, g.2⟩
    · exact Or.inr (Or.inr (Or.inr g))
    · exact Or.inr (Or.inl ⟨g, rfl, rfl, g2⟩)
    · exact Or.inr (Or.inr (Or.inl ⟨g, rfl, rfl, g2⟩))

/-- One call keeps the checksum on track: if it wrote the bytes `O`, the
checksum follows `T ++ O`, and it equals the Adler-32 of `T ++ O` when the call
returns `Z_STREAM_END`. -/
lemma call_tracked (E : Ext) (hE : FastCheck E) (fuel : Nat) (strm s1 : z_stream)
    (flush r : Int) (T O : List Nat) (hT : Tracked strm T)
    (hao : strm.avail_out < 4294967296)
    (hcall : zlib_inflate E fuel strm flush = some (r, s1))
    (hO : s1.next_out = strm.next_out ++ O) (hlen : s1.avail_out + O.length = strm.avail_out) :
    Tracked s1 (T ++ O) ∧
    (r = Z_STREAM_END → s1.adler = adler32_fold 1 (T ++ O) ∧
      ∃ st1, s1.state = some st1 ∧ st1.check = adler32_fold 1 (T ++ O)) := by
  obtain ⟨st, hs, hw, hd⟩ := id hT
  unfold zlib_inflate at hcall
  rw [hs] at hcall
  simp only [] at hcall
  split_ifs at hcall with hu
  · simp only [Option.some.injEq, Prod.mk.injEq] at hcall
    obtain ⟨hr, hs1⟩ := hcall
    subst hs1
    have hO0 : O = [] := List.length_eq_zero.mp (by omega)
    subst hO0
    rw [List.append_nil]
    exact ⟨hT, fun h => absurd (hr.trans h) (by decide)⟩
  · cases hl : inflate_loop E flush fuel (enter strm st) with
    | none => simp [hl] at hcall
    | some o =>
      have hC := inflate_loop_G E hE flush T _ fuel _ (enter_CJ strm st T hT hs) o hl
      rw [hl] at hcall
      cases o with
      | cont c => simp at hcall
      | done r0 s =>
        simp only [Option.some.injEq, Prod.mk.injEq] at hcall
        obtain ⟨hr, hs1⟩ := hcall
        subst hs1
        obtain ⟨hne, st', e1, e2, e3⟩ := hC
        refine ⟨⟨st', e1, e2, ?_⟩, fun h => absurd (hr.trans h) hne⟩
        rcases e3 with g | g
        · exact Or.inr (Or.inl g)
        · have hO0 : O = [] := List.length_eq_zero.mp (by have := g.2.1; omega)
          rw [g.2.2, hO0]
          exact Or.inl ⟨g.1, rfl⟩
      | leave c =>
        simp only [Option.some.injEq] at hcall
        obtain ⟨l1, l2, l3, stl, l4, l5, l6, l7⟩ := leave_stream_check c
        obtain ⟨sh1, sh2⟩ := inf_leave_shape flush c
        rw [hcall] at sh1 sh2
        simp only [] at sh1 sh2
        -- the stream returned, up to the mode
        have hs1 : s1.next_out = c.put ∧ s1.avail_out = c.left ∧
            s1.adler = (leave_stream c).adler ∧
            ∃ m, s1.state = some { stl with mode := m } ∧
              (m = c.state.mode ∨ (c.state.mode = STORED ∧ m = TYPE)) := by
          rcases sh2 with g | ⟨stl2, g1, g2, g3⟩
          · rw [g]
            exact ⟨l1, l2, rfl, stl.mode, by rw [l4], Or.inl l5⟩
          · rw [l4] at g1
            cases g1
            rw [g3]
            exact ⟨l1, l2, rfl, TYPE, rfl, Or.inr ⟨l5.symm.trans g2, rfl⟩⟩
        obtain ⟨p1, p2, p3, m, p4, p5⟩ := hs1
        have hput : c.put = strm.next_out ++ O := p1.symm.trans hO
        have hleft : c.left + O.length = strm.avail_out := by rw [← p2]; exact hlen
        obtain ⟨cw, hcl⟩ := hC
        rcases hcl with g | g | g
        · -- a mode the decoder never leaves
          have hk : kind m = 3 := by
            rcases p5 with h | h
            · rw [h]; exact g.1
            · rw [h.1] at g; exact absurd g.1 (by decide)
          refine ⟨⟨_, p4, by simp only []; rw [l6]; exact cw, Or.inr (Or.inl hk)⟩, ?_⟩
          intro h
          exact absurd (sh1 h) g.2
        · obtain ⟨gr, go, gm⟩ := g
          refine ⟨?_, fun h => ?_⟩
          · rcases gm with ⟨k0, kl, kT⟩ | ⟨k1, kc, ka⟩
            · have hO0 : O = [] := List.length_eq_zero.mp (by omega)
              have hk : kind m = 0 := by
                rcases p5 with h | h
                · rw [h]; exact k0
                · rw [h.1] at k0; exact absurd k0 (by decide)
              rw [kT, hO0]
              exact ⟨_, p4, by simp only []; rw [l6]; exact cw, Or.inl ⟨hk, rfl⟩⟩
            · have hk : kind m = 1 := by
                rcases p5 with h | h
                · rw [h]; exact k1
                · rw [h.2]; rfl
              have hn : sub32 c.out c.left = O.length := by
                rw [go, sub32_of_le (by omega) hao]
                omega
              have hf := fold_emitted T strm.next_out O (sub32 c.out c.left) hn
              refine ⟨_, p4, by simp only []; rw [l6]; exact cw, Or.inr (Or.inr ⟨Or.inl hk, ?_, ?_⟩)⟩
              · simp only []
                rw [l7, kc, hput, ← hf]
                simp only [cw, ne_eq, not_false_eq_true, true_and]
              · rw [p3, l3, kc, ka, hput, ← hf]
                simp only [cw, ne_eq, not_false_eq_true, true_and]
          · have := sh1 h
            rw [gr] at this
            exact absurd this (by decide)
        · obtain ⟨gr, gk, go, gc, ga⟩ := g
          have hn0 : sub32 c.out c.left = 0 := by rw [go]; exact sub32_self _
          have hn : sub32 strm.avail_out c.left = O.length := by
            rw [sub32_of_le (by omega) hao]
            omega
          have hf := fold_emitted T strm.next_out O (sub32 strm.avail_out c.left) hn
          have hfin : finalCheck (adler32_fold 1 T) strm.avail_out c =
              adler32_fold 1 (T ++ O) := by
            unfold finalCheck
            rw [hput]
            exact hf
          have hk : kind m = 2 := by
            rcases p5 with h | h
            · rw [h]; exact gk
            · rw [h.1] at gk; exact absurd gk (by decide)
          have hc1 : stl.check = adler32_fold 1 (T ++ O) := by
            rw [l7, hn0]
            simp only [ne_eq, not_true_eq_false, and_false, if_false]
            rw [gc, hfin]
          have ha1 : s1.adler = adler32_fold 1 (T ++ O) := by
            rw [p3, l3, hn0]
            simp only [ne_eq, not_true_eq_false, and_false, if_false]
            rw [ga, hfin]
          exact ⟨⟨_, p4, by simp only []; rw [l6]; exact cw, Or.inr (Or.inr ⟨Or.inr hk, hc1, ha1⟩)⟩,
            fun _ => ⟨ha1, _, p4, hc1⟩⟩

lemma le_bytes_append (a b : List Nat) :
    le_bytes (a ++ b) = le_bytes a + le_bytes b * 2 ^ (8 * a.length) := by
  induction a with
  | nil => simp [le_bytes]
  | cons x xs ih =>
    have : 2 ^ (8 * (xs.length + 1)) = 256 * 2 ^ (8 * xs.length) := by
      rw [Nat.mul_add, Nat.pow_add]; norm_num; ring
    rw [List.cons_append]
    simp only [le_bytes, List.length_cons]
    rw [ih, this]
    ring


/-- What `zlib_updatewindow` does to the cursors when they are in range. -/
lemma zlib_updatewindow_cursors (strm : z_stream) (st : inflate_state) (out : Nat)
    (h : Cursors st) :
    (st.wsize ≤ sub32 out strm.avail_out →
      (zlib_updatewindow strm st out).write = 0 ∧
      (zlib_updatewindow strm st out).whave = st.wsize) ∧
    (sub32 out strm.avail_out < st.wsize →
      (zlib_updatewindow strm st out).write = (st.write + sub32 out strm.avail_out) % st.wsize ∧
      (zlib_updatewindow strm st out).whave = min st.wsize (st.whave + sub32 out strm.avail_out)) ∧
    Cursors (zlib_updatewindow strm st out) ∧
    st.whave ≤ (zlib_updatewindow strm st out).whave := by
  obtain ⟨h0, h32, hw, hh, hq⟩ := h
  obtain ⟨n, hn⟩ : ∃ n, n = sub32 out strm.avail_out := ⟨_, rfl⟩
  rw [← hn]
  have hd : sub32 st.wsize st.write = st.wsize - st.write := sub32_of_le (by omega) h32
  by_cases hc : st.wsize ≤ n
  · have e : zlib_updatewindow strm st out = { st with
        window := memcpy st.window 0 (readBack strm.next_out st.wsize st.wsize),
        write := 0, whave := st.wsize } := by
      unfold zlib_updatewindow
      simp only [← hn]
      rw [if_pos hc]
    rw [e]
    refine ⟨fun _ => ⟨rfl, rfl⟩, fun hlt => absurd hc (by omega), ?_, hh⟩
    exact ⟨h0, h32, h0, le_refl _, fun hlt => absurd hlt (lt_irrefl _)⟩
  · have hlt : n < st.wsize := by omega
    by_cases hwrap : st.wsize - st.write < n
    · have e : zlib_updatewindow strm st out = { st with
          window := memcpy (memcpy st.window st.write
              (readBack strm.next_out n (st.wsize - st.write))) 0
            (readBack strm.next_out (n - (st.wsize - st.write)) (n - (st.wsize - st.write))),
          write := n - (st.wsize - st.write), whave := st.wsize } := by
        unfold zlib_updatewindow
        simp only [← hn, hd]
        rw [if_neg hc]
        have e1 : (if st.wsize - st.write > n then n else st.wsize - st.write) =
            st.wsize - st.write := if_neg (by omega)
        rw [e1, if_pos (by omega)]
      rw [e]
      have hmod : (st.write + n) % st.wsize = n - (st.wsize - st.write) := by
        have e2 : st.write + n = (n - (st.wsize - st.write)) + st.wsize := by omega
        rw [e2, Nat.add_mod_right, Nat.mod_eq_of_lt (by omega)]
      have hmin : min st.wsize (st.whave + n) = st.wsize := by
        by_cases hf : st.whave < st.wsize
        · have := hq hf
          simp only [Nat.min_def]
          split_ifs <;> omega
        · simp only [Nat.min_def]
          split_ifs <;> omega
      refine ⟨fun hge => absurd hge hc, fun _ => ⟨hmod.symm, hmin.symm⟩, ?_, hh⟩
      exact ⟨h0, h32, by (try dsimp only); omega, le_refl _, fun h => absurd h (lt_irrefl _)⟩
    · have hadd : add32 st.write n = st.write + n := add32_of_lt (by omega)
      have e : zlib_updatewindow strm st out = { st with
          window := memcpy st.window st.write (readBack strm.next_out n n),
          write := if st.write + n = st.wsize then 0 else st.write + n,
          whave := if st.whave < st.wsize then add32 st.whave n else st.whave } := by
        unfold zlib_updatewindow
        simp only [← hn, hd]
        rw [if_neg hc]
        have e1 : (if st.wsize - st.write > n then n else st.wsize - st.write) = n := by
          split_ifs <;> omega
        rw [e1, if_neg (by simp), hadd]
      rw [e]
      have hmod : (st.write + n) % st.wsize = if st.write + n = st.wsize then 0 else st.write + n := by
        split_ifs with h1
        · rw [h1, Nat.mod_self]
        · exact Nat.mod_eq_of_lt (by omega)
      by_cases hf : st.whave < st.wsize
      · have hwq := hq hf
        have hadd2 : add32 st.whave n = st.whave + n := add32_of_lt (by omega)
        have hmin : min st.wsize (st.whave + n) = st.whave + n := by
          simp only [Nat.min_def]
          split_ifs <;> omega
        simp only [if_pos hf, hadd2]
        refine ⟨fun hge => absurd hge hc, fun _ => ⟨hmod.symm, hmin.symm⟩, ?_, by omega⟩
        refine ⟨h0, h32, ?_, ?_, ?_⟩
        · dsimp only
          split_ifs <;> omega
        · dsimp only
          omega
        · dsimp only
          intro h2
          rw [if_neg (by omega)]
          omega
      · have hmin : min st.wsize (st.whave + n) = st.whave := by
          simp only [Nat.min_def]
          split_ifs <;> omega
        simp only [if_neg hf]
        refine ⟨fun hge => absurd hge hc, fun _ => ⟨hmod.symm, hmin.symm⟩, ?_, le_refl _⟩
        refine ⟨h0, h32, ?_, hh, fun h2 => absurd h2 hf⟩
        try dsimp only
        split_ifs <;> omega

lemma Cursors_congr {st st1 : inflate_state} (h1 : st1.wsize = st.wsize)
    (h2 : st1.write = st.write) (h3 : st1.whave = st.whave) (h : Cursors st) : Cursors st1 := by
  unfold Cursors at *
  rw [h1, h2, h3]
  exact h

/-- A successful `zlib_inflateInit2` leaves cursors in range. -/
lemma init_cursors (strm : z_stream) (ws : inflate_state) (w : Int)
    (hw : (8 ≤ w ∧ w ≤ 15) ∨ (-15 ≤ w ∧ w ≤ -8)) :
    ∃ st, (zlib_inflateInit2 strm ws w).2.state = some st ∧ Cursors st := by
  have hsh : ∀ n : Nat, n ≤ 15 → (1 <<< n) % 4294967296 = 2 ^ n := by
    intro n hn
    interval_cases n <;> rfl
  have hC : ∀ (st : inflate_state) (n : Nat), n ≤ 15 → st.wsize = (1 <<< n) % 4294967296 →
      st.write = 0 → st.whave = 0 → Cursors st := by
    intro st n hn h1 h2 h3
    have hp : 0 < 2 ^ n := Nat.two_pow_pos n
    have hl : 2 ^ n < 4294967296 :=
      lt_of_le_of_lt (Nat.pow_le_pow_right (by decide) hn) (by decide)
    rw [hsh n hn] at h1
    unfold Cursors
    rw [h1, h2, h3]
    exact ⟨hp, hl, hp, Nat.zero_le _, fun _ => rfl⟩
  by_cases hp : w < 0
  · have hr : ¬ (-w < 8 ∨ -w > 15) := by omega
    have h15 : (-w).toNat ≤ 15 := by omega
    simp only [zlib_inflateInit2, zlib_inflateReset, hp, hr, if_true, if_false]
    exact ⟨_, rfl, hC _ (-w).toNat h15 rfl rfl rfl⟩
  · have hr : ¬ (w < 8 ∨ w > 15) := by omega
    have h15 : w.toNat ≤ 15 := by omega
    simp only [zlib_inflateInit2, zlib_inflateReset, hp, hr, if_true, if_false]
    exact ⟨_, rfl, hC _ w.toNat h15 rfl rfl rfl⟩

/-- A call of `zlib_inflate` keeps the cursors in range and does not lower
`whave`. -/
lemma call_cursors (E : Ext) (hE : FastFrame E) (fuel : Nat) (strm s1 : z_stream)
    (st : inflate_state) (flush r : Int) (hs : strm.state = some st) (hC : Cursors st)
    (hcall : zlib_inflate E fuel strm flush = some (r, s1)) :
    ∃ st1, s1.state = some st1 ∧ Cursors st1 ∧ st.whave ≤ st1.whave := by
  have hF0 : FJ (Fv.ofStream strm st) (enter strm st) := by
    unfold enter LOAD
    simp only []
    split_ifs <;> exact ⟨⟨rfl, rfl, rfl, rfl, rfl⟩, Or.inl ⟨rfl, rfl, rfl, rfl⟩⟩
  unfold zlib_inflate at hcall
  rw [hs] at hcall
  simp only [] at hcall
  split_ifs at hcall with hu
  · simp only [Option.some.injEq, Prod.mk.injEq] at hcall
    rw [← hcall.2]
    exact ⟨st, hs, hC, le_refl _⟩
  · cases hl : inflate_loop E flush fuel (enter strm st) with
    | none => simp [hl] at hcall
    | some o =>
      have hF := inflate_loop_F E hE flush _ fuel _ hF0 o hl
      rw [hl] at hcall
      cases o with
      | cont c => simp at hcall
      | done r0 s =>
        simp only [Option.some.injEq, Prod.mk.injEq] at hcall
        obtain ⟨-, st1, q1, w1, w2, w3, w4, -⟩ := hF
        simp only [Fv.ofStream] at w1 w2 w3 w4
        rw [← hcall.2]
        exact ⟨st1, q1, Cursors_congr w4 w3 w2 hC, by omega⟩
      | leave c =>
        simp only [Option.some.injEq] at hcall
        obtain ⟨w1, w2, w3, w4, -⟩ := hF.1
        simp only [Fv.ofStream] at w1 w2 w3 w4
        have hws : c.state.wsize ≠ 0 := by
          rw [w4]
          have := hC.1
          omega
        obtain ⟨stl, e0, -, e2, e3, e4⟩ := leave_stream_window c hws
        have hCc : Cursors (RESTORE c).state :=
          Cursors_congr (by simp [RESTORE, w4]) (by simp [RESTORE, w3]) (by simp [RESTORE, w2]) hC
        obtain ⟨-, -, u3, u4⟩ :=
          zlib_updatewindow_cursors (RESTORE c).strm (RESTORE c).state c.out hCc
        have hCl : Cursors stl := Cursors_congr e4 e3 e2 u3
        have hwl : st.whave ≤ stl.whave := by
          rw [e2]
          have : (RESTORE c).state.whave = st.whave := by simp [RESTORE, w2]
          rw [this] at u4
          exact u4
        have h2 : s1 = (inf_leave flush c).2 := by rw [hcall]
        rcases (inf_leave_shape flush c).2 with g | ⟨stl2, g1, -, g2⟩
        · rw [h2, g]
          exact ⟨stl, e0, hCl, hwl⟩
        · rw [e0] at g1
          cases g1
          rw [h2, g2]
          exact ⟨_, rfl, Cursors_congr rfl rfl rfl hCl, hwl⟩

/-- A call of `zlib_inflateIncomp` keeps the cursors in range and does not
lower `whave`. -/
lemma incomp_cursors (z : z_stream) (st : inflate_state) (hs : z.state = some st)
    (hC : Cursors st) :
    ∃ st1, (zlib_inflateIncomp z).2.state = some st1 ∧ Cursors st1 ∧ st.whave ≤ st1.whave := by
  unfold zlib_inflateIncomp
  rw [hs]
  simp only []
  split_ifs with hm
  · exact ⟨st, hs, hC, le_refl _⟩
  · obtain ⟨-, -, u3, u4⟩ := zlib_updatewindow_cursors
      { z with avail_out := 0, next_out := readFwd (z.next_in.getD []) z.avail_in } st
      z.avail_in hC
    exact ⟨_, rfl, Cursors_congr rfl rfl rfl u3, u4⟩

/-- Every stream a caller gets to has its cursors in range. -/
lemma reachable_cursors (E : Ext) (hE : FastFrame E) (s : z_stream) (h : Reachable E s) :
    ∃ st, s.state = some st ∧ Cursors st := by
  induction h with
  | init strm ws w hw => exact init_cursors strm ws w hw
  | call s s1 k fuel r _ hcall ih =>
    obtain ⟨st, hs, hC⟩ := ih
    obtain ⟨st1, q1, q2, -⟩ :=
      call_cursors E hE fuel (supply s k) s1 st k.flush r (by simp [supply, hs]) hC hcall
    exact ⟨st1, q1, q2⟩
  | incomp s ni ai _ ih =>
    obtain ⟨st, hs, hC⟩ := ih
    obtain ⟨st1, q1, q2, -⟩ := incomp_cursors { s with next_in := ni, avail_in := ai } st hs hC
    exact ⟨st1, q1, q2⟩

lemma memcpy_appends (lens : List Nat) (h : Nat) (src : List Nat) :
    readFwd (memcpy lens h src) (h + src.length) = readFwd lens h ++ src ∧
    ∀ i, h + src.length ≤ i → (memcpy lens h src).getD i 0 = lens.getD i 0 := by
  constructor
  · have hl := readFwd_length lens h
    unfold memcpy
    generalize readFwd lens h = A at hl
    unfold readFwd
    have e1 : (A ++ src ++ List.drop (h + src.length) lens).take (h + src.length) = A ++ src := by
      rw [List.take_append_eq_append_take]
      simp [hl]
    rw [e1]
    simp [hl]
  · intro i hi
    rw [memcpy_getD, if_neg (by omega), if_neg (by omega)]

lemma Appends_memcpy (st : inflate_state) (L : List Nat) :
    Appends st { st with lens := memcpy st.lens st.have_ L, have_ := st.have_ + L.length } L := by
  obtain ⟨h1, h2⟩ := memcpy_appends st.lens st.have_ L
  exact ⟨rfl, h1, h2, rfl, rfl, rfl⟩

lemma Appends_congr {st st0 st1 : inflate_state} {L : List Nat} (h : st0 = st)
    (hA : Appends st0 st1 L) : Appends st st1 L := by
  rw [← h]
  exact hA

lemma BITS_lt (c : Cfg) (n : Nat) (hn : n ≤ 32) : BITS c n < 2 ^ n := by
  rw [BITS_mod c n hn]
  exact Nat.mod_lt _ (Nat.two_pow_pos n)

/-- One round of the loop of CODELENS on a symbol below 16. -/
lemma codelens_step_lit (fuel : Nat) (c c1 c2 : Cfg) (this : code)
    (hlt : c.state.have_ < add32 c.state.nlen c.state.ndist)
    (hL : code_loop c.state.lencode c.state.lenbits (c.have_ + 1) c = .got this c1)
    (hv : this.val < 16) (hN : NEEDBITS this.bits c1 = (true, c2)) :
    ∃ c3, codelens_loop (fuel + 1) c = codelens_loop fuel c3 ∧
      Appends c.state c3.state [this.val] := by
  have hs1 : c1.state = c.state := by
    have := code_loop_acc c.state.lencode c.state.lenbits (c.have_ + 1) c
    rw [hL] at this
    exact this.2.1
  have hs2 : c2.state = c1.state := by
    have := NEEDBITS_acc this.bits c1
    rw [hN] at this
    exact this.2.1
  refine ⟨{ DROPBITS this.bits c2 with state := { (DROPBITS this.bits c2).state with
      lens := memcpy (DROPBITS this.bits c2).state.lens (DROPBITS this.bits c2).state.have_
        [this.val],
      have_ := (DROPBITS this.bits c2).state.have_ + 1 } }, ?_, ?_⟩
  · rw [codelens_loop, if_pos hlt, hL]
    simp only [hv, if_true, hN]
  · have e : (DROPBITS this.bits c2).state = c.state := by
      simp only [DROPBITS]
      rw [hs2, hs1]
    exact Appends_congr e (Appends_memcpy _ [this.val])

/-- What a repeat code leaves of the state, and the range of its count. -/
lemma codelens_repeat_rep (this : code) (c cR : Cfg) (len copy : Nat)
    (hr : codelens_repeat this c = .rep cR len copy) :
    cR.state = c.state ∧ copy ≤ 138 := by
  unfold codelens_repeat at hr
  split_ifs at hr with h16 h17
  · have hA := NEEDBITS_acc (this.bits + 2) c
    rcases hN : NEEDBITS (this.bits + 2) c with ⟨b, c1⟩
    rw [hN] at hA hr
    cases b
    · simp at hr
    · simp only [] at hr
      split_ifs at hr with h0
      simp only [Repeat.rep.injEq] at hr
      obtain ⟨r1, -, r3⟩ := hr
      have hlt := BITS_lt (DROPBITS this.bits c1) 2 (by omega)
      constructor
      · rw [← r1]
        simp only [DROPBITS]
        exact hA.2.1
      · rw [← r3, add32_of_lt (by omega)]
        omega
  · have hA := NEEDBITS_acc (this.bits + 3) c
    rcases hN : NEEDBITS (this.bits + 3) c with ⟨b, c1⟩
    rw [hN] at hA hr
    cases b
    · simp at hr
    · simp only [Repeat.rep.injEq] at hr
      obtain ⟨r1, -, r3⟩ := hr
      have hlt := BITS_lt (DROPBITS this.bits c1) 3 (by omega)
      constructor
      · rw [← r1]
        simp only [DROPBITS]
        exact hA.2.1
      · rw [← r3, add32_of_lt (by omega)]
        omega
  · have hA := NEEDBITS_acc (this.bits + 7) c
    rcases hN : NEEDBITS (this.bits + 7) c with ⟨b, c1⟩
    rw [hN] at hA hr
    cases b
    · simp at hr
    · simp only [Repeat.rep.injEq] at hr
      obtain ⟨r1, -, r3⟩ := hr
      have hlt := BITS_lt (DROPBITS this.bits c1) 7 (by omega)
      constructor
      · rw [← r1]
        simp only [DROPBITS]
        exact hA.2.1
      · rw [← r3, add32_of_lt (by omega)]
        omega

/-- One round of the loop of CODELENS on a repeat code that yields `len` and
`copy`. -/
lemma codelens_step_rep (fuel : Nat) (c c1 cR : Cfg) (this : code) (len copy : Nat)
    (hlt : c.state.have_ < add32 c.state.nlen c.state.ndist)
    (hL : code_loop c.state.lencode c.state.lenbits (c.have_ + 1) c = .got this c1)
    (hv : ¬ this.val < 16) (hr : codelens_repeat this c1 = .rep cR len copy)
    (h1 : c.state.nlen ≤ 286) (h2 : c.state.ndist ≤ 30) :
    (c.state.nlen + c.state.ndist < c.state.have_ + copy →
      ∃ c3, codelens_loop (fuel + 1) c = (true, c3) ∧ RepeatRejected c c3) ∧
    (c.state.have_ + copy ≤ c.state.nlen + c.state.ndist →
      ∃ c3, codelens_loop (fuel + 1) c = codelens_loop fuel c3 ∧
        Appends c.state c3.state (List.replicate copy (len % 65536))) := by
  have hs1 : c1.state = c.state := by
    have := code_loop_acc c.state.lencode c.state.lenbits (c.have_ + 1) c
    rw [hL] at this
    exact this.2.1
  obtain ⟨hsR, hcopy⟩ := codelens_repeat_rep this c1 cR len copy hr
  have hs : cR.state = c.state := hsR.trans hs1
  have hn : add32 c.state.nlen c.state.ndist = c.state.nlen + c.state.ndist :=
    add32_of_lt (by omega)
  rw [hn] at hlt
  have hc : add32 cR.state.have_ copy = c.state.have_ + copy := by
    rw [hs]
    exact add32_of_lt (by omega)
  have hn2 : add32 cR.state.nlen cR.state.ndist = c.state.nlen + c.state.ndist := by
    rw [hs]
    exact hn
  constructor
  · intro hgt
    refine ⟨cR.bad "invalid bit length repeat", ?_, ?_⟩
    · rw [codelens_loop, if_pos (by rw [hn]; exact hlt), hL]
      simp only [hv, if_false, hr, hc, hn2]
      rw [if_pos hgt]
    · simp [RepeatRejected, Cfg.bad, hs]
  · intro hle
    refine ⟨{ cR with state := { cR.state with
        lens := memcpy cR.state.lens cR.state.have_ (List.replicate copy (len % 65536)),
        have_ := cR.state.have_ + copy } }, ?_, ?_⟩
    · rw [codelens_loop, if_pos (by rw [hn]; exact hlt), hL]
      simp only [hv, if_false, hr, hc, hn2]
      rw [if_neg (by omega)]
    · have hA := Appends_memcpy cR.state (List.replicate copy (len % 65536))
      simp only [List.length_replicate] at hA
      exact Appends_congr hs hA

/-- The repeat code 16 with its two extra bits at hand. -/
lemma codelens_repeat_16 (this : code) (c1 c2 : Cfg) (h16 : this.val = 16)
    (hN : NEEDBITS (this.bits + 2) c1 = (true, c2)) :
    (c1.state.have_ = 0 →
      codelens_repeat this c1 = .stop ((DROPBITS this.bits c2).bad "invalid bit length repeat")) ∧
    (c1.state.have_ ≠ 0 →
      codelens_repeat this c1 = .rep (DROPBITS 2 (DROPBITS this.bits c2))
        (c1.state.lens.getD (c1.state.have_ - 1) 0) (3 + BITS (DROPBITS this.bits c2) 2)) := by
  have hs2 : c2.state = c1.state := by
    have := NEEDBITS_acc (this.bits + 2) c1
    rw [hN] at this
    exact this.2.1
  have hlt := BITS_lt (DROPBITS this.bits c2) 2 (by omega)
  have e : (DROPBITS this.bits c2).state = c1.state := by
    simp only [DROPBITS]
    exact hs2
  constructor
  · intro h0
    unfold codelens_repeat
    rw [if_pos h16, hN]
    simp only []
    rw [if_pos (by rw [e]; exact h0)]
  · intro h0
    unfold codelens_repeat
    rw [if_pos h16, hN]
    simp only []
    rw [if_neg (by rw [e]; exact h0), e, add32_of_lt (by omega)]

/-- The repeat code 17 with its three extra bits at hand. -/
lemma codelens_repeat_17 (this : code) (c1 c2 : Cfg) (h17 : this.val = 17)
    (hN : NEEDBITS (this.bits + 3) c1 = (true, c2)) :
    codelens_repeat this c1 = .rep (DROPBITS 3 (DROPBITS this.bits c2)) 0
      (3 + BITS (DROPBITS this.bits c2) 3) := by
  have hlt := BITS_lt (DROPBITS this.bits c2) 3 (by omega)
  unfold codelens_repeat
  rw [if_neg (by omega), if_pos h17, hN]
  simp only []
  rw [add32_of_lt (by omega)]

/-- The repeat code 18 with its seven extra bits at hand. -/
lemma codelens_repeat_18 (this : code) (c1 c2 : Cfg) (h18 : this.val = 18)
    (hN : NEEDBITS (this.bits + 7) c1 = (true, c2)) :
    codelens_repeat this c1 = .rep (DROPBITS 7 (DROPBITS this.bits c2)) 0
      (11 + BITS (DROPBITS this.bits c2) 7) := by
  have hlt := BITS_lt (DROPBITS this.bits c2) 7 (by omega)
  unfold codelens_repeat
  rw [if_neg (by omega), if_neg (by omega), hN]
  simp only []
  rw [add32_of_lt (by omega)]

/-- A repeat code leaves `lens`, `have` and the two counts as they are. -/
lemma codelens_repeat_frame (this : code) (c : Cfg) :
    (codelens_repeat this c).cfg.state.lens = c.state.lens ∧
    (codelens_repeat this c).cfg.state.have_ = c.state.have_ ∧
    (codelens_repeat this c).cfg.state.nlen = c.state.nlen ∧
    (codelens_repeat this c).cfg.state.ndist = c.state.ndist := by
  unfold codelens_repeat
  split
  · have hA := (NEEDBITS_acc (this.bits + 2) c).2.1
    rcases hN : NEEDBITS (this.bits + 2) c with ⟨b, c1⟩
    rw [hN] at hA
    simp only [] at hA
    cases b
    · simp only [Repeat.cfg]
      rw [hA]
      exact ⟨rfl, rfl, rfl, rfl⟩
    · simp only []
      split <;> simp [Repeat.cfg, DROPBITS, Cfg.bad, hA]
  · split
    · have hA := (NEEDBITS_acc (this.bits + 3) c).2.1
      rcases hN : NEEDBITS (this.bits + 3) c with ⟨b, c1⟩
      rw [hN] at hA
      simp only [] at hA
      cases b <;> simp [Repeat.cfg, DROPBITS, hA]
    · have hA := (NEEDBITS_acc (this.bits + 7) c).2.1
      rcases hN : NEEDBITS (this.bits + 7) c with ⟨b, c1⟩
      rw [hN] at hA
      simp only [] at hA
      cases b <;> simp [Repeat.cfg, DROPBITS, hA]

/-- The loop of CODELENS keeps `have` within `nlen + ndist` and writes no entry
of `lens` from index `nlen + ndist` on. -/
lemma codelens_loop_bound (fuel : Nat) (c : Cfg)
    (h1 : c.state.nlen ≤ 286) (h2 : c.state.ndist ≤ 30)
    (h3 : c.state.have_ ≤ c.state.nlen + c.state.ndist) :
    (codelens_loop fuel c).2.state.nlen = c.state.nlen ∧
    (codelens_loop fuel c).2.state.ndist = c.state.ndist ∧
    (codelens_loop fuel c).2.state.have_ ≤ c.state.nlen + c.state.ndist ∧
    ∀ i, c.state.nlen + c.state.ndist ≤ i →
      (codelens_loop fuel c).2.state.lens.getD i 0 = c.state.lens.getD i 0 := by
  induction fuel generalizing c with
  | zero => exact ⟨rfl, rfl, h3, fun _ _ => rfl⟩
  | succ f ih =>
    have hn : add32 c.state.nlen c.state.ndist = c.state.nlen + c.state.ndist :=
      add32_of_lt (by omega)
    have hnext : ∀ (c3 : Cfg) (L : List Nat),
        codelens_loop (f + 1) c = codelens_loop f c3 → Appends c.state c3.state L →
        c.state.have_ + L.length ≤ c.state.nlen + c.state.ndist →
        (codelens_loop (f + 1) c).2.state.nlen = c.state.nlen ∧
        (codelens_loop (f + 1) c).2.state.ndist = c.state.ndist ∧
        (codelens_loop (f + 1) c).2.state.have_ ≤ c.state.nlen + c.state.ndist ∧
        ∀ i, c.state.nlen + c.state.ndist ≤ i →
          (codelens_loop (f + 1) c).2.state.lens.getD i 0 = c.state.lens.getD i 0 := by
      intro c3 L he hA hle
      obtain ⟨a1, -, a3, a4, a5, -⟩ := hA
      obtain ⟨i1, i2, i3, i4⟩ := ih c3 (by rw [a4]; exact h1) (by rw [a5]; exact h2)
        (by rw [a1, a4, a5]; exact hle)
      rw [he]
      rw [a4, a5] at i3 i4
      refine ⟨i1.trans a4, i2.trans a5, i3, fun i hi => ?_⟩
      rw [i4 i hi]
      exact a3 i (by omega)
    have hstay : ∀ (b : Bool) (c3 : Cfg), codelens_loop (f + 1) c = (b, c3) →
        c3.state.lens = c.state.lens → c3.state.have_ = c.state.have_ →
        c3.state.nlen = c.state.nlen → c3.state.ndist = c.state.ndist →
        (codelens_loop (f + 1) c).2.state.nlen = c.state.nlen ∧
        (codelens_loop (f + 1) c).2.state.ndist = c.state.ndist ∧
        (codelens_loop (f + 1) c).2.state.have_ ≤ c.state.nlen + c.state.ndist ∧
        ∀ i, c.state.nlen + c.state.ndist ≤ i →
          (codelens_loop (f + 1) c).2.state.lens.getD i 0 = c.state.lens.getD i 0 := by
      intro b c3 he e1 e2 e3 e4
      rw [he]
      simp only []
      rw [e1, e2, e3, e4]
      exact ⟨rfl, rfl, h3, fun _ _ => rfl⟩
    by_cases hlt : c.state.have_ < add32 c.state.nlen c.state.ndist
    · have hC := (code_loop_acc c.state.lencode c.state.lenbits (c.have_ + 1) c).2.1
      rcases hL : code_loop c.state.lencode c.state.lenbits (c.have_ + 1) c with ⟨this, c1⟩ | c1
      · rw [hL] at hC
        simp only [Pulled.cfg] at hC
        by_cases hv : this.val < 16
        · have hA := (NEEDBITS_acc this.bits c1).2.1
          rcases hN : NEEDBITS this.bits c1 with ⟨b, c2⟩
          rw [hN] at hA
          simp only [] at hA
          cases b
          · refine hstay false c2 ?_ (by rw [hA, hC]) (by rw [hA, hC]) (by rw [hA, hC])
              (by rw [hA, hC])
            rw [codelens_loop, if_pos hlt, hL]
            simp only [hv, if_true, hN]
          · obtain ⟨c3, he, hAp⟩ := codelens_step_lit f c c1 c2 this hlt hL hv hN
            exact hnext c3 [this.val] he hAp (by simp only [List.length_singleton]; omega)
        · have hR := codelens_repeat_frame this c1
          rcases hr : codelens_repeat this c1 with c2 | c2 | ⟨cR, len, copy⟩
          · rw [hr] at hR
            simp only [Repeat.cfg] at hR
            refine hstay false c2 ?_ (by rw [hR.1, hC]) (by rw [hR.2.1, hC])
              (by rw [hR.2.2.1, hC]) (by rw [hR.2.2.2, hC])
            rw [codelens_loop, if_pos hlt, hL]
            simp only [hv, if_false, hr]
          · rw [hr] at hR
            simp only [Repeat.cfg] at hR
            refine hstay true c2 ?_ (by rw [hR.1, hC]) (by rw [hR.2.1, hC])
              (by rw [hR.2.2.1, hC]) (by rw [hR.2.2.2, hC])
            rw [codelens_loop, if_pos hlt, hL]
            simp only [hv, if_false, hr]
          · obtain ⟨g1, g2⟩ := codelens_step_rep f c c1 cR this len copy hlt hL hv hr h1 h2
            by_cases hle : c.state.have_ + copy ≤ c.state.nlen + c.state.ndist
            · obtain ⟨c3, he, hAp⟩ := g2 hle
              exact hnext c3 _ he hAp (by simp only [List.length_replicate]; exact hle)
            · obtain ⟨c3, he, -, -, r3, r4⟩ := g1 (by omega)
              have hs : cR.state = c.state :=
                (codelens_repeat_rep this c1 cR len copy hr).1.trans hC
              have hc3 : c3 = cR.bad "invalid bit length repeat" := by
                have e2 := he
                rw [codelens_loop, if_pos hlt, hL] at e2
                simp only [hv, if_false, hr] at e2
                have hc : add32 cR.state.have_ copy = c.state.have_ + copy := by
                  rw [hs]
                  exact add32_of_lt (by have := (codelens_repeat_rep this c1 cR len copy hr).2; omega)
                have hn2 : add32 cR.state.nlen cR.state.ndist = c.state.nlen + c.state.ndist := by
                  rw [hs]
                  exact hn
                rw [hc, hn2, if_pos (by omega)] at e2
                exact (Prod.mk.inj e2).2.symm
              refine hstay true c3 he r3 r4 ?_ ?_
              · rw [hc3]
                simp only [Cfg.bad]
                rw [hs]
              · rw [hc3]
                simp only [Cfg.bad]
                rw [hs]
      · rw [hL] at hC
        simp only [Pulled.cfg] at hC
        refine hstay false c1 ?_ (by rw [hC]) (by rw [hC]) (by rw [hC]) (by rw [hC])
        rw [codelens_loop, if_pos hlt, hL]
    · refine hstay true c ?_ rfl rfl rfl rfl
      rw [codelens_loop, if_neg hlt]

lemma lenlens_loop_counts (fuel : Nat) (c : Cfg) :
    (lenlens_loop fuel c).2.state.nlen = c.state.nlen ∧
    (lenlens_loop fuel c).2.state.ndist = c.state.ndist := by
  induction fuel generalizing c with
  | zero => exact ⟨rfl, rfl⟩
  | succ f ih =>
    unfold lenlens_loop
    split
    · have hA := (NEEDBITS_acc 3 c).2.1
      rcases hN : NEEDBITS 3 c with ⟨b, c1⟩
      rw [hN] at hA
      simp only [] at hA
      cases b
      · simp only []
        rw [hA]
        exact ⟨rfl, rfl⟩
      · simp only []
        obtain ⟨i1, i2⟩ := ih (DROPBITS 3 { c1 with state := { c1.state with
          lens := memcpy c1.state.lens (order.getD c1.state.have_ 0) [BITS c1 3 % 65536],
          have_ := c1.state.have_ + 1 } })
        rw [i1, i2]
        simp only [DROPBITS]
        rw [hA]
        exact ⟨rfl, rfl⟩
    · exact ⟨rfl, rfl⟩

lemma lenlens_fill_counts (fuel : Nat) (st : inflate_state) :
    (lenlens_fill fuel st).nlen = st.nlen ∧ (lenlens_fill fuel st).ndist = st.ndist := by
  induction fuel generalizing st with
  | zero => exact ⟨rfl, rfl⟩
  | succ f ih =>
    unfold lenlens_fill
    split
    · obtain ⟨i1, i2⟩ := ih { st with
        lens := memcpy st.lens (order.getD st.have_ 0) [0], have_ := st.have_ + 1 }
      rw [i1, i2]
      exact ⟨rfl, rfl⟩
    · exact ⟨rfl, rfl⟩

/-- TABLE with its 14 bits at hand: the two counts are stored, and rejected
when `nlen > 286` or `ndist > 30`; otherwise LENLENS is entered with them. -/
lemma case_TABLE_counts (E : Ext) (c c1 : Cfg) (hN : NEEDBITS 14 c = (true, c1)) :
    (286 < BITS c1 5 + 257 ∨ 30 < BITS (DROPBITS 5 c1) 5 + 1 →
      ∃ c2, case_TABLE E c = .cont c2 ∧ c2.state.mode = BAD ∧
        c2.strm.msg = some "too many length or distance symbols") ∧
    (¬ (286 < BITS c1 5 + 257 ∨ 30 < BITS (DROPBITS 5 c1) 5 + 1) →
      ∃ c2, case_TABLE E c = case_LENLENS E c2 ∧ c2.state.nlen = BITS c1 5 + 257 ∧
        c2.state.ndist = BITS (DROPBITS 5 c1) 5 + 1 ∧ c2.state.have_ = 0 ∧
        c2.state.nlen ≤ 286 ∧ c2.state.ndist ≤ 30) := by
  have hl1 := BITS_lt c1 5 (by omega)
  have hl2 := BITS_lt (DROPBITS 5 c1) 5 (by omega)
  have e1 : add32 (BITS c1 5) 257 = BITS c1 5 + 257 := add32_of_lt (by omega)
  have e2 : add32 (BITS (DROPBITS 5 c1) 5) 1 = BITS (DROPBITS 5 c1) 5 + 1 :=
    add32_of_lt (by omega)
  obtain ⟨c3, hc3⟩ : ∃ c3 : Cfg, c3 =
      DROPBITS 4 { DROPBITS 5 { DROPBITS 5 { c1 with state := { c1.state with
            nlen := add32 (BITS c1 5) 257 } } with
          state := { (DROPBITS 5 { c1 with state := { c1.state with
              nlen := add32 (BITS c1 5) 257 } }).state with
            ndist := add32 (BITS (DROPBITS 5 { c1 with state := { c1.state with
              nlen := add32 (BITS c1 5) 257 } }) 5) 1 } } with
        state := { (DROPBITS 5 { DROPBITS 5 { c1 with state := { c1.state with
              nlen := add32 (BITS c1 5) 257 } } with
            state := { (DROPBITS 5 { c1 with state := { c1.state with
                nlen := add32 (BITS c1 5) 257 } }).state with
              ndist := add32 (BITS (DROPBITS 5 { c1 with state := { c1.state with
                nlen := add32 (BITS c1 5) 257 } }) 5) 1 } }).state with
          ncode := add32 (BITS (DROPBITS 5 { DROPBITS 5 { c1 with state := { c1.state with
              nlen := add32 (BITS c1 5) 257 } } with
            state := { (DROPBITS 5 { c1 with state := { c1.state with
                nlen := add32 (BITS c1 5) 257 } }).state with
              ndist := add32 (BITS (DROPBITS 5 { c1 with state := { c1.state with
                nlen := add32 (BITS c1 5) 257 } }) 5) 1 } }) 4) 4 } } := ⟨_, rfl⟩
  have hT : case_TABLE E c =
      if c3.state.nlen > 286 ∨ c3.state.ndist > 30 then
        .cont (c3.bad "too many length or distance symbols")
      else case_LENLENS E { c3 with state := { c3.state with have_ := 0, mode := LENLENS } } := by
    unfold case_TABLE
    rw [hN, hc3]
  have hn1 : c3.state.nlen = BITS c1 5 + 257 := by
    rw [hc3]
    simp only [DROPBITS]
    exact e1
  have hn2 : c3.state.ndist = BITS (DROPBITS 5 c1) 5 + 1 := by
    rw [hc3]
    simp only [DROPBITS]
    simp only [BITS, DROPBITS] at e2 ⊢
    exact e2
  rw [hT, hn1, hn2]
  constructor
  · intro h
    rw [if_pos h]
    exact ⟨_, rfl, rfl, rfl⟩
  · intro h
    rw [if_neg h]
    exact ⟨_, rfl, hn1, hn2, rfl, by show c3.state.nlen ≤ 286; omega,
      by show c3.state.ndist ≤ 30; omega⟩

/-- LENLENS leaves the two counts as they are, and enters CODELENS with no
length read. -/
lemma case_LENLENS_counts (E : Ext) (c : Cfg) :
    (∃ c2, case_LENLENS E c = .leave c2 ∧ c2.state.nlen = c.state.nlen ∧
      c2.state.ndist = c.state.ndist) ∨
    (∃ c2, case_LENLENS E c = .cont c2 ∧ c2.state.mode = BAD) ∨
    (∃ c2, case_LENLENS E c = case_CODELENS E c2 ∧ c2.state.have_ = 0 ∧
      c2.state.nlen = c.state.nlen ∧ c2.state.ndist = c.state.ndist) := by
  obtain ⟨k1, k2⟩ := lenlens_loop_counts c.state.ncode c
  unfold case_LENLENS
  rcases hL : lenlens_loop c.state.ncode c with ⟨b, c1⟩
  rw [hL] at k1 k2
  simp only [] at k1 k2
  cases b
  · exact Or.inl ⟨c1, rfl, k1, k2⟩
  · simp only []
    unfold LENLENS_tail
    simp only []
    obtain ⟨f1, f2⟩ := lenlens_fill_counts 19 c1.state
    split_ifs with hr
    · exact Or.inr (Or.inl ⟨_, rfl, rfl⟩)
    · exact Or.inr (Or.inr ⟨_, rfl, rfl, f1.trans k1, f2.trans k2⟩)

/-- The copy loop of MATCH reading from the window at index `i` on. -/
lemma match_copy_window (w : List Nat) (off : Nat) (n i : Nat) (put : List Nat) :
    match_copy w off n (some i) put = put ++ (List.range n).map (fun j => w.getD (i + j) 0) := by
  induction n generalizing i put with
  | zero => simp [match_copy]
  | succ n ih =>
    rw [match_copy, ih, List.range_succ_eq_map]
    simp only [List.map_cons, List.map_map, List.append_assoc, List.singleton_append,
      Nat.add_zero]
    congr 2
    apply List.map_congr_left
    intro j _
    simp only [Function.comp]
    congr 1
    omega

lemma below_headD (l : List Nat) (k : Nat) (h2 : k ≤ l.length) :
    (below l k).headD 0 = l.getD (l.length - k) 0 := by
  unfold below
  have e : k - l.length = 0 := by omega
  rw [e]
  simp only [List.replicate_zero, List.nil_append]
  rw [List.headD_eq_head?_getD, List.head?_drop, List.getD_eq_getElem?_getD]

/-- The copy loop of MATCH reading from the output `off` bytes below the
cursor: each byte written is the one `off` places before it. -/
lemma match_copy_output (w : List Nat) (off : Nat) (n : Nat) (put : List Nat)
    (h1 : 1 ≤ off) (h2 : off ≤ put.length) :
    ∃ W : List Nat, W.length = n ∧ match_copy w off n none put = put ++ W ∧
      ∀ j, j < n → W.getD j 0 = (put ++ W).getD (put.length + j - off) 0 := by
  induction n generalizing put with
  | zero => exact ⟨[], rfl, by simp [match_copy], fun j hj => absurd hj (by omega)⟩
  | succ n ih =>
    obtain ⟨W, hW, he, hj⟩ := ih (put ++ [(below put off).headD 0])
      (by simp only [List.length_append, List.length_singleton]; omega)
    have hb := below_headD put off h2
    refine ⟨(below put off).headD 0 :: W, by simp [hW], ?_, ?_⟩
    · rw [match_copy, he]
      simp
    · intro j hjn
      cases j with
      | zero =>
        simp only [List.getD_cons_zero, Nat.add_zero]
        rw [hb, List.getD_append _ _ _ _ (by omega)]
      | succ j =>
        have := hj j (by omega)
        simp only [List.getD_cons_succ]
        rw [this]
        simp only [List.length_append, List.length_singleton, List.append_assoc,
          List.singleton_append]
        congr 1
        omega

/-- One pass through MATCH: the bytes `W` it writes and the locals it leaves.
`H` is the history the window represents, `O` the output of this call. -/
lemma case_MATCH_copy (c : Cfg) (H P0 O : List Nat)
    (hlen : 1 ≤ c.state.length) (hleft : 1 ≤ c.left)
    (hoff1 : 1 ≤ c.state.offset) (ho32 : c.out < 4294967296)
    (hput : c.put = P0 ++ O) (hO : c.left + O.length = c.out)
    (hoff2 : c.state.offset ≤ c.state.whave + O.length)
    (hR : Represents c.state H) (hws : c.state.wsize < 4294967296) :
    ∃ W : List Nat,
      case_MATCH c = .cont { c with
        left := c.left - W.length, put := c.put ++ W,
        state := { c.state with
          length := c.state.length - W.length,
          mode := if c.state.length - W.length = 0 then LEN else c.state.mode } } ∧
      1 ≤ W.length ∧ W.length ≤ min c.state.length c.left ∧
      (O.length < c.state.offset → W.length ≤ c.state.offset - O.length) ∧
      ∀ i, i < W.length →
        W.getD i 0 = (H ++ (O ++ W)).getD (H.length + O.length + i - c.state.offset) 0 := by
  obtain ⟨r1, r2, r3, r4⟩ := hR
  have hsub : sub32 c.out c.left = O.length := by
    rw [sub32_of_le (by omega) ho32]
    omega
  by_cases hw : c.state.offset > O.length
  · -- from the window
    obtain ⟨d0, hd0⟩ : ∃ d0, d0 = c.state.offset - O.length := ⟨_, rfl⟩
    have hd1 : 1 ≤ d0 := by omega
    have hd2 : d0 ≤ c.state.whave := by omega
    have hwh : c.state.whave ≤ c.state.wsize := by
      rw [r1]
      simp only [Nat.min_def]
      split_ifs <;> omega
    have hwhH : c.state.whave ≤ H.length := by
      rw [r1]
      simp only [Nat.min_def]
      split_ifs <;> omega
    -- the index `from` and the count before the caps
    obtain ⟨fi, hfi⟩ : ∃ fi, fi = if d0 > c.state.write then c.state.wsize - (d0 - c.state.write)
        else c.state.write - d0 := ⟨_, rfl⟩
    obtain ⟨cnt, hcnt⟩ : ∃ cnt, cnt = if d0 > c.state.write then d0 - c.state.write else d0 :=
      ⟨_, rfl⟩
    have hcnt1 : 1 ≤ cnt := by rw [hcnt]; split_ifs <;> omega
    have hcnt2 : cnt ≤ d0 := by rw [hcnt]; split_ifs <;> omega
    have hsrc : match_source c =
        (some fi, if cnt > c.state.length then c.state.length else cnt) := by
      unfold match_source
      simp only [hsub]
      rw [if_pos hw, ← hd0]
      by_cases hg : d0 > c.state.write
      · rw [if_pos hg]
        simp only []
        rw [sub32_of_le (by omega) hws, hfi, hcnt, if_pos hg, if_pos hg]
      · rw [if_neg hg]
        simp only []
        rw [hfi, hcnt, if_neg hg, if_neg hg]
    obtain ⟨n, hn⟩ : ∃ n, n = min (min cnt c.state.length) c.left := ⟨_, rfl⟩
    have hn1 : 1 ≤ n := by
      rw [hn]
      simp only [Nat.min_def]
      split_ifs <;> omega
    have hn2 : n ≤ cnt := by
      rw [hn]
      simp only [Nat.min_def]
      split_ifs <;> omega
    have hn3 : n ≤ min c.state.length c.left := by
      rw [hn]
      simp only [Nat.min_def]
      split_ifs <;> omega
    have hcopy : (if (match_source c).2 > c.left then c.left else (match_source c).2) = n := by
      rw [hsrc, hn]
      simp only [Nat.min_def]
      split_ifs <;> omega
    refine ⟨(List.range n).map (fun j => c.state.window.getD (fi + j) 0), ?_, ?_, ?_, ?_, ?_⟩
    · unfold case_MATCH
      rw [if_neg (by omega)]
      simp only [hcopy]
      rw [if_neg (show ¬ n = 0 by omega), hsrc]
      simp only [match_copy_window, List.length_map, List.length_range]
    · simpa using hn1
    · simpa using hn3
    · intro _
      simp only [List.length_map, List.length_range]
      omega
    · intro i hi
      simp only [List.length_map, List.length_range] at hi
      have hi2 : i < (List.range n).length := by simpa using hi
      have e1 : ((List.range n).map (fun j => c.state.window.getD (fi + j) 0)).getD i 0 =
          c.state.window.getD (fi + i) 0 := by
        rw [List.getD_eq_getElem?_getD, List.getElem?_map, List.getElem?_range hi]
        rfl
      rw [e1]
      have hidx : H.length + O.length + i - c.state.offset = H.length - (d0 - i) := by omega
      rw [hidx, List.getD_append _ _ _ _ (by omega)]
      have hring := r4 (d0 - i) (by omega) (by omega)
      rw [← hring]
      congr 1
      rw [hfi]
      by_cases hg : d0 > c.state.write
      · rw [if_pos hg]
        rw [hcnt, if_pos hg] at hn2
        have e2 : c.state.write + c.state.wsize - (d0 - i) =
            c.state.wsize - (d0 - c.state.write) + i := by omega
        rw [e2, Nat.mod_eq_of_lt (by omega)]
      · rw [if_neg hg]
        rw [hcnt, if_neg hg] at hn2
        have e2 : c.state.write + c.state.wsize - (d0 - i) =
            (c.state.write - d0 + i) + c.state.wsize := by omega
        rw [e2, Nat.add_mod_right, Nat.mod_eq_of_lt (by omega)]
  · -- from the output
    have hle : c.state.offset ≤ O.length := by omega
    have hsrc : match_source c = (none, c.state.length) := by
      unfold match_source
      simp only [hsub]
      rw [if_neg hw]
    obtain ⟨n, hn⟩ : ∃ n, n = min c.state.length c.left := ⟨_, rfl⟩
    have hn1 : 1 ≤ n := by
      rw [hn]
      simp only [Nat.min_def]
      split_ifs <;> omega
    have hcopy : (if (match_source c).2 > c.left then c.left else (match_source c).2) = n := by
      rw [hsrc, hn]
      simp only [Nat.min_def]
      split_ifs <;> omega
    obtain ⟨W, hW, he, hj⟩ := match_copy_output c.state.window c.state.offset n c.put hoff1
      (by rw [hput, List.length_append]; omega)
    refine ⟨W, ?_, by omega, by omega, fun h => absurd h hw, ?_⟩
    · unfold case_MATCH
      rw [if_neg (by omega)]
      simp only [hcopy]
      rw [if_neg (show ¬ n = 0 by omega), hsrc]
      simp only [he, hW]
    · intro i hi
      rw [hj i (by omega), hput, List.length_append, List.append_assoc]
      have e1 : P0.length + O.length + i - c.state.offset =
          P0.length + (O.length + i - c.state.offset) := by omega
      have e2 : H.length + O.length + i - c.state.offset =
          H.length + (O.length + i - c.state.offset) := by omega
      have key : ∀ (A : List Nat) (k : Nat),
          (A ++ (O ++ W)).getD (A.length + k) 0 = (O ++ W).getD k 0 := by
        intro A k
        rw [List.getD_append_right _ _ _ _ (by omega)]
        congr 1
        omega
      rw [e1, e2, key, key]

lemma le_bytes_take_succ (I : List Nat) (k : Nat) (hk : k < I.length) :
    le_bytes (I.take (k + 1)) = le_bytes (I.take k) + I.getD k 0 * 2 ^ (8 * k) := by
  have e : I.take (k + 1) = I.take k ++ [I.getD k 0] := by
    rw [List.take_succ]
    congr 1
    rw [List.getD_eq_getElem?_getD, List.getElem?_eq_getElem hk]
    rfl
  rw [e, le_bytes_append]
  have hl : (I.take k).length = k := by
    rw [List.length_take]
    omega
  simp only [le_bytes, hl]
  ring

/-- The invariant of the accumulator: with `k` bytes of `I` pulled and `t` bits
removed, `hold` is the little-endian number of the bytes pulled, shifted down by
`t`, and `bits` counts the bits pulled and not removed. -/
lemma runPrims_inv (I : List Nat) (hI : ∀ b ∈ I, b < 256) :
    ∀ (ps : List Prim) (c : Cfg) (t k : Nat),
      c.next = some (I.drop k) → c.have_ + k ≤ I.length → c.bits + t = 8 * k →
      c.hold = le_bytes (I.take k) / 2 ^ t → c.bits ≤ 32 → fits ps c = true →
      ∀ (c1 : Cfg) (t1 : Nat), runPrims ps c t = some (c1, t1) →
        ∃ k1, c1.have_ + k1 = c.have_ + k ∧ c1.bits + t1 = 8 * k1 ∧
          c1.hold = le_bytes (I.take k1) / 2 ^ t1 ∧ c1.bits ≤ 32 := by
  intro ps
  induction ps with
  | nil =>
    intro c t k _ _ hb hh h32 _ c1 t1 hr
    simp only [runPrims, Option.some.injEq, Prod.mk.injEq] at hr
    obtain ⟨rfl, rfl⟩ := hr
    exact ⟨k, rfl, hb, hh, h32⟩
  | cons p ps ih =>
    intro c t k hn hv hb hh h32 hf c1 t1 hr
    have hS : le_bytes (I.take k) < 2 ^ (8 * k) := by
      have := le_bytes_lt (I.take k) (fun b hb => hI b (List.mem_of_mem_take hb))
      have hl : (I.take k).length = k := by
        rw [List.length_take]
        omega
      rw [hl] at this
      exact this
    have hpow : 2 ^ (8 * k) = 2 ^ c.bits * 2 ^ t := by rw [← hb, Nat.pow_add]
    have hlt : c.hold < 2 ^ c.bits := by
      rw [hh]
      apply Nat.div_lt_of_lt_mul
      rw [Nat.mul_comm, ← hpow]
      exact hS
    cases p with
    | pull =>
      simp only [fits, Bool.and_eq_true, decide_eq_true_eq] at hf
      obtain ⟨h24, hf2⟩ := hf
      by_cases h0 : c.have_ = 0
      · simp [runPrims, Prim.run, PULLBYTE, h0] at hr
      · have hP := PULLBYTE_some c h0
        simp only [runPrims, Prim.run, hP, Prim.removes, Nat.add_zero] at hr
        simp only [Prim.run, hP] at hf2
        have hk : k < I.length := by omega
        have hb0 : (c.next.getD []).headD 0 = I.getD k 0 := by
          rw [hn]
          simp only [Option.getD_some]
          rw [List.headD_eq_head?_getD, List.head?_drop, List.getD_eq_getElem?_getD]
        have hbyte : I.getD k 0 < 256 := by
          rw [List.getD_eq_getElem?_getD, List.getElem?_eq_getElem hk]
          exact hI _ (List.getElem_mem _)
        have hp32 : 2 ^ (c.bits + 8) ≤ 2 ^ 32 := Nat.pow_le_pow_right (by decide) (by omega)
        have hp8 : 2 ^ (c.bits + 8) = 2 ^ c.bits * 256 := by rw [Nat.pow_add]
        have hpos : 0 < 2 ^ c.bits := Nat.two_pow_pos _
        have hmul : I.getD k 0 * 2 ^ c.bits + 2 ^ c.bits ≤ 2 ^ c.bits * 256 := by nlinarith
        have hhold : u32 (c.hold + u32 ((c.next.getD []).headD 0 <<< c.bits)) =
            c.hold + I.getD k 0 * 2 ^ c.bits := by
          have hin : u32 (I.getD k 0 * 2 ^ c.bits) = I.getD k 0 * 2 ^ c.bits :=
            u32_of_lt (by norm_num at hp32; omega)
          rw [hb0, Nat.shiftLeft_eq, hin, u32_of_lt (by norm_num at hp32; omega)]
        have hbits : add32 c.bits 8 = c.bits + 8 := add32_of_lt (by omega)
        rw [hhold, hbits] at hr hf2
        obtain ⟨k1, q1, q2, q3, q4⟩ := ih _ t (k + 1)
          (by simp only [hn, Option.map_some', List.tail_drop]) (by simp only []; omega)
          (by simp only []; omega)
          (by
            simp only []
            rw [le_bytes_take_succ I k hk, hh]
            have e : I.getD k 0 * 2 ^ (8 * k) = (I.getD k 0 * 2 ^ c.bits) * 2 ^ t := by
              rw [hpow]
              ring
            rw [e, Nat.add_mul_div_right _ _ (Nat.two_pow_pos t)])
          (by simp only []; omega) hf2 c1 t1 hr
        exact ⟨k1, by simp only [] at q1; omega, q2, q3, q4⟩
    | drop n =>
      simp only [fits, Bool.and_eq_true, decide_eq_true_eq, Prim.run] at hf
      obtain ⟨hle, hf2⟩ := hf
      simp only [runPrims, Prim.run, Prim.removes] at hr
      have hsub : sub32 c.bits n = c.bits - n := sub32_of_le hle (by omega)
      obtain ⟨k1, q1, q2, q3, q4⟩ := ih (DROPBITS n c) (t + n) k
        (by simp only [DROPBITS]; exact hn) (by simp only [DROPBITS]; exact hv)
        (by simp only [DROPBITS]; rw [hsub]; omega)
        (by
          simp only [DROPBITS]
          rw [Nat.shiftRight_eq_div_pow, hh, Nat.div_div_eq_div_mul, ← Nat.pow_add])
        (by simp only [DROPBITS]; rw [hsub]; omega) hf2 c1 t1 hr
      exact ⟨k1, by simp only [DROPBITS] at q1; exact q1, q2, q3, q4⟩
    | align =>
      simp only [fits, Bool.true_and, Prim.run] at hf
      simp only [runPrims, Prim.run, Prim.removes] at hr
      have hle : c.bits % 8 ≤ c.bits := Nat.mod_le _ _
      have hsub : sub32 c.bits (c.bits % 8) = c.bits - c.bits % 8 := sub32_of_le hle (by omega)
      rw [and_7] at hr
      obtain ⟨k1, q1, q2, q3, q4⟩ := ih (BYTEBITS c) (t + c.bits % 8) k
        (by simp only [BYTEBITS]; exact hn) (by simp only [BYTEBITS]; exact hv)
        (by simp only [BYTEBITS, and_7]; rw [hsub]; omega)
        (by
          simp only [BYTEBITS, and_7]
          rw [Nat.shiftRight_eq_div_pow, hh, Nat.div_div_eq_div_mul, ← Nat.pow_add])
        (by simp only [BYTEBITS, and_7]; rw [hsub]; omega) hf c1 t1 hr
      exact ⟨k1, by simp only [BYTEBITS] at q1; exact q1, q2, q3, q4⟩
    | init =>
      simp only [fits, Bool.true_and, Prim.run] at hf
      simp only [runPrims, Prim.run, Prim.removes] at hr
      obtain ⟨k1, q1, q2, q3, q4⟩ := ih (INITBITS c) (t + c.bits) k
        (by simp only [INITBITS]; exact hn) (by simp only [INITBITS]; exact hv)
        (by simp only [INITBITS]; omega)
        (by
          simp only [INITBITS]
          symm
          apply Nat.div_eq_of_lt
          have e : t + c.bits = 8 * k := by omega
          rw [e]
          exact hS)
        (by simp only [INITBITS]; omega) hf c1 t1 hr
      exact ⟨k1, by simp only [INITBITS] at q1; exact q1, q2, q3, q4⟩

@[simp] lemma acc_kind_HEAD : acc_kind HEAD = 0 := rfl

@[simp] lemma acc_kind_FLAGS : acc_kind FLAGS = 0 := rfl

@[simp] lemma acc_kind_TIME : acc_kind TIME = 0 := rfl

@[simp] lemma acc_kind_OS : acc_kind OS = 0 := rfl

@[simp] lemma acc_kind_EXLEN : acc_kind EXLEN = 0 := rfl

@[simp] lemma acc_kind_EXTRA : acc_kind EXTRA = 0 := rfl

@[simp] lemma acc_kind_NAME : acc_kind NAME = 0 := rfl

@[simp] lemma acc_kind_COMMENT : acc_kind COMMENT = 0 := rfl

@[simp] lemma acc_kind_HCRC : acc_kind HCRC = 0 := rfl

@[simp] lemma acc_kind_DICTID : acc_kind DICTID = 1 := rfl

@[simp] lemma acc_kind_DICT : acc_kind DICT = 0 := rfl

@[simp] lemma acc_kind_TYPE : acc_kind TYPE = 0 := rfl

@[simp] lemma acc_kind_TYPEDO : acc_kind TYPEDO = 0 := rfl

@[simp] lemma acc_kind_STORED : acc_kind STORED = 0 := rfl

@[simp] lemma acc_kind_COPY : acc_kind COPY = 0 := rfl

@[simp] lemma acc_kind_TABLE : acc_kind TABLE = 0 := rfl

@[simp] lemma acc_kind_LENLENS : acc_kind LENLENS = 0 := rfl

@[simp] lemma acc_kind_CODELENS : acc_kind CODELENS = 2 := rfl

@[simp] lemma acc_kind_LEN : acc_kind LEN = 3 := rfl

@[simp] lemma acc_kind_LENEXT : acc_kind LENEXT = 4 := rfl

@[simp] lemma acc_kind_DIST : acc_kind DIST = 3 := rfl

@[simp] lemma acc_kind_DISTEXT : acc_kind DISTEXT = 4 := rfl

@[simp] lemma acc_kind_MATCH : acc_kind MATCH = 3 := rfl

@[simp] lemma acc_kind_LIT : acc_kind LIT = 3 := rfl

@[simp] lemma acc_kind_CHECK : acc_kind CHECK = 1 := rfl

@[simp] lemma acc_kind_LENGTH : acc_kind LENGTH = 0 := rfl

@[simp] lemma acc_kind_DONE : acc_kind DONE = 0 := rfl

@[simp] lemma acc_kind_BAD : acc_kind BAD = 0 := rfl

@[simp] lemma acc_kind_MEM : acc_kind MEM = 0 := rfl

@[simp] lemma acc_kind_SYNC : acc_kind SYNC = 0 := rfl

/-- `NEEDBITS(n)` keeps the accumulator within 32 bits when `n ≤ 25`, or when
`n ≤ 32` and `bits` is a multiple of 8; it adds whole bytes, and on success
`n` bits are there. -/
lemma NEEDBITS_loop_bits (n : Nat) :
    ∀ (fuel : Nat) (c : Cfg), c.bits ≤ 32 → (n ≤ 25 ∨ (n ≤ 32 ∧ c.bits % 8 = 0)) →
      (NEEDBITS_loop fuel n c).2.bits ≤ 32 ∧
      (NEEDBITS_loop fuel n c).2.bits % 8 = c.bits % 8 ∧
      ((NEEDBITS_loop fuel n c).1 = true → n ≤ (NEEDBITS_loop fuel n c).2.bits) := by
  intro fuel
  induction fuel with
  | zero =>
    intro c h _
    exact ⟨h, rfl, fun hf => absurd hf (by simp [NEEDBITS_loop])⟩
  | succ f ih =>
    intro c h hn
    unfold NEEDBITS_loop
    by_cases hlt : c.bits < n
    · rw [if_pos hlt]
      by_cases h0 : c.have_ = 0
      · have : PULLBYTE c = none := by
          unfold PULLBYTE
          rw [if_pos h0]
        rw [this]
        exact ⟨h, rfl, fun hf => absurd hf (by simp)⟩
      · rw [PULLBYTE_some c h0]
        simp only []
        have hadd : add32 c.bits 8 = c.bits + 8 := add32_of_lt (by omega)
        obtain ⟨i1, i2, i3⟩ := ih { c with
            have_ := c.have_ - 1,
            hold := u32 (c.hold + u32 ((c.next.getD []).headD 0 <<< c.bits)),
            next := c.next.map List.tail, bits := add32 c.bits 8 }
          (by simp only []; rw [hadd]; omega)
          (by simp only []; rw [hadd]; omega)
        refine ⟨i1, ?_, i3⟩
        rw [i2]
        simp only []
        rw [hadd]
        omega
    · rw [if_neg hlt]
      exact ⟨h, rfl, fun _ => by simp only []; omega⟩

lemma NEEDBITS_bits (n : Nat) (c : Cfg) (h : c.bits ≤ 32)
    (hn : n ≤ 25 ∨ (n ≤ 32 ∧ c.bits % 8 = 0)) :
    (NEEDBITS n c).2.bits ≤ 32 ∧ (NEEDBITS n c).2.bits % 8 = c.bits % 8 ∧
    ((NEEDBITS n c).1 = true → n ≤ (NEEDBITS n c).2.bits) ∧
    (NEEDBITS n c).2.state = c.state := by
  obtain ⟨h1, h2, h3⟩ := NEEDBITS_loop_bits n (c.have_ + 1) c h hn
  exact ⟨h1, h2, h3, (NEEDBITS_acc n c).2.1⟩

/-- The lookup loop keeps the accumulator within 32 bits on a table whose codes
are at most 15 bits long, and the entry it settles on fits the bits held. -/
lemma code_loop_bits (table : List code) (n : Nat) (hT : TabBits table) :
    ∀ (fuel : Nat) (c : Cfg), c.bits ≤ 32 →
      (code_loop table n fuel c).cfg.bits ≤ 32 ∧
      ∀ this c1, code_loop table n fuel c = .got this c1 →
        this.bits ≤ c1.bits ∧ ∃ i, this = table.getD i ⟨0, 0, 0⟩ := by
  intro fuel
  induction fuel with
  | zero =>
    intro c h
    exact ⟨h, fun this c1 he => by simp [code_loop] at he⟩
  | succ f ih =>
    intro c h
    unfold code_loop
    simp only []
    by_cases hle : (table.getD (BITS c n) ⟨0, 0, 0⟩).bits ≤ c.bits
    · rw [if_pos hle]
      refine ⟨h, fun this c1 he => ?_⟩
      simp only [Pulled.got.injEq] at he
      obtain ⟨rfl, rfl⟩ := he
      exact ⟨hle, _, rfl⟩
    · rw [if_neg hle]
      by_cases h0 : c.have_ = 0
      · have : PULLBYTE c = none := by
          unfold PULLBYTE
          rw [if_pos h0]
        rw [this]
        exact ⟨h, fun this c1 he => by simp at he⟩
      · rw [PULLBYTE_some c h0]
        simp only []
        have hb := hT (BITS c n)
        have hadd : add32 c.bits 8 = c.bits + 8 := add32_of_lt (by omega)
        exact ih _ (by simp only []; rw [hadd]; omega)

lemma BITS_lt_any (c : Cfg) (m : Nat) : BITS c m < 2 ^ m := by
  by_cases hm : m ≤ 32
  · exact BITS_lt c m hm
  · have h1 : BITS c m ≤ u32 c.hold := by
      unfold BITS
      exact Nat.and_le_left
    have h2 := u32_lt c.hold
    have h3 : 2 ^ 32 ≤ 2 ^ m := Nat.pow_le_pow_right (by decide) (by omega)
    norm_num at h3
    omega

/-- The second-level lookup loop keeps the accumulator within 32 bits when the
root entry and the entries of its sub-table add up to at most 15 bits. -/
lemma code_loop2_bits (table : List code) (last : code)
    (hlink : ∀ k, k < 2 ^ last.op →
      last.bits + (table.getD (last.val + k) ⟨0, 0, 0⟩).bits ≤ 15) :
    ∀ (fuel : Nat) (c : Cfg), c.bits ≤ 32 →
      (code_loop2 table last fuel c).cfg.bits ≤ 32 ∧
      ∀ this c1, code_loop2 table last fuel c = .got this c1 →
        last.bits + this.bits ≤ c1.bits ∧ c1.bits ≤ 32 := by
  intro fuel
  induction fuel with
  | zero =>
    intro c h
    exact ⟨h, fun this c1 he => by simp [code_loop2] at he⟩
  | succ f ih =>
    intro c h
    have hk : BITS c (last.bits + last.op) >>> last.bits < 2 ^ last.op := by
      rw [Nat.shiftRight_eq_div_pow]
      apply Nat.div_lt_of_lt_mul
      rw [← Nat.pow_add]
      exact BITS_lt_any c _
    have hb := hlink _ hk
    unfold code_loop2
    simp only []
    by_cases hle : last.bits +
        (table.getD (last.val + (BITS c (last.bits + last.op) >>> last.bits)) ⟨0, 0, 0⟩).bits ≤
        c.bits
    · rw [if_pos hle]
      refine ⟨h, fun this c1 he => ?_⟩
      simp only [Pulled.got.injEq] at he
      obtain ⟨rfl, rfl⟩ := he
      exact ⟨hle, h⟩
    · rw [if_neg hle]
      by_cases h0 : c.have_ = 0
      · have : PULLBYTE c = none := by
          unfold PULLBYTE
          rw [if_pos h0]
        rw [this]
        exact ⟨h, fun this c1 he => by simp at he⟩
      · rw [PULLBYTE_some c h0]
        simp only []
        have hadd : add32 c.bits 8 = c.bits + 8 := add32_of_lt (by omega)
        exact ih _ (by simp only []; rw [hadd]; omega)

lemma DROPBITS_bits (n : Nat) (c : Cfg) (hn : n ≤ c.bits) (h : c.bits ≤ 32) :
    (DROPBITS n c).bits = c.bits - n := by
  simp only [DROPBITS]
  exact sub32_of_le hn (by omega)

/-- The second-level lookup as a whole: the entry found fits the bits left
after the root entry is dropped. -/
lemma code_second_bits (table : List code) (last : code) (c : Cfg) (h : c.bits ≤ 32)
    (hlink : ∀ k, k < 2 ^ last.op →
      last.bits + (table.getD (last.val + k) ⟨0, 0, 0⟩).bits ≤ 15) :
    (code_second table last c).cfg.bits ≤ 32 ∧
    (code_second table last c).cfg.state = c.state ∧
    ∀ this c1, code_second table last c = .got this c1 → this.bits ≤ c1.bits := by
  obtain ⟨g1, g2⟩ := code_loop2_bits table last hlink (c.have_ + 1) c h
  have hA := (code_second_acc table last c).2.1
  refine ⟨?_, hA, ?_⟩
  · unfold code_second
    rcases hL : code_loop2 table last (c.have_ + 1) c with ⟨this, c1⟩ | c1
    · obtain ⟨q1, q2⟩ := g2 this c1 hL
      simp only [Pulled.cfg]
      rw [DROPBITS_bits _ _ (by omega) q2]
      omega
    · rw [hL] at g1
      exact g1
  · intro this c2 he
    unfold code_second at he
    rcases hL : code_loop2 table last (c.have_ + 1) c with ⟨this1, c1⟩ | c1
    · rw [hL] at he
      simp only [Pulled.got.injEq] at he
      obtain ⟨rfl, rfl⟩ := he
      obtain ⟨q1, q2⟩ := g2 this1 c1 hL
      rw [DROPBITS_bits _ _ (by omega) q2]
      omega
    · rw [hL] at he
      simp at he

lemma Tabs_of_mode0 (st : inflate_state) (hm : acc_kind st.mode = 0) : Tabs st := by
  unfold Tabs
  rw [hm]
  exact ⟨fun h => absurd h (by decide), fun h => absurd h (by decide),
    fun h => absurd h (by decide)⟩

lemma BJ_mode0 (c : Cfg) (hb : c.bits ≤ 32) (hs : c.state.bits ≤ 32)
    (hm : acc_kind c.state.mode = 0) : BJ c :=
  ⟨hb, hs, fun h => absurd (hm.symm.trans h) (by decide), Tabs_of_mode0 _ hm⟩

lemma BJ_mode1 (c : Cfg) (hb : c.bits ≤ 32) (hs : c.state.bits ≤ 32)
    (hm : acc_kind c.state.mode = 1) (h8 : c.bits % 8 = 0) : BJ c := by
  refine ⟨hb, hs, fun _ => h8, ?_⟩
  unfold Tabs
  rw [hm]
  exact ⟨fun h => absurd h (by decide), fun h => absurd h (by decide),
    fun h => absurd h (by decide)⟩

lemma BJ_mode2 (c : Cfg) (hb : c.bits ≤ 32) (hs : c.state.bits ≤ 32)
    (hm : acc_kind c.state.mode = 2) (hT : TabBits c.state.lencode) : BJ c := by
  refine ⟨hb, hs, fun h => absurd (hm.symm.trans h) (by decide), ?_⟩
  unfold Tabs
  rw [hm]
  exact ⟨fun _ => hT, fun h => absurd h (by decide), fun h => absurd h (by decide)⟩

lemma BJ_mode3 (c : Cfg) (hb : c.bits ≤ 32) (hs : c.state.bits ≤ 32)
    (hm : acc_kind c.state.mode = 3) (hT : TabAll c.state) : BJ c := by
  refine ⟨hb, hs, fun h => absurd (hm.symm.trans h) (by decide), ?_⟩
  unfold Tabs
  rw [hm]
  exact ⟨fun h => absurd h (by decide), fun _ => hT, fun h => absurd h (by decide)⟩

lemma BJ_mode4 (c : Cfg) (hb : c.bits ≤ 32) (hs : c.state.bits ≤ 32)
    (hm : acc_kind c.state.mode = 4) (hT : TabAll c.state) (he : c.state.extra ≤ 15) :
    BJ c := by
  refine ⟨hb, hs, fun h => absurd (hm.symm.trans h) (by decide), ?_⟩
  unfold Tabs
  rw [hm]
  exact ⟨fun h => absurd h (by decide), fun _ => hT, fun _ => he⟩

lemma BJ_bad (c : Cfg) (msg : String) (hb : c.bits ≤ 32) (hs : c.state.bits ≤ 32) :
    BJ (c.bad msg) :=
  BJ_mode0 _ hb hs rfl

lemma mem_or_default (t : List code) (i : Nat) :
    t.getD i ⟨0, 0, 0⟩ = ⟨0, 0, 0⟩ ∨ t.getD i ⟨0, 0, 0⟩ ∈ t := by
  by_cases h : i < t.length
  · right
    rw [List.getD_eq_getElem?_getD, List.getElem?_eq_getElem h]
    exact List.getElem_mem _
  · left
    exact List.getD_eq_default _ _ (by omega)

set_option maxRecDepth 1000000 in
lemma lenfix_entries : ∀ e ∈ lenfix, e.bits ≤ 9 ∧ (e.op = 0 ∨ e.op &&& 0xf0 ≠ 0) := by
  decide!

set_option maxRecDepth 1000000 in
lemma distfix_entries : ∀ e ∈ distfix, e.bits ≤ 5 ∧ e.op &&& 0xf0 ≠ 0 := by
  decide!

lemma lenfix_ok : TabBits lenfix ∧ LinkBits true lenfix := by
  constructor
  · intro i
    rcases mem_or_default lenfix i with h | h
    · rw [h]
      decide
    · have := (lenfix_entries _ h).1
      omega
  · intro i k h1 h2 _
    rcases mem_or_default lenfix i with h | h
    · rw [h] at h1
      exact absurd rfl (h1 rfl)
    · rcases (lenfix_entries _ h).2 with g | g
      · exact absurd g (h1 rfl)
      · exact absurd h2 g

lemma distfix_ok : TabBits distfix ∧ LinkBits false distfix := by
  have hT : TabBits distfix := by
    intro i
    rcases mem_or_default distfix i with h | h
    · rw [h]
      decide
    · have := (distfix_entries _ h).1
      omega
  refine ⟨hT, ?_⟩
  intro i k _ h2 hk
  rcases mem_or_default distfix i with h | h
  · rw [h] at hk ⊢
    simp only [Nat.pow_zero, Nat.lt_one_iff] at hk
    rw [hk]
    have := hT 0
    simp only [Nat.zero_add, Nat.add_zero]
    omega
  · exact absurd h2 (distfix_entries _ h).2


lemma case_HEAD_B (c : Cfg) (h : BJ c) (hm : c.state.mode = HEAD) : BO (case_HEAD c) := by
  obtain ⟨b1, b2, -, -⟩ := h
  unfold case_HEAD
  by_cases hw : c.state.wrap = 0
  · rw [if_pos hw]
    exact BJ_mode0 _ b1 b2 rfl
  · rw [if_neg hw]
    obtain ⟨n1, -, n3, n4⟩ := NEEDBITS_bits 16 c b1 (Or.inl (by omega))
    rcases hN : NEEDBITS 16 c with ⟨b, c1⟩
    rw [hN] at n1 n3 n4
    simp only [] at n1 n3 n4
    have s1 : c1.state.bits ≤ 32 := by rw [n4]; exact b2
    cases b
    · exact BJ_mode0 c1 n1 s1 (by rw [n4, hm]; rfl)
    · have h16 := n3 rfl
      have hd : (DROPBITS 4 c1).bits ≤ 32 := by
        rw [DROPBITS_bits 4 c1 (by omega) n1]
        omega
      simp only []
      split_ifs
      · exact BJ_bad c1 _ n1 s1
      · exact BJ_bad c1 _ n1 s1
      · exact BJ_bad (DROPBITS 4 c1) _ hd s1
      · exact BJ_mode1 _ (Nat.zero_le _) s1 rfl rfl
      · exact BJ_mode0 _ (Nat.zero_le _) s1 rfl

lemma BYTEBITS_bits (c : Cfg) (h : c.bits ≤ 32) :
    (BYTEBITS c).bits ≤ 32 ∧ (BYTEBITS c).bits % 8 = 0 ∧ (BYTEBITS c).state = c.state := by
  have hle : c.bits % 8 ≤ c.bits := Nat.mod_le _ _
  have e : (BYTEBITS c).bits = c.bits - c.bits % 8 := by
    simp only [BYTEBITS, and_7]
    exact sub32_of_le hle (by omega)
  rw [e]
  exact ⟨by omega, by omega, rfl⟩

lemma TabAll_fixed (st : inflate_state) (m : inflate_mode) :
    TabAll { zlib_fixedtables st with mode := m } := by
  simp only [TabAll, zlib_fixedtables]
  exact ⟨lenfix_ok.1, lenfix_ok.2, distfix_ok.1, distfix_ok.2⟩

lemma case_TYPEDO_B (c : Cfg) (h : BJ c) (hm : acc_kind c.state.mode = 0) :
    BO (case_TYPEDO c) := by
  obtain ⟨b1, b2, -, -⟩ := h
  unfold case_TYPEDO
  by_cases hl : c.state.last ≠ 0
  · rw [if_pos hl]
    obtain ⟨y1, y2, -⟩ := BYTEBITS_bits c b1
    exact BJ_mode1 _ y1 b2 rfl y2
  · rw [if_neg hl]
    obtain ⟨n1, -, n3, n4⟩ := NEEDBITS_bits 3 c b1 (Or.inl (by omega))
    rcases hN : NEEDBITS 3 c with ⟨b, c1⟩
    rw [hN] at n1 n3 n4
    simp only [] at n1 n3 n4
    have s1 : c1.state.bits ≤ 32 := by rw [n4]; exact b2
    cases b
    · exact BJ_mode0 c1 n1 s1 (by rw [n4]; exact hm)
    · have h3 := n3 rfl
      have hb3 : sub32 (sub32 c1.bits 1) 2 ≤ 32 := by
        rw [sub32_of_le (show 1 ≤ c1.bits by omega) (by omega),
          sub32_of_le (show 2 ≤ c1.bits - 1 by omega) (by omega)]
        omega
      simp only []
      split_ifs
      · exact BJ_mode0 _ hb3 s1 rfl
      · exact BJ_mode3 _ hb3 s1 rfl (TabAll_fixed _ _)
      · exact BJ_mode0 _ hb3 s1 rfl
      · exact BJ_mode0 _ hb3 s1 rfl

lemma case_TYPE_B (flush : Int) (c : Cfg) (h : BJ c) (hm : acc_kind c.state.mode = 0) :
    BO (case_TYPE flush c) := by
  unfold case_TYPE
  split_ifs
  · exact h
  · exact case_TYPEDO_B c h hm

lemma case_DICT_B (flush : Int) (c : Cfg) (h : BJ c) (hm : c.state.mode = DICT) :
    BO (case_DICT flush c) := by
  obtain ⟨b1, b2, -, -⟩ := h
  unfold case_DICT
  split_ifs
  · exact ⟨_, rfl, b1, fun h => absurd (show acc_kind c.state.mode = 1 from h) (by rw [hm]; decide),
      Tabs_of_mode0 _ (show acc_kind c.state.mode = 0 by rw [hm]; rfl)⟩
  · exact case_TYPE_B flush _ (BJ_mode0 _ b1 b2 rfl) rfl

lemma case_DICTID_B (flush : Int) (c : Cfg) (h : BJ c) (hm : c.state.mode = DICTID) :
    BO (case_DICTID flush c) := by
  obtain ⟨b1, b2, b3, -⟩ := h
  have h8 : c.bits % 8 = 0 := b3 (by rw [hm]; rfl)
  unfold case_DICTID
  obtain ⟨n1, n2, -, n4⟩ := NEEDBITS_bits 32 c b1 (Or.inr ⟨le_refl _, h8⟩)
  rcases hN : NEEDBITS 32 c with ⟨b, c1⟩
  rw [hN] at n1 n2 n4
  simp only [] at n1 n2 n4
  have s1 : c1.state.bits ≤ 32 := by rw [n4]; exact b2
  cases b
  · exact BJ_mode1 c1 n1 s1 (by rw [n4, hm]; rfl) (by rw [n2]; exact h8)
  · exact case_DICT_B flush _ (BJ_mode0 _ (Nat.zero_le _) s1 rfl) rfl

lemma case_COPY_B (c : Cfg) (h : BJ c) (hm : acc_kind c.state.mode = 0) :
    BO (case_COPY c) := by
  obtain ⟨b1, b2, -, -⟩ := h
  unfold case_COPY
  simp only []
  split_ifs <;>
    first
    | exact BJ_mode0 c b1 b2 hm
    | exact BJ_mode0 _ b1 b2 hm
    | exact BJ_mode0 _ b1 b2 rfl

lemma case_STORED_B (c : Cfg) (h : BJ c) (hm : c.state.mode = STORED) :
    BO (case_STORED c) := by
  obtain ⟨b1, b2, -, -⟩ := h
  obtain ⟨y1, y2, y3⟩ := BYTEBITS_bits c b1
  unfold case_STORED
  obtain ⟨n1, -, -, n4⟩ := NEEDBITS_bits 32 (BYTEBITS c) y1 (Or.inr ⟨le_refl _, y2⟩)
  rcases hN : NEEDBITS 32 (BYTEBITS c) with ⟨b, c1⟩
  rw [hN] at n1 n4
  simp only [] at n1 n4
  rw [y3] at n4
  have s1 : c1.state.bits ≤ 32 := by rw [n4]; exact b2
  cases b
  · exact BJ_mode0 c1 n1 s1 (by rw [n4, hm]; rfl)
  · simp only []
    split_ifs
    · exact BJ_bad c1 _ n1 s1
    · exact case_COPY_B _ (BJ_mode0 _ (Nat.zero_le _) s1 rfl) rfl

lemma case_MATCH_B (c : Cfg) (h : BJ c) (hm : c.state.mode = MATCH) : BO (case_MATCH c) := by
  obtain ⟨b1, b2, -, -, b5, -⟩ := h
  have hT : TabAll c.state := b5 (by rw [hm]; decide)
  unfold case_MATCH
  by_cases hl : c.left = 0
  · rw [if_pos hl]
    exact BJ_mode3 c b1 b2 (by rw [hm]; rfl) hT
  · rw [if_neg hl]
    simp only []
    split_ifs <;>
      first
      | exact BJ_mode3 _ b1 b2 rfl hT
      | exact BJ_mode3 _ b1 b2 (by show acc_kind c.state.mode = 3; rw [hm]; rfl) hT

lemma DISTEXT_tail_B (c : Cfg) (hb : c.bits ≤ 32) (hs : c.state.bits ≤ 32)
    (hT : TabAll c.state) : BO (DISTEXT_tail c) := by
  unfold DISTEXT_tail
  split_ifs
  · exact BJ_bad c _ hb hs
  · exact case_MATCH_B _ (BJ_mode3 _ hb hs rfl hT) rfl

lemma case_DISTEXT_B (c : Cfg) (hb : c.bits ≤ 32) (hs : c.state.bits ≤ 32)
    (hT : TabAll c.state) (he : c.state.extra ≤ 15) (hm : c.state.mode = DISTEXT) :
    BO (case_DISTEXT c) := by
  unfold case_DISTEXT
  by_cases hx : c.state.extra ≠ 0
  · rw [if_pos hx]
    obtain ⟨n1, -, n3, n4⟩ := NEEDBITS_bits c.state.extra c hb (Or.inl (by omega))
    rcases hN : NEEDBITS c.state.extra c with ⟨b, c1⟩
    rw [hN] at n1 n3 n4
    simp only [] at n1 n3 n4
    have s1 : c1.state.bits ≤ 32 := by rw [n4]; exact hs
    cases b
    · exact BJ_mode4 c1 n1 s1 (by rw [n4, hm]; rfl) (by rw [n4]; exact hT) (by rw [n4]; exact he)
    · have hge := n3 rfl
      simp only []
      refine DISTEXT_tail_B _ ?_ s1 (by show TabAll c1.state; rw [n4]; exact hT)
      show sub32 c1.bits c1.state.extra ≤ 32
      rw [n4, sub32_of_le hge (by omega)]
      omega
  · rw [if_neg hx]
    exact DISTEXT_tail_B c hb hs hT

lemma DIST_tail_B (this : code) (c : Cfg) (hb : c.bits ≤ 32) (hs : c.state.bits ≤ 32)
    (hT : TabAll c.state) (hfit : this.bits ≤ c.bits) : BO (DIST_tail this c) := by
  have hd : (DROPBITS this.bits c).bits ≤ 32 := by
    rw [DROPBITS_bits _ _ hfit hb]
    omega
  unfold DIST_tail
  simp only []
  split_ifs
  · exact BJ_bad _ _ hd hs
  · exact case_DISTEXT_B _ hd hs hT Nat.and_le_right rfl

lemma case_DIST_B (c : Cfg) (hb : c.bits ≤ 32) (hs : c.state.bits ≤ 32)
    (hT : TabAll c.state) (hm : c.state.mode = DIST) : BO (case_DIST c) := by
  obtain ⟨g1, g2⟩ := code_loop_bits c.state.distcode c.state.distbits hT.2.2.1 (c.have_ + 1) c hb
  have hA := (code_loop_acc c.state.distcode c.state.distbits (c.have_ + 1) c).2.1
  unfold case_DIST
  rcases hL : code_loop c.state.distcode c.state.distbits (c.have_ + 1) c with ⟨this, c1⟩ | c1
  · rw [hL] at g1 hA
    simp only [Pulled.cfg] at g1 hA
    obtain ⟨q1, i, q2⟩ := g2 this c1 hL
    have s1 : c1.state.bits ≤ 32 := by rw [hA]; exact hs
    have hT1 : TabAll c1.state := by rw [hA]; exact hT
    simp only []
    split_ifs with hop
    · have hlink : ∀ k, k < 2 ^ this.op →
          this.bits + (c1.state.distcode.getD (this.val + k) ⟨0, 0, 0⟩).bits ≤ 15 := by
        intro k hk
        rw [hA, q2]
        rw [q2] at hop hk
        exact hT.2.2.2 i k (fun h => absurd h (by decide)) hop hk
      obtain ⟨e1, e2, e3⟩ := code_second_bits c1.state.distcode this c1 g1 hlink
      rcases hL2 : code_second c1.state.distcode this c1 with ⟨this2, c2⟩ | c2
      · rw [hL2] at e1 e2
        simp only [Pulled.cfg] at e1 e2
        exact DIST_tail_B this2 c2 e1 (by rw [e2]; exact s1) (by rw [e2]; exact hT1)
          (e3 this2 c2 hL2)
      · rw [hL2] at e1 e2
        simp only [Pulled.cfg] at e1 e2
        exact BJ_mode3 c2 e1 (by rw [e2]; exact s1) (by rw [e2, hA, hm]; rfl)
          (by rw [e2]; exact hT1)
    · exact DIST_tail_B this c1 g1 s1 hT1 q1
  · rw [hL] at g1 hA
    simp only [Pulled.cfg] at g1 hA
    exact BJ_mode3 c1 g1 (by rw [hA]; exact hs) (by rw [hA, hm]; rfl) (by rw [hA]; exact hT)

lemma case_LENEXT_B (c : Cfg) (hb : c.bits ≤ 32) (hs : c.state.bits ≤ 32)
    (hT : TabAll c.state) (he : c.state.extra ≤ 15) (hm : c.state.mode = LENEXT) :
    BO (case_LENEXT c) := by
  unfold case_LENEXT
  by_cases hx : c.state.extra ≠ 0
  · rw [if_pos hx]
    obtain ⟨n1, -, n3, n4⟩ := NEEDBITS_bits c.state.extra c hb (Or.inl (by omega))
    rcases hN : NEEDBITS c.state.extra c with ⟨b, c1⟩
    rw [hN] at n1 n3 n4
    simp only [] at n1 n3 n4
    have s1 : c1.state.bits ≤ 32 := by rw [n4]; exact hs
    cases b
    · exact BJ_mode4 c1 n1 s1 (by rw [n4, hm]; rfl) (by rw [n4]; exact hT) (by rw [n4]; exact he)
    · have hge := n3 rfl
      simp only []
      refine case_DIST_B _ ?_ s1 (by show TabAll c1.state; rw [n4]; exact hT) rfl
      show sub32 c1.bits c1.state.extra ≤ 32
      rw [n4, sub32_of_le hge (by omega)]
      omega
  · rw [if_neg hx]
    exact case_DIST_B _ hb hs hT rfl

lemma LEN_tail_B (this : code) (c : Cfg) (hb : c.bits ≤ 32) (hs : c.state.bits ≤ 32)
    (hT : TabAll c.state) (hfit : this.bits ≤ c.bits) : BO (LEN_tail this c) := by
  have hd : (DROPBITS this.bits c).bits ≤ 32 := by
    rw [DROPBITS_bits _ _ hfit hb]
    omega
  unfold LEN_tail
  simp only []
  split_ifs
  · exact BJ_mode3 _ hd hs rfl hT
  · exact BJ_mode0 _ hd hs rfl
  · exact BJ_bad _ _ hd hs
  · exact case_LENEXT_B _ hd hs hT Nat.and_le_right rfl

lemma case_LEN_B (E : Ext) (hF : FastBits E) (c : Cfg) (h : BJ c) (hm : c.state.mode = LEN) :
    BO (case_LEN E c) := by
  obtain ⟨hb, hs, -, -, b5, -⟩ := h
  have hT : TabAll c.state := b5 (by rw [hm]; decide)
  unfold case_LEN
  by_cases hfast : c.have_ ≥ 6 ∧ c.left ≥ 258
  · rw [if_pos hfast]
    obtain ⟨f1, f2, f3, f4⟩ := hF (RESTORE c).strm (RESTORE c).state (RESTORE c).out hm hb
    simp only []
    rcases f4 with g | g | g
    · exact BJ_mode3 _ f1 f1 (by show acc_kind (E.inflate_fast _ _ _).2.mode = 3; rw [g]; rfl)
        ⟨by show TabBits (E.inflate_fast _ _ _).2.lencode; rw [f2]; exact hT.1,
         by show LinkBits true (E.inflate_fast _ _ _).2.lencode; rw [f2]; exact hT.2.1,
         by show TabBits (E.inflate_fast _ _ _).2.distcode; rw [f3]; exact hT.2.2.1,
         by show LinkBits false (E.inflate_fast _ _ _).2.distcode; rw [f3]; exact hT.2.2.2⟩
    · exact BJ_mode0 _ f1 f1 (by show acc_kind (E.inflate_fast _ _ _).2.mode = 0; rw [g]; rfl)
    · exact BJ_mode0 _ f1 f1 (by show acc_kind (E.inflate_fast _ _ _).2.mode = 0; rw [g]; rfl)
  · rw [if_neg hfast]
    obtain ⟨g1, g2⟩ := code_loop_bits c.state.lencode c.state.lenbits hT.1 (c.have_ + 1) c hb
    have hA := (code_loop_acc c.state.lencode c.state.lenbits (c.have_ + 1) c).2.1
    rcases hL : code_loop c.state.lencode c.state.lenbits (c.have_ + 1) c with ⟨this, c1⟩ | c1
    · rw [hL] at g1 hA
      simp only [Pulled.cfg] at g1 hA
      obtain ⟨q1, i, q2⟩ := g2 this c1 hL
      have s1 : c1.state.bits ≤ 32 := by rw [hA]; exact hs
      have hT1 : TabAll c1.state := by rw [hA]; exact hT
      simp only []
      split_ifs with hop
      · have hlink : ∀ k, k < 2 ^ this.op →
            this.bits + (c1.state.lencode.getD (this.val + k) ⟨0, 0, 0⟩).bits ≤ 15 := by
          intro k hk
          rw [hA, q2]
          rw [q2] at hop hk
          exact hT.2.1 i k (fun _ => hop.1) hop.2 hk
        obtain ⟨e1, e2, e3⟩ := code_second_bits c1.state.lencode this c1 g1 hlink
        rcases hL2 : code_second c1.state.lencode this c1 with ⟨this2, c2⟩ | c2
        · rw [hL2] at e1 e2
          simp only [Pulled.cfg] at e1 e2
          exact LEN_tail_B this2 c2 e1 (by rw [e2]; exact s1) (by rw [e2]; exact hT1)
            (e3 this2 c2 hL2)
        · rw [hL2] at e1 e2
          simp only [Pulled.cfg] at e1 e2
          exact BJ_mode3 c2 e1 (by rw [e2]; exact s1) (by rw [e2, hA, hm]; rfl)
            (by rw [e2]; exact hT1)
      · exact LEN_tail_B this c1 g1 s1 hT1 q1
    · rw [hL] at g1 hA
      simp only [Pulled.cfg] at g1 hA
      exact BJ_mode3 c1 g1 (by rw [hA]; exact hs) (by rw [hA, hm]; rfl) (by rw [hA]; exact hT)

lemma case_LIT_B (c : Cfg) (h : BJ c) (hm : c.state.mode = LIT) : BO (case_LIT c) := by
  obtain ⟨b1, b2, -, -, b5, -⟩ := h
  have hT : TabAll c.state := b5 (by rw [hm]; decide)
  unfold case_LIT
  split_ifs
  · exact BJ_mode3 c b1 b2 (by rw [hm]; rfl) hT
  · exact BJ_mode3 _ b1 b2 rfl hT


lemma Kept.krefl (st : inflate_state) : Kept st st := ⟨rfl, rfl, rfl, Or.inl rfl⟩

lemma Kept.ktrans {a b c : inflate_state} (h1 : Kept a b) (h2 : Kept b c) : Kept a c := by
  refine ⟨h2.bits.trans h1.bits, h2.lencode.trans h1.lencode, h2.distcode.trans h1.distcode, ?_⟩
  rcases h2.mode with g | g
  · rcases h1.mode with g1 | g1
    · exact Or.inl (g.trans g1)
    · exact Or.inr (g.trans g1)
  · exact Or.inr g

lemma Kept_of_eq {st st1 : inflate_state} (h : st1 = st) : Kept st st1 := by
  rw [h]
  exact Kept.krefl st

lemma lenlens_loop_bits (fuel : Nat) (c : Cfg) (hb : c.bits ≤ 32) :
    (lenlens_loop fuel c).2.bits ≤ 32 ∧ Kept c.state (lenlens_loop fuel c).2.state ∧
    (lenlens_loop fuel c).2.state.mode = c.state.mode := by
  induction fuel generalizing c with
  | zero => exact ⟨hb, Kept.krefl _, rfl⟩
  | succ f ih =>
    unfold lenlens_loop
    split
    · obtain ⟨n1, -, n3, n4⟩ := NEEDBITS_bits 3 c hb (Or.inl (by omega))
      rcases hN : NEEDBITS 3 c with ⟨b, c1⟩
      rw [hN] at n1 n3 n4
      simp only [] at n1 n3 n4
      cases b
      · exact ⟨n1, Kept_of_eq n4, by rw [n4]⟩
      · have h3 := n3 rfl
        simp only []
        obtain ⟨i1, i2, i3⟩ := ih (DROPBITS 3 { c1 with state := { c1.state with
            lens := memcpy c1.state.lens (order.getD c1.state.have_ 0) [BITS c1 3 % 65536],
            have_ := c1.state.have_ + 1 } })
          (by
            show sub32 c1.bits 3 ≤ 32
            rw [sub32_of_le h3 (by omega)]
            omega)
        refine ⟨i1, Kept.ktrans ?_ i2, ?_⟩
        · simp only [DROPBITS]
          rw [← n4]
          exact ⟨rfl, rfl, rfl, Or.inl rfl⟩
        · rw [i3]
          simp only [DROPBITS]
          rw [n4]
    · exact ⟨hb, Kept.krefl _, rfl⟩

lemma lenlens_fill_bits (fuel : Nat) (st : inflate_state) :
    (lenlens_fill fuel st).bits = st.bits := by
  induction fuel generalizing st with
  | zero => rfl
  | succ f ih =>
    unfold lenlens_fill
    split
    · rw [ih]
    · rfl

/-- A repeat code keeps the accumulator within 32 bits when the code of its
symbol fits the bits held and is at most 15 bits long. -/
lemma codelens_repeat_bits (this : code) (c : Cfg) (hb : c.bits ≤ 32) (h15 : this.bits ≤ 15) :
    (codelens_repeat this c).cfg.bits ≤ 32 ∧ Kept c.state (codelens_repeat this c).cfg.state := by
  have key : ∀ n, n ≤ 7 →
      ∀ c1, NEEDBITS (this.bits + n) c = (true, c1) →
        c1.bits ≤ 32 ∧ c1.state = c.state ∧ (DROPBITS this.bits c1).bits ≤ 32 ∧
        (DROPBITS n (DROPBITS this.bits c1)).bits ≤ 32 := by
    intro n hn c1 hN
    obtain ⟨n1, -, n3, n4⟩ := NEEDBITS_bits (this.bits + n) c hb (Or.inl (by omega))
    rw [hN] at n1 n3 n4
    simp only [] at n1 n3 n4
    have hge := n3 trivial
    have e1 : (DROPBITS this.bits c1).bits = c1.bits - this.bits :=
      DROPBITS_bits _ _ (by omega) n1
    refine ⟨n1, n4, by rw [e1]; omega, ?_⟩
    rw [DROPBITS_bits _ _ (by rw [e1]; omega) (by rw [e1]; omega), e1]
    omega
  have fail : ∀ n, n ≤ 7 → ∀ c1, NEEDBITS (this.bits + n) c = (false, c1) →
      c1.bits ≤ 32 ∧ c1.state = c.state := by
    intro n hn c1 hN
    obtain ⟨n1, -, -, n4⟩ := NEEDBITS_bits (this.bits + n) c hb (Or.inl (by omega))
    rw [hN] at n1 n4
    exact ⟨n1, n4⟩
  unfold codelens_repeat
  split
  · rcases hN : NEEDBITS (this.bits + 2) c with ⟨b, c1⟩
    cases b
    · obtain ⟨f1, f2⟩ := fail 2 (by omega) c1 hN
      exact ⟨f1, Kept_of_eq f2⟩
    · obtain ⟨k1, k2, k3, k4⟩ := key 2 (by omega) c1 hN
      simp only []
      split
      · exact ⟨k3, by
          simp only [Repeat.cfg, Cfg.bad, DROPBITS]
          rw [← k2]
          exact ⟨rfl, rfl, rfl, Or.inr rfl⟩⟩
      · exact ⟨k4, by
          simp only [Repeat.cfg, DROPBITS]
          exact Kept_of_eq k2⟩
  · split
    · rcases hN : NEEDBITS (this.bits + 3) c with ⟨b, c1⟩
      cases b
      · obtain ⟨f1, f2⟩ := fail 3 (by omega) c1 hN
        exact ⟨f1, Kept_of_eq f2⟩
      · obtain ⟨k1, k2, k3, k4⟩ := key 3 (by omega) c1 hN
        exact ⟨k4, by
          simp only [Repeat.cfg, DROPBITS]
          exact Kept_of_eq k2⟩
    · rcases hN : NEEDBITS (this.bits + 7) c with ⟨b, c1⟩
      cases b
      · obtain ⟨f1, f2⟩ := fail 7 (by omega) c1 hN
        exact ⟨f1, Kept_of_eq f2⟩
      · obtain ⟨k1, k2, k3, k4⟩ := key 7 (by omega) c1 hN
        exact ⟨k4, by
          simp only [Repeat.cfg, DROPBITS]
          exact Kept_of_eq k2⟩

lemma codelens_loop_bits (fuel : Nat) (c : Cfg) (hb : c.bits ≤ 32)
    (hT : TabBits c.state.lencode) :
    (codelens_loop fuel c).2.bits ≤ 32 ∧ Kept c.state (codelens_loop fuel c).2.state := by
  induction fuel generalizing c with
  | zero => exact ⟨hb, Kept.krefl _⟩
  | succ f ih =>
    unfold codelens_loop
    split
    · obtain ⟨g1, g2⟩ := code_loop_bits c.state.lencode c.state.lenbits hT (c.have_ + 1) c hb
      have hA := (code_loop_acc c.state.lencode c.state.lenbits (c.have_ + 1) c).2.1
      rcases hL : code_loop c.state.lencode c.state.lenbits (c.have_ + 1) c with ⟨this, c1⟩ | c1
      · rw [hL] at g1 hA
        simp only [Pulled.cfg] at g1 hA
        obtain ⟨q1, i, q2⟩ := g2 this c1 hL
        have h15 : this.bits ≤ 15 := by rw [q2]; exact hT i
        simp only []
        split
        · obtain ⟨n1, -, n3, n4⟩ := NEEDBITS_bits this.bits c1 g1 (Or.inl (by omega))
          rcases hN : NEEDBITS this.bits c1 with ⟨b, c2⟩
          rw [hN] at n1 n3 n4
          simp only [] at n1 n3 n4
          cases b
          · exact ⟨n1, Kept_of_eq (n4.trans hA)⟩
          · have hge := n3 rfl
            simp only []
            obtain ⟨i1, i2⟩ := ih { DROPBITS this.bits c2 with state :=
                { (DROPBITS this.bits c2).state with
                  lens := memcpy (DROPBITS this.bits c2).state.lens
                    (DROPBITS this.bits c2).state.have_ [this.val],
                  have_ := (DROPBITS this.bits c2).state.have_ + 1 } }
              (by
                show sub32 c2.bits this.bits ≤ 32
                rw [sub32_of_le hge (by omega)]
                omega)
              (by
                show TabBits c2.state.lencode
                rw [n4, hA]
                exact hT)
            refine ⟨i1, Kept.ktrans ?_ i2⟩
            simp only [DROPBITS]
            rw [← hA, ← n4]
            exact ⟨rfl, rfl, rfl, Or.inl rfl⟩
        · obtain ⟨r1, r2⟩ := codelens_repeat_bits this c1 g1 h15
          rcases hr : codelens_repeat this c1 with c2 | c2 | ⟨cR, len, copy⟩
          · rw [hr] at r1 r2
            simp only [Repeat.cfg] at r1 r2
            exact ⟨r1, (Kept_of_eq hA).ktrans r2⟩
          · rw [hr] at r1 r2
            simp only [Repeat.cfg] at r1 r2
            exact ⟨r1, (Kept_of_eq hA).ktrans r2⟩
          · rw [hr] at r1 r2
            simp only [Repeat.cfg] at r1 r2
            have hK : Kept c.state cR.state := (Kept_of_eq hA).ktrans r2
            simp only []
            split
            · exact ⟨r1, hK.ktrans ⟨rfl, rfl, rfl, Or.inr rfl⟩⟩
            · obtain ⟨i1, i2⟩ := ih { cR with state := { cR.state with
                  lens := memcpy cR.state.lens cR.state.have_ (List.replicate copy (len % 65536)),
                  have_ := cR.state.have_ + copy } } r1
                (by
                  show TabBits cR.state.lencode
                  rw [hK.lencode]
                  exact hT)
              refine ⟨i1, Kept.ktrans (hK.ktrans ?_) i2⟩
              exact ⟨rfl, rfl, rfl, Or.inl rfl⟩
      · rw [hL] at g1 hA
        simp only [Pulled.cfg] at g1 hA
        exact ⟨g1, Kept_of_eq hA⟩
    · exact ⟨hb, Kept.krefl _⟩

lemma CODELENS_tail_B (E : Ext) (hT : TableBits E) (hF : FastBits E) (c : Cfg)
    (hb : c.bits ≤ 32) (hs : c.state.bits ≤ 32) : BO (CODELENS_tail E c) := by
  unfold CODELENS_tail
  by_cases hbad : c.state.mode = BAD
  · rw [if_pos hbad]
    exact BJ_mode0 c hb hs (by rw [hbad]; rfl)
  · rw [if_neg hbad]
    simp only []
    split_ifs
    · exact BJ_bad _ _ hb hs
    · exact BJ_bad _ _ hb hs
    · obtain ⟨t1, t2⟩ := hT codetype.LENS c.state.lens c.state.nlen 9
      obtain ⟨t3, t4⟩ := hT codetype.DISTS (c.state.lens.drop c.state.nlen) c.state.ndist 6
      refine case_LEN_B E hF _ (BJ_mode3 _ hb hs rfl ⟨t1, ?_, t3, ?_⟩) rfl
      · simpa using t2
      · simpa using t4

lemma case_CODELENS_B (E : Ext) (hT : TableBits E) (hF : FastBits E) (c : Cfg) (h : BJ c)
    (hm : c.state.mode = CODELENS) : BO (case_CODELENS E c) := by
  obtain ⟨hb, hs, -, b4, -, -⟩ := h
  have hTab : TabBits c.state.lencode := b4 (by rw [hm]; rfl)
  obtain ⟨l1, l2⟩ := codelens_loop_bits (add32 c.state.nlen c.state.ndist) c hb hTab
  unfold case_CODELENS
  rcases hL : codelens_loop (add32 c.state.nlen c.state.ndist) c with ⟨b, c1⟩
  rw [hL] at l1 l2
  simp only [] at l1 l2
  have s1 : c1.state.bits ≤ 32 := by rw [l2.bits]; exact hs
  have hm1 : c1.state.mode = CODELENS ∨ c1.state.mode = BAD := by
    rcases l2.mode with g | g
    · exact Or.inl (g.trans hm)
    · exact Or.inr g
  cases b
  · rcases hm1 with g | g
    · exact BJ_mode2 c1 l1 s1 (by rw [g]; rfl) (by rw [l2.lencode]; exact hTab)
    · exact BJ_mode0 c1 l1 s1 (by rw [g]; rfl)
  · exact CODELENS_tail_B E hT hF c1 l1 s1

lemma LENLENS_tail_B (E : Ext) (hT : TableBits E) (hF : FastBits E) (c : Cfg)
    (hb : c.bits ≤ 32) (hs : c.state.bits ≤ 32) : BO (LENLENS_tail E c) := by
  have hf := lenlens_fill_bits 19 c.state
  unfold LENLENS_tail
  simp only []
  split_ifs
  · exact BJ_bad _ _ hb (by show (lenlens_fill 19 c.state).bits ≤ 32; rw [hf]; exact hs)
  · obtain ⟨t1, -⟩ := hT codetype.CODES (lenlens_fill 19 c.state).lens 19 7
    exact case_CODELENS_B E hT hF _
      (BJ_mode2 _ hb (by show (lenlens_fill 19 c.state).bits ≤ 32; rw [hf]; exact hs) rfl t1) rfl

lemma case_LENLENS_B (E : Ext) (hT : TableBits E) (hF : FastBits E) (c : Cfg) (h : BJ c)
    (hm : c.state.mode = LENLENS) : BO (case_LENLENS E c) := by
  obtain ⟨hb, hs, -, -⟩ := h
  obtain ⟨l1, l2, l3⟩ := lenlens_loop_bits c.state.ncode c hb
  unfold case_LENLENS
  rcases hL : lenlens_loop c.state.ncode c with ⟨b, c1⟩
  rw [hL] at l1 l2 l3
  simp only [] at l1 l2 l3
  have s1 : c1.state.bits ≤ 32 := by rw [l2.bits]; exact hs
  cases b
  · exact BJ_mode0 c1 l1 s1 (by rw [l3, hm]; rfl)
  · exact LENLENS_tail_B E hT hF c1 l1 s1

lemma case_TABLE_B (E : Ext) (hT : TableBits E) (hF : FastBits E) (c : Cfg) (h : BJ c)
    (hm : c.state.mode = TABLE) : BO (case_TABLE E c) := by
  obtain ⟨hb, hs, -, -⟩ := h
  unfold case_TABLE
  obtain ⟨n1, -, n3, n4⟩ := NEEDBITS_bits 14 c hb (Or.inl (by omega))
  rcases hN : NEEDBITS 14 c with ⟨b, c1⟩
  rw [hN] at n1 n3 n4
  simp only [] at n1 n3 n4
  have s1 : c1.state.bits ≤ 32 := by rw [n4]; exact hs
  cases b
  · exact BJ_mode0 c1 n1 s1 (by rw [n4, hm]; rfl)
  · have h14 := n3 rfl
    have hb3 : sub32 (sub32 (sub32 c1.bits 5) 5) 4 ≤ 32 := by
      rw [sub32_of_le (show 5 ≤ c1.bits by omega) (by omega),
        sub32_of_le (show 5 ≤ c1.bits - 5 by omega) (by omega),
        sub32_of_le (show 4 ≤ c1.bits - 5 - 5 by omega) (by omega)]
      omega
    simp only []
    split_ifs
    · exact BJ_bad _ _ hb3 s1
    · exact case_LENLENS_B E hT hF _ (BJ_mode0 _ hb3 s1 rfl) rfl

lemma case_DONE_B (c : Cfg) (h : BJ c) (hm : acc_kind c.state.mode = 0) : BO (case_DONE c) :=
  BJ_mode0 _ h.1 h.2.1 hm

lemma CHECK_tail_B (c : Cfg) (hb : c.bits ≤ 32) (hs : c.state.bits ≤ 32) :
    BO (CHECK_tail c) := by
  unfold CHECK_tail
  split_ifs
  · exact BJ_bad _ _ hb hs
  · exact case_DONE_B _ (BJ_mode0 _ (Nat.zero_le _) hs rfl) rfl

lemma case_CHECK_B (c : Cfg) (h : BJ c) (hm : c.state.mode = CHECK) : BO (case_CHECK c) := by
  obtain ⟨hb, hs, b3, -⟩ := h
  have h8 : c.bits % 8 = 0 := b3 (by rw [hm]; rfl)
  unfold case_CHECK
  by_cases hw : c.state.wrap ≠ 0
  · rw [if_pos hw]
    obtain ⟨n1, n2, -, n4⟩ := NEEDBITS_bits 32 c hb (Or.inr ⟨le_refl _, h8⟩)
    rcases hN : NEEDBITS 32 c with ⟨b, c1⟩
    rw [hN] at n1 n2 n4
    simp only [] at n1 n2 n4
    have s1 : c1.state.bits ≤ 32 := by rw [n4]; exact hs
    cases b
    · exact BJ_mode1 c1 n1 s1 (by rw [n4, hm]; rfl) (by rw [n2]; exact h8)
    · exact CHECK_tail_B c1 n1 s1
  · rw [if_neg hw]
    exact case_DONE_B _ (BJ_mode0 _ hb hs rfl) rfl

lemma step_B (E : Ext) (hT : TableBits E) (hF : FastBits E) (flush : Int) (c : Cfg)
    (h : BJ c) : BO (step E flush c) := by
  have hdone : ∀ r, acc_kind c.state.mode = 0 → BO (.done r c.result) := by
    intro r hm
    exact ⟨c.state, rfl, h.2.1, fun g => absurd (hm.symm.trans g) (by decide),
      Tabs_of_mode0 _ hm⟩
  unfold step
  rcases hm : c.state.mode
  all_goals simp only []
  · exact case_HEAD_B c h hm
  · exact hdone _ (by rw [hm]; rfl)
  · exact hdone _ (by rw [hm]; rfl)
  · exact hdone _ (by rw [hm]; rfl)
  · exact hdone _ (by rw [hm]; rfl)
  · exact hdone _ (by rw [hm]; rfl)
  · exact hdone _ (by rw [hm]; rfl)
  · exact hdone _ (by rw [hm]; rfl)
  · exact hdone _ (by rw [hm]; rfl)
  · exact case_DICTID_B flush c h hm
  · exact case_DICT_B flush c h hm
  · exact case_TYPE_B flush c h (by rw [hm]; rfl)
  · exact case_TYPEDO_B c h (by rw [hm]; rfl)
  · exact case_STORED_B c h hm
  · exact case_COPY_B c h (by rw [hm]; rfl)
  · exact case_TABLE_B E hT hF c h hm
  · exact case_LENLENS_B E hT hF c h hm
  · exact case_CODELENS_B E hT hF c h hm
  · exact case_LEN_B E hF c h hm
  · exact case_LENEXT_B c h.1 h.2.1 (h.2.2.2.2.1 (by rw [hm]; decide))
      (h.2.2.2.2.2 (by rw [hm]; rfl)) hm
  · exact case_DIST_B c h.1 h.2.1 (h.2.2.2.2.1 (by rw [hm]; decide)) hm
  · exact case_DISTEXT_B c h.1 h.2.1 (h.2.2.2.2.1 (by rw [hm]; decide))
      (h.2.2.2.2.2 (by rw [hm]; rfl)) hm
  · exact case_MATCH_B c h hm
  · exact case_LIT_B c h hm
  · exact case_CHECK_B c h hm
  · exact hdone _ (by rw [hm]; rfl)
  · exact case_DONE_B c h (by rw [hm]; rfl)
  · exact BJ_mode0 _ h.1 h.2.1 (by show acc_kind c.state.mode = 0; rw [hm]; rfl)
  · exact hdone _ (by rw [hm]; rfl)
  · exact hdone _ (by rw [hm]; rfl)

lemma inflate_loop_B (E : Ext) (hT : TableBits E) (hF : FastBits E) (flush : Int)
    (fuel : Nat) (c : Cfg) (h : BJ c) (o : Outcome)
    (ho : inflate_loop E flush fuel c = some o) : BO o := by
  induction fuel generalizing c with
  | zero => simp [inflate_loop] at ho
  | succ f ih =>
    unfold inflate_loop at ho
    have hs := step_B E hT hF flush c h
    rcases hst : step E flush c with c1 | c1 | ⟨r, s⟩
    · rw [hst] at ho hs
      exact ih c1 hs ho
    · rw [hst] at ho hs
      simp only [Option.some.injEq] at ho
      subst ho
      exact hs
    · rw [hst] at ho hs
      simp only [Option.some.injEq] at ho
      subst ho
      exact hs

lemma zlib_updatewindow_tables (strm : z_stream) (state : inflate_state) (out : Nat) :
    (zlib_updatewindow strm state out).lencode = state.lencode ∧
    (zlib_updatewindow strm state out).distcode = state.distcode ∧
    (zlib_updatewindow strm state out).extra = state.extra := by
  unfold zlib_updatewindow
  simp only []
  split_ifs <;> exact ⟨rfl, rfl, rfl⟩

lemma BS_congr {st st1 : inflate_state} (h1 : st1.bits = st.bits) (h2 : st1.mode = st.mode)
    (h3 : st1.lencode = st.lencode) (h4 : st1.distcode = st.distcode)
    (h5 : st1.extra = st.extra) (h : BS st) : BS st1 := by
  unfold BS Tabs TabAll at *
  rw [h1, h2, h3, h4, h5]
  exact h

lemma leave_stream_fields (c : Cfg) :
    ∃ st, (leave_stream c).state = some st ∧ st.bits = c.bits ∧ st.mode = c.state.mode ∧
      st.lencode = c.state.lencode ∧ st.distcode = c.state.distcode ∧
      st.extra = c.state.extra := by
  obtain ⟨u1, u2, u3⟩ := zlib_updatewindow_tables (RESTORE c).strm (RESTORE c).state c.out
  have u4 := zlib_updatewindow_mode (RESTORE c).strm (RESTORE c).state c.out
  have u5 := (zlib_updatewindow_rest (RESTORE c).strm (RESTORE c).state c.out).1
  unfold leave_stream
  simp only [RESTORE] at u1 u2 u3 u4 u5 ⊢
  split_ifs <;> simp [u1, u2, u3, u4, u5]

lemma BS_of_BJ (c : Cfg) (h : BJ c) (st : inflate_state) (h1 : st.bits = c.bits)
    (h2 : st.mode = c.state.mode) (h3 : st.lencode = c.state.lencode)
    (h4 : st.distcode = c.state.distcode) (h5 : st.extra = c.state.extra) : BS st := by
  obtain ⟨b1, -, b3, b4⟩ := h
  unfold BS Tabs TabAll at *
  rw [h1, h2, h3, h4, h5]
  exact ⟨b1, b3, b4⟩

lemma enter_B (strm : z_stream) (st : inflate_state) (h : BS st) : BJ (enter strm st) := by
  obtain ⟨b1, b2, b3⟩ := h
  unfold enter LOAD
  simp only []
  split_ifs with hm
  · exact BJ_mode0 _ b1 b1 rfl
  · exact ⟨b1, b1, b2, b3⟩

/-- A call of `zlib_inflate` keeps the invariant of the accumulator. -/
lemma call_B (E : Ext) (hT : TableBits E) (hF : FastBits E) (fuel : Nat) (strm s1 : z_stream)
    (st : inflate_state) (flush r : Int) (hs : strm.state = some st) (hB : BS st)
    (hcall : zlib_inflate E fuel strm flush = some (r, s1)) :
    ∃ st1, s1.state = some st1 ∧ BS st1 := by
  unfold zlib_inflate at hcall
  rw [hs] at hcall
  simp only [] at hcall
  split_ifs at hcall with hu
  · simp only [Option.some.injEq, Prod.mk.injEq] at hcall
    rw [← hcall.2]
    exact ⟨st, hs, hB⟩
  · cases hl : inflate_loop E flush fuel (enter strm st) with
    | none => simp [hl] at hcall
    | some o =>
      have hO := inflate_loop_B E hT hF flush fuel _ (enter_B strm st hB) o hl
      rw [hl] at hcall
      cases o with
      | cont c => simp at hcall
      | done r0 s =>
        simp only [Option.some.injEq, Prod.mk.injEq] at hcall
        rw [← hcall.2]
        exact hO
      | leave c =>
        simp only [Option.some.injEq] at hcall
        obtain ⟨stl, e0, e1, e2, e3, e4, e5⟩ := leave_stream_fields c
        have hBl : BS stl := BS_of_BJ c hO stl e1 e2 e3 e4 e5
        have h2 : s1 = (inf_leave flush c).2 := by rw [hcall]
        rcases (inf_leave_shape flush c).2 with g | ⟨stl2, g1, -, g2⟩
        · rw [h2, g]
          exact ⟨stl, e0, hBl⟩
        · rw [e0] at g1
          cases g1
          rw [h2, g2]
          exact ⟨_, rfl, hBl.1, fun h => absurd (show acc_kind TYPE = 1 from h) (by decide),
            Tabs_of_mode0 _ rfl⟩

lemma incomp_B (z : z_stream) (st : inflate_state) (hs : z.state = some st) (hB : BS st) :
    ∃ st1, (zlib_inflateIncomp z).2.state = some st1 ∧ BS st1 := by
  unfold zlib_inflateIncomp
  rw [hs]
  simp only []
  split_ifs with hm
  · exact ⟨st, hs, hB⟩
  · obtain ⟨u1, u2, u3⟩ := zlib_updatewindow_tables
      { z with avail_out := 0, next_out := readFwd (z.next_in.getD []) z.avail_in } st z.avail_in
    have u4 := zlib_updatewindow_mode
      { z with avail_out := 0, next_out := readFwd (z.next_in.getD []) z.avail_in } st z.avail_in
    have u5 := (zlib_updatewindow_rest
      { z with avail_out := 0, next_out := readFwd (z.next_in.getD []) z.avail_in } st
      z.avail_in).1
    exact ⟨_, rfl, BS_congr u5 u4 u1 u2 u3 hB⟩

lemma init_B (strm : z_stream) (ws : inflate_state) (w : Int)
    (hw : (8 ≤ w ∧ w ≤ 15) ∨ (-15 ≤ w ∧ w ≤ -8)) :
    ∃ st, (zlib_inflateInit2 strm ws w).2.state = some st ∧ BS st := by
  have hC : ∀ (st : inflate_state), st.bits = 0 → st.mode = HEAD → BS st := by
    intro st h1 h2
    refine ⟨by omega, fun h => absurd h (by rw [h2]; decide), Tabs_of_mode0 _ (by rw [h2]; rfl)⟩
  by_cases hp : w < 0
  · have hr : ¬ (-w < 8 ∨ -w > 15) := by omega
    simp only [zlib_inflateInit2, zlib_inflateReset, hp, hr, if_true, if_false]
    exact ⟨_, rfl, hC _ rfl rfl⟩
  · have hr : ¬ (w < 8 ∨ w > 15) := by omega
    simp only [zlib_inflateInit2, zlib_inflateReset, hp, hr, if_true, if_false]
    exact ⟨_, rfl, hC _ rfl rfl⟩

/-- Every stream a caller gets to holds at most 32 bits in its accumulator. -/
lemma reachable_B (E : Ext) (hT : TableBits E) (hF : FastBits E) (s : z_stream)
    (h : Reachable E s) : ∃ st, s.state = some st ∧ BS st := by
  induction h with
  | init strm ws w hw => exact init_B strm ws w hw
  | call s s1 k fuel r _ hcall ih =>
    obtain ⟨st, hs, hB⟩ := ih
    exact call_B E hT hF fuel (supply s k) s1 st k.flush r (by simp [supply, hs]) hB hcall
  | incomp s ni ai _ ih =>
    obtain ⟨st, hs, hB⟩ := ih
    exact incomp_B { s with next_in := ni, avail_in := ai } st hs hB

lemma noExt_TableBits : TableBits noExt := by
  intro ty lens codes bits
  constructor
  · intro i
    show ((([] : List code).getD i ⟨0, 0, 0⟩)).bits ≤ 15
    simp
  · intro i k _ _ _
    show ((([] : List code).getD i ⟨0, 0, 0⟩)).bits +
      ((([] : List code).getD (((([] : List code).getD i ⟨0, 0, 0⟩)).val + k) ⟨0, 0, 0⟩)).bits ≤ 15
    simp

lemma noExt_FastBits : FastBits noExt :=
  fun _ _ _ hm hb => ⟨hb, rfl, rfl, Or.inl hm⟩

/-- COPY with a block that is not done: the number of bytes copied is the
least of the block length, the input at hand and the output space. -/
lemma case_COPY_min (c : Cfg) (hlen : c.state.length ≠ 0) :
    case_COPY c =
      if min (min c.state.length c.have_) c.left = 0 then .leave c
      else .cont { c with
        put := c.put ++ readFwd (c.next.getD []) (min (min c.state.length c.have_) c.left),
        have_ := c.have_ - min (min c.state.length c.have_) c.left,
        next := c.next.map (List.drop (min (min c.state.length c.have_) c.left)),
        left := c.left - min (min c.state.length c.have_) c.left,
        state := { c.state with
          length := c.state.length - min (min c.state.length c.have_) c.left } } := by
  have e : (if (if c.state.length > c.have_ then c.have_ else c.state.length) > c.left
      then c.left else (if c.state.length > c.have_ then c.have_ else c.state.length)) =
      min (min c.state.length c.have_) c.left := by
    simp only [Nat.min_def]
    split_ifs <;> omega
  unfold case_COPY
  simp only [hlen, ne_eq, not_false_eq_true, if_true, e]

lemma enter_fields (strm : z_stream) (st : inflate_state) :
    (enter strm st).next = strm.next_in ∧ (enter strm st).have_ = strm.avail_in ∧
    (enter strm st).put = strm.next_out ∧ (enter strm st).left = strm.avail_out ∧
    (enter strm st).out = strm.avail_out ∧ (enter strm st).ret = Z_OK ∧
    (enter strm st).hold = st.hold ∧ (enter strm st).bits = st.bits ∧
    (enter strm st).state.last = st.last ∧ (enter strm st).state.length = st.length ∧
    (enter strm st).state.wrap = st.wrap ∧ (enter strm st).state.wbits = st.wbits ∧
    (enter strm st).state.check = st.check ∧
    (st.mode ≠ TYPE → (enter strm st).state.mode = st.mode) ∧
    (st.mode = TYPE → (enter strm st).state.mode = TYPEDO) := by
  unfold enter LOAD
  simp only []
  split_ifs with hm <;> simp [hm]

lemma pieces_snoc (E : Ext) (fuel : Nat) (k : Piece) :
    ∀ (ks : List Piece) (r : Int) (s : z_stream) (R : List Nat),
      pieces E fuel r s R (ks ++ [k]) =
        (pieces E fuel r s R ks).bind (fun t => pieces E fuel t.1 t.2.1 t.2.2 [k]) := by
  intro ks
  induction ks with
  | nil =>
    intro r s R
    rfl
  | cons q ks ih =>
    intro r s R
    rw [List.cons_append, pieces, pieces]
    cases zlib_inflate E fuel (offer s R q) q.flush with
    | none => rfl
    | some t => exact ih _ _ _

lemma codelens_repeat_pos (this : code) (c cR : Cfg) (len copy : Nat)
    (hr : codelens_repeat this c = .rep cR len copy) : 3 ≤ copy := by
  unfold codelens_repeat at hr
  split_ifs at hr with h16 h17
  · rcases hN : NEEDBITS (this.bits + 2) c with ⟨b, c1⟩
    rw [hN] at hr
    cases b
    · simp at hr
    · simp only [] at hr
      split_ifs at hr with h0
      simp only [Repeat.rep.injEq] at hr
      obtain ⟨-, -, r3⟩ := hr
      have hlt := BITS_lt (DROPBITS this.bits c1) 2 (by omega)
      rw [← r3, add32_of_lt (by omega)]
      omega
  · rcases hN : NEEDBITS (this.bits + 3) c with ⟨b, c1⟩
    rw [hN] at hr
    cases b
    · simp at hr
    · simp only [Repeat.rep.injEq] at hr
      obtain ⟨-, -, r3⟩ := hr
      have hlt := BITS_lt (DROPBITS this.bits c1) 3 (by omega)
      rw [← r3, add32_of_lt (by omega)]
      omega
  · rcases hN : NEEDBITS (this.bits + 7) c with ⟨b, c1⟩
    rw [hN] at hr
    cases b
    · simp at hr
    · simp only [Repeat.rep.injEq] at hr
      obtain ⟨-, -, r3⟩ := hr
      have hlt := BITS_lt (DROPBITS this.bits c1) 7 (by omega)
      rw [← r3, add32_of_lt (by omega)]
      omega

/-- The loop of CODELENS ends within as many rounds as lengths are still to be
read: every round that goes on reads at least one. -/
lemma codelens_loop_fuel (f : Nat) :
    ∀ c : Cfg, c.state.nlen ≤ 286 → c.state.ndist ≤ 30 →
      c.state.nlen + c.state.ndist - c.state.have_ ≤ f →
      codelens_loop (f + 1) c = codelens_loop f c := by
  induction f with
  | zero =>
    intro c h1 h2 h
    have hn : add32 c.state.nlen c.state.ndist = c.state.nlen + c.state.ndist :=
      add32_of_lt (by omega)
    conv_lhs => rw [codelens_loop]
    rw [if_neg (by rw [hn]; omega)]
    rfl
  | succ f ih =>
    intro c h1 h2 h
    have hn : add32 c.state.nlen c.state.ndist = c.state.nlen + c.state.ndist :=
      add32_of_lt (by omega)
    conv_lhs => rw [codelens_loop]
    conv_rhs => rw [codelens_loop]
    by_cases hlt : c.state.have_ < add32 c.state.nlen c.state.ndist
    · rw [if_pos hlt, if_pos hlt]
      have hA := code_loop_acc c.state.lencode c.state.lenbits (c.have_ + 1) c
      cases hL : code_loop c.state.lencode c.state.lenbits (c.have_ + 1) c with
      | short c1 => rfl
      | got this c1 =>
        rw [hL] at hA
        have hs1 : c1.state = c.state := hA.2.1
        simp only []
        by_cases hv : this.val < 16
        · simp only [hv, if_true]
          have hB := NEEDBITS_acc this.bits c1
          rcases hN : NEEDBITS this.bits c1 with ⟨b, c2⟩
          rw [hN] at hB
          have hs2 : c2.state = c1.state := hB.2.1
          cases b
          · rfl
          · simp only []
            apply ih
            · simp only [DROPBITS]; rw [hs2, hs1]; exact h1
            · simp only [DROPBITS]; rw [hs2, hs1]; exact h2
            · simp only [DROPBITS]; rw [hs2, hs1]
              rw [hn] at hlt
              omega
        · simp only [hv, if_false]
          cases hr : codelens_repeat this c1 with
          | leave c2 => rfl
          | stop c2 => rfl
          | rep c2 len copy =>
            obtain ⟨hs2, -⟩ := codelens_repeat_rep this c1 c2 len copy hr
            have hpos := codelens_repeat_pos this c1 c2 len copy hr
            simp only []
            by_cases hov : add32 c2.state.have_ copy > add32 c2.state.nlen c2.state.ndist
            · rw [if_pos hov, if_pos hov]
            · rw [if_neg hov, if_neg hov]
              apply ih
              · simp only []; rw [hs2, hs1]; exact h1
              · simp only []; rw [hs2, hs1]; exact h2
              · simp only []; rw [hs2, hs1]
                rw [hn] at hlt
                omega
    · rw [if_neg hlt, if_neg hlt]

lemma step_of_CODELENS (E : Ext) (flush : Int) (c : Cfg) (h : c.state.mode = CODELENS) :
    step E flush c = case_CODELENS E c := by
  unfold step; rw [h]

/-- A round of the loop of CODELENS that goes on, read on a pass: the pass from
`c` is the pass from the locals `c3` the round ends with. -/
lemma codelens_pass_of_round (E : Ext) (c c3 : Cfg) (L : List Nat)
    (h1 : c.state.nlen ≤ 286) (h2 : c.state.ndist ≤ 30)
    (hlt : c.state.have_ < c.state.nlen + c.state.ndist) (hL : L ≠ [])
    (hA : Appends c.state c3.state L)
    (hround : codelens_loop (c.state.nlen + c.state.ndist - 1 + 1) c =
      codelens_loop (c.state.nlen + c.state.ndist - 1) c3) :
    case_CODELENS E c = case_CODELENS E c3 := by
  obtain ⟨a1, -, -, a4, a5, -⟩ := hA
  have hn : add32 c.state.nlen c.state.ndist = c.state.nlen + c.state.ndist :=
    add32_of_lt (by omega)
  have hpos : 0 < L.length := List.length_pos.mpr hL
  have e : c.state.nlen + c.state.ndist - 1 + 1 = c.state.nlen + c.state.ndist := by omega
  have hst := codelens_loop_fuel (c.state.nlen + c.state.ndist - 1) c3 (by rw [a4]; exact h1)
    (by rw [a5]; exact h2) (by rw [a4, a5, a1]; omega)
  unfold case_CODELENS
  rw [a4, a5, hn, ← e, hround, ← hst]

lemma pass_of_append (E : Ext) (flush : Int) (c : Cfg) (L : List Nat)
    (hm : c.state.mode = CODELENS) (h1 : c.state.nlen ≤ 286) (h2 : c.state.ndist ≤ 30)
    (hlt : c.state.have_ < c.state.nlen + c.state.ndist) (hL : L ≠ [])
    (h : ∃ c3, codelens_loop (c.state.nlen + c.state.ndist - 1 + 1) c =
        codelens_loop (c.state.nlen + c.state.ndist - 1) c3 ∧ Appends c.state c3.state L) :
    ∃ c3, step E flush c = step E flush c3 ∧ Appends c.state c3.state L := by
  obtain ⟨c3, hr, hA⟩ := h
  refine ⟨c3, ?_, hA⟩
  rw [step_of_CODELENS E flush c hm,
    step_of_CODELENS E flush c3 (hA.2.2.2.2.2.trans hm)]
  exact codelens_pass_of_round E c c3 L h1 h2 hlt hL hA hr

lemma pass_of_reject (E : Ext) (flush : Int) (c : Cfg)
    (hm : c.state.mode = CODELENS) (h1 : c.state.nlen ≤ 286) (h2 : c.state.ndist ≤ 30)
    (hlt : c.state.have_ < c.state.nlen + c.state.ndist)
    (h : ∃ c3, codelens_loop (c.state.nlen + c.state.ndist - 1 + 1) c = (true, c3) ∧
        RepeatRejected c c3) :
    ∃ c3, step E flush c = .cont c3 ∧ RepeatRejected c c3 := by
  obtain ⟨c3, hr, hR⟩ := h
  refine ⟨c3, ?_, hR⟩
  have hn : add32 c.state.nlen c.state.ndist = c.state.nlen + c.state.ndist :=
    add32_of_lt (by omega)
  have e : c.state.nlen + c.state.ndist - 1 + 1 = c.state.nlen + c.state.ndist := by omega
  rw [step_of_CODELENS E flush c hm]
  unfold case_CODELENS
  rw [hn, ← e, hr]
  simp only []
  unfold CODELENS_tail
  rw [if_pos hR.1]

lemma pass_of_repeat (E : Ext) (flush : Int) (c : Cfg) (copy len : Nat)
    (hm : c.state.mode = CODELENS) (h1 : c.state.nlen ≤ 286) (h2 : c.state.ndist ≤ 30)
    (hlt : c.state.have_ < c.state.nlen + c.state.ndist) (hc : 1 ≤ copy)
    (h : RepeatOutcome (c.state.nlen + c.state.ndist - 1) c copy len) :
    RepeatPass E flush c copy len := by
  obtain ⟨r1, r2⟩ := h
  constructor
  · intro hov
    exact pass_of_reject E flush c hm h1 h2 hlt (r1 hov)
  · intro hfit
    refine pass_of_append E flush c _ hm h1 h2 hlt ?_ (r2 hfit)
    intro h0
    have := congrArg List.length h0
    simp at this
    omega

/-- A pass through CODELENS ends its loop with at most `nlen + ndist` lengths
read and nothing written from that index on. -/
lemma case_CODELENS_bound (E : Ext) (c : Cfg) (h1 : c.state.nlen ≤ 286)
    (h2 : c.state.ndist ≤ 30) (h3 : c.state.have_ ≤ c.state.nlen + c.state.ndist) :
    ∃ c2, (case_CODELENS E c = .leave c2 ∨ case_CODELENS E c = CODELENS_tail E c2) ∧
      c2.state.nlen = c.state.nlen ∧ c2.state.ndist = c.state.ndist ∧
      c2.state.have_ ≤ c.state.nlen + c.state.ndist ∧
      ∀ i, c.state.nlen + c.state.ndist ≤ i → c2.state.lens.getD i 0 = c.state.lens.getD i 0 := by
  obtain ⟨b1, b2, b3, b4⟩ :=
    codelens_loop_bound (add32 c.state.nlen c.state.ndist) c h1 h2 h3
  refine ⟨(codelens_loop (add32 c.state.nlen c.state.ndist) c).2, ?_, b1, b2, b3, b4⟩
  unfold case_CODELENS
  rcases hl : codelens_loop (add32 c.state.nlen c.state.ndist) c with ⟨b, c2⟩
  cases b
  · exact Or.inl rfl
  · exact Or.inr rfl

/-! ## Accounting for the output -/

lemma Frame.frefl (c : Cfg) : Frame c c := ⟨rfl, rfl, rfl, rfl, rfl, rfl, rfl⟩

lemma Frame.ftrans {a b c : Cfg} (h1 : Frame a b) (h2 : Frame b c) : Frame a c :=
  ⟨h2.put.trans h1.put, h2.left.trans h1.left, h2.out.trans h1.out,
    h2.next_out.trans h1.next_out, h2.avail_out.trans h1.avail_out, h2.wrap.1.trans h1.wrap.1,
    h2.wrap.2.trans h1.wrap.2⟩

lemma Frame_of_acc {c c1 : Cfg} (h : Acc c c1) : Frame c c1 := by
  obtain ⟨h1, h2, h3, h4, -, h6, -⟩ := h
  exact ⟨h3, h4, h6, by rw [h1], by rw [h1], by rw [h2], by rw [h2]⟩

lemma Calm.crefl (c : Cfg) : Calm c c := ⟨Frame.frefl c, rfl, Or.inl ⟨rfl, rfl⟩⟩

lemma Calm.ctrans {a b c : Cfg} (h1 : Calm a b) (h2 : Calm b c) : Calm a c := by
  refine ⟨h1.frame.ftrans h2.frame, h2.ret.trans h1.ret, ?_⟩
  rcases h2.mode with ⟨m2, g2⟩ | h
  · rcases h1.mode with ⟨m1, g1⟩ | ⟨m1, g1⟩
    · exact Or.inl ⟨m2.trans m1, g2.trans g1⟩
    · exact Or.inr ⟨m2.trans m1, by rw [g2]; exact g1⟩
  · exact Or.inr h

lemma Calm_of_acc {c c1 : Cfg} (h : Acc c c1) : Calm c c1 :=
  ⟨Frame_of_acc h, h.2.2.2.2.2.2, Or.inl ⟨by rw [h.2.1], by rw [h.1]⟩⟩

lemma Calm_bad (c : Cfg) (msg : String) (h : msg ≠ "incorrect data check") :
    Calm c (c.bad msg) :=
  ⟨⟨rfl, rfl, rfl, rfl, rfl, rfl, rfl⟩, rfl, Or.inr ⟨rfl, by
    show some msg ≠ some "incorrect data check"
    intro e
    exact h (Option.some.inj e)⟩⟩

lemma Calm_DROPBITS (n : Nat) (c : Cfg) : Calm c (DROPBITS n c) :=
  ⟨⟨rfl, rfl, rfl, rfl, rfl, rfl, rfl⟩, rfl, Or.inl ⟨rfl, rfl⟩⟩

lemma acc_kind_le2 (m : inflate_mode) (h : acc_kind m ≤ 2) :
    m ≠ LEN ∧ m ≠ LENEXT ∧ m ≠ DIST ∧ m ≠ DISTEXT ∧ m ≠ MATCH ∧ m ≠ LIT := by
  cases m <;> simp [acc_kind] at h ⊢

lemma LS_plain (st : inflate_state) (h : acc_kind st.mode ≤ 2) : LS st := by
  obtain ⟨-, h2, h3, h4, h5, -⟩ := acc_kind_le2 st.mode h
  refine ⟨fun g => absurd g (by omega), fun g => absurd g h2, fun g => ?_⟩
  rcases g with g | g | g
  · exact absurd g h3
  · exact absurd g h4
  · exact absurd g h5

lemma LS_congr {st st1 : inflate_state} (h : LS st) (e1 : st1.mode = st.mode)
    (e2 : st1.lencode = st.lencode) (e3 : st1.length = st.length)
    (e4 : st1.extra = st.extra) : LS st1 := by
  unfold LS at *
  rw [e1, e2, e3, e4]
  exact h

lemma kind1_facts (m : inflate_mode) (h : kind m = 1) : ¬ quiet m ∧ m ≠ DONE ∧ m ≠ BAD := by
  cases m <;> simp [kind, quiet] at h ⊢

lemma notPassed_of_mode (c : Cfg) (h1 : c.state.mode ≠ DONE) (h2 : c.state.mode ≠ BAD) :
    ¬ Passed c := by
  rintro ⟨-, g | ⟨g, -⟩⟩
  · exact h1 g
  · exact h2 g

/-- The invariant moves along code that writes no output and ends in a mode
that is not past the trailer check. -/
lemma PB_move {P0 : List Nat} {out0 w0 b0 : Nat} (c c1 : Cfg) (h : PB P0 out0 w0 b0 c)
    (hf : Frame c c1) (hnc : ¬ Passed c) (hn1 : ¬ Passed c1) (hLS : LS c1.state)
    (hq : quiet c1.state.mode → quiet c.state.mode) : PB P0 out0 w0 b0 c1 := by
  obtain ⟨a1, a2, -, a4, a5, -, a7⟩ := h
  refine ⟨by rw [hf.put, hf.left]; exact a1, by rw [hf.next_out, hf.avail_out]; exact a2, hLS,
    by rw [hf.wrap.1, hf.wrap.2]; exact a4, fun g => ?_, fun g => absurd g hn1, fun _ => ?_⟩
  · rw [hf.put, hf.next_out]
    exact a5 (hq g)
  · rw [hf.out]
    exact a7 hnc

lemma PJ_plain {P0 : List Nat} {out0 w0 b0 : Nat} (c c1 : Cfg) (h : PB P0 out0 w0 b0 c)
    (hf : Frame c c1) (hnc : ¬ Passed c) (hk : kind c1.state.mode = 1)
    (ha : acc_kind c1.state.mode ≤ 2) (hr : c1.ret = Z_OK) : PJ P0 out0 w0 b0 c1 := by
  obtain ⟨k1, k2, k3⟩ := kind1_facts _ hk
  exact ⟨PB_move c c1 h hf hnc (notPassed_of_mode c1 k2 k3) (LS_plain _ ha)
    (fun g => absurd g k1), Or.inl hr⟩

lemma PJ_bad {P0 : List Nat} {out0 w0 b0 : Nat} (c c2 : Cfg) (msg : String)
    (h : PB P0 out0 w0 b0 c) (hf : Frame c c2) (hnc : ¬ Passed c)
    (hmsg : msg ≠ "incorrect data check") : PJ P0 out0 w0 b0 (c2.bad msg) := by
  refine ⟨PB_move c (c2.bad msg) h (hf.ftrans ⟨rfl, rfl, rfl, rfl, rfl, rfl, rfl⟩) hnc ?_
    (LS_plain _ (by show acc_kind BAD ≤ 2; decide)) (fun g => ?_), Or.inr rfl⟩
  · rintro ⟨-, g | ⟨-, g⟩⟩
    · exact absurd (show BAD = DONE from g) (by decide)
    · exact hmsg (Option.some.inj g)
  · exfalso
    revert g
    show ¬ quiet BAD
    simp [quiet, kind]

lemma PJ_quiet {P0 : List Nat} {out0 w0 b0 : Nat} (c c1 : Cfg) (h : PB P0 out0 w0 b0 c)
    (hf : Frame c c1) (hqc : quiet c.state.mode) (hk : kind c1.state.mode = 0)
    (hr : c1.ret = Z_OK) : PJ P0 out0 w0 b0 c1 := by
  have hm : c1.state.mode ≠ DONE ∧ c1.state.mode ≠ BAD ∧ acc_kind c1.state.mode ≤ 2 := by
    revert hk
    cases c1.state.mode <;> simp [kind, acc_kind]
  have hc : c.state.mode ≠ DONE ∧ c.state.mode ≠ BAD := by
    revert hqc
    cases c.state.mode <;> simp [kind, quiet]
  exact ⟨PB_move c c1 h hf (notPassed_of_mode c hc.1 hc.2) (notPassed_of_mode c1 hm.1 hm.2.1)
    (LS_plain _ hm.2.2) (fun _ => hqc), Or.inl hr⟩

lemma PL_of_PJ {P0 : List Nat} {out0 w0 b0 : Nat} (c : Cfg) (h : PJ P0 out0 w0 b0 c)
    (hr : c.ret = Z_OK) (hk : kind c.state.mode ≤ 1) : PL P0 out0 w0 b0 c :=
  ⟨h.1, Or.inl ⟨hr, hk⟩⟩

/-- The invariant moves along a loop inside a case that has not written output
and has left the mode alone or set it BAD. -/
lemma PJ_calm {P0 : List Nat} {out0 w0 b0 : Nat} (c c1 : Cfg) (h : PJ P0 out0 w0 b0 c)
    (hc : Calm c c1) (hk : kind c.state.mode = 1) (ha : acc_kind c.state.mode ≤ 2) :
    PJ P0 out0 w0 b0 c1 := by
  obtain ⟨k1, k2, k3⟩ := kind1_facts _ hk
  have hnc := notPassed_of_mode c k2 k3
  rcases hc.mode with ⟨m, g⟩ | ⟨m, g⟩
  · refine ⟨PB_move c c1 h.1 hc.frame hnc (notPassed_of_mode c1 (by rw [m]; exact k2)
      (by rw [m]; exact k3)) (LS_plain _ (by rw [m]; exact ha)) (fun q => by rw [m] at q; exact q),
      ?_⟩
    rcases h.2 with r | r
    · exact Or.inl (hc.ret.trans r)
    · exact absurd r k3
  · refine ⟨PB_move c c1 h.1 hc.frame hnc ?_ (LS_plain _ (by rw [m]; decide)) (fun q => ?_),
      Or.inr m⟩
    · rintro ⟨-, q | ⟨-, q⟩⟩
      · rw [m] at q
        exact absurd q (by decide)
      · exact g q
    · exfalso
      rw [m] at q
      revert q
      simp [quiet, kind]


/-- A repeat code that does not stop the loop leaves the mode as it was. -/
lemma codelens_repeat_acc_state (this : code) (c : Cfg) :
    match codelens_repeat this c with
    | .leave c1 => c1.state.mode = c.state.mode
    | .stop _ => True
    | .rep c1 _ _ => c1.state.mode = c.state.mode := by
  unfold codelens_repeat
  split_ifs
  · have hA := NEEDBITS_acc (this.bits + 2) c
    rcases hN : NEEDBITS (this.bits + 2) c with ⟨b, c1⟩
    rw [hN] at hA
    cases b
    · simp only []
      rw [hA.2.1]
    · simp only []
      split_ifs
      · trivial
      · simp only [DROPBITS]
        rw [hA.2.1]
  · have hA := NEEDBITS_acc (this.bits + 3) c
    rcases hN : NEEDBITS (this.bits + 3) c with ⟨b, c1⟩
    rw [hN] at hA
    cases b
    · simp only []
      rw [hA.2.1]
    · simp only [DROPBITS]
      rw [hA.2.1]
  · have hA := NEEDBITS_acc (this.bits + 7) c
    rcases hN : NEEDBITS (this.bits + 7) c with ⟨b, c1⟩
    rw [hN] at hA
    cases b
    · simp only []
      rw [hA.2.1]
    · simp only [DROPBITS]
      rw [hA.2.1]


lemma lenlens_loop_calm (fuel : Nat) (c : Cfg) : Calm c (lenlens_loop fuel c).2 := by
  induction fuel generalizing c with
  | zero => exact Calm.crefl c
  | succ f ih =>
    unfold lenlens_loop
    split
    · have hA := Calm_of_acc (NEEDBITS_acc 3 c)
      rcases hN : NEEDBITS 3 c with ⟨b, c1⟩
      rw [hN] at hA
      cases b
      · exact hA
      · simp only []
        refine (hA.ctrans ?_).ctrans (ih _)
        exact ⟨⟨rfl, rfl, rfl, rfl, rfl, rfl, rfl⟩, rfl, Or.inl ⟨rfl, rfl⟩⟩
    · exact Calm.crefl c

lemma lenlens_fill_wrap (fuel : Nat) (st : inflate_state) :
    (lenlens_fill fuel st).mode = st.mode ∧ (lenlens_fill fuel st).wrap = st.wrap ∧
    (lenlens_fill fuel st).wbits = st.wbits := by
  induction fuel generalizing st with
  | zero => exact ⟨rfl, rfl, rfl⟩
  | succ f ih =>
    unfold lenlens_fill
    split
    · obtain ⟨i1, i2, i3⟩ := ih { st with
        lens := memcpy st.lens (order.getD st.have_ 0) [0], have_ := st.have_ + 1 }
      exact ⟨i1, i2, i3⟩
    · exact ⟨rfl, rfl, rfl⟩

lemma codelens_repeat_calm (this : code) (c : Cfg) :
    Calm c (codelens_repeat this c).cfg := by
  have hmsg : "invalid bit length repeat" ≠ "incorrect data check" := by decide
  unfold codelens_repeat
  split
  · have hA := Calm_of_acc (NEEDBITS_acc (this.bits + 2) c)
    rcases hN : NEEDBITS (this.bits + 2) c with ⟨b, c1⟩
    rw [hN] at hA
    cases b
    · exact hA
    · simp only []
      split
      · exact hA.ctrans ((Calm_DROPBITS _ _).ctrans (Calm_bad _ _ hmsg))
      · exact hA.ctrans ((Calm_DROPBITS _ _).ctrans (Calm_DROPBITS _ _))
  · split
    · have hA := Calm_of_acc (NEEDBITS_acc (this.bits + 3) c)
      rcases hN : NEEDBITS (this.bits + 3) c with ⟨b, c1⟩
      rw [hN] at hA
      cases b
      · exact hA
      · exact hA.ctrans ((Calm_DROPBITS _ _).ctrans (Calm_DROPBITS _ _))
    · have hA := Calm_of_acc (NEEDBITS_acc (this.bits + 7) c)
      rcases hN : NEEDBITS (this.bits + 7) c with ⟨b, c1⟩
      rw [hN] at hA
      cases b
      · exact hA
      · exact hA.ctrans ((Calm_DROPBITS _ _).ctrans (Calm_DROPBITS _ _))

lemma codelens_loop_calm (fuel : Nat) (c : Cfg) : Calm c (codelens_loop fuel c).2 := by
  have hmsg : "invalid bit length repeat" ≠ "incorrect data check" := by decide
  induction fuel generalizing c with
  | zero => exact Calm.crefl c
  | succ f ih =>
    unfold codelens_loop
    split
    · have hC := Calm_of_acc (code_loop_acc c.state.lencode c.state.lenbits (c.have_ + 1) c)
      rcases hL : code_loop c.state.lencode c.state.lenbits (c.have_ + 1) c with ⟨this, c1⟩ | c1
      · rw [hL] at hC
        simp only [Pulled.cfg] at hC
        simp only []
        split
        · have hA := Calm_of_acc (NEEDBITS_acc this.bits c1)
          rcases hN : NEEDBITS this.bits c1 with ⟨b, c2⟩
          rw [hN] at hA
          cases b
          · exact hC.ctrans hA
          · simp only []
            refine ((hC.ctrans hA).ctrans ?_).ctrans (ih _)
            exact ⟨⟨rfl, rfl, rfl, rfl, rfl, rfl, rfl⟩, rfl, Or.inl ⟨rfl, rfl⟩⟩
        · have hR := codelens_repeat_calm this c1
          rcases hr : codelens_repeat this c1 with c2 | c2 | ⟨c2, len, copy⟩
          · rw [hr] at hR; exact hC.ctrans hR
          · rw [hr] at hR; exact hC.ctrans hR
          · rw [hr] at hR
            simp only [Repeat.cfg] at hR
            simp only []
            split
            · exact (hC.ctrans hR).ctrans (Calm_bad _ _ hmsg)
            · refine ((hC.ctrans hR).ctrans ?_).ctrans (ih _)
              exact ⟨⟨rfl, rfl, rfl, rfl, rfl, rfl, rfl⟩, rfl, Or.inl ⟨rfl, rfl⟩⟩
      · rw [hL] at hC
        exact hC
    · exact Calm.crefl c

/-- A starved loop of CODELENS or LENLENS has not set the mode BAD. -/
lemma lenlens_loop_short (fuel : Nat) (c c1 : Cfg) (h : lenlens_loop fuel c = (false, c1)) :
    c1.state.mode = c.state.mode := by
  induction fuel generalizing c with
  | zero => simp [lenlens_loop] at h
  | succ f ih =>
    unfold lenlens_loop at h
    split at h
    · have hA := NEEDBITS_acc 3 c
      rcases hN : NEEDBITS 3 c with ⟨b, c2⟩
      rw [hN] at hA h
      cases b
      · simp only [Prod.mk.injEq, true_and] at h
        rw [← h, hA.2.1]
      · simp only [] at h
        have := ih _ h
        rw [this]
        simp only [DROPBITS]
        rw [hA.2.1]
    · simp at h

lemma codelens_loop_short (fuel : Nat) (c c1 : Cfg) (h : codelens_loop fuel c = (false, c1)) :
    c1.state.mode = c.state.mode := by
  induction fuel generalizing c with
  | zero => simp [codelens_loop] at h
  | succ f ih =>
    unfold codelens_loop at h
    split at h
    · have hC := code_loop_acc c.state.lencode c.state.lenbits (c.have_ + 1) c
      rcases hL : code_loop c.state.lencode c.state.lenbits (c.have_ + 1) c with ⟨this, c2⟩ | c2
      · rw [hL] at hC h
        simp only [Pulled.cfg] at hC
        simp only [] at h
        split at h
        · have hA := NEEDBITS_acc this.bits c2
          rcases hN : NEEDBITS this.bits c2 with ⟨b, c3⟩
          rw [hN] at hA h
          cases b
          · simp only [Prod.mk.injEq, true_and] at h
            rw [← h, hA.2.1, hC.2.1]
          · simp only [] at h
            have := ih _ h
            rw [this]
            simp only [DROPBITS]
            rw [hA.2.1, hC.2.1]
        · have hR := codelens_repeat_acc_state this c2
          rcases hr : codelens_repeat this c2 with c3 | c3 | ⟨c3, len, copy⟩
          · rw [hr] at h hR
            simp only [Prod.mk.injEq, true_and] at h
            rw [← h, hR, hC.2.1]
          · rw [hr] at h
            simp at h
          · rw [hr] at h hR
            simp only [] at h
            split at h
            · simp at h
            · have := ih _ h
              rw [this]
              simp only []
              rw [hR, hC.2.1]
      · rw [hL] at hC h
        simp only [Pulled.cfg] at hC
        simp only [Prod.mk.injEq, true_and] at h
        rw [← h, hC.2.1]
    · simp at h


lemma PJ_ret {P0 : List Nat} {out0 w0 b0 : Nat} {c : Cfg} (h : PJ P0 out0 w0 b0 c)
    (hm : c.state.mode ≠ BAD) : c.ret = Z_OK := by
  rcases h.2 with r | r
  · exact r
  · exact absurd r hm

lemma match_copy_acct (w : List Nat) (off : Nat) (n : Nat) (from_ : Option Nat)
    (put : List Nat) :
    ∃ W : List Nat, W.length = n ∧ match_copy w off n from_ put = put ++ W := by
  induction n generalizing from_ put with
  | zero => exact ⟨[], rfl, by simp [match_copy]⟩
  | succ n ih =>
    cases from_ with
    | none =>
      obtain ⟨W, hW, he⟩ := ih none (put ++ [(below put off).headD 0])
      exact ⟨(below put off).headD 0 :: W, by simp [hW], by rw [match_copy, he]; simp⟩
    | some i =>
      obtain ⟨W, hW, he⟩ := ih (some (i + 1)) (put ++ [w.getD i 0])
      exact ⟨w.getD i 0 :: W, by simp [hW], by rw [match_copy, he]; simp⟩

lemma code_loop_entry (table : List code) (n : Nat) :
    ∀ (fuel : Nat) (c c1 : Cfg) (this : code), code_loop table n fuel c = .got this c1 →
      ∃ i, this = table.getD i ⟨0, 0, 0⟩ := by
  intro fuel
  induction fuel with
  | zero =>
    intro c c1 this h
    simp [code_loop] at h
  | succ f ih =>
    intro c c1 this h
    unfold code_loop at h
    simp only [] at h
    split at h
    · simp only [Pulled.got.injEq] at h
      exact ⟨_, h.1.symm⟩
    · cases hp : PULLBYTE c with
      | none => rw [hp] at h; simp at h
      | some c2 =>
        rw [hp] at h
        exact ih c2 c1 this h

lemma code_loop2_entry (table : List code) (last : code) :
    ∀ (fuel : Nat) (c c1 : Cfg) (this : code), code_loop2 table last fuel c = .got this c1 →
      ∃ i, this = table.getD i ⟨0, 0, 0⟩ := by
  intro fuel
  induction fuel with
  | zero =>
    intro c c1 this h
    simp [code_loop2] at h
  | succ f ih =>
    intro c c1 this h
    unfold code_loop2 at h
    simp only [] at h
    split at h
    · simp only [Pulled.got.injEq] at h
      exact ⟨_, h.1.symm⟩
    · cases hp : PULLBYTE c with
      | none => rw [hp] at h; simp at h
      | some c2 =>
        rw [hp] at h
        exact ih c2 c1 this h

lemma code_second_entry (table : List code) (last : code) (c c1 : Cfg) (this : code)
    (h : code_second table last c = .got this c1) : ∃ i, this = table.getD i ⟨0, 0, 0⟩ := by
  unfold code_second at h
  rcases hL : code_loop2 table last (c.have_ + 1) c with ⟨t, c2⟩ | c2
  · rw [hL] at h
    simp only [Pulled.got.injEq] at h
    obtain ⟨i, hi⟩ := code_loop2_entry table last _ c c2 t hL
    exact ⟨i, by rw [← h.1]; exact hi⟩
  · rw [hL] at h
    simp at h

set_option maxRecDepth 1000000 in
lemma lenfix_vals : ∀ e ∈ lenfix,
    e.op ≠ 0 → e.op &&& 32 = 0 → e.op &&& 64 = 0 → 1 ≤ e.val ∧ e.val ≤ 65535 := by
  decide!

lemma lenfix_lentab : LenTab lenfix := by
  intro i h1 h2 h3
  rcases mem_or_default lenfix i with h | h
  · rw [h] at h1
    exact absurd rfl h1
  · exact lenfix_vals _ h h1 h2 h3

lemma LS_len (st : inflate_state) (hm : st.mode = LEN ∨ st.mode = LIT)
    (hT : LenTab st.lencode) : LS st := by
  refine ⟨fun _ => hT, fun g => ?_, fun g => ?_⟩
  · rcases hm with h | h <;> rw [h] at g <;> exact absurd g (by decide)
  · exfalso
    rcases hm with h | h <;> rw [h] at g <;> simp at g

lemma LS_match (st : inflate_state)
    (hm : st.mode = DIST ∨ st.mode = DISTEXT ∨ st.mode = MATCH)
    (hT : LenTab st.lencode) (hl : 1 ≤ st.length) : LS st := by
  refine ⟨fun _ => hT, fun g => ?_, fun _ => hl⟩
  rcases hm with h | h | h <;> rw [h] at g <;> exact absurd g (by decide)

lemma LS_lenext (st : inflate_state) (hm : st.mode = LENEXT)
    (hT : LenTab st.lencode) (h1 : 1 ≤ st.length) (h2 : st.length ≤ 65535)
    (h3 : st.extra ≤ 15) : LS st := by
  refine ⟨fun _ => hT, fun _ => ⟨h1, h2, h3⟩, fun g => ?_⟩
  exfalso
  rw [hm] at g
  simp at g

/-- The invariant moves along code that writes the bytes `W`. -/
lemma PB_write {P0 : List Nat} {out0 w0 b0 : Nat} (c c1 : Cfg) (W : List Nat)
    (h : PB P0 out0 w0 b0 c) (e1 : c1.put = c.put ++ W) (e2 : c1.left + W.length = c.left)
    (e3 : c1.out = c.out) (e4 : c1.strm = c.strm) (e5 : c1.state.wrap = c.state.wrap ∧ c1.state.wbits = c.state.wbits)
    (hnc : ¬ Passed c) (hk : kind c1.state.mode = 1) (hLS : LS c1.state) :
    PB P0 out0 w0 b0 c1 := by
  obtain ⟨⟨O, a1, a1'⟩, a2, -, a4, -, -, a7⟩ := h
  obtain ⟨k1, k2, k3⟩ := kind1_facts _ hk
  refine ⟨⟨O ++ W, by rw [e1, a1, List.append_assoc], ?_⟩, by rw [e4]; exact a2, hLS,
    by rw [e5.1, e5.2]; exact a4, fun g => absurd g k1,
    fun g => absurd g (notPassed_of_mode c1 k2 k3), fun _ => by rw [e3]; exact a7 hnc⟩
  rw [List.length_append]
  omega


lemma PJ_to {P0 : List Nat} {out0 w0 b0 : Nat} (c c1 : Cfg) (m : inflate_mode)
    (h : PB P0 out0 w0 b0 c) (hf : Frame c c1) (hnc : ¬ Passed c) (em : c1.state.mode = m)
    (hk : kind m = 1) (ha : acc_kind m ≤ 2) (hr : c1.ret = Z_OK) : PJ P0 out0 w0 b0 c1 :=
  PJ_plain c c1 h hf hnc (by rw [em]; exact hk) (by rw [em]; exact ha) hr

lemma not_quiet_of {m : inflate_mode} (h : kind m = 1 ∨ m = DONE ∨ m = BAD) : ¬ quiet m := by
  cases m <;> simp [kind, quiet] at h ⊢

set_option maxRecDepth 100000 in
lemma case_HEAD_P (P0 : List Nat) (out0 w0 b0 : Nat) (c : Cfg) (h : PJ P0 out0 w0 b0 c)
    (hm : c.state.mode = HEAD) : PO P0 out0 w0 b0 (case_HEAD c) := by
  have hret := PJ_ret h (by rw [hm]; decide)
  have hq : quiet c.state.mode := by rw [hm]; exact Or.inl rfl
  have hnc : ¬ Passed c := notPassed_of_mode c (by rw [hm]; decide) (by rw [hm]; decide)
  unfold case_HEAD
  by_cases hw : c.state.wrap = 0
  · rw [if_pos hw]
    exact PJ_to c _ TYPEDO h.1 ⟨rfl, rfl, rfl, rfl, rfl, rfl, rfl⟩ hnc rfl rfl (by decide) hret
  · rw [if_neg hw]
    have hA := NEEDBITS_acc 16 c
    rcases hN : NEEDBITS 16 c with ⟨b, c1⟩
    rw [hN] at hA
    have hf := Frame_of_acc hA
    have hr1 : c1.ret = Z_OK := hA.2.2.2.2.2.2.trans hret
    cases b
    · exact PL_of_PJ _ (PJ_quiet c c1 h.1 hf hq (by rw [hA.2.1, hm]; rfl) hr1) hr1
        (by rw [show c1.state = c.state from hA.2.1, hm]; decide)
    · simp only []
      split_ifs
      · exact PJ_bad c c1 _ h.1 hf hnc (by decide)
      · exact PJ_bad c c1 _ h.1 hf hnc (by decide)
      · have hmsg : "invalid window size" ≠ "incorrect data check" := by decide
        exact PJ_bad c (DROPBITS 4 c1) _ h.1 (hf.ftrans ⟨rfl, rfl, rfl, rfl, rfl, rfl, rfl⟩) hnc hmsg
      · exact PJ_quiet c _ h.1 (hf.ftrans ⟨rfl, rfl, rfl, rfl, rfl, rfl, rfl⟩) hq rfl hr1
      · exact PJ_to c _ TYPE h.1 (hf.ftrans ⟨rfl, rfl, rfl, rfl, rfl, rfl, rfl⟩) hnc rfl rfl (by decide) hr1

set_option maxRecDepth 100000 in
lemma case_TYPEDO_P (P0 : List Nat) (out0 w0 b0 : Nat) (c : Cfg) (h : PJ P0 out0 w0 b0 c)
    (hm : c.state.mode = TYPE ∨ c.state.mode = TYPEDO) : PO P0 out0 w0 b0 (case_TYPEDO c) := by
  have hk : kind c.state.mode = 1 ∧ acc_kind c.state.mode ≤ 2 := by
    rcases hm with g | g <;> rw [g] <;> exact ⟨rfl, by decide⟩
  obtain ⟨-, k2, k3⟩ := kind1_facts _ hk.1
  have hret := PJ_ret h k3
  have hnc : ¬ Passed c := notPassed_of_mode c k2 k3
  unfold case_TYPEDO
  by_cases hl : c.state.last ≠ 0
  · rw [if_pos hl]
    exact PJ_to c _ CHECK h.1 ⟨rfl, rfl, rfl, rfl, rfl, rfl, rfl⟩ hnc rfl rfl (by decide) hret
  · rw [if_neg hl]
    have hA := NEEDBITS_acc 3 c
    rcases hN : NEEDBITS 3 c with ⟨b, c1⟩
    rw [hN] at hA
    have hf := Frame_of_acc hA
    have hr1 : c1.ret = Z_OK := hA.2.2.2.2.2.2.trans hret
    cases b
    · exact PL_of_PJ _ (PJ_plain c c1 h.1 hf hnc (by rw [hA.2.1]; exact hk.1)
        (by rw [hA.2.1]; exact hk.2) hr1) hr1
        (by rw [show c1.state = c.state from hA.2.1]; exact le_of_eq hk.1)
    · simp only []
      split_ifs
      · exact PJ_to c _ STORED h.1 (hf.ftrans ⟨rfl, rfl, rfl, rfl, rfl, rfl, rfl⟩) hnc rfl rfl (by decide) hr1
      · refine ⟨PB_move c _ h.1 (hf.ftrans ⟨rfl, rfl, rfl, rfl, rfl, rfl, rfl⟩) hnc
          (notPassed_of_mode _ (show LEN ≠ DONE by decide) (show LEN ≠ BAD by decide))
          (LS_len _ (Or.inl rfl) lenfix_lentab) (fun g => ?_), Or.inl hr1⟩
        exact absurd g (not_quiet_of (Or.inl rfl))
      · exact PJ_to c _ TABLE h.1 (hf.ftrans ⟨rfl, rfl, rfl, rfl, rfl, rfl, rfl⟩) hnc rfl rfl (by decide) hr1
      · exact PJ_bad c _ _ h.1 (hf.ftrans ⟨rfl, rfl, rfl, rfl, rfl, rfl, rfl⟩) hnc (by decide)

lemma case_TYPE_P (P0 : List Nat) (out0 w0 b0 : Nat) (flush : Int) (c : Cfg)
    (h : PJ P0 out0 w0 b0 c) (hm : c.state.mode = TYPE) : PO P0 out0 w0 b0 (case_TYPE flush c) := by
  unfold case_TYPE
  split_ifs
  · exact PL_of_PJ c h (PJ_ret h (by rw [hm]; decide)) (by rw [hm]; decide)
  · exact case_TYPEDO_P P0 out0 w0 b0 c h (Or.inl hm)

lemma case_DICT_P (P0 : List Nat) (out0 w0 b0 : Nat) (flush : Int) (c : Cfg)
    (h : PJ P0 out0 w0 b0 c) (hm : c.state.mode = DICT) : PO P0 out0 w0 b0 (case_DICT flush c) := by
  have hret := PJ_ret h (by rw [hm]; decide)
  have hq : quiet c.state.mode := by rw [hm]; exact Or.inl rfl
  have hnc : ¬ Passed c := notPassed_of_mode c (by rw [hm]; decide) (by rw [hm]; decide)
  obtain ⟨⟨O, a1, a1'⟩, -, a3, a4, a5, -, -⟩ := h.1
  unfold case_DICT
  split_ifs
  · obtain ⟨q1, -⟩ := a5 hq
    have hO : O = [] := by
      rw [q1] at a1
      exact List.append_right_eq_self.mp a1.symm
    refine ⟨by decide, q1, ?_, _, rfl, LS_congr a3 rfl rfl rfl rfl, a4⟩
    show c.left = out0
    rw [hO] at a1'
    simpa using a1'
  · exact case_TYPE_P P0 out0 w0 b0 flush _
      (PJ_to c _ TYPE h.1 ⟨rfl, rfl, rfl, rfl, rfl, rfl, rfl⟩ hnc rfl rfl (by decide) hret) rfl

lemma case_DICTID_P (P0 : List Nat) (out0 w0 b0 : Nat) (flush : Int) (c : Cfg)
    (h : PJ P0 out0 w0 b0 c) (hm : c.state.mode = DICTID) :
    PO P0 out0 w0 b0 (case_DICTID flush c) := by
  have hret := PJ_ret h (by rw [hm]; decide)
  have hq : quiet c.state.mode := by rw [hm]; exact Or.inl rfl
  unfold case_DICTID
  have hA := NEEDBITS_acc 32 c
  rcases hN : NEEDBITS 32 c with ⟨b, c1⟩
  rw [hN] at hA
  have hf := Frame_of_acc hA
  have hr1 : c1.ret = Z_OK := hA.2.2.2.2.2.2.trans hret
  cases b
  · exact PL_of_PJ _ (PJ_quiet c c1 h.1 hf hq (by rw [hA.2.1, hm]; rfl) hr1) hr1
      (by rw [show c1.state = c.state from hA.2.1, hm]; decide)
  · exact case_DICT_P P0 out0 w0 b0 flush _
      (PJ_quiet c _ h.1 (hf.ftrans ⟨rfl, rfl, rfl, rfl, rfl, rfl, rfl⟩) hq rfl hr1) rfl

lemma case_COPY_P (P0 : List Nat) (out0 w0 b0 : Nat) (c : Cfg) (h : PJ P0 out0 w0 b0 c)
    (hm : c.state.mode = COPY) : PO P0 out0 w0 b0 (case_COPY c) := by
  have hret := PJ_ret h (by rw [hm]; decide)
  have hnc : ¬ Passed c := notPassed_of_mode c (by rw [hm]; decide) (by rw [hm]; decide)
  by_cases hlen : c.state.length = 0
  · rw [case_COPY_done c hlen]
    exact PJ_to c _ TYPE h.1 ⟨rfl, rfl, rfl, rfl, rfl, rfl, rfl⟩ hnc rfl rfl (by decide) hret
  · rw [case_COPY_min c hlen]
    split_ifs with h0
    · exact PL_of_PJ c h hret (by rw [hm]; decide)
    · refine ⟨PB_write c _ (readFwd (c.next.getD []) (min (min c.state.length c.have_) c.left))
        h.1 rfl ?_ rfl rfl ⟨rfl, rfl⟩ hnc (by show kind c.state.mode = 1; rw [hm]; rfl)
        (LS_plain _ (by show acc_kind c.state.mode ≤ 2; rw [hm]; decide)), Or.inl hret⟩
      show c.left - min (min c.state.length c.have_) c.left + (readFwd _ _).length = c.left
      rw [readFwd_length]
      have : min (min c.state.length c.have_) c.left ≤ c.left := Nat.min_le_right _ _
      omega

set_option maxRecDepth 100000 in
lemma case_STORED_P (P0 : List Nat) (out0 w0 b0 : Nat) (c : Cfg) (h : PJ P0 out0 w0 b0 c)
    (hm : c.state.mode = STORED) : PO P0 out0 w0 b0 (case_STORED c) := by
  have hret := PJ_ret h (by rw [hm]; decide)
  have hnc : ¬ Passed c := notPassed_of_mode c (by rw [hm]; decide) (by rw [hm]; decide)
  unfold case_STORED
  have hA := NEEDBITS_acc 32 (BYTEBITS c)
  rcases hN : NEEDBITS 32 (BYTEBITS c) with ⟨b, c1⟩
  rw [hN] at hA
  have hf : Frame c c1 := Frame.ftrans ⟨rfl, rfl, rfl, rfl, rfl, rfl, rfl⟩ (Frame_of_acc hA)
  have hr1 : c1.ret = Z_OK := hA.2.2.2.2.2.2.trans hret
  have hs1 : c1.state = c.state := hA.2.1
  cases b
  · exact PL_of_PJ _ (PJ_plain c c1 h.1 hf hnc (by rw [hs1, hm]; rfl)
      (by rw [hs1, hm]; decide) hr1) hr1 (by rw [hs1, hm]; decide)
  · simp only []
    split_ifs
    · exact PJ_bad c c1 _ h.1 hf hnc (by decide)
    · exact case_COPY_P P0 out0 w0 b0 _
        (PJ_to c _ COPY h.1 (hf.ftrans ⟨rfl, rfl, rfl, rfl, rfl, rfl, rfl⟩) hnc rfl rfl (by decide) hr1) rfl

lemma case_DONE_P (P0 : List Nat) (out0 w0 b0 : Nat) (c : Cfg) (h : PJ P0 out0 w0 b0 c)
    (hm : c.state.mode = DONE) : PO P0 out0 w0 b0 (case_DONE c) :=
  ⟨h.1, Or.inr (Or.inr ⟨rfl, hm⟩)⟩

lemma case_BAD_P (P0 : List Nat) (out0 w0 b0 : Nat) (c : Cfg) (h : PJ P0 out0 w0 b0 c)
    (hm : c.state.mode = BAD) : PO P0 out0 w0 b0 (case_BAD c) :=
  ⟨h.1, Or.inr (Or.inl ⟨rfl, hm⟩)⟩

lemma case_CHECK_P (P0 : List Nat) (out0 w0 b0 : Nat) (c : Cfg) (h : PJ P0 out0 w0 b0 c)
    (hm : c.state.mode = CHECK) : PO P0 out0 w0 b0 (case_CHECK c) := by
  have hret := PJ_ret h (by rw [hm]; decide)
  have hnc : ¬ Passed c := notPassed_of_mode c (by rw [hm]; decide) (by rw [hm]; decide)
  obtain ⟨a1, a2, -, a4, -, -, a7⟩ := h.1
  unfold case_CHECK
  by_cases hw : c.state.wrap ≠ 0
  · rw [if_pos hw]
    have hA := NEEDBITS_acc 32 c
    rcases hN : NEEDBITS 32 c with ⟨b, c1⟩
    rw [hN] at hA
    have hf := Frame_of_acc hA
    have hr1 : c1.ret = Z_OK := hA.2.2.2.2.2.2.trans hret
    have hs1 : c1.state = c.state := hA.2.1
    cases b
    · exact PL_of_PJ _ (PJ_plain c c1 h.1 hf hnc (by rw [hs1, hm]; rfl)
        (by rw [hs1, hm]; decide) hr1) hr1 (by rw [hs1, hm]; decide)
    · simp only []
      have hw1 : c1.state.wrap ≠ 0 := by rw [hs1]; exact hw
      have b1 : Acct P0 out0 c1.put c1.left := by rw [hf.put, hf.left]; exact a1
      have b2 : Acct P0 out0 c1.strm.next_out c1.strm.avail_out := by
        rw [hf.next_out, hf.avail_out]; exact a2
      unfold CHECK_tail
      split_ifs
      · refine ⟨⟨b1, b2, LS_plain _ (show acc_kind BAD ≤ 2 by decide),
          by show c1.state.wrap = w0 ∧ c1.state.wbits = b0; rw [hf.wrap.1, hf.wrap.2]; exact a4, fun g => ?_, fun _ => rfl,
          fun g => ?_⟩, Or.inr rfl⟩
        · exact absurd g (not_quiet_of (Or.inr (Or.inr rfl)))
        · exact absurd ⟨hw1, Or.inr ⟨rfl, rfl⟩⟩ g
      · refine ⟨⟨b1, b2, LS_plain _ (show acc_kind DONE ≤ 2 by decide),
          by show c1.state.wrap = w0 ∧ c1.state.wbits = b0; rw [hf.wrap.1, hf.wrap.2]; exact a4, fun g => ?_, fun _ => rfl,
          fun g => ?_⟩, Or.inr (Or.inr ⟨rfl, rfl⟩)⟩
        · exact absurd g (not_quiet_of (Or.inr (Or.inl rfl)))
        · exact absurd ⟨hw1, Or.inl rfl⟩ g
  · rw [if_neg hw]
    have hw0 : c.state.wrap = 0 := not_not.mp hw
    refine ⟨⟨a1, a2, LS_plain _ (show acc_kind DONE ≤ 2 by decide), a4, fun g => ?_,
      fun g => absurd hw0 g.1, fun _ => a7 hnc⟩, Or.inr (Or.inr ⟨rfl, rfl⟩)⟩
    exact absurd g (not_quiet_of (Or.inr (Or.inl rfl)))

/-- The invariant moves along code that keeps the output and the return value
and ends in a mode of a block with the state invariant in place. -/
lemma PJ_go {P0 : List Nat} {out0 w0 b0 : Nat} (c c1 : Cfg) (h : PJ P0 out0 w0 b0 c)
    (hk : kind c.state.mode = 1) (hf : Frame c c1) (hr : c1.ret = c.ret)
    (hk1 : kind c1.state.mode = 1) (hLS : LS c1.state) : PJ P0 out0 w0 b0 c1 := by
  obtain ⟨k1, k2, k3⟩ := kind1_facts _ hk
  obtain ⟨j1, j2, j3⟩ := kind1_facts _ hk1
  exact ⟨PB_move c c1 h.1 hf (notPassed_of_mode c k2 k3) (notPassed_of_mode c1 j2 j3) hLS
    (fun g => absurd g j1), Or.inl (hr.trans (PJ_ret h k3))⟩

/-- The invariant moves along code that touches the accumulator and the input
cursor only. -/
lemma PJ_acc {P0 : List Nat} {out0 w0 b0 : Nat} (c c1 : Cfg) (h : PJ P0 out0 w0 b0 c)
    (hk : kind c.state.mode = 1) (hA : Acc c c1) : PJ P0 out0 w0 b0 c1 :=
  PJ_go c c1 h hk (Frame_of_acc hA) hA.2.2.2.2.2.2 (by rw [hA.2.1]; exact hk)
    (by rw [hA.2.1]; exact h.1.2.2.1)

lemma PL_acc {P0 : List Nat} {out0 w0 b0 : Nat} (c c1 : Cfg) (h : PJ P0 out0 w0 b0 c)
    (hk : kind c.state.mode = 1) (hA : Acc c c1) : PL P0 out0 w0 b0 c1 :=
  PL_of_PJ c1 (PJ_acc c c1 h hk hA)
    (hA.2.2.2.2.2.2.trans (PJ_ret h (kind1_facts _ hk).2.2))
    (by rw [show c1.state = c.state from hA.2.1]; exact le_of_eq hk)

lemma match_source_count (c : Cfg) (h : 1 ≤ c.state.length) :
    1 ≤ (match_source c).2 ∧ (match_source c).2 ≤ c.state.length := by
  unfold match_source
  simp only []
  split_ifs <;> simp only [] <;> omega

lemma case_MATCH_P (P0 : List Nat) (out0 w0 b0 : Nat) (c : Cfg) (h : PJ P0 out0 w0 b0 c)
    (hm : c.state.mode = MATCH) : PO P0 out0 w0 b0 (case_MATCH c) := by
  have hk : kind c.state.mode = 1 := by rw [hm]; rfl
  obtain ⟨-, k2, k3⟩ := kind1_facts _ hk
  have hret := PJ_ret h k3
  have hnc : ¬ Passed c := notPassed_of_mode c k2 k3
  have hLS := h.1.2.2.1
  have hT : LenTab c.state.lencode := hLS.1 (by rw [hm]; decide)
  have hlen : 1 ≤ c.state.length := hLS.2.2 (Or.inr (Or.inr hm))
  obtain ⟨s1, s2⟩ := match_source_count c hlen
  unfold case_MATCH
  by_cases h0 : c.left = 0
  · rw [if_pos h0]
    exact PL_of_PJ c h hret (by rw [hm]; decide)
  · rw [if_neg h0]
    simp only []
    generalize hcp : (if (match_source c).2 > c.left then c.left else (match_source c).2) = copy
    have hc1 : 1 ≤ copy := by rw [← hcp]; split_ifs <;> omega
    have hc2 : copy ≤ c.left := by rw [← hcp]; split_ifs <;> omega
    have hc3 : copy ≤ c.state.length := by rw [← hcp]; split_ifs <;> omega
    rw [if_neg (show ¬ copy = 0 by omega)]
    obtain ⟨W, hW, he⟩ := match_copy_acct c.state.window c.state.offset copy (match_source c).1 c.put
    refine ⟨PB_write c _ W h.1 he (show c.left - copy + W.length = c.left by omega) rfl rfl
      ⟨rfl, rfl⟩ hnc ?_ ?_, Or.inl hret⟩
    · show kind (if c.state.length - copy = 0 then LEN else c.state.mode) = 1
      split_ifs
      · rfl
      · exact hk
    · by_cases hz : c.state.length - copy = 0
      · refine LS_len _ (Or.inl ?_) hT
        show (if c.state.length - copy = 0 then LEN else c.state.mode) = LEN
        rw [if_pos hz]
      · refine LS_match _ (Or.inr (Or.inr ?_)) hT (show 1 ≤ c.state.length - copy by omega)
        show (if c.state.length - copy = 0 then LEN else c.state.mode) = MATCH
        rw [if_neg hz, hm]

lemma DISTEXT_tail_P (P0 : List Nat) (out0 w0 b0 : Nat) (c : Cfg) (h : PJ P0 out0 w0 b0 c)
    (hm : c.state.mode = DISTEXT) : PO P0 out0 w0 b0 (DISTEXT_tail c) := by
  have hk : kind c.state.mode = 1 := by rw [hm]; rfl
  obtain ⟨-, k2, k3⟩ := kind1_facts _ hk
  have hLS := h.1.2.2.1
  unfold DISTEXT_tail
  split_ifs
  · have hmsg : "invalid distance too far back" ≠ "incorrect data check" := by decide
    exact PJ_bad c c _ h.1 (Frame.frefl c) (notPassed_of_mode c k2 k3) hmsg
  · exact case_MATCH_P P0 out0 w0 b0 _
      (PJ_go c (c.setMode MATCH) h hk ⟨rfl, rfl, rfl, rfl, rfl, rfl, rfl⟩ rfl rfl
        (LS_match _ (Or.inr (Or.inr rfl)) (hLS.1 (by rw [hm]; decide))
          (hLS.2.2 (Or.inr (Or.inl hm))))) rfl

lemma case_DISTEXT_P (P0 : List Nat) (out0 w0 b0 : Nat) (c : Cfg) (h : PJ P0 out0 w0 b0 c)
    (hm : c.state.mode = DISTEXT) : PO P0 out0 w0 b0 (case_DISTEXT c) := by
  have hk : kind c.state.mode = 1 := by rw [hm]; rfl
  unfold case_DISTEXT
  split_ifs
  · have hA := NEEDBITS_acc c.state.extra c
    rcases hN : NEEDBITS c.state.extra c with ⟨b, c1⟩
    rw [hN] at hA
    have h1 := PJ_acc c c1 h hk hA
    have hs1 : c1.state = c.state := hA.2.1
    have hk1 : kind c1.state.mode = 1 := by rw [hs1]; exact hk
    cases b
    · exact PL_acc c c1 h hk hA
    · simp only []
      refine DISTEXT_tail_P P0 out0 w0 b0 _ (PJ_go c1 _ h1 hk1 ⟨rfl, rfl, rfl, rfl, rfl, rfl, rfl⟩ rfl
        (show kind c1.state.mode = 1 from hk1)
        (LS_congr h1.1.2.2.1 rfl rfl rfl rfl)) ?_
      show c1.state.mode = DISTEXT
      rw [hs1, hm]
  · exact DISTEXT_tail_P P0 out0 w0 b0 c h hm

lemma DIST_tail_P (P0 : List Nat) (out0 w0 b0 : Nat) (this : code) (c : Cfg)
    (h : PJ P0 out0 w0 b0 c) (hm : c.state.mode = DIST) : PO P0 out0 w0 b0 (DIST_tail this c) := by
  have hk : kind c.state.mode = 1 := by rw [hm]; rfl
  obtain ⟨-, k2, k3⟩ := kind1_facts _ hk
  have hLS := h.1.2.2.1
  unfold DIST_tail
  simp only []
  split_ifs
  · have hmsg : "invalid distance code" ≠ "incorrect data check" := by decide
    exact PJ_bad c (DROPBITS this.bits c) _ h.1 ⟨rfl, rfl, rfl, rfl, rfl, rfl, rfl⟩
      (notPassed_of_mode c k2 k3) hmsg
  · exact case_DISTEXT_P P0 out0 w0 b0 _
      (PJ_go c _ h hk ⟨rfl, rfl, rfl, rfl, rfl, rfl, rfl⟩ rfl rfl
        (LS_match _ (Or.inr (Or.inl rfl)) (hLS.1 (by rw [hm]; decide))
          (hLS.2.2 (Or.inl hm)))) rfl

lemma case_DIST_P (P0 : List Nat) (out0 w0 b0 : Nat) (c : Cfg) (h : PJ P0 out0 w0 b0 c)
    (hm : c.state.mode = DIST) : PO P0 out0 w0 b0 (case_DIST c) := by
  have hk : kind c.state.mode = 1 := by rw [hm]; rfl
  unfold case_DIST
  have hA := code_loop_acc c.state.distcode c.state.distbits (c.have_ + 1) c
  rcases hL : code_loop c.state.distcode c.state.distbits (c.have_ + 1) c with ⟨this, c1⟩ | c1
  · rw [hL] at hA
    have h1 := PJ_acc c c1 h hk hA
    have hm1 : c1.state.mode = DIST := by rw [show c1.state = c.state from hA.2.1, hm]
    simp only []
    split_ifs
    · have hA2 := code_second_acc c1.state.distcode this c1
      rcases hS : code_second c1.state.distcode this c1 with ⟨t2, c2⟩ | c2
      · rw [hS] at hA2
        exact DIST_tail_P P0 out0 w0 b0 t2 c2
          (PJ_acc c1 c2 h1 (by rw [hm1]; rfl) hA2)
          (by rw [show c2.state = c1.state from hA2.2.1, hm1])
      · rw [hS] at hA2
        exact PL_acc c1 c2 h1 (by rw [hm1]; rfl) hA2
    · exact DIST_tail_P P0 out0 w0 b0 this c1 h1 hm1
  · rw [hL] at hA
    exact PL_acc c c1 h hk hA

lemma case_LENEXT_P (P0 : List Nat) (out0 w0 b0 : Nat) (c : Cfg) (h : PJ P0 out0 w0 b0 c)
    (hm : c.state.mode = LENEXT) : PO P0 out0 w0 b0 (case_LENEXT c) := by
  have hk : kind c.state.mode = 1 := by rw [hm]; rfl
  have hLS := h.1.2.2.1
  have hT : LenTab c.state.lencode := hLS.1 (by rw [hm]; decide)
  obtain ⟨l1, l2, l3⟩ := hLS.2.1 hm
  unfold case_LENEXT
  split_ifs
  · have hA := NEEDBITS_acc c.state.extra c
    rcases hN : NEEDBITS c.state.extra c with ⟨b, c1⟩
    rw [hN] at hA
    have h1 := PJ_acc c c1 h hk hA
    have hs1 : c1.state = c.state := hA.2.1
    have hk1 : kind c1.state.mode = 1 := by rw [hs1]; exact hk
    cases b
    · exact PL_acc c c1 h hk hA
    · simp only []
      refine case_DIST_P P0 out0 w0 b0 _ (PJ_go c1 _ h1 hk1 ⟨rfl, rfl, rfl, rfl, rfl, rfl, rfl⟩ rfl rfl
        (LS_match _ (Or.inl rfl) (by show LenTab c1.state.lencode; rw [hs1]; exact hT) ?_)) rfl
      show 1 ≤ add32 c1.state.length (BITS c1 c1.state.extra)
      have hb := BITS_lt_any c1 c1.state.extra
      rw [hs1] at hb ⊢
      have hp : 2 ^ c.state.extra ≤ 2 ^ 15 := Nat.pow_le_pow_right (by decide) l3
      rw [add32_of_lt (by norm_num at hp; omega)]
      omega
  · exact case_DIST_P P0 out0 w0 b0 _
      (PJ_go c (c.setMode DIST) h hk ⟨rfl, rfl, rfl, rfl, rfl, rfl, rfl⟩ rfl rfl
        (LS_match _ (Or.inl rfl) hT l1)) rfl

lemma LEN_tail_P (P0 : List Nat) (out0 w0 b0 : Nat) (this : code) (c : Cfg)
    (h : PJ P0 out0 w0 b0 c) (hm : c.state.mode = LEN)
    (hthis : ∃ i, this = c.state.lencode.getD i ⟨0, 0, 0⟩) :
    PO P0 out0 w0 b0 (LEN_tail this c) := by
  have hk : kind c.state.mode = 1 := by rw [hm]; rfl
  obtain ⟨-, k2, k3⟩ := kind1_facts _ hk
  have hLS := h.1.2.2.1
  have hT : LenTab c.state.lencode := hLS.1 (by rw [hm]; decide)
  unfold LEN_tail
  simp only []
  split_ifs with g1 g2 g3
  · exact PJ_go c _ h hk ⟨rfl, rfl, rfl, rfl, rfl, rfl, rfl⟩ rfl rfl (LS_len _ (Or.inr rfl) hT)
  · exact PJ_go c _ h hk ⟨rfl, rfl, rfl, rfl, rfl, rfl, rfl⟩ rfl rfl
      (LS_plain _ (show acc_kind TYPE ≤ 2 by decide))
  · have hmsg : "invalid literal/length code" ≠ "incorrect data check" := by decide
    exact PJ_bad c _ _ h.1 ⟨rfl, rfl, rfl, rfl, rfl, rfl, rfl⟩ (notPassed_of_mode c k2 k3) hmsg
  · obtain ⟨i, hi⟩ := hthis
    have hv := hT i (by rw [← hi]; exact g1) (by rw [← hi]; exact not_not.mp g2)
      (by rw [← hi]; exact not_not.mp g3)
    rw [← hi] at hv
    exact case_LENEXT_P P0 out0 w0 b0 _
      (PJ_go c _ h hk ⟨rfl, rfl, rfl, rfl, rfl, rfl, rfl⟩ rfl rfl
        (LS_lenext _ rfl hT hv.1 hv.2 Nat.and_le_right)) rfl

lemma case_LEN_P (E : Ext) (hF : FastOut E) (P0 : List Nat) (out0 w0 b0 : Nat) (c : Cfg)
    (h : PJ P0 out0 w0 b0 c) (hm : c.state.mode = LEN) : PO P0 out0 w0 b0 (case_LEN E c) := by
  have hk : kind c.state.mode = 1 := by rw [hm]; rfl
  obtain ⟨-, k2, k3⟩ := kind1_facts _ hk
  have hret := PJ_ret h k3
  have hnc : ¬ Passed c := notPassed_of_mode c k2 k3
  have hLS := h.1.2.2.1
  have hT : LenTab c.state.lencode := hLS.1 (by rw [hm]; decide)
  unfold case_LEN
  split_ifs
  · simp only []
    obtain ⟨⟨W, f1, f2⟩, f3, f4, f5⟩ := hF (RESTORE c).strm (RESTORE c).state (RESTORE c).out hm
    generalize E.inflate_fast (RESTORE c).strm (RESTORE c).state (RESTORE c).out = r
      at f1 f2 f3 f4 f5 ⊢
    obtain ⟨⟨O, a1, a1'⟩, -, -, a4, -, -, a7⟩ := h.1
    have b1 : Acct P0 out0 r.1.next_out r.1.avail_out := by
      refine ⟨O ++ W, ?_, ?_⟩
      · rw [f1]
        show c.put ++ W = P0 ++ (O ++ W)
        rw [a1, List.append_assoc]
      · have : r.1.avail_out + W.length = c.left := f2
        rw [List.length_append]
        omega
    have hmode : kind r.2.mode = 1 ∨ (r.2.mode = BAD ∧ r.1.msg ≠ some "incorrect data check") := by
      rcases f5 with g | g | g
      · left; rw [g]; rfl
      · left; rw [g]; rfl
      · right; exact g
    have hnp : ¬ Passed (LOAD r.1 r.2 (RESTORE c)) := by
      rintro ⟨-, g | ⟨g1, g2⟩⟩
      · rcases f5 with q | q | q
        · exact absurd (q.symm.trans g) (by decide)
        · exact absurd (q.symm.trans g) (by decide)
        · exact absurd (q.1.symm.trans g) (by decide)
      · rcases f5 with q | q | q
        · exact absurd (q.symm.trans g1) (by decide)
        · exact absurd (q.symm.trans g1) (by decide)
        · exact q.2 g2
    have hLS1 : LS r.2 := by
      rcases f5 with q | q | q
      · exact LS_len _ (Or.inl q) (by rw [f3]; exact hT)
      · exact LS_plain _ (by rw [q]; decide)
      · exact LS_plain _ (by rw [q.1]; decide)
    refine ⟨⟨b1, b1, hLS1, ⟨f4.1.trans a4.1, f4.2.trans a4.2⟩, fun g => ?_, fun g => absurd g hnp, fun _ => a7 hnc⟩, ?_⟩
    · exfalso
      have g' : quiet r.2.mode := g
      rcases f5 with q | q | q
      · rw [q] at g'; exact not_quiet_of (Or.inl (show kind LEN = 1 from rfl)) g'
      · rw [q] at g'; exact not_quiet_of (Or.inl (show kind TYPE = 1 from rfl)) g'
      · rw [q.1] at g'; exact not_quiet_of (Or.inr (Or.inr rfl)) g'
    · exact Or.inl hret
  · have hA := code_loop_acc c.state.lencode c.state.lenbits (c.have_ + 1) c
    rcases hL : code_loop c.state.lencode c.state.lenbits (c.have_ + 1) c with ⟨this, c1⟩ | c1
    · obtain ⟨i, hi⟩ := code_loop_entry _ _ _ _ _ _ hL
      rw [hL] at hA
      have h1 := PJ_acc c c1 h hk hA
      have hs1 : c1.state = c.state := hA.2.1
      have hm1 : c1.state.mode = LEN := by rw [hs1, hm]
      simp only []
      split_ifs
      · have hA2 := code_second_acc c1.state.lencode this c1
        rcases hS : code_second c1.state.lencode this c1 with ⟨t2, c2⟩ | c2
        · obtain ⟨j, hj⟩ := code_second_entry _ _ _ _ _ hS
          rw [hS] at hA2
          exact LEN_tail_P P0 out0 w0 b0 t2 c2 (PJ_acc c1 c2 h1 (by rw [hm1]; rfl) hA2)
            (by rw [show c2.state = c1.state from hA2.2.1, hm1])
            ⟨j, by rw [show c2.state = c1.state from hA2.2.1]; exact hj⟩
        · rw [hS] at hA2
          exact PL_acc c1 c2 h1 (by rw [hm1]; rfl) hA2
      · exact LEN_tail_P P0 out0 w0 b0 this c1 h1 hm1 ⟨i, by rw [hs1]; exact hi⟩
    · rw [hL] at hA
      exact PL_acc c c1 h hk hA

lemma case_LIT_P (P0 : List Nat) (out0 w0 b0 : Nat) (c : Cfg) (h : PJ P0 out0 w0 b0 c)
    (hm : c.state.mode = LIT) : PO P0 out0 w0 b0 (case_LIT c) := by
  have hk : kind c.state.mode = 1 := by rw [hm]; rfl
  obtain ⟨-, k2, k3⟩ := kind1_facts _ hk
  have hret := PJ_ret h k3
  have hLS := h.1.2.2.1
  unfold case_LIT
  split_ifs with h0
  · exact PL_of_PJ c h hret (by rw [hm]; decide)
  · exact ⟨PB_write c _ [c.state.length % 256] h.1 rfl
      (show c.left - 1 + 1 = c.left by omega) rfl rfl ⟨rfl, rfl⟩ (notPassed_of_mode c k2 k3) rfl
      (LS_len _ (Or.inl rfl) (hLS.1 (by rw [hm]; decide))), Or.inl hret⟩

/-- The invariant holds in a mode of a block reached with `ret` at `Z_OK`. -/
lemma PJ_ok {P0 : List Nat} {out0 w0 b0 : Nat} (c c1 : Cfg) (h : PJ P0 out0 w0 b0 c)
    (hk : kind c.state.mode = 1) (hf : Frame c c1) (hr : c1.ret = Z_OK)
    (hk1 : kind c1.state.mode = 1) (hLS : LS c1.state) : PJ P0 out0 w0 b0 c1 := by
  obtain ⟨k1, k2, k3⟩ := kind1_facts _ hk
  obtain ⟨j1, j2, j3⟩ := kind1_facts _ hk1
  exact ⟨PB_move c c1 h.1 hf (notPassed_of_mode c k2 k3) (notPassed_of_mode c1 j2 j3) hLS
    (fun g => absurd g j1), Or.inl hr⟩

lemma CODELENS_tail_P (E : Ext) (hF : FastOut E) (hT : TableLens E) (P0 : List Nat)
    (out0 w0 b0 : Nat) (c : Cfg) (h : PJ P0 out0 w0 b0 c)
    (hm : c.state.mode = CODELENS ∨ c.state.mode = BAD) :
    PO P0 out0 w0 b0 (CODELENS_tail E c) := by
  unfold CODELENS_tail
  by_cases hb : c.state.mode = BAD
  · rw [if_pos hb]
    exact h
  · rw [if_neg hb]
    have hmc : c.state.mode = CODELENS := hm.resolve_right hb
    have hk : kind c.state.mode = 1 := by rw [hmc]; rfl
    obtain ⟨-, k2, k3⟩ := kind1_facts _ hk
    have hnc := notPassed_of_mode c k2 k3
    simp only []
    split_ifs with g1 g2
    · have hmsg : "invalid literal/lengths set" ≠ "incorrect data check" := by decide
      exact PJ_bad c _ _ h.1 ⟨rfl, rfl, rfl, rfl, rfl, rfl, rfl⟩ hnc hmsg
    · have hmsg : "invalid distances set" ≠ "incorrect data check" := by decide
      exact PJ_bad c _ _ h.1 ⟨rfl, rfl, rfl, rfl, rfl, rfl, rfl⟩ hnc hmsg
    · refine case_LEN_P E hF P0 out0 w0 b0 _
        (PJ_ok c _ h hk ⟨rfl, rfl, rfl, rfl, rfl, rfl, rfl⟩ ?_ rfl
          (LS_len _ (Or.inl rfl) (hT _ _ _))) rfl
      exact not_not.mp g2

lemma case_CODELENS_P (E : Ext) (hF : FastOut E) (hT : TableLens E) (P0 : List Nat)
    (out0 w0 b0 : Nat) (c : Cfg) (h : PJ P0 out0 w0 b0 c) (hm : c.state.mode = CODELENS) :
    PO P0 out0 w0 b0 (case_CODELENS E c) := by
  have hk : kind c.state.mode = 1 := by rw [hm]; rfl
  have ha : acc_kind c.state.mode ≤ 2 := by rw [hm]; decide
  have hret := PJ_ret h (kind1_facts _ hk).2.2
  unfold case_CODELENS
  have hC := codelens_loop_calm (add32 c.state.nlen c.state.ndist) c
  rcases hL : codelens_loop (add32 c.state.nlen c.state.ndist) c with ⟨b, c1⟩
  rw [hL] at hC
  have h1 := PJ_calm c c1 h hC hk ha
  cases b
  · exact PL_of_PJ c1 h1 (hC.ret.trans hret)
      (by rw [codelens_loop_short _ _ _ hL, hm]; decide)
  · refine CODELENS_tail_P E hF hT P0 out0 w0 b0 c1 h1 ?_
    rcases hC.mode with g | g
    · exact Or.inl (g.1.trans hm)
    · exact Or.inr g.1

lemma LENLENS_tail_P (E : Ext) (hF : FastOut E) (hT : TableLens E) (P0 : List Nat)
    (out0 w0 b0 : Nat) (c : Cfg) (h : PJ P0 out0 w0 b0 c) (hm : c.state.mode = LENLENS) :
    PO P0 out0 w0 b0 (LENLENS_tail E c) := by
  have hk : kind c.state.mode = 1 := by rw [hm]; rfl
  obtain ⟨-, k2, k3⟩ := kind1_facts _ hk
  have hnc := notPassed_of_mode c k2 k3
  have hw := (lenlens_fill_wrap 19 c.state).2
  unfold LENLENS_tail
  simp only []
  split_ifs with g1
  · have hmsg : "invalid code lengths set" ≠ "incorrect data check" := by decide
    exact PJ_bad c _ _ h.1 ⟨rfl, rfl, rfl, rfl, rfl, hw⟩ hnc hmsg
  · refine case_CODELENS_P E hF hT P0 out0 w0 b0 _
      (PJ_ok c _ h hk ⟨rfl, rfl, rfl, rfl, rfl, hw⟩ (not_not.mp g1) rfl
        (LS_plain _ (show acc_kind CODELENS ≤ 2 by decide))) rfl

lemma case_LENLENS_P (E : Ext) (hF : FastOut E) (hT : TableLens E) (P0 : List Nat)
    (out0 w0 b0 : Nat) (c : Cfg) (h : PJ P0 out0 w0 b0 c) (hm : c.state.mode = LENLENS) :
    PO P0 out0 w0 b0 (case_LENLENS E c) := by
  have hk : kind c.state.mode = 1 := by rw [hm]; rfl
  have ha : acc_kind c.state.mode ≤ 2 := by rw [hm]; decide
  have hret := PJ_ret h (kind1_facts _ hk).2.2
  unfold case_LENLENS
  have hC := lenlens_loop_calm c.state.ncode c
  have hM := lenlens_loop_mode c.state.ncode c
  rcases hL : lenlens_loop c.state.ncode c with ⟨b, c1⟩
  rw [hL] at hC hM
  have h1 := PJ_calm c c1 h hC hk ha
  cases b
  · exact PL_of_PJ c1 h1 (hC.ret.trans hret) (by rw [hM, hm]; decide)
  · exact LENLENS_tail_P E hF hT P0 out0 w0 b0 c1 h1 (hM.trans hm)

lemma case_TABLE_P (E : Ext) (hF : FastOut E) (hT : TableLens E) (P0 : List Nat)
    (out0 w0 b0 : Nat) (c : Cfg) (h : PJ P0 out0 w0 b0 c) (hm : c.state.mode = TABLE) :
    PO P0 out0 w0 b0 (case_TABLE E c) := by
  have hk : kind c.state.mode = 1 := by rw [hm]; rfl
  obtain ⟨-, k2, k3⟩ := kind1_facts _ hk
  have hnc := notPassed_of_mode c k2 k3
  unfold case_TABLE
  have hA := NEEDBITS_acc 14 c
  rcases hN : NEEDBITS 14 c with ⟨b, c1⟩
  rw [hN] at hA
  have hf := Frame_of_acc hA
  have h1 := PJ_acc c c1 h hk hA
  have hr1 : c1.ret = Z_OK := hA.2.2.2.2.2.2.trans (PJ_ret h k3)
  cases b
  · exact PL_acc c c1 h hk hA
  · simp only []
    split_ifs
    · have hmsg : "too many length or distance symbols" ≠ "incorrect data check" := by decide
      exact PJ_bad c _ _ h.1 (hf.ftrans (by constructor <;> simp [DROPBITS])) hnc hmsg
    · exact case_LENLENS_P E hF hT P0 out0 w0 b0 _
        (PJ_ok c _ h hk (hf.ftrans (by constructor <;> simp [DROPBITS])) hr1 rfl
          (LS_plain _ (show acc_kind LENLENS ≤ 2 by decide))) rfl

lemma done_P (P0 : List Nat) (out0 w0 b0 : Nat) (c : Cfg) (h : PJ P0 out0 w0 b0 c)
    (hq : quiet c.state.mode) (r : Int) (hr : r ≠ Z_STREAM_END) :
    PO P0 out0 w0 b0 (.done r c.result) := by
  obtain ⟨-, ⟨O, a2, a2'⟩, a3, a4, a5, -, -⟩ := h.1
  obtain ⟨-, q2⟩ := a5 hq
  have hO : O = [] := by
    rw [q2] at a2
    exact List.append_right_eq_self.mp a2.symm
  refine ⟨hr, q2, ?_, c.state, rfl, a3, a4⟩
  show c.strm.avail_out = out0
  rw [hO] at a2'
  simpa using a2'

lemma step_P (E : Ext) (hF : FastOut E) (hT : TableLens E) (flush : Int) (P0 : List Nat)
    (out0 w0 b0 : Nat) (c : Cfg) (h : PJ P0 out0 w0 b0 c) :
    PO P0 out0 w0 b0 (step E flush c) := by
  unfold step
  split
  · exact case_HEAD_P P0 out0 w0 b0 c h (by assumption)
  · exact case_DICTID_P P0 out0 w0 b0 flush c h (by assumption)
  · exact case_DICT_P P0 out0 w0 b0 flush c h (by assumption)
  · exact case_TYPE_P P0 out0 w0 b0 flush c h (by assumption)
  · exact case_TYPEDO_P P0 out0 w0 b0 c h (Or.inr (by assumption))
  · exact case_STORED_P P0 out0 w0 b0 c h (by assumption)
  · exact case_COPY_P P0 out0 w0 b0 c h (by assumption)
  · exact case_TABLE_P E hF hT P0 out0 w0 b0 c h (by assumption)
  · exact case_LENLENS_P E hF hT P0 out0 w0 b0 c h (by assumption)
  · exact case_CODELENS_P E hF hT P0 out0 w0 b0 c h (by assumption)
  · exact case_LEN_P E hF P0 out0 w0 b0 c h (by assumption)
  · exact case_LENEXT_P P0 out0 w0 b0 c h (by assumption)
  · exact case_DIST_P P0 out0 w0 b0 c h (by assumption)
  · exact case_DISTEXT_P P0 out0 w0 b0 c h (by assumption)
  · exact case_MATCH_P P0 out0 w0 b0 c h (by assumption)
  · exact case_LIT_P P0 out0 w0 b0 c h (by assumption)
  · exact case_CHECK_P P0 out0 w0 b0 c h (by assumption)
  · exact case_DONE_P P0 out0 w0 b0 c h (by assumption)
  · exact case_BAD_P P0 out0 w0 b0 c h (by assumption)
  · refine done_P P0 out0 w0 b0 c h ?_ _ (by decide)
    have hm : c.state.mode = MEM := by assumption
    rw [hm]
    exact Or.inr ⟨rfl, by decide⟩
  · refine done_P P0 out0 w0 b0 c h ?_ _ (by decide)
    cases hm : c.state.mode <;> first
      | exact Or.inr ⟨rfl, by decide⟩
      | (exfalso; simp_all)

lemma inflate_loop_P (E : Ext) (hF : FastOut E) (hT : TableLens E) (flush : Int)
    (P0 : List Nat) (out0 w0 b0 : Nat) (fuel : Nat) (c : Cfg) (h : PJ P0 out0 w0 b0 c)
    (o : Outcome) (ho : inflate_loop E flush fuel c = some o) : PO P0 out0 w0 b0 o := by
  induction fuel generalizing c with
  | zero => simp [inflate_loop] at ho
  | succ f ih =>
    unfold inflate_loop at ho
    have hs := step_P E hF hT flush P0 out0 w0 b0 c h
    rcases hst : step E flush c with c1 | c1 | ⟨r, s⟩
    · rw [hst] at ho hs
      exact ih c1 hs ho
    · rw [hst] at ho hs
      simp only [Option.some.injEq] at ho
      subst ho
      exact hs
    · rw [hst] at ho hs
      simp only [Option.some.injEq] at ho
      subst ho
      exact hs

lemma enter_P (strm : z_stream) (st : inflate_state) (hLS : LS st) :
    PJ strm.next_out strm.avail_out st.wrap st.wbits (enter strm st) := by
  unfold enter LOAD
  simp only []
  refine ⟨⟨⟨[], by simp, by simp⟩, ⟨[], by simp, by simp⟩, ?_, ?_, fun _ => ⟨rfl, rfl⟩,
    fun _ => rfl, fun _ => rfl⟩, Or.inl rfl⟩
  · split_ifs with hm
    · exact LS_plain _ (show acc_kind TYPEDO ≤ 2 by decide)
    · exact hLS
  · split_ifs <;> exact ⟨rfl, rfl⟩

lemma zlib_updatewindow_keeps (strm : z_stream) (st : inflate_state) (out : Nat) :
    (zlib_updatewindow strm st out).mode = st.mode ∧
    (zlib_updatewindow strm st out).lencode = st.lencode ∧
    (zlib_updatewindow strm st out).length = st.length ∧
    (zlib_updatewindow strm st out).extra = st.extra ∧
    (zlib_updatewindow strm st out).wrap = st.wrap ∧
    (zlib_updatewindow strm st out).wbits = st.wbits ∧
    (zlib_updatewindow strm st out).wsize = st.wsize := by
  unfold zlib_updatewindow
  simp only []
  split_ifs <;> exact ⟨rfl, rfl, rfl, rfl, rfl, rfl, rfl⟩

lemma leave_stream_keeps (c : Cfg) :
    ∃ stl, (leave_stream c).state = some stl ∧ stl.mode = c.state.mode ∧
      stl.lencode = c.state.lencode ∧ stl.length = c.state.length ∧
      stl.extra = c.state.extra ∧ stl.wrap = c.state.wrap ∧ stl.wbits = c.state.wbits ∧
      stl.wsize = c.state.wsize := by
  obtain ⟨q1, q2, q3, q4, q5, q6, q7⟩ :=
    zlib_updatewindow_keeps (RESTORE c).strm (RESTORE c).state c.out
  unfold leave_stream
  simp only [RESTORE] at q1 q2 q3 q4 q5 q6 q7 ⊢
  split_ifs <;> simp [q1, q2, q3, q4, q5, q6, q7]

/-- The stream `inf_leave` returns: that of `leave_stream`, with the state up to
the mode. -/
lemma inf_leave_stream (flush : Int) (c : Cfg) :
    (inf_leave flush c).2.next_out = c.put ∧ (inf_leave flush c).2.avail_out = c.left ∧
    (inf_leave flush c).2.msg = c.strm.msg ∧
    ∃ stl m, (leave_stream c).state = some stl ∧
      (inf_leave flush c).2.state = some { stl with mode := m } ∧
      (m = c.state.mode ∨ (c.state.mode = STORED ∧ m = TYPE)) := by
  obtain ⟨-, f2, -, f4, -⟩ := leave_stream_frame c
  have f5 := leave_stream_msg c
  obtain ⟨stl, k1, k2, -⟩ := leave_stream_keeps c
  rcases (inf_leave_shape flush c).2 with g | ⟨stl2, g1, g2, g3⟩
  · rw [g]
    exact ⟨f4, f2, f5, stl, stl.mode, k1, by rw [k1], Or.inl k2⟩
  · rw [g3]
    rw [k1] at g1
    cases g1
    exact ⟨f4, f2, f5, stl, TYPE, k1, rfl, Or.inr ⟨k2.symm.trans g2, rfl⟩⟩

/-- The return value of `inf_leave` against `ret`. -/
lemma inf_leave_ret (flush : Int) (c : Cfg) :
    ((inf_leave flush c).1 = Z_STREAM_END → c.ret = Z_STREAM_END) ∧
    (c.ret ≠ Z_BUF_ERROR → (inf_leave flush c).1 = Z_OK ∨ (inf_leave flush c).1 = Z_BUF_ERROR →
      c.ret = Z_OK) := by
  refine ⟨(inf_leave_shape flush c).1, fun hne hr => ?_⟩
  unfold inf_leave at hr
  split_ifs at hr with h1 h2
  · exact h1.2.1
  · exact h2.2
  · rcases hr with g | g
    · exact g
    · exact absurd g hne

/-- The three ways a call of `zlib_inflate` returns: at once on a usage error,
from inside the `switch`, or through `inf_leave`; with what the output
invariant says in each. -/
lemma call_shape (E : Ext) (hF : FastOut E) (hT : TableLens E) (fuel : Nat)
    (strm s1 : z_stream) (st : inflate_state) (flush r : Int) (hs : strm.state = some st)
    (hLS : LS st) (hcall : zlib_inflate E fuel strm flush = some (r, s1)) :
    (s1 = strm ∧ r = Z_STREAM_ERROR) ∨
    (inflate_loop E flush fuel (enter strm st) = some (.done r s1) ∧
      PO strm.next_out strm.avail_out st.wrap st.wbits (.done r s1)) ∨
    (∃ c, inflate_loop E flush fuel (enter strm st) = some (.leave c) ∧
      PL strm.next_out strm.avail_out st.wrap st.wbits c ∧ inf_leave flush c = (r, s1)) := by
  unfold zlib_inflate at hcall
  rw [hs] at hcall
  simp only [] at hcall
  split_ifs at hcall with hu
  · simp only [Option.some.injEq, Prod.mk.injEq] at hcall
    exact Or.inl ⟨hcall.2.symm, hcall.1.symm⟩
  · cases hl : inflate_loop E flush fuel (enter strm st) with
    | none => simp [hl] at hcall
    | some o =>
      have hP := inflate_loop_P E hF hT flush _ _ _ _ fuel _ (enter_P strm st hLS) o hl
      rw [hl] at hcall
      cases o with
      | cont c => simp at hcall
      | done r0 s =>
        simp only [Option.some.injEq, Prod.mk.injEq] at hcall
        obtain ⟨e1, e2⟩ := hcall
        subst e1 e2
        exact Or.inr (Or.inl ⟨rfl, hP⟩)
      | leave c =>
        simp only [Option.some.injEq] at hcall
        exact Or.inr (Or.inr ⟨c, rfl, hP, hcall⟩)

/-- A call accounts for its output: `next_out` has moved up over the bytes
written and `avail_out` has dropped by their number; and the state it leaves is
as its mode needs it. -/
lemma call_accounts (E : Ext) (hF : FastOut E) (hT : TableLens E) (fuel : Nat)
    (strm s1 : z_stream) (st : inflate_state) (flush r : Int) (hs : strm.state = some st)
    (hLS : LS st) (hcall : zlib_inflate E fuel strm flush = some (r, s1)) :
    ∃ O st1, s1.next_out = strm.next_out ++ O ∧ s1.avail_out + O.length = strm.avail_out ∧
      s1.state = some st1 ∧ LS st1 ∧ st1.wrap = st.wrap ∧ st1.wbits = st.wbits := by
  rcases call_shape E hF hT fuel strm s1 st flush r hs hLS hcall with
    ⟨g, -⟩ | ⟨-, -, p1, p2, st1, p3, p4, p5, p6⟩ | ⟨c, -, hP, hi⟩
  · rw [g]
    exact ⟨[], st, by simp, by simp, hs, hLS, rfl, rfl⟩
  · exact ⟨[], st1, by simp [p1], by simp [p2], p3, p4, p5, p6⟩
  · obtain ⟨⟨O, a1, a1'⟩, -, a3, a4, -, -, -⟩ := hP.1
    obtain ⟨i1, i2, -, stl, m, i4, i5, i6⟩ := inf_leave_stream flush c
    obtain ⟨stl2, k1, k2, k3, k4, k5, k6, k7, -⟩ := leave_stream_keeps c
    rw [i4] at k1
    cases k1
    rw [hi] at i1 i2 i5
    simp only [] at i1 i2 i5
    refine ⟨O, _, i1.trans a1, by rw [i2]; exact a1', i5, ?_, k6.trans a4.1, k7.trans a4.2⟩
    rcases i6 with g | g
    · exact LS_congr a3 g k3 k4 k5
    · exact LS_plain _ (by show acc_kind m ≤ 2; rw [g.2]; decide)

lemma noExt_FastOut : FastOut noExt := by
  intro strm st out hm
  exact ⟨⟨[], by simp [noExt], by simp [noExt]⟩, rfl, ⟨rfl, rfl⟩, Or.inl hm⟩

lemma noExt_TableLens : TableLens noExt := by
  intro lens codes bits i h
  exact absurd (by simp [noExt]) h

/-- The state `zlib_inflateInit2` leaves when it accepts its window size. -/
lemma init_accepted (strm : z_stream) (ws : inflate_state) (w : Int)
    (hw : (8 ≤ w ∧ w ≤ 15) ∨ (-15 ≤ w ∧ w ≤ -8)) :
    ∃ st, (zlib_inflateInit2 strm ws w).2.state = some st ∧ st.mode = HEAD ∧
      (0 ≤ w → st.wrap = 1) ∧ (w < 0 → st.wrap = 0) ∧ 8 ≤ st.wbits ∧ st.wbits ≤ 15 ∧
      st.wsize = 2 ^ st.wbits ∧ st.whave = 0 ∧ st.write = 0 := by
  have hsh : ∀ b : Nat, b ≤ 15 → (1 <<< b) % 4294967296 = 2 ^ b := by
    intro b hb
    rw [Nat.shiftLeft_eq, one_mul]
    exact Nat.mod_eq_of_lt (lt_of_le_of_lt (Nat.pow_le_pow_right (by decide) hb) (by decide))
  unfold zlib_inflateInit2
  simp only []
  by_cases hn : w < 0
  · have hr : ¬ (-w < 8 ∨ -w > 15) := by omega
    have hb : 8 ≤ (-w).toNat ∧ (-w).toNat ≤ 15 := by omega
    simp only [hn, if_true, hr, if_false, zlib_inflateReset]
    exact ⟨_, rfl, rfl, fun h => absurd hn (by omega), fun _ => rfl, hb.1, hb.2, hsh _ hb.2,
      rfl, rfl⟩
  · have hr : ¬ (w < 8 ∨ w > 15) := by omega
    have hb : 8 ≤ w.toNat ∧ w.toNat ≤ 15 := by omega
    have hq : (w / 16 + 1).toNat = 1 := by
      have : w / 16 = 0 := by omega
      simp [this]
    simp only [hn, if_false, hr, zlib_inflateReset, hq]
    exact ⟨_, rfl, rfl, fun _ => rfl, fun h => h.elim, hb.1, hb.2, hsh _ hb.2, rfl, rfl⟩

lemma init_tracked (strm : z_stream) (ws : inflate_state) (w : Int) (h8 : 8 ≤ w)
    (h15 : w ≤ 15) : Tracked (zlib_inflateInit2 strm ws w).2 [] := by
  obtain ⟨st, e1, e2, e3, -⟩ := init_accepted strm ws w (Or.inl ⟨h8, h15⟩)
  refine ⟨st, e1, ?_, Or.inl ⟨by rw [e2]; rfl, rfl⟩⟩
  rw [e3 (by omega)]
  exact Nat.one_ne_zero

lemma written_append (k : Call) (s1 : z_stream) (O : List Nat)
    (h : s1.next_out = k.next_out ++ O) : written k s1 = O := by
  unfold written
  rw [h]
  simp

lemma run_checked (E : Ext) (hE : FastCheck E) (hF : FastOut E) (hT : TableLens E)
    (fuel : Nat) (ks : List Call) :
    ∀ (r0 : Int) (s0 : z_stream) (T0 : List Nat) (r : Int) (s : z_stream) (T : List Nat),
      Tracked s0 T0 → (∃ st, s0.state = some st ∧ LS st) →
      (r0 = Z_STREAM_END → s0.adler = adler32_fold 1 T0 ∧
        ∃ st, s0.state = some st ∧ st.check = adler32_fold 1 T0) →
      (∀ k ∈ ks, k.avail_out < 4294967296) →
      run E fuel r0 s0 T0 ks = some (r, s, T) →
      Tracked s T ∧ (r = Z_STREAM_END → s.adler = adler32_fold 1 T ∧
        ∃ st, s.state = some st ∧ st.check = adler32_fold 1 T) := by
  induction ks with
  | nil =>
    intro r0 s0 T0 r s T hTr _ h0 _ hrun
    simp only [run, Option.some.injEq, Prod.mk.injEq] at hrun
    obtain ⟨e1, e2, e3⟩ := hrun
    subst e1 e2 e3
    exact ⟨hTr, h0⟩
  | cons k ks ih =>
    intro r0 s0 T0 r s T hTr hS h0 hks hrun
    unfold run at hrun
    cases hc : zlib_inflate E fuel (supply s0 k) k.flush with
    | none => simp [hc] at hrun
    | some q =>
      obtain ⟨r1, s1⟩ := q
      rw [hc] at hrun
      simp only [] at hrun
      obtain ⟨st, hs, hLS⟩ := hS
      obtain ⟨O, st1, a1, a2, a3, a4, -⟩ :=
        call_accounts E hF hT fuel (supply s0 k) s1 st k.flush r1 hs hLS hc
      have hw : written k s1 = O := written_append k s1 O a1
      have hT1 : Tracked (supply s0 k) T0 := by
        obtain ⟨st', e1, e2, e3⟩ := hTr
        exact ⟨st', e1, e2, e3⟩
      obtain ⟨t1, t2⟩ := call_tracked E hE fuel (supply s0 k) s1 k.flush r1 T0 O
        hT1 (hks k (List.mem_cons_self _ _)) hc a1 a2
      rw [hw] at hrun
      exact ih r1 s1 (T0 ++ O) r s T t1 ⟨st1, a3, a4⟩ t2
        (fun k' hk' => hks k' (List.mem_cons_of_mem _ hk')) hrun

lemma pastTrailer_iff (s : z_stream) (st : inflate_state) (hs : s.state = some st) :
    pastTrailer s = true ↔
      st.wrap ≠ 0 ∧ (st.mode = DONE ∨ (st.mode = BAD ∧ s.msg = some "incorrect data check")) := by
  unfold pastTrailer
  rw [hs]
  simp

lemma enter_FJ (strm : z_stream) (st : inflate_state) :
    FJ (Fv.ofStream strm st) (enter strm st) := by
  unfold enter LOAD
  simp only []
  split_ifs <;> exact ⟨⟨rfl, rfl, rfl, rfl, rfl⟩, Or.inl ⟨rfl, rfl, rfl, rfl⟩⟩

/-- The stream `inf_leave` returns is past the trailer check exactly when the
locals at `inf_leave` are. -/
lemma inf_leave_past (flush : Int) (c : Cfg) :
    pastTrailer (inf_leave flush c).2 = true ↔ Passed c := by
  obtain ⟨-, -, i3, stl, m, i4, i5, i6⟩ := inf_leave_stream flush c
  obtain ⟨stl2, k1, k2, -, -, -, k6, -⟩ := leave_stream_keeps c
  rw [i4] at k1
  cases k1
  rw [pastTrailer_iff _ _ i5, i3]
  show stl.wrap ≠ 0 ∧ (m = DONE ∨ (m = BAD ∧ c.strm.msg = some "incorrect data check")) ↔ _
  unfold Passed
  rw [k6]
  rcases i6 with g | ⟨g1, g2⟩
  · rw [g]
  · rw [g2, g1]
    simp

/-- One call of `zlib_inflate` on a window that represents `H`: the call
accounts for the bytes `O` it wrote, and the window then represents `H` with the
bytes entered, which are `O` unless the call has left the decoder past the
trailer check. -/
lemma call_window (E : Ext) (hE : FastFrame E) (hF : FastOut E) (hT : TableLens E)
    (fuel : Nat) (strm s1 : z_stream) (st : inflate_state) (flush r : Int) (H : List Nat)
    (hs : strm.state = some st) (hLS : LS st) (hR : Represents st H)
    (h32 : st.wsize < 4294967296) (hao : strm.avail_out < 4294967296)
    (hcall : zlib_inflate E fuel strm flush = some (r, s1)) :
    ∃ O st1, s1.next_out = strm.next_out ++ O ∧ s1.avail_out + O.length = strm.avail_out ∧
      s1.state = some st1 ∧ LS st1 ∧ st1.wrap = st.wrap ∧ st1.wbits = st.wbits ∧
      st1.wsize = st.wsize ∧
      Represents st1 (H ++ if pastTrailer s1 then [] else O) ∧
      (r = Z_OK ∨ r = Z_BUF_ERROR ∨ st.wrap = 0 → (if pastTrailer s1 then [] else O) = O) ∧
      (r = Z_STREAM_END → st.wrap ≠ 0 → pastTrailer s1 = true) := by
  rcases call_shape E hF hT fuel strm s1 st flush r hs hLS hcall with
    ⟨g, gr⟩ | ⟨hl, p0, p1, p2, st1, p3, p4, p5, p6⟩ | ⟨c, hl, hP, hi⟩
  · rw [g]
    refine ⟨[], st, by simp, by simp, hs, hLS, rfl, rfl, rfl, by simpa using hR,
      fun _ => by simp, fun h => ?_⟩
    rw [gr] at h
    exact absurd h (by decide)
  · obtain ⟨-, st2, q1, q2⟩ := inflate_loop_F E hE flush _ fuel _ (enter_FJ strm st) _ hl
    rw [p3] at q1
    cases q1
    obtain ⟨w1, w2, w3, w4, -⟩ := q2
    exact ⟨[], st1, by simp [p1], by simp [p2], p3, p4, p5, p6, w4,
      by simpa using Represents_congr w1 w2 w3 w4 hR, fun _ => by simp,
      fun h => absurd h p0⟩
  · have hFL := inflate_loop_F E hE flush _ fuel _ (enter_FJ strm st) _ hl
    obtain ⟨w1, w2, w3, w4, -⟩ := hFL.1
    simp only [Fv.ofStream] at w1 w2 w3 w4
    obtain ⟨⟨O, a1, a1'⟩, -, a3, a4, -, a6, a7⟩ := hP.1
    obtain ⟨i1, i2, -, stl, m, i4, i5, i6⟩ := inf_leave_stream flush c
    obtain ⟨stl2, k1, k2, k3, k4, k5, k6, k7, k8⟩ := leave_stream_keeps c
    rw [i4] at k1
    cases k1
    have hpast := inf_leave_past flush c
    have hret := inf_leave_ret flush c
    rw [hi] at i1 i2 i5 hpast hret
    simp only [] at i1 i2 i5 hpast hret
    have hws : c.state.wsize ≠ 0 := by
      rw [w4]
      have := hR.2.1
      omega
    obtain ⟨stl3, e0, e1, e2, e3, e4⟩ := leave_stream_window c hws
    rw [i4] at e0
    cases e0
    have hRc : Represents (RESTORE c).state H :=
      Represents_congr (by simp [RESTORE, w1]) (by simp [RESTORE, w2])
        (by simp [RESTORE, w3]) (by simp [RESTORE, w4]) hR
    have h32c : (RESTORE c).state.wsize < 4294967296 := by
      simp only [RESTORE]
      rw [w4]
      exact h32
    have hLS1 : LS { stl with mode := m } := by
      rcases i6 with g | g
      · exact LS_congr a3 g k3 k4 k5
      · exact LS_plain _ (by show acc_kind m ≤ 2; rw [g.2]; decide)
    have hnb : c.ret ≠ Z_BUF_ERROR := by
      rcases hP.2 with g | g | g
      · rw [g.1]; decide
      · rw [g.1]; decide
      · rw [g.1]; decide
    have hrep : Represents { stl with mode := m } (H ++ if pastTrailer s1 then [] else O) := by
      by_cases hp : Passed c
      · rw [if_pos (hpast.mpr hp)]
        have hU := zlib_updatewindow_represents (RESTORE c).strm (RESTORE c).state c.out H
          c.put [] hRc h32c (by simp [RESTORE])
          (by
            simp only [RESTORE, List.length_nil]
            rw [a6 hp]
            exact sub32_self _)
        exact Represents_congr e1 e2 e3 e4 hU
      · have hq : ¬ pastTrailer s1 = true := fun h => hp (hpast.mp h)
        rw [if_neg hq]
        have hU := zlib_updatewindow_represents (RESTORE c).strm (RESTORE c).state c.out H
          strm.next_out O hRc h32c (by simp only [RESTORE]; exact a1)
          (by
            simp only [RESTORE]
            rw [a7 hp, sub32_of_le (by omega) hao]
            omega)
        exact Represents_congr e1 e2 e3 e4 hU
    have hnp : ¬ Passed c → (if pastTrailer s1 then [] else O) = O := by
      intro hp
      have : ¬ pastTrailer s1 = true := fun h => hp (hpast.mp h)
      rw [if_neg this]
    refine ⟨O, _, i1.trans a1, by rw [i2]; exact a1', i5, hLS1, k6.trans a4.1, k7.trans a4.2,
      k8.trans w4, hrep, fun h => hnp ?_, fun h hw => ?_⟩
    · rintro ⟨hw, hm⟩
      rcases h with g | g | g
      · have hok := hret.2 hnb (Or.inl g)
        rcases hP.2 with q | q | q
        · rcases hm with m1 | ⟨m1, -⟩ <;> rw [m1] at q <;> exact absurd q.2 (by decide)
        · rw [hok] at q; exact absurd q.1 (by decide)
        · rw [hok] at q; exact absurd q.1 (by decide)
      · have hok := hret.2 hnb (Or.inr g)
        rcases hP.2 with q | q | q
        · rcases hm with m1 | ⟨m1, -⟩ <;> rw [m1] at q <;> exact absurd q.2 (by decide)
        · rw [hok] at q; exact absurd q.1 (by decide)
        · rw [hok] at q; exact absurd q.1 (by decide)
      · exact hw (a4.1.trans g)
    · have hend := hret.1 h
      refine hpast.mpr ⟨by rw [a4.1]; exact hw, Or.inl ?_⟩
      rcases hP.2 with q | q | q
      · rw [hend] at q; exact absurd q.1 (by decide)
      · rw [hend] at q; exact absurd q.1 (by decide)
      · exact q.2

/-- The window a reset leaves: it represents the empty history. -/
lemma reset_window (s : z_stream) (st : inflate_state) (hs : s.state = some st)
    (h15 : st.wbits ≤ 15) :
    ∃ st1, (zlib_inflateReset s).2.state = some st1 ∧ Represents st1 [] ∧ LS st1 ∧
      st1.wsize < 4294967296 ∧ st1.wbits = st.wbits := by
  have hlt : 2 ^ st.wbits < 4294967296 :=
    lt_of_le_of_lt (Nat.pow_le_pow_right (by decide) h15) (by decide)
  have hsh : (1 <<< st.wbits) % 4294967296 = 2 ^ st.wbits := by
    rw [Nat.shiftLeft_eq, one_mul]
    exact Nat.mod_eq_of_lt hlt
  have hpos : 0 < 2 ^ st.wbits := Nat.two_pow_pos _
  simp only [zlib_inflateReset, hs, hsh]
  refine ⟨_, rfl, ⟨?_, ?_, ?_, ?_⟩, LS_plain _ (show acc_kind HEAD ≤ 2 by decide), hlt, rfl⟩
  · simp
  · exact hpos
  · intro _
    rfl
  · intro d hd1 hd2
    simp only [] at hd2
    omega

/-- The window `zlib_inflateIncomp` leaves: its input bytes are entered when it
returns `Z_OK`, and nothing changes otherwise. -/
lemma incomp_window (z : z_stream) (st : inflate_state) (H : List Nat)
    (hs : z.state = some st) (hn : z.avail_in < 4294967296)
    (hR : Represents st H) (hLS : LS st) (h32 : st.wsize < 4294967296) :
    ∃ st1, (zlib_inflateIncomp z).2.state = some st1 ∧
      Represents st1
        (H ++ if (zlib_inflateIncomp z).1 = Z_OK
          then readFwd (z.next_in.getD []) z.avail_in else []) ∧
      LS st1 ∧ st1.wsize = st.wsize ∧ st1.wbits = st.wbits := by
  obtain ⟨ni, ai, ti, nxo, ao, tto, msg, state, dt, ad⟩ := z
  simp only at hs hn
  subst hs
  unfold zlib_inflateIncomp
  simp only []
  by_cases hm : st.mode ≠ TYPE ∧ st.mode ≠ HEAD
  · rw [if_pos hm]
    simp only []
    rw [if_neg (show ¬ Z_DATA_ERROR = Z_OK by decide), List.append_nil]
    exact ⟨st, rfl, hR, hLS, rfl, rfl⟩
  · rw [if_neg hm]
    simp only [if_true]
    obtain ⟨q1, -, -, -, -, q6, q7⟩ := zlib_updatewindow_keeps
      { next_in := ni, avail_in := ai, total_in := ti, next_out := readFwd (ni.getD []) ai,
        avail_out := 0, total_out := tto, msg := msg, state := some st, data_type := dt,
        adler := ad } st ai
    have hU := zlib_updatewindow_represents
      { next_in := ni, avail_in := ai, total_in := ti, next_out := readFwd (ni.getD []) ai,
        avail_out := 0, total_out := tto, msg := msg, state := some st, data_type := dt,
        adler := ad } st ai H [] (readFwd (ni.getD []) ai) hR h32 rfl
      (by
        simp only []
        rw [sub32_of_le (Nat.zero_le _) hn, readFwd_length]
        rfl)
    refine ⟨_, rfl, Represents_congr rfl rfl rfl rfl hU, LS_plain _ ?_, q7, q6⟩
    show acc_kind (zlib_updatewindow _ st ai).mode ≤ 2
    rw [q1]
    have : st.mode = TYPE ∨ st.mode = HEAD := by
      by_contra hc
      exact hm ⟨fun h => hc (Or.inl h), fun h => hc (Or.inr h)⟩
    rcases this with g | g <;> rw [g] <;> decide

/-- In every stream reached with the history `H`, the window represents `H`;
the state is as its mode needs it and the window size is that of `wbits`. -/
lemma reach_window (E : Ext) (hE : FastFrame E) (hF : FastOut E) (hT : TableLens E)
    (s : z_stream) (H : List Nat) (h : ReachH E s H) :
    ∃ st, s.state = some st ∧ Represents st H ∧ LS st ∧ st.wsize < 4294967296 ∧
      8 ≤ st.wbits ∧ st.wbits ≤ 15 := by
  induction h with
  | init strm ws w hw =>
    obtain ⟨st, e1, e2, -, -, e5, e6, e7, e8, e9⟩ := init_accepted strm ws w hw
    have hlt : 2 ^ st.wbits < 4294967296 :=
      lt_of_le_of_lt (Nat.pow_le_pow_right (by decide) e6) (by decide)
    have hpos : 0 < 2 ^ st.wbits := Nat.two_pow_pos _
    refine ⟨st, e1, ⟨?_, ?_, ?_, ?_⟩, LS_plain _ (by rw [e2]; decide), by rw [e7]; exact hlt,
      e5, e6⟩
    · rw [e8]; simp
    · rw [e9, e7]; exact hpos
    · intro _
      rw [e8, e9]
    · intro d hd1 hd2
      rw [e8] at hd2
      omega
  | reset s H _ ih =>
    obtain ⟨st, hs, -, -, -, h8, h15⟩ := ih
    obtain ⟨st1, r1, r2, r3, r4, r5⟩ := reset_window s st hs h15
    exact ⟨st1, r1, r2, r3, r4, by rw [r5]; exact h8, by rw [r5]; exact h15⟩
  | call s s1 k fuel r H _ hk hcall ih =>
    obtain ⟨st, hs, hR, hLS, h32, h8, h15⟩ := ih
    obtain ⟨O, st1, a1, -, a3, a4, -, a6, a7, a8, -⟩ :=
      call_window E hE hF hT fuel (supply s k) s1 st k.flush r H hs hLS hR h32 hk hcall
    have hw : written k s1 = O := written_append k s1 O a1
    refine ⟨st1, a3, ?_, a4, by rw [a7]; exact h32, by rw [a6]; exact h8, by rw [a6]; exact h15⟩
    unfold entered
    rw [hw]
    exact a8
  | incomp s next_in avail_in H _ hn ih =>
    obtain ⟨st, hs, hR, hLS, h32, h8, h15⟩ := ih
    obtain ⟨st1, i1, i2, i3, i4, i5⟩ :=
      incomp_window { s with next_in := next_in, avail_in := avail_in } st H hs hn hR hLS h32
    exact ⟨st1, i1, i2, i3, by rw [i4]; exact h32, by rw [i5]; exact h8, by rw [i5]; exact h15⟩

/-! ## The decode in pieces on the track of the decode in one call -/

lemma CODELENS_tail_pre (E : Ext) (c : Cfg) :
    CODELENS_tail E c = (CODELENS_pre E c).run (case_LEN E) := by
  unfold CODELENS_tail CODELENS_pre
  by_cases h1 : c.state.mode = BAD
  · simp [h1, Pre.run]
  · simp only [h1, if_false]
    split_ifs <;> simp [Pre.run]

lemma case_CODELENS_pre_eq (E : Ext) (c : Cfg) :
    case_CODELENS E c = (case_CODELENS_pre E c).run (case_LEN E) := by
  unfold case_CODELENS case_CODELENS_pre
  rcases codelens_loop (add32 c.state.nlen c.state.ndist) c with ⟨_ | _, c1⟩
  · rfl
  · exact CODELENS_tail_pre E _

lemma LENLENS_tail_pre (E : Ext) (c : Cfg) :
    LENLENS_tail E c = (LENLENS_pre E c).run (case_LEN E) := by
  unfold LENLENS_tail LENLENS_pre
  simp only []
  split_ifs
  · simp [Pre.run]
  · exact case_CODELENS_pre_eq E _

lemma case_LENLENS_pre_eq (E : Ext) (c : Cfg) :
    case_LENLENS E c = (case_LENLENS_pre E c).run (case_LEN E) := by
  unfold case_LENLENS case_LENLENS_pre
  rcases lenlens_loop c.state.ncode c with ⟨_ | _, c1⟩
  · rfl
  · exact LENLENS_tail_pre E _

lemma case_TABLE_pre_eq (E : Ext) (c : Cfg) :
    case_TABLE E c = (case_TABLE_pre E c).run (case_LEN E) := by
  unfold case_TABLE case_TABLE_pre
  rcases NEEDBITS 14 c with ⟨_ | _, c1⟩
  · rfl
  · simp only []
    split_ifs
    · simp [Pre.run]
    · exact case_LENLENS_pre_eq E _

lemma case_LEN_eq (E : Ext) (c : Cfg) :
    case_LEN E c = if c.have_ ≥ 6 ∧ c.left ≥ 258 then
      .cont (LOAD (E.inflate_fast (RESTORE c).strm (RESTORE c).state (RESTORE c).out).1
        (E.inflate_fast (RESTORE c).strm (RESTORE c).state (RESTORE c).out).2 (RESTORE c))
      else case_LEN_slow c := rfl

lemma NEEDBITS_loop_pull (n : Nat) : ∀ fuel c,
    NEEDBITS_loop fuel n c = pullUntil (stopBits n) fuel c := by
  intro fuel
  induction fuel with
  | zero => intro c; rfl
  | succ f ih =>
    intro c
    unfold NEEDBITS_loop pullUntil
    by_cases h : c.bits < n
    · simp only [h, if_true, stopBits, not_true_eq_false, decide_False, Bool.false_eq_true,
        if_false]
      cases PULLBYTE c with
      | none => rfl
      | some c1 => exact ih c1
    · simp [h, stopBits]

lemma code_loop_pull (table : List code) (n : Nat) : ∀ fuel c,
    code_loop table n fuel c =
      match pullUntil (stopCode table n) fuel c with
      | (true, c1) => .got (table.getD (BITS c1 n) ⟨0, 0, 0⟩) c1
      | (false, c1) => .short c1 := by
  intro fuel
  induction fuel with
  | zero => intro c; rfl
  | succ f ih =>
    intro c
    unfold code_loop pullUntil
    by_cases h : (table.getD (BITS c n) ⟨0, 0, 0⟩).bits ≤ c.bits
    · rw [if_pos h, if_pos (show stopCode table n c = true from decide_eq_true h)]
    · rw [if_neg h, if_neg (show ¬ stopCode table n c = true from by
        unfold stopCode; rw [decide_eq_true_iff]; exact h)]
      cases PULLBYTE c with
      | none => rfl
      | some c1 => exact ih c1

lemma code_loop2_pull (table : List code) (last : code) : ∀ fuel c,
    code_loop2 table last fuel c =
      match pullUntil (stopCode2 table last) fuel c with
      | (true, c1) =>
        .got (table.getD (last.val + (BITS c1 (last.bits + last.op) >>> last.bits)) ⟨0, 0, 0⟩) c1
      | (false, c1) => .short c1 := by
  intro fuel
  induction fuel with
  | zero => intro c; rfl
  | succ f ih =>
    intro c
    unfold code_loop2 pullUntil
    by_cases h : last.bits +
        (table.getD (last.val + (BITS c (last.bits + last.op) >>> last.bits)) ⟨0, 0, 0⟩).bits ≤
          c.bits
    · rw [if_pos h, if_pos (show stopCode2 table last c = true from decide_eq_true h)]
    · rw [if_neg h, if_neg (show ¬ stopCode2 table last c = true from by
        unfold stopCode2; rw [decide_eq_true_iff]; exact h)]
      cases PULLBYTE c with
      | none => rfl
      | some c1 => exact ih c1

lemma stopBits_acc (n : Nat) : AccOnly (stopBits n) := by
  intro c C _ h2; simp [stopBits, h2]

lemma stopCode_acc (t : List code) (n : Nat) : AccOnly (stopCode t n) := by
  intro c C h1 h2; simp [stopCode, BITS, h1, h2]

lemma stopCode2_acc (t : List code) (l : code) : AccOnly (stopCode2 t l) := by
  intro c C h1 h2; simp [stopCode2, BITS, h1, h2]

lemma In.pull {I X : List Nat} {c C c1 : Cfg} (h : In I X c C) (hp : PULLBYTE c = some c1) :
    ∃ C1, PULLBYTE C = some C1 ∧ In I X c1 C1 := by
  obtain ⟨h1, h2, U, l, hU, h3, h4, h5, h6⟩ := h
  unfold PULLBYTE at hp ⊢
  by_cases h0 : c.have_ = 0
  · simp [h0] at hp
  · rw [if_neg h0] at hp
    cases hp
    have hl : l ≠ [] := by
      intro e; subst e; simp at h4; exact h0 h4
    obtain ⟨b, l', rfl⟩ := List.exists_cons_of_ne_nil hl
    rw [if_neg (by rw [h6]; simp)]
    refine ⟨_, rfl, ?_, ?_, U ++ [b], l', ?_, ?_, ?_, ?_, ?_⟩
    · simp only [h1, h2, h3, h5, Option.getD_some, List.cons_append, List.headD_cons]
    · simp only [h2]
    · rw [hU]; simp
    · simp [h3]
    · simp [h4]
    · simp [h5]
    · simp [h6]

lemma pullUntil_fuel (stop : Cfg → Bool) : ∀ f c, c.have_ < f →
    pullUntil stop f c = pullUntil stop (c.have_ + 1) c := by
  intro f
  induction f with
  | zero => intro c h; omega
  | succ f ih =>
    intro c h
    unfold pullUntil
    by_cases hs : stop c = true
    · simp [hs]
    · simp only [hs, if_false, Bool.false_eq_true]
      cases hp : PULLBYTE c with
      | none => rfl
      | some c1 =>
        have h1 : c1.have_ = c.have_ - 1 ∧ c.have_ ≠ 0 := by
          unfold PULLBYTE at hp
          by_cases h0 : c.have_ = 0
          · simp [h0] at hp
          · rw [if_neg h0] at hp; cases hp; exact ⟨rfl, h0⟩
        simp only []
        rw [ih c1 (by omega)]
        have : c.have_ = c1.have_ + 1 := by omega
        rw [this]

/-- Pulling with the input of a piece against pulling with all the input: both
stop at the same byte, or the piece runs out and the whole input, taken up to
there, goes on as it would have. -/
lemma pullUntil_sim {I X : List Nat} (stop : Cfg → Bool) (hs : AccOnly stop) : ∀ f F c C, In I X c C →
    c.have_ < f → C.have_ < F →
    (∃ c1 C1, pullUntil stop f c = (true, c1) ∧ pullUntil stop F C = (true, C1) ∧
      In I X c1 C1 ∧ Acc c c1 ∧ Acc C C1 ∧ stop c1 = true) ∨
    (∃ c1 C2, pullUntil stop f c = (false, c1) ∧ c1.have_ = 0 ∧ In I X c1 C2 ∧ Acc c c1 ∧
      Acc C C2 ∧ stop c1 = false ∧
      pullUntil stop (C2.have_ + 1) C2 = pullUntil stop F C ∧
      (C2.have_ = 0 → pullUntil stop F C = (false, C2))) := by
  intro f
  induction f with
  | zero => intro F c C _ h; omega
  | succ f ih =>
    intro F c C hI hf hF
    obtain ⟨F, rfl⟩ : ∃ F', F = F' + 1 := ⟨F - 1, by omega⟩
    have hsc := hs c C hI.1 hI.2.1
    by_cases hst : stop c = true
    · left
      refine ⟨c, C, ?_, ?_, hI, Acc.arefl c, Acc.arefl C, hst⟩
      · unfold pullUntil; simp [hst]
      · unfold pullUntil; simp [← hsc, hst]
    · have hst' : stop c = false := by simpa using hst
      cases hp : PULLBYTE c with
      | none =>
        right
        have h0 : c.have_ = 0 := by
          unfold PULLBYTE at hp
          by_cases h0 : c.have_ = 0
          · exact h0
          · rw [if_neg h0] at hp; cases hp
        refine ⟨c, C, ?_, h0, hI, Acc.arefl c, Acc.arefl C, hst', ?_, ?_⟩
        · unfold pullUntil; simp [hst', hp]
        · exact (pullUntil_fuel stop _ C hF).symm
        · intro hC
          have : PULLBYTE C = none := by unfold PULLBYTE; simp [hC]
          unfold pullUntil; simp [← hsc, hst', this]
      | some c1 =>
        obtain ⟨C1, hP, hI1⟩ := hI.pull hp
        have hc1 : c1.have_ = c.have_ - 1 ∧ c.have_ ≠ 0 := by
          unfold PULLBYTE at hp
          by_cases h0 : c.have_ = 0
          · simp [h0] at hp
          · rw [if_neg h0] at hp; cases hp; exact ⟨rfl, h0⟩
        have hC1 : C1.have_ = C.have_ - 1 ∧ C.have_ ≠ 0 := by
          unfold PULLBYTE at hP
          by_cases h0 : C.have_ = 0
          · simp [h0] at hP
          · rw [if_neg h0] at hP; cases hP; exact ⟨rfl, h0⟩
        have e1 : pullUntil stop (f + 1) c = pullUntil stop f c1 := by
          conv_lhs => unfold pullUntil
          simp [hst', hp]
        have e2 : pullUntil stop (F + 1) C = pullUntil stop F C1 := by
          conv_lhs => unfold pullUntil
          simp [← hsc, hst', hP]
        rw [e1, e2]
        rcases ih F c1 C1 hI1 (by omega) (by omega) with
          ⟨c2, C2, a1, a2, a3, a4, a5, a6⟩ | ⟨c2, C2, a1, a2, a3, a4, a5, a6, a7, a8⟩
        · left
          exact ⟨c2, C2, a1, a2, a3, (PULLBYTE_acc hp).atrans a4, (PULLBYTE_acc hP).atrans a5, a6⟩
        · right
          exact ⟨c2, C2, a1, a2, a3, (PULLBYTE_acc hp).atrans a4, (PULLBYTE_acc hP).atrans a5,
            a6, a7, a8⟩
lemma NEEDBITS_sim {I X : List Nat} (n : Nat) (c C : Cfg) (hI : In I X c C) :
    (∃ c1 C1, NEEDBITS n c = (true, c1) ∧ NEEDBITS n C = (true, C1) ∧
      In I X c1 C1 ∧ Acc c c1 ∧ Acc C C1 ∧ n ≤ c1.bits) ∨
    (∃ c1 C2, NEEDBITS n c = (false, c1) ∧ c1.have_ = 0 ∧ In I X c1 C2 ∧ Acc c c1 ∧
      Acc C C2 ∧ NEEDBITS n C2 = NEEDBITS n C ∧
      (C2.have_ = 0 → NEEDBITS n C = (false, C2))) := by
  unfold NEEDBITS
  simp only [NEEDBITS_loop_pull]
  rcases pullUntil_sim (stopBits n) (stopBits_acc n) (c.have_ + 1) (C.have_ + 1) c C hI
    (by omega) (by omega) with
    ⟨c1, C1, a1, a2, a3, a4, a5, a6⟩ | ⟨c1, C2, a1, a2, a3, a4, a5, a6, a7, a8⟩
  · left
    refine ⟨c1, C1, a1, a2, a3, a4, a5, ?_⟩
    simpa [stopBits] using a6
  · right
    exact ⟨c1, C2, a1, a2, a3, a4, a5, a7, a8⟩

lemma code_loop_sim {I X : List Nat} (t : List code) (n : Nat) (c C : Cfg) (hI : In I X c C) :
    (∃ c1 C1, code_loop t n (c.have_ + 1) c = .got (t.getD (BITS c1 n) ⟨0, 0, 0⟩) c1 ∧
      code_loop t n (C.have_ + 1) C = .got (t.getD (BITS c1 n) ⟨0, 0, 0⟩) C1 ∧
      In I X c1 C1 ∧ Acc c c1 ∧ Acc C C1 ∧ (t.getD (BITS c1 n) ⟨0, 0, 0⟩).bits ≤ c1.bits) ∨
    (∃ c1 C2, code_loop t n (c.have_ + 1) c = .short c1 ∧ c1.have_ = 0 ∧ In I X c1 C2 ∧
      Acc c c1 ∧ Acc C C2 ∧
      code_loop t n (C2.have_ + 1) C2 = code_loop t n (C.have_ + 1) C ∧
      (C2.have_ = 0 → code_loop t n (C.have_ + 1) C = .short C2)) := by
  simp only [code_loop_pull]
  rcases pullUntil_sim (stopCode t n) (stopCode_acc t n) (c.have_ + 1) (C.have_ + 1) c C hI
    (by omega) (by omega) with
    ⟨c1, C1, a1, a2, a3, a4, a5, a6⟩ | ⟨c1, C2, a1, a2, a3, a4, a5, a6, a7, a8⟩
  · left
    refine ⟨c1, C1, ?_, ?_, a3, a4, a5, ?_⟩
    · rw [a1]
    · rw [a2]; simp only [BITS, a3.1]
    · simpa [stopCode] using a6
  · right
    refine ⟨c1, C2, ?_, a2, a3, a4, a5, ?_, ?_⟩
    · rw [a1]
    · rw [a7]
    · intro h; rw [a8 h]

lemma code_loop2_sim {I X : List Nat} (t : List code) (last : code) (c C : Cfg) (hI : In I X c C) :
    (∃ this c1 C1, code_loop2 t last (c.have_ + 1) c = .got this c1 ∧
      code_loop2 t last (C.have_ + 1) C = .got this C1 ∧
      In I X c1 C1 ∧ Acc c c1 ∧ Acc C C1) ∨
    (∃ c1 C2, code_loop2 t last (c.have_ + 1) c = .short c1 ∧ c1.have_ = 0 ∧ In I X c1 C2 ∧
      Acc c c1 ∧ Acc C C2 ∧
      code_loop2 t last (C2.have_ + 1) C2 = code_loop2 t last (C.have_ + 1) C ∧
      (C2.have_ = 0 → code_loop2 t last (C.have_ + 1) C = .short C2)) := by
  simp only [code_loop2_pull]
  rcases pullUntil_sim (stopCode2 t last) (stopCode2_acc t last) (c.have_ + 1) (C.have_ + 1)
    c C hI (by omega) (by omega) with
    ⟨c1, C1, a1, a2, a3, a4, a5, a6⟩ | ⟨c1, C2, a1, a2, a3, a4, a5, a6, a7, a8⟩
  · left
    refine ⟨t.getD (last.val + (BITS c1 (last.bits + last.op) >>> last.bits)) ⟨0, 0, 0⟩,
      c1, C1, ?_, ?_, a3, a4, a5⟩
    · rw [a1]
    · rw [a2]; simp only [BITS, a3.1]
  · right
    refine ⟨c1, C2, ?_, a2, a3, a4, a5, ?_, ?_⟩
    · rw [a1]
    · rw [a7]
    · intro h; rw [a8 h]

lemma In.drop {I X : List Nat} {c C : Cfg} (h : In I X c C) (n : Nat) : In I X (DROPBITS n c) (DROPBITS n C) := by
  obtain ⟨h1, h2, h3⟩ := h
  exact ⟨by simp [DROPBITS, h1], by simp [DROPBITS, h2], h3⟩

lemma In.bits {I X : List Nat} {c C : Cfg} (h : In I X c C) (n : Nat) : BITS c n = BITS C n := by
  simp [BITS, h.1]

lemma code_second_sim {I X : List Nat} (t : List code) (last : code) (c C : Cfg) (hI : In I X c C) :
    (∃ this c1 C1, code_second t last c = .got this (DROPBITS last.bits c1) ∧
      code_second t last C = .got this (DROPBITS last.bits C1) ∧
      In I X c1 C1 ∧ Acc c c1 ∧ Acc C C1) ∨
    (∃ c1 C2, code_second t last c = .short c1 ∧ c1.have_ = 0 ∧ In I X c1 C2 ∧
      Acc c c1 ∧ Acc C C2 ∧
      code_second t last C2 = code_second t last C ∧
      (C2.have_ = 0 → code_second t last C = .short C2)) := by
  unfold code_second
  rcases code_loop2_sim t last c C hI with
    ⟨this, c1, C1, a1, a2, a3, a4, a5⟩ | ⟨c1, C2, a1, a2, a3, a4, a5, a6, a7⟩
  · left
    exact ⟨this, c1, C1, by rw [a1], by rw [a2], a3, a4, a5⟩
  · right
    refine ⟨c1, C2, by rw [a1], a2, a3, a4, a5, by rw [a6], ?_⟩
    intro h; rw [a7 h]
lemma Fx.xrefl (st : inflate_state) : Fx st st := ⟨rfl, rfl, rfl, rfl, rfl, rfl⟩

lemma Qt.qrefl (c : Cfg) : Qt c c := ⟨rfl, rfl, rfl, rfl, Fx.xrefl _⟩

lemma Represents_fx {st st1 : inflate_state} {H : List Nat} (h : Fx st st1)
    (hR : Represents st H) : Represents st1 H := by
  unfold Represents at hR ⊢
  rw [h.wsize, h.whave, h.write, h.window]
  exact hR

/-- A step that writes nothing and keeps the window: the relation goes on. -/
lemma Rel.stepM {P H I X : List Nat} {ob OB : Nat} {c C c1 C1 : Cfg} (h : Rel P H I X ob OB c C)
    (hk : kind c.state.mode ≤ 1) (q : Qt c c1) (Q : Qt C C1) (hI : In I X c1 C1)
    (hv : view c1.state = view C1.state) (hk1 : kind c1.state.mode ≤ 1)
    (hk0 : kind c1.state.mode = 0 → kind c.state.mode = 0)
    (hls : LS c1.state) (ht : TabsP c1.state)
    (hd : c1.state.mode = MATCH →
      c1.state.offset ≤ c1.state.wsize ∧ c1.state.offset + C1.left ≤ C1.out) :
    Rel P H I X ob OB c1 C1 := by
  have hc := h.core hk
  refine ⟨by rw [q.put, Q.put]; exact h.put, congrArg View.mode hv,
    fun e => by omega, fun _ => ?_⟩
  refine ⟨hI, by rw [q.left, Q.left]; exact hc.left, by rw [q.ret, Q.ret]; exact hc.ret, hv, ?_,
    ?_, ⟨Represents_fx q.fx hc.win.1, Represents_fx Q.fx hc.win.2⟩, ?_, ?_, hls, ht, hd,
    by rw [q.out, Q.out]; exact hc.outs, by rw [q.fx.wsize]; exact hc.big⟩
  · obtain ⟨O, h1, h2, h3⟩ := hc.acct
    exact ⟨O, by rw [q.put]; exact h1, by rw [q.left, q.out]; exact h2,
      by rw [Q.left, Q.out]; exact h3⟩
  · rw [q.out, Q.out, q.fx.wsize]; exact hc.bnd
  · rw [q.fx.wrap, q.fx.check, Q.fx.check]; exact hc.chk
  · intro h0
    rw [q.put]
    exact hc.pre (hk0 h0)

/-- A step that writes nothing, keeps the window and does not end in MATCH. -/
lemma Rel.step {P H I X : List Nat} {ob OB : Nat} {c C c1 C1 : Cfg} (h : Rel P H I X ob OB c C)
    (hk : kind c.state.mode ≤ 1) (q : Qt c c1) (Q : Qt C C1) (hI : In I X c1 C1)
    (hv : view c1.state = view C1.state) (hk1 : kind c1.state.mode ≤ 1)
    (hk0 : kind c1.state.mode = 0 → kind c.state.mode = 0)
    (hls : LS c1.state) (ht : TabsP c1.state) (hd : c1.state.mode ≠ MATCH) :
    Rel P H I X ob OB c1 C1 :=
  h.stepM hk q Q hI hv hk1 hk0 hls ht (fun e => absurd e hd)

lemma Out.from {E : Ext} {f0 flush : Int} {P H I X : List Nat} {ob OB : Nat} {c c' : Cfg} {o O : Outcome}
    (h : Out E f0 flush P H I X ob OB c' o O) (hp : c'.put = c.put) (hl : c'.left = c.left) :
    Out E f0 flush P H I X ob OB c o O := by
  cases o with
  | cont c1 => unfold Out at h ⊢; rw [hp, hl] at h; exact h
  | leave c1 => unfold Out at h ⊢; rw [hp] at h; exact h
  | done r s => unfold Out at h ⊢; rw [hp] at h; exact h
lemma lenLive_vmode (m : inflate_mode) : lenLive (vmode m) = lenLive m := by
  cases m <;> rfl

lemma offLive_vmode (m : inflate_mode) : offLive (vmode m) = offLive m := by
  cases m <;> rfl

lemma extLive_vmode (m : inflate_mode) : extLive (vmode m) = extLive m := by
  cases m <;> rfl

lemma kind_vmode (m : inflate_mode) : kind (vmode m) = kind m := by
  cases m <;> rfl

lemma view_live {st ST : inflate_state} (hv : view st = view ST) :
    lenLive st.mode = lenLive ST.mode ∧ offLive st.mode = offLive ST.mode ∧
    extLive st.mode = extLive ST.mode ∧ kind st.mode = kind ST.mode := by
  have h : vmode st.mode = vmode ST.mode := congrArg View.mode hv
  refine ⟨?_, ?_, ?_, ?_⟩
  · rw [← lenLive_vmode, h, lenLive_vmode]
  · rw [← offLive_vmode, h, offLive_vmode]
  · rw [← extLive_vmode, h, extLive_vmode]
  · rw [← kind_vmode, h, kind_vmode]

/-- Setting the mode keeps the views equal when the fields the new mode uses
are equal. -/
lemma view_mode {st ST : inflate_state} (m : inflate_mode) (hv : view st = view ST)
    (hl : lenLive m = true → st.length = ST.length)
    (ho : offLive m = true → st.offset = ST.offset)
    (he : extLive m = true → st.extra = ST.extra) :
    view { st with mode := m } = view { ST with mode := m } := by
  have h1 := congrArg View.last hv
  have h2 := congrArg View.wrap hv
  have h3 := congrArg View.havedict hv
  have h4 := congrArg View.wbits hv
  have h5 := congrArg View.wsize hv
  have h6 := congrArg View.lencode hv
  have h7 := congrArg View.distcode hv
  have h8 := congrArg View.lenbits hv
  have h9 := congrArg View.distbits hv
  have h10 := congrArg View.ncode hv
  have h11 := congrArg View.nlen hv
  have h12 := congrArg View.ndist hv
  have h13 := congrArg View.have_ hv
  have h14 := congrArg View.lens hv
  simp only [view] at h1 h2 h3 h4 h5 h6 h7 h8 h9 h10 h11 h12 h13 h14
  simp only [view, h1, h2, h3, h4, h5, h6, h7, h8, h9, h10, h11, h12, h13, h14, View.mk.injEq,
    true_and]
  refine ⟨?_, ?_, ?_⟩
  · by_cases h : lenLive m = true
    · simp [h, hl h]
    · simp [h]
  · by_cases h : offLive m = true
    · simp [h, ho h]
    · simp [h]
  · by_cases h : extLive m = true
    · simp [h, he h]
    · simp [h]

lemma view_length_eq {st ST : inflate_state} (hv : view st = view ST)
    (h : lenLive st.mode = true) : st.length = ST.length := by
  have := congrArg View.length hv
  simp only [view] at this
  rwa [if_pos h, if_pos ((view_live hv).1 ▸ h)] at this

lemma view_offset_eq {st ST : inflate_state} (hv : view st = view ST)
    (h : offLive st.mode = true) : st.offset = ST.offset := by
  have := congrArg View.offset hv
  simp only [view] at this
  rwa [if_pos h, if_pos ((view_live hv).2.1 ▸ h)] at this

lemma view_extra_eq {st ST : inflate_state} (hv : view st = view ST)
    (h : extLive st.mode = true) : st.extra = ST.extra := by
  have := congrArg View.extra hv
  simp only [view] at this
  rwa [if_pos h, if_pos ((view_live hv).2.2.1 ▸ h)] at this

lemma view_last {st ST : inflate_state} (x : Nat) (hv : view st = view ST) :
    view { st with last := x } = view { ST with last := x } := by
  show ({ view st with last := x } : View) = { view ST with last := x }
  rw [hv]

lemma view_nlen {st ST : inflate_state} (x : Nat) (hv : view st = view ST) :
    view { st with nlen := x } = view { ST with nlen := x } := by
  show ({ view st with nlen := x } : View) = { view ST with nlen := x }
  rw [hv]

lemma view_ndist {st ST : inflate_state} (x : Nat) (hv : view st = view ST) :
    view { st with ndist := x } = view { ST with ndist := x } := by
  show ({ view st with ndist := x } : View) = { view ST with ndist := x }
  rw [hv]

lemma view_ncode {st ST : inflate_state} (x : Nat) (hv : view st = view ST) :
    view { st with ncode := x } = view { ST with ncode := x } := by
  show ({ view st with ncode := x } : View) = { view ST with ncode := x }
  rw [hv]

lemma view_have {st ST : inflate_state} (x : Nat) (hv : view st = view ST) :
    view { st with have_ := x } = view { ST with have_ := x } := by
  show ({ view st with have_ := x } : View) = { view ST with have_ := x }
  rw [hv]

lemma view_lens {st ST : inflate_state} (x : List Nat) (hv : view st = view ST) :
    view { st with lens := x } = view { ST with lens := x } := by
  show ({ view st with lens := x } : View) = { view ST with lens := x }
  rw [hv]

lemma view_lencode {st ST : inflate_state} (x : List code) (n : Nat) (hv : view st = view ST) :
    view { st with lencode := x, lenbits := n } = view { ST with lencode := x, lenbits := n } := by
  show ({ view st with lencode := x, lenbits := n } : View) =
    { view ST with lencode := x, lenbits := n }
  rw [hv]

lemma view_distcode {st ST : inflate_state} (x : List code) (n : Nat) (hv : view st = view ST) :
    view { st with distcode := x, distbits := n } =
      view { ST with distcode := x, distbits := n } := by
  show ({ view st with distcode := x, distbits := n } : View) =
    { view ST with distcode := x, distbits := n }
  rw [hv]

lemma view_length {st ST : inflate_state} (x : Nat) (hv : view st = view ST) :
    view { st with length := x } = view { ST with length := x } := by
  show ({ view st with length := if lenLive st.mode then x else 0 } : View) =
    { view ST with length := if lenLive ST.mode then x else 0 }
  rw [hv, (view_live hv).1]

lemma view_offset {st ST : inflate_state} (x : Nat) (hv : view st = view ST) :
    view { st with offset := x } = view { ST with offset := x } := by
  show ({ view st with offset := if offLive st.mode then x else 0 } : View) =
    { view ST with offset := if offLive ST.mode then x else 0 }
  rw [hv, (view_live hv).2.1]

lemma view_extra {st ST : inflate_state} (x : Nat) (hv : view st = view ST) :
    view { st with extra := x } = view { ST with extra := x } := by
  show ({ view st with extra := if extLive st.mode then x else 0 } : View) =
    { view ST with extra := if extLive ST.mode then x else 0 }
  rw [hv, (view_live hv).2.2.1]

lemma TabsP_plain (st : inflate_state) (h : acc_kind st.mode ≤ 1) : TabsP st :=
  ⟨fun g => absurd g (by omega), fun g => absurd g (by omega)⟩

lemma In.bytebits {I X : List Nat} {c C : Cfg} (h : In I X c C) : In I X (BYTEBITS c) (BYTEBITS C) := by
  obtain ⟨h1, h2, h3⟩ := h
  exact ⟨by simp [BYTEBITS, h1, h2], by simp [BYTEBITS, h2], h3⟩

lemma vmode_TYPEDO {m : inflate_mode} (h : vmode m = TYPEDO) : m = TYPE ∨ m = TYPEDO := by
  cases m <;> simp [vmode] at h ⊢

lemma vmode_eq {m M : inflate_mode} (h : vmode m = vmode M) (h1 : m ≠ TYPE) (h2 : m ≠ TYPEDO) :
    M = m := by
  cases m <;> cases M <;> simp [vmode] at h h1 h2 ⊢
lemma lenEntry_bits (s b : Nat) : (lenEntry s b).bits = b := by
  unfold lenEntry
  split_ifs <;> rfl

lemma lenfix_getD (i : Nat) (h : i < 512) :
    lenfix.getD i ⟨0, 0, 0⟩ =
      if bitrev 7 (i % 128) < 24 then lenEntry (256 + bitrev 7 (i % 128)) 7
      else if bitrev 8 (i % 256) < 192 then lenEntry (bitrev 8 (i % 256) - 48) 8
      else if bitrev 8 (i % 256) < 200 then lenEntry (280 + (bitrev 8 (i % 256) - 192)) 8
      else lenEntry (144 + (bitrev 9 i - 400)) 9 := by
  unfold lenfix
  rw [List.getD_eq_getElem?_getD, List.getElem?_map, List.getElem?_range h]
  rfl

lemma lenfix_bits (i : Nat) : (lenfix.getD i ⟨0, 0, 0⟩).bits ≤ 255 := by
  by_cases h : i < 512
  · rw [lenfix_getD i h]
    split_ifs <;> rw [lenEntry_bits] <;> omega
  · rw [List.getD_eq_default _ _ (by simp [lenfix]; omega)]
    simp

lemma lenfix_rep : PrefixTab lenfix 9 := by
  refine ⟨by omega, lenfix_bits, ?_⟩
  intro i j hi hj h
  have hi : i < 512 := hi
  have hj : j < 512 := hj
  rw [lenfix_getD i hi] at h ⊢
  rw [lenfix_getD j hj]
  by_cases h1 : bitrev 7 (i % 128) < 24
  · rw [if_pos h1] at h ⊢
    rw [lenEntry_bits] at h
    have e : j % 128 = i % 128 := h
    rw [e, if_pos h1]
  · rw [if_neg h1] at h ⊢
    by_cases h2 : bitrev 8 (i % 256) < 192
    · rw [if_pos h2] at h ⊢
      rw [lenEntry_bits] at h
      have e : j % 256 = i % 256 := h
      have e7 : j % 128 = i % 128 := by omega
      rw [e7, if_neg h1, e, if_pos h2]
    · rw [if_neg h2] at h ⊢
      by_cases h3 : bitrev 8 (i % 256) < 200
      · rw [if_pos h3] at h ⊢
        rw [lenEntry_bits] at h
        have e : j % 256 = i % 256 := h
        have e7 : j % 128 = i % 128 := by omega
        rw [e7, if_neg h1, e, if_neg h2, if_pos h3]
      · rw [if_neg h3] at h ⊢
        rw [lenEntry_bits] at h
        have e : j % 512 = i % 512 := h
        have e9 : j = i := by omega
        rw [e9, if_neg h1, if_neg h2, if_neg h3]

lemma distfix_getD (i : Nat) (h : i < 32) :
    distfix.getD i ⟨0, 0, 0⟩ =
      if bitrev 5 i < 30 then ⟨dext.getD (bitrev 5 i) 0, 5, dbase.getD (bitrev 5 i) 0⟩
      else ⟨64, 5, 0⟩ := by
  unfold distfix
  rw [List.getD_eq_getElem?_getD, List.getElem?_map, List.getElem?_range h]
  rfl

lemma distfix_rep : PrefixTab distfix 5 := by
  refine ⟨by omega, ?_, ?_⟩
  · intro i
    by_cases h : i < 32
    · rw [distfix_getD i h]
      split_ifs <;> simp
    · rw [List.getD_eq_default _ _ (by simp [distfix]; omega)]
      simp
  · intro i j hi hj h
    have hi : i < 32 := hi
    have hj : j < 32 := hj
    have hb : (distfix.getD i ⟨0, 0, 0⟩).bits = 5 := by
      rw [distfix_getD i hi]
      split_ifs <;> rfl
    rw [hb] at h
    have e : j % 32 = i % 32 := h
    have : j = i := by omega
    rw [this]
lemma sstep_TYPEDO (E : Ext) (f0 : Int) (hf0 : f0 ≠ Z_BLOCK) (C : Cfg)
    (hM : vmode C.state.mode = TYPEDO) : sstep E f0 C = case_TYPEDO C := by
  rcases vmode_TYPEDO hM with h | h
  · simp [sstep, step, h, case_TYPE, hf0]
  · simp [sstep, step, h]

lemma view_dead {st ST : inflate_state} (m : inflate_mode)
    (hd : lenLive m = false ∧ offLive m = false ∧ extLive m = false)
    (hv : view st = view ST) : view { st with mode := m } = view { ST with mode := m } :=
  view_mode m hv (fun e => by rw [hd.1] at e; cases e) (fun e => by rw [hd.2.1] at e; cases e)
    (fun e => by rw [hd.2.2] at e; cases e)

lemma LS_plain_at (st : inflate_state) (m : inflate_mode) (hm : st.mode = m)
    (h : acc_kind m ≤ 2) : LS st := LS_plain st (by rw [hm]; exact h)

lemma TabsP_plain_at (st : inflate_state) (m : inflate_mode) (hm : st.mode = m)
    (h : acc_kind m ≤ 1) : TabsP st := TabsP_plain st (by rw [hm]; exact h)

/-- Both decodes have found the stream bad. -/
lemma Rel.badmode {P H I X : List Nat} {ob OB : Nat} (c C : Cfg) (h : c.put = C.put) (hm : c.state.mode = BAD)
    (hM : C.state.mode = BAD) : Rel P H I X ob OB c C :=
  ⟨h, by rw [hm, hM], fun _ => hm, fun hk => by rw [hm] at hk; simp [kind] at hk⟩

lemma Out.aligned {E : Ext} {f0 flush : Int} {P H I X : List Nat} {ob OB : Nat} {c c1 C1 : Cfg}
    (hp : c.put <+: c1.put) (hr : Rel P H I X ob OB c1 C1) :
    Out E f0 flush P H I X ob OB c (.cont c1) (.cont C1) := ⟨hp, Or.inl ⟨C1, rfl, hr⟩⟩

/-- The relation after a step that writes nothing, keeps the window and ends
in a mode that uses none of `length`, `offset` and `extra`. -/
lemma Rel.to {P H I X : List Nat} {ob OB : Nat} {c C c1 C1 : Cfg} (m : inflate_mode) (h : Rel P H I X ob OB c C)
    (hk : kind c.state.mode ≤ 1) (q : Qt c c1) (Q : Qt C C1) (hI : In I X c1 C1)
    (hv : view c1.state = view C1.state) (hm : c1.state.mode = m)
    (hk1 : kind m = 1) (ha : acc_kind m ≤ 1) : Rel P H I X ob OB c1 C1 :=
  h.step hk q Q hI hv (by rw [hm, hk1]) (fun e => by rw [hm, hk1] at e; cases e)
    (LS_plain_at _ m hm (by omega)) (TabsP_plain_at _ m hm ha)
    (by rw [hm]; intro e; rw [e] at ha; simp [acc_kind] at ha)

/-- The relation after pulling bytes. -/
lemma Rel.acc {P H I X : List Nat} {ob OB : Nat} {c C c1 C1 : Cfg} (h : Rel P H I X ob OB c C)
    (hk : kind c.state.mode ≤ 1) (a : Acc c c1) (A : Acc C C1) (hI : In I X c1 C1) :
    Rel P H I X ob OB c1 C1 := by
  have hc := h.core hk
  refine ⟨by rw [a.2.2.1, A.2.2.1]; exact h.put, by rw [a.2.1, A.2.1]; exact h.mode,
    by rw [a.2.1]; exact h.good, fun _ => ?_⟩
  refine ⟨hI, by rw [a.2.2.2.1, A.2.2.2.1]; exact hc.left,
    by rw [a.2.2.2.2.2.2, A.2.2.2.2.2.2]; exact hc.ret, by rw [a.2.1, A.2.1]; exact hc.view, ?_,
    by rw [a.2.2.2.2.2.1, A.2.2.2.2.2.1, a.2.1]; exact hc.bnd,
    by rw [a.2.1, A.2.1]; exact hc.win, by rw [a.2.1, A.2.1]; exact hc.chk,
    by rw [a.2.1, a.2.2.1]; exact hc.pre, by rw [a.2.1]; exact hc.ls,
    by rw [a.2.1]; exact hc.tabs,
    by rw [a.2.1, A.2.2.2.1, A.2.2.2.2.2.1]; exact hc.dist,
    by rw [a.2.2.2.2.2.1, A.2.2.2.2.2.1]; exact hc.outs, by rw [a.2.1]; exact hc.big⟩
  obtain ⟨O, h1, h2, h3⟩ := hc.acct
  exact ⟨O, by rw [a.2.2.1]; exact h1, by rw [a.2.2.2.1, a.2.2.2.2.2.1]; exact h2,
    by rw [A.2.2.2.1, A.2.2.2.2.2.1]; exact h3⟩

/-- The outcome of a pass that ran out of input while pulling bytes. -/
lemma Out.short {E : Ext} {f0 flush : Int} {P H I X : List Nat} {ob OB : Nat} {c C c1 C2 : Cfg} {O : Outcome}
    (h : Rel P H I X ob OB c C) (hk : kind c.state.mode ≤ 1) (a : Acc c c1) (A : Acc C C2)
    (hI : In I X c1 C2) (h0 : c1.have_ = 0) (hs : sstep E f0 C2 = O)
    (hz : C2.have_ = 0 → O = .leave C2) :
    Out E f0 flush P H I X ob OB c (.leave c1) O := by
  refine ⟨by rw [a.2.2.1], Or.inl ⟨by rw [a.2.2.2.2.2.2]; exact (h.core hk).ret.1,
    by rw [a.2.1]; exact hk, C2, h.acc hk a A hI, hs, Or.inl ⟨h0, hz⟩⟩⟩

set_option maxRecDepth 100000 in
lemma case_TYPEDO_sim (E : Ext) (f0 flush : Int) (hf0 : f0 ≠ Z_BLOCK) (P H I X : List Nat) (ob OB : Nat)
    (c C : Cfg) (h : Rel P H I X ob OB c C) (hm : vmode c.state.mode = TYPEDO) :
    Out E f0 flush P H I X ob OB c (case_TYPEDO c) (case_TYPEDO C) := by
  have hk : kind c.state.mode ≤ 1 := by
    rcases vmode_TYPEDO hm with e | e <;> rw [e] <;> decide
  have hc := h.core hk
  have hlast : c.state.last = C.state.last := congrArg View.last hc.view
  have hM : vmode C.state.mode = TYPEDO := by rw [← h.mode]; exact hm
  unfold case_TYPEDO
  by_cases hl : c.state.last ≠ 0
  · rw [if_pos hl, if_pos (hlast ▸ hl)]
    exact Out.aligned List.prefix_rfl (h.to CHECK hk ⟨rfl, rfl, rfl, rfl, ⟨rfl, rfl, rfl, rfl, rfl, rfl⟩⟩
      ⟨rfl, rfl, rfl, rfl, ⟨rfl, rfl, rfl, rfl, rfl, rfl⟩⟩
      hc.inp.bytebits (view_dead CHECK (by decide) hc.view) rfl (by decide) (by decide))
  · rw [if_neg hl, if_neg (hlast ▸ hl)]
    rcases NEEDBITS_sim 3 c C hc.inp with
      ⟨c1, C1, a1, a2, a3, a4, a5, -⟩ | ⟨c1, C2, a1, a2, a3, a4, a5, a6, a7⟩
    · rw [a1, a2]
      have h1 : Rel P H I X ob OB c1 C1 := h.acc hk a4 a5 a3
      have hk' : kind c1.state.mode ≤ 1 := by rw [a4.2.1]; exact hk
      have hc1 := h1.core hk'
      have hb1 : BITS c1 1 = BITS C1 1 := a3.bits 1
      have hb2 : BITS (DROPBITS 1 { c1 with state := { c1.state with last := BITS c1 1 } }) 2 =
          BITS (DROPBITS 1 { C1 with state := { C1.state with last := BITS C1 1 } }) 2 := by
        simp only [BITS, DROPBITS, a3.1]
      simp only []
      rw [← hb2, ← hb1]
      have hp : c.put <+: c1.put := by rw [a4.2.2.1]
      have hv1 := view_last (BITS c1 1) hc1.view
      split_ifs
      · exact Out.aligned hp (h1.to STORED hk' ⟨rfl, rfl, rfl, rfl, ⟨rfl, rfl, rfl, rfl, rfl, rfl⟩⟩
          ⟨rfl, rfl, rfl, rfl, ⟨rfl, rfl, rfl, rfl, rfl, rfl⟩⟩
          ((a3.drop 1).drop 2) (view_dead STORED (by decide) hv1) rfl (by decide) (by decide))
      · refine Out.aligned hp (h1.step hk' ⟨rfl, rfl, rfl, rfl, ⟨rfl, rfl, rfl, rfl, rfl, rfl⟩⟩
          ⟨rfl, rfl, rfl, rfl, ⟨rfl, rfl, rfl, rfl, rfl, rfl⟩⟩
          ((a3.drop 1).drop 2)
          (view_dead LEN (by decide) (view_distcode distfix 5 (view_lencode lenfix 9 hv1)))
          (by show kind LEN ≤ 1; decide)
          (fun e => by simp [DROPBITS, kind] at e)
          (LS_len _ (Or.inl rfl) lenfix_lentab)
          ⟨fun _ => lenfix_rep, fun _ => distfix_rep⟩ (by simp [DROPBITS]))
      · exact Out.aligned hp (h1.to TABLE hk' ⟨rfl, rfl, rfl, rfl, ⟨rfl, rfl, rfl, rfl, rfl, rfl⟩⟩
          ⟨rfl, rfl, rfl, rfl, ⟨rfl, rfl, rfl, rfl, rfl, rfl⟩⟩
          ((a3.drop 1).drop 2) (view_dead TABLE (by decide) hv1) rfl (by decide) (by decide))
      · exact Out.aligned hp (Rel.badmode _ _ h1.put rfl rfl)
    · rw [a1]
      refine Out.short h hk a4 a5 a3 a2 ?_ ?_
      · rw [sstep_TYPEDO E f0 hf0 C2 (by rw [a5.2.1]; exact hM)]
        unfold case_TYPEDO
        rw [a5.2.1, a6, if_neg (hlast ▸ hl)]
      · intro h0
        rw [a7 h0]
/-- A step before the header is done: the checksum may be set, to the same
value in both decodes. -/
lemma Rel.step0 {P H I X : List Nat} {ob OB : Nat} {c C c1 C1 : Cfg} (m : inflate_mode) (h : Rel P H I X ob OB c C)
    (hk0 : kind c.state.mode = 0) (q : Qt0 c c1) (Q : Qt0 C C1) (hI : In I X c1 C1)
    (hv : view c1.state = view C1.state)
    (hch : c1.state.wrap ≠ 0 → c1.state.check = C1.state.check)
    (hm : c1.state.mode = m) (hk1 : kind m ≤ 1) (ha : acc_kind m ≤ 1) : Rel P H I X ob OB c1 C1 := by
  have hc := h.core (by omega)
  obtain ⟨hH, hP⟩ := hc.pre hk0
  refine ⟨by rw [q.put, Q.put]; exact h.put, congrArg View.mode hv,
    fun e => by rw [hm] at e; omega, fun _ => ?_⟩
  refine ⟨hI, by rw [q.left, Q.left]; exact hc.left, by rw [q.ret, Q.ret]; exact hc.ret, hv, ?_,
    by rw [q.out, Q.out, q.wsize]; exact hc.bnd, ⟨?_, ?_⟩, ?_, ?_,
    LS_plain_at _ m hm (by omega), TabsP_plain_at _ m hm ha,
    by rw [hm]; intro e; rw [e] at ha; simp [acc_kind] at ha,
    by rw [q.out, Q.out]; exact hc.outs, by rw [q.wsize]; exact hc.big⟩
  · obtain ⟨O, h1, h2, h3⟩ := hc.acct
    exact ⟨O, by rw [q.put]; exact h1, by rw [q.left, q.out]; exact h2,
      by rw [Q.left, Q.out]; exact h3⟩
  · have := hc.win.1
    unfold Represents at this ⊢
    rw [q.wsize, q.whave, q.write, q.window]
    exact this
  · have := hc.win.2
    unfold Represents at this ⊢
    rw [Q.wsize, Q.whave, Q.write, Q.window]
    exact this
  · intro hw
    exact Or.inl ⟨hH, hch hw⟩
  · intro _
    rw [q.put]
    exact ⟨hH, hP⟩

lemma Rel.tr_eq {P H I X : List Nat} {ob OB : Nat} {c C : Cfg} (h : Rel P H I X ob OB c C) (hk : kind c.state.mode ≤ 1)
    (bl bo be : Bool) (hl : bl = true → lenLive c.state.mode = true)
    (ho : bo = true → offLive c.state.mode = true)
    (he : be = true → extLive c.state.mode = true) :
    C = tr bl bo be c C := by
  have hc := h.core hk
  have hv := hc.view
  have h1 := congrArg View.last hv
  have h2 := congrArg View.wrap hv
  have h3 := congrArg View.havedict hv
  have h4 := congrArg View.wbits hv
  have h5 := congrArg View.wsize hv
  have h6 := congrArg View.lencode hv
  have h7 := congrArg View.distcode hv
  have h8 := congrArg View.lenbits hv
  have h9 := congrArg View.distbits hv
  have h10 := congrArg View.ncode hv
  have h11 := congrArg View.nlen hv
  have h12 := congrArg View.ndist hv
  have h13 := congrArg View.have_ hv
  have h14 := congrArg View.lens hv
  simp only [view] at h1 h2 h3 h4 h5 h6 h7 h8 h9 h10 h11 h12 h13 h14
  have e1 : (bif bl then c.state.length else C.state.length) = C.state.length := by
    cases bl
    · rfl
    · exact view_length_eq hv (hl rfl)
  have e2 : (bif bo then c.state.offset else C.state.offset) = C.state.offset := by
    cases bo
    · rfl
    · exact view_offset_eq hv (ho rfl)
  have e3 : (bif be then c.state.extra else C.state.extra) = C.state.extra := by
    cases be
    · rfl
    · exact view_extra_eq hv (he rfl)
  unfold tr
  rw [e1, e2, e3, h1, h2, h3, h4, h5, h6, h7, h8, h9, h10, h11, h12, h13, h14, hc.inp.1,
    hc.inp.2.1, h.put]

/-- The relation with the second locals written as `tr` has them. -/
lemma Rel.tr_rel {P H I X : List Nat} {ob OB : Nat} {c C : Cfg} (h : Rel P H I X ob OB c C) (hk : kind c.state.mode ≤ 1)
    (bl bo be : Bool) (hl : bl = true → lenLive c.state.mode = true)
    (ho : bo = true → offLive c.state.mode = true)
    (he : be = true → extLive c.state.mode = true) :
    Rel P H I X ob OB c (tr bl bo be c C) := by
  rw [← h.tr_eq hk bl bo be hl ho he]
  exact h

lemma BITS_eq (c : Cfg) (n : Nat) : BITS c n = bitsOf c.hold n := by
  unfold BITS bitsOf
  rfl

lemma tr_proj (bl bo be : Bool) (c C : Cfg) :
    (tr bl bo be c C).hold = c.hold ∧ (tr bl bo be c C).bits = c.bits ∧
    (tr bl bo be c C).put = c.put ∧ (tr bl bo be c C).left = C.left ∧
    (tr bl bo be c C).have_ = C.have_ ∧ (tr bl bo be c C).next = C.next ∧
    (tr bl bo be c C).out = C.out ∧ (tr bl bo be c C).ret = C.ret ∧
    (tr bl bo be c C).state.mode = C.state.mode ∧
    (tr bl bo be c C).state.last = c.state.last ∧
    (tr bl bo be c C).state.wrap = c.state.wrap ∧
    (tr bl bo be c C).state.havedict = c.state.havedict ∧
    (tr bl bo be c C).state.wbits = c.state.wbits ∧
    (tr bl bo be c C).state.wsize = c.state.wsize ∧
    (tr bl bo be c C).state.lencode = c.state.lencode ∧
    (tr bl bo be c C).state.distcode = c.state.distcode ∧
    (tr bl bo be c C).state.lenbits = c.state.lenbits ∧
    (tr bl bo be c C).state.distbits = c.state.distbits ∧
    (tr bl bo be c C).state.ncode = c.state.ncode ∧
    (tr bl bo be c C).state.nlen = c.state.nlen ∧
    (tr bl bo be c C).state.ndist = c.state.ndist ∧
    (tr bl bo be c C).state.have_ = c.state.have_ ∧
    (tr bl bo be c C).state.lens = c.state.lens ∧
    (tr bl bo be c C).state.whave = C.state.whave ∧
    (tr bl bo be c C).state.write = C.state.write ∧
    (tr bl bo be c C).state.window = C.state.window ∧
    (tr bl bo be c C).state.check = C.state.check :=
  ⟨rfl, rfl, rfl, rfl, rfl, rfl, rfl, rfl, rfl, rfl, rfl, rfl, rfl, rfl, rfl, rfl, rfl, rfl, rfl,
    rfl, rfl, rfl, rfl, rfl, rfl, rfl, rfl⟩

lemma DROPBITS_proj (n : Nat) (c : Cfg) :
    (DROPBITS n c).hold = c.hold >>> n ∧ (DROPBITS n c).bits = sub32 c.bits n ∧
    (DROPBITS n c).state = c.state ∧ (DROPBITS n c).put = c.put ∧
    (DROPBITS n c).left = c.left ∧ (DROPBITS n c).have_ = c.have_ ∧
    (DROPBITS n c).next = c.next ∧ (DROPBITS n c).out = c.out ∧
    (DROPBITS n c).ret = c.ret :=
  ⟨rfl, rfl, rfl, rfl, rfl, rfl, rfl, rfl, rfl⟩

lemma sstep_of (E : Ext) (f0 : Int) (C : Cfg) (h1 : C.state.mode ≠ TABLE)
    (h2 : C.state.mode ≠ LENLENS) (h3 : C.state.mode ≠ CODELENS) (h4 : C.state.mode ≠ LEN) :
    sstep E f0 C = step E f0 C := by
  unfold sstep
  split <;> first | rfl | contradiction

set_option maxRecDepth 100000 in
lemma case_HEAD_sim (E : Ext) (f0 flush : Int) (P H I X : List Nat) (ob OB : Nat)
    (c C : Cfg) (h : Rel P H I X ob OB c C) (hm : c.state.mode = HEAD) :
    Out E f0 flush P H I X ob OB c (case_HEAD c) (case_HEAD C) := by
  have hk0 : kind c.state.mode = 0 := by rw [hm]; rfl
  have hk : kind c.state.mode ≤ 1 := by omega
  have hc := h.core hk
  have hM : C.state.mode = HEAD := by
    rw [vmode_eq h.mode (by rw [hm]; decide) (by rw [hm]; decide)]; exact hm
  have hwrap : c.state.wrap = C.state.wrap := congrArg View.wrap hc.view
  unfold case_HEAD
  by_cases hw : c.state.wrap = 0
  · rw [if_pos hw, if_pos (hwrap ▸ hw)]
    exact Out.aligned List.prefix_rfl (h.step0 TYPEDO hk0
      ⟨rfl, rfl, rfl, rfl, rfl, rfl, rfl, rfl, rfl⟩ ⟨rfl, rfl, rfl, rfl, rfl, rfl, rfl, rfl, rfl⟩
      hc.inp (view_dead TYPEDO (by decide) hc.view)
      (fun e => absurd hw e) rfl (by decide) (by decide))
  · rw [if_neg hw, if_neg (hwrap ▸ hw)]
    rcases NEEDBITS_sim 16 c C hc.inp with
      ⟨c1, C1, a1, a2, a3, a4, a5, -⟩ | ⟨c1, C2, a1, a2, a3, a4, a5, a6, a7⟩
    · rw [a1, a2]
      have h1 : Rel P H I X ob OB c1 C1 := h.acc hk a4 a5 a3
      have hk0' : kind c1.state.mode = 0 := by rw [a4.2.1]; exact hk0
      have hc1 := h1.core (by omega)
      have hp : c.put <+: c1.put := by rw [a4.2.2.1]
      have hk1 : kind c1.state.mode ≤ 1 := by omega
      rw [h1.tr_eq hk1 false false false (by simp) (by simp) (by simp)]
      have h2 := h1.tr_rel hk1 false false false (by simp) (by simp) (by simp)
      have hc2 := h2.core hk1
      have hvD := view_dead DICTID (by decide) hc2.view
      have hvT := view_dead TYPE (by decide) hc2.view
      simp only [BITS_eq, tr_proj, DROPBITS_proj]
      split_ifs with x1 x2 x3 <;> refine ⟨hp, Or.inl ⟨_, rfl, ?_⟩⟩
      · exact Rel.badmode _ _ rfl rfl rfl
      · exact Rel.badmode _ _ rfl rfl rfl
      · exact Rel.badmode _ _ rfl rfl rfl
      · exact h2.step0 DICTID hk0'
          ⟨rfl, rfl, rfl, rfl, rfl, rfl, rfl, rfl, rfl⟩
          ⟨rfl, rfl, rfl, rfl, rfl, rfl, rfl, rfl, rfl⟩
          ⟨rfl, rfl, a3.2.2⟩ hvD (fun _ => rfl) rfl
          (by decide) (by decide)
      · exact h2.step0 TYPE hk0'
          ⟨rfl, rfl, rfl, rfl, rfl, rfl, rfl, rfl, rfl⟩
          ⟨rfl, rfl, rfl, rfl, rfl, rfl, rfl, rfl, rfl⟩
          ⟨rfl, rfl, a3.2.2⟩ hvT (fun _ => rfl) rfl
          (by decide) (by decide)
    · rw [a1]
      refine Out.short h hk a4 a5 a3 a2 ?_ ?_
      · rw [sstep_of E f0 C2 (by rw [a5.2.1, hM]; decide) (by rw [a5.2.1, hM]; decide)
          (by rw [a5.2.1, hM]; decide) (by rw [a5.2.1, hM]; decide)]
        unfold step
        rw [a5.2.1, hM]
        simp only []
        unfold case_HEAD
        rw [a5.2.1, a6, if_neg (hwrap ▸ hw)]
      · intro h0
        rw [a7 h0]
lemma sstep_at (E : Ext) (f0 : Int) (C : Cfg) (m : inflate_mode) (hM : C.state.mode = m)
    (h : m ≠ TABLE ∧ m ≠ LENLENS ∧ m ≠ CODELENS ∧ m ≠ LEN) :
    sstep E f0 C = step E f0 C :=
  sstep_of E f0 C (by rw [hM]; exact h.1) (by rw [hM]; exact h.2.1) (by rw [hM]; exact h.2.2.1)
    (by rw [hM]; exact h.2.2.2)

lemma Rel.mode_eq {P H I X : List Nat} {ob OB : Nat} {c C : Cfg} (h : Rel P H I X ob OB c C) (m : inflate_mode)
    (hm : c.state.mode = m) (hn : m ≠ TYPE ∧ m ≠ TYPEDO) : C.state.mode = m := by
  rw [vmode_eq h.mode (by rw [hm]; exact hn.1) (by rw [hm]; exact hn.2)]
  exact hm

lemma case_TYPE_sim (E : Ext) (f0 flush : Int) (hf0 : f0 ≠ Z_BLOCK) (P H I X : List Nat) (ob OB : Nat)
    (c C : Cfg) (h : Rel P H I X ob OB c C) (hm : c.state.mode = TYPE) :
    Out E f0 flush P H I X ob OB c (case_TYPE flush c) (case_TYPEDO C) := by
  unfold case_TYPE
  by_cases hf : flush = Z_BLOCK
  · rw [if_pos hf]
    have hk : kind c.state.mode ≤ 1 := by rw [hm]; decide
    exact ⟨List.prefix_rfl, Or.inl ⟨(h.core hk).ret.1, hk, C, h,
      sstep_TYPEDO E f0 hf0 C (by rw [← h.mode, hm]; rfl), Or.inr (Or.inr ⟨hf, hm⟩)⟩⟩
  · rw [if_neg hf]
    exact case_TYPEDO_sim E f0 flush hf0 P H I X ob OB c C h (by rw [hm]; rfl)

lemma case_DICT_sim (E : Ext) (f0 flush : Int) (hf0 : f0 ≠ Z_BLOCK) (P H I X : List Nat) (ob OB : Nat)
    (c C : Cfg) (h : Rel P H I X ob OB c C) (hm : c.state.mode = DICT) :
    Out E f0 flush P H I X ob OB c (case_DICT flush c) (case_DICT f0 C) := by
  have hk0 : kind c.state.mode = 0 := by rw [hm]; rfl
  have hk : kind c.state.mode ≤ 1 := by omega
  have hc := h.core hk
  have hM : C.state.mode = DICT := h.mode_eq DICT hm (by decide)
  have hd : c.state.havedict = C.state.havedict := congrArg View.havedict hc.view
  have hS : sstep E f0 C = case_DICT f0 C := by
    rw [sstep_at E f0 C DICT hM (by decide)]
    unfold step
    rw [hM]
  generalize hO : case_DICT f0 C = O at hS ⊢
  unfold case_DICT
  by_cases x : c.state.havedict = 0
  · rw [if_pos x]
    refine ⟨c, C, rfl, rfl, hk0, h, hS, ?_, rfl⟩
    rw [← hO]
    unfold case_DICT
    rw [if_pos (hd ▸ x)]
  · rw [if_neg x]
    subst hO
    unfold case_DICT
    rw [if_neg (hd ▸ x)]
    have e : ∀ C' : Cfg, case_TYPE f0 C' = case_TYPEDO C' := by
      intro C'; unfold case_TYPE; rw [if_neg hf0]
    rw [e]
    have hv := view_dead TYPE (by decide) hc.view
    exact Out.from (case_TYPE_sim E f0 flush hf0 P H I X ob OB _ _
      (h.step0 TYPE hk0 ⟨rfl, rfl, rfl, rfl, rfl, rfl, rfl, rfl, rfl⟩
        ⟨rfl, rfl, rfl, rfl, rfl, rfl, rfl, rfl, rfl⟩ hc.inp hv (fun _ => rfl) rfl
        (by decide) (by decide)) rfl) rfl rfl

lemma case_DICTID_sim (E : Ext) (f0 flush : Int) (hf0 : f0 ≠ Z_BLOCK) (P H I X : List Nat) (ob OB : Nat)
    (c C : Cfg) (h : Rel P H I X ob OB c C) (hm : c.state.mode = DICTID) :
    Out E f0 flush P H I X ob OB c (case_DICTID flush c) (case_DICTID f0 C) := by
  have hk0 : kind c.state.mode = 0 := by rw [hm]; rfl
  have hk : kind c.state.mode ≤ 1 := by omega
  have hc := h.core hk
  have hM : C.state.mode = DICTID := h.mode_eq DICTID hm (by decide)
  have hS : ∀ C2, Acc C C2 → NEEDBITS 32 C2 = NEEDBITS 32 C →
      sstep E f0 C2 = case_DICTID f0 C := by
    intro C2 A hN
    rw [sstep_at E f0 C2 DICTID (by rw [A.2.1]; exact hM) (by decide)]
    unfold step
    rw [A.2.1, hM]
    simp only []
    unfold case_DICTID
    rw [hN]
  generalize hO : case_DICTID f0 C = O at hS ⊢
  unfold case_DICTID
  rcases NEEDBITS_sim 32 c C hc.inp with
    ⟨c1, C1, a1, a2, a3, a4, a5, -⟩ | ⟨c1, C2, a1, a2, a3, a4, a5, a6, a7⟩
  · rw [a1]
    subst hO
    unfold case_DICTID
    rw [a2]
    simp only []
    have h1 : Rel P H I X ob OB c1 C1 := h.acc hk a4 a5 a3
    have hk0' : kind c1.state.mode = 0 := by rw [a4.2.1]; exact hk0
    have hc1 := h1.core (by omega)
    rw [← a3.1]
    have hv := view_dead DICT (by decide) hc1.view
    exact Out.from (case_DICT_sim E f0 flush hf0 P H I X ob OB _ _
      (h1.step0 DICT hk0' ⟨rfl, rfl, rfl, rfl, rfl, rfl, rfl, rfl, rfl⟩
        ⟨rfl, rfl, rfl, rfl, rfl, rfl, rfl, rfl, rfl⟩ ⟨rfl, rfl, a3.2.2⟩ hv (fun _ => rfl) rfl
        (by decide) (by decide)) rfl) a4.2.2.1 a4.2.2.2.1
  · rw [a1]
    refine Out.short h hk a4 a5 a3 a2 (hS C2 a5 a6) ?_
    intro h0
    rw [← hO]
    unfold case_DICTID
    rw [a7 h0]

lemma Out.final {E : Ext} {f0 flush : Int} {P H I X : List Nat} {ob OB : Nat} {c c1 C1 : Cfg}
    (hp : c.put <+: c1.put) (hP : c1.put = C1.put) (m : inflate_mode) (hm : c1.state.mode = m)
    (hM : C1.state.mode = m) (hk : 2 ≤ kind m) (hg : kind m = 3 → m = BAD)
    (hr : c1.ret = Z_STREAM_END ∨ c1.ret = Z_DATA_ERROR) (hR : C1.ret = c1.ret)
    (hS : sstep E f0 C1 = .leave C1) :
    Out E f0 flush P H I X ob OB c (.leave c1) (.leave C1) :=
  ⟨hp, Or.inr ⟨hr, by rw [hm]; exact hk, C1, rfl,
    ⟨hP, by rw [hm, hM], fun e => by rw [hm] at e ⊢; exact hg e,
      fun e => by rw [hm] at e; omega⟩, hR, hS⟩⟩

lemma sstep_DONE_again (E : Ext) (f0 : Int) (C : Cfg) (hM : C.state.mode = DONE) :
    sstep E f0 { C with ret := Z_STREAM_END } = .leave { C with ret := Z_STREAM_END } := by
  rw [sstep_of E f0 _ (by rw [show ({ C with ret := Z_STREAM_END } : Cfg).state.mode = DONE from hM]; decide)
    (by rw [show ({ C with ret := Z_STREAM_END } : Cfg).state.mode = DONE from hM]; decide)
    (by rw [show ({ C with ret := Z_STREAM_END } : Cfg).state.mode = DONE from hM]; decide)
    (by rw [show ({ C with ret := Z_STREAM_END } : Cfg).state.mode = DONE from hM]; decide)]
  unfold step
  rw [show ({ C with ret := Z_STREAM_END } : Cfg).state.mode = DONE from hM]
  rfl

lemma sstep_BAD_again (E : Ext) (f0 : Int) (C : Cfg) (hM : C.state.mode = BAD) :
    sstep E f0 { C with ret := Z_DATA_ERROR } = .leave { C with ret := Z_DATA_ERROR } := by
  rw [sstep_of E f0 _ (by rw [show ({ C with ret := Z_DATA_ERROR } : Cfg).state.mode = BAD from hM]; decide)
    (by rw [show ({ C with ret := Z_DATA_ERROR } : Cfg).state.mode = BAD from hM]; decide)
    (by rw [show ({ C with ret := Z_DATA_ERROR } : Cfg).state.mode = BAD from hM]; decide)
    (by rw [show ({ C with ret := Z_DATA_ERROR } : Cfg).state.mode = BAD from hM]; decide)]
  unfold step
  rw [show ({ C with ret := Z_DATA_ERROR } : Cfg).state.mode = BAD from hM]
  rfl

lemma case_DONE_sim (E : Ext) (f0 flush : Int) (P H I X : List Nat) (ob OB : Nat) (c0 c C : Cfg)
    (hp0 : c0.put <+: c.put) (hp : c.put = C.put) (hm : c.state.mode = DONE)
    (hM : C.state.mode = DONE) :
    Out E f0 flush P H I X ob OB c0 (case_DONE c) (case_DONE C) :=
  Out.final hp0 hp DONE hm hM (by decide) (by decide) (Or.inl rfl) rfl
    (sstep_DONE_again E f0 C hM)

lemma case_BAD_sim (E : Ext) (f0 flush : Int) (P H I X : List Nat) (ob OB : Nat) (c0 c C : Cfg)
    (hp0 : c0.put <+: c.put) (hp : c.put = C.put) (hm : c.state.mode = BAD)
    (hM : C.state.mode = BAD) :
    Out E f0 flush P H I X ob OB c0 (case_BAD c) (case_BAD C) :=
  Out.final hp0 hp BAD hm hM (by decide) (by decide) (Or.inr rfl) rfl
    (sstep_BAD_again E f0 C hM)

/-- A step that writes the bytes `W` in both decodes. -/
lemma Rel.write {P H I X : List Nat} {ob OB : Nat} {c C c1 C1 : Cfg} (W : List Nat) (h : Rel P H I X ob OB c C)
    (hk : kind c.state.mode = 1)
    (hp : c1.put = c.put ++ W) (hP : C1.put = C.put ++ W)
    (hl : c1.left + W.length = c.left) (hL : C1.left + W.length = C.left)
    (ho : c1.out = c.out) (hO : C1.out = C.out) (hr : c1.ret = c.ret) (hR : C1.ret = C.ret)
    (fx : Fx c.state c1.state) (FX : Fx C.state C1.state) (hI : In I X c1 C1)
    (hv : view c1.state = view C1.state) (hk1 : kind c1.state.mode = 1)
    (hls : LS c1.state) (ht : TabsP c1.state)
    (hd : c1.state.mode = MATCH →
      c1.state.offset ≤ c1.state.wsize ∧ c1.state.offset + C1.left ≤ C1.out) :
    Rel P H I X ob OB c1 C1 := by
  have hc := h.core (by omega)
  refine ⟨by rw [hp, hP, h.put], congrArg View.mode hv, fun e => by omega, fun _ => ?_⟩
  refine ⟨hI, by have := hc.left; omega, by rw [hr, hR]; exact hc.ret, hv, ?_,
    by rw [ho, hO, fx.wsize]; exact hc.bnd,
    ⟨Represents_fx fx hc.win.1, Represents_fx FX hc.win.2⟩, ?_, fun e => by omega, hls, ht, hd,
    by rw [ho, hO]; exact hc.outs, by rw [fx.wsize]; exact hc.big⟩
  · obtain ⟨O, h1, h2, h3⟩ := hc.acct
    refine ⟨O ++ W, ?_, ?_, ?_⟩
    · rw [hp, h1]; simp
    · rw [ho, List.length_append]; omega
    · rw [hO, List.length_append]; omega
  · rw [fx.wrap, fx.check, FX.check]; exact hc.chk

lemma case_LIT_sim (E : Ext) (f0 flush : Int) (P H I X : List Nat) (ob OB : Nat)
    (c C : Cfg) (h : Rel P H I X ob OB c C) (hm : c.state.mode = LIT) :
    Out E f0 flush P H I X ob OB c (case_LIT c) (case_LIT C) := by
  have hk1 : kind c.state.mode = 1 := by rw [hm]; rfl
  have hk : kind c.state.mode ≤ 1 := by omega
  have hc := h.core hk
  have hM : C.state.mode = LIT := h.mode_eq LIT hm (by decide)
  have hlen : c.state.length = C.state.length := view_length_eq hc.view (by rw [hm]; rfl)
  have hS : sstep E f0 C = case_LIT C := by
    rw [sstep_at E f0 C LIT hM (by decide)]
    unfold step
    rw [hM]
  generalize hO : case_LIT C = O at hS ⊢
  unfold case_LIT
  by_cases x : c.left = 0
  · rw [if_pos x]
    refine ⟨List.prefix_rfl, Or.inl ⟨hc.ret.1, hk, C, h, hS, Or.inr (Or.inl ⟨x, ?_⟩)⟩⟩
    intro hC0
    rw [← hO]
    unfold case_LIT
    rw [if_pos hC0]
  · rw [if_neg x]
    subst hO
    unfold case_LIT
    have X : ¬ C.left = 0 := by have := hc.left; omega
    rw [if_neg X, ← hlen]
    refine ⟨⟨[c.state.length % 256], rfl⟩, Or.inl ⟨_, rfl, ?_⟩⟩
    have hv := view_dead LEN (by decide) hc.view
    have hT : LenTab c.state.lencode := hc.ls.1 (by rw [hm]; decide)
    have hP := hc.tabs
    exact h.write [c.state.length % 256] hk1 rfl (by show C.put ++ _ = _; rfl)
      (by show c.left - 1 + 1 = c.left; omega) (by show C.left - 1 + 1 = C.left; omega)
      rfl rfl rfl rfl ⟨rfl, rfl, rfl, rfl, rfl, rfl⟩ ⟨rfl, rfl, rfl, rfl, rfl, rfl⟩ hc.inp hv rfl
      (LS_len _ (Or.inl rfl) hT)
      ⟨fun _ => hP.1 (by rw [hm]; decide), fun _ => hP.2 (by rw [hm]; decide)⟩
      (fun e => by simp [Cfg.setMode] at e)
lemma zlib_adler32_some (a : Nat) (b : List Nat) : zlib_adler32 a (some b) = adler32_fold a b := by
  unfold zlib_adler32
  rfl

/-- The checksum that CHECK compares with the trailer is the same in both
decodes. -/
lemma CHECK_update_check {P H I X : List Nat} {ob OB : Nat} {c C : Cfg} (h : Rel P H I X ob OB c C)
    (hk : kind c.state.mode ≤ 1) (hw : c.state.wrap ≠ 0) :
    (CHECK_update c).state.check = (CHECK_update C).state.check := by
  have hc := h.core hk
  obtain ⟨O, h1, h2, h3⟩ := hc.acct
  obtain ⟨b1, b2, -⟩ := hc.bnd
  have e1 : sub32 c.out c.left = O.length := by
    rw [sub32_of_le (by omega) b1]; omega
  have e2 : sub32 C.out C.left = H.length + O.length := by
    rw [sub32_of_le (by omega) b2]; omega
  have hP : C.put = P ++ (H ++ O) := by rw [← h.put]; exact h1
  have r1 : readBack c.put O.length O.length = O := by
    rw [h1, ← List.append_assoc]
    exact readBack_append _ _
  have r2 : readBack C.put (H.length + O.length) (H.length + O.length) = H ++ O := by
    rw [hP, ← List.length_append]
    exact readBack_append _ _
  unfold CHECK_update
  simp only []
  rw [e1, e2, r1, r2, zlib_adler32_some, zlib_adler32_some]
  rcases hc.chk hw with ⟨g1, g2⟩ | ⟨g1, g2⟩
  · subst g1
    rw [g2]
    simp only [List.length_nil, Nat.zero_add, List.nil_append]
  · rw [g2]
    have hH : H.length ≠ 0 := by
      intro e; exact g1 (List.length_eq_zero.mp e)
    rw [if_pos (show H.length + O.length ≠ 0 by omega)]
    by_cases hO : O.length ≠ 0
    · rw [if_pos hO, adler32_fold_append]
    · rw [if_neg hO]
      have : O = [] := List.length_eq_zero.mp (by omega)
      rw [this, List.append_nil]

lemma case_CHECK_sim (E : Ext) (f0 flush : Int) (P H I X : List Nat) (ob OB : Nat)
    (c C : Cfg) (h : Rel P H I X ob OB c C) (hm : c.state.mode = CHECK) :
    Out E f0 flush P H I X ob OB c (case_CHECK c) (case_CHECK C) := by
  have hk1 : kind c.state.mode = 1 := by rw [hm]; rfl
  have hk : kind c.state.mode ≤ 1 := by omega
  have hc := h.core hk
  have hM : C.state.mode = CHECK := h.mode_eq CHECK hm (by decide)
  have hwrap : c.state.wrap = C.state.wrap := congrArg View.wrap hc.view
  have hS : ∀ C2, Acc C C2 → NEEDBITS 32 C2 = NEEDBITS 32 C → c.state.wrap ≠ 0 →
      sstep E f0 C2 = case_CHECK C := by
    intro C2 A hN hw
    rw [sstep_at E f0 C2 CHECK (by rw [A.2.1]; exact hM) (by decide)]
    unfold step
    rw [A.2.1, hM]
    simp only []
    unfold case_CHECK
    rw [A.2.1, hN, if_pos (hwrap ▸ hw), if_pos (hwrap ▸ hw)]
  generalize hO : case_CHECK C = O at hS ⊢
  unfold case_CHECK
  by_cases hw : c.state.wrap ≠ 0
  · rw [if_pos hw]
    rcases NEEDBITS_sim 32 c C hc.inp with
      ⟨c1, C1, a1, a2, a3, a4, a5, -⟩ | ⟨c1, C2, a1, a2, a3, a4, a5, a6, a7⟩
    · rw [a1]
      subst hO
      unfold case_CHECK
      rw [if_pos (hwrap ▸ hw), a2]
      simp only []
      have h1 : Rel P H I X ob OB c1 C1 := h.acc hk a4 a5 a3
      have hk' : kind c1.state.mode ≤ 1 := by rw [a4.2.1]; exact hk
      have e := CHECK_update_check h1 hk' (by rw [a4.2.1]; exact hw)
      have eh : (CHECK_update c1).hold = (CHECK_update C1).hold := a3.1
      have hp : c.put <+: c1.put := by rw [a4.2.2.1]
      unfold CHECK_tail
      rw [← e, ← eh]
      by_cases x : REVERSE (CHECK_update c1).hold ≠ (CHECK_update c1).state.check
      · rw [if_pos x, if_pos x]
        exact ⟨hp, Or.inl ⟨_, rfl, Rel.badmode _ _ h1.put rfl rfl⟩⟩
      · rw [if_neg x, if_neg x]
        exact case_DONE_sim E f0 flush P H I X ob OB c _ _ hp h1.put rfl rfl
    · rw [a1]
      refine Out.short h hk a4 a5 a3 a2 (hS C2 a5 a6 hw) ?_
      intro h0
      rw [← hO]
      unfold case_CHECK
      rw [if_pos (hwrap ▸ hw), a7 h0]
  · rw [if_neg hw]
    subst hO
    unfold case_CHECK
    rw [if_neg (hwrap ▸ hw)]
    exact case_DONE_sim E f0 flush P H I X ob OB c _ _ List.prefix_rfl h.put rfl rfl
/-- COPY with a block that is not finished: it copies as much as the input and
the output allow, and leaves when that is nothing. -/
lemma case_COPY_k (c : Cfg) (hlen : c.state.length ≠ 0) :
    (min (min c.state.length c.have_) c.left = 0 → case_COPY c = .leave c) ∧
    (min (min c.state.length c.have_) c.left ≠ 0 →
      case_COPY c = .cont (copied (min (min c.state.length c.have_) c.left) c)) := by
  have e1 : (if c.state.length > c.have_ then c.have_ else c.state.length) =
      min c.state.length c.have_ := by
    split_ifs <;> omega
  have e2 : (if min c.state.length c.have_ > c.left then c.left
      else min c.state.length c.have_) = min (min c.state.length c.have_) c.left := by
    split_ifs <;> omega
  unfold case_COPY copied
  simp only [e1, e2, if_pos hlen]
  constructor
  · intro h; rw [if_pos h]
  · intro h; rw [if_neg h]

lemma readFwd_take (l X : List Nat) (k : Nat) (h : k ≤ l.length) :
    readFwd (l ++ X) k = readFwd l k := by
  unfold readFwd
  rw [List.take_append_of_le_length h]
  have e1 : k - (l ++ X).length = 0 := by rw [List.length_append]; omega
  have e2 : k - l.length = 0 := by omega
  rw [e1, e2]

lemma readFwd_add (l : List Nat) (a b : Nat) (h : a + b ≤ l.length) :
    readFwd l a ++ readFwd (l.drop a) b = readFwd l (a + b) := by
  unfold readFwd
  have e1 : a - l.length = 0 := by omega
  have e2 : b - (l.drop a).length = 0 := by rw [List.length_drop]; omega
  have e3 : a + b - l.length = 0 := by omega
  rw [e1, e2, e3]
  simp only [List.replicate_zero, List.append_nil]
  rw [List.take_add]

lemma In.copy {I X : List Nat} {c C : Cfg} (h : In I X c C) (k : Nat) (hk : k ≤ c.have_) (c1 C1 : Cfg)
    (e1 : c1.hold = c.hold) (e2 : c1.bits = c.bits) (e3 : c1.next = c.next.map (List.drop k))
    (e4 : c1.have_ = c.have_ - k)
    (E1 : C1.hold = C.hold) (E2 : C1.bits = C.bits) (E3 : C1.next = C.next.map (List.drop k))
    (E4 : C1.have_ = C.have_ - k) : In I X c1 C1 := by
  obtain ⟨h1, h2, U, l, h0, h3, h4, h5, h6⟩ := h
  refine ⟨by rw [e1, E1, h1], by rw [e2, E2, h2], U ++ l.take k, l.drop k, ?_, ?_, ?_, ?_, ?_⟩
  · rw [h0, List.append_assoc, List.take_append_drop]
  · rw [e3, h3]; rfl
  · rw [e4, h4, List.length_drop]
  · rw [E3, h5]
    simp only [Option.map_some']
    rw [List.drop_append_of_le_length (by omega)]
  · rw [E4, h6, List.length_drop]; omega

lemma In.read {I X : List Nat} {c C : Cfg} (h : In I X c C) (k : Nat) (hk : k ≤ c.have_) :
    readFwd (C.next.getD []) k = readFwd (c.next.getD []) k := by
  obtain ⟨-, -, U, l, -, h3, h4, h5, -⟩ := h
  rw [h3, h5]
  exact readFwd_take l X k (by omega)

/-- Both decodes have copied `j` bytes of a stored block. -/
lemma Rel.copy_both {P H I X : List Nat} {ob OB : Nat} {c C : Cfg} (h : Rel P H I X ob OB c C) (hm : c.state.mode = COPY)
    (j : Nat) (h2 : j ≤ c.have_) (h3 : j ≤ c.left) :
    Rel P H I X ob OB (copied j c) (copied j C) := by
  have hk1 : kind c.state.mode = 1 := by rw [hm]; rfl
  have hc := h.core (by omega)
  have hlen : c.state.length = C.state.length := view_length_eq hc.view (by rw [hm]; rfl)
  have hleft := hc.left
  have hv : view (copied j c).state = view (copied j C).state := by
    have := view_length (c.state.length - j) hc.view
    show view { c.state with length := c.state.length - j } =
      view { C.state with length := C.state.length - j }
    rw [← hlen]; exact this
  have hr := hc.inp.read j h2
  have hI : In I X (copied j c) (copied j C) :=
    hc.inp.copy j h2 _ _ rfl rfl rfl rfl rfl rfl rfl rfl
  have l1 : (copied j c).left + (readFwd (c.next.getD []) j).length = c.left := by
    show c.left - j + (readFwd (c.next.getD []) j).length = c.left
    rw [readFwd_length]; omega
  have l2 : (copied j C).left + (readFwd (c.next.getD []) j).length = C.left := by
    show C.left - j + (readFwd (c.next.getD []) j).length = C.left
    rw [readFwd_length]; omega
  have p2 : (copied j C).put = C.put ++ readFwd (c.next.getD []) j := by
    show C.put ++ _ = _; rw [hr]
  exact h.write (readFwd (c.next.getD []) j) hk1 rfl p2 l1 l2 rfl rfl rfl rfl
    ⟨rfl, rfl, rfl, rfl, rfl, rfl⟩ ⟨rfl, rfl, rfl, rfl, rfl, rfl⟩ hI hv hk1
    (LS_plain_at _ COPY hm (by decide)) (TabsP_plain_at _ COPY hm (by decide))
    (fun e => absurd (e.symm.trans hm) (by decide))

/-- COPY after a part of what it can copy has been copied ends where COPY ends. -/
lemma case_COPY_resume (C : Cfg) (k K : Nat) (l : List Nat) (hn : C.next = some l)
    (hl : C.have_ = l.length)
    (hK : min (min C.state.length C.have_) C.left = K) (hk : k < K) :
    case_COPY (copied k C) = .cont (copied K C) := by
  have hL2 : (copied k C).state.length ≠ 0 := by
    show C.state.length - k ≠ 0
    omega
  have hmin : min (min (copied k C).state.length (copied k C).have_) (copied k C).left =
      K - k := by
    show min (min (C.state.length - k) (C.have_ - k)) (C.left - k) = K - k
    omega
  rw [(case_COPY_k (copied k C) hL2).2 (by rw [hmin]; omega), hmin]
  unfold copied
  simp only [hn, Option.map_some', Option.getD_some, List.drop_drop, List.append_assoc]
  rw [readFwd_add _ _ _ (by omega)]
  have e1 : k + (K - k) = K := by omega
  have e2 : C.have_ - k - (K - k) = C.have_ - K := by omega
  have e3 : C.left - k - (K - k) = C.left - K := by omega
  have e4 : C.state.length - k - (K - k) = C.state.length - K := by omega
  rw [e1, e2, e3, e4]

lemma case_COPY_sim (E : Ext) (f0 flush : Int) (P H I X : List Nat) (ob OB : Nat)
    (c C : Cfg) (h : Rel P H I X ob OB c C) (hm : c.state.mode = COPY) :
    Out E f0 flush P H I X ob OB c (case_COPY c) (case_COPY C) := by
  have hk1 : kind c.state.mode = 1 := by rw [hm]; rfl
  have hk : kind c.state.mode ≤ 1 := by omega
  have hc := h.core hk
  have hM : C.state.mode = COPY := h.mode_eq COPY hm (by decide)
  have hlen : c.state.length = C.state.length := view_length_eq hc.view (by rw [hm]; rfl)
  have hS : ∀ C2 : Cfg, C2.state.mode = COPY → sstep E f0 C2 = case_COPY C2 := by
    intro C2 hM2
    rw [sstep_at E f0 C2 COPY hM2 (by decide)]
    unfold step
    rw [hM2]
  obtain ⟨hh, hb, U, l, n0, n1, n2, n3, n4⟩ := hc.inp
  have hleft := hc.left
  by_cases h0 : c.state.length = 0
  · rw [case_COPY_done c h0, case_COPY_done C (hlen ▸ h0)]
    refine ⟨List.prefix_rfl, Or.inl ⟨_, rfl, ?_⟩⟩
    have hv := view_dead TYPE (by decide) hc.view
    exact h.to TYPE hk ⟨rfl, rfl, rfl, rfl, ⟨rfl, rfl, rfl, rfl, rfl, rfl⟩⟩
      ⟨rfl, rfl, rfl, rfl, ⟨rfl, rfl, rfl, rfl, rfl, rfl⟩⟩ hc.inp hv rfl (by decide) (by decide)
  · obtain ⟨k0, kp⟩ := case_COPY_k c h0
    obtain ⟨K0, Kp⟩ := case_COPY_k C (hlen ▸ h0)
    by_cases hz : min (min c.state.length c.have_) c.left = 0
    · rw [k0 hz]
      refine ⟨List.prefix_rfl, Or.inl ⟨hc.ret.1, hk, C, h, hS C hM, ?_⟩⟩
      by_cases hv0 : c.have_ = 0
      · refine Or.inl ⟨hv0, fun e => K0 (by rw [e]; simp)⟩
      · refine Or.inr (Or.inl ⟨by omega, fun e => K0 (by rw [e]; simp)⟩)
    · rw [kp hz]
      have hZ : min (min C.state.length C.have_) C.left ≠ 0 := by omega
      rw [Kp hZ]
      have hkK : min (min c.state.length c.have_) c.left ≤
          min (min C.state.length C.have_) C.left := by omega
      have hr := h.copy_both hm (min (min c.state.length c.have_) c.left) (by omega) (by omega)
      refine ⟨⟨_, rfl⟩, ?_⟩
      by_cases hal : min (min C.state.length C.have_) C.left =
          min (min c.state.length c.have_) c.left
      · left
        rw [hal]
        exact ⟨_, rfl, hr⟩
      · right
        refine ⟨_, hr, ?_, by
          show c.left - min (min c.state.length c.have_) c.left < c.left; omega⟩
        rw [hS (copied _ C) hM]
        exact case_COPY_resume C _ _ (l ++ X) n3 (by rw [n4, List.length_append]) rfl (by omega)
lemma BYTEBITS_acc (c : Cfg) : Acc c (BYTEBITS c) := ⟨rfl, rfl, rfl, rfl, rfl, rfl, rfl⟩

lemma sub32_lt (a b : Nat) : sub32 a b < 4294967296 := by
  unfold sub32
  exact Nat.mod_lt _ (by decide)

lemma add32_lt (a b : Nat) : add32 a b < 4294967296 := by
  unfold add32
  exact Nat.mod_lt _ (by decide)

lemma BYTEBITS_mod8 (c : Cfg) : (BYTEBITS c).bits % 8 = 0 ∧ (BYTEBITS c).bits < 4294967296 := by
  refine ⟨?_, sub32_lt _ _⟩
  show sub32 c.bits (c.bits &&& 7) % 8 = 0
  rw [and_7]
  unfold sub32
  have := Nat.mod_lt c.bits (show 0 < 4294967296 by decide)
  omega

lemma BYTEBITS_id (c : Cfg) (h8 : c.bits % 8 = 0) (hb : c.bits < 4294967296) :
    BYTEBITS c = c := by
  unfold BYTEBITS
  rw [and_7, h8]
  have : sub32 c.bits 0 = c.bits := by
    unfold sub32
    omega
  rw [this]
  rfl

lemma PULLBYTE_mod8 {c c1 : Cfg} (h : PULLBYTE c = some c1) :
    c1.bits % 8 = c.bits % 8 ∧ c1.bits < 4294967296 := by
  unfold PULLBYTE at h
  split at h
  · cases h
  · cases h
    refine ⟨?_, add32_lt _ _⟩
    show add32 c.bits 8 % 8 = c.bits % 8
    unfold add32
    omega

lemma pullUntil_mod8 (stop : Cfg → Bool) : ∀ f c, c.bits < 4294967296 →
    (pullUntil stop f c).2.bits % 8 = c.bits % 8 ∧ (pullUntil stop f c).2.bits < 4294967296 := by
  intro f
  induction f with
  | zero => intro c h; exact ⟨rfl, h⟩
  | succ f ih =>
    intro c h
    unfold pullUntil
    by_cases hs : stop c = true
    · rw [if_pos hs]; exact ⟨rfl, h⟩
    · rw [if_neg hs]
      cases hp : PULLBYTE c with
      | none => exact ⟨rfl, h⟩
      | some c1 =>
        obtain ⟨e1, e2⟩ := PULLBYTE_mod8 hp
        obtain ⟨i1, i2⟩ := ih c1 e2
        exact ⟨i1.trans e1, i2⟩

lemma NEEDBITS_mod8 (n : Nat) (c : Cfg) (h : c.bits < 4294967296) :
    (NEEDBITS n c).2.bits % 8 = c.bits % 8 ∧ (NEEDBITS n c).2.bits < 4294967296 := by
  unfold NEEDBITS
  rw [NEEDBITS_loop_pull]
  exact pullUntil_mod8 _ _ c h

lemma case_STORED_sim (E : Ext) (f0 flush : Int) (P H I X : List Nat) (ob OB : Nat)
    (c C : Cfg) (h : Rel P H I X ob OB c C) (hm : c.state.mode = STORED) :
    Out E f0 flush P H I X ob OB c (case_STORED c) (case_STORED C) := by
  have hk1 : kind c.state.mode = 1 := by rw [hm]; rfl
  have hk : kind c.state.mode ≤ 1 := by omega
  have hc := h.core hk
  have hM : C.state.mode = STORED := h.mode_eq STORED hm (by decide)
  have hS : ∀ C2, Acc C C2 → BYTEBITS C2 = C2 → NEEDBITS 32 C2 = NEEDBITS 32 (BYTEBITS C) →
      sstep E f0 C2 = case_STORED C := by
    intro C2 A hB hN
    rw [sstep_at E f0 C2 STORED (by rw [A.2.1]; exact hM) (by decide)]
    unfold step
    rw [A.2.1, hM]
    simp only []
    unfold case_STORED
    rw [hB, hN]
  generalize hO : case_STORED C = O at hS ⊢
  unfold case_STORED
  have hb := BYTEBITS_mod8 c
  have hN8 := NEEDBITS_mod8 32 (BYTEBITS c) hb.2
  rcases NEEDBITS_sim 32 (BYTEBITS c) (BYTEBITS C) hc.inp.bytebits with
    ⟨c1, C1, a1, a2, a3, a4, a5, -⟩ | ⟨c1, C2, a1, a2, a3, a4, a5, a6, a7⟩
  · rw [a1]
    subst hO
    unfold case_STORED
    rw [a2]
    simp only []
    have a4' := (BYTEBITS_acc c).atrans a4
    have a5' := (BYTEBITS_acc C).atrans a5
    have h1 : Rel P H I X ob OB c1 C1 := h.acc hk a4' a5' a3
    have hk' : kind c1.state.mode ≤ 1 := by rw [a4'.2.1]; exact hk
    have hp : c.put <+: c1.put := by rw [a4'.2.2.1]
    rw [h1.tr_eq hk' false false false (by simp) (by simp) (by simp)]
    have h2 := h1.tr_rel hk' false false false (by simp) (by simp) (by simp)
    have hc2 := h2.core hk'
    have hv := view_mode COPY (view_length (u32 c1.hold &&& 0xffff) hc2.view) (fun _ => rfl)
      (fun e => by simp [offLive] at e) (fun e => by simp [extLive] at e)
    simp only [tr_proj]
    by_cases x : c1.hold &&& 0xffff ≠ (c1.hold >>> 16) ^^^ 0xffff
    · rw [if_pos x, if_pos x]
      exact ⟨hp, Or.inl ⟨_, rfl, Rel.badmode _ _ rfl rfl rfl⟩⟩
    · rw [if_neg x, if_neg x]
      refine Out.from (case_COPY_sim E f0 flush P H I X ob OB _ _ ?_ rfl) a4'.2.2.1 a4'.2.2.2.1
      exact h2.step hk' ⟨rfl, rfl, rfl, rfl, ⟨rfl, rfl, rfl, rfl, rfl, rfl⟩⟩
        ⟨rfl, rfl, rfl, rfl, ⟨rfl, rfl, rfl, rfl, rfl, rfl⟩⟩ ⟨rfl, rfl, a3.2.2⟩ hv
        (by show kind COPY ≤ 1; decide) (fun e => by simp [Cfg.setMode, INITBITS, kind] at e)
        (LS_plain_at _ COPY rfl (by decide)) (TabsP_plain_at _ COPY rfl (by decide))
        (by simp [Cfg.setMode, INITBITS])
  · rw [a1]
    have a4' := (BYTEBITS_acc c).atrans a4
    have a5' := (BYTEBITS_acc C).atrans a5
    rw [a1] at hN8
    have hB : BYTEBITS C2 = C2 :=
      BYTEBITS_id C2 (by rw [← a3.2.1, hN8.1, hb.1]) (by rw [← a3.2.1]; exact hN8.2)
    refine Out.short h hk a4' a5' a3 a2 (hS C2 a5' hB a6) ?_
    intro h0
    rw [← hO]
    unfold case_STORED
    rw [a7 h0]

lemma lz_length (T : List Nat) (off n : Nat) : (lz T off n).length = n := by
  induction n with
  | zero => rfl
  | succ n ih => rw [lz, List.length_append, ih]; rfl

lemma lz_add (T : List Nat) (off a b : Nat) :
    lz T off (a + b) = lz T off a ++ lz (T ++ lz T off a) off b := by
  induction b with
  | zero => simp [lz]
  | succ b ih =>
    rw [← Nat.add_assoc, lz, ih, lz]
    simp only [List.append_assoc, List.length_append, lz_length, Nat.add_assoc]

/-- Bytes that obey the rule of a match are the bytes of the match. -/
lemma lz_unique (T : List Nat) (off : Nat) (hoff : 1 ≤ off) (hT : off ≤ T.length)
    (W : List Nat)
    (hrec : ∀ i, i < W.length → W.getD i 0 = (T ++ W).getD (T.length + i - off) 0) :
    W = lz T off W.length := by
  induction W using List.reverseRecOn with
  | nil => rfl
  | append_singleton W x ih =>
    have hW : W = lz T off W.length := by
      apply ih
      intro i hi
      have := hrec i (by rw [List.length_append]; simp; omega)
      rw [List.getD_append _ _ _ _ hi, ← List.append_assoc,
        List.getD_append _ _ _ _ (by rw [List.length_append]; omega)] at this
      exact this
    have hx := hrec W.length (by rw [List.length_append]; simp)
    rw [List.getD_append_right _ _ _ _ (le_refl _), Nat.sub_self, ← List.append_assoc,
      List.getD_append _ _ _ _ (by rw [List.length_append]; omega)] at hx
    simp only [List.getD_cons_zero] at hx
    rw [List.length_append, List.length_singleton, lz, ← hW, hx]

lemma lz_zero (T : List Nat) (n : Nat) : lz T 0 n = List.replicate n 0 := by
  induction n with
  | zero => rfl
  | succ n ih =>
    rw [lz, ih, List.replicate_succ']
    congr 2
    rw [List.getD_eq_default]
    rw [List.length_append, List.length_replicate]
    omega

lemma match_copy_zero (w : List Nat) (n : Nat) (put : List Nat) :
    match_copy w 0 n none put = put ++ List.replicate n 0 := by
  induction n generalizing put with
  | zero => simp [match_copy]
  | succ n ih =>
    rw [match_copy, ih]
    have : (below put 0).headD 0 = 0 := by
      unfold below
      simp
    rw [this, List.replicate_succ]
    simp
/-- MATCH reading from the output: it copies as much of the match as there is
room for. -/
lemma case_MATCH_out (c : Cfg) (O : List Nat) (hleft : c.left ≠ 0) (ho32 : c.out < 4294967296)
    (hO : c.left + O.length = c.out) (hoff : c.state.offset ≤ O.length) :
    case_MATCH c = .cont { c with
      left := c.left - min c.state.length c.left,
      put := match_copy c.state.window c.state.offset
        (if min c.state.length c.left = 0 then 4294967296 else min c.state.length c.left)
        none c.put,
      state := { c.state with
        length := c.state.length - min c.state.length c.left,
        mode := if c.state.length - min c.state.length c.left = 0 then LEN
          else c.state.mode } } := by
  have hsub : sub32 c.out c.left = O.length := by
    rw [sub32_of_le (by omega) ho32]
    omega
  have hs : match_source c = (none, c.state.length) := by
    unfold match_source
    simp only [hsub]
    rw [if_neg (by omega)]
  have e : (if c.state.length > c.left then c.left else c.state.length) =
      min c.state.length c.left := by
    split_ifs <;> omega
  unfold case_MATCH
  rw [if_neg hleft]
  simp only [hs, e]

/-- One pass through MATCH: it writes the first `k` bytes of what the match adds
to the output so far, which is all it has room for when the match reads from
the output of this call. -/
lemma case_MATCH_lz (c : Cfg) (H P0 O : List Nat)
    (hlen : 1 ≤ c.state.length) (hleft : 1 ≤ c.left) (ho32 : c.out < 4294967296)
    (hput : c.put = P0 ++ (H ++ O)) (hO : c.left + O.length = c.out)
    (hoffT : c.state.offset ≤ H.length + O.length)
    (hoff2 : c.state.offset ≤ c.state.whave + O.length)
    (hR : Represents c.state H) (hws : c.state.wsize < 4294967296) :
    ∃ k, 1 ≤ k ∧ k ≤ min c.state.length c.left ∧
      (c.state.offset ≤ O.length → k = min c.state.length c.left) ∧
      case_MATCH c = .cont (matched (lz (H ++ O) c.state.offset k) c) := by
  by_cases h0 : c.state.offset = 0
  · have hmin : min c.state.length c.left ≠ 0 := by omega
    have hl0 : c.left ≠ 0 := by omega
    have hoff : c.state.offset ≤ O.length := by omega
    refine ⟨min c.state.length c.left, by omega, le_rfl, fun _ => rfl, ?_⟩
    rw [case_MATCH_out c O hl0 ho32 hO hoff, if_neg hmin, h0, match_copy_zero, lz_zero]
    unfold matched
    rw [List.length_replicate]
  · obtain ⟨W, e, w1, w2, -, w4⟩ := case_MATCH_copy c H (P0 ++ H) O hlen hleft (by omega) ho32
      (by rw [hput, List.append_assoc]) hO hoff2 hR hws
    have hW : W = lz (H ++ O) c.state.offset W.length := by
      apply lz_unique _ _ (by omega) (by rw [List.length_append]; exact hoffT)
      intro i hi
      rw [List.append_assoc, List.length_append]
      exact w4 i hi
    refine ⟨W.length, w1, w2, ?_, ?_⟩
    · intro hout
      have e2 := case_MATCH_out c O (by omega) ho32 hO hout
      rw [e] at e2
      have := congrArg Cfg.left (Outcome.cont.inj e2)
      simp only [] at this
      omega
    · rw [e, ← hW]
      rfl
/-- Both decodes have written the bytes `W` of a match. -/
lemma Rel.match_both {P H I X : List Nat} {ob OB : Nat} {c C : Cfg} (h : Rel P H I X ob OB c C)
    (hm : c.state.mode = MATCH) (W : List Nat) (hW2 : W.length ≤ c.left) :
    Rel P H I X ob OB (matched W c) (matched W C) := by
  have hk1 : kind c.state.mode = 1 := by rw [hm]; rfl
  have hc := h.core (by omega)
  have hM : C.state.mode = MATCH := h.mode_eq MATCH hm (by decide)
  have hlen : c.state.length = C.state.length := view_length_eq hc.view (by rw [hm]; rfl)
  have hleft := hc.left
  have hT : LenTab c.state.lencode := hc.ls.1 (by rw [hm]; decide)
  have hI : In I X (matched W c) (matched W C) := hc.inp
  have hP := hc.tabs
  have hd := hc.dist hm
  by_cases hz : c.state.length - W.length = 0
  · have e1 : (matched W c).state =
        { c.state with length := c.state.length - W.length, mode := LEN } := by
      unfold matched; simp only [if_pos hz]
    have e2 : (matched W C).state =
        { C.state with length := C.state.length - W.length, mode := LEN } := by
      unfold matched; simp only [if_pos (hlen ▸ hz)]
    have hv : view (matched W c).state = view (matched W C).state := by
      rw [e1, e2, ← hlen]
      have hv0 := view_length (c.state.length - W.length) hc.view
      have hv1 := view_dead LEN (by decide) hv0
      exact hv1
    exact h.write W hk1 rfl rfl (by show c.left - W.length + W.length = c.left; omega)
      (by show C.left - W.length + W.length = C.left; omega) rfl rfl rfl rfl
      (by rw [e1]; exact ⟨rfl, rfl, rfl, rfl, rfl, rfl⟩)
      (by rw [e2]; exact ⟨rfl, rfl, rfl, rfl, rfl, rfl⟩) hI hv (by rw [e1]; rfl)
      (by rw [e1]; exact LS_len _ (Or.inl rfl) hT)
      (by rw [e1]; exact ⟨fun _ => hP.1 (by rw [hm]; decide), fun _ => hP.2 (by rw [hm]; decide)⟩)
      (by rw [e1]; intro e; cases e)
  · have e1 : (matched W c).state = { c.state with length := c.state.length - W.length } := by
      unfold matched; simp only [if_neg hz]
    have e2 : (matched W C).state = { C.state with length := C.state.length - W.length } := by
      unfold matched; simp only [if_neg (hlen ▸ hz)]
    have hv : view (matched W c).state = view (matched W C).state := by
      rw [e1, e2, ← hlen]
      exact view_length (c.state.length - W.length) hc.view
    exact h.write W hk1 rfl rfl (by show c.left - W.length + W.length = c.left; omega)
      (by show C.left - W.length + W.length = C.left; omega) rfl rfl rfl rfl
      (by rw [e1]; exact ⟨rfl, rfl, rfl, rfl, rfl, rfl⟩)
      (by rw [e2]; exact ⟨rfl, rfl, rfl, rfl, rfl, rfl⟩) hI hv (by rw [e1]; exact hk1)
      (by rw [e1]; exact LS_match _ (Or.inr (Or.inr hm)) hT (by
        show 1 ≤ c.state.length - W.length; omega))
      (by rw [e1]; exact hP)
      (by
        intro _
        rw [e1]
        refine ⟨hd.1, ?_⟩
        show c.state.offset + (C.left - W.length) ≤ C.out
        have := hd.2
        omega)

/-- MATCH after a part of the match has been written ends where MATCH ends. -/
lemma case_MATCH_resume (C : Cfg) (P T : List Nat) (k : Nat) (hk : 1 ≤ k)
    (hK : k < min C.state.length C.left)
    (ho32 : C.out < 4294967296) (hput : C.put = P ++ T) (hO : C.left + T.length = C.out)
    (hoff : C.state.offset ≤ T.length) (hR : Represents C.state [])
    (hws : C.state.wsize < 4294967296) :
    case_MATCH (matched (lz T C.state.offset k) C) =
      .cont (matched (lz T C.state.offset (min C.state.length C.left)) C) := by
  have hl := lz_length T C.state.offset k
  have hst : (matched (lz T C.state.offset k) C).state =
      { C.state with length := C.state.length - k } := by
    unfold matched
    rw [hl]
    simp only [if_neg (show ¬ C.state.length - k = 0 by omega)]
  obtain ⟨k2, -, -, g3, g4⟩ := case_MATCH_lz (matched (lz T C.state.offset k) C) [] P
    (T ++ lz T C.state.offset k)
    (by rw [hst]; show 1 ≤ C.state.length - k; omega)
    (by show 1 ≤ C.left - (lz T C.state.offset k).length; rw [hl]; omega)
    ho32 (by show C.put ++ _ = _; rw [hput]; simp)
    (by
      show C.left - (lz T C.state.offset k).length + (T ++ lz T C.state.offset k).length = C.out
      rw [List.length_append, hl]; omega)
    (by rw [hst]; show C.state.offset ≤ _; simp only [List.length_append, List.length_nil]; omega)
    (by rw [hst]; show C.state.offset ≤ _; simp only [List.length_append]; omega)
    (by rw [hst]; exact hR) (by rw [hst]; exact hws)
  have hk2 := g3 (by rw [hst]; show C.state.offset ≤ _; rw [List.length_append]; omega)
  rw [g4, hk2]
  have hmin : min (matched (lz T C.state.offset k) C).state.length
      (matched (lz T C.state.offset k) C).left = min C.state.length C.left - k := by
    rw [hst]
    show min (C.state.length - k) (C.left - (lz T C.state.offset k).length) = _
    rw [hl]; omega
  rw [hmin]
  have hadd := lz_add T C.state.offset k (min C.state.length C.left - k)
  rw [show k + (min C.state.length C.left - k) = min C.state.length C.left by omega] at hadd
  have e0 : (matched (lz T C.state.offset k) C).state.offset = C.state.offset := by rw [hst]
  rw [e0, List.nil_append]
  unfold matched
  simp only [hadd, List.length_append, lz_length, List.append_assoc]
  have a1 : C.left - k - (min C.state.length C.left - k) = C.left - min C.state.length C.left := by
    omega
  have a2 : C.state.length - k - (min C.state.length C.left - k) =
      C.state.length - min C.state.length C.left := by omega
  have a3 : C.state.length - (k + (min C.state.length C.left - k)) =
      C.state.length - min C.state.length C.left := by omega
  have a4 : C.left - (k + (min C.state.length C.left - k)) =
      C.left - min C.state.length C.left := by omega
  simp only [a1, a2, a3, a4, if_neg (show ¬ C.state.length - k = 0 by omega)]
lemma case_MATCH_sim (E : Ext) (f0 flush : Int) (P H I X : List Nat) (ob OB : Nat)
    (c C : Cfg) (h : Rel P H I X ob OB c C) (hm : c.state.mode = MATCH) :
    Out E f0 flush P H I X ob OB c (case_MATCH c) (case_MATCH C) := by
  have hk1 : kind c.state.mode = 1 := by rw [hm]; rfl
  have hk : kind c.state.mode ≤ 1 := by omega
  have hc := h.core hk
  have hM : C.state.mode = MATCH := h.mode_eq MATCH hm (by decide)
  have hlen : c.state.length = C.state.length := view_length_eq hc.view (by rw [hm]; rfl)
  have hoff : c.state.offset = C.state.offset := view_offset_eq hc.view (by rw [hm]; rfl)
  have hws : c.state.wsize = C.state.wsize := congrArg View.wsize hc.view
  have hS : ∀ C2 : Cfg, C2.state.mode = MATCH → sstep E f0 C2 = case_MATCH C2 := by
    intro C2 hM2
    rw [sstep_at E f0 C2 MATCH hM2 (by decide)]
    unfold step
    rw [hM2]
  have hleft := hc.left
  obtain ⟨O, p1, p2, p3⟩ := hc.acct
  obtain ⟨b1, b2, b3⟩ := hc.bnd
  obtain ⟨d1, d2⟩ := hc.dist hm
  have hl1 : 1 ≤ c.state.length := hc.ls.2.2 (Or.inr (Or.inr hm))
  by_cases x : c.left = 0
  · have e : case_MATCH c = .leave c := by unfold case_MATCH; rw [if_pos x]
    rw [e]
    refine ⟨List.prefix_rfl, Or.inl ⟨hc.ret.1, hk, C, h, hS C hM, Or.inr (Or.inl ⟨x, ?_⟩)⟩⟩
    intro hC0
    unfold case_MATCH
    rw [if_pos hC0]
  · have hwh : c.state.whave = min c.state.wsize H.length := hc.win.1.1
    obtain ⟨k, k1, k2, -, k4⟩ := case_MATCH_lz c H P O hl1 (by omega) b1 p1 p2 (by omega)
      (by rw [hwh]; omega) hc.win.1 (by omega)
    obtain ⟨K, -, -, K3, K4⟩ := case_MATCH_lz C [] P (H ++ O) (by omega) (by omega) b2
      (by rw [← h.put, p1]; simp) (by rw [List.length_append]; omega)
      (by simp only [List.length_nil, List.length_append]; omega)
      (by rw [List.length_append]; omega) hc.win.2 (by omega)
    have hK := K3 (by rw [List.length_append]; omega)
    rw [k4, K4, List.nil_append, ← hoff, hK]
    have hr := h.match_both hm (lz (H ++ O) c.state.offset k) (by rw [lz_length]; omega)
    refine ⟨⟨_, rfl⟩, ?_⟩
    by_cases hal : min C.state.length C.left = k
    · left
      rw [hal]
      exact ⟨_, rfl, hr⟩
    · right
      refine ⟨_, hr, ?_, by
        show c.left - (lz (H ++ O) c.state.offset k).length < c.left
        rw [lz_length]; omega⟩
      have hm2 : (matched (lz (H ++ O) c.state.offset k) C).state.mode = MATCH := by
        unfold matched
        rw [lz_length]
        simp only [if_neg (show ¬ C.state.length - k = 0 by omega)]
        exact hM
      rw [hS _ hm2, hoff]
      exact case_MATCH_resume C P (H ++ O) k k1 (by omega) b2 (by rw [← h.put, p1])
        (by rw [List.length_append]; omega) (by rw [List.length_append]; omega) hc.win.2
        (by omega)
lemma case_MATCH_keeps (C : Cfg) (hm : C.state.mode = MATCH) :
    ∃ C1, (case_MATCH C = .cont C1 ∨ case_MATCH C = .leave C1) ∧
      C1.state.offset = C.state.offset ∧ C1.state.wsize = C.state.wsize ∧
      (C1.state.mode = LEN ∨ C1.state.mode = MATCH) := by
  unfold case_MATCH
  by_cases x : C.left = 0
  · rw [if_pos x]; exact ⟨C, Or.inr rfl, rfl, rfl, Or.inr hm⟩
  · rw [if_neg x]
    have key : ∀ (p : Prop) [Decidable p], (if p then LEN else C.state.mode) = LEN ∨
        (if p then LEN else C.state.mode) = MATCH := fun p _ => by
      by_cases h : p
      · rw [if_pos h]; exact Or.inl rfl
      · rw [if_neg h]; exact Or.inr hm
    exact ⟨_, Or.inl rfl, rfl, rfl, key _⟩

lemma DISTEXT_tail_near (C : Cfg) (hD : Near (DISTEXT_tail C)) :
    C.state.offset ≤ C.state.wsize := by
  unfold DISTEXT_tail at hD
  by_cases x : C.state.offset > sub32 (add32 C.state.whave C.out) C.left
  · rw [if_pos x] at hD
    exact hD (C.bad "invalid distance too far back") (Or.inl rfl) (Or.inr (Or.inr ⟨rfl, rfl⟩))
  · rw [if_neg x] at hD
    obtain ⟨C1, e, e1, e2, e3⟩ := case_MATCH_keeps (C.setMode MATCH) rfl
    have := hD C1 e (e3.elim Or.inl (fun g => Or.inr (Or.inl g)))
    rw [e1, e2] at this
    exact this

lemma DISTEXT_tail_sim (E : Ext) (f0 flush : Int) (P H I X : List Nat) (ob OB : Nat)
    (c C : Cfg) (h : Rel P H I X ob OB c C) (hm : c.state.mode = DISTEXT) (hD : Near (DISTEXT_tail C)) :
    Out E f0 flush P H I X ob OB c (DISTEXT_tail c) (DISTEXT_tail C) := by
  have hk1 : kind c.state.mode = 1 := by rw [hm]; rfl
  have hk : kind c.state.mode ≤ 1 := by omega
  have hc := h.core hk
  have hM : C.state.mode = DISTEXT := h.mode_eq DISTEXT hm (by decide)
  have hlen : c.state.length = C.state.length := view_length_eq hc.view (by rw [hm]; rfl)
  have hoff : c.state.offset = C.state.offset := view_offset_eq hc.view (by rw [hm]; rfl)
  have hws : c.state.wsize = C.state.wsize := congrArg View.wsize hc.view
  have hnear := DISTEXT_tail_near C hD
  obtain ⟨O, p1, p2, p3⟩ := hc.acct
  obtain ⟨b1, b2, b3⟩ := hc.bnd
  have hwh : c.state.whave = min c.state.wsize H.length := hc.win.1.1
  have hWh : C.state.whave = 0 := by
    have := hc.win.2.1
    simpa using this
  have e1 : sub32 (add32 c.state.whave c.out) c.left = c.state.whave + O.length := by
    rw [add32_of_lt (by omega), sub32_of_le (by omega) (by omega)]
    omega
  have e2 : sub32 (add32 C.state.whave C.out) C.left = H.length + O.length := by
    rw [hWh, add32_of_lt (by omega), sub32_of_le (by omega) (by omega)]
    omega
  have hl1 : 1 ≤ c.state.length := hc.ls.2.2 (Or.inr (Or.inl hm))
  have hT : LenTab c.state.lencode := hc.ls.1 (by rw [hm]; decide)
  have hP := hc.tabs
  unfold DISTEXT_tail
  rw [e1, e2]
  by_cases x : C.state.offset > H.length + O.length
  · rw [if_pos (show c.state.offset > c.state.whave + O.length by omega), if_pos x]
    exact ⟨List.prefix_rfl, Or.inl ⟨_, rfl, Rel.badmode _ _ h.put rfl rfl⟩⟩
  · rw [if_neg (show ¬ c.state.offset > c.state.whave + O.length by omega), if_neg x]
    have hv := view_mode MATCH hc.view (fun _ => hlen) (fun _ => hoff)
      (fun e => by simp [extLive] at e)
    refine Out.from (case_MATCH_sim E f0 flush P H I X ob OB _ _ ?_ rfl) rfl rfl
    exact h.stepM hk ⟨rfl, rfl, rfl, rfl, ⟨rfl, rfl, rfl, rfl, rfl, rfl⟩⟩
      ⟨rfl, rfl, rfl, rfl, ⟨rfl, rfl, rfl, rfl, rfl, rfl⟩⟩ hc.inp hv
      (by show kind MATCH ≤ 1; decide) (fun e => by simp [Cfg.setMode, kind] at e)
      (LS_match _ (Or.inr (Or.inr rfl)) hT hl1)
      ⟨fun _ => hP.1 (by rw [hm]; decide), fun _ => hP.2 (by rw [hm]; decide)⟩
      (fun _ => ⟨by show c.state.offset ≤ c.state.wsize; omega,
        by show c.state.offset + C.left ≤ C.out; omega⟩)
lemma tr_live (bl bo be : Bool) (c C : Cfg) :
    (tr true bo be c C).state.length = c.state.length ∧
    (tr bl true be c C).state.offset = c.state.offset ∧
    (tr bl bo true c C).state.extra = c.state.extra := ⟨rfl, rfl, rfl⟩

lemma LS_keep {st st1 : inflate_state} (h : LS st) (e1 : st1.mode = st.mode)
    (e2 : st1.lencode = st.lencode) (e3 : st1.length = st.length)
    (e4 : st1.extra = st.extra) : LS st1 := LS_congr h e1 e2 e3 e4

lemma TabsP_keep {st st1 : inflate_state} (h : TabsP st) (e1 : st1.mode = st.mode)
    (e2 : st1.lencode = st.lencode) (e3 : st1.lenbits = st.lenbits)
    (e4 : st1.distcode = st.distcode) (e5 : st1.distbits = st.distbits) : TabsP st1 := by
  unfold TabsP at *
  rw [e1, e2, e3, e4, e5]
  exact h

lemma case_DISTEXT_sim (E : Ext) (f0 flush : Int) (P H I X : List Nat) (ob OB : Nat)
    (c C : Cfg) (h : Rel P H I X ob OB c C) (hm : c.state.mode = DISTEXT) (hD : Near (case_DISTEXT C)) :
    Out E f0 flush P H I X ob OB c (case_DISTEXT c) (case_DISTEXT C) := by
  have hk1 : kind c.state.mode = 1 := by rw [hm]; rfl
  have hk : kind c.state.mode ≤ 1 := by omega
  have hc := h.core hk
  have hM : C.state.mode = DISTEXT := h.mode_eq DISTEXT hm (by decide)
  have hext : c.state.extra = C.state.extra := view_extra_eq hc.view (by rw [hm]; rfl)
  have hS : ∀ C2, Acc C C2 → NEEDBITS c.state.extra C2 = NEEDBITS c.state.extra C →
      c.state.extra ≠ 0 → sstep E f0 C2 = case_DISTEXT C := by
    intro C2 A hN hx
    rw [sstep_at E f0 C2 DISTEXT (by rw [A.2.1]; exact hM) (by decide)]
    unfold step
    rw [A.2.1, hM]
    simp only []
    unfold case_DISTEXT
    rw [A.2.1, ← hext, hN, if_pos hx, if_pos hx]
  generalize hO : case_DISTEXT C = O at hS hD ⊢
  unfold case_DISTEXT
  by_cases x : c.state.extra ≠ 0
  · rw [if_pos x]
    rcases NEEDBITS_sim c.state.extra c C hc.inp with
      ⟨c1, C1, a1, a2, a3, a4, a5, -⟩ | ⟨c1, C2, a1, a2, a3, a4, a5, a6, a7⟩
    · rw [a1]
      subst hO
      unfold case_DISTEXT at hD ⊢
      rw [← hext, if_pos x, a2] at hD ⊢
      simp only [] at hD ⊢
      have h1 : Rel P H I X ob OB c1 C1 := h.acc hk a4 a5 a3
      have hm1 : c1.state.mode = DISTEXT := by rw [a4.2.1]; exact hm
      have hk' : kind c1.state.mode ≤ 1 := by rw [a4.2.1]; exact hk
      have hc1 := h1.core hk'
      have hL : lenLive c1.state.mode = true := by rw [hm1]; rfl
      have hOf : offLive c1.state.mode = true := by rw [hm1]; rfl
      have hEx : extLive c1.state.mode = true := by rw [hm1]; rfl
      have e := h1.tr_eq hk' true true true (fun _ => hL) (fun _ => hOf) (fun _ => hEx)
      rw [e] at hD ⊢
      have h2 := h1.tr_rel hk' true true true (fun _ => hL) (fun _ => hOf) (fun _ => hEx)
      have hc2 := h2.core hk'
      have hv := view_offset (add32 c1.state.offset (bitsOf c1.hold c1.state.extra)) hc2.view
      simp only [BITS_eq, tr_proj, tr_live] at hD ⊢
      refine Out.from (DISTEXT_tail_sim E f0 flush P H I X ob OB _ _ ?_ hm1 hD) a4.2.2.1 a4.2.2.2.1
      exact h2.step hk' ⟨rfl, rfl, rfl, rfl, ⟨rfl, rfl, rfl, rfl, rfl, rfl⟩⟩
        ⟨rfl, rfl, rfl, rfl, ⟨rfl, rfl, rfl, rfl, rfl, rfl⟩⟩ ⟨rfl, rfl, a3.2.2⟩ hv
        hk' (fun e => by rw [show _ = c1.state.mode from rfl, hm1] at e; cases e)
        (LS_keep hc1.ls rfl rfl rfl rfl) (TabsP_keep hc1.tabs rfl rfl rfl rfl rfl)
        (fun e => by rw [show _ = c1.state.mode from rfl, hm1] at e; cases e)
    · rw [a1]
      refine Out.short h hk a4 a5 a3 a2 (hS C2 a5 a6 x) ?_
      intro h0
      rw [← hO]
      unfold case_DISTEXT
      rw [← hext, if_pos x, a7 h0]
  · rw [if_neg x]
    subst hO
    unfold case_DISTEXT at hD ⊢
    rw [← hext, if_neg x] at hD ⊢
    exact DISTEXT_tail_sim E f0 flush P H I X ob OB c C h hm hD
lemma Grow.grefl (c : Cfg) : Grow c c := ⟨le_refl _, fun _ _ _ => rfl⟩

lemma Grow.gtrans {a b c : Cfg} (h1 : Grow a b) (h2 : Grow b c) : Grow a c :=
  ⟨le_trans h1.1 h2.1, fun m hm h32 => (h2.2 m (le_trans hm h1.1) h32).trans (h1.2 m hm h32)⟩

lemma PULLBYTE_grow {c c1 : Cfg} (h : PULLBYTE c = some c1) (hb : c.bits + 8 < 4294967296) :
    Grow c c1 := by
  unfold PULLBYTE at h
  by_cases h0 : c.have_ = 0
  · simp [h0] at h
  · rw [if_neg h0] at h
    cases h
    refine ⟨?_, ?_⟩
    · show c.bits ≤ add32 c.bits 8
      rw [add32_of_lt hb]; omega
    · intro m hm h32
      show u32 (c.hold + u32 ((c.next.getD []).headD 0 <<< c.bits)) % 4294967296 % 2 ^ m = _
      unfold u32
      have hd : (2:Nat) ^ m ∣ 4294967296 := by
        have : (4294967296 : Nat) = 2 ^ 32 := by norm_num
        rw [this]; exact Nat.pow_dvd_pow 2 h32
      rw [Nat.mod_mod, Nat.mod_mod_of_dvd _ hd, Nat.mod_mod_of_dvd _ hd, Nat.add_mod,
        Nat.mod_mod_of_dvd _ hd]
      have hz : (c.next.getD []).headD 0 <<< c.bits % 2 ^ m = 0 := by
        rw [Nat.shiftLeft_eq]
        exact Nat.mod_eq_zero_of_dvd (Dvd.dvd.mul_left (Nat.pow_dvd_pow 2 hm) _)
      rw [hz, Nat.add_zero, Nat.mod_mod]

lemma pullUntil_grow (stop : Cfg → Bool)
    (hs : ∀ x, stop x = false → x.bits + 8 < 4294967296) : ∀ f c b c1,
    pullUntil stop f c = (b, c1) → Grow c c1 := by
  intro f
  induction f with
  | zero => intro c b c1 h; cases h; exact Grow.grefl c
  | succ f ih =>
    intro c b c1 h
    unfold pullUntil at h
    by_cases hst : stop c = true
    · rw [if_pos hst] at h; cases h; exact Grow.grefl c
    · rw [if_neg hst] at h
      cases hp : PULLBYTE c with
      | none => rw [hp] at h; cases h; exact Grow.grefl c
      | some c2 =>
        rw [hp] at h
        exact (PULLBYTE_grow hp (hs c (by simpa using hst))).gtrans (ih c2 b c1 h)

lemma BITS_mod_any (c : Cfg) (n : Nat) (hn : n ≤ 32) (b : Nat) :
    BITS c n % 2 ^ b = c.hold % 4294967296 % 2 ^ (min n b) := by
  rw [BITS_mod c n hn]
  rcases Nat.le_total n b with h | h
  · rw [Nat.min_eq_left h]
    exact Nat.mod_eq_of_lt (lt_of_lt_of_le (Nat.mod_lt _ (Nat.two_pow_pos n))
      (Nat.pow_le_pow_right (by decide) h))
  · rw [Nat.min_eq_right h]
    exact Nat.mod_mod_of_dvd _ (Nat.pow_dvd_pow 2 h)

/-- Looking a code up again once more bytes are in the accumulator finds the
entry that was found before. -/
lemma code_loop_again (t : List code) (n : Nat) (hP : PrefixTab t n) (c1 c2 : Cfg)
    (hg : Grow c1 c2) (hb : (t.getD (BITS c1 n) ⟨0, 0, 0⟩).bits ≤ c1.bits) (f : Nat) :
    code_loop t n (f + 1) c2 = .got (t.getD (BITS c1 n) ⟨0, 0, 0⟩) c2 := by
  have he : t.getD (BITS c2 n) ⟨0, 0, 0⟩ = t.getD (BITS c1 n) ⟨0, 0, 0⟩ := by
    refine hP.2.2 _ _ (BITS_lt_any c1 n) (BITS_lt_any c2 n) ?_
    rw [BITS_mod_any c2 n hP.1, BITS_mod_any c1 n hP.1]
    exact hg.2 _ (le_trans (Nat.min_le_right _ _) hb) (le_trans (Nat.min_le_left _ _) hP.1)
  unfold code_loop
  simp only [he]
  rw [if_pos (le_trans hb hg.1)]

lemma code_loop2_grow (t : List code) (n : Nat) (hP : PrefixTab t n) (last : code)
    (hl : last.bits ≤ 255) (f : Nat) (c : Cfg) :
    Grow c (code_loop2 t last f c).cfg := by
  rw [code_loop2_pull]
  have := pullUntil_grow (stopCode2 t last) (fun x hx => by
    unfold stopCode2 at hx
    have h1 := of_decide_eq_false hx
    have h2 := hP.2.1 (last.val + (BITS x (last.bits + last.op) >>> last.bits))
    omega) f c
  rcases h : pullUntil (stopCode2 t last) f c with ⟨b, c1⟩
  cases b <;> exact this _ _ h

lemma NEEDBITS_grow (n : Nat) (hn : n + 8 ≤ 4294967296) (c : Cfg) :
    Grow c (NEEDBITS n c).2 := by
  unfold NEEDBITS
  rw [NEEDBITS_loop_pull]
  have := pullUntil_grow (stopBits n) (fun x hx => by
    unfold stopBits at hx
    have h1 := of_decide_eq_false hx
    omega) (c.have_ + 1) c
  rcases h : pullUntil (stopBits n) (c.have_ + 1) c with ⟨b, c1⟩
  exact this _ _ h

lemma TabsP.len {st : inflate_state} (h : TabsP st) (m : inflate_mode) (hm : st.mode = m)
    (ha : 2 ≤ acc_kind m) : PrefixTab st.lencode st.lenbits := h.1 (by rw [hm]; exact ha)

lemma TabsP.dist {st : inflate_state} (h : TabsP st) (m : inflate_mode) (hm : st.mode = m)
    (ha : 3 ≤ acc_kind m) : PrefixTab st.distcode st.distbits := h.2 (by rw [hm]; exact ha)

lemma LS.tab {st : inflate_state} (h : LS st) (m : inflate_mode) (hm : st.mode = m)
    (ha : 3 ≤ acc_kind m) : LenTab st.lencode := h.1 (by rw [hm]; exact ha)

lemma LS.len1 {st : inflate_state} (h : LS st)
    (hm : st.mode = DIST ∨ st.mode = DISTEXT ∨ st.mode = MATCH) : 1 ≤ st.length := h.2.2 hm

/-- The relation after a step that writes nothing, keeps the window and ends
in the decoding mode `m`. -/
lemma Rel.stepAt {P H I X : List Nat} {ob OB : Nat} {c C c1 C1 : Cfg} (m : inflate_mode) (h : Rel P H I X ob OB c C)
    (hk : kind c.state.mode ≤ 1) (q : Qt c c1) (Q : Qt C C1) (hI : In I X c1 C1)
    (hv : view c1.state = view C1.state) (hm : c1.state.mode = m) (hk1 : kind m = 1)
    (hd : m ≠ MATCH) (hls : LS c1.state) (ht : TabsP c1.state) : Rel P H I X ob OB c1 C1 :=
  h.step hk q Q hI hv (by rw [hm, hk1]) (fun e => by rw [hm, hk1] at e; cases e) hls ht
    (by rw [hm]; exact hd)

lemma DIST_tail_sim (E : Ext) (f0 flush : Int) (P H I X : List Nat) (ob OB : Nat) (this : code)
    (c C : Cfg) (h : Rel P H I X ob OB c C) (hm : c.state.mode = DIST) (hD : Near (DIST_tail this C)) :
    Out E f0 flush P H I X ob OB c (DIST_tail this c) (DIST_tail this C) := by
  have hk : kind c.state.mode ≤ 1 := by rw [hm]; decide
  have hc := h.core hk
  have hlen : c.state.length = C.state.length := view_length_eq hc.view (by rw [hm]; rfl)
  have hT1 := hc.tabs.len DIST hm (by decide)
  have hT2 := hc.tabs.dist DIST hm (by decide)
  have hL1 := hc.ls.tab DIST hm (by decide)
  have hL2 := hc.ls.len1 (Or.inl hm)
  have hv := view_mode DISTEXT (view_extra (this.op &&& 15) (view_offset this.val hc.view))
    (fun _ => hlen) (fun _ => rfl) (fun _ => rfl)
  unfold DIST_tail at hD ⊢
  simp only [] at hD ⊢
  by_cases x : this.op &&& 64 ≠ 0
  · rw [if_pos x, if_pos x]
    refine Out.aligned List.prefix_rfl ?_
    exact Rel.badmode _ _ h.put rfl rfl
  · rw [if_neg x] at hD ⊢
    rw [if_neg x]
    refine Out.from (case_DISTEXT_sim E f0 flush P H I X ob OB _ _ ?_ rfl hD) rfl rfl
    exact h.stepAt DISTEXT hk ⟨rfl, rfl, rfl, rfl, ⟨rfl, rfl, rfl, rfl, rfl, rfl⟩⟩
      ⟨rfl, rfl, rfl, rfl, ⟨rfl, rfl, rfl, rfl, rfl, rfl⟩⟩ (hc.inp.drop _) hv rfl
      (by decide) (by decide)
      (LS_match _ (Or.inr (Or.inl rfl)) hL1 hL2)
      ⟨fun _ => hT1, fun _ => hT2⟩
lemma sstep_DIST (E : Ext) (f0 : Int) (C : Cfg) (hM : C.state.mode = DIST) :
    sstep E f0 C = case_DIST C := by
  rw [sstep_at E f0 C DIST hM (by decide)]
  unfold step
  rw [hM]

lemma sstep_LENEXT (E : Ext) (f0 : Int) (C : Cfg) (hM : C.state.mode = LENEXT) :
    sstep E f0 C = case_LENEXT C := by
  rw [sstep_at E f0 C LENEXT hM (by decide)]
  unfold step
  rw [hM]

lemma sstep_LEN (E : Ext) (f0 : Int) (C : Cfg) (hM : C.state.mode = LEN) :
    sstep E f0 C = case_LEN_slow C := by
  unfold sstep
  rw [hM]

lemma Acc.dropped (n : Nat) (c : Cfg) : Acc c (DROPBITS n c) := ⟨rfl, rfl, rfl, rfl, rfl, rfl, rfl⟩

lemma Grow.right_in {I X : List Nat} {c1 c2 C2 : Cfg} (h : Grow c1 c2) (h2 : In I X c2 C2) : Grow c1 C2 := by
  unfold Grow at *
  rw [← h2.1, ← h2.2.1]
  exact h

lemma code_second_grow (t : List code) (n : Nat) (hP : PrefixTab t n) (last : code)
    (hl : last.bits ≤ 255) (c c2 : Cfg) (h : code_second t last c = .short c2) : Grow c c2 := by
  have hg := code_loop2_grow t n hP last hl (c.have_ + 1) c
  unfold code_second at h
  rcases hc : code_loop2 t last (c.have_ + 1) c with ⟨this, c3⟩ | c3
  · rw [hc] at h; cases h
  · rw [hc] at h hg; cases h; exact hg

/-- The second-level lookup ran out of input: what the pass does when it is
resumed at the locals `C2` the lookup ended with. -/
lemma code_second_resume {I X : List Nat} (t : List code) (n : Nat) (hP : PrefixTab t n)
    (c1 c2 C2 : Cfg) (hI2 : In I X c2 C2)
    (hb : (t.getD (BITS c1 n) ⟨0, 0, 0⟩).bits ≤ c1.bits)
    (hs : code_second t (t.getD (BITS c1 n) ⟨0, 0, 0⟩) c1 = .short c2) :
    code_loop t n (C2.have_ + 1) C2 = .got (t.getD (BITS c1 n) ⟨0, 0, 0⟩) C2 :=
  code_loop_again t n hP c1 C2
    ((code_second_grow t n hP _ (hP.2.1 _) c1 c2 hs).right_in hI2) hb _

lemma case_DIST_got (c c1 : Cfg) (this : code)
    (h : code_loop c.state.distcode c.state.distbits (c.have_ + 1) c = .got this c1)
    (hs : c1.state = c.state) :
    case_DIST c = if this.op &&& 0xf0 = 0 then
        match code_second c.state.distcode this c1 with
        | .short c => .leave c
        | .got this c => DIST_tail this c
      else DIST_tail this c1 := by
  unfold case_DIST
  rw [h]
  simp only []
  rw [hs]
  try rfl

lemma case_DIST_short (c c1 : Cfg)
    (h : code_loop c.state.distcode c.state.distbits (c.have_ + 1) c = .short c1) :
    case_DIST c = .leave c1 := by
  unfold case_DIST
  rw [h]

lemma case_DIST_sim (E : Ext) (f0 flush : Int) (P H I X : List Nat) (ob OB : Nat)
    (c C : Cfg) (h : Rel P H I X ob OB c C) (hm : c.state.mode = DIST) (hD : Near (case_DIST C)) :
    Out E f0 flush P H I X ob OB c (case_DIST c) (case_DIST C) := by
  have hk : kind c.state.mode ≤ 1 := by rw [hm]; decide
  have hc := h.core hk
  have hM : C.state.mode = DIST := h.mode_eq DIST hm (by decide)
  have hdc : C.state.distcode = c.state.distcode := (congrArg View.distcode hc.view).symm
  have hdb : C.state.distbits = c.state.distbits := (congrArg View.distbits hc.view).symm
  have hT := hc.tabs.dist DIST hm (by decide)
  rcases code_loop_sim c.state.distcode c.state.distbits c C hc.inp with
    ⟨c1, C1, a1, a2, a3, a4, a5, a6⟩ | ⟨c1, C2, a1, a2, a3, a4, a5, a6, a7⟩
  · have h1 : Rel P H I X ob OB c1 C1 := h.acc hk a4 a5 a3
    have hk1 : kind c1.state.mode ≤ 1 := by rw [a4.2.1]; exact hk
    have hm1 : c1.state.mode = DIST := by rw [a4.2.1]; exact hm
    obtain ⟨last, hlast⟩ : ∃ last, last = c.state.distcode.getD (BITS c1 c.state.distbits) ⟨0, 0, 0⟩ :=
      ⟨_, rfl⟩
    have hres : ∀ c2 C2, In I X c2 C2 → code_second c.state.distcode last c1 = .short c2 →
        code_loop c.state.distcode c.state.distbits (C2.have_ + 1) C2 = .got last C2 := by
      intro c2 C2 hI hs
      rw [hlast] at hs ⊢
      exact code_second_resume _ _ hT c1 c2 C2 hI a6 hs
    rw [← hlast] at a1 a2 a6
    have eC := case_DIST_got C C1 _ (by rw [hdc, hdb]; exact a2) a5.2.1
    rw [case_DIST_got c c1 _ a1 a4.2.1]
    rw [hdc] at eC
    by_cases x : last.op &&& 0xf0 = 0
    · rw [if_pos x] at eC ⊢
      rcases code_second_sim c.state.distcode _ c1 C1 a3 with
        ⟨this, c2, C2, b1, b2, b3, b4, b5⟩ | ⟨c2, C2, b1, b2, b3, b4, b5, b6, b7⟩
      · rw [b1]
        rw [b2] at eC
        simp only [] at eC ⊢
        rw [eC] at hD ⊢
        have h2 : Rel P H I X ob OB (DROPBITS last.bits c2) (DROPBITS last.bits C2) :=
          h1.acc hk1 (b4.atrans (Acc.dropped _ c2)) (b5.atrans (Acc.dropped _ C2)) (b3.drop _)
        refine Out.from (DIST_tail_sim E f0 flush P H I X ob OB this _ _ h2
          (by rw [show (DROPBITS _ c2).state = c2.state from rfl, b4.2.1]; exact hm1) hD) ?_ ?_
        · rw [show (DROPBITS _ c2).put = c2.put from rfl, b4.2.2.1, a4.2.2.1]
        · rw [show (DROPBITS _ c2).left = c2.left from rfl, b4.2.2.2.1, a4.2.2.2.1]
      · rw [b1]
        simp only []
        have A := a5.atrans b5
        have hM2 : C2.state.mode = DIST := by rw [A.2.1]; exact hM
        have e2 := case_DIST_got C2 C2 _ (by
          rw [A.2.1, hdc, hdb]
          exact hres c2 C2 b3 b1) rfl
        rw [A.2.1, hdc, if_pos x, b6] at e2
        refine Out.short h hk (a4.atrans b4) A b3 b2 ?_ ?_
        · rw [sstep_DIST E f0 C2 hM2, e2, eC]
        · intro h0
          rw [eC, b7 h0]
    · rw [if_neg x] at eC ⊢
      rw [eC] at hD ⊢
      exact Out.from (DIST_tail_sim E f0 flush P H I X ob OB _ _ _ h1 hm1 hD) a4.2.2.1 a4.2.2.2.1
  · rw [case_DIST_short c c1 a1]
    have hM2 : C2.state.mode = DIST := by rw [a5.2.1]; exact hM
    refine Out.short h hk a4 a5 a3 a2 ?_ ?_
    · rw [sstep_DIST E f0 C2 hM2]
      unfold case_DIST
      rw [a5.2.1, hdc, hdb, a6]
    · intro h0
      unfold case_DIST
      rw [hdc, hdb, a7 h0]
lemma and_15_le (x : Nat) : x &&& 15 ≤ 15 := Nat.and_le_right

lemma case_LENEXT_sim (E : Ext) (f0 flush : Int) (P H I X : List Nat) (ob OB : Nat)
    (c C : Cfg) (h : Rel P H I X ob OB c C) (hm : c.state.mode = LENEXT) (hD : Near (case_LENEXT C)) :
    Out E f0 flush P H I X ob OB c (case_LENEXT c) (case_LENEXT C) := by
  have hk1 : kind c.state.mode = 1 := by rw [hm]; rfl
  have hk : kind c.state.mode ≤ 1 := by omega
  have hc := h.core hk
  have hM : C.state.mode = LENEXT := h.mode_eq LENEXT hm (by decide)
  have hext : c.state.extra = C.state.extra := view_extra_eq hc.view (by rw [hm]; rfl)
  have hlen : c.state.length = C.state.length := view_length_eq hc.view (by rw [hm]; rfl)
  have hT1 := hc.tabs.len LENEXT hm (by decide)
  have hT2 := hc.tabs.dist LENEXT hm (by decide)
  have hL1 := hc.ls.tab LENEXT hm (by decide)
  have hL2 := hc.ls.2.1 hm
  by_cases x : c.state.extra ≠ 0
  · rcases NEEDBITS_sim c.state.extra c C hc.inp with
      ⟨c1, C1, a1, a2, a3, a4, a5, -⟩ | ⟨c1, C2, a1, a2, a3, a4, a5, a6, a7⟩
    · unfold case_LENEXT at hD ⊢
      rw [← hext, if_pos x, a2] at hD
      rw [← hext, if_pos x, a2, if_pos x, a1]
      simp only [] at hD ⊢
      have h1 : Rel P H I X ob OB c1 C1 := h.acc hk a4 a5 a3
      have hm1 : c1.state.mode = LENEXT := by rw [a4.2.1]; exact hm
      have hk' : kind c1.state.mode ≤ 1 := by rw [a4.2.1]; exact hk
      have hc1 := h1.core hk'
      have hL : lenLive c1.state.mode = true := by rw [hm1]; rfl
      have hEx : extLive c1.state.mode = true := by rw [hm1]; rfl
      have e := h1.tr_eq hk' true false true (fun _ => hL) (fun e => by cases e) (fun _ => hEx)
      rw [e] at hD ⊢
      have h2 := h1.tr_rel hk' true false true (fun _ => hL) (fun e => by cases e) (fun _ => hEx)
      have hc2 := h2.core hk'
      have hv := view_mode DIST
        (view_length (add32 c1.state.length (bitsOf c1.hold c1.state.extra)) hc2.view)
        (fun _ => rfl) (fun e => by cases e) (fun e => by cases e)
      have hb : bitsOf c1.hold c1.state.extra < 32768 := by
        rw [← BITS_eq]
        have := BITS_lt_any c1 c1.state.extra
        have h15 : c1.state.extra ≤ 15 := by rw [a4.2.1]; exact hL2.2.2
        exact lt_of_lt_of_le this (Nat.pow_le_pow_right (by decide) h15)
      have hl1 : 1 ≤ add32 c1.state.length (bitsOf c1.hold c1.state.extra) := by
        have h1 : 1 ≤ c1.state.length := by rw [a4.2.1]; exact hL2.1
        have h2 : c1.state.length ≤ 65535 := by rw [a4.2.1]; exact hL2.2.1
        rw [add32_of_lt (by omega)]
        omega
      have hT1' : PrefixTab c1.state.lencode c1.state.lenbits := by rw [a4.2.1]; exact hT1
      have hT2' : PrefixTab c1.state.distcode c1.state.distbits := by rw [a4.2.1]; exact hT2
      have hL1' : LenTab c1.state.lencode := by rw [a4.2.1]; exact hL1
      simp only [BITS_eq, tr_proj, tr_live] at hD ⊢
      refine Out.from (case_DIST_sim E f0 flush P H I X ob OB _ _ ?_ rfl hD) a4.2.2.1 a4.2.2.2.1
      exact h2.stepAt DIST hk' ⟨rfl, rfl, rfl, rfl, ⟨rfl, rfl, rfl, rfl, rfl, rfl⟩⟩
        ⟨rfl, rfl, rfl, rfl, ⟨rfl, rfl, rfl, rfl, rfl, rfl⟩⟩ ⟨rfl, rfl, a3.2.2⟩ hv rfl
        (by decide) (by decide)
        (LS_match _ (Or.inl rfl) hL1' hl1) ⟨fun _ => hT1', fun _ => hT2'⟩
    · unfold case_LENEXT
      rw [if_pos x, a1]
      have hM2 : C2.state.mode = LENEXT := by rw [a5.2.1]; exact hM
      refine Out.short h hk a4 a5 a3 a2 ?_ ?_
      · rw [sstep_LENEXT E f0 C2 hM2]
        unfold case_LENEXT
        rw [a5.2.1, ← hext, if_pos x, if_pos x, a6]
      · intro h0
        rw [← hext, if_pos x, a7 h0]
  · unfold case_LENEXT at hD ⊢
    rw [← hext, if_neg x] at hD
    rw [← hext, if_neg x, if_neg x]
    have hv := view_mode DIST hc.view (fun _ => hlen) (fun e => by cases e) (fun e => by cases e)
    refine Out.from (case_DIST_sim E f0 flush P H I X ob OB _ _ ?_ rfl hD) rfl rfl
    exact h.stepAt DIST hk ⟨rfl, rfl, rfl, rfl, ⟨rfl, rfl, rfl, rfl, rfl, rfl⟩⟩
      ⟨rfl, rfl, rfl, rfl, ⟨rfl, rfl, rfl, rfl, rfl, rfl⟩⟩ hc.inp hv rfl
      (by decide) (by decide) (LS_match _ (Or.inl rfl) hL1 hL2.1) ⟨fun _ => hT1, fun _ => hT2⟩
lemma LEN_tail_sim (E : Ext) (f0 flush : Int) (P H I X : List Nat) (ob OB : Nat) (this : code)
    (c C : Cfg) (h : Rel P H I X ob OB c C) (hm : c.state.mode = LEN)
    (hthis : ∃ i, this = c.state.lencode.getD i ⟨0, 0, 0⟩) (hD : Near (LEN_tail this C)) :
    Out E f0 flush P H I X ob OB c (LEN_tail this c) (LEN_tail this C) := by
  have hk : kind c.state.mode ≤ 1 := by rw [hm]; decide
  have hc := h.core hk
  have hT1 := hc.tabs.len LEN hm (by decide)
  have hT2 := hc.tabs.dist LEN hm (by decide)
  have hL1 := hc.ls.tab LEN hm (by decide)
  have hv := view_length this.val hc.view
  unfold LEN_tail at hD ⊢
  simp only [] at hD ⊢
  by_cases x : this.op = 0
  · rw [if_pos x, if_pos x]
    refine Out.aligned List.prefix_rfl ?_
    exact h.stepAt LIT hk ⟨rfl, rfl, rfl, rfl, ⟨rfl, rfl, rfl, rfl, rfl, rfl⟩⟩
      ⟨rfl, rfl, rfl, rfl, ⟨rfl, rfl, rfl, rfl, rfl, rfl⟩⟩ (hc.inp.drop _)
      (view_mode LIT hv (fun _ => rfl) (fun e => by cases e) (fun e => by cases e)) rfl
      (by decide) (by decide) (LS_len _ (Or.inr rfl) hL1) ⟨fun _ => hT1, fun _ => hT2⟩
  · rw [if_neg x] at hD ⊢
    rw [if_neg x]
    by_cases y : this.op &&& 32 ≠ 0
    · rw [if_pos y, if_pos y]
      refine Out.aligned List.prefix_rfl ?_
      exact h.to TYPE hk ⟨rfl, rfl, rfl, rfl, ⟨rfl, rfl, rfl, rfl, rfl, rfl⟩⟩
        ⟨rfl, rfl, rfl, rfl, ⟨rfl, rfl, rfl, rfl, rfl, rfl⟩⟩ (hc.inp.drop _)
        (view_dead TYPE (by decide) hv) rfl (by decide) (by decide)
    · rw [if_neg y] at hD ⊢
      rw [if_neg y]
      by_cases z : this.op &&& 64 ≠ 0
      · rw [if_pos z, if_pos z]
        refine Out.aligned List.prefix_rfl ?_
        exact Rel.badmode _ _ h.put rfl rfl
      · rw [if_neg z] at hD ⊢
        rw [if_neg z]
        obtain ⟨i, hi⟩ := hthis
        have hb := hL1 i (by rw [← hi]; exact x) (by rw [← hi]; simpa using y)
          (by rw [← hi]; simpa using z)
        rw [← hi] at hb
        refine Out.from (case_LENEXT_sim E f0 flush P H I X ob OB _ _ ?_ rfl hD) rfl rfl
        exact h.stepAt LENEXT hk ⟨rfl, rfl, rfl, rfl, ⟨rfl, rfl, rfl, rfl, rfl, rfl⟩⟩
          ⟨rfl, rfl, rfl, rfl, ⟨rfl, rfl, rfl, rfl, rfl, rfl⟩⟩ (hc.inp.drop _)
          (view_mode LENEXT (view_extra (this.op &&& 15) hv) (fun _ => rfl) (fun e => by cases e)
            (fun _ => rfl)) rfl
          (by decide) (by decide) (LS_lenext _ rfl hL1 hb.1 hb.2 (and_15_le _))
          ⟨fun _ => hT1, fun _ => hT2⟩

lemma case_LEN_got (c c1 : Cfg) (this : code)
    (h : code_loop c.state.lencode c.state.lenbits (c.have_ + 1) c = .got this c1)
    (hs : c1.state = c.state) :
    case_LEN_slow c = if this.op ≠ 0 ∧ this.op &&& 0xf0 = 0 then
        match code_second c.state.lencode this c1 with
        | .short c => .leave c
        | .got this c => LEN_tail this c
      else LEN_tail this c1 := by
  unfold case_LEN_slow
  rw [h]
  simp only []
  rw [hs]
  try rfl

lemma case_LEN_short (c c1 : Cfg)
    (h : code_loop c.state.lencode c.state.lenbits (c.have_ + 1) c = .short c1) :
    case_LEN_slow c = .leave c1 := by
  unfold case_LEN_slow
  rw [h]

lemma case_LEN_slow_sim (E : Ext) (f0 flush : Int) (P H I X : List Nat) (ob OB : Nat)
    (c C : Cfg) (h : Rel P H I X ob OB c C) (hm : c.state.mode = LEN) (hD : Near (case_LEN_slow C)) :
    Out E f0 flush P H I X ob OB c (case_LEN_slow c) (case_LEN_slow C) := by
  have hk : kind c.state.mode ≤ 1 := by rw [hm]; decide
  have hc := h.core hk
  have hM : C.state.mode = LEN := h.mode_eq LEN hm (by decide)
  have hdc : C.state.lencode = c.state.lencode := (congrArg View.lencode hc.view).symm
  have hdb : C.state.lenbits = c.state.lenbits := (congrArg View.lenbits hc.view).symm
  have hT := hc.tabs.len LEN hm (by decide)
  rcases code_loop_sim c.state.lencode c.state.lenbits c C hc.inp with
    ⟨c1, C1, a1, a2, a3, a4, a5, a6⟩ | ⟨c1, C2, a1, a2, a3, a4, a5, a6, a7⟩
  · have h1 : Rel P H I X ob OB c1 C1 := h.acc hk a4 a5 a3
    have hk1 : kind c1.state.mode ≤ 1 := by rw [a4.2.1]; exact hk
    have hm1 : c1.state.mode = LEN := by rw [a4.2.1]; exact hm
    obtain ⟨last, hlast⟩ : ∃ last, last = c.state.lencode.getD (BITS c1 c.state.lenbits) ⟨0, 0, 0⟩ :=
      ⟨_, rfl⟩
    have hres : ∀ c2 C2, In I X c2 C2 → code_second c.state.lencode last c1 = .short c2 →
        code_loop c.state.lencode c.state.lenbits (C2.have_ + 1) C2 = .got last C2 := by
      intro c2 C2 hI hs
      rw [hlast] at hs ⊢
      exact code_second_resume _ _ hT c1 c2 C2 hI a6 hs
    rw [← hlast] at a1 a2 a6
    have eC := case_LEN_got C C1 _ (by rw [hdc, hdb]; exact a2) a5.2.1
    rw [case_LEN_got c c1 _ a1 a4.2.1]
    rw [hdc] at eC
    by_cases x : last.op ≠ 0 ∧ last.op &&& 0xf0 = 0
    · rw [if_pos x] at eC ⊢
      rcases code_second_sim c.state.lencode _ c1 C1 a3 with
        ⟨this, c2, C2, b1, b2, b3, b4, b5⟩ | ⟨c2, C2, b1, b2, b3, b4, b5, b6, b7⟩
      · have hen := code_second_entry _ _ _ _ _ b1
        rw [b1]
        rw [b2] at eC
        simp only [] at eC ⊢
        rw [eC] at hD ⊢
        have h2 : Rel P H I X ob OB (DROPBITS last.bits c2) (DROPBITS last.bits C2) :=
          h1.acc hk1 (b4.atrans (Acc.dropped _ c2)) (b5.atrans (Acc.dropped _ C2)) (b3.drop _)
        have hst : (DROPBITS last.bits c2).state = c.state := by
          rw [show (DROPBITS _ c2).state = c2.state from rfl, b4.2.1, a4.2.1]
        refine Out.from (LEN_tail_sim E f0 flush P H I X ob OB this _ _ h2 (by rw [hst]; exact hm)
          (by rw [hst]; exact hen) hD) ?_ ?_
        · rw [show (DROPBITS _ c2).put = c2.put from rfl, b4.2.2.1, a4.2.2.1]
        · rw [show (DROPBITS _ c2).left = c2.left from rfl, b4.2.2.2.1, a4.2.2.2.1]
      · rw [b1]
        simp only []
        have A := a5.atrans b5
        have hM2 : C2.state.mode = LEN := by rw [A.2.1]; exact hM
        have e2 := case_LEN_got C2 C2 _ (by
          rw [A.2.1, hdc, hdb]
          exact hres c2 C2 b3 b1) rfl
        rw [A.2.1, hdc, if_pos x, b6] at e2
        refine Out.short h hk (a4.atrans b4) A b3 b2 ?_ ?_
        · rw [sstep_LEN E f0 C2 hM2, e2, eC]
        · intro h0
          rw [eC, b7 h0]
    · rw [if_neg x] at eC ⊢
      rw [eC] at hD ⊢
      exact Out.from (LEN_tail_sim E f0 flush P H I X ob OB _ _ _ h1 hm1
        (by rw [a4.2.1]; exact ⟨_, hlast⟩) hD) a4.2.2.1 a4.2.2.2.1
  · rw [case_LEN_short c c1 a1]
    have hM2 : C2.state.mode = LEN := by rw [a5.2.1]; exact hM
    refine Out.short h hk a4 a5 a3 a2 ?_ ?_
    · rw [sstep_LEN E f0 C2 hM2]
      unfold case_LEN_slow
      rw [a5.2.1, hdc, hdb, a6]
    · intro h0
      unfold case_LEN_slow
      rw [hdc, hdb, a7 h0]
lemma NEEDBITS_grow_of (n : Nat) (hn : n + 8 ≤ 4294967296) (c c1 : Cfg) (b : Bool)
    (h : NEEDBITS n c = (b, c1)) : Grow c c1 := by
  have := NEEDBITS_grow n hn c
  rw [h] at this
  exact this

/-- One branch of the repeat codes: `NEEDBITS(this.bits + k)`, then the count
from the next `k` bits. -/
lemma repeat_branch_sim {I X : List Nat} (this : code) (k : Nat) (hk : k ≤ 7) (hb : this.bits ≤ 255)
    (c C : Cfg) (hI : In I X c C) :
    (∃ c1 C1, NEEDBITS (this.bits + k) c = (true, c1) ∧ NEEDBITS (this.bits + k) C = (true, C1) ∧
      In I X c1 C1 ∧ Acc c c1 ∧ Acc C C1 ∧
      BITS (DROPBITS this.bits c1) k = BITS (DROPBITS this.bits C1) k) ∨
    (∃ c2 C2, NEEDBITS (this.bits + k) c = (false, c2) ∧ c2.have_ = 0 ∧ In I X c2 C2 ∧ Acc c c2 ∧
      Acc C C2 ∧ Grow c c2 ∧ NEEDBITS (this.bits + k) C2 = NEEDBITS (this.bits + k) C ∧
      (C2.have_ = 0 → NEEDBITS (this.bits + k) C = (false, C2))) := by
  rcases NEEDBITS_sim (this.bits + k) c C hI with
    ⟨c1, C1, a1, a2, a3, a4, a5, -⟩ | ⟨c1, C2, a1, a2, a3, a4, a5, a6, a7⟩
  · exact Or.inl ⟨c1, C1, a1, a2, a3, a4, a5, (a3.drop _).bits _⟩
  · exact Or.inr ⟨c1, C2, a1, a2, a3, a4, a5,
      NEEDBITS_grow_of _ (by omega) c c1 false a1, a6, a7⟩

lemma codelens_repeat_at16 (this : code) (c : Cfg) (h : this.val = 16) :
    codelens_repeat this c =
      match NEEDBITS (this.bits + 2) c with
      | (false, c) => .leave c
      | (true, c) =>
        if (DROPBITS this.bits c).state.have_ = 0 then
          .stop ((DROPBITS this.bits c).bad "invalid bit length repeat")
        else .rep (DROPBITS 2 (DROPBITS this.bits c))
          ((DROPBITS this.bits c).state.lens.getD ((DROPBITS this.bits c).state.have_ - 1) 0)
          (add32 3 (BITS (DROPBITS this.bits c) 2)) := by
  unfold codelens_repeat
  rw [if_pos h]
  try rfl

lemma codelens_repeat_at17 (this : code) (c : Cfg) (h16 : this.val ≠ 16) (h : this.val = 17) :
    codelens_repeat this c =
      match NEEDBITS (this.bits + 3) c with
      | (false, c) => .leave c
      | (true, c) =>
        .rep (DROPBITS 3 (DROPBITS this.bits c)) 0 (add32 3 (BITS (DROPBITS this.bits c) 3)) := by
  unfold codelens_repeat
  rw [if_neg h16, if_pos h]
  try rfl

lemma codelens_repeat_at18 (this : code) (c : Cfg) (h16 : this.val ≠ 16) (h : this.val ≠ 17) :
    codelens_repeat this c =
      match NEEDBITS (this.bits + 7) c with
      | (false, c) => .leave c
      | (true, c) =>
        .rep (DROPBITS 7 (DROPBITS this.bits c)) 0 (add32 11 (BITS (DROPBITS this.bits c) 7)) := by
  unfold codelens_repeat
  rw [if_neg h16, if_neg h]
  try rfl

lemma codelens_repeat_sim {I X : List Nat} (this : code) (c C : Cfg) (hI : In I X c C)
    (hh : c.state.have_ = C.state.have_) (hl : c.state.lens = C.state.lens)
    (hb : this.bits ≤ 255) :
    (∃ c2 C2 len copy, codelens_repeat this c = .rep c2 len copy ∧
      codelens_repeat this C = .rep C2 len copy ∧ In I X c2 C2 ∧ Acc c c2 ∧ Acc C C2) ∨
    (∃ c2 C2, codelens_repeat this c = .stop (c2.bad "invalid bit length repeat") ∧
      codelens_repeat this C = .stop (C2.bad "invalid bit length repeat") ∧
      Acc c c2 ∧ Acc C C2) ∨
    (∃ c2 C2, codelens_repeat this c = .leave c2 ∧ c2.have_ = 0 ∧ In I X c2 C2 ∧ Acc c c2 ∧
      Acc C C2 ∧ Grow c c2 ∧ codelens_repeat this C2 = codelens_repeat this C ∧
      (C2.have_ = 0 → codelens_repeat this C = .leave C2)) := by
  by_cases h16 : this.val = 16
  · rw [codelens_repeat_at16 this c h16, codelens_repeat_at16 this C h16]
    rcases repeat_branch_sim this 2 (by omega) hb c C hI with
      ⟨c1, C1, a1, a2, a3, a4, a5, a6⟩ | ⟨c2, C2, a1, a2, a3, a4, a5, a6, a7, a8⟩
    · rw [a1, a2]
      simp only []
      have e1 : (DROPBITS this.bits c1).state.have_ = c.state.have_ := by
        rw [show (DROPBITS this.bits c1).state = c1.state from rfl, a4.2.1]
      have e2 : (DROPBITS this.bits C1).state.have_ = c.state.have_ := by
        rw [show (DROPBITS this.bits C1).state = C1.state from rfl, a5.2.1, hh]
      have e3 : (DROPBITS this.bits c1).state.lens = c.state.lens := by
        rw [show (DROPBITS this.bits c1).state = c1.state from rfl, a4.2.1]
      have e4 : (DROPBITS this.bits C1).state.lens = c.state.lens := by
        rw [show (DROPBITS this.bits C1).state = C1.state from rfl, a5.2.1, hl]
      rw [e1, e2, e3, e4, a6]
      by_cases h0 : c.state.have_ = 0
      · rw [if_pos h0, if_pos h0]
        exact Or.inr (Or.inl ⟨_, _, rfl, rfl, a4.atrans (Acc.dropped _ _), a5.atrans (Acc.dropped _ _)⟩)
      · rw [if_neg h0, if_neg h0]
        exact Or.inl ⟨_, _, _, _, rfl, rfl, (a3.drop _).drop _,
          a4.atrans ((Acc.dropped _ _).atrans (Acc.dropped _ _)),
          a5.atrans ((Acc.dropped _ _).atrans (Acc.dropped _ _))⟩
    · rw [a1]
      refine Or.inr (Or.inr ⟨c2, C2, rfl, a2, a3, a4, a5, a6, ?_, ?_⟩)
      · rw [codelens_repeat_at16 this C2 h16, a7]
      · intro h0; rw [a8 h0]
  · by_cases h17 : this.val = 17
    · rw [codelens_repeat_at17 this c h16 h17, codelens_repeat_at17 this C h16 h17]
      rcases repeat_branch_sim this 3 (by omega) hb c C hI with
        ⟨c1, C1, a1, a2, a3, a4, a5, a6⟩ | ⟨c2, C2, a1, a2, a3, a4, a5, a6, a7, a8⟩
      · rw [a1, a2]
        simp only []
        rw [a6]
        exact Or.inl ⟨_, _, _, _, rfl, rfl, (a3.drop _).drop _,
          a4.atrans ((Acc.dropped _ _).atrans (Acc.dropped _ _)),
          a5.atrans ((Acc.dropped _ _).atrans (Acc.dropped _ _))⟩
      · rw [a1]
        refine Or.inr (Or.inr ⟨c2, C2, rfl, a2, a3, a4, a5, a6, ?_, ?_⟩)
        · rw [codelens_repeat_at17 this C2 h16 h17, a7]
        · intro h0; rw [a8 h0]
    · rw [codelens_repeat_at18 this c h16 h17, codelens_repeat_at18 this C h16 h17]
      rcases repeat_branch_sim this 7 (by omega) hb c C hI with
        ⟨c1, C1, a1, a2, a3, a4, a5, a6⟩ | ⟨c2, C2, a1, a2, a3, a4, a5, a6, a7, a8⟩
      · rw [a1, a2]
        simp only []
        rw [a6]
        exact Or.inl ⟨_, _, _, _, rfl, rfl, (a3.drop _).drop _,
          a4.atrans ((Acc.dropped _ _).atrans (Acc.dropped _ _)),
          a5.atrans ((Acc.dropped _ _).atrans (Acc.dropped _ _))⟩
      · rw [a1]
        refine Or.inr (Or.inr ⟨c2, C2, rfl, a2, a3, a4, a5, a6, ?_, ?_⟩)
        · rw [codelens_repeat_at18 this C2 h16 h17, a7]
        · intro h0; rw [a8 h0]
lemma NEEDBITS_enough (n : Nat) (c : Cfg) (h : n ≤ c.bits) : NEEDBITS n c = (true, c) := by
  unfold NEEDBITS NEEDBITS_loop
  rw [if_neg (by omega)]

lemma cl_end (f : Nat) (c : Cfg)
    (h : ¬ c.state.have_ < add32 c.state.nlen c.state.ndist) :
    codelens_loop (f + 1) c = (true, c) := by
  rw [codelens_loop, if_neg h]

lemma cl_short (f : Nat) (c c1 : Cfg)
    (hlt : c.state.have_ < add32 c.state.nlen c.state.ndist)
    (h : code_loop c.state.lencode c.state.lenbits (c.have_ + 1) c = .short c1) :
    codelens_loop (f + 1) c = (false, c1) := by
  rw [codelens_loop, if_pos hlt, h]

lemma cl_lit (f : Nat) (c c1 : Cfg) (this : code)
    (hlt : c.state.have_ < add32 c.state.nlen c.state.ndist)
    (h : code_loop c.state.lencode c.state.lenbits (c.have_ + 1) c = .got this c1)
    (hv : this.val < 16) (hb : this.bits ≤ c1.bits) :
    codelens_loop (f + 1) c = codelens_loop f { DROPBITS this.bits c1 with
      state := { c1.state with lens := memcpy c1.state.lens c1.state.have_ [this.val],
                               have_ := c1.state.have_ + 1 } } := by
  rw [codelens_loop, if_pos hlt, h]
  simp only [hv, if_true, NEEDBITS_enough this.bits c1 hb]
  rfl

lemma cl_leave (f : Nat) (c c1 c2 : Cfg) (this : code)
    (hlt : c.state.have_ < add32 c.state.nlen c.state.ndist)
    (h : code_loop c.state.lencode c.state.lenbits (c.have_ + 1) c = .got this c1)
    (hv : ¬ this.val < 16) (hr : codelens_repeat this c1 = .leave c2) :
    codelens_loop (f + 1) c = (false, c2) := by
  rw [codelens_loop, if_pos hlt, h]
  simp only [hv, if_false, hr]

lemma cl_stop (f : Nat) (c c1 c2 : Cfg) (this : code)
    (hlt : c.state.have_ < add32 c.state.nlen c.state.ndist)
    (h : code_loop c.state.lencode c.state.lenbits (c.have_ + 1) c = .got this c1)
    (hv : ¬ this.val < 16) (hr : codelens_repeat this c1 = .stop c2) :
    codelens_loop (f + 1) c = (true, c2) := by
  rw [codelens_loop, if_pos hlt, h]
  simp only [hv, if_false, hr]

lemma cl_rep (f : Nat) (c c1 c2 : Cfg) (this : code) (len copy : Nat)
    (hlt : c.state.have_ < add32 c.state.nlen c.state.ndist)
    (h : code_loop c.state.lencode c.state.lenbits (c.have_ + 1) c = .got this c1)
    (hv : ¬ this.val < 16) (hr : codelens_repeat this c1 = .rep c2 len copy) :
    codelens_loop (f + 1) c =
      if add32 c2.state.have_ copy > add32 c2.state.nlen c2.state.ndist then
        (true, c2.bad "invalid bit length repeat")
      else
        codelens_loop f { c2 with state := { c2.state with
          lens := memcpy c2.state.lens c2.state.have_ (List.replicate copy (len % 65536)),
          have_ := c2.state.have_ + copy } } := by
  rw [codelens_loop, if_pos hlt, h]
  simp only [hv, if_false, hr]

/-- The loop of CODELENS ends within as many rounds as lengths are still to be
read, whatever the counts are. -/
lemma codelens_loop_more (f : Nat) :
    ∀ c : Cfg, add32 c.state.nlen c.state.ndist - c.state.have_ ≤ f →
      codelens_loop (f + 1) c = codelens_loop f c := by
  induction f with
  | zero =>
    intro c h
    rw [cl_end 0 c (by omega)]
    rfl
  | succ f ih =>
    intro c h
    by_cases hlt : c.state.have_ < add32 c.state.nlen c.state.ndist
    · have hA := code_loop_acc c.state.lencode c.state.lenbits (c.have_ + 1) c
      cases hL : code_loop c.state.lencode c.state.lenbits (c.have_ + 1) c with
      | short c1 => rw [cl_short _ c c1 hlt hL, cl_short _ c c1 hlt hL]
      | got this c1 =>
        rw [hL] at hA
        have hs1 : c1.state = c.state := hA.2.1
        by_cases hv : this.val < 16
        · conv_lhs => rw [codelens_loop, if_pos hlt, hL]
          conv_rhs => rw [codelens_loop, if_pos hlt, hL]
          simp only [hv, if_true]
          have hB := NEEDBITS_acc this.bits c1
          rcases hN : NEEDBITS this.bits c1 with ⟨b, c2⟩
          rw [hN] at hB
          have hs2 : c2.state = c1.state := hB.2.1
          cases b
          · rfl
          · simp only []
            apply ih
            simp only [DROPBITS]; rw [hs2, hs1]
            omega
        · cases hr : codelens_repeat this c1 with
          | leave c2 =>
            rw [cl_leave _ c c1 c2 this hlt hL hv hr,
              cl_leave _ c c1 c2 this hlt hL hv hr]
          | stop c2 =>
            rw [cl_stop _ c c1 c2 this hlt hL hv hr,
              cl_stop _ c c1 c2 this hlt hL hv hr]
          | rep c2 len copy =>
            obtain ⟨hs2, -⟩ := codelens_repeat_rep this c1 c2 len copy hr
            have hpos := codelens_repeat_pos this c1 c2 len copy hr
            rw [cl_rep _ c c1 c2 this len copy hlt hL hv hr,
              cl_rep _ c c1 c2 this len copy hlt hL hv hr]
            by_cases hov : add32 c2.state.have_ copy > add32 c2.state.nlen c2.state.ndist
            · rw [if_pos hov, if_pos hov]
            · rw [if_neg hov, if_neg hov]
              apply ih
              simp only []; rw [hs2, hs1]
              omega
    · rw [cl_end _ c hlt, cl_end _ c hlt]

lemma codelens_loop_suff (c : Cfg) : ∀ g,
    add32 c.state.nlen c.state.ndist - c.state.have_ ≤ g →
    codelens_loop g c = codelens_loop (add32 c.state.nlen c.state.ndist - c.state.have_) c := by
  intro g
  induction g with
  | zero => intro h; congr 1; omega
  | succ g ih =>
    intro h
    by_cases e : add32 c.state.nlen c.state.ndist - c.state.have_ = g + 1
    · rw [e]
    · rw [codelens_loop_more g c (by omega)]
      exact ih (by omega)
lemma cl_resume (f : Nat) (C C2 : Cfg) (hs : C2.state = C.state)
    (hlt : C.state.have_ < add32 C.state.nlen C.state.ndist)
    (h : code_loop C.state.lencode C.state.lenbits (C2.have_ + 1) C2 =
      code_loop C.state.lencode C.state.lenbits (C.have_ + 1) C) :
    codelens_loop (f + 1) C2 = codelens_loop (f + 1) C := by
  conv_lhs => rw [codelens_loop]
  conv_rhs => rw [codelens_loop]
  rw [hs, h, if_pos hlt, if_pos hlt]

/-- A round of the loop of CODELENS that ran out of input behind the code: the
round from the locals it left is the round from the locals it began with. -/
lemma cl_resume_rep (f : Nat) (C C1 C2 : Cfg) (this : code)
    (hlt : C.state.have_ < add32 C.state.nlen C.state.ndist)
    (hs : C2.state = C.state)
    (h1 : code_loop C.state.lencode C.state.lenbits (C.have_ + 1) C = .got this C1)
    (h2 : code_loop C.state.lencode C.state.lenbits (C2.have_ + 1) C2 = .got this C2)
    (hv : ¬ this.val < 16) (hr : codelens_repeat this C2 = codelens_repeat this C1) :
    codelens_loop (f + 1) C2 = codelens_loop (f + 1) C := by
  have hlt2 : C2.state.have_ < add32 C2.state.nlen C2.state.ndist := by rw [hs]; exact hlt
  have h2' : code_loop C2.state.lencode C2.state.lenbits (C2.have_ + 1) C2 = .got this C2 := by
    rw [hs]; exact h2
  rcases hR : codelens_repeat this C1 with c3 | c3 | ⟨c3, len, copy⟩
  · rw [cl_leave f C C1 c3 this hlt h1 hv hR, cl_leave f C2 C2 c3 this hlt2 h2' hv (hr.trans hR)]
  · rw [cl_stop f C C1 c3 this hlt h1 hv hR, cl_stop f C2 C2 c3 this hlt2 h2' hv (hr.trans hR)]
  · rw [cl_rep f C C1 c3 this len copy hlt h1 hv hR,
      cl_rep f C2 C2 c3 this len copy hlt2 h2' hv (hr.trans hR)]

lemma codelens_round_sim (P H I X : List Nat) (ob OB : Nat) (c C : Cfg) (h : Rel P H I X ob OB c C)
    (hm : c.state.mode = CODELENS)
    (hlt : c.state.have_ < add32 c.state.nlen c.state.ndist) :
    (∃ c3 C3, (∀ f, codelens_loop (f + 1) c = codelens_loop f c3) ∧
        (∀ f, codelens_loop (f + 1) C = codelens_loop f C3) ∧
        Rel P H I X ob OB c3 C3 ∧ c3.state.mode = CODELENS ∧ c3.put = c.put ∧ c3.left = c.left ∧
        c3.state.nlen = c.state.nlen ∧ c3.state.ndist = c.state.ndist ∧
        c.state.have_ < c3.state.have_) ∨
    (∃ c3 C3, (∀ f, codelens_loop (f + 1) c = (true, c3)) ∧
        (∀ f, codelens_loop (f + 1) C = (true, C3)) ∧
        c3.state.mode = BAD ∧ C3.state.mode = BAD ∧ c3.put = c.put ∧ C3.put = C.put ∧
        c3.left = c.left) ∨
    (∃ c2 C2, (∀ f, codelens_loop (f + 1) c = (false, c2)) ∧ c2.have_ = 0 ∧ In I X c2 C2 ∧
        Acc c c2 ∧ Acc C C2 ∧
        (∀ f, codelens_loop (f + 1) C2 = codelens_loop (f + 1) C) ∧
        (C2.have_ = 0 → ∀ f, codelens_loop (f + 1) C = (false, C2))) := by
  have hk : kind c.state.mode ≤ 1 := by rw [hm]; decide
  have hc := h.core hk
  have hv := hc.view
  have eH : C.state.have_ = c.state.have_ := (congrArg View.have_ hv).symm
  have eNl : C.state.nlen = c.state.nlen := (congrArg View.nlen hv).symm
  have eNd : C.state.ndist = c.state.ndist := (congrArg View.ndist hv).symm
  have eLs : C.state.lens = c.state.lens := (congrArg View.lens hv).symm
  have eLc : C.state.lencode = c.state.lencode := (congrArg View.lencode hv).symm
  have eLb : C.state.lenbits = c.state.lenbits := (congrArg View.lenbits hv).symm
  have HLT : C.state.have_ < add32 C.state.nlen C.state.ndist := by
    rw [eH, eNl, eNd]; exact hlt
  have hT := hc.tabs.len CODELENS hm (by decide)
  rcases code_loop_sim c.state.lencode c.state.lenbits c C hc.inp with
    ⟨c1, C1, a1, a2, a3, a4, a5, a6⟩ | ⟨c1, C2, a1, a2, a3, a4, a5, a6, a7⟩
  · obtain ⟨this, hthis⟩ : ∃ this, this = c.state.lencode.getD (BITS c1 c.state.lenbits) ⟨0, 0, 0⟩ :=
      ⟨_, rfl⟩
    have hagain : ∀ c2 C2, Grow c1 c2 → In I X c2 C2 →
        code_loop c.state.lencode c.state.lenbits (C2.have_ + 1) C2 = .got this C2 := by
      intro c2 C2 hg hI
      rw [hthis]
      exact code_loop_again _ _ hT c1 C2 (hg.right_in hI) a6 _
    have hb255 : this.bits ≤ 255 := by rw [hthis]; exact hT.2.1 _
    rw [← hthis] at a1 a2 a6
    have a2' : code_loop C.state.lencode C.state.lenbits (C.have_ + 1) C = .got this C1 := by
      rw [eLc, eLb]; exact a2
    have h1 : Rel P H I X ob OB c1 C1 := h.acc hk a4 a5 a3
    have hm1 : c1.state.mode = CODELENS := by rw [a4.2.1]; exact hm
    have hk1 : kind c1.state.mode ≤ 1 := by rw [a4.2.1]; exact hk
    by_cases hv16 : this.val < 16
    · left
      have e := h1.tr_eq hk1 false false false (fun e => by cases e) (fun e => by cases e)
        (fun e => by cases e)
      have h2 := h1.tr_rel hk1 false false false (fun e => by cases e) (fun e => by cases e)
        (fun e => by cases e)
      have hc2 := h2.core hk1
      rw [e] at a2'
      have hT1 : PrefixTab c1.state.lencode c1.state.lenbits := by rw [a4.2.1]; exact hT
      refine ⟨_, _, fun f => cl_lit f c c1 this hlt a1 hv16 a6,
        fun f => cl_lit f C _ this HLT a2' hv16 a6, ?_, hm1, a4.2.2.1, a4.2.2.2.1,
        by show c1.state.nlen = c.state.nlen; rw [a4.2.1],
        by show c1.state.ndist = c.state.ndist; rw [a4.2.1],
        by show c.state.have_ < c1.state.have_ + 1; rw [a4.2.1]; omega⟩
      exact h2.stepAt CODELENS hk1 ⟨rfl, rfl, rfl, rfl, ⟨rfl, rfl, rfl, rfl, rfl, rfl⟩⟩
        ⟨rfl, rfl, rfl, rfl, ⟨rfl, rfl, rfl, rfl, rfl, rfl⟩⟩ ⟨rfl, rfl, a3.2.2⟩
        (view_have (c1.state.have_ + 1)
          (view_lens (memcpy c1.state.lens c1.state.have_ [this.val]) hc2.view))
        hm1 (by decide) (by decide)
        (LS_plain_at _ CODELENS hm1 (by decide))
        ⟨fun _ => hT1, fun g => by rw [show _ = c1.state.mode from rfl, hm1] at g; simp [acc_kind] at g⟩
    · have eH1 : c1.state.have_ = C1.state.have_ := by rw [a4.2.1, a5.2.1, eH]
      have eL1 : c1.state.lens = C1.state.lens := by rw [a4.2.1, a5.2.1, eLs]
      rcases codelens_repeat_sim this c1 C1 a3 eH1 eL1 hb255 with
        ⟨c2, C2, len, copy, b1, b2, b3, b4, b5⟩ | ⟨c2, C2, b1, b2, b4, b5⟩ |
        ⟨c2, C2, b1, b2, b3, b4, b5, b6, b7, b8⟩
      · have h2 : Rel P H I X ob OB c2 C2 := h1.acc hk1 b4 b5 b3
        have hm2 : c2.state.mode = CODELENS := by rw [b4.2.1]; exact hm1
        have hk2 : kind c2.state.mode ≤ 1 := by rw [b4.2.1]; exact hk1
        have e := h2.tr_eq hk2 false false false (fun e => by cases e) (fun e => by cases e)
          (fun e => by cases e)
        have h3 := h2.tr_rel hk2 false false false (fun e => by cases e) (fun e => by cases e)
          (fun e => by cases e)
        have hc3 := h3.core hk2
        rw [e] at b2
        have q1 := fun f => cl_rep f c c1 c2 this len copy hlt a1 hv16 b1
        have q2 := fun f => cl_rep f C C1 _ this len copy HLT a2' hv16 b2
        have hpos := codelens_repeat_pos this c1 c2 len copy b1
        have hT2 : PrefixTab c2.state.lencode c2.state.lenbits := by
          rw [b4.2.1, a4.2.1]; exact hT
        simp only [tr_proj] at q2
        by_cases hov : add32 c2.state.have_ copy > add32 c2.state.nlen c2.state.ndist
        · right; left
          simp only [if_pos hov] at q1 q2
          exact ⟨_, _, q1, q2, rfl, rfl, by show c2.put = c.put; rw [b4.2.2.1, a4.2.2.1],
            by show c2.put = C.put; rw [b4.2.2.1, a4.2.2.1, h.put],
            by show c2.left = c.left; rw [b4.2.2.2.1, a4.2.2.2.1]⟩
        · left
          simp only [if_neg hov] at q1 q2
          refine ⟨_, _, q1, q2, ?_, hm2, by show c2.put = c.put; rw [b4.2.2.1, a4.2.2.1],
            by show c2.left = c.left; rw [b4.2.2.2.1, a4.2.2.2.1],
            by show c2.state.nlen = c.state.nlen; rw [b4.2.1, a4.2.1],
            by show c2.state.ndist = c.state.ndist; rw [b4.2.1, a4.2.1],
            by show c.state.have_ < c2.state.have_ + copy; rw [b4.2.1, a4.2.1]; omega⟩
          exact h3.stepAt CODELENS hk2 ⟨rfl, rfl, rfl, rfl, ⟨rfl, rfl, rfl, rfl, rfl, rfl⟩⟩
            ⟨rfl, rfl, rfl, rfl, ⟨rfl, rfl, rfl, rfl, rfl, rfl⟩⟩ ⟨rfl, rfl, b3.2.2⟩
            (view_have (c2.state.have_ + copy)
              (view_lens (memcpy c2.state.lens c2.state.have_ (List.replicate copy (len % 65536)))
                hc3.view))
            hm2 (by decide) (by decide)
            (LS_plain_at _ CODELENS hm2 (by decide))
            ⟨fun _ => hT2,
              fun g => by rw [show _ = c2.state.mode from rfl, hm2] at g; simp [acc_kind] at g⟩
      · right; left
        exact ⟨_, _, fun f => cl_stop f c c1 _ this hlt a1 hv16 b1,
          fun f => cl_stop f C C1 _ this HLT a2' hv16 b2, rfl, rfl,
          by show c2.put = c.put; rw [b4.2.2.1, a4.2.2.1],
          by show C2.put = C.put; rw [b5.2.2.1, a5.2.2.1],
          by show c2.left = c.left; rw [b4.2.2.2.1, a4.2.2.2.1]⟩
      · right; right
        have A := a5.atrans b5
        refine ⟨c2, C2, fun f => cl_leave f c c1 c2 this hlt a1 hv16 b1, b2, b3, a4.atrans b4, A,
          fun f => ?_, fun h0 f => ?_⟩
        · exact cl_resume_rep f C C1 C2 this HLT A.2.1 a2'
            (by rw [eLc, eLb]; exact hagain c2 C2 b6 b3) hv16 b7
        · exact cl_leave f C C1 C2 this HLT a2' hv16 (b8 h0)
  · right; right
    refine ⟨c1, C2, fun f => cl_short f c c1 hlt a1, a2, a3, a4, a5, fun f => ?_, fun h0 f => ?_⟩
    · exact cl_resume f C C2 a5.2.1 HLT (by rw [eLc, eLb]; exact a6)
    · exact cl_short f C C2 HLT (by rw [eLc, eLb]; exact a7 h0)
lemma codelens_loop_sim (P H I X : List Nat) (ob OB : Nat) : ∀ f c C, Rel P H I X ob OB c C → c.state.mode = CODELENS →
    add32 c.state.nlen c.state.ndist - c.state.have_ ≤ f →
    (∃ c1 C1, codelens_loop f c = (true, c1) ∧ codelens_loop f C = (true, C1) ∧
       c1.put = c.put ∧ c1.left = c.left ∧ Rel P H I X ob OB c1 C1 ∧
       (c1.state.mode = CODELENS ∨ (c1.state.mode = BAD ∧ C1.state.mode = BAD))) ∨
    (∃ c1 C2, codelens_loop f c = (false, c1) ∧ c1.have_ = 0 ∧ Rel P H I X ob OB c1 C2 ∧
       c1.state.mode = CODELENS ∧ c1.put = c.put ∧ c1.left = c.left ∧
       (∀ g, add32 C2.state.nlen C2.state.ndist - C2.state.have_ ≤ g →
         codelens_loop g C2 = codelens_loop f C) ∧
       (C2.have_ = 0 → codelens_loop f C = (false, C2))) := by
  intro f
  induction f with
  | zero =>
    intro c C h hm _
    exact Or.inl ⟨c, C, rfl, rfl, rfl, rfl, h, Or.inl hm⟩
  | succ f ih =>
    intro c C h hm hf
    have hk : kind c.state.mode ≤ 1 := by rw [hm]; decide
    have hv := (h.core hk).view
    have eH : C.state.have_ = c.state.have_ := (congrArg View.have_ hv).symm
    have eNl : C.state.nlen = c.state.nlen := (congrArg View.nlen hv).symm
    have eNd : C.state.ndist = c.state.ndist := (congrArg View.ndist hv).symm
    by_cases hlt : c.state.have_ < add32 c.state.nlen c.state.ndist
    · rcases codelens_round_sim P H I X ob OB c C h hm hlt with
        ⟨c3, C3, q1, q2, h3, hm3, p, l, n, d, hv3⟩ | ⟨c3, C3, q1, q2, m3, M3, p, p', l⟩ |
        ⟨c2, C2, q1, z, i, a, A, r, s⟩
      · rcases ih c3 C3 h3 hm3 (by rw [n, d]; omega) with
          ⟨c1, C1, r1, r2, r3, r4, r5, r6⟩ | ⟨c1, C2, r1, r2, r3, r4, r5, r6, r7, r8⟩
        · exact Or.inl ⟨c1, C1, by rw [q1]; exact r1, by rw [q2]; exact r2, r3.trans p,
            r4.trans l, r5, r6⟩
        · exact Or.inr ⟨c1, C2, by rw [q1]; exact r1, r2, r3, r4, r5.trans p, r6.trans l,
            fun g hg => by rw [q2]; exact r7 g hg, fun h0 => by rw [q2]; exact r8 h0⟩
      · exact Or.inl ⟨c3, C3, q1 f, q2 f, p, l,
          Rel.badmode _ _ (p.trans (h.put.trans p'.symm)) m3 M3, Or.inr ⟨m3, M3⟩⟩
      · refine Or.inr ⟨c2, C2, q1 f, z, h.acc hk a A i, by rw [a.2.1]; exact hm, a.2.2.1,
          a.2.2.2.1, ?_, fun h0 => s h0 f⟩
        intro g hg
        rw [A.2.1] at hg
        obtain ⟨g', rfl⟩ : ∃ g', g = g' + 1 := ⟨g - 1, by rw [eH, eNl, eNd] at hg; omega⟩
        rw [r g', codelens_loop_suff C (g' + 1) hg,
          codelens_loop_suff C (f + 1) (by rw [eH, eNl, eNd]; exact hf)]
    · rw [cl_end f c hlt, cl_end f C (by rw [eH, eNl, eNd]; exact hlt)]
      exact Or.inl ⟨c, C, rfl, rfl, rfl, rfl, h, Or.inl hm⟩
lemma CODELENS_pre_sim (E : Ext) (hE : TablePrefix E) (hL : TableLens E) (f0 flush : Int)
    (P H I X : List Nat) (ob OB : Nat) (c0 c C : Cfg) (h : Rel P H I X ob OB c C) (hp : c.put = c0.put) (hl : c.left = c0.left)
    (hm : c.state.mode = CODELENS ∨ (c.state.mode = BAD ∧ C.state.mode = BAD)) :
    OutP E f0 flush P H I X ob OB c0 (CODELENS_pre E c) (CODELENS_pre E C) := by
  rcases hm with hm | ⟨hm, hM⟩
  · have hk : kind c.state.mode ≤ 1 := by rw [hm]; decide
    have hc := h.core hk
    have hM : C.state.mode = CODELENS := h.mode_eq CODELENS hm (by decide)
    have e := h.tr_eq hk false false false (fun e => by cases e) (fun e => by cases e)
      (fun e => by cases e)
    have h2 := h.tr_rel hk false false false (fun e => by cases e) (fun e => by cases e)
      (fun e => by cases e)
    have hc2 := h2.core hk
    have hret : (0 : Int) = c.ret := hc.ret.1.symm
    have hRet : (0 : Int) = (tr false false false c C).ret := hc2.ret.2.symm
    rw [e]
    unfold CODELENS_pre
    simp only [tr_proj]
    rw [if_neg (show ¬ c.state.mode = BAD by rw [hm]; decide),
      if_neg (show ¬ C.state.mode = BAD by rw [hM]; decide)]
    by_cases x : (E.inflate_table .LENS c.state.lens c.state.nlen 9).1 ≠ 0
    · rw [if_pos x, if_pos x]
      show Out E f0 flush P H I X ob OB c0 (.cont _) (.cont _)
      refine Out.aligned (by rw [← hp]; exact List.prefix_rfl) ?_
      exact Rel.badmode _ _ rfl rfl rfl
    · rw [if_neg x, if_neg x]
      have x0 : (E.inflate_table .LENS c.state.lens c.state.nlen 9).1 = 0 := by
        simpa using x
      by_cases y : (E.inflate_table .DISTS (c.state.lens.drop c.state.nlen) c.state.ndist 6).1 ≠ 0
      · rw [if_pos y, if_pos y]
        show Out E f0 flush P H I X ob OB c0 (.cont _) (.cont _)
        refine Out.aligned (by rw [← hp]; exact List.prefix_rfl) ?_
        exact Rel.badmode _ _ rfl rfl rfl
      · rw [if_neg y, if_neg y]
        have y0 : (E.inflate_table .DISTS (c.state.lens.drop c.state.nlen) c.state.ndist 6).1 = 0 := by
          simpa using y
        refine ⟨_, rfl, ?_, rfl, hp, hl⟩
        exact h2.stepAt LEN hk ⟨rfl, rfl, rfl, y0.trans hret, ⟨rfl, rfl, rfl, rfl, rfl, rfl⟩⟩
          ⟨rfl, rfl, rfl, y0.trans hRet, ⟨rfl, rfl, rfl, rfl, rfl, rfl⟩⟩ hc2.inp
          (view_mode LEN (view_distcode _ _ (view_lencode
            (E.inflate_table .LENS c.state.lens c.state.nlen 9).2.1
            (E.inflate_table .LENS c.state.lens c.state.nlen 9).2.2 hc2.view))
            (fun e => by cases e) (fun e => by cases e) (fun e => by cases e)) rfl
          (by decide) (by decide) (LS_len _ (Or.inl rfl) (hL _ _ _))
          ⟨fun _ => hE _ _ _ _ x0, fun _ => hE _ _ _ _ y0⟩
  · unfold CODELENS_pre
    rw [if_pos hm, if_pos hM]
    show Out E f0 flush P H I X ob OB c0 (.cont _) (.cont _)
    exact Out.aligned (by rw [← hp]) h
lemma sstep_CODELENS (E : Ext) (f0 : Int) (C : Cfg) (hM : C.state.mode = CODELENS) :
    sstep E f0 C = (case_CODELENS_pre E C).run case_LEN_slow := by
  unfold sstep
  rw [hM]

lemma sstep_LENLENS (E : Ext) (f0 : Int) (C : Cfg) (hM : C.state.mode = LENLENS) :
    sstep E f0 C = (case_LENLENS_pre E C).run case_LEN_slow := by
  unfold sstep
  rw [hM]

lemma sstep_TABLE (E : Ext) (f0 : Int) (C : Cfg) (hM : C.state.mode = TABLE) :
    sstep E f0 C = (case_TABLE_pre E C).run case_LEN_slow := by
  unfold sstep
  rw [hM]

/-- The outcome of a pass that ran out of input inside a loop that had already
changed the state. -/
lemma Out.shortAt {E : Ext} {f0 flush : Int} {P H I X : List Nat} {ob OB : Nat} {c0 c1 C2 : Cfg} {O : Outcome}
    (h : Rel P H I X ob OB c1 C2) (hk : kind c1.state.mode ≤ 1) (hp : c1.put = c0.put)
    (h0 : c1.have_ = 0) (hs : sstep E f0 C2 = O) (hz : C2.have_ = 0 → O = .leave C2) :
    Out E f0 flush P H I X ob OB c0 (.leave c1) O :=
  ⟨by rw [hp], Or.inl ⟨(h.core hk).ret.1, hk, C2, h, hs, Or.inl ⟨h0, hz⟩⟩⟩

lemma case_CODELENS_pre_def (E : Ext) (c : Cfg) (f : Nat)
    (hf : f = add32 c.state.nlen c.state.ndist) :
    case_CODELENS_pre E c =
      match codelens_loop f c with
      | (false, c) => .out (.leave c)
      | (true, c) => CODELENS_pre E c := by
  subst hf
  rfl

lemma case_CODELENS_pre_sim (E : Ext) (hE : TablePrefix E) (hL : TableLens E) (f0 flush : Int)
    (P H I X : List Nat) (ob OB : Nat) (c0 c C : Cfg) (h : Rel P H I X ob OB c C) (hp : c.put = c0.put) (hl : c.left = c0.left)
    (hm : c.state.mode = CODELENS) :
    OutP E f0 flush P H I X ob OB c0 (case_CODELENS_pre E c) (case_CODELENS_pre E C) := by
  have hk : kind c.state.mode ≤ 1 := by rw [hm]; decide
  have hv := (h.core hk).view
  have eNl : C.state.nlen = c.state.nlen := (congrArg View.nlen hv).symm
  have eNd : C.state.ndist = c.state.ndist := (congrArg View.ndist hv).symm
  have eC := case_CODELENS_pre_def E C (add32 c.state.nlen c.state.ndist) (by rw [eNl, eNd])
  rw [case_CODELENS_pre_def E c _ rfl]
  rcases codelens_loop_sim P H I X ob OB (add32 c.state.nlen c.state.ndist) c C h hm (by omega) with
    ⟨c1, C1, r1, r2, r3, r4, r5, r6⟩ | ⟨c1, C2, r1, r2, r3, r4, r5, r6, r7, r8⟩
  · rw [eC, r2, r1]
    exact CODELENS_pre_sim E hE hL f0 flush P H I X ob OB c0 c1 C1 r5 (r3.trans hp) (r4.trans hl) r6
  · have hk1 : kind c1.state.mode ≤ 1 := by rw [r4]; decide
    have hM2 : C2.state.mode = CODELENS := r3.mode_eq CODELENS r4 (by decide)
    have e2 : case_CODELENS_pre E C2 = case_CODELENS_pre E C := by
      rw [eC, case_CODELENS_pre_def E C2 _ rfl, r7 _ (by omega)]
    rw [r1]
    show Out E f0 flush P H I X ob OB c0 (.leave c1) _
    refine Out.shortAt r3 hk1 (r5.trans hp) r2 ?_ ?_
    · rw [sstep_CODELENS E f0 C2 hM2, e2]
    · intro h0
      rw [eC, r8 h0]
      rfl
lemma ll_end (f : Nat) (c : Cfg) (h : ¬ c.state.have_ < c.state.ncode) :
    lenlens_loop (f + 1) c = (true, c) := by
  rw [lenlens_loop, if_neg h]

lemma ll_short (f : Nat) (c c1 : Cfg) (hlt : c.state.have_ < c.state.ncode)
    (h : NEEDBITS 3 c = (false, c1)) : lenlens_loop (f + 1) c = (false, c1) := by
  rw [lenlens_loop, if_pos hlt, h]

lemma ll_next (f : Nat) (c c1 : Cfg) (hlt : c.state.have_ < c.state.ncode)
    (h : NEEDBITS 3 c = (true, c1)) :
    lenlens_loop (f + 1) c = lenlens_loop f (DROPBITS 3 { c1 with state := { c1.state with
      lens := memcpy c1.state.lens (order.getD c1.state.have_ 0) [BITS c1 3 % 65536],
      have_ := c1.state.have_ + 1 } }) := by
  rw [lenlens_loop, if_pos hlt, h]

lemma lenlens_loop_more (f : Nat) :
    ∀ c : Cfg, c.state.ncode - c.state.have_ ≤ f →
      lenlens_loop (f + 1) c = lenlens_loop f c := by
  induction f with
  | zero =>
    intro c h
    rw [ll_end 0 c (by omega)]
    rfl
  | succ f ih =>
    intro c h
    by_cases hlt : c.state.have_ < c.state.ncode
    · have hA := NEEDBITS_acc 3 c
      rcases hN : NEEDBITS 3 c with ⟨b, c1⟩
      rw [hN] at hA
      cases b
      · rw [ll_short _ c c1 hlt hN, ll_short _ c c1 hlt hN]
      · rw [ll_next _ c c1 hlt hN, ll_next _ c c1 hlt hN]
        apply ih
        show c1.state.ncode - (c1.state.have_ + 1) ≤ f
        rw [hA.2.1]
        omega
    · rw [ll_end _ c hlt, ll_end _ c hlt]

lemma lenlens_loop_suff (c : Cfg) : ∀ g, c.state.ncode - c.state.have_ ≤ g →
    lenlens_loop g c = lenlens_loop (c.state.ncode - c.state.have_) c := by
  intro g
  induction g with
  | zero => intro h; congr 1; omega
  | succ g ih =>
    intro h
    by_cases e : c.state.ncode - c.state.have_ = g + 1
    · rw [e]
    · rw [lenlens_loop_more g c (by omega)]
      exact ih (by omega)

lemma ll_resume (f : Nat) (C C2 : Cfg) (hs : C2.state = C.state)
    (hlt : C.state.have_ < C.state.ncode) (h : NEEDBITS 3 C2 = NEEDBITS 3 C) :
    lenlens_loop (f + 1) C2 = lenlens_loop (f + 1) C := by
  conv_lhs => rw [lenlens_loop]
  conv_rhs => rw [lenlens_loop]
  rw [hs, h, if_pos hlt, if_pos hlt]

lemma lenlens_loop_sim (P H I X : List Nat) (ob OB : Nat) : ∀ f c C, Rel P H I X ob OB c C → c.state.mode = LENLENS →
    c.state.ncode - c.state.have_ ≤ f →
    (∃ c1 C1, lenlens_loop f c = (true, c1) ∧ lenlens_loop f C = (true, C1) ∧
       c1.put = c.put ∧ c1.left = c.left ∧ Rel P H I X ob OB c1 C1 ∧ c1.state.mode = LENLENS) ∨
    (∃ c1 C2, lenlens_loop f c = (false, c1) ∧ c1.have_ = 0 ∧ Rel P H I X ob OB c1 C2 ∧
       c1.state.mode = LENLENS ∧ c1.put = c.put ∧ c1.left = c.left ∧
       (∀ g, C2.state.ncode - C2.state.have_ ≤ g → lenlens_loop g C2 = lenlens_loop f C) ∧
       (C2.have_ = 0 → lenlens_loop f C = (false, C2))) := by
  intro f
  induction f with
  | zero =>
    intro c C h hm _
    exact Or.inl ⟨c, C, rfl, rfl, rfl, rfl, h, hm⟩
  | succ f ih =>
    intro c C h hm hf
    have hk : kind c.state.mode ≤ 1 := by rw [hm]; decide
    have hc := h.core hk
    have hv := hc.view
    have eH : C.state.have_ = c.state.have_ := (congrArg View.have_ hv).symm
    have eNc : C.state.ncode = c.state.ncode := (congrArg View.ncode hv).symm
    by_cases hlt : c.state.have_ < c.state.ncode
    · have HLT : C.state.have_ < C.state.ncode := by rw [eH, eNc]; exact hlt
      rcases NEEDBITS_sim 3 c C hc.inp with
        ⟨c1, C1, a1, a2, a3, a4, a5, -⟩ | ⟨c1, C2, a1, a2, a3, a4, a5, a6, a7⟩
      · have h1 : Rel P H I X ob OB c1 C1 := h.acc hk a4 a5 a3
        have hm1 : c1.state.mode = LENLENS := by rw [a4.2.1]; exact hm
        have hk1 : kind c1.state.mode ≤ 1 := by rw [a4.2.1]; exact hk
        have e := h1.tr_eq hk1 false false false (fun e => by cases e) (fun e => by cases e)
          (fun e => by cases e)
        have h2 := h1.tr_rel hk1 false false false (fun e => by cases e) (fun e => by cases e)
          (fun e => by cases e)
        have hc2 := h2.core hk1
        rw [e] at a2
        have q1 := ll_next f c c1 hlt a1
        have q2 := ll_next f C _ HLT a2
        simp only [BITS_eq, tr_proj] at q1 q2
        have h3 : Rel P H I X ob OB
            (DROPBITS 3 { c1 with state := { c1.state with
              lens := memcpy c1.state.lens (order.getD c1.state.have_ 0) [bitsOf c1.hold 3 % 65536],
              have_ := c1.state.have_ + 1 } })
            (DROPBITS 3 { tr false false false c1 C1 with
              state := { (tr false false false c1 C1).state with
              lens := memcpy c1.state.lens (order.getD c1.state.have_ 0) [bitsOf c1.hold 3 % 65536],
              have_ := c1.state.have_ + 1 } }) :=
          h2.stepAt LENLENS hk1 ⟨rfl, rfl, rfl, rfl, ⟨rfl, rfl, rfl, rfl, rfl, rfl⟩⟩
            ⟨rfl, rfl, rfl, rfl, ⟨rfl, rfl, rfl, rfl, rfl, rfl⟩⟩ ⟨rfl, rfl, a3.2.2⟩
            (view_have (c1.state.have_ + 1)
              (view_lens (memcpy c1.state.lens (order.getD c1.state.have_ 0)
                [bitsOf c1.hold 3 % 65536]) hc2.view))
            hm1 (by decide) (by decide)
            (LS_plain_at _ LENLENS hm1 (by decide)) (TabsP_plain_at _ LENLENS hm1 (by decide))
        rcases ih _ _ h3 hm1 (by
            show c1.state.ncode - (c1.state.have_ + 1) ≤ f
            rw [a4.2.1]; omega) with
          ⟨c4, C4, r1, r2, r3, r4, r5, r6⟩ | ⟨c4, C4, r1, r2, r3, r4, r5, r6, r7, r8⟩
        · exact Or.inl ⟨c4, C4, by rw [q1]; exact r1, by rw [q2]; exact r2,
            r3.trans a4.2.2.1, r4.trans a4.2.2.2.1, r5, r6⟩
        · exact Or.inr ⟨c4, C4, by rw [q1]; exact r1, r2, r3, r4, r5.trans a4.2.2.1,
            r6.trans a4.2.2.2.1, fun g hg => by rw [q2]; exact r7 g hg,
            fun h0 => by rw [q2]; exact r8 h0⟩
      · refine Or.inr ⟨c1, C2, ll_short f c c1 hlt a1, a2, h.acc hk a4 a5 a3,
          by rw [a4.2.1]; exact hm, a4.2.2.1, a4.2.2.2.1, ?_,
          fun h0 => ll_short f C C2 HLT (a7 h0)⟩
        intro g hg
        rw [a5.2.1] at hg
        obtain ⟨g', rfl⟩ : ∃ g', g = g' + 1 := ⟨g - 1, by omega⟩
        rw [ll_resume g' C C2 a5.2.1 HLT a6, lenlens_loop_suff C (g' + 1) hg,
          lenlens_loop_suff C (f + 1) (by rw [eH, eNc]; exact hf)]
    · rw [ll_end f c hlt, ll_end f C (by rw [eH, eNc]; exact hlt)]
      exact Or.inl ⟨c, C, rfl, rfl, rfl, rfl, h, hm⟩
lemma view_fill {st ST : inflate_state} (n : Nat) (hv : view st = view ST) :
    view (lenlens_fill n st) = view (lenlens_fill n ST) := by
  induction n generalizing st ST with
  | zero => exact hv
  | succ n ih =>
    have eH : ST.have_ = st.have_ := (congrArg View.have_ hv).symm
    have eL : ST.lens = st.lens := (congrArg View.lens hv).symm
    unfold lenlens_fill
    by_cases x : st.have_ < 19
    · rw [if_pos x, if_pos (by rw [eH]; exact x), eH, eL]
      exact ih (view_have (st.have_ + 1) (view_lens (memcpy st.lens (order.getD st.have_ 0) [0]) hv))
    · rw [if_neg x, if_neg (by rw [eH]; exact x)]
      exact hv

lemma Fx.fill (n : Nat) (st : inflate_state) : Fx st (lenlens_fill n st) :=
  ⟨(lenlens_fill_frame n st).2.2.2.1, (lenlens_fill_frame n st).2.1,
    (lenlens_fill_frame n st).2.2.1, (lenlens_fill_frame n st).1,
    (lenlens_fill_check n st).2.1, (lenlens_fill_check n st).1⟩

lemma LENLENS_pre_sim (E : Ext) (hE : TablePrefix E) (hL : TableLens E) (f0 flush : Int)
    (P H I X : List Nat) (ob OB : Nat) (c0 c C : Cfg) (h : Rel P H I X ob OB c C) (hp : c.put = c0.put) (hl : c.left = c0.left)
    (hm : c.state.mode = LENLENS) :
    OutP E f0 flush P H I X ob OB c0 (LENLENS_pre E c) (LENLENS_pre E C) := by
  have hk : kind c.state.mode ≤ 1 := by rw [hm]; decide
  have hc := h.core hk
  have hvf := view_fill 19 hc.view
  have hlens : (lenlens_fill 19 C.state).lens = (lenlens_fill 19 c.state).lens :=
    (congrArg View.lens hvf).symm
  have hret : (0 : Int) = c.ret := hc.ret.1.symm
  have hRet : (0 : Int) = C.ret := hc.ret.2.symm
  unfold LENLENS_pre
  simp only []
  rw [hlens]
  by_cases x : (E.inflate_table .CODES (lenlens_fill 19 c.state).lens 19 7).1 ≠ 0
  · rw [if_pos x, if_pos x]
    show Out E f0 flush P H I X ob OB c0 (.cont _) (.cont _)
    refine Out.aligned (by rw [← hp]; exact List.prefix_rfl) ?_
    exact Rel.badmode _ _ h.put rfl rfl
  · rw [if_neg x, if_neg x]
    have x0 : (E.inflate_table .CODES (lenlens_fill 19 c.state).lens 19 7).1 = 0 := by
      simpa using x
    refine case_CODELENS_pre_sim E hE hL f0 flush P H I X ob OB c0 _ _ ?_ hp hl rfl
    exact h.stepAt CODELENS hk ⟨rfl, rfl, rfl, x0.trans hret, ⟨(Fx.fill 19 c.state).wsize, (Fx.fill 19 c.state).whave, (Fx.fill 19 c.state).write,
        (Fx.fill 19 c.state).window, (Fx.fill 19 c.state).check, (Fx.fill 19 c.state).wrap⟩⟩
      ⟨rfl, rfl, rfl, x0.trans hRet, ⟨(Fx.fill 19 C.state).wsize, (Fx.fill 19 C.state).whave, (Fx.fill 19 C.state).write,
        (Fx.fill 19 C.state).window, (Fx.fill 19 C.state).check, (Fx.fill 19 C.state).wrap⟩⟩ hc.inp
      (view_mode CODELENS (view_have 0 (view_lens (lenlens_fill 19 c.state).lens (view_lencode
        (E.inflate_table .CODES (lenlens_fill 19 c.state).lens 19 7).2.1
        (E.inflate_table .CODES (lenlens_fill 19 c.state).lens 19 7).2.2 hvf)))
        (fun e => by cases e) (fun e => by cases e) (fun e => by cases e)) rfl
      (by decide) (by decide) (LS_plain_at _ CODELENS rfl (by decide))
      ⟨fun _ => hE _ _ _ _ x0, fun g => by simp [acc_kind] at g⟩

lemma case_LENLENS_pre_def (E : Ext) (c : Cfg) (f : Nat) (hf : f = c.state.ncode) :
    case_LENLENS_pre E c =
      match lenlens_loop f c with
      | (false, c) => .out (.leave c)
      | (true, c) => LENLENS_pre E c := by
  subst hf
  rfl

lemma case_LENLENS_pre_sim (E : Ext) (hE : TablePrefix E) (hL : TableLens E) (f0 flush : Int)
    (P H I X : List Nat) (ob OB : Nat) (c0 c C : Cfg) (h : Rel P H I X ob OB c C) (hp : c.put = c0.put) (hl : c.left = c0.left)
    (hm : c.state.mode = LENLENS) :
    OutP E f0 flush P H I X ob OB c0 (case_LENLENS_pre E c) (case_LENLENS_pre E C) := by
  have hk : kind c.state.mode ≤ 1 := by rw [hm]; decide
  have hv := (h.core hk).view
  have eNc : C.state.ncode = c.state.ncode := (congrArg View.ncode hv).symm
  have eC := case_LENLENS_pre_def E C c.state.ncode eNc.symm
  rw [case_LENLENS_pre_def E c _ rfl]
  rcases lenlens_loop_sim P H I X ob OB c.state.ncode c C h hm (by omega) with
    ⟨c1, C1, r1, r2, r3, r4, r5, r6⟩ | ⟨c1, C2, r1, r2, r3, r4, r5, r6, r7, r8⟩
  · rw [eC, r2, r1]
    exact LENLENS_pre_sim E hE hL f0 flush P H I X ob OB c0 c1 C1 r5 (r3.trans hp) (r4.trans hl) r6
  · have hk1 : kind c1.state.mode ≤ 1 := by rw [r4]; decide
    have hM2 : C2.state.mode = LENLENS := r3.mode_eq LENLENS r4 (by decide)
    have e2 : case_LENLENS_pre E C2 = case_LENLENS_pre E C := by
      rw [eC, case_LENLENS_pre_def E C2 _ rfl, r7 _ (by omega)]
    rw [r1]
    show Out E f0 flush P H I X ob OB c0 (.leave c1) _
    refine Out.shortAt r3 hk1 (r5.trans hp) r2 ?_ ?_
    · rw [sstep_LENLENS E f0 C2 hM2, e2]
    · intro h0
      rw [eC, r8 h0]
      rfl
lemma case_TABLE_pre_sim (E : Ext) (hE : TablePrefix E) (hL : TableLens E) (f0 flush : Int)
    (P H I X : List Nat) (ob OB : Nat) (c C : Cfg) (h : Rel P H I X ob OB c C) (hm : c.state.mode = TABLE) :
    OutP E f0 flush P H I X ob OB c (case_TABLE_pre E c) (case_TABLE_pre E C) := by
  have hk : kind c.state.mode ≤ 1 := by rw [hm]; decide
  have hc := h.core hk
  have hM : C.state.mode = TABLE := h.mode_eq TABLE hm (by decide)
  rcases NEEDBITS_sim 14 c C hc.inp with
    ⟨c1, C1, a1, a2, a3, a4, a5, -⟩ | ⟨c1, C2, a1, a2, a3, a4, a5, a6, a7⟩
  · have h1 : Rel P H I X ob OB c1 C1 := h.acc hk a4 a5 a3
    have hm1 : c1.state.mode = TABLE := by rw [a4.2.1]; exact hm
    have hk1 : kind c1.state.mode ≤ 1 := by rw [a4.2.1]; exact hk
    have e := h1.tr_eq hk1 false false false (fun e => by cases e) (fun e => by cases e)
      (fun e => by cases e)
    have h2 := h1.tr_rel hk1 false false false (fun e => by cases e) (fun e => by cases e)
      (fun e => by cases e)
    have hc2 := h2.core hk1
    have hv := view_mode LENLENS (view_have 0
      (view_ncode (add32 (bitsOf (c1.hold >>> 5 >>> 5) 4) 4)
        (view_ndist (add32 (bitsOf (c1.hold >>> 5) 5) 1)
          (view_nlen (add32 (bitsOf c1.hold 5) 257) hc2.view))))
      (fun e => by cases e) (fun e => by cases e) (fun e => by cases e)
    unfold case_TABLE_pre
    rw [a1, a2, e]
    simp only [BITS_eq, tr_proj, DROPBITS_proj]
    split_ifs with x
    · show Out E f0 flush P H I X ob OB c (.cont _) (.cont _)
      refine Out.aligned (by rw [← a4.2.2.1]; exact List.prefix_rfl) ?_
      exact Rel.badmode _ _ rfl rfl rfl
    · refine case_LENLENS_pre_sim E hE hL f0 flush P H I X ob OB c _ _ ?_ a4.2.2.1 a4.2.2.2.1 rfl
      exact h2.stepAt LENLENS hk1 ⟨rfl, rfl, rfl, rfl, ⟨rfl, rfl, rfl, rfl, rfl, rfl⟩⟩
        ⟨rfl, rfl, rfl, rfl, ⟨rfl, rfl, rfl, rfl, rfl, rfl⟩⟩ ⟨rfl, rfl, a3.2.2⟩ hv rfl
        (by decide) (by decide) (LS_plain_at _ LENLENS rfl (by decide))
        (TabsP_plain_at _ LENLENS rfl (by decide))
  · have hM2 : C2.state.mode = TABLE := by rw [a5.2.1]; exact hM
    unfold case_TABLE_pre
    rw [a1]
    show Out E f0 flush P H I X ob OB c (.leave c1) _
    refine Out.short h hk a4 a5 a3 a2 ?_ ?_
    · rw [sstep_TABLE E f0 C2 hM2]
      unfold case_TABLE_pre
      rw [a6]
    · intro h0
      rw [a7 h0]
      rfl
lemma pre_run_sim (E : Ext) (f0 flush : Int) (P H I X : List Nat) (ob OB : Nat) (c : Cfg)
    (p PC : Pre) (h : OutP E f0 flush P H I X ob OB c p PC)
    (hD : Near (PC.run case_LEN_slow)) :
    Out E f0 flush P H I X ob OB c (p.run case_LEN_slow) (PC.run case_LEN_slow) := by
  cases p with
  | out o => exact h
  | len c1 =>
    obtain ⟨C1, e, h1, hm, hp, hl⟩ := h
    subst e
    exact Out.from (case_LEN_slow_sim E f0 flush P H I X ob OB c1 C1 h1 hm hD) hp hl

lemma sstep_sim (E : Ext) (hE : TablePrefix E) (hL : TableLens E) (f0 flush : Int)
    (hf0 : f0 ≠ Z_BLOCK) (P H I X : List Nat) (ob OB : Nat) (c C : Cfg)
    (h : Rel P H I X ob OB c C) (hD : Near (sstep E f0 C)) :
    Out E f0 flush P H I X ob OB c (sstep E flush c) (sstep E f0 C) := by
  have hbad : ∀ m, c.state.mode = m → kind m = 3 → m ≠ BAD → False := by
    intro m hm hk hb
    exact hb (hm ▸ h.good (by rw [hm]; exact hk))
  have hMo : ∀ m, c.state.mode = m → m ≠ TYPE ∧ m ≠ TYPEDO → C.state.mode = m :=
    fun m hm hn => h.mode_eq m hm hn
  have hs : ∀ m, c.state.mode = m → m ≠ TABLE ∧ m ≠ LENLENS ∧ m ≠ CODELENS ∧ m ≠ LEN →
      sstep E flush c = step E flush c := fun m hm hn => sstep_at E flush c m hm hn
  have hS : ∀ m, C.state.mode = m → m ≠ TABLE ∧ m ≠ LENLENS ∧ m ≠ CODELENS ∧ m ≠ LEN →
      sstep E f0 C = step E f0 C := fun m hm hn => sstep_at E f0 C m hm hn
  cases hm : c.state.mode with
  | HEAD =>
    have hM := hMo _ hm (by decide)
    rw [hS _ hM (by decide)] at hD ⊢
    rw [hs _ hm (by decide)]
    unfold step
    rw [hm, hM]
    exact case_HEAD_sim E f0 flush P H I X ob OB c C h hm
  | DICTID =>
    have hM := hMo _ hm (by decide)
    rw [hS _ hM (by decide)] at hD ⊢
    rw [hs _ hm (by decide)]
    unfold step
    rw [hm, hM]
    exact case_DICTID_sim E f0 flush hf0 P H I X ob OB c C h hm
  | DICT =>
    have hM := hMo _ hm (by decide)
    rw [hS _ hM (by decide)] at hD ⊢
    rw [hs _ hm (by decide)]
    unfold step
    rw [hm, hM]
    exact case_DICT_sim E f0 flush hf0 P H I X ob OB c C h hm
  | TYPE =>
    rw [sstep_TYPEDO E f0 hf0 C (by rw [← h.mode, hm]; rfl), hs _ hm (by decide)]
    unfold step
    rw [hm]
    exact case_TYPE_sim E f0 flush hf0 P H I X ob OB c C h hm
  | TYPEDO =>
    rw [sstep_TYPEDO E f0 hf0 C (by rw [← h.mode, hm]; rfl), hs _ hm (by decide)]
    unfold step
    rw [hm]
    exact case_TYPEDO_sim E f0 flush hf0 P H I X ob OB c C h (by rw [hm]; rfl)
  | STORED =>
    have hM := hMo _ hm (by decide)
    rw [hS _ hM (by decide)] at hD ⊢
    rw [hs _ hm (by decide)]
    unfold step
    rw [hm, hM]
    exact case_STORED_sim E f0 flush P H I X ob OB c C h hm
  | COPY =>
    have hM := hMo _ hm (by decide)
    rw [hS _ hM (by decide)] at hD ⊢
    rw [hs _ hm (by decide)]
    unfold step
    rw [hm, hM]
    exact case_COPY_sim E f0 flush P H I X ob OB c C h hm
  | TABLE =>
    have hM := hMo _ hm (by decide)
    rw [sstep_TABLE E f0 C hM] at hD ⊢
    rw [sstep_TABLE E flush c hm]
    exact pre_run_sim E f0 flush P H I X ob OB c _ _
      (case_TABLE_pre_sim E hE hL f0 flush P H I X ob OB c C h hm) hD
  | LENLENS =>
    have hM := hMo _ hm (by decide)
    rw [sstep_LENLENS E f0 C hM] at hD ⊢
    rw [sstep_LENLENS E flush c hm]
    exact pre_run_sim E f0 flush P H I X ob OB c _ _
      (case_LENLENS_pre_sim E hE hL f0 flush P H I X ob OB c c C h rfl rfl hm) hD
  | CODELENS =>
    have hM := hMo _ hm (by decide)
    rw [sstep_CODELENS E f0 C hM] at hD ⊢
    rw [sstep_CODELENS E flush c hm]
    exact pre_run_sim E f0 flush P H I X ob OB c _ _
      (case_CODELENS_pre_sim E hE hL f0 flush P H I X ob OB c c C h rfl rfl hm) hD
  | LEN =>
    have hM := hMo _ hm (by decide)
    rw [sstep_LEN E f0 C hM] at hD ⊢
    rw [sstep_LEN E flush c hm]
    exact case_LEN_slow_sim E f0 flush P H I X ob OB c C h hm hD
  | LENEXT =>
    have hM := hMo _ hm (by decide)
    rw [sstep_LENEXT E f0 C hM] at hD ⊢
    rw [sstep_LENEXT E flush c hm]
    exact case_LENEXT_sim E f0 flush P H I X ob OB c C h hm hD
  | DIST =>
    have hM := hMo _ hm (by decide)
    rw [sstep_DIST E f0 C hM] at hD ⊢
    rw [sstep_DIST E flush c hm]
    exact case_DIST_sim E f0 flush P H I X ob OB c C h hm hD
  | DISTEXT =>
    have hM := hMo _ hm (by decide)
    rw [hS _ hM (by decide)] at hD ⊢
    rw [hs _ hm (by decide)]
    unfold step at hD ⊢
    rw [hM] at hD
    rw [hm, hM]
    exact case_DISTEXT_sim E f0 flush P H I X ob OB c C h hm hD
  | MATCH =>
    have hM := hMo _ hm (by decide)
    rw [hS _ hM (by decide)] at hD ⊢
    rw [hs _ hm (by decide)]
    unfold step
    rw [hm, hM]
    exact case_MATCH_sim E f0 flush P H I X ob OB c C h hm
  | LIT =>
    have hM := hMo _ hm (by decide)
    rw [hS _ hM (by decide)] at hD ⊢
    rw [hs _ hm (by decide)]
    unfold step
    rw [hm, hM]
    exact case_LIT_sim E f0 flush P H I X ob OB c C h hm
  | CHECK =>
    have hM := hMo _ hm (by decide)
    rw [hS _ hM (by decide)] at hD ⊢
    rw [hs _ hm (by decide)]
    unfold step
    rw [hm, hM]
    exact case_CHECK_sim E f0 flush P H I X ob OB c C h hm
  | DONE =>
    have hM := hMo _ hm (by decide)
    rw [hS _ hM (by decide)] at hD ⊢
    rw [hs _ hm (by decide)]
    unfold step
    rw [hm, hM]
    exact case_DONE_sim E f0 flush P H I X ob OB c c C List.prefix_rfl h.put hm hM
  | BAD =>
    have hM := hMo _ hm (by decide)
    rw [hS _ hM (by decide)] at hD ⊢
    rw [hs _ hm (by decide)]
    unfold step
    rw [hm, hM]
    exact case_BAD_sim E f0 flush P H I X ob OB c c C List.prefix_rfl h.put hm hM
  | FLAGS => exact (hbad _ hm (by decide) (by decide)).elim
  | TIME => exact (hbad _ hm (by decide) (by decide)).elim
  | OS => exact (hbad _ hm (by decide) (by decide)).elim
  | EXLEN => exact (hbad _ hm (by decide) (by decide)).elim
  | EXTRA => exact (hbad _ hm (by decide) (by decide)).elim
  | NAME => exact (hbad _ hm (by decide) (by decide)).elim
  | COMMENT => exact (hbad _ hm (by decide) (by decide)).elim
  | HCRC => exact (hbad _ hm (by decide) (by decide)).elim
  | LENGTH => exact (hbad _ hm (by decide) (by decide)).elim
  | MEM => exact (hbad _ hm (by decide) (by decide)).elim
  | SYNC => exact (hbad _ hm (by decide) (by decide)).elim
lemma LS_live {st st1 : inflate_state} (h : LS st) (hm : st1.mode = st.mode)
    (hv : view st1 = view st) : LS st1 := by
  have hlc : st1.lencode = st.lencode := congrArg View.lencode hv
  refine ⟨fun g => ?_, fun g => ?_, fun g => ?_⟩
  · rw [hlc]; exact h.1 (by rw [← hm]; exact g)
  · have g' : st.mode = LENEXT := by rw [← hm]; exact g
    rw [view_length_eq hv (by rw [g]; rfl), view_extra_eq hv (by rw [g]; rfl)]
    exact h.2.1 g'
  · have g' : st.mode = DIST ∨ st.mode = DISTEXT ∨ st.mode = MATCH := by rw [← hm]; exact g
    rw [view_length_eq hv (by rcases g with g | g | g <;> rw [g] <;> rfl)]
    exact h.2.2 g'

lemma TabsP_live {st st1 : inflate_state} (h : TabsP st) (hm : st1.mode = st.mode)
    (hv : view st1 = view st) : TabsP st1 :=
  TabsP_keep h hm (congrArg View.lencode hv) (congrArg View.lenbits hv)
    (congrArg View.distcode hv) (congrArg View.distbits hv)

/-- The relation does not see what no pass reads. -/
lemma Rel.live {P H I X : List Nat} {ob OB : Nat} {c c1 C : Cfg} (h : Rel P H I X ob OB c C)
    (e : LiveEq c c1) : Rel P H I X ob OB c1 C := by
  by_cases hk : kind c.state.mode ≤ 1
  · have hc := h.core hk
    refine h.stepM hk ⟨e.put, e.left, e.out, e.ret, e.fx⟩ (Qt.qrefl C) ?_ (e.view.trans hc.view)
      (by rw [e.mode]; exact hk) (fun g => by rw [e.mode] at g; exact g)
      (LS_live hc.ls e.mode e.view) (TabsP_live hc.tabs e.mode e.view) ?_
    · obtain ⟨h1, h2, h3⟩ := hc.inp
      exact ⟨by rw [e.hold]; exact h1, by rw [e.bits]; exact h2, by rw [e.next, e.have_]; exact h3⟩
    · intro g
      have g' : c.state.mode = MATCH := by rw [← e.mode]; exact g
      rw [view_offset_eq e.view (by rw [g]; rfl), e.fx.wsize]
      exact hc.dist g'
  · exact ⟨by rw [e.put]; exact h.put, by rw [e.mode]; exact h.mode,
      by rw [e.mode]; exact h.good, fun g => by rw [e.mode] at g; exact absurd g hk⟩

lemma slow_passes_snoc (E : Ext) (f0 : Int) : ∀ k C0 C C1,
    slow_passes E f0 k C0 = some C → sstep E f0 C = .cont C1 →
    slow_passes E f0 (k + 1) C0 = some C1 := by
  intro k
  induction k with
  | zero =>
    intro C0 C C1 h1 h2
    cases h1
    show (match sstep E f0 C0 with | .cont c1 => slow_passes E f0 0 c1 | _ => none) = _
    rw [h2]
    rfl
  | succ k ih =>
    intro C0 C C1 h1 h2
    have e : slow_passes E f0 (k + 1) C0 =
        match sstep E f0 C0 with | .cont c1 => slow_passes E f0 k c1 | _ => none := rfl
    rw [e] at h1
    show (match sstep E f0 C0 with | .cont c1 => slow_passes E f0 (k + 1) c1 | _ => none) = _
    rcases hs : sstep E f0 C0 with c1 | c1 | ⟨r, s⟩
    · rw [hs] at h1
      exact ih c1 C C1 h1 h2
    · rw [hs] at h1; cases h1
    · rw [hs] at h1; cases h1

lemma slow_passes_succ (E : Ext) (f : Int) (n : Nat) (c : Cfg) :
    slow_passes E f (n + 1) c =
      match sstep E f c with
      | .cont c1 => slow_passes E f n c1
      | _ => none := rfl

lemma OnTrack.near {E : Ext} {f0 : Int} {C0 C2 : Cfg} {k : Nat} (h : OnTrack E f0 C0 k C2)
    (hN : NearAll E f0 C0) : Near (sstep E f0 C2) := by
  obtain ⟨C, h1, h2⟩ := h
  rw [h2]
  exact hN k C h1

lemma OnTrack.next {E : Ext} {f0 : Int} {C0 C2 C1 : Cfg} {k : Nat} (h : OnTrack E f0 C0 k C2)
    (hs : sstep E f0 C2 = .cont C1) : OnTrack E f0 C0 (k + 1) C1 := by
  obtain ⟨C, h1, h2⟩ := h
  exact ⟨C1, slow_passes_snoc E f0 k C0 C C1 h1 (h2 ▸ hs), rfl⟩

lemma OnTrack.same {E : Ext} {f0 : Int} {C0 C2 C3 : Cfg} {k : Nat} (h : OnTrack E f0 C0 k C2)
    (hs : sstep E f0 C3 = sstep E f0 C2) : OnTrack E f0 C0 k C3 := by
  obtain ⟨C, h1, h2⟩ := h
  exact ⟨C, h1, hs.trans h2⟩

/-- Passes of the decode in pieces that end in a `break`, taken without the
fast path, keep it on the track of the decode in one call. -/
lemma multi_sim (E : Ext) (hE : TablePrefix E) (hL : TableLens E) (f0 flush : Int)
    (hf0 : f0 ≠ Z_BLOCK) (P H I X : List Nat) (ob OB : Nat) (C0 : Cfg)
    (hN : NearAll E f0 C0) : ∀ n c cn k C2, Rel P H I X ob OB c C2 → OnTrack E f0 C0 k C2 →
    slow_passes E flush n c = some cn →
    ∃ k' C3, Rel P H I X ob OB cn C3 ∧ OnTrack E f0 C0 k' C3 ∧ c.put <+: cn.put ∧
      (k < k' ∨ (k' = k ∧ cn.left < c.left) ∨ (k' = k ∧ n = 0 ∧ cn = c)) := by
  intro n
  induction n with
  | zero =>
    intro c cn k C2 h ht hs
    cases hs
    exact ⟨k, C2, h, ht, List.prefix_rfl, Or.inr (Or.inr ⟨rfl, rfl, rfl⟩)⟩
  | succ n ih =>
    intro c cn k C2 h ht hs
    have hO := sstep_sim E hE hL f0 flush hf0 P H I X ob OB c C2 h (ht.near hN)
    rw [slow_passes_succ] at hs
    rcases hc : sstep E flush c with c1 | c1 | ⟨r, s⟩
    · rw [hc] at hs hO
      obtain ⟨hp, ⟨C1, e, h1⟩ | ⟨C3, h1, e, hl⟩⟩ := hO
      · obtain ⟨k', C4, r1, r2, r3, r4⟩ := ih c1 cn (k + 1) C1 h1 (ht.next e) hs
        refine ⟨k', C4, r1, r2, hp.trans r3, Or.inl ?_⟩
        rcases r4 with r4 | ⟨r4, -⟩ | ⟨r4, -⟩ <;> omega
      · obtain ⟨k', C4, r1, r2, r3, r4⟩ := ih c1 cn k C3 h1 (ht.same e) hs
        refine ⟨k', C4, r1, r2, hp.trans r3, ?_⟩
        rcases r4 with r4 | ⟨r4, r5⟩ | ⟨r4, -, r5⟩
        · exact Or.inl r4
        · exact Or.inr (Or.inl ⟨r4, by omega⟩)
        · exact Or.inr (Or.inl ⟨r4, by rw [r5]; exact hl⟩)
    · rw [hc] at hs; cases hs
    · rw [hc] at hs; cases hs
lemma PULLBYTE_have {c c1 : Cfg} (h : PULLBYTE c = some c1) : c1.have_ + 1 = c.have_ := by
  unfold PULLBYTE at h
  by_cases h0 : c.have_ = 0
  · simp [h0] at h
  · rw [if_neg h0] at h
    cases h
    show c.have_ - 1 + 1 = c.have_
    omega

/-- A pulling loop does not give input back, and runs short only with no input
left. -/
lemma pullUntil_have (stop : Cfg → Bool) : ∀ f c, c.have_ < f →
    (pullUntil stop f c).2.have_ ≤ c.have_ ∧
      ((pullUntil stop f c).1 = false → (pullUntil stop f c).2.have_ = 0) := by
  intro f
  induction f with
  | zero => intro c h; omega
  | succ f ih =>
    intro c h
    unfold pullUntil
    by_cases hs : stop c = true
    · simp [hs]
    · simp only [hs, if_false, Bool.false_eq_true]
      cases hp : PULLBYTE c with
      | none =>
        refine ⟨le_refl _, fun _ => ?_⟩
        unfold PULLBYTE at hp
        by_cases h0 : c.have_ = 0
        · exact h0
        · rw [if_neg h0] at hp; cases hp
      | some c1 =>
        have h1 := PULLBYTE_have hp
        obtain ⟨i1, i2⟩ := ih c1 (by omega)
        exact ⟨by simp only []; omega, i2⟩

lemma NEEDBITS_have (n : Nat) (c : Cfg) :
    (NEEDBITS n c).2.have_ ≤ c.have_ ∧ ((NEEDBITS n c).1 = false → (NEEDBITS n c).2.have_ = 0) := by
  unfold NEEDBITS
  rw [NEEDBITS_loop_pull]
  exact pullUntil_have _ _ c (by omega)

lemma code_loop_have (t : List code) (n : Nat) (c : Cfg) :
    (code_loop t n (c.have_ + 1) c).cfg.have_ ≤ c.have_ ∧
      ∀ c1, code_loop t n (c.have_ + 1) c = .short c1 → c1.have_ = 0 := by
  rw [code_loop_pull]
  have h := pullUntil_have (stopCode t n) _ c (Nat.lt_succ_self _)
  rcases hp : pullUntil (stopCode t n) (c.have_ + 1) c with ⟨b, c1⟩
  rw [hp] at h
  cases b
  · exact ⟨h.1, fun c2 e => by cases e; exact h.2 rfl⟩
  · exact ⟨h.1, fun c2 e => by cases e⟩

lemma code_second_have (t : List code) (last : code) (c : Cfg) :
    (code_second t last c).cfg.have_ ≤ c.have_ ∧
      ∀ c1, code_second t last c = .short c1 → c1.have_ = 0 := by
  unfold code_second
  rw [code_loop2_pull]
  have h := pullUntil_have (stopCode2 t last) _ c (Nat.lt_succ_self _)
  rcases hp : pullUntil (stopCode2 t last) (c.have_ + 1) c with ⟨b, c1⟩
  rw [hp] at h
  cases b
  · exact ⟨h.1, fun c2 e => by cases e; exact h.2 rfl⟩
  · exact ⟨h.1, fun c2 e => by cases e⟩

lemma lenlens_loop_have (fuel : Nat) (c : Cfg) : (lenlens_loop fuel c).2.have_ ≤ c.have_ := by
  induction fuel generalizing c with
  | zero => exact le_refl _
  | succ f ih =>
    unfold lenlens_loop
    split
    · have hA := (NEEDBITS_have 3 c).1
      rcases hN : NEEDBITS 3 c with ⟨b, c1⟩
      rw [hN] at hA
      cases b
      · exact hA
      · simp only []
        exact le_trans (ih _) hA
    · exact le_refl _

lemma codelens_repeat_have (this : code) (c : Cfg) :
    (codelens_repeat this c).cfg.have_ ≤ c.have_ := by
  unfold codelens_repeat
  split
  · have hA := (NEEDBITS_have (this.bits + 2) c).1
    rcases hN : NEEDBITS (this.bits + 2) c with ⟨b, c1⟩
    rw [hN] at hA
    cases b
    · exact hA
    · simp only []
      split
      · exact hA
      · exact hA
  · split
    · have hA := (NEEDBITS_have (this.bits + 3) c).1
      rcases hN : NEEDBITS (this.bits + 3) c with ⟨b, c1⟩
      rw [hN] at hA
      cases b
      · exact hA
      · exact hA
    · have hA := (NEEDBITS_have (this.bits + 7) c).1
      rcases hN : NEEDBITS (this.bits + 7) c with ⟨b, c1⟩
      rw [hN] at hA
      cases b
      · exact hA
      · exact hA

lemma codelens_loop_have (fuel : Nat) (c : Cfg) : (codelens_loop fuel c).2.have_ ≤ c.have_ := by
  induction fuel generalizing c with
  | zero => exact le_refl _
  | succ f ih =>
    unfold codelens_loop
    split
    · have hC := (code_loop_have c.state.lencode c.state.lenbits c).1
      rcases hL : code_loop c.state.lencode c.state.lenbits (c.have_ + 1) c with ⟨this, c1⟩ | c1
      · rw [hL] at hC
        simp only [Pulled.cfg] at hC
        simp only []
        split
        · have hA := (NEEDBITS_have this.bits c1).1
          rcases hN : NEEDBITS this.bits c1 with ⟨b, c2⟩
          rw [hN] at hA
          cases b
          · exact le_trans hA hC
          · simp only []
            exact le_trans (ih _) (le_trans hA hC)
        · have hR := codelens_repeat_have this c1
          rcases hr : codelens_repeat this c1 with c2 | c2 | ⟨c2, len, copy⟩
          · rw [hr] at hR; exact le_trans hR hC
          · rw [hr] at hR; exact le_trans hR hC
          · rw [hr] at hR
            simp only [Repeat.cfg] at hR
            simp only []
            split
            · exact le_trans hR hC
            · exact le_trans (ih _) (le_trans hR hC)
      · rw [hL] at hC
        exact hC
    · exact le_refl _

lemma CODELENS_pre_have (E : Ext) (c c1 : Cfg) (h : CODELENS_pre E c = .len c1) :
    c1.have_ = c.have_ := by
  unfold CODELENS_pre at h
  simp only [] at h
  split_ifs at h
  cases h
  rfl

lemma case_CODELENS_pre_have (E : Ext) (c c1 : Cfg) (h : case_CODELENS_pre E c = .len c1) :
    c1.have_ ≤ c.have_ := by
  unfold case_CODELENS_pre at h
  have hC := codelens_loop_have (add32 c.state.nlen c.state.ndist) c
  rcases hL : codelens_loop (add32 c.state.nlen c.state.ndist) c with ⟨b, c2⟩
  rw [hL] at h hC
  cases b
  · cases h
  · simp only [] at h
    rw [CODELENS_pre_have E c2 c1 h]
    exact hC

lemma case_LENLENS_pre_have (E : Ext) (c c1 : Cfg) (h : case_LENLENS_pre E c = .len c1) :
    c1.have_ ≤ c.have_ := by
  unfold case_LENLENS_pre at h
  have hC := lenlens_loop_have c.state.ncode c
  rcases hL : lenlens_loop c.state.ncode c with ⟨b, c2⟩
  rw [hL] at h hC
  cases b
  · cases h
  · simp only [] at h
    unfold LENLENS_pre at h
    simp only [] at h
    split_ifs at h
    exact le_trans (case_CODELENS_pre_have E _ c1 h) hC

lemma case_TABLE_pre_have (E : Ext) (c c1 : Cfg) (h : case_TABLE_pre E c = .len c1) :
    c1.have_ ≤ c.have_ := by
  unfold case_TABLE_pre at h
  have hC := (NEEDBITS_have 14 c).1
  rcases hL : NEEDBITS 14 c with ⟨b, c2⟩
  rw [hL] at h hC
  cases b
  · cases h
  · simp only [] at h
    split_ifs at h
    exact le_trans (case_LENLENS_pre_have E _ c1 h) hC
lemma Pre_run_cases (E : Ext) (p : Pre) :
    p.run (case_LEN E) = p.run case_LEN_slow ∨
      ∃ c1, p = .len c1 ∧ 6 ≤ c1.have_ ∧ 258 ≤ c1.left ∧
        p.run (case_LEN E) = .cont (fast_path E c1) := by
  cases p with
  | out o => exact Or.inl rfl
  | len c1 =>
    have e := case_LEN_eq E c1
    by_cases h : c1.have_ ≥ 6 ∧ c1.left ≥ 258
    · rw [if_pos h] at e
      exact Or.inr ⟨c1, rfl, h.1, h.2, e⟩
    · rw [if_neg h] at e
      exact Or.inl e

/-- A pass is the pass without the fast path, or it takes the fast path. -/
lemma step_cases (E : Ext) (flush : Int) (c : Cfg) :
    step E flush c = sstep E flush c ∨
      ∃ c1, Enters E c c1 ∧ 6 ≤ c1.have_ ∧ 258 ≤ c1.left ∧
        step E flush c = .cont (fast_path E c1) := by
  by_cases h1 : c.state.mode = TABLE
  · have e : step E flush c = (case_TABLE_pre E c).run (case_LEN E) := by
      unfold step; rw [h1]; exact case_TABLE_pre_eq E c
    rw [e, sstep_TABLE E flush c h1]
    rcases Pre_run_cases E (case_TABLE_pre E c) with h | ⟨c1, a, b, d, g⟩
    · exact Or.inl h
    · exact Or.inr ⟨c1, Or.inr (Or.inl ⟨h1, a⟩), b, d, g⟩
  by_cases h2 : c.state.mode = LENLENS
  · have e : step E flush c = (case_LENLENS_pre E c).run (case_LEN E) := by
      unfold step; rw [h2]; exact case_LENLENS_pre_eq E c
    rw [e, sstep_LENLENS E flush c h2]
    rcases Pre_run_cases E (case_LENLENS_pre E c) with h | ⟨c1, a, b, d, g⟩
    · exact Or.inl h
    · exact Or.inr ⟨c1, Or.inr (Or.inr (Or.inl ⟨h2, a⟩)), b, d, g⟩
  by_cases h3 : c.state.mode = CODELENS
  · have e : step E flush c = (case_CODELENS_pre E c).run (case_LEN E) := by
      unfold step; rw [h3]; exact case_CODELENS_pre_eq E c
    rw [e, sstep_CODELENS E flush c h3]
    rcases Pre_run_cases E (case_CODELENS_pre E c) with h | ⟨c1, a, b, d, g⟩
    · exact Or.inl h
    · exact Or.inr ⟨c1, Or.inr (Or.inr (Or.inr ⟨h3, a⟩)), b, d, g⟩
  by_cases h4 : c.state.mode = LEN
  · have e : step E flush c = case_LEN E c := by
      unfold step; rw [h4]
    rw [e, sstep_LEN E flush c h4]
    rcases Pre_run_cases E (.len c) with h | ⟨c1, a, b, d, g⟩
    · exact Or.inl h
    · cases a
      exact Or.inr ⟨c, Or.inl ⟨h4, rfl⟩, b, d, g⟩
  · exact Or.inl (sstep_of E flush c h1 h2 h3 h4).symm

lemma OutP.atlen {E : Ext} {f0 flush : Int} {P H I X : List Nat} {ob OB : Nat} {c c1 : Cfg}
    {p PC : Pre} (h : OutP E f0 flush P H I X ob OB c p PC) (e : p = .len c1) :
    ∃ C1, PC = .len C1 ∧ Rel P H I X ob OB c1 C1 ∧ c1.state.mode = LEN ∧
      c1.put = c.put ∧ c1.left = c.left := by
  subst e
  exact h

/-- Where a pass of the piece comes to the test of the fast path, the decode in
one call comes to the case LEN with the same locals. -/
lemma Enters.sim {E : Ext} (hE : TablePrefix E) (hL : TableLens E) (f0 : Int)
    {P H I X : List Nat} {ob OB : Nat} {c c1 C : Cfg} (he : Enters E c c1)
    (h : Rel P H I X ob OB c C) :
    ∃ C1, Rel P H I X ob OB c1 C1 ∧ sstep E f0 C1 = sstep E f0 C ∧ c1.state.mode = LEN ∧
      c1.put = c.put ∧ c1.left = c.left ∧ c1.have_ ≤ c.have_ := by
  rcases he with ⟨hm, e⟩ | ⟨hm, e⟩ | ⟨hm, e⟩ | ⟨hm, e⟩
  · subst e
    exact ⟨C, h, rfl, hm, rfl, rfl, le_refl _⟩
  · obtain ⟨C1, a1, a2, a3, a4, a5⟩ :=
      (case_TABLE_pre_sim E hE hL f0 f0 P H I X ob OB c C h hm).atlen e
    refine ⟨C1, a2, ?_, a3, a4, a5, case_TABLE_pre_have E c c1 e⟩
    rw [sstep_TABLE E f0 C (h.mode_eq TABLE hm (by decide)), a1,
      sstep_LEN E f0 C1 (a2.mode_eq LEN a3 (by decide))]
    rfl
  · obtain ⟨C1, a1, a2, a3, a4, a5⟩ :=
      (case_LENLENS_pre_sim E hE hL f0 f0 P H I X ob OB c c C h rfl rfl hm).atlen e
    refine ⟨C1, a2, ?_, a3, a4, a5, case_LENLENS_pre_have E c c1 e⟩
    rw [sstep_LENLENS E f0 C (h.mode_eq LENLENS hm (by decide)), a1,
      sstep_LEN E f0 C1 (a2.mode_eq LEN a3 (by decide))]
    rfl
  · obtain ⟨C1, a1, a2, a3, a4, a5⟩ :=
      (case_CODELENS_pre_sim E hE hL f0 f0 P H I X ob OB c c C h rfl rfl hm).atlen e
    refine ⟨C1, a2, ?_, a3, a4, a5, case_CODELENS_pre_have E c c1 e⟩
    rw [sstep_CODELENS E f0 C (h.mode_eq CODELENS hm (by decide)), a1,
      sstep_LEN E f0 C1 (a2.mode_eq LEN a3 (by decide))]
    rfl

lemma LiveEq.entry (c : Cfg) (hr : c.ret = Z_OK) :
    LiveEq c (fast_entry (RESTORE c).strm (RESTORE c).state (RESTORE c).out) :=
  ⟨rfl, rfl, rfl, hr.symm, rfl, rfl, rfl, rfl, rfl, rfl, ⟨rfl, rfl, rfl, rfl, rfl, rfl⟩⟩

lemma LiveEq.exit {E : Ext} {c cn : Cfg} (hr : c.ret = Z_OK)
    (h : LiveEq cn (fast_exit E (RESTORE c).strm (RESTORE c).state (RESTORE c).out)) :
    LiveEq cn (fast_path E c) :=
  ⟨h.put, h.left, h.out, hr.trans h.ret, h.hold, h.bits, h.next, h.have_, h.mode, h.view, h.fx⟩

/-- A pass of the piece that ends in a `break` keeps it on the track of the
decode in one call, and brings it further: along the track, or in the output
space left, or in the input left. -/
lemma real_pass (E : Ext) (hE : TablePrefix E) (hL : TableLens E) (hF : FastSlow E)
    (f0 flush : Int) (hf0 : f0 ≠ Z_BLOCK) (P H I X : List Nat) (ob OB : Nat) (C0 : Cfg)
    (hN : NearAll E f0 C0) (k : Nat) (c C2 c1 : Cfg) (h : Rel P H I X ob OB c C2)
    (ht : OnTrack E f0 C0 k C2) (hs : step E flush c = .cont c1) :
    ∃ k' C3, Rel P H I X ob OB c1 C3 ∧ OnTrack E f0 C0 k' C3 ∧ c.put <+: c1.put ∧
      (k < k' ∨ (k' = k ∧ c1.left < c.left) ∨
        (k' = k ∧ c1.left ≤ c.left ∧ c1.have_ < c.have_)) := by
  rcases step_cases E flush c with e | ⟨ce, he, h6, h258, e⟩
  · have hO := sstep_sim E hE hL f0 flush hf0 P H I X ob OB c C2 h (ht.near hN)
    rw [← e, hs] at hO
    obtain ⟨hp, ⟨C1, e1, h1⟩ | ⟨C3, h1, e1, hl⟩⟩ := hO
    · exact ⟨k + 1, C1, h1, ht.next e1, hp, Or.inl (Nat.lt_succ_self k)⟩
    · exact ⟨k, C3, h1, ht.same e1, hp, Or.inr (Or.inl ⟨rfl, hl⟩)⟩
  · rw [hs] at e
    cases e
    obtain ⟨Ce, a1, a2, a3, a4, a5, a6⟩ := he.sim hE hL f0 h
    have hte : OnTrack E f0 C0 k Ce := ht.same a2
    have hr : ce.ret = Z_OK := (a1.core (by rw [a3]; decide)).ret.1
    have h0 : Rel P H I X ob OB
        (fast_entry (RESTORE ce).strm (RESTORE ce).state (RESTORE ce).out) Ce :=
      a1.live (LiveEq.entry ce hr)
    rcases hF flush (RESTORE ce).strm (RESTORE ce).state (RESTORE ce).out a3 h6 h258 with
      ⟨n, cn, b1, b2⟩ | ⟨cl, b1, b2, b3, b4, b5⟩
    · obtain ⟨k', C3, r1, r2, r3, r4⟩ := multi_sim E hE hL f0 flush hf0 P H I X ob OB C0 hN
        (n + 1) _ cn k Ce h0 hte b1
      have b3 := LiveEq.exit hr b2
      refine ⟨k', C3, r1.live b3, r2, ?_, ?_⟩
      · rw [b3.put, ← a4]; exact r3
      · rcases r4 with r4 | ⟨r4, r5⟩ | ⟨-, r5, -⟩
        · exact Or.inl r4
        · refine Or.inr (Or.inl ⟨r4, ?_⟩)
          rw [b3.left, ← a5]; exact r5
        · cases r5
    · have hO := sstep_sim E hE hL f0 flush hf0 P H I X ob OB _ Ce h0 (hte.near hN)
      rw [b1] at hO
      obtain ⟨hp, ⟨-, -, C3, r1, r2, -⟩ | ⟨r0, -⟩⟩ := hO
      · have b6 := LiveEq.exit hr b3
        refine ⟨k, C3, r1.live b6, hte.same r2, ?_, Or.inr (Or.inr ⟨rfl, ?_, ?_⟩)⟩
        · rw [b6.put, ← a4]; exact hp
        · rw [b6.left, ← a5]; exact b5
        · rw [b6.have_]; exact lt_of_lt_of_le b4 a6
      · rcases r0 with r0 | r0 <;> rw [r0] at b2 <;> cases b2
lemma lex3_ind {α : Type} (f g h : α → Nat) (Q : α → Prop)
    (H : ∀ x, (∀ y, (f y < f x ∨ (f y = f x ∧ g y < g x) ∨
      (f y = f x ∧ g y ≤ g x ∧ h y < h x)) → Q y) → Q x) : ∀ x, Q x := by
  have key : ∀ a b d x, f x = a → g x = b → h x = d → Q x := by
    intro a
    induction a using Nat.strong_induction_on with
    | _ a iha =>
      intro b
      induction b using Nat.strong_induction_on with
      | _ b ihb =>
        intro d
        induction d using Nat.strong_induction_on with
        | _ d ihd =>
          intro x hf hg hh
          apply H
          intro y hy
          rcases hy with h1 | ⟨h1, h2⟩ | ⟨h1, h2, h3⟩
          · exact iha (f y) (by omega) (g y) (h y) y rfl rfl rfl
          · exact ihb (g y) (by omega) (h y) y (by omega) rfl rfl
          · rcases Nat.lt_or_eq_of_le h2 with h4 | h4
            · exact ihb (g y) (by omega) (h y) y (by omega) rfl rfl
            · exact ihd (h y) (by omega) y (by omega) (by omega) rfl
  exact fun x => key _ _ _ x rfl rfl rfl

lemma slow_passes_add (E : Ext) (f : Int) : ∀ a b C0,
    slow_passes E f (a + b) C0 = (slow_passes E f a C0).bind (slow_passes E f b) := by
  intro a
  induction a with
  | zero => intro b C0; rw [Nat.zero_add]; rfl
  | succ a ih =>
    intro b C0
    rw [Nat.succ_add, slow_passes_succ, slow_passes_succ]
    rcases sstep E f C0 with c1 | c1 | ⟨r, s⟩
    · exact ih b c1
    · rfl
    · rfl

/-- The decode in one call makes no pass after its last. -/
lemma RefEnd.le {E : Ext} {f0 : Int} {K : Nat} {Oe : Outcome} {C0 : Cfg} (k : Nat) (C : Cfg)
    (hK : RefEnd E f0 C0 K Oe) (h : slow_passes E f0 k C0 = some C) : k ≤ K := by
  by_contra hlt
  obtain ⟨Ce, e1, e2, e3⟩ := hK
  obtain ⟨j, rfl⟩ : ∃ j, k = K + (j + 1) := ⟨k - K - 1, by omega⟩
  rw [slow_passes_add, e1] at h
  simp only [Option.some_bind] at h
  rw [slow_passes_succ, e2] at h
  cases Oe with
  | cont c => exact e3 c rfl
  | leave c => cases h
  | done r s => cases h

/-- A pass of the decode in one call that does not end in a `break` is its last. -/
lemma RefEnd.last {E : Ext} {f0 : Int} {K : Nat} {Oe : Outcome} {C0 : Cfg} (k : Nat) (C : Cfg)
    (hK : RefEnd E f0 C0 K Oe) (h : slow_passes E f0 k C0 = some C)
    (hn : ∀ c, sstep E f0 C ≠ .cont c) : sstep E f0 C = Oe := by
  have h1 := hK.le k C h
  obtain ⟨Ce, e1, e2, e3⟩ := hK
  rcases Nat.lt_or_eq_of_le h1 with h2 | h2
  · exfalso
    obtain ⟨j, rfl⟩ : ∃ j, K = k + (j + 1) := ⟨K - k - 1, by omega⟩
    rw [slow_passes_add, h] at e1
    simp only [Option.some_bind] at e1
    rw [slow_passes_succ] at e1
    rcases hs : sstep E f0 C with c1 | c1 | ⟨r, s⟩
    · exact hn c1 hs
    · rw [hs] at e1; cases e1
    · rw [hs] at e1; cases e1
  · subst h2
    rw [h] at e1
    cases e1
    exact e2

lemma OnTrack.lastpass {E : Ext} {f0 : Int} {K : Nat} {Oe : Outcome} {C0 C2 : Cfg} {k : Nat}
    (h : OnTrack E f0 C0 k C2) (hK : RefEnd E f0 C0 K Oe)
    (hn : ∀ c, sstep E f0 C2 ≠ .cont c) : sstep E f0 C2 = Oe := by
  obtain ⟨C, h1, h2⟩ := h
  rw [h2] at hn ⊢
  exact hK.last k C h1 hn

lemma OnTrack.within {E : Ext} {f0 : Int} {K : Nat} {Oe : Outcome} {C0 C2 : Cfg} {k : Nat}
    (h : OnTrack E f0 C0 k C2) (hK : RefEnd E f0 C0 K Oe) : k ≤ K := by
  obtain ⟨C, h1, -⟩ := h
  exact hK.le k C h1

lemma inflate_loop_ne_cont (E : Ext) (flush : Int) : ∀ fuel c o,
    inflate_loop E flush fuel c = some o → ∀ c1, o ≠ .cont c1 := by
  intro fuel
  induction fuel with
  | zero => intro c o h; cases h
  | succ n ih =>
    intro c o h
    rw [inflate_loop] at h
    rcases hs : step E flush c with c1 | c1 | ⟨r, s⟩
    · rw [hs] at h; exact ih c1 o h
    · rw [hs] at h; cases h; intro c2 e; cases e
    · rw [hs] at h; cases h; intro c2 e; cases e

lemma inflate_loop_last (E : Ext) (flush : Int) (c : Cfg) (o : Outcome)
    (hs : step E flush c = o) (hn : ∀ c1, o ≠ .cont c1) :
    ∀ fuel, 1 ≤ fuel → inflate_loop E flush fuel c = some o := by
  intro fuel hf
  obtain ⟨n, rfl⟩ : ∃ n, fuel = n + 1 := ⟨fuel - 1, by omega⟩
  rw [inflate_loop, hs]
  cases o with
  | cont c1 => exact absurd rfl (hn c1)
  | leave c1 => rfl
  | done r s => rfl

/-- What the loop of a call that decodes a piece ends in, when it ends: the
outcome of a pass without the fast path, from locals on the track of the decode
in one call. -/
lemma loop_run (E : Ext) (hE : TablePrefix E) (hL : TableLens E) (hF : FastSlow E)
    (f0 flush : Int) (hf0 : f0 ≠ Z_BLOCK) (P H I X : List Nat) (ob OB : Nat) (C0 : Cfg)
    (hN : NearAll E f0 C0) : ∀ fuel k c C2 o, Rel P H I X ob OB c C2 → OnTrack E f0 C0 k C2 →
    inflate_loop E flush fuel c = some o →
    ∃ k' cn C3, Rel P H I X ob OB cn C3 ∧ OnTrack E f0 C0 k' C3 ∧ c.put <+: cn.put ∧
      (∀ c1, o ≠ .cont c1) ∧ Out E f0 flush P H I X ob OB cn o (sstep E f0 C3) := by
  intro fuel
  induction fuel with
  | zero => intro k c C2 o _ _ h; cases h
  | succ n ih =>
    intro k c C2 o h ht hl
    have hne := inflate_loop_ne_cont E flush _ c o hl
    rw [inflate_loop] at hl
    rcases hs : step E flush c with c1 | c1 | ⟨r, s⟩
    · rw [hs] at hl
      obtain ⟨k1, C3, r1, r2, r3, -⟩ :=
        real_pass E hE hL hF f0 flush hf0 P H I X ob OB C0 hN k c C2 c1 h ht hs
      obtain ⟨k', cn, C4, q1, q2, q3, q4, q5⟩ := ih k1 c1 C3 o r1 r2 hl
      exact ⟨k', cn, C4, q1, q2, r3.trans q3, q4, q5⟩
    · rw [hs] at hl
      cases hl
      refine ⟨k, c, C2, h, ht, List.prefix_rfl, hne, ?_⟩
      rcases step_cases E flush c with e | ⟨ce, -, -, -, e⟩
      · rw [← hs, e]
        exact sstep_sim E hE hL f0 flush hf0 P H I X ob OB c C2 h (ht.near hN)
      · rw [hs] at e; cases e
    · rw [hs] at hl
      cases hl
      refine ⟨k, c, C2, h, ht, List.prefix_rfl, hne, ?_⟩
      rcases step_cases E flush c with e | ⟨ce, -, -, -, e⟩
      · rw [← hs, e]
        exact sstep_sim E hE hL f0 flush hf0 P H I X ob OB c C2 h (ht.near hN)
      · rw [hs] at e; cases e

/-- The loop of a call that decodes a piece ends, given that the decode in one
call does. -/
lemma loop_ends (E : Ext) (hE : TablePrefix E) (hL : TableLens E) (hF : FastSlow E)
    (f0 flush : Int) (hf0 : f0 ≠ Z_BLOCK) (P H I X : List Nat) (ob OB : Nat) (C0 : Cfg)
    (hN : NearAll E f0 C0) (K : Nat) (Oe : Outcome) (hK : RefEnd E f0 C0 K Oe) :
    ∀ x : Nat × Cfg × Cfg, Rel P H I X ob OB x.2.1 x.2.2 → OnTrack E f0 C0 x.1 x.2.2 →
    ∃ G o, ∀ fuel, G ≤ fuel → inflate_loop E flush fuel x.2.1 = some o := by
  refine lex3_ind (fun x : Nat × Cfg × Cfg => K - x.1) (fun x => x.2.1.left)
    (fun x => x.2.1.have_) _ ?_
  rintro ⟨k, c, C2⟩ ih h ht
  simp only [] at ih h ht ⊢
  rcases hs : step E flush c with c1 | c1 | ⟨r, s⟩
  · obtain ⟨k1, C3, r1, r2, r3, r4⟩ :=
      real_pass E hE hL hF f0 flush hf0 P H I X ob OB C0 hN k c C2 c1 h ht hs
    have hk1 := r2.within hK
    have hk := ht.within hK
    obtain ⟨G, o, hG⟩ := ih (k1, c1, C3) (by
      simp only []
      rcases r4 with r4 | ⟨r4, r5⟩ | ⟨r4, r5, r6⟩
      · exact Or.inl (by omega)
      · exact Or.inr (Or.inl ⟨by rw [r4], r5⟩)
      · exact Or.inr (Or.inr ⟨by rw [r4], r5, r6⟩)) r1 r2
    refine ⟨G + 1, o, fun fuel hf => ?_⟩
    obtain ⟨n, rfl⟩ : ∃ n, fuel = n + 1 := ⟨fuel - 1, by omega⟩
    rw [inflate_loop_cont E flush n c c1 hs]
    exact hG n (by omega)
  · exact ⟨1, _, inflate_loop_last E flush c _ hs (fun c2 e => by cases e)⟩
  · exact ⟨1, _, inflate_loop_last E flush c _ hs (fun c2 e => by cases e)⟩
lemma zlib_updatewindow_shape (strm : z_stream) (st : inflate_state) (out : Nat) :
    ∃ w wr wh, zlib_updatewindow strm st out =
      { st with window := w, write := wr, whave := wh } := by
  unfold zlib_updatewindow
  simp only []
  split_ifs <;> exact ⟨_, _, _, rfl⟩

/-- The state that `inf_leave` leaves behind: the state of the locals with the
accumulator stored, the window brought up to date and the output of the call
folded into the checksum. -/
lemma leave_stream_st (c : Cfg) (hws : c.state.wsize ≠ 0) :
    ∃ st, (leave_stream c).state = some st ∧ st.mode = c.state.mode ∧
      view st = view c.state ∧ st.hold = c.hold ∧ st.bits = c.bits ∧
      st.wrap = c.state.wrap ∧
      st.check = (if c.state.wrap ≠ 0 ∧ sub32 c.out c.left ≠ 0 then
        zlib_adler32 c.state.check
          (some (readBack c.put (sub32 c.out c.left) (sub32 c.out c.left)))
        else c.state.check) ∧
      Fx (zlib_updatewindow (RESTORE c).strm (RESTORE c).state c.out)
        { st with check := c.state.check } := by
  obtain ⟨w, wr, wh, e⟩ := zlib_updatewindow_shape (RESTORE c).strm (RESTORE c).state c.out
  unfold leave_stream
  simp only [RESTORE, hws, ne_eq, not_false_eq_true, true_or, if_true] at e ⊢
  rw [e]
  exact ⟨_, rfl, rfl, rfl, rfl, rfl, rfl, rfl, ⟨rfl, rfl, rfl, rfl, rfl, rfl⟩⟩
lemma enter_cases (strm : z_stream) (st : inflate_state) :
    ((enter strm st).state = st ∧ st.mode ≠ TYPE) ∨
    ((enter strm st).state = { st with mode := TYPEDO } ∧ st.mode = TYPE) := by
  unfold enter LOAD
  by_cases h : st.mode = TYPE
  · right; simp [h]
  · left; simp [h]

lemma enter_view (strm : z_stream) (st : inflate_state) :
    view (enter strm st).state = view st := by
  rcases enter_cases strm st with ⟨e, h⟩ | ⟨e, h⟩
  · rw [e]
  · rw [e]
    unfold view
    simp [h, vmode, lenLive, offLive, extLive]

lemma enter_fx (strm : z_stream) (st : inflate_state) : Fx st (enter strm st).state := by
  rcases enter_cases strm st with ⟨e, h⟩ | ⟨e, h⟩
  · rw [e]; exact Fx.xrefl _
  · rw [e]; exact ⟨rfl, rfl, rfl, rfl, rfl, rfl⟩

/-- The relation at the entry of the next call: the state `st` is what the call
before left of the state of its locals, `O` what that call wrote, `R` the input
that it did not consume, and the piece `q` what the caller offers next. -/
lemma Rel.renter {P H I X : List Nat} {ob OB : Nat} {c1 C2 : Cfg}
    (h : Rel P H I X ob OB c1 C2) (s : z_stream) (st : inflate_state) (O : List Nat)
    (q : Piece) (R : List Nat)
    (hm : st.mode = c1.state.mode) (hv : view st = view c1.state)
    (hh : st.hold = c1.hold) (hb : st.bits = c1.bits) (hput : s.next_out = c1.put)
    (hk : kind c1.state.mode ≤ 1 →
      c1.put = P ++ (H ++ O) ∧ (∃ l, c1.next = some l ∧ R = l ++ X) ∧ Represents st (H ++ O) ∧
      (st.wrap ≠ 0 → (H ++ O = [] ∧ st.check = C2.state.check) ∨
        (H ++ O ≠ [] ∧ st.check = adler32_fold C2.state.check (H ++ O))) ∧
      (H ++ O).length + q.n_out ≤ OB) :
    Rel P (H ++ O) (R.take q.n_in) (R.drop q.n_in) q.n_out OB (enter (offer s R q) st) C2 := by
  obtain ⟨f1, f2, f3, f4, f5, f6, f7, f8, -, -, -, -, -, f14, f15⟩ := enter_fields (offer s R q) st
  have ev := enter_view (offer s R q) st
  have efx := enter_fx (offer s R q) st
  have em : vmode (enter (offer s R q) st).state.mode = vmode st.mode := congrArg View.mode ev
  have ek : kind (enter (offer s R q) st).state.mode = kind st.mode := by
    rw [← kind_vmode, em, kind_vmode]
  have hput' : (enter (offer s R q) st).put = c1.put := by rw [f3]; exact hput
  refine ⟨by rw [hput']; exact h.put, by rw [em, hm]; exact h.mode, fun e => ?_, fun hk1 => ?_⟩
  · rw [ek, hm] at e
    have hB := h.good e
    rw [f14 (by rw [hm, hB]; decide), hm]
    exact hB
  · have hk' : kind c1.state.mode ≤ 1 := by rw [ek, hm] at hk1; exact hk1
    have hc := h.core hk'
    obtain ⟨a1, ⟨l, a2, a3⟩, a4, a5, a6⟩ := hk hk'
    obtain ⟨i1, i2, U, l', iU, i3, i4, i5, i6⟩ := hc.inp
    rw [a2] at i3
    cases i3
    obtain ⟨O1, b1, b2, b3⟩ := hc.acct
    have hO : O1 = O := by
      rw [a1] at b1
      exact (List.append_cancel_left (List.append_cancel_left b1)).symm
    subst hO
    have hws : (enter (offer s R q) st).state.wsize = c1.state.wsize :=
      (congrArg View.wsize ev).trans (congrArg View.wsize hv)
    have hOB := hc.outs.2
    rw [List.length_append] at a6
    refine ⟨⟨by rw [f7, hh]; exact i1, by rw [f8, hb]; exact i2, [], R.take q.n_in, rfl, f1,
        f2, by rw [List.take_append_drop, i5, a3], by
          rw [i6, ← List.length_append, ← List.length_append, List.take_append_drop, a3]⟩,
      by rw [f4]; show q.n_out ≤ C2.left; omega, ⟨f6, hc.ret.2⟩, ev.trans (hv.trans hc.view),
      ⟨[], by rw [hput', a1]; simp, by rw [f4, f5]; rfl, by
        rw [List.length_append]; simp only [List.length_nil]; omega⟩,
      ⟨by rw [f5]; show q.n_out < 4294967296; have := hc.bnd.2.1; omega, hc.bnd.2.1, by
        rw [f5, hws]; show q.n_out + _ < 4294967296; have := hc.big; omega⟩,
      ⟨Represents_fx efx a4, hc.win.2⟩, ?_, ?_, ?_, ?_, ?_, ⟨f5, hOB⟩, by rw [hws]; exact hc.big⟩
    · rw [efx.wrap, efx.check]
      exact a5
    · intro h0
      rw [ek, hm] at h0
      obtain ⟨p1, p2⟩ := hc.pre h0
      rw [hput']
      refine ⟨?_, p2⟩
      rw [p2] at a1
      exact (List.self_eq_append_right.mp a1)
    · rcases enter_cases (offer s R q) st with ⟨e, -⟩ | ⟨e, -⟩
      · rw [e]; exact LS_live hc.ls hm hv
      · rw [e]; exact LS_plain_at _ TYPEDO rfl (by decide)
    · rcases enter_cases (offer s R q) st with ⟨e, -⟩ | ⟨e, -⟩
      · rw [e]; exact TabsP_live hc.tabs hm hv
      · rw [e]; exact TabsP_plain_at _ TYPEDO rfl (by decide)
    · intro g
      rcases enter_cases (offer s R q) st with ⟨e, -⟩ | ⟨e, -⟩
      · rw [e] at g ⊢
        have g' : c1.state.mode = MATCH := by rw [← hm]; exact g
        have e1 : st.wsize = c1.state.wsize := congrArg View.wsize hv
        rw [view_offset_eq hv (by rw [g]; rfl), e1]
        exact hc.dist g'
      · rw [e] at g; cases g
lemma drop_consumed (R U l X : List Nat) (n : Nat) (hI : R.take n = U ++ l)
    (hX : X = R.drop n) : R.drop ((R.take n).length - l.length) = l ++ X := by
  have hR : R = U ++ (l ++ X) := by
    rw [← List.append_assoc, ← hI, hX, List.take_append_drop]
  rw [hI, List.length_append, Nat.add_sub_cancel]
  conv_lhs => rw [hR]
  exact List.drop_left _ _

/-- The relation at the entry of a call on a stream that a call left in DONE or
in BAD. -/
lemma Rel.dead {P H I X : List Nat} {ob OB : Nat} {c1 C1 : Cfg} (h : Rel P H I X ob OB c1 C1)
    (hk : 2 ≤ kind c1.state.mode) (s : z_stream) (st : inflate_state)
    (hm : st.mode = c1.state.mode) (hput : s.next_out = c1.put)
    (P1 H1 I1 X1 : List Nat) (ob1 : Nat) (R : List Nat) (q : Piece) :
    Rel P1 H1 I1 X1 ob1 OB (enter (offer s R q) st) C1 := by
  obtain ⟨-, -, f3, -, -, -, -, -, -, -, -, -, -, f14, -⟩ := enter_fields (offer s R q) st
  have hT : st.mode ≠ TYPE := by
    intro e
    rw [← hm, e] at hk
    revert hk
    decide
  have em := f14 hT
  refine ⟨by rw [f3]; exact hput.trans h.put, by rw [em, hm]; exact h.mode,
    fun e => by rw [em, hm] at e ⊢; exact h.good e, fun e => ?_⟩
  rw [em, hm] at e
  omega

/-- After a call that went to `inf_leave` in a mode that decodes, the next call
is on the track again. -/
lemma Mid.after_leave {E : Ext} {f0 : Int} {C0 : Cfg} {P H I X : List Nat} {N ob : Nat}
    {c1 C2 : Cfg} {k : Nat} (R : List Nat) (n u : Nat) (hI : I = R.take n)
    (hX : X = R.drop n) (h : Rel P H I X ob N c1 C2) (ht : OnTrack E f0 C0 k C2)
    (hk : kind c1.state.mode ≤ 1) (hH : H.length ≤ u) :
    Mid E f0 C0 P N (leave_stream c1) (R.drop ((R.take n).length - c1.have_)) (u + ob) := by
  have hc := h.core hk
  obtain ⟨O, b1, b2, b3⟩ := hc.acct
  obtain ⟨i1, i2, U, l, iU, i3, i4, i5, i6⟩ := hc.inp
  have hws : c1.state.wsize ≠ 0 := by
    have := hc.win.1.2.1
    omega
  obtain ⟨st, e1, e2, e3, e4, e5, e6, e7, e8⟩ := leave_stream_st c1 hws
  have hob := hc.outs.1
  have hsub : sub32 c1.out c1.left = O.length := by
    rw [sub32_of_le (by omega) hc.bnd.1]
    omega
  refine ⟨st, H ++ O, e1, by rw [List.length_append]; omega, fun q hq => ⟨k, C2, ?_, ht⟩⟩
  refine h.renter (leave_stream c1) st O q _ e2 e3 e4 e5 (leave_stream_frame c1).2.2.2.1
    (fun _ => ⟨b1, ⟨l, i3, ?_⟩, ?_, ?_, hq⟩)
  · rw [i4]
    exact drop_consumed R U l X n (by rw [← hI]; exact iU) hX
  · have hr := zlib_updatewindow_represents (RESTORE c1).strm (RESTORE c1).state c1.out H
      (P ++ H) O hc.win.1 (by have := hc.bnd.2.2; show c1.state.wsize < 4294967296; omega)
      (by show c1.put = _; rw [b1, List.append_assoc]) hsub
    have hr2 := Represents_fx e8 hr
    unfold Represents at hr2 ⊢
    exact hr2
  · intro hw
    rw [e6] at hw
    rw [e7]
    by_cases hO : O = []
    · subst hO
      rw [if_neg (by rw [hsub]; simp), List.append_nil]
      exact hc.chk hw
    · have hl : O.length ≠ 0 := fun e => hO (List.length_eq_zero.mp e)
      rw [if_pos ⟨hw, by rw [hsub]; exact hl⟩, hsub, b1, ← List.append_assoc, readBack_append,
        zlib_adler32_some]
      refine Or.inr ⟨by simp [hO], ?_⟩
      rcases hc.chk hw with ⟨g1, g2⟩ | ⟨g1, g2⟩
      · rw [g1, g2]; rfl
      · rw [g2, adler32_fold_append]

/-- After a call that left the loop in DONE or in BAD, the next call is on the
track again. -/
lemma Mid.after_final {E : Ext} {f0 : Int} {C0 : Cfg} {P H I X : List Nat} {N ob : Nat}
    {c1 C1 : Cfg} {k : Nat} (R : List Nat) (u : Nat) (h : Rel P H I X ob N c1 C1)
    (ht : OnTrack E f0 C0 k C1) (hk : 2 ≤ kind c1.state.mode) :
    Mid E f0 C0 P N (leave_stream c1) R u := by
  obtain ⟨-, -, -, f4, st, f5, f6⟩ := leave_stream_frame c1
  exact ⟨st, [], f5, Nat.zero_le _, fun q _ =>
    ⟨k, C1, h.dead hk (leave_stream c1) st f6 f4 P [] _ _ _ R q, ht⟩⟩

/-- After a call that returned from inside its loop, asking for a dictionary,
the next call is on the track again. -/
lemma Mid.after_done {E : Ext} {f0 : Int} {C0 : Cfg} {P H I X : List Nat} {N ob : Nat}
    {c1 C2 : Cfg} {k : Nat} (R : List Nat) (n u : Nat) (hI : I = R.take n)
    (hX : X = R.drop n) (h : Rel P H I X ob N c1 C2) (ht : OnTrack E f0 C0 k C2)
    (hk : kind c1.state.mode = 0) (hH : H.length ≤ u) :
    Mid E f0 C0 P N (RESTORE c1).result (R.drop ((R.take n).length - c1.have_)) (u + ob) := by
  have hc := h.core (by omega)
  obtain ⟨p1, p2⟩ := hc.pre hk
  obtain ⟨i1, i2, U, l, iU, i3, i4, i5, i6⟩ := hc.inp
  refine ⟨(RESTORE c1).state, H ++ [], rfl, by rw [List.append_nil]; omega,
    fun q hq => ⟨k, C2, ?_, ht⟩⟩
  refine h.renter (RESTORE c1).result (RESTORE c1).state [] q _ rfl rfl rfl rfl rfl
    (fun _ => ⟨by rw [p2, p1]; simp, ⟨l, i3, ?_⟩, ?_, ?_, hq⟩)
  · rw [i4]
    exact drop_consumed R U l X n (by rw [← hI]; exact iU) hX
  · rw [List.append_nil]
    exact hc.win.1
  · intro hw
    rw [List.append_nil]
    exact hc.chk hw
lemma zlib_inflate_done (E : Ext) (fuel : Nat) (s : z_stream) (st : inflate_state)
    (flush : Int) (r : Int) (s1 : z_stream) (hs : s.state = some st)
    (hu : ¬ (s.next_in = none ∧ s.avail_in ≠ 0))
    (hl : inflate_loop E flush fuel (enter s st) = some (.done r s1)) :
    zlib_inflate E fuel s flush = some (r, s1) := by
  unfold zlib_inflate
  rw [hs]
  simp only [hu, if_false, hl]

/-- A call of the decode in pieces returns, leaves the decode on the track of
the decode in one call, and ends as that does when it ends with a code other
than `Z_OK` and `Z_BUF_ERROR`, or with all the input consumed and room to
spare. -/
lemma call_track (E : Ext) (f0 : Int) (C0 : Cfg) (K : Nat) (Oe : Outcome)
    (hS : Setup E f0 C0 K Oe) (P : List Nat) (N : Nat) (s : z_stream) (R : List Nat)
    (u : Nat) (q : Piece) (hM : Mid E f0 C0 P N s R u) (hq : q.flush ≠ Z_PACKET_FLUSH)
    (hu : u + q.n_out ≤ N) :
    ∃ G r s1, (∀ fuel, G ≤ fuel → zlib_inflate E fuel (offer s R q) q.flush = some (r, s1)) ∧
      Mid E f0 C0 P N s1 (R.drop ((R.take q.n_in).length - s1.avail_in)) (u + q.n_out) ∧
      s.next_out <+: s1.next_out ∧
      (r ≠ Z_OK → r ≠ Z_BUF_ERROR → s1.next_out = Oe.put ∧ Oe.code = r) ∧
      (r = Z_OK ∨ r = Z_BUF_ERROR → s1.avail_in = 0 ∨ s1.avail_out = 0 ∨ q.flush = Z_BLOCK) ∧
      (r = Z_OK ∨ r = Z_BUF_ERROR → R.drop ((R.take q.n_in).length - s1.avail_in) = [] →
        s1.avail_out ≠ 0 → q.flush ≠ Z_BLOCK → s1.next_out = Oe.put ∧ Oe.code = Z_OK) := by
  obtain ⟨st, H, hst, hH, hall⟩ := hM
  obtain ⟨k, C2, hrel, ht⟩ := hall q (by omega)
  obtain ⟨G, o, hG⟩ := loop_ends E hS.tabs hS.lens hS.fast f0 q.flush hS.noblock P H _ _
    q.n_out N C0 hS.near K Oe hS.ends (k, enter (offer s R q) st, C2) hrel ht
  simp only [] at hG
  obtain ⟨k', cn, C3, r1, r2, r3, r4, r5⟩ := loop_run E hS.tabs hS.lens hS.fast f0 q.flush
    hS.noblock P H _ _ q.n_out N C0 hS.near G k _ C2 o hrel ht (hG G le_rfl)
  have hcput : (enter (offer s R q) st).put = s.next_out := (enter_fields (offer s R q) st).2.2.1
  rw [hcput] at r3
  have hst' : (offer s R q).state = some st := hst
  have hu' : ¬ ((offer s R q).next_in = none ∧ (offer s R q).avail_in ≠ 0) :=
    fun e => by cases e.1
  cases o with
  | cont c1 => exact absurd rfl (r4 c1)
  | leave c1 =>
    obtain ⟨f1, f2, -, f4, -⟩ := leave_stream_frame c1
    obtain ⟨hp, ⟨a1, a2, C4, a3, a4, a5⟩ | ⟨a1, a2, C1, a3, a4, a5, a6⟩⟩ := r5
    · obtain ⟨n1, n2, -⟩ := inf_leave_no_packet q.flush c1 hq
      have hr : (inf_leave q.flush c1).1 = Z_OK ∨ (inf_leave q.flush c1).1 = Z_BUF_ERROR := by
        rcases n2 with n2 | ⟨n2, -⟩
        · exact Or.inl (n2.trans a1)
        · exact Or.inr n2
      have hc := a3.core a2
      obtain ⟨i1, i2, U, l, iU, i3, i4, i5, i6⟩ := hc.inp
      have hR := drop_consumed R U l _ q.n_in iU rfl
      rw [← i4] at hR
      refine ⟨G, (inf_leave q.flush c1).1, leave_stream c1, fun fuel hf => ?_, ?_, ?_, ?_, ?_, ?_⟩
      · rw [zlib_inflate_leave E fuel (offer s R q) st q.flush c1 hst' hu' (hG fuel hf), ← n1]
      · rw [f1]
        exact Mid.after_leave R q.n_in u rfl rfl a3 (r2.same a4) a2 hH
      · rw [f4]; exact r3.trans hp
      · intro h1 h2
        rcases hr with hr | hr
        · exact absurd hr h1
        · exact absurd hr h2
      · intro _
        rcases a5 with ⟨w, -⟩ | ⟨w, -⟩ | ⟨w, -⟩
        · exact Or.inl (f1.trans w)
        · exact Or.inr (Or.inl (f2.trans w))
        · exact Or.inr (Or.inr w)
      · intro _ hR0 hao hfl
        rw [f1, hR] at hR0
        rcases a5 with ⟨-, w⟩ | ⟨w, -⟩ | ⟨w, -⟩
        · have h0 : C4.have_ = 0 := by
            rw [i6, ← List.length_append, hR0]; rfl
          have hO := w h0
          have hl : sstep E f0 C4 = .leave C4 := a4.trans hO
          have hE := (r2.same a4).lastpass hS.ends (fun c e => by rw [hl] at e; cases e)
          rw [hl] at hE
          rw [← hE, f4]
          exact ⟨a3.put, hc.ret.2⟩
        · exact absurd (f2.trans w) hao
        · exact absurd w hfl
    · have hne : c1.ret ≠ Z_OK := by
        rcases a1 with a1 | a1 <;> rw [a1] <;> decide
      have hE := r2.lastpass hS.ends (fun c e => by rw [a3] at e; cases e)
      rw [a3] at hE
      have hnr : ¬ (c1.ret = Z_OK ∨ c1.ret = Z_BUF_ERROR) := by
        rcases a1 with a1 | a1 <;> rw [a1] <;> decide
      refine ⟨G, c1.ret, leave_stream c1, fun fuel hf => ?_, ?_, ?_, ?_, ?_, ?_⟩
      · rw [zlib_inflate_leave E fuel (offer s R q) st q.flush c1 hst' hu' (hG fuel hf),
          inf_leave_of_ne_ok q.flush c1 hne]
      · exact Mid.after_final _ _ a4 (r2.same (a6.trans a3.symm)) a2
      · rw [f4]; exact r3.trans hp
      · intro _ _
        rw [← hE, f4]
        exact ⟨a4.put, a5⟩
      · intro h; exact absurd h hnr
      · intro h; exact absurd h hnr
  | done r s1 =>
    obtain ⟨c1, C4, a1, a2, a3, a4, a5, a6, a7⟩ := r5
    have hE := r2.lastpass hS.ends (fun c e => by rw [a6] at e; cases e)
    rw [a6] at hE
    have hnr : ¬ (r = Z_OK ∨ r = Z_BUF_ERROR) := by
      rw [a7]; decide
    subst a1
    refine ⟨G, r, (RESTORE c1).result, fun fuel hf => ?_, ?_, ?_, ?_, ?_, ?_⟩
    · exact zlib_inflate_done E fuel (offer s R q) st q.flush r _ hst' hu' (hG fuel hf)
    · exact Mid.after_done R q.n_in u rfl rfl a4 (r2.same a5) a3 hH
    · show s.next_out <+: c1.put
      rw [a2]; exact r3
    · intro _ _
      rw [← hE]
      exact ⟨a4.put, rfl⟩
    · intro h; exact absurd h hnr
    · intro h; exact absurd h hnr
/-- With all the input offered and the same output space left, a call of the
decode in pieces leaves its loop as the decode in one call does. -/
lemma lockstep {E : Ext} {f0 flush : Int} {P H I : List Nat} {ob N : Nat} {cn : Cfg}
    {o O : Outcome} (h : Out E f0 flush P H I [] ob N cn o O) (hfl : flush ≠ Z_BLOCK)
    (hob : ob + H.length = N) (hn : ∀ c, o ≠ .cont c) :
    (∀ c, O ≠ .cont c) ∧ O.put = o.put ∧ O.code = o.code := by
  cases o with
  | cont c1 => exact absurd rfl (hn c1)
  | leave c1 =>
    obtain ⟨-, ⟨a1, a2, C4, a3, a4, a5⟩ | ⟨a1, a2, C1, a3, a4, a5, a6⟩⟩ := h
    · have hc := a3.core a2
      obtain ⟨i1, i2, U, l, iU, i3, i4, i5, i6⟩ := hc.inp
      obtain ⟨O1, b1, b2, b3⟩ := hc.acct
      have hl : c1.left = C4.left := by
        have := hc.outs.1
        have := hc.outs.2
        omega
      have hO : O = .leave C4 := by
        rcases a5 with ⟨w1, w2⟩ | ⟨w1, w2⟩ | ⟨w1, -⟩
        · exact w2 (by rw [i6, ← i4, w1]; rfl)
        · exact w2 (by rw [← hl]; exact w1)
        · exact absurd w1 hfl
      subst hO
      exact ⟨(fun c e => by cases e), a3.put.symm, hc.ret.2.trans a1.symm⟩
    · subst a3
      exact ⟨(fun c e => by cases e), a4.put.symm, a5⟩
  | done r s =>
    obtain ⟨c1, C4, a1, a2, a3, a4, a5, a6, a7⟩ := h
    subst a6
    subst a1
    exact ⟨(fun c e => by cases e), a4.put.symm, rfl⟩

lemma OnTrack.ends {E : Ext} {f0 : Int} {C0 C2 : Cfg} {k : Nat} (h : OnTrack E f0 C0 k C2)
    (hn : ∀ c, sstep E f0 C2 ≠ .cont c) : RefEnd E f0 C0 k (sstep E f0 C2) := by
  obtain ⟨C, h1, h2⟩ := h
  exact ⟨C, h1, h2.symm, hn⟩

/-- A loop that has all the input and the output space of the decode in one
call, and ends, ends as the decode in one call does; so that one ends. -/
lemma loop_bridge (E : Ext) (hE : TablePrefix E) (hL : TableLens E) (hF : FastSlow E)
    (f0 flush : Int) (hf0 : f0 ≠ Z_BLOCK) (hfl : flush ≠ Z_BLOCK) (P H I : List Nat)
    (ob N : Nat) (C0 : Cfg) (hN : NearAll E f0 C0) (hob : ob + H.length = N) (fuel k : Nat)
    (c C2 : Cfg) (o : Outcome) (h : Rel P H I [] ob N c C2) (ht : OnTrack E f0 C0 k C2)
    (hl : inflate_loop E flush fuel c = some o) :
    ∃ K Oe, RefEnd E f0 C0 K Oe ∧ Oe.put = o.put ∧ Oe.code = o.code ∧ c.put <+: o.put ∧
      ∀ c1, o ≠ .cont c1 := by
  obtain ⟨k', cn, C3, r1, r2, r3, r4, r5⟩ :=
    loop_run E hE hL hF f0 flush hf0 P H I [] ob N C0 hN fuel k c C2 o h ht hl
  obtain ⟨q1, q2, q3⟩ := lockstep r5 hfl hob r4
  refine ⟨k', _, r2.ends q1, q2, q3, ?_, r4⟩
  cases o with
  | cont c1 => exact absurd rfl (r4 c1)
  | leave c1 => exact r3.trans r5.1
  | done r s =>
    obtain ⟨c1, C4, a1, a2, -⟩ := r5
    subst a1
    show c.put <+: c1.put
    rw [a2]
    exact r3

lemma RefEnd.unique {E : Ext} {f0 : Int} {C0 : Cfg} {K K1 : Nat} {Oe Oe1 : Outcome}
    (h : RefEnd E f0 C0 K Oe) (h1 : RefEnd E f0 C0 K1 Oe1) : Oe1 = Oe := by
  obtain ⟨C, a1, a2, a3⟩ := h1
  rw [← a2]
  exact h.last K1 C a1 (fun c e => a3 c (a2 ▸ e))

/-- What the calls of a decode in pieces have written is the start of what the
decode in one call writes. -/
lemma Mid.starts {E : Ext} {f0 : Int} {C0 : Cfg} {K : Nat} {Oe : Outcome}
    (hS : Setup E f0 C0 K Oe) {P : List Nat} {N : Nat} {s : z_stream} {R : List Nat} {u : Nat}
    (hM : Mid E f0 C0 P N s R u) (hu : u ≤ N) : s.next_out <+: Oe.put := by
  obtain ⟨st, H, hst, hH, hall⟩ := hM
  obtain ⟨k, C2, hrel, ht⟩ := hall ⟨R.length, N - H.length, f0⟩ (by
    show H.length + (N - H.length) ≤ N
    omega)
  have hX : R.drop R.length = [] := List.drop_length R
  simp only [] at hrel
  rw [hX] at hrel
  obtain ⟨G, o, hG⟩ := loop_ends E hS.tabs hS.lens hS.fast f0 f0 hS.noblock P H _ _
    (N - H.length) N C0 hS.near K Oe hS.ends (k, _, C2) hrel ht
  simp only [] at hG
  obtain ⟨K1, Oe1, e1, e2, -, e4, -⟩ := loop_bridge E hS.tabs hS.lens hS.fast f0 f0 hS.noblock
    hS.noblock P H _ (N - H.length) N C0 hS.near (by omega) G k _ C2 o hrel ht (hG G le_rfl)
  rw [hS.ends.unique e1] at e2
  rw [e2]
  have hcput := (enter_fields (offer s R ⟨R.length, N - H.length, f0⟩) st).2.2.1
  rw [hcput] at e4
  exact e4
lemma pieces_cons (E : Ext) (fuel : Nat) (r0 r : Int) (s s1 : z_stream) (R : List Nat)
    (q : Piece) (ks : List Piece)
    (h : zlib_inflate E fuel (offer s R q) q.flush = some (r, s1)) :
    pieces E fuel r0 s R (q :: ks) =
      pieces E fuel r s1 (R.drop ((R.take q.n_in).length - s1.avail_in)) ks := by
  rw [pieces, h]

/-- Every call of a decode in pieces returns and leaves the decode on the track
of the decode in one call, as long as the calls together are given no more
output space than the one call has. -/
lemma pieces_track (E : Ext) (f0 : Int) (C0 : Cfg) (K : Nat) (Oe : Outcome)
    (hS : Setup E f0 C0 K Oe) (P : List Nat) (N : Nat) : ∀ (ks : List Piece) (s : z_stream)
    (R : List Nat) (u : Nat) (r0 : Int), Mid E f0 C0 P N s R u →
    (∀ q ∈ ks, q.flush ≠ Z_PACKET_FLUSH) → u + (ks.map Piece.n_out).sum ≤ N →
    ∃ G r s1 R1, (∀ fuel, G ≤ fuel → pieces E fuel r0 s R ks = some (r, s1, R1)) ∧
      Mid E f0 C0 P N s1 R1 (u + (ks.map Piece.n_out).sum) := by
  intro ks
  induction ks with
  | nil =>
    intro s R u r0 hM _ _
    exact ⟨0, r0, s, R, fun _ _ => rfl, by simpa using hM⟩
  | cons q ks ih =>
    intro s R u r0 hM hq hu
    simp only [List.map_cons, List.sum_cons] at hu ⊢
    obtain ⟨G1, r, s1, c1, c2, -⟩ := call_track E f0 C0 K Oe hS P N s R u q hM
      (hq q (List.mem_cons_self _ _)) (by omega)
    obtain ⟨G2, r2, s2, R2, d1, d2⟩ := ih s1 _ (u + q.n_out) r c2
      (fun q' h' => hq q' (List.mem_cons_of_mem _ h')) (by omega)
    refine ⟨max G1 G2, r2, s2, R2, fun fuel hf => ?_, by rw [← Nat.add_assoc]; exact d2⟩
    rw [pieces_cons E fuel r0 r s s1 R q ks (c1 fuel (le_trans (le_max_left _ _) hf))]
    exact d1 fuel (le_trans (le_max_right _ _) hf)

lemma init_range (strm : z_stream) (ws : inflate_state) (w : Int)
    (h : (zlib_inflateInit2 strm ws w).1 = Z_OK) :
    (8 ≤ w ∧ w ≤ 15) ∨ (-15 ≤ w ∧ w ≤ -8) := by
  unfold zlib_inflateInit2 at h
  simp only [] at h
  by_contra hc
  rw [if_pos (by split_ifs <;> omega)] at h
  exact absurd h (show ¬ (Z_STREAM_ERROR = Z_OK) by decide)

/-- The state after `zlib_inflateInit2` has accepted its window size: the mode
is HEAD, the accumulator and the window are empty, and the window size is a
power of two from 256 to 32768. -/
lemma init_fresh (strm : z_stream) (ws : inflate_state) (w : Int)
    (h : (zlib_inflateInit2 strm ws w).1 = Z_OK) :
    ∃ st, (zlib_inflateInit2 strm ws w).2.state = some st ∧ st.mode = HEAD ∧ st.hold = 0 ∧
      st.bits = 0 ∧ st.whave = 0 ∧ st.write = 0 ∧ 0 < st.wsize ∧ st.wsize ≤ 32768 ∧
      (zlib_inflateInit2 strm ws w).2.next_out = strm.next_out := by
  rcases init_range strm ws w h with ⟨h1, h2⟩ | ⟨h1, h2⟩
  · interval_cases w <;>
      exact ⟨_, by simp [zlib_inflateInit2, zlib_inflateReset]; rfl, rfl, rfl, rfl, rfl, rfl,
        by simp, by simp, by simp [zlib_inflateInit2, zlib_inflateReset]⟩
  · interval_cases w <;>
      exact ⟨_, by simp [zlib_inflateInit2, zlib_inflateReset]; rfl, rfl, rfl, rfl, rfl, rfl,
        by simp, by simp, by simp [zlib_inflateInit2, zlib_inflateReset]⟩
/-- The first call of a decode in pieces and the decode in one call enter their
loops related; the field `offset`, which no pass reads before a distance is
stored in it, is cleared in the decode in one call. -/
lemma Rel.init (s : z_stream) (st : inflate_state) (inp : List Nat) (N : Nat) (f0 : Int)
    (q : Piece) (hm : st.mode = HEAD)
    (hwh : st.whave = 0) (hwr : st.write = 0) (hws : 0 < st.wsize) (hws2 : st.wsize ≤ 32768)
    (hN : N + 32768 < 4294967296) (hq : q.n_out ≤ N) :
    Rel s.next_out [] (inp.take q.n_in) (inp.drop q.n_in) q.n_out N (enter (offer s inp q) st)
      (enter (offer s inp ⟨inp.length, N, f0⟩) { st with offset := 0 }) := by
  have hT : st.mode ≠ TYPE := by rw [hm]; decide
  obtain ⟨f1, f2, f3, f4, f5, f6, f7, f8, -⟩ := enter_fields (offer s inp q) st
  obtain ⟨g1, g2, g3, g4, g5, g6, g7, g8, -⟩ :=
    enter_fields (offer s inp ⟨inp.length, N, f0⟩) { st with offset := 0 }
  have e1 : (enter (offer s inp q) st).state = st := by
    rcases enter_cases (offer s inp q) st with ⟨e, -⟩ | ⟨-, e⟩
    · exact e
    · exact absurd e hT
  have e2 : (enter (offer s inp ⟨inp.length, N, f0⟩) { st with offset := 0 }).state =
      { st with offset := 0 } := by
    rcases enter_cases (offer s inp ⟨inp.length, N, f0⟩) { st with offset := 0 } with
      ⟨e, -⟩ | ⟨-, e⟩
    · exact e
    · exact absurd e hT
  have hk0 : kind st.mode = 0 := by rw [hm]; rfl
  have ha : acc_kind st.mode = 0 := by rw [hm]; rfl
  have hv : view st = view { st with offset := 0 } := by
    unfold view
    simp [hm, offLive]
  refine ⟨by rw [f3, g3]; rfl, by rw [e1, e2], (fun e => by rw [e1, hk0] at e; cases e),
    fun _ => ?_⟩
  refine ⟨⟨by rw [f7, g7], by rw [f8, g8], [], inp.take q.n_in, rfl, f1, f2, ?_, ?_⟩,
    by rw [f4, g4]; exact hq, ⟨f6, g6⟩, by rw [e1, e2]; exact hv,
    ⟨[], by rw [f3]; simp [offer], by rw [f4, f5]; rfl, by rw [g4, g5]; rfl⟩,
    ⟨by rw [f5]; show q.n_out < 4294967296; omega, by rw [g5]; show N < 4294967296; omega,
      by rw [f5, e1]; show q.n_out + st.wsize < 4294967296; omega⟩,
    ⟨?_, ?_⟩, fun _ => Or.inl ⟨rfl, by rw [e1, e2]⟩, fun _ => ⟨rfl, by rw [f3]; rfl⟩,
    by rw [e1]; exact LS_plain st (by omega), by rw [e1]; exact TabsP_plain st (by omega),
    (fun g => by rw [e1, hm] at g; cases g), ⟨f5, g5⟩, by rw [e1]; omega⟩
  · rw [g1, List.take_append_drop]
    show some (inp.take inp.length) = some inp
    rw [List.take_length]
  · rw [g2, ← List.length_append, List.take_append_drop]
    show (inp.take inp.length).length = inp.length
    rw [List.take_length]
  · rw [e1]
    exact ⟨by rw [hwh]; simp, by omega, fun _ => by rw [hwr, hwh], fun d h1 h2 => by omega⟩
  · rw [e2]
    exact ⟨by show st.whave = _; rw [hwh]; simp, by show st.write < st.wsize; omega,
      fun _ => by show st.write = st.whave; rw [hwr, hwh], fun d h1 h2 => by
        have : d ≤ st.whave := h2
        omega⟩

/-- Before the first call the decode in pieces is at the start of the track of
the decode in one call. -/
lemma Mid.start (E : Ext) (f0 : Int) (s : z_stream) (st : inflate_state) (inp : List Nat)
    (N : Nat) (hs : s.state = some st) (hm : st.mode = HEAD)
    (hwh : st.whave = 0) (hwr : st.write = 0) (hws : 0 < st.wsize)
    (hws2 : st.wsize ≤ 32768) (hN : N + 32768 < 4294967296) :
    Mid E f0 (enter (offer s inp ⟨inp.length, N, f0⟩) { st with offset := 0 }) s.next_out N s
      inp 0 :=
  ⟨st, [], hs, le_refl _, fun q hq => ⟨0, _, Rel.init s st inp N f0 q hm hwh hwr hws hws2 hN
    (by simpa using hq), _, rfl, rfl⟩⟩
lemma zlib_inflate_inv (E : Ext) (fuel : Nat) (s s1 : z_stream) (st : inflate_state)
    (flush r1 : Int) (hs : s.state = some st)
    (h : zlib_inflate E fuel s flush = some (r1, s1)) (hu : s.next_in ≠ none) :
    ∃ o, inflate_loop E flush fuel (enter s st) = some o ∧
      ((∃ c, o = .leave c ∧ inf_leave flush c = (r1, s1)) ∨ o = .done r1 s1) := by
  unfold zlib_inflate at h
  rw [hs] at h
  simp only [] at h
  rw [if_neg (fun e => hu e.1)] at h
  rcases hl : inflate_loop E flush fuel (enter s st) with _ | o
  · rw [hl] at h; cases h
  · rw [hl] at h
    cases o with
    | cont c => cases h
    | leave c =>
      simp only [Option.some.injEq] at h
      exact ⟨_, rfl, Or.inl ⟨c, rfl, h⟩⟩
    | done r s2 =>
      simp only [Option.some.injEq, Prod.mk.injEq] at h
      obtain ⟨rfl, rfl⟩ := h
      exact ⟨_, rfl, Or.inr rfl⟩

/-- The decode in one call that returns: the decode without the fast path ends
as it does. -/
lemma one_call_ends (E : Ext) (hE : TablePrefix E) (hL : TableLens E) (hF : FastSlow E)
    (s s1 : z_stream) (st : inflate_state) (inp : List Nat) (n F : Nat) (f r1 : Int)
    (hs : s.state = some st) (hm : st.mode = HEAD) (hwh : st.whave = 0) (hwr : st.write = 0)
    (hws : 0 < st.wsize) (hws2 : st.wsize ≤ 32768) (hn32 : n + 32768 < 4294967296)
    (hf1 : f ≠ Z_PACKET_FLUSH) (hf2 : f ≠ Z_BLOCK)
    (hnear : NearAll E f (enter (offer s inp ⟨inp.length, n, f⟩) { st with offset := 0 }))
    (hone : zlib_inflate E F (offer s inp ⟨inp.length, n, f⟩) f = some (r1, s1)) :
    ∃ K Oe, RefEnd E f (enter (offer s inp ⟨inp.length, n, f⟩) { st with offset := 0 }) K Oe ∧
      s1.next_out = Oe.put ∧ (r1 = Oe.code ∨ (Oe.code = Z_OK ∧ r1 = Z_BUF_ERROR)) := by
  obtain ⟨o, hl, ho⟩ := zlib_inflate_inv E F (offer s inp ⟨inp.length, n, f⟩) s1 st f r1 hs hone
    (fun e => by cases e)
  have hrel := Rel.init s st inp n f ⟨inp.length, n, f⟩ hm hwh hwr hws hws2 hn32 (le_refl n)
  simp only [] at hrel
  rw [List.drop_length] at hrel
  obtain ⟨K, Oe, e1, e2, e3, -, -⟩ := loop_bridge E hE hL hF f f hf2 hf2 s.next_out [] _ n n _
    hnear (by simp) F 0 _ _ o hrel ⟨_, rfl, rfl⟩ hl
  refine ⟨K, Oe, e1, ?_, ?_⟩
  · rcases ho with ⟨c, rfl, hc⟩ | rfl
    · have h2 := (inf_leave_no_packet f c hf1).1
      rw [hc] at h2
      rw [e2]
      show s1.next_out = c.put
      rw [show s1 = leave_stream c from h2]
      exact (leave_stream_frame c).2.2.2.1
    · rw [e2]; rfl
  · rcases ho with ⟨c, rfl, hc⟩ | rfl
    · have h2 := (inf_leave_no_packet f c hf1).2.1
      rw [hc] at h2
      rw [e3]
      rcases h2 with h2 | ⟨h2, h3⟩
      · exact Or.inl h2
      · exact Or.inr ⟨h3, h2⟩
    · exact Or.inl e3.symm
lemma case_MATCH_stays (r : Int) (o l : Nat) (c : Cfg) (h : c.ret = r ∧ c.out = o ∧ c.left = l) :
    Stays r o l (case_MATCH c) := by
  unfold case_MATCH
  obtain ⟨k1, k2, k3⟩ := h
  by_cases hl : c.left = 0
  · rw [if_pos hl]
    exact ⟨k1, k2, k3, Or.inr (k3 ▸ hl)⟩
  · rw [if_neg hl]
    exact ⟨k1, k2⟩

lemma DISTEXT_tail_stays (r : Int) (o l : Nat) (c : Cfg)
    (h : c.ret = r ∧ c.out = o ∧ c.left = l) : Stays r o l (DISTEXT_tail c) := by
  unfold DISTEXT_tail
  split_ifs
  · exact ⟨h.1, h.2.1⟩
  · exact case_MATCH_stays r o l _ h

lemma Acc.stays {r : Int} {o l : Nat} {c c1 : Cfg} (a : Acc c c1)
    (h : c.ret = r ∧ c.out = o ∧ c.left = l) : c1.ret = r ∧ c1.out = o ∧ c1.left = l := by
  obtain ⟨-, -, -, a4, -, a6, a7⟩ := a
  exact ⟨a7.trans h.1, a6.trans h.2.1, a4.trans h.2.2⟩

lemma case_DISTEXT_stays (r : Int) (o l : Nat) (c : Cfg)
    (h : c.ret = r ∧ c.out = o ∧ c.left = l) : Stays r o l (case_DISTEXT c) := by
  unfold case_DISTEXT
  have hA := (NEEDBITS_acc c.state.extra c).stays h
  have hH := (NEEDBITS_have c.state.extra c).2
  rcases hN : NEEDBITS c.state.extra c with ⟨b, c1⟩
  rw [hN] at hA hH
  split_ifs
  · cases b
    · exact ⟨hA.1, hA.2.1, hA.2.2, Or.inl (hH rfl)⟩
    · exact DISTEXT_tail_stays r o l _ hA
  · exact DISTEXT_tail_stays r o l _ h

lemma DIST_tail_stays (r : Int) (o l : Nat) (this : code) (c : Cfg)
    (h : c.ret = r ∧ c.out = o ∧ c.left = l) : Stays r o l (DIST_tail this c) := by
  unfold DIST_tail
  simp only []
  split_ifs
  · exact ⟨h.1, h.2.1⟩
  · exact case_DISTEXT_stays r o l _ h

lemma case_DIST_stays (r : Int) (o l : Nat) (c : Cfg)
    (h : c.ret = r ∧ c.out = o ∧ c.left = l) : Stays r o l (case_DIST c) := by
  unfold case_DIST
  have hC := (code_loop_acc c.state.distcode c.state.distbits (c.have_ + 1) c).stays h
  have hH := (code_loop_have c.state.distcode c.state.distbits c).2
  rcases hL : code_loop c.state.distcode c.state.distbits (c.have_ + 1) c with ⟨this, c1⟩ | c1
  · rw [hL] at hC
    simp only [Pulled.cfg] at hC
    simp only []
    have hS := (code_second_acc c1.state.distcode this c1).stays hC
    have hH2 := (code_second_have c1.state.distcode this c1).2
    split_ifs
    · rcases hL2 : code_second c1.state.distcode this c1 with ⟨this2, c2⟩ | c2
      · rw [hL2] at hS
        exact DIST_tail_stays r o l this2 c2 hS
      · rw [hL2] at hS
        exact ⟨hS.1, hS.2.1, hS.2.2, Or.inl (hH2 c2 hL2)⟩
    · exact DIST_tail_stays r o l this c1 hC
  · rw [hL] at hC
    exact ⟨hC.1, hC.2.1, hC.2.2, Or.inl (hH c1 hL)⟩

lemma case_LENEXT_stays (r : Int) (o l : Nat) (c : Cfg)
    (h : c.ret = r ∧ c.out = o ∧ c.left = l) : Stays r o l (case_LENEXT c) := by
  unfold case_LENEXT
  have hA := (NEEDBITS_acc c.state.extra c).stays h
  have hH := (NEEDBITS_have c.state.extra c).2
  rcases hN : NEEDBITS c.state.extra c with ⟨b, c1⟩
  rw [hN] at hA hH
  split_ifs
  · cases b
    · exact ⟨hA.1, hA.2.1, hA.2.2, Or.inl (hH rfl)⟩
    · exact case_DIST_stays r o l _ hA
  · exact case_DIST_stays r o l _ h

lemma LEN_tail_stays (r : Int) (o l : Nat) (this : code) (c : Cfg)
    (h : c.ret = r ∧ c.out = o ∧ c.left = l) : Stays r o l (LEN_tail this c) := by
  unfold LEN_tail
  simp only []
  split_ifs
  · exact ⟨h.1, h.2.1⟩
  · exact ⟨h.1, h.2.1⟩
  · exact ⟨h.1, h.2.1⟩
  · exact case_LENEXT_stays r o l _ h

/-- A pass through LEN without the fast path keeps `ret` and `out`, and goes to
`inf_leave` only when the input has run out or there is no output space. -/
lemma case_LEN_slow_stays (r : Int) (o l : Nat) (c : Cfg)
    (h : c.ret = r ∧ c.out = o ∧ c.left = l) : Stays r o l (case_LEN_slow c) := by
  unfold case_LEN_slow
  have hC := (code_loop_acc c.state.lencode c.state.lenbits (c.have_ + 1) c).stays h
  have hH := (code_loop_have c.state.lencode c.state.lenbits c).2
  rcases hL : code_loop c.state.lencode c.state.lenbits (c.have_ + 1) c with ⟨this, c1⟩ | c1
  · rw [hL] at hC
    simp only [Pulled.cfg] at hC
    simp only []
    have hS := (code_second_acc c1.state.lencode this c1).stays hC
    have hH2 := (code_second_have c1.state.lencode this c1).2
    split_ifs
    · rcases hL2 : code_second c1.state.lencode this c1 with ⟨this2, c2⟩ | c2
      · rw [hL2] at hS
        exact LEN_tail_stays r o l this2 c2 hS
      · rw [hL2] at hS
        exact ⟨hS.1, hS.2.1, hS.2.2, Or.inl (hH2 c2 hL2)⟩
    · exact LEN_tail_stays r o l this c1 hC
  · rw [hL] at hC
    exact ⟨hC.1, hC.2.1, hC.2.2, Or.inl (hH c1 hL)⟩

lemma slowExt_TablePrefix : TablePrefix slowExt := by
  intro type lens codes bits h
  exact absurd h (show ¬ ((-1 : Int) = 0) by decide)

lemma slowExt_TableLens : TableLens slowExt := by
  intro lens codes bits i h
  exact absurd rfl h

/-- The fast path that takes one pass without itself keeps its contract. -/
lemma slowExt_FastSlow : FastSlow slowExt := by
  intro flush strm state out hm h6 h258
  have hK := case_LEN_slow_stays Z_OK out strm.avail_out (fast_entry strm state out)
    ⟨rfl, rfl, rfl⟩
  have hs : sstep slowExt flush (fast_entry strm state out) =
      case_LEN_slow (fast_entry strm state out) := sstep_LEN slowExt flush _ hm
  have hx : fast_exit slowExt strm state out =
      LOAD (slowExt.inflate_fast strm state out).1 (slowExt.inflate_fast strm state out).2
        (fast_entry strm state out) := rfl
  have hf : slowExt.inflate_fast strm state out =
      match case_LEN_slow (fast_entry strm state out) with
      | .cont c => ((RESTORE c).strm, (RESTORE c).state)
      | .leave c => ((RESTORE c).strm, (RESTORE c).state)
      | .done _ _ => (strm, state) := rfl
  rcases hc : case_LEN_slow (fast_entry strm state out) with c1 | c1 | ⟨r, s⟩
  · rw [hc] at hK hs hf
    refine Or.inl ⟨0, c1, by rw [slow_passes_succ, hs]; rfl, ?_⟩
    rw [hx, hf]
    exact ⟨rfl, rfl, hK.2.symm, hK.1.symm, rfl, rfl, rfl, rfl, rfl, rfl,
      ⟨rfl, rfl, rfl, rfl, rfl, rfl⟩⟩
  · rw [hc] at hK hs hf
    obtain ⟨k1, k2, k3, k4⟩ := hK
    have h0 : c1.have_ = 0 := by
      rcases k4 with k4 | k4
      · exact k4
      · omega
    refine Or.inr ⟨c1, hs, k1, ?_, by omega, by omega⟩
    rw [hx, hf]
    exact ⟨rfl, rfl, k2.symm, k1.symm, rfl, rfl, rfl, rfl, rfl, rfl,
      ⟨rfl, rfl, rfl, rfl, rfl, rfl⟩⟩
  · rw [hc] at hK
    exact hK.elim

lemma nearB_near (O : Outcome) (h : nearB O = true) : Near O := by
  intro C1 hO hmode
  have key : ∀ c : Cfg, (!(c.state.mode == LEN || c.state.mode == MATCH ||
      (c.state.mode == BAD && c.strm.msg == some "invalid distance too far back")) ||
      decide (c.state.offset ≤ c.state.wsize)) = true →
      (c.state.mode = LEN ∨ c.state.mode = MATCH ∨
        (c.state.mode = BAD ∧ c.strm.msg = some "invalid distance too far back")) →
      c.state.offset ≤ c.state.wsize := by
    intro c hb hm
    simp only [Bool.or_eq_true, Bool.not_eq_true', Bool.or_eq_false_iff, beq_eq_false_iff_ne,
      Bool.and_eq_false_iff, decide_eq_true_eq, beq_iff_eq, Bool.and_eq_true] at hb
    rcases hb with ⟨⟨b1, b2⟩, b3⟩ | hb
    · rcases hm with hm | hm | ⟨hm1, hm2⟩
      · exact absurd hm b1
      · exact absurd hm b2
      · rcases b3 with b3 | b3
        · exact absurd hm1 b3
        · exact absurd hm2 b3
    · exact hb
  rcases hO with rfl | rfl
  · exact key C1 h hmode
  · exact key C1 h hmode

/-- The Boolean test decides that no pass of a decode reads a distance that
the window cannot hold. -/
lemma near_run_all (E : Ext) (f : Int) : ∀ n C0, near_run E f n C0 = true → NearAll E f C0 := by
  intro n
  induction n with
  | zero => intro C0 h; cases h
  | succ n ih =>
    intro C0 h k C hk
    rw [near_run, Bool.and_eq_true] at h
    cases k with
    | zero =>
      cases hk
      exact nearB_near _ h.1
    | succ k =>
      rw [slow_passes_succ] at hk
      rcases hs : sstep E f C0 with c1 | c1 | ⟨r, s⟩
      · rw [hs] at hk h
        exact ih c1 h.2 k C hk
      · rw [hs] at hk; cases hk
      · rw [hs] at hk; cases hk

/-! ## The claims -/

/-- C8, as written: the 13 bytes of scenario S3 decode to `48 69`, but the
trailer `00 A7 00 C9` is not the Adler-32 of these two bytes, and the call
returns `Z_DATA_ERROR` with the message "incorrect data check", not
`Z_STREAM_END`. -/
theorem S3_as_written_fails_the_check :
    (zlib_inflate noExt 16 (feed (initStream 15) S3_input 64) Z_NO_FLUSH).map
      (fun r => (r.1, r.2.next_out, r.2.msg)) =
      some (Z_DATA_ERROR, [0x48, 0x69], some "incorrect data check") := by
  decide!

set_option maxRecDepth 1000000 in
/-- C1, as written: with a 256-byte window, the stream `far_stream` decodes in
one call to 260 bytes and `Z_STREAM_END`, while the same bytes fed in two input
chunks (the stored block, then the rest) yield 257 bytes and `Z_DATA_ERROR`. -/
theorem split_input_changes_output :
    (zlib_inflate noExt 16 (feed (initStream (-8)) far_stream 1000) Z_NO_FLUSH).map
      (fun r => (r.1, r.2.next_out)) = some (Z_STREAM_END, List.replicate 260 65) ∧
    (thenCall noExt 16
      (zlib_inflate noExt 16 (feed (initStream (-8)) (far_stream.take 262) 1000) Z_NO_FLUSH)
      (far_stream.drop 262) 743 Z_NO_FLUSH).map
      (fun r => (r.1, r.2.next_out, r.2.msg)) =
      some (Z_DATA_ERROR, List.replicate 257 65, some "invalid distance too far back") := by
  decide!

/-- C4, as written: a call with `Z_PACKET_FLUSH` that stops after the zlib
header returns `Z_DATA_ERROR`, and the next call on the same state decodes the
rest of the stream, consumes its 9 bytes and returns `Z_STREAM_END`. -/
theorem data_error_then_stream_end :
    (zlib_inflate noExt 16 (feed (initStream 15) [0x78, 0x9C] 10) Z_PACKET_FLUSH).map
      (fun r => r.1) = some Z_DATA_ERROR ∧
    (thenCall noExt 16
      (zlib_inflate noExt 16 (feed (initStream 15) [0x78, 0x9C] 10) Z_PACKET_FLUSH)
      [0x01, 0x00, 0x00, 0xFF, 0xFF, 0x00, 0x00, 0x00, 0x01] 10 Z_NO_FLUSH).map
      (fun r => (r.1, r.2.avail_in)) = some (Z_STREAM_END, 0) := by
  decide!

/-- C5: on a header with FDICT set the call returns `Z_NEED_DICT` after it has
consumed 6 of the 8 input bytes, and `total_in` is still 0. -/
theorem need_dict_skips_total_in :
    (zlib_inflate noExt 16 (feed (initStream 15) dict_stream 10) Z_NO_FLUSH).map
      (fun r => (r.1, r.2.avail_in, r.2.total_in)) = some (Z_NEED_DICT, 2, 0) ∧
    (feed (initStream 15) dict_stream 10).avail_in = 8 ∧
    (feed (initStream 15) dict_stream 10).total_in = 0 := by
  decide!

/-- C6, as written: a decoder stopped at a byte-aligned stored-block header and
called with `Z_PACKET_FLUSH`, no input and 10 bytes of output space consumes
nothing, produces nothing, and returns `Z_OK`. -/
theorem no_progress_returns_ok :
    (thenCall noExt 16
      (zlib_inflate noExt 16 (feed (initStream 15) [0x78, 0x9C, 0x00] 10) Z_NO_FLUSH)
      [] 10 Z_PACKET_FLUSH).map
      (fun r => (r.1, r.2.avail_in, r.2.avail_out, r.2.next_out)) = some (Z_OK, 0, 10, []) := by
  decide!

set_option maxRecDepth 1000000 in
/-- C3: with a 256-byte window and 301 bytes of output space, the first call on
`resume_stream` stops inside the match of distance 300 (mode MATCH, one byte
copied, `whave = 256`).  The next call resumes in MATCH with output space left,
so it copies a byte, while `offset = 300` exceeds `whave + (out - left) = 256`,
and the source index `wsize - 300` it computes lies outside the 256-byte window. -/
theorem resumed_match_distance_exceeds_bound :
    (zlib_inflate noExt 16 (feed (initStream (-8)) resume_stream 301) Z_NO_FLUSH).map
      (fun r => (r.1, r.2.avail_out, r.2.next_in)) = some (Z_OK, 0, some [0x00]) ∧
    (thenEnter (zlib_inflate noExt 16 (feed (initStream (-8)) resume_stream 301) Z_NO_FLUSH)
      [0x00] 10).map (fun c => (c.state.mode, c.left, c.state.offset)) =
      some (MATCH, 10, 300) ∧
    (thenEnter (zlib_inflate noExt 16 (feed (initStream (-8)) resume_stream 301) Z_NO_FLUSH)
      [0x00] 10).map (fun c => (c.state.whave + sub32 c.out c.left, c.state.window.length)) =
      some (256, 256) ∧
    (thenEnter (zlib_inflate noExt 16 (feed (initStream (-8)) resume_stream 301) Z_NO_FLUSH)
      [0x00] 10).map (fun c => (match_source c).1) = some (some 4294967252) := by
  decide!

/-- C4, amended: a `Z_DATA_ERROR` returned under a flush value other than
`Z_PACKET_FLUSH` leaves the decoder in mode BAD; and from a stream in mode BAD
every call that is not a usage error, whatever buffers and flush value the
caller sets, returns `Z_DATA_ERROR`, leaves `next_in` and `avail_in` as they
were, and leaves the decoder in mode BAD again. -/
theorem data_error_is_final (E : Ext) (fuel : Nat) (strm : z_stream) (flush : Int)
    (s1 : z_stream) (hf : flush ≠ Z_PACKET_FLUSH)
    (h : zlib_inflate E fuel strm flush = some (Z_DATA_ERROR, s1)) :
    isBad s1 ∧
    ∀ (s : z_stream) (flush2 : Int) (fuel2 : Nat), isBad s →
      ¬ (s.next_in = none ∧ s.avail_in ≠ 0) →
      ∃ s2, zlib_inflate E (fuel2 + 1) s flush2 = some (Z_DATA_ERROR, s2) ∧
        s2.avail_in = s.avail_in ∧ s2.next_in = s.next_in ∧ isBad s2 := by
  refine ⟨?_, fun s flush2 fuel2 hb hu => bad_call E fuel2 s flush2 hb hu⟩
  unfold zlib_inflate at h
  rcases hst : strm.state with _ | st
  · rw [hst] at h
    simp [Z_STREAM_ERROR, Z_DATA_ERROR] at h
  · rw [hst] at h
    simp only [] at h
    split_ifs at h with hu
    · simp [Z_STREAM_ERROR, Z_DATA_ERROR] at h
    · rcases hl : inflate_loop E flush fuel (enter strm st) with _ | o
      · rw [hl] at h; simp at h
      · rw [hl] at h
        obtain ⟨hJ, _⟩ := inflate_loop_J E flush _ _ fuel _ (enter_J strm st) o hl
        rcases o with c | c | ⟨r, s⟩
        · simp at h
        · simp only [Option.some.injEq] at h
          obtain ⟨e1, e2, _⟩ := inf_leave_no_packet flush c hf
          rw [h] at e1 e2
          simp only [] at e1 e2
          have hret : c.ret = Z_DATA_ERROR := by
            rcases e2 with e2 | e2
            · exact e2.symm
            · exact absurd e2.1 (by decide)
          have hmode : c.state.mode = BAD := by
            rcases hJ.2 with hh | hh
            · rw [hret] at hh; exact absurd hh.1 (by decide)
            · exact hh.2 hret
          obtain ⟨_, _, _, _, st2, f5, f6⟩ := leave_stream_frame c
          exact ⟨st2, by rw [e1]; exact f5, f6.trans hmode⟩
        · simp only [Option.some.injEq, Prod.mk.injEq] at h
          exact absurd h.1 hJ.2

/-- C6, amended: under a flush value other than `Z_PACKET_FLUSH`, a call that
leaves `avail_in` and `avail_out` as they were (0 bytes consumed, 0 produced)
does not return `Z_OK`; and if it is not a usage error and its loop was left
through `inf_leave` with `ret = Z_OK`, it returns `Z_BUF_ERROR`. -/
theorem no_progress_is_buf_error (E : Ext) (fuel : Nat) (strm : z_stream) (flush : Int)
    (r : Int) (s1 : z_stream) (hf : flush ≠ Z_PACKET_FLUSH)
    (h : zlib_inflate E fuel strm flush = some (r, s1))
    (hin : s1.avail_in = strm.avail_in) (hout : s1.avail_out = strm.avail_out) :
    r ≠ Z_OK ∧
    ∀ st c, strm.state = some st → ¬ (strm.next_in = none ∧ strm.avail_in ≠ 0) →
      inflate_loop E flush fuel (enter strm st) = some (.leave c) → c.ret = Z_OK →
      r = Z_BUF_ERROR := by
  unfold zlib_inflate at h
  rcases hst : strm.state with _ | st
  · rw [hst] at h
    simp only [Option.some.injEq, Prod.mk.injEq] at h
    refine ⟨?_, fun st c hc => by simp at hc⟩
    rw [← h.1]; decide
  · rw [hst] at h
    simp only [] at h
    split_ifs at h with hu
    · simp only [Option.some.injEq, Prod.mk.injEq] at h
      exact ⟨by rw [← h.1]; decide, fun st2 c _ hnu => absurd hu hnu⟩
    · rcases hl : inflate_loop E flush fuel (enter strm st) with _ | o
      · rw [hl] at h; simp at h
      · rw [hl] at h
        obtain ⟨hJ, _⟩ := inflate_loop_J E flush _ _ fuel _ (enter_J strm st) o hl
        rcases o with c | c | ⟨r1, s⟩
        · simp at h
        · simp only [Option.some.injEq] at h
          obtain ⟨e1, e2, e3⟩ := inf_leave_no_packet flush c hf
          rw [h] at e1 e2 e3
          simp only [] at e1 e2 e3
          obtain ⟨f1, f2, _⟩ := leave_stream_frame c
          rw [← e1] at f1 f2
          have hbuf : c.ret = Z_OK → r = Z_BUF_ERROR := by
            intro hr
            rcases hJ.2 with hh | hh
            · refine e3 hr ?_ ?_
              · rw [hJ.1, ← f1, hin]; exact sub32_self _
              · rw [hh.2, ← f2, hout]; exact sub32_self _
            · exact absurd hr hh.1
          refine ⟨?_, ?_⟩
          · rcases e2 with e2 | e2
            · intro hr
              rw [e2] at hr
              have := hbuf hr
              rw [e2, hr] at this
              exact absurd this (by decide)
            · rw [e2.1]; decide
          · intro st2 c2 hs2 _ hc2 hr
            simp only [Option.some.injEq] at hs2
            subst hs2
            rw [hl] at hc2
            simp only [Option.some.injEq, Outcome.leave.injEq] at hc2
            subst hc2
            exact hbuf hr
        · simp only [Option.some.injEq, Prod.mk.injEq] at h
          refine ⟨by rw [← h.1]; exact hJ.1, fun st2 c2 hs2 _ hc2 => ?_⟩
          simp only [Option.some.injEq] at hs2
          subst hs2
          rw [hl] at hc2
          simp at hc2


/-- C4, amended, at a concrete call: the header `78 9D` fails the header check
under `Z_NO_FLUSH`. -/
theorem data_error_is_final_witness :
    (Z_NO_FLUSH ≠ Z_PACKET_FLUSH ∧
      zlib_inflate noExt 16 (feed (initStream 15) [0x78, 0x9D] 10) Z_NO_FLUSH =
        some (Z_DATA_ERROR,
          streamOf (zlib_inflate noExt 16 (feed (initStream 15) [0x78, 0x9D] 10) Z_NO_FLUSH))) ∧
    (isBad (streamOf (zlib_inflate noExt 16 (feed (initStream 15) [0x78, 0x9D] 10) Z_NO_FLUSH)) ∧
      ∀ (s : z_stream) (flush2 : Int) (fuel2 : Nat), isBad s →
        ¬ (s.next_in = none ∧ s.avail_in ≠ 0) →
        ∃ s2, zlib_inflate noExt (fuel2 + 1) s flush2 = some (Z_DATA_ERROR, s2) ∧
          s2.avail_in = s.avail_in ∧ s2.next_in = s.next_in ∧ isBad s2) :=
  ⟨⟨by decide, by decide!⟩,
    data_error_is_final noExt 16 (feed (initStream 15) [0x78, 0x9D] 10) Z_NO_FLUSH _
      (by decide) (by decide!)⟩

/-- C6, amended, at a concrete call: a fresh decoder given no input and 10
bytes of output space under `Z_NO_FLUSH`. -/
theorem no_progress_is_buf_error_witness :
    (Z_NO_FLUSH ≠ Z_PACKET_FLUSH ∧
      zlib_inflate noExt 16 (feed (initStream 15) [] 10) Z_NO_FLUSH =
        some (Z_BUF_ERROR,
          streamOf (zlib_inflate noExt 16 (feed (initStream 15) [] 10) Z_NO_FLUSH)) ∧
      (streamOf (zlib_inflate noExt 16 (feed (initStream 15) [] 10) Z_NO_FLUSH)).avail_in =
        (feed (initStream 15) [] 10).avail_in ∧
      (streamOf (zlib_inflate noExt 16 (feed (initStream 15) [] 10) Z_NO_FLUSH)).avail_out =
        (feed (initStream 15) [] 10).avail_out) ∧
    (Z_BUF_ERROR ≠ Z_OK ∧
      ∀ st c, (feed (initStream 15) [] 10).state = some st →
        ¬ ((feed (initStream 15) [] 10).next_in = none ∧
          (feed (initStream 15) [] 10).avail_in ≠ 0) →
        inflate_loop noExt Z_NO_FLUSH 16 (enter (feed (initStream 15) [] 10) st) =
          some (.leave c) → c.ret = Z_OK → Z_BUF_ERROR = Z_BUF_ERROR) :=
  ⟨⟨by decide, by decide!, by decide!, by decide!⟩,
    no_progress_is_buf_error noExt 16 (feed (initStream 15) [] 10) Z_NO_FLUSH Z_BUF_ERROR
      (streamOf (zlib_inflate noExt 16 (feed (initStream 15) [] 10) Z_NO_FLUSH))
      (by decide) (by decide!) (by decide!) (by decide!)⟩

/-- C10: on a decoder freshly reset with wrap on, the first pass through the
`switch` with the header bytes `b0`, `b1` at hand consumes both bytes; it leaves
a mode other than BAD exactly when `(b0*256 + b1) mod 31 = 0`, the low nibble of
`b0` is 8 and the high nibble plus 8 is at most `wbits`; then the accumulator is
empty, `check` is 1 and the mode is DICTID if `b1` has bit `0x20`, else TYPE;
otherwise the mode is BAD and the call returns `Z_DATA_ERROR`. -/
theorem zlib_header_validation (E : Ext) (fuel : Nat) (flush : Int) (s0 : z_stream)
    (st0 : inflate_state) (b0 b1 : Nat) (rest : List Nat) (n m : Nat)
    (h0 : s0.state = some st0) (hw : st0.wrap ≠ 0) (hb0 : b0 < 256) (hb1 : b1 < 256)
    (hn : 2 ≤ n) :
    ∃ st c1, (zlib_inflateReset s0).2.state = some st ∧ st.wbits = st0.wbits ∧
      step E flush (enter { (zlib_inflateReset s0).2 with
        next_in := some (b0 :: b1 :: rest), avail_in := n, avail_out := m } st) = .cont c1 ∧
      c1.have_ = n - 2 ∧ c1.next = some rest ∧
      (c1.state.mode ≠ BAD ↔
        ((b0 * 256 + b1) % 31 = 0 ∧ b0 % 16 = 8 ∧ b0 / 16 + 8 ≤ st0.wbits)) ∧
      (c1.state.mode ≠ BAD →
        c1.hold = 0 ∧ c1.bits = 0 ∧ c1.state.check = 1 ∧
        c1.state.mode = if b1 &&& 0x20 ≠ 0 then DICTID else TYPE) ∧
      (c1.state.mode = BAD →
        ∃ s1, zlib_inflate E (fuel + 2) { (zlib_inflateReset s0).2 with
          next_in := some (b0 :: b1 :: rest), avail_in := n, avail_out := m } flush =
            some (Z_DATA_ERROR, s1)) := by
  have hr : (zlib_inflateReset s0).2.state = some { st0 with
      total := 0, mode := HEAD, last := 0, havedict := 0, dmax := 32768,
      hold := 0, bits := 0, lencode := [], distcode := [],
      wsize := (1 <<< st0.wbits) % 4294967296, write := 0, whave := 0 } := by
    unfold zlib_inflateReset
    rw [h0]
  obtain ⟨st, hst⟩ : ∃ st, st = { st0 with
      total := 0, mode := HEAD, last := 0, havedict := 0, dmax := 32768,
      hold := 0, bits := 0, lencode := [], distcode := [],
      wsize := (1 <<< st0.wbits) % 4294967296, write := 0, whave := 0 } := ⟨_, rfl⟩
  rw [← hst] at hr
  obtain ⟨s, hs⟩ : ∃ s : z_stream, s = { (zlib_inflateReset s0).2 with
      next_in := some (b0 :: b1 :: rest), avail_in := n, avail_out := m } := ⟨_, rfl⟩
  rw [← hs]
  have hmode : st.mode = HEAD := by rw [hst]
  have hc : (enter s st).state = st := by
    simp [enter, LOAD, hmode]
  obtain ⟨c1, k1, k2, k3, k4, k5, k6, k7⟩ := case_HEAD_bytes (enter s st) b0 b1 rest
    (by rw [hc, hst]; exact hw) (by simp [enter, LOAD, hmode, hst])
    (by simp [enter, LOAD, hmode, hst]) (by simp [enter, LOAD, hs])
    (by simp [enter, LOAD, hs]; exact hn) hb0 hb1
  have hwb : (enter s st).state.wbits = st0.wbits := by rw [hc, hst]
  rw [hwb] at k6 k7
  have hstep : step E flush (enter s st) = .cont c1 := by
    unfold step
    rw [hc, hmode]
    exact k1
  refine ⟨st, c1, hr, by rw [hst], hstep, ?_, k3, ?_, ?_, ?_⟩
  · rw [k2]; simp [enter, LOAD, hs]
  · constructor
    · intro hne
      by_contra hno
      exact hne (k7 hno)
    · intro hok
      rw [(k6 hok).2.2.2.2]
      split_ifs <;> decide
  · intro hne
    have hok : (b0 * 256 + b1) % 31 = 0 ∧ b0 % 16 = 8 ∧ b0 / 16 + 8 ≤ st0.wbits := by
      by_contra hno
      exact hne (k7 hno)
    obtain ⟨q1, q2, q3, _, q5⟩ := k6 hok
    exact ⟨q1, q2, q3, q5⟩
  · intro hbad
    refine ⟨leave_stream { c1 with ret := Z_DATA_ERROR }, ?_⟩
    have hl : inflate_loop E flush (fuel + 2) (enter s st) =
        some (.leave { c1 with ret := Z_DATA_ERROR }) := by
      rw [inflate_loop_cont E flush (fuel + 1) _ _ hstep,
        inflate_loop_leave E flush fuel _ _ (step_bad E flush c1 hbad)]
    rw [zlib_inflate_leave E (fuel + 2) s st flush _ (by rw [hs]; exact hr)
      (by rw [hs]; simp) hl,
      inf_leave_of_ne_ok flush _ (show Z_DATA_ERROR ≠ Z_OK by decide)]


/-- C10 at a concrete header: `78 9C` on a decoder initialised with `wbits = 15`. -/
theorem zlib_header_validation_witness :
    ((initStream 15).state = some (stateOf (initStream 15)) ∧
      (stateOf (initStream 15)).wrap ≠ 0 ∧ 0x78 < 256 ∧ 0x9C < 256 ∧ 2 ≤ 2) ∧
    ∃ st c1, (zlib_inflateReset (initStream 15)).2.state = some st ∧
      st.wbits = (stateOf (initStream 15)).wbits ∧
      step noExt Z_NO_FLUSH (enter { (zlib_inflateReset (initStream 15)).2 with
        next_in := some (0x78 :: 0x9C :: []), avail_in := 2, avail_out := 0 } st) = .cont c1 ∧
      c1.have_ = 2 - 2 ∧ c1.next = some [] ∧
      (c1.state.mode ≠ BAD ↔
        ((0x78 * 256 + 0x9C) % 31 = 0 ∧ 0x78 % 16 = 8 ∧
          0x78 / 16 + 8 ≤ (stateOf (initStream 15)).wbits)) ∧
      (c1.state.mode ≠ BAD →
        c1.hold = 0 ∧ c1.bits = 0 ∧ c1.state.check = 1 ∧
        c1.state.mode = if 0x9C &&& 0x20 ≠ 0 then DICTID else TYPE) ∧
      (c1.state.mode = BAD →
        ∃ s1, zlib_inflate noExt (0 + 2) { (zlib_inflateReset (initStream 15)).2 with
          next_in := some (0x78 :: 0x9C :: []), avail_in := 2, avail_out := 0 } Z_NO_FLUSH =
            some (Z_DATA_ERROR, s1)) :=
  ⟨⟨by decide!, by decide!, by decide, by decide, by decide⟩,
    zlib_header_validation noExt 0 Z_NO_FLUSH (initStream 15) (stateOf (initStream 15))
      0x78 0x9C [] 2 0 (by decide!) (by decide!) (by decide) (by decide) (by decide)⟩

/-- C9: in mode STORED, when the bytes `bs` complete the 32 bits of the header
after byte alignment, let `v` be these 32 bits, LEN = `v mod 65536` and NLEN =
`v / 65536`.  If LEN is not the 16-bit complement of NLEN, the pass sets the
message and mode BAD without writing output, and the call returns
`Z_DATA_ERROR` with the output cursor where it was; otherwise the pass goes on
into COPY with `length = LEN` and an empty accumulator. -/
theorem stored_length_validation (E : Ext) (fuel : Nat) (flush : Int) (c : Cfg)
    (bs rest : List Nat) (hm : c.state.mode = STORED)
    (hb : c.bits ≤ 32) (hh : c.hold < 2 ^ c.bits) (hn : c.next = some (bs ++ rest))
    (hl : bs.length ≤ c.have_) (hbs : ∀ b ∈ bs, b < 256)
    (h32 : (c.bits - c.bits % 8) + 8 * bs.length = 32) :
    ∃ v : Nat, v = c.hold / 2 ^ (c.bits % 8) + le_bytes bs * 2 ^ (c.bits - c.bits % 8) ∧
      (v % 65536 ≠ 65535 - v / 65536 →
        ∃ c1, step E flush c = .cont c1 ∧
          c1.strm.msg = some "invalid stored block lengths" ∧ c1.state.mode = BAD ∧
          c1.put = c.put ∧ c1.left = c.left ∧
          inflate_loop E flush (fuel + 2) c = some (.leave { c1 with ret := Z_DATA_ERROR }) ∧
          (inf_leave flush { c1 with ret := Z_DATA_ERROR }).1 = Z_DATA_ERROR ∧
          (inf_leave flush { c1 with ret := Z_DATA_ERROR }).2.next_out = c.put ∧
          (inf_leave flush { c1 with ret := Z_DATA_ERROR }).2.avail_out = c.left ∧
          (inf_leave flush { c1 with ret := Z_DATA_ERROR }).2.msg =
            some "invalid stored block lengths") ∧
      (v % 65536 = 65535 - v / 65536 →
        ∃ c3, step E flush c = case_COPY c3 ∧ c3.state.mode = COPY ∧
          c3.state.length = v % 65536 ∧ c3.hold = 0 ∧ c3.bits = 0 ∧
          c3.put = c.put ∧ c3.left = c.left ∧ c3.next = some rest ∧
          c3.have_ = c.have_ - bs.length) := by
  obtain ⟨c2, v, hv, _, f1, f2, f3, f4, f5, f6, f7, f8, f9, hbad, hgood⟩ :=
    case_STORED_bytes c bs rest hb hh hn hl hbs h32
  have hstep : step E flush c = case_STORED c := by
    unfold step
    rw [hm]
  refine ⟨v, hv, ?_, ?_⟩
  · intro hne
    have hs1 : step E flush c = .cont (c2.bad "invalid stored block lengths") := by
      rw [hstep, hbad hne]
    have hl2 : inflate_loop E flush (fuel + 2) c =
        some (.leave { c2.bad "invalid stored block lengths" with ret := Z_DATA_ERROR }) := by
      rw [inflate_loop_cont E flush (fuel + 1) _ _ hs1,
        inflate_loop_leave E flush fuel _ _ (step_bad E flush _ rfl)]
    have hi := inf_leave_of_ne_ok flush
      { c2.bad "invalid stored block lengths" with ret := Z_DATA_ERROR }
      (show Z_DATA_ERROR ≠ Z_OK by decide)
    obtain ⟨_, g2, _, g4, _⟩ := leave_stream_frame
      { c2.bad "invalid stored block lengths" with ret := Z_DATA_ERROR }
    refine ⟨_, hs1, rfl, rfl, f3, f4, hl2, ?_, ?_, ?_, ?_⟩
    · rw [hi]
    · rw [hi]; exact g4.trans f3
    · rw [hi]; exact g2.trans f4
    · rw [hi]; exact leave_stream_msg _
  · intro heq
    refine ⟨{ c2 with
      hold := 0, bits := 0,
      state := { c2.state with length := v % 65536, mode := COPY } },
      ?_, rfl, rfl, rfl, rfl, f3, f4, f8, f9⟩
    rw [hstep, hgood heq]

/-- C9 at a concrete header: LEN = 2 with NLEN = `FEFD`, whose complement is
`0102` (scenario S6). -/
theorem stored_length_validation_witness :
    (S6_cfg.state.mode = STORED ∧ S6_cfg.bits ≤ 32 ∧ S6_cfg.hold < 2 ^ S6_cfg.bits ∧
      S6_cfg.next = some ([0x02, 0x00, 0xFD, 0xFE] ++ [0x48, 0x69]) ∧
      [0x02, 0x00, 0xFD, 0xFE].length ≤ S6_cfg.have_ ∧
      (∀ b ∈ [0x02, 0x00, 0xFD, 0xFE], b < 256) ∧
      (S6_cfg.bits - S6_cfg.bits % 8) + 8 * [0x02, 0x00, 0xFD, 0xFE].length = 32) ∧
    ∃ v : Nat, v = S6_cfg.hold / 2 ^ (S6_cfg.bits % 8) +
        le_bytes [0x02, 0x00, 0xFD, 0xFE] * 2 ^ (S6_cfg.bits - S6_cfg.bits % 8) ∧
      (v % 65536 ≠ 65535 - v / 65536 →
        ∃ c1, step noExt Z_NO_FLUSH S6_cfg = .cont c1 ∧
          c1.strm.msg = some "invalid stored block lengths" ∧ c1.state.mode = BAD ∧
          c1.put = S6_cfg.put ∧ c1.left = S6_cfg.left ∧
          inflate_loop noExt Z_NO_FLUSH (0 + 2) S6_cfg =
            some (.leave { c1 with ret := Z_DATA_ERROR }) ∧
          (inf_leave Z_NO_FLUSH { c1 with ret := Z_DATA_ERROR }).1 = Z_DATA_ERROR ∧
          (inf_leave Z_NO_FLUSH { c1 with ret := Z_DATA_ERROR }).2.next_out = S6_cfg.put ∧
          (inf_leave Z_NO_FLUSH { c1 with ret := Z_DATA_ERROR }).2.avail_out = S6_cfg.left ∧
          (inf_leave Z_NO_FLUSH { c1 with ret := Z_DATA_ERROR }).2.msg =
            some "invalid stored block lengths") ∧
      (v % 65536 = 65535 - v / 65536 →
        ∃ c3, step noExt Z_NO_FLUSH S6_cfg = case_COPY c3 ∧ c3.state.mode = COPY ∧
          c3.state.length = v % 65536 ∧ c3.hold = 0 ∧ c3.bits = 0 ∧
          c3.put = S6_cfg.put ∧ c3.left = S6_cfg.left ∧ c3.next = some [0x48, 0x69] ∧
          c3.have_ = S6_cfg.have_ - [0x02, 0x00, 0xFD, 0xFE].length) :=
  ⟨⟨by decide!, by decide!, by decide!, by decide!, by decide!, by decide, by decide!⟩,
    stored_length_validation noExt 0 Z_NO_FLUSH S6_cfg [0x02, 0x00, 0xFD, 0xFE] [0x48, 0x69]
      (by decide!) (by decide!) (by decide!) (by decide!) (by decide!) (by decide)
      (by decide!)⟩

/-- C2: for every byte string `B` of at most 65535 bytes, under every flush
value except `Z_BLOCK`, with `m ≥ |B|` bytes of output space: (i) after
`zlib_inflateInit2(strm, 15)` one call on `78 9C`, the final stored block of `B`
and the big-endian Adler-32 of `B` returns `Z_STREAM_END`, appends exactly `B`
to the output, consumes all input, and leaves `adler` and `check` equal to the
Adler-32 of `B`; (ii) after `zlib_inflateInit2(strm, -15)` one call on the raw
stored block does the same without header and trailer. -/
theorem stored_block_round_trip (E : Ext) (fuel : Nat) (flush : Int) (strm : z_stream)
    (ws : inflate_state) (B : List Nat) (m : Nat)
    (hB : B.length ≤ 65535) (hm : B.length ≤ m) (hm32 : m < 4294967296)
    (hf : flush ≠ Z_BLOCK) :
    (∃ s1, zlib_inflate E (fuel + 6) { (zlib_inflateInit2 strm ws 15).2 with
        next_in := some (zlib_stored B), avail_in := (zlib_stored B).length,
        avail_out := m } flush = some (Z_STREAM_END, s1) ∧
      s1.next_out = strm.next_out ++ B ∧ s1.avail_in = 0 ∧
      s1.adler = adler32_fold 1 B ∧
      ∃ st1, s1.state = some st1 ∧ st1.check = adler32_fold 1 B) ∧
    (∃ s1, zlib_inflate E (fuel + 6) { (zlib_inflateInit2 strm ws (-15)).2 with
        next_in := some (stored_block B), avail_in := (stored_block B).length,
        avail_out := m } flush = some (Z_STREAM_END, s1) ∧
      s1.next_out = strm.next_out ++ B ∧ s1.avail_in = 0) := by
  constructor
  · obtain ⟨st, i1, i2, i3, i4, i5, i6, i7, i8⟩ := init_state strm ws 15 (Or.inl rfl)
    obtain ⟨s1, r1, r2, r3, _, r5, st1, r6, r7, _⟩ := zlib_stored_call E fuel flush
      { (zlib_inflateInit2 strm ws 15).2 with
        next_in := some (zlib_stored B), avail_in := (zlib_stored B).length, avail_out := m }
      st B i1 i2 (by rw [i3]; simp) (by omega) i5 i6 i7 rfl rfl hB hm hm32 hf
    exact ⟨s1, r1, by rw [r2]; simp only []; rw [i8], r3, r5, st1, r6, r7⟩
  · obtain ⟨st, i1, i2, i3, i4, i5, i6, i7, i8⟩ := init_state strm ws (-15) (Or.inr rfl)
    obtain ⟨s1, r1, r2, r3, _⟩ := raw_stored_call E fuel flush
      { (zlib_inflateInit2 strm ws (-15)).2 with
        next_in := some (stored_block B), avail_in := (stored_block B).length, avail_out := m }
      st B (by simpa using i1) i2 (by rw [i3]; simp) i5 i6 i7 rfl rfl hB hm hf
    exact ⟨s1, r1, by rw [r2]; simp only []; rw [i8], r3⟩

/-- C2 at a concrete byte string: `B = 48 69` with 2 bytes of output space. -/
theorem stored_block_round_trip_witness :
    ([0x48, 0x69].length ≤ 65535 ∧ [0x48, 0x69].length ≤ 2 ∧ 2 < 4294967296 ∧
      Z_NO_FLUSH ≠ Z_BLOCK) ∧
    ((∃ s1, zlib_inflate noExt (0 + 6) { (zlib_inflateInit2 strm0 ws0 15).2 with
        next_in := some (zlib_stored [0x48, 0x69]),
        avail_in := (zlib_stored [0x48, 0x69]).length,
        avail_out := 2 } Z_NO_FLUSH = some (Z_STREAM_END, s1) ∧
      s1.next_out = strm0.next_out ++ [0x48, 0x69] ∧ s1.avail_in = 0 ∧
      s1.adler = adler32_fold 1 [0x48, 0x69] ∧
      ∃ st1, s1.state = some st1 ∧ st1.check = adler32_fold 1 [0x48, 0x69]) ∧
    (∃ s1, zlib_inflate noExt (0 + 6) { (zlib_inflateInit2 strm0 ws0 (-15)).2 with
        next_in := some (stored_block [0x48, 0x69]),
        avail_in := (stored_block [0x48, 0x69]).length,
        avail_out := 2 } Z_NO_FLUSH = some (Z_STREAM_END, s1) ∧
      s1.next_out = strm0.next_out ++ [0x48, 0x69] ∧ s1.avail_in = 0)) :=
  ⟨⟨by decide, by decide, by decide, by decide⟩,
    stored_block_round_trip noExt 0 Z_NO_FLUSH strm0 ws0 [0x48, 0x69] 2
      (by decide) (by decide) (by decide) (by decide)⟩

/-- C8, amended: with the trailer `00 FB 00 B2`, the Adler-32 of `48 69`, the
input of scenario S3 decodes after `zlib_inflateInit2(strm, 15)`, with at least
2 bytes of output space and any flush value except `Z_BLOCK`, to the output
`48 69`, and the call returns `Z_STREAM_END`. -/
theorem S3_with_adler_of_Hi (E : Ext) (fuel : Nat) (flush : Int) (m : Nat)
    (hm : 2 ≤ m) (hm32 : m < 4294967296) (hf : flush ≠ Z_BLOCK) :
    ∃ s1, zlib_inflate E (fuel + 6) (feed (initStream 15) S3_fixed m) flush =
        some (Z_STREAM_END, s1) ∧
      s1.next_out = [0x48, 0x69] ∧ s1.avail_in = 0 ∧ s1.adler = 0x00FB00B2 := by
  have hz : S3_fixed = zlib_stored [0x48, 0x69] := by decide!
  have hA : adler32_fold 1 [0x48, 0x69] = 0x00FB00B2 := by decide!
  obtain ⟨s1, r1, r2, r3, _, r5, _⟩ := zlib_stored_call E fuel flush
    (feed (initStream 15) S3_fixed m) (stateOf (initStream 15)) [0x48, 0x69]
    (show (initStream 15).state = some (stateOf (initStream 15)) by decide!)
    (by decide!) (by decide!) (by decide!) (by decide!) (by decide!) (by decide!)
    (by rw [hz]; rfl) (by rw [hz]; rfl) (by decide) hm hm32 hf
  refine ⟨s1, r1, ?_, r3, by rw [r5, hA]⟩
  rw [r2]
  rfl

/-- C8, amended, at `avail_out = 64` under `Z_NO_FLUSH`. -/
theorem S3_with_adler_of_Hi_witness :
    (2 ≤ 64 ∧ 64 < 4294967296 ∧ Z_NO_FLUSH ≠ Z_BLOCK) ∧
    ∃ s1, zlib_inflate noExt (0 + 6) (feed (initStream 15) S3_fixed 64) Z_NO_FLUSH =
        some (Z_STREAM_END, s1) ∧
      s1.next_out = [0x48, 0x69] ∧ s1.avail_in = 0 ∧ s1.adler = 0x00FB00B2 :=
  ⟨⟨by decide, by decide, by decide⟩,
    S3_with_adler_of_Hi noExt 0 Z_NO_FLUSH 64 (by decide) (by decide) (by decide)⟩

/-- Claim C11: for every parameter `p`, `zlib_inflateInit2` returns
`Z_STREAM_ERROR` exactly when `|p|` lies outside `8..15`; otherwise it returns
`Z_OK`, wrap is `0` for a negative `p` and `1` otherwise, `wbits = |p|`, and the
stream is the one `zlib_inflateReset` yields on that state: mode `HEAD`,
`wsize = 1 << wbits`, `whave = 0`, `write = 0`. -/
theorem init_window_bits (strm : z_stream) (ws : inflate_state) (p : Int) :
    ((zlib_inflateInit2 strm ws p).1 = Z_STREAM_ERROR ↔ (|p| < 8 ∨ |p| > 15)) ∧
    (¬ (|p| < 8 ∨ |p| > 15) →
      (zlib_inflateInit2 strm ws p).1 = Z_OK ∧
      zlib_inflateInit2 strm ws p =
        zlib_inflateReset { strm with msg := none, state := some { ws with
          wrap := if p < 0 then 0 else 1, wbits := |p|.toNat } } ∧
      ∃ st, (zlib_inflateInit2 strm ws p).2.state = some st ∧
        st.wrap = (if p < 0 then 0 else 1) ∧ (st.wbits : Int) = |p| ∧ st.mode = HEAD ∧
        st.wsize = 1 <<< st.wbits ∧ st.whave = 0 ∧ st.write = 0) := by
  have hsh : ∀ n : Nat, n ≤ 15 → (1 <<< n) % 4294967296 = 1 <<< n := by
    intro n hn
    interval_cases n <;> rfl
  by_cases hp : p < 0
  · have habs : |p| = -p := abs_of_neg hp
    by_cases hr : (-p < 8 ∨ -p > 15)
    · simp [zlib_inflateInit2, hp, hr, habs, Z_STREAM_ERROR]
    · have h15 : (-p).toNat ≤ 15 := by omega
      have hz : ((-p).toNat : Int) = -p := Int.toNat_of_nonneg (by omega)
      simp [zlib_inflateInit2, zlib_inflateReset, hp, hr, habs, Z_STREAM_ERROR, Z_OK,
        hsh _ h15, hz]
  · have habs : |p| = p := abs_of_nonneg (by omega)
    by_cases hr : (p < 8 ∨ p > 15)
    · simp [zlib_inflateInit2, hp, hr, habs, Z_STREAM_ERROR]
    · have h15 : p.toNat ≤ 15 := by omega
      have hz : (p.toNat : Int) = p := Int.toNat_of_nonneg (by omega)
      have hw : (p / 16 + 1).toNat = 1 := by
        have : p / 16 = 0 := by omega
        simp [this]
      simp [zlib_inflateInit2, zlib_inflateReset, hp, hr, habs, Z_STREAM_ERROR, Z_OK,
        hsh _ h15, hz, hw]

/-- Claim C12, as written, fails: `zlib_inflateReset` does not touch
`state->check`. On the state a first call left at `Z_NEED_DICT`, whose `check`
holds the dictionary identifier `0x01020304`, a reset returns `Z_OK` and
`check` is still `0x01020304`, not `1`. -/
theorem reset_leaves_check :
    (need_dict_stream.state.map fun st => st.check) = some 16909060 ∧
    (zlib_inflateReset need_dict_stream).1 = Z_OK ∧
    ((zlib_inflateReset need_dict_stream).2.state.map fun st => (st.mode, st.check)) =
      some (HEAD, 16909060) := by
  decide!

/-- Claim C12, amended: for every state with `wbits` in `8..15`,
`zlib_inflateReset` returns `Z_OK` and leaves `hold = 0`, `bits = 0`,
`mode = HEAD`, `dmax = 32768`, `wsize = 1 << wbits`, `whave = 0`, `write = 0`,
`total_in = total_out = total = 0`, `last` and `havedict` cleared, the stream's
`adler = 1`, and `wrap`, `wbits` and the state's `check` as they were. -/
theorem reset_effects (strm : z_stream) (st : inflate_state)
    (hs : strm.state = some st) (h8 : 8 ≤ st.wbits) (h15 : st.wbits ≤ 15) :
    (zlib_inflateReset strm).1 = Z_OK ∧
    (zlib_inflateReset strm).2.total_in = 0 ∧ (zlib_inflateReset strm).2.total_out = 0 ∧
    (zlib_inflateReset strm).2.adler = 1 ∧
    ∃ st1, (zlib_inflateReset strm).2.state = some st1 ∧
      st1.hold = 0 ∧ st1.bits = 0 ∧ st1.mode = HEAD ∧ st1.dmax = 32768 ∧
      st1.wsize = 1 <<< st.wbits ∧ st1.whave = 0 ∧ st1.write = 0 ∧ st1.total = 0 ∧
      st1.last = 0 ∧ st1.havedict = 0 ∧ st1.wrap = st.wrap ∧ st1.wbits = st.wbits ∧
      st1.check = st.check := by
  have hsh : (1 <<< st.wbits) % 4294967296 = 1 <<< st.wbits := by
    generalize st.wbits = n at h8 h15
    interval_cases n <;> rfl
  simp [zlib_inflateReset, hs, hsh, Z_OK]

theorem reset_effects_witness :
    (zlib_inflateReset (initStream 15)).1 = Z_OK ∧
    (zlib_inflateReset (initStream 15)).2.adler = 1 :=
  have h := reset_effects (initStream 15) (stateOf (initStream 15))
    (by decide!) (by decide!) (by decide!)
  ⟨h.1, h.2.2.2.1⟩

/-- Claim C13: for a stream with a state, `zlib_inflateIncomp` returns
`Z_DATA_ERROR` exactly when the mode is neither `HEAD` nor `TYPE`, and then the
stream with its state is returned unchanged. -/
theorem incomp_rejects_other_modes (z : z_stream) (st : inflate_state)
    (hs : z.state = some st) :
    ((zlib_inflateIncomp z).1 = Z_DATA_ERROR ↔ (st.mode ≠ HEAD ∧ st.mode ≠ TYPE)) ∧
    (st.mode ≠ HEAD ∧ st.mode ≠ TYPE → (zlib_inflateIncomp z).2 = z) := by
  by_cases h : st.mode ≠ TYPE ∧ st.mode ≠ HEAD
  · simp [zlib_inflateIncomp, hs, h]
  · have h2 : ¬ (st.mode ≠ HEAD ∧ st.mode ≠ TYPE) := fun x => h ⟨x.2, x.1⟩
    simp only [zlib_inflateIncomp, hs, if_neg h, h2, iff_false, false_implies, and_true]
    decide

theorem incomp_rejects_other_modes_witness :
    (zlib_inflateIncomp need_dict_stream).1 = Z_DATA_ERROR :=
  ((incomp_rejects_other_modes _ (stateOf need_dict_stream) (by decide!)).1).2 (by decide!)

/-- Claim C14: in mode `HEAD` or `TYPE`, with `n = avail_in` bytes of input at
`next_in`, `zlib_inflateIncomp` returns `Z_OK`, leaves `next_out`, `avail_out`
and the mode as they were, sets `avail_in` to `0` and moves `next_in` up by `n`,
adds `n` to `total_in`, `total_out` and the state's `total` (in 32-bit
arithmetic), sets `check` and `adler` to the Adler-32 of the `n` bytes folded
into the previous `check`, and leaves the window as `zlib_updatewindow` leaves
it for `n` bytes of output that are the `n` input bytes. -/
theorem incomp_effects (z : z_stream) (st : inflate_state) (inp : List Nat)
    (hs : z.state = some st) (hm : st.mode = HEAD ∨ st.mode = TYPE)
    (hin : z.next_in = some inp) (hlen : z.avail_in ≤ inp.length) :
    (zlib_inflateIncomp z).1 = Z_OK ∧
    (zlib_inflateIncomp z).2.next_out = z.next_out ∧
    (zlib_inflateIncomp z).2.avail_out = z.avail_out ∧
    (zlib_inflateIncomp z).2.avail_in = 0 ∧
    (zlib_inflateIncomp z).2.next_in = some (inp.drop z.avail_in) ∧
    (zlib_inflateIncomp z).2.total_in = add32 z.total_in z.avail_in ∧
    (zlib_inflateIncomp z).2.total_out = add32 z.total_out z.avail_in ∧
    (zlib_inflateIncomp z).2.adler = adler32_fold st.check (inp.take z.avail_in) ∧
    (zlib_inflateIncomp z).2.state = some
      { zlib_updatewindow { z with next_out := inp.take z.avail_in, avail_out := 0 } st
          z.avail_in with
        mode := st.mode,
        check := adler32_fold st.check (inp.take z.avail_in),
        total := add32 st.total z.avail_in } := by
  obtain ⟨ni, ai, ti, nxo, ao, tto, msg, state, dt, ad⟩ := z
  simp only at hs hin hlen
  subst hs hin
  have hm2 : ¬ (st.mode ≠ TYPE ∧ st.mode ≠ HEAD) := by
    rcases hm with h | h <;> simp [h]
  have hr : readFwd inp ai = inp.take ai := by
    simp [readFwd, Nat.sub_eq_zero_of_le hlen]
  simp only [zlib_inflateIncomp, if_neg hm2, Option.map_some', Option.getD_some, hr,
    zlib_adler32, zlib_updatewindow_check, zlib_updatewindow_mode, and_self, true_and]
  unfold zlib_updatewindow
  simp only []
  split_ifs <;> rfl

theorem incomp_effects_witness :
    (zlib_inflateIncomp (feed (initStream 15) [1, 2, 3] 0)).1 = Z_OK ∧
    (zlib_inflateIncomp (feed (initStream 15) [1, 2, 3] 0)).2.total_out = add32 0 3 :=
  have h := incomp_effects (feed (initStream 15) [1, 2, 3] 0) (stateOf (initStream 15))
    [1, 2, 3] (by decide!) (by decide!) rfl (by decide)
  ⟨h.1, h.2.2.2.2.2.2.1⟩

theorem init_window_bits_witness :
    ¬ (|(15 : Int)| < 8 ∨ |(15 : Int)| > 15) ∧ (zlib_inflateInit2 strm0 ws0 15).1 = Z_OK :=
  ⟨by norm_num, ((init_window_bits strm0 ws0 15).2 (by norm_num)).1⟩

set_option maxRecDepth 1000000 in
/-- Claim C15 fails in the code for init. A decoder set up for raw data by
`zlib_inflateInit2(strm, -15)` has `wrap = 0` and decodes the raw stored block
of `48 69` to `Z_STREAM_END`. A second `zlib_inflateInit2` on it with the
invalid window size `7` returns `Z_STREAM_ERROR`, yet it has by then written
`wrap = 1` into the state (mode and `wbits` are as before); the state is no
longer what it was before the call, and the same raw input is now taken for a
zlib stream and rejected with `Z_DATA_ERROR`, "incorrect header check". -/
theorem rejected_init_rewires_decoder :
    (stateOf (initStream (-15))).wrap = 0 ∧
    (zlib_inflate noExt 10 (feed (initStream (-15)) (stored_block [72, 105]) 8) Z_NO_FLUSH).map
      (fun r => (r.1, r.2.next_out)) = some (Z_STREAM_END, [72, 105]) ∧
    (zlib_inflateInit2 (initStream (-15)) (stateOf (initStream (-15))) 7).1 = Z_STREAM_ERROR ∧
    ((zlib_inflateInit2 (initStream (-15)) (stateOf (initStream (-15))) 7).2.state.map
      fun st => (st.wrap, st.mode, st.wbits)) = some (1, HEAD, 15) ∧
    (zlib_inflate noExt 10
      (feed (zlib_inflateInit2 (initStream (-15)) (stateOf (initStream (-15))) 7).2
        (stored_block [72, 105]) 8) Z_NO_FLUSH).map
      (fun r => (r.1, r.2.next_out, r.2.msg)) =
      some (Z_DATA_ERROR, [], some "incorrect header check") := by
  decide!


/-- What the usage errors leave behind. A call of `zlib_inflate` that meets a
null state, or a null `next_in` with a nonzero `avail_in`, or a mode outside the
ones the loop handles, returns `Z_STREAM_ERROR` with the stream and the state
untouched. A call of `zlib_inflateInit2` with `|p|` outside `8..15` returns
`Z_STREAM_ERROR` after it has pointed the stream at the workspace and written
`wrap` (`0` for a negative `p`, `(p >> 4) + 1` otherwise). -/
lemma usage_errors_frame (E : Ext) (fuel : Nat) (strm : z_stream) (flush : Int)
    (ws : inflate_state) (p : Int) :
    ((strm.state = none ∨ (strm.next_in = none ∧ strm.avail_in ≠ 0)) →
      zlib_inflate E fuel strm flush = some (Z_STREAM_ERROR, strm)) ∧
    (∀ st, strm.state = some st → ¬ (strm.next_in = none ∧ strm.avail_in ≠ 0) →
      st.mode ∈ [FLAGS, TIME, OS, EXLEN, EXTRA, NAME, COMMENT, HCRC, LENGTH, SYNC] →
      zlib_inflate E (fuel + 1) strm flush = some (Z_STREAM_ERROR, strm)) ∧
    ((|p| < 8 ∨ |p| > 15) →
      zlib_inflateInit2 strm ws p = (Z_STREAM_ERROR, { strm with
        msg := none,
        state := some { ws with wrap := if p < 0 then 0 else (p / 16 + 1).toNat } })) := by
  refine ⟨?_, ?_, ?_⟩
  · intro h
    unfold zlib_inflate
    rcases h with h | h
    · rw [h]
    · cases hs : strm.state with
      | none => rfl
      | some st => simp only [if_pos h]
  · intro st hs hn hm
    have hT : st.mode ≠ TYPE := by
      intro h
      rw [h] at hm
      revert hm
      decide
    have hres : (enter strm st).result = strm := by
      obtain ⟨ni, ai, ti, nxo, ao, tto, msg, state, dt, ad⟩ := strm
      simp only at hs
      subst hs
      simp [enter, LOAD, Cfg.result, hT]
    have hmode : (enter strm st).state.mode = st.mode := by
      unfold enter LOAD
      simp only [if_neg hT]
    have hstep : step E flush (enter strm st) = .done Z_STREAM_ERROR strm := by
      unfold step
      rw [hmode]
      simp only [List.mem_cons, List.mem_singleton, List.not_mem_nil, or_false] at hm
      rcases hm with h | h | h | h | h | h | h | h | h | h <;> rw [h] <;> simp only [hres]
    simp only [zlib_inflate, hs, if_neg hn, inflate_loop, hstep]
  · intro h
    by_cases hp : p < 0
    · have hr : (-p < 8 ∨ -p > 15) := by rwa [abs_of_neg hp] at h
      simp [zlib_inflateInit2, hp, hr]
    · have hr : (p < 8 ∨ p > 15) := by rwa [abs_of_nonneg (by omega)] at h
      simp [zlib_inflateInit2, hp, hr]

/-- Claim C17: a call `zlib_inflate(strm, Z_FINISH)` returns what the call with
`Z_NO_FLUSH` returns, on the same final stream, except that `Z_OK` becomes
`Z_BUF_ERROR`; so it never returns `Z_OK`. -/
theorem finish_never_ok (E : Ext) (fuel : Nat) (strm : z_stream) :
    zlib_inflate E fuel strm Z_FINISH =
      (zlib_inflate E fuel strm Z_NO_FLUSH).map
        (fun r => (if r.1 = Z_OK then Z_BUF_ERROR else r.1, r.2)) ∧
    ∀ r, zlib_inflate E fuel strm Z_FINISH = some r → r.1 ≠ Z_OK := by
  have key : zlib_inflate E fuel strm Z_FINISH =
      (zlib_inflate E fuel strm Z_NO_FLUSH).map
        (fun r => (if r.1 = Z_OK then Z_BUF_ERROR else r.1, r.2)) := by
    unfold zlib_inflate
    cases hs : strm.state with
    | none => simp [Z_STREAM_ERROR, Z_OK]
    | some st =>
      simp only []
      by_cases hu : strm.next_in = none ∧ strm.avail_in ≠ 0
      · simp [hu, Z_STREAM_ERROR, Z_OK]
      · rw [if_neg hu, if_neg hu,
          inflate_loop_flush E Z_FINISH Z_NO_FLUSH (by decide) (by decide)]
        cases hl : inflate_loop E Z_NO_FLUSH fuel (enter strm st) with
        | none => rfl
        | some o =>
          have hj := (inflate_loop_J E Z_NO_FLUSH _ _ fuel _ (enter_J strm st) o hl).1
          cases o with
          | cont c => rfl
          | leave c =>
            have hF : inf_leave Z_FINISH c =
                if c.ret = Z_OK then (Z_BUF_ERROR, leave_stream c)
                else (c.ret, leave_stream c) := by
              unfold inf_leave
              have h1 : ¬ (Z_FINISH = Z_PACKET_FLUSH) := by decide
              simp only [h1, false_and, if_false, or_true, true_and]
            have hN : inf_leave Z_NO_FLUSH c =
                if (sub32 c.in_ c.have_ = 0 ∧ sub32 c.out c.left = 0) ∧ c.ret = Z_OK then
                  (Z_BUF_ERROR, leave_stream c)
                else (c.ret, leave_stream c) := by
              unfold inf_leave
              have h1 : ¬ (Z_NO_FLUSH = Z_PACKET_FLUSH) := by decide
              have h2 : ¬ (Z_NO_FLUSH = Z_FINISH) := by decide
              simp only [h1, h2, false_and, if_false, or_false]
            simp only [Option.map_some', Option.some.injEq, hF, hN]
            by_cases hr : c.ret = Z_OK
            · by_cases hn : sub32 c.in_ c.have_ = 0 ∧ sub32 c.out c.left = 0
              · simp [hr, hn, Z_BUF_ERROR, Z_OK]
              · simp [hr, hn, Z_BUF_ERROR, Z_OK]
            · simp only [hr, and_false, if_false]
          | done r s =>
            simp only [JO] at hj
            simp [hj.1]
  refine ⟨key, fun r hr => ?_⟩
  rw [key] at hr
  cases h : zlib_inflate E fuel strm Z_NO_FLUSH with
  | none => simp [h] at hr
  | some r0 =>
    simp only [h, Option.map_some', Option.some.injEq] at hr
    rw [← hr]
    simp only []
    split_ifs with h1
    · decide
    · exact h1

theorem finish_never_ok_witness :
    zlib_inflate noExt 10 (feed (initStream 15) [0x78, 0x9C] 8) Z_FINISH =
      some (Z_BUF_ERROR, streamOf (zlib_inflate noExt 10 (feed (initStream 15) [0x78, 0x9C] 8)
        Z_FINISH)) ∧
    Z_BUF_ERROR ≠ Z_OK :=
  ⟨by decide!, (finish_never_ok noExt 10 (feed (initStream 15) [0x78, 0x9C] 8)).2
    (Z_BUF_ERROR, streamOf (zlib_inflate noExt 10 (feed (initStream 15) [0x78, 0x9C] 8)
      Z_FINISH)) (by decide!)⟩

/-- Claim C18, as written, fails both ways. A `Z_PACKET_FLUSH` call that decodes
a whole stream ends in mode `DONE` and returns `Z_STREAM_END`, not
`Z_DATA_ERROR`; and a call that stops in mode `STORED` with `bits = 0` but has
no output space returns `Z_OK` with the mode still `STORED`. -/
theorem packet_flush_other_results :
    (zlib_inflate noExt 10 (feed (initStream 15) (zlib_stored [72, 105]) 8) Z_PACKET_FLUSH).map
      (fun r => (r.1, r.2.state.map fun st => st.mode)) = some (Z_STREAM_END, some DONE) ∧
    (zlib_inflate noExt 10 (feed (initStream 15) [0x78, 0x9C, 0x00] 0) Z_PACKET_FLUSH).map
      (fun r => (r.1, r.2.state.map fun st => (st.mode, st.bits))) =
      some (Z_OK, some (STORED, 0)) := by
  decide!

/-- Claim C18, amended: when the loop of a `Z_PACKET_FLUSH` call is left for
`inf_leave` with locals `c`, the loop of a `Z_NO_FLUSH` call is left with the
same locals; if `ret` is `Z_OK`, output space is left and the input is used up,
the call returns `Z_OK` with the mode set to `TYPE` when the mode is `STORED`
and `bits = 0`, and `Z_DATA_ERROR` otherwise; in every other case the call
returns what the `Z_NO_FLUSH` call returns. -/
theorem packet_flush_result (E : Ext) (fuel : Nat) (strm : z_stream) (st : inflate_state)
    (c : Cfg) (hs : strm.state = some st) (hu : ¬ (strm.next_in = none ∧ strm.avail_in ≠ 0))
    (hl : inflate_loop E Z_PACKET_FLUSH fuel (enter strm st) = some (.leave c)) :
    inflate_loop E Z_NO_FLUSH fuel (enter strm st) = some (.leave c) ∧
    zlib_inflate E fuel strm Z_PACKET_FLUSH = some (
      if c.ret = Z_OK ∧ c.left ≠ 0 ∧ c.have_ = 0 then
        if c.state.mode = STORED ∧ c.bits = 0 then
          (Z_OK, { leave_stream c with
            state := (leave_stream c).state.map fun s => { s with mode := TYPE } })
        else (Z_DATA_ERROR, leave_stream c)
      else inf_leave Z_NO_FLUSH c) ∧
    (¬ (c.ret = Z_OK ∧ c.left ≠ 0 ∧ c.have_ = 0) →
      zlib_inflate E fuel strm Z_PACKET_FLUSH = zlib_inflate E fuel strm Z_NO_FLUSH) := by
  have hl2 : inflate_loop E Z_NO_FLUSH fuel (enter strm st) = some (.leave c) := by
    rw [← inflate_loop_flush E Z_PACKET_FLUSH Z_NO_FLUSH (by decide) (by decide)]
    exact hl
  have hP := zlib_inflate_leave E fuel strm st Z_PACKET_FLUSH c hs hu hl
  have hN := zlib_inflate_leave E fuel strm st Z_NO_FLUSH c hs hu hl2
  obtain ⟨hai, hao, -, -, -⟩ := leave_stream_frame c
  obtain ⟨st1, hst1, hm1, hb1⟩ := leave_stream_bits c
  have hcond : (Z_PACKET_FLUSH = Z_PACKET_FLUSH ∧ c.ret = Z_OK ∧
      (leave_stream c).avail_out ≠ 0 ∧ (leave_stream c).avail_in = 0) ↔
      (c.ret = Z_OK ∧ c.left ≠ 0 ∧ c.have_ = 0) := by
    rw [hai, hao]
    simp
  have hres : inf_leave Z_PACKET_FLUSH c =
      if c.ret = Z_OK ∧ c.left ≠ 0 ∧ c.have_ = 0 then
        if c.state.mode = STORED ∧ c.bits = 0 then
          (Z_OK, { leave_stream c with
            state := (leave_stream c).state.map fun s => { s with mode := TYPE } })
        else (Z_DATA_ERROR, leave_stream c)
      else inf_leave Z_NO_FLUSH c := by
    by_cases h : c.ret = Z_OK ∧ c.left ≠ 0 ∧ c.have_ = 0
    · rw [if_pos h]
      unfold inf_leave
      rw [if_pos (hcond.2 h)]
      unfold zlib_inflateSyncPacket
      rw [hst1]
      simp only [hm1, hb1, Option.map_some']
    · rw [if_neg h]
      unfold inf_leave
      rw [if_neg (fun x => h (hcond.1 x))]
      have h1 : ¬ (Z_PACKET_FLUSH = Z_FINISH) := by decide
      have h2 : ¬ (Z_NO_FLUSH = Z_FINISH) := by decide
      have h3 : ¬ (Z_NO_FLUSH = Z_PACKET_FLUSH) := by decide
      simp only [h1, h2, h3, false_and, if_false]
  refine ⟨hl2, ?_, ?_⟩
  · rw [hP, hres]
  · intro h
    rw [hP, hN, hres, if_neg h]

theorem packet_flush_result_witness :
    zlib_inflate noExt 10 (feed (initStream 15) [0x78, 0x9C, 0x00] 8) Z_PACKET_FLUSH =
      some (Z_OK, streamOf (zlib_inflate noExt 10
        (feed (initStream 15) [0x78, 0x9C, 0x00] 8) Z_PACKET_FLUSH)) :=
  have h := (packet_flush_result noExt 10 (feed (initStream 15) [0x78, 0x9C, 0x00] 8)
    (stateOf (initStream 15))
    (leaveCfg (inflate_loop noExt Z_PACKET_FLUSH 10
      (enter (feed (initStream 15) [0x78, 0x9C, 0x00] 8) (stateOf (initStream 15)))))
    (by decide!) (by decide!) (by decide!)).2.1
  h.trans (by decide!)

/-- Claim C19, as written, fails: on the state left by the call that returned
`Z_NEED_DICT` the mode is DICT, and `zlib_inflateIncomp`, handed a dictionary
of three bytes, returns `Z_DATA_ERROR` and leaves the window empty. -/
theorem incomp_after_need_dict_fails :
    (zlib_inflate noExt 10 (feed (initStream 15) dict_stream 0) Z_NO_FLUSH).map
      (fun r => (r.1, r.2.state.map fun st => st.mode)) = some (Z_NEED_DICT, some DICT) ∧
    (zlib_inflateIncomp (feed need_dict_stream [1, 2, 3] 0)).1 = Z_DATA_ERROR ∧
    ((zlib_inflateIncomp (feed need_dict_stream [1, 2, 3] 0)).2.state.map
      fun st => (st.whave, st.window)) = some (0, []) := by
  decide!

/-- Claim C19, amended: on a fresh zlib decoder whose input starts with an
accepted header `b0 b1` with FDICT set and four identifier bytes, the call
returns `Z_NEED_DICT` with six bytes consumed, mode DICT and `check` and `adler`
holding the identifier; on that state `zlib_inflateIncomp` returns
`Z_DATA_ERROR` and changes nothing, whatever input it is handed; and once
`havedict` is set, the next call resets `check` and `adler` to `1` and goes on
with the TYPE case. -/
theorem need_dict_then_resume (E : Ext) (fuel : Nat) (flush : Int) (s : z_stream)
    (st : inflate_state) (b0 b1 t0 t1 t2 t3 : Nat) (rest : List Nat)
    (hs : s.state = some st) (hmode : st.mode = HEAD) (hwrap : st.wrap ≠ 0)
    (hhold : st.hold = 0) (hbits : st.bits = 0) (hd : st.havedict = 0)
    (hin : s.next_in = some (b0 :: b1 :: t0 :: t1 :: t2 :: t3 :: rest))
    (havail : 6 ≤ s.avail_in)
    (hb0 : b0 < 256) (hb1 : b1 < 256) (ht0 : t0 < 256) (ht1 : t1 < 256) (ht2 : t2 < 256)
    (ht3 : t3 < 256)
    (h31 : (b0 * 256 + b1) % 31 = 0) (hm : b0 % 16 = 8) (hwin : b0 / 16 + 8 ≤ st.wbits)
    (hfd : b1 &&& 0x20 ≠ 0) :
    ∃ s1 st1, zlib_inflate E (fuel + 2) s flush = some (Z_NEED_DICT, s1) ∧
      s1.state = some st1 ∧ st1.mode = DICT ∧
      st1.check = t3 + 256 * t2 + 65536 * t1 + 16777216 * t0 ∧
      s1.adler = t3 + 256 * t2 + 65536 * t1 + 16777216 * t0 ∧
      s1.next_in = some rest ∧ s1.avail_in = s.avail_in - 6 ∧
      (∀ dict n, zlib_inflateIncomp { s1 with next_in := dict, avail_in := n } =
        (Z_DATA_ERROR, { s1 with next_in := dict, avail_in := n })) ∧
      (∀ s2, step E flush (enter s2 { st1 with havedict := 1 }) =
        case_TYPE flush { enter s2 { st1 with havedict := 1 } with
          strm := { s2 with adler := 1 },
          state := { st1 with havedict := 1, check := 1, mode := TYPE } }) := by
  obtain ⟨c0, hc0⟩ : ∃ c0, c0 = enter s st := ⟨_, rfl⟩
  have e_state : c0.state = st := by rw [hc0]; simp [enter, LOAD, hmode]
  have e_next : c0.next = some (b0 :: b1 :: t0 :: t1 :: t2 :: t3 :: rest) := by
    rw [hc0]; simp [enter, LOAD, hin]
  have e_have : c0.have_ = s.avail_in := by rw [hc0]; simp [enter, LOAD]
  have e_hold : c0.hold = 0 := by rw [hc0]; simp [enter, LOAD, hmode, hhold]
  have e_bits : c0.bits = 0 := by rw [hc0]; simp [enter, LOAD, hmode, hbits]
  have h1 := case_HEAD_accept c0 b0 b1 (t0 :: t1 :: t2 :: t3 :: rest)
    (by rw [e_state]; exact hwrap) e_bits e_hold e_next (by omega)
    hb0 hb1 h31 hm (by rw [e_state]; exact hwin)
  rw [if_pos hfd] at h1
  obtain ⟨c1, hc1⟩ : ∃ c1 : Cfg, c1 = { c0 with
      have_ := c0.have_ - 2, next := some (t0 :: t1 :: t2 :: t3 :: rest),
      hold := 0, bits := 0, strm := { c0.strm with adler := 1 },
      state := { c0.state with dmax := u32 (1 <<< (b0 / 16 + 8)), check := 1, mode := DICTID } } :=
    ⟨_, rfl⟩
  rw [← hc1] at h1
  have hs1 : step E flush c0 = .cont c1 := by
    rw [step_of_HEAD E flush c0 (by rw [e_state]; exact hmode)]; exact h1
  have h2 := case_DICTID_need flush c1 t0 t1 t2 t3 rest (by rw [hc1]) (by rw [hc1])
    (by rw [hc1]) (by rw [hc1]; simp only []; omega) ht0 ht1 ht2 ht3
    (by rw [hc1]; simp only []; rw [e_state]; exact hd)
  obtain ⟨s1, hs1d⟩ : ∃ s1 : z_stream, s1 = { c1.strm with
        adler := t3 + 256 * t2 + 65536 * t1 + 16777216 * t0,
        next_out := c1.put, avail_out := c1.left, next_in := some rest,
        avail_in := c1.have_ - 4,
        state := some { c1.state with
          check := t3 + 256 * t2 + 65536 * t1 + 16777216 * t0, mode := DICT,
          hold := 0, bits := 0 } } := ⟨_, rfl⟩
  rw [← hs1d] at h2
  have hs2 : step E flush c1 = .done Z_NEED_DICT s1 := by
    have : step E flush c1 = case_DICTID flush c1 := by
      unfold step
      rw [show c1.state.mode = DICTID by rw [hc1]]
    rw [this]
    exact h2
  have hu : ¬ (s.next_in = none ∧ s.avail_in ≠ 0) := by
    rw [hin]
    simp
  have hcall : zlib_inflate E (fuel + 2) s flush = some (Z_NEED_DICT, s1) := by
    unfold zlib_inflate
    rw [hs]
    simp only [if_neg hu]
    rw [← hc0, inflate_loop_cont E flush (fuel + 1) c0 c1 hs1]
    unfold inflate_loop
    rw [hs2]
  refine ⟨s1, { c1.state with
          check := t3 + 256 * t2 + 65536 * t1 + 16777216 * t0, mode := DICT,
          hold := 0, bits := 0 }, hcall, by rw [hs1d], rfl, rfl, by rw [hs1d], by rw [hs1d],
    ?_, ?_, ?_⟩
  · rw [hs1d, hc1]
    simp only []
    rw [e_have]
    omega
  · intro dict n
    rw [hs1d]
    simp [zlib_inflateIncomp]
  · intro s2
    unfold step
    simp only [enter, LOAD, case_DICT]
    simp [zlib_adler32]

theorem need_dict_then_resume_witness :
    ∃ s1 st1, zlib_inflate noExt 2 (feed (initStream 15) dict_stream 0) Z_NO_FLUSH =
        some (Z_NEED_DICT, s1) ∧
      s1.state = some st1 ∧ st1.mode = DICT ∧ st1.check = 16909060 :=
  have h := need_dict_then_resume noExt 0 Z_NO_FLUSH (feed (initStream 15) dict_stream 0)
    (stateOf (initStream 15)) 0x78 0x20 1 2 3 4 [9, 9] (by decide!) (by decide!) (by decide!)
    (by decide!) (by decide!) (by decide!) (by decide!) (by decide!) (by decide) (by decide)
    (by decide) (by decide) (by decide) (by decide) (by decide) (by decide) (by decide!)
    (by decide)
  match h with
  | ⟨s1, st1, a, b, c, d, _⟩ => ⟨s1, st1, a, b, c, d⟩

/-- Claim C16, as written, fails: a decoder waiting in mode TYPE, on which
`zlib_inflateIncomp` returns `Z_OK`, is called with no input; the call consumes
and writes nothing and returns `Z_BUF_ERROR`, yet it leaves mode TYPEDO, on
which `zlib_inflateIncomp` returns `Z_DATA_ERROR`. -/
theorem buf_error_changes_mode :
    (type_stream.state.map fun st => st.mode) = some TYPE ∧
    (zlib_inflateIncomp (feed type_stream [1, 2, 3] 8)).1 = Z_OK ∧
    (zlib_inflate noExt 10 (feed type_stream [] 8) Z_NO_FLUSH).map
      (fun r => (r.1, r.2.avail_in, r.2.avail_out, r.2.state.map fun st => st.mode)) =
      some (Z_BUF_ERROR, 0, 8, some TYPEDO) ∧
    (zlib_inflateIncomp (feed (streamOf (zlib_inflate noExt 10 (feed type_stream [] 8)
      Z_NO_FLUSH)) [1, 2, 3] 8)).1 = Z_DATA_ERROR := by
  decide!

/-- Claim C16, amended: when the fast path keeps to its contract, a call that
returns `Z_BUF_ERROR` with `avail_in` and `avail_out` as they were leaves the
counters `total_in`, `total_out` and `total`, the window cursors `whave` and
`write`, `wsize`, `wrap` and every byte of the window as they were before the
call. -/
theorem buf_error_frame (E : Ext) (hE : FastFrame E) (fuel : Nat) (strm s1 : z_stream)
    (st : inflate_state) (flush : Int) (hs : strm.state = some st)
    (hw : st.write < st.wsize) (h32 : st.wsize < 4294967296)
    (ht : st.total < 4294967296) (hti : strm.total_in < 4294967296)
    (hto : strm.total_out < 4294967296)
    (hcall : zlib_inflate E fuel strm flush = some (Z_BUF_ERROR, s1))
    (hin : s1.avail_in = strm.avail_in) (hout : s1.avail_out = strm.avail_out) :
    s1.total_in = strm.total_in ∧ s1.total_out = strm.total_out ∧
    ∃ st1, s1.state = some st1 ∧ st1.total = st.total ∧ st1.whave = st.whave ∧
      st1.write = st.write ∧ st1.wsize = st.wsize ∧ st1.wrap = st.wrap ∧
      ∀ i, st1.window.getD i 0 = st.window.getD i 0 := by
  have hF0 : FJ (Fv.ofStream strm st) (enter strm st) := by
    unfold enter LOAD
    simp only []
    split_ifs <;> exact ⟨⟨rfl, rfl, rfl, rfl, rfl⟩, Or.inl ⟨rfl, rfl, rfl, rfl⟩⟩
  unfold zlib_inflate at hcall
  rw [hs] at hcall
  simp only [] at hcall
  split_ifs at hcall with hu
  · simp [Z_STREAM_ERROR, Z_BUF_ERROR] at hcall
  · cases hl : inflate_loop E flush fuel (enter strm st) with
    | none => simp [hl] at hcall
    | some o =>
      have hJ := (inflate_loop_J E flush _ _ fuel _ (enter_J strm st) o hl).1
      have hF := inflate_loop_F E hE flush _ fuel _ hF0 o hl
      rw [hl] at hcall
      cases o with
      | cont c => simp at hcall
      | done r s =>
        simp only [Option.some.injEq, Prod.mk.injEq] at hcall
        exact absurd hcall.1 hF.1
      | leave c =>
        simp only [Option.some.injEq] at hcall
        obtain ⟨a1, a2, -, -, -⟩ := leave_stream_frame c
        obtain ⟨stl, b1, b2, b3⟩ := leave_stream_bits c
        have hres : c.ret = Z_OK ∧ s1 = leave_stream c := by
          unfold inf_leave at hcall
          split_ifs at hcall with h1 h2
          · unfold zlib_inflateSyncPacket at hcall
            rw [b1] at hcall
            simp only [] at hcall
            split_ifs at hcall <;> simp [Z_OK, Z_DATA_ERROR, Z_BUF_ERROR] at hcall
          · simp only [Prod.mk.injEq, true_and] at hcall
            exact ⟨h2.2, hcall.symm⟩
          · simp only [Prod.mk.injEq] at hcall
            rcases hF.2 with g | g | g
            · rw [g.2.2.2] at hcall
              exact absurd hcall.1 (by decide)
            · rw [g] at hcall
              exact absurd hcall.1 (by decide)
            · rw [g] at hcall
              exact absurd hcall.1 (by decide)
        obtain ⟨hr, hs1⟩ := hres
        have hsoft : Soft (Fv.ofStream strm st) c := by
          rcases hF.2 with g | g | g
          · exact g
          · rw [hr] at g
            exact absurd g (by decide)
          · rw [hr] at g
            exact absurd g (by decide)
        have hout0 : c.out = strm.avail_out := by
          rcases hJ.2 with g | g
          · exact g.2
          · exact absurd hr g.1
        obtain ⟨w1, w2, w3, w4, w6⟩ := hF.1
        obtain ⟨t1, t2, t3, -⟩ := hsoft
        simp only [Fv.ofStream] at w1 w2 w3 w4 w6 t1 t2 t3
        rw [hs1] at hin hout
        rw [a1] at hin
        rw [a2] at hout
        have hi0 : sub32 c.in_ c.have_ = 0 := by
          rw [hJ.1, hin]
          exact sub32_self _
        have ho0 : sub32 c.out c.left = 0 := by
          rw [hout0, hout]
          exact sub32_self _
        obtain ⟨l1, l2, st1, l3, l4, l5, l6, l7, l8, l9⟩ := leave_stream_idle c hi0 ho0
          (by rw [w3, w4]; exact hw) (by rw [w4]; exact h32)
        rw [hs1]
        refine ⟨?_, ?_, st1, l3, ?_, l5.trans w2, l6.trans w3, l7.trans w4, l8.trans w6, ?_⟩
        · rw [l1, t2]
          exact add32_zero hti
        · rw [l2, t3]
          exact add32_zero hto
        · rw [l4, t1]
          exact add32_zero ht
        · intro i
          rw [l9 i, w1]

theorem buf_error_frame_witness :
    (streamOf (zlib_inflate noExt 10 (feed type_stream [] 8) Z_NO_FLUSH)).total_in =
      (feed type_stream [] 8).total_in :=
  (buf_error_frame noExt (fun _ _ _ => ⟨rfl, rfl, rfl, rfl, rfl, rfl, rfl, rfl⟩) 10
    (feed type_stream [] 8)
    (streamOf (zlib_inflate noExt 10 (feed type_stream [] 8) Z_NO_FLUSH))
    (stateOf type_stream) Z_NO_FLUSH (by decide!) (by decide!) (by decide!) (by decide!)
    (by decide!) (by decide!) (by decide!) (by decide!) (by decide!)).1

/-- Claim C20, as written, fails: the bytes of the call that passes the trailer
check never reach the window. After init(15) the stored stream of `Hi` is
decoded in two calls, the first with one byte of output space; the second
returns `Z_STREAM_END` with `Hi` written, while the window still holds only
`H`: `whave = 1`, and the byte at `(write - 1) mod wsize` is `H`, not `i`. -/
theorem window_misses_last_call :
    (thenCall noExt 10 (zlib_inflate noExt 10 (feed (initStream 15) (zlib_stored [72, 105]) 1)
        Z_NO_FLUSH) [105, 0, 251, 0, 178] 8 Z_NO_FLUSH).map
      (fun r => (r.1, r.2.next_out, r.2.state.map fun st =>
        (st.whave, st.write, st.window.getD ((st.write + st.wsize - 1) % st.wsize) 0))) =
      some (Z_STREAM_END, [72, 105], some (1, 1, 72)) := by
  decide!

/-- Claim C20, amended: the window is a ring buffer of the bytes entered in it.
In every stream reached from an accepted init by resets and by calls of
`zlib_inflate` and `zlib_inflateIncomp` (the table builder and the fast path
keeping to their contracts), the window represents the history of the bytes
entered since the last reset. `zlib_updatewindow` on a window that represents
`H`, for the bytes `O` below `next_out`, leaves one that represents `H ++ O`.
And a call of `zlib_inflate` on a reached stream accounts for the bytes it
wrote; it enters all of them when it returns `Z_OK` or `Z_BUF_ERROR` and when
the stream is raw, whatever it returns, and none of them when it returns
`Z_STREAM_END` on a zlib stream. -/
theorem window_is_ring_buffer (E : Ext) (hE : FastFrame E) (hF : FastOut E)
    (hT : TableLens E) :
    (∀ s H, ReachH E s H → ∃ st, s.state = some st ∧ Represents st H) ∧
    (∀ (strm : z_stream) (st : inflate_state) (out : Nat) (H P O : List Nat),
      Represents st H → st.wsize < 4294967296 → strm.next_out = P ++ O →
      sub32 out strm.avail_out = O.length →
      Represents (zlib_updatewindow strm st out) (H ++ O)) ∧
    (∀ (s : z_stream) (H : List Nat) (k : Call) (fuel : Nat) (r : Int) (s1 : z_stream),
      ReachH E s H → k.avail_out < 4294967296 →
      zlib_inflate E fuel (supply s k) k.flush = some (r, s1) →
      s1.next_out = k.next_out ++ written k s1 ∧
      s1.avail_out + (written k s1).length = k.avail_out ∧
      (r = Z_OK ∨ r = Z_BUF_ERROR → entered k s1 = written k s1) ∧
      (∀ st, s.state = some st → st.wrap = 0 → entered k s1 = written k s1) ∧
      (∀ st, s.state = some st → st.wrap ≠ 0 → r = Z_STREAM_END → entered k s1 = [])) := by
  refine ⟨fun s H h => ?_, fun strm st out H P O hR h32 hno hc =>
    zlib_updatewindow_represents strm st out H P O hR h32 hno hc, ?_⟩
  · obtain ⟨st, hs, hR, -⟩ := reach_window E hE hF hT s H h
    exact ⟨st, hs, hR⟩
  · intro s H k fuel r s1 h hk hcall
    obtain ⟨st, hs, hR, hLS, h32, -, -⟩ := reach_window E hE hF hT s H h
    obtain ⟨O, st1, a1, a2, -, -, -, -, -, -, a9, a10⟩ :=
      call_window E hE hF hT fuel (supply s k) s1 st k.flush r H hs hLS hR h32 hk hcall
    have hw : written k s1 = O := written_append k s1 O a1
    unfold entered
    rw [hw]
    refine ⟨a1, a2, fun g => ?_, fun st' hs' hw0 => ?_, fun st' hs' hw1 hr => ?_⟩
    · rcases g with g | g
      · exact a9 (Or.inl g)
      · exact a9 (Or.inr (Or.inl g))
    · rw [hs] at hs'
      cases hs'
      exact a9 (Or.inr (Or.inr hw0))
    · rw [hs] at hs'
      cases hs'
      rw [if_pos (a10 hr hw1)]

set_option maxRecDepth 1000000 in
theorem window_is_ring_buffer_witness :
    ∃ st, (streamOf (zlib_inflate noExt 10 (supply (initStream 15) first_call)
        Z_NO_FLUSH)).state = some st ∧
      Represents st ([] ++ entered first_call
        (streamOf (zlib_inflate noExt 10 (supply (initStream 15) first_call) Z_NO_FLUSH))) :=
  (window_is_ring_buffer noExt (fun _ _ _ => ⟨rfl, rfl, rfl, rfl, rfl, rfl, rfl, rfl⟩)
    noExt_FastOut noExt_TableLens).1 _ _
    (ReachH.call (initStream 15) _ first_call 10 Z_OK []
      (ReachH.init strm0 ws0 15 (Or.inl ⟨by decide, by decide⟩)) (by decide) (by decide!))

/-- Claim C7: a decoder initialised with wrap on (`8 ≤ w ≤ 15`, on any stream
and workspace) is run through any sequence of calls of `zlib_inflate`, with
whatever buffers of 32-bit size and flush values the caller supplies, the table
builder and the fast path keeping to their contracts. If the last call returns
`Z_STREAM_END`, the stream's `adler` and the state's `check` are the Adler-32
of all the bytes the calls wrote. -/
theorem checksum_at_stream_end (E : Ext) (hE : FastCheck E) (hF : FastOut E)
    (hT : TableLens E) (fuel : Nat) (strm : z_stream) (ws : inflate_state) (w : Int)
    (h8 : 8 ≤ w) (h15 : w ≤ 15) (ks : List Call)
    (hks : ∀ k ∈ ks, k.avail_out < 4294967296) (s : z_stream) (T : List Nat)
    (hrun : run E fuel Z_OK (zlib_inflateInit2 strm ws w).2 [] ks =
      some (Z_STREAM_END, s, T)) :
    s.adler = adler32_fold 1 T ∧ ∃ st, s.state = some st ∧ st.check = adler32_fold 1 T := by
  obtain ⟨st, e1, e2, -⟩ := init_accepted strm ws w (Or.inl ⟨h8, h15⟩)
  exact (run_checked E hE hF hT fuel ks Z_OK _ [] Z_STREAM_END s T
    (init_tracked strm ws w h8 h15)
    ⟨st, e1, LS_plain _ (by rw [e2]; decide)⟩
    (fun h => absurd h (by decide)) hks hrun).2 rfl

set_option maxRecDepth 1000000 in
theorem checksum_at_stream_end_witness :
    (runStream (run noExt 10 Z_OK (initStream 15) [] two_calls)).adler =
      adler32_fold 1 [72, 105] :=
  (checksum_at_stream_end noExt
    (fun _ st _ h => ⟨rfl, rfl, rfl, Or.inl (show kind st.mode = 1 by rw [h]; rfl)⟩)
    noExt_FastOut noExt_TableLens 10 strm0 ws0 15
    (by decide) (by decide) two_calls (by decide)
    (runStream (run noExt 10 Z_OK (initStream 15) [] two_calls)) [72, 105]
    (by decide!)).1

/-- Claim C21: in every stream reachable from an accepted init by calls of
`zlib_inflate` and `zlib_inflateIncomp` (the fast path keeping to its
contract), `write < wsize` and `whave ≤ wsize`; `zlib_updatewindow` for
`copy = out - avail_out` emitted bytes sets `write = 0` and `whave = wsize`
when `copy ≥ wsize`, and otherwise sets `write` to `(write + copy) mod wsize`
and `whave` to `min(wsize, whave + copy)`; and no call lowers `whave`. -/
theorem window_cursors (E : Ext) (hE : FastFrame E) (s : z_stream) (h : Reachable E s) :
    ∃ st, s.state = some st ∧ st.write < st.wsize ∧ st.whave ≤ st.wsize ∧
      (∀ (strm : z_stream) (out : Nat),
        (st.wsize ≤ sub32 out strm.avail_out →
          (zlib_updatewindow strm st out).write = 0 ∧
          (zlib_updatewindow strm st out).whave = st.wsize) ∧
        (sub32 out strm.avail_out < st.wsize →
          (zlib_updatewindow strm st out).write =
            (st.write + sub32 out strm.avail_out) % st.wsize ∧
          (zlib_updatewindow strm st out).whave =
            min st.wsize (st.whave + sub32 out strm.avail_out))) ∧
      (∀ (k : Call) (fuel : Nat) (r : Int) (s1 : z_stream),
        zlib_inflate E fuel (supply s k) k.flush = some (r, s1) →
        ∃ st1, s1.state = some st1 ∧ st.whave ≤ st1.whave) ∧
      (∀ (next_in : Option (List Nat)) (avail_in : Nat),
        ∃ st1, (zlib_inflateIncomp { s with next_in := next_in, avail_in := avail_in }).2.state =
          some st1 ∧ st.whave ≤ st1.whave) := by
  obtain ⟨st, hs, hC⟩ := reachable_cursors E hE s h
  refine ⟨st, hs, hC.2.2.1, hC.2.2.2.1, ?_, ?_, ?_⟩
  · intro strm out
    obtain ⟨u1, u2, -, -⟩ := zlib_updatewindow_cursors strm st out hC
    exact ⟨u1, u2⟩
  · intro k fuel r s1 hcall
    obtain ⟨st1, q1, -, q3⟩ :=
      call_cursors E hE fuel (supply s k) s1 st k.flush r (by simp [supply, hs]) hC hcall
    exact ⟨st1, q1, q3⟩
  · intro ni ai
    obtain ⟨st1, q1, -, q3⟩ := incomp_cursors { s with next_in := ni, avail_in := ai } st hs hC
    exact ⟨st1, q1, q3⟩

theorem window_cursors_witness :
    ∃ st, (streamOf (zlib_inflate noExt 10 (supply (initStream 15) first_call)
        first_call.flush)).state = some st ∧ st.write < st.wsize ∧ st.whave ≤ st.wsize :=
  have h := window_cursors noExt (fun _ _ _ => ⟨rfl, rfl, rfl, rfl, rfl, rfl, rfl, rfl⟩)
    (streamOf (zlib_inflate noExt 10 (supply (initStream 15) first_call) first_call.flush))
    (Reachable.call (initStream 15) _ first_call 10 Z_OK
      (Reachable.init strm0 ws0 15 (Or.inl ⟨by decide, by decide⟩)) (by decide!))
  h.elim fun st hst => ⟨st, hst.1, hst.2.1, hst.2.2.1⟩

/-- One round of the loop of CODELENS on the decoded entry `this`, once the
bits it needs are at hand. -/
lemma codelens_rounds (fuel : Nat) (c c1 : Cfg) (this : code)
    (h1 : c.state.nlen ≤ 286) (h2 : c.state.ndist ≤ 30)
    (hlt : c.state.have_ < c.state.nlen + c.state.ndist)
    (hL : code_loop c.state.lencode c.state.lenbits (c.have_ + 1) c = .got this c1) :
    (this.val < 16 → ∀ c2, NEEDBITS this.bits c1 = (true, c2) →
      ∃ c3, codelens_loop (fuel + 1) c = codelens_loop fuel c3 ∧
        Appends c.state c3.state [this.val]) ∧
    (this.val = 16 → ∀ c2, NEEDBITS (this.bits + 2) c1 = (true, c2) →
      (c.state.have_ = 0 →
        ∃ c3, codelens_loop (fuel + 1) c = (true, c3) ∧ RepeatRejected c c3) ∧
      (c.state.have_ ≠ 0 →
        RepeatOutcome fuel c (3 + BITS (DROPBITS this.bits c2) 2)
          (c.state.lens.getD (c.state.have_ - 1) 0 % 65536))) ∧
    (this.val = 17 → ∀ c2, NEEDBITS (this.bits + 3) c1 = (true, c2) →
      RepeatOutcome fuel c (3 + BITS (DROPBITS this.bits c2) 3) 0) ∧
    (this.val = 18 → ∀ c2, NEEDBITS (this.bits + 7) c1 = (true, c2) →
      RepeatOutcome fuel c (11 + BITS (DROPBITS this.bits c2) 7) 0) := by
  have hn : add32 c.state.nlen c.state.ndist = c.state.nlen + c.state.ndist :=
    add32_of_lt (by omega)
  have hlt2 : c.state.have_ < add32 c.state.nlen c.state.ndist := by rw [hn]; exact hlt
  have hs1 : c1.state = c.state := by
    have := code_loop_acc c.state.lencode c.state.lenbits (c.have_ + 1) c
    rw [hL] at this
    exact this.2.1
  refine ⟨?_, ?_, ?_, ?_⟩
  · intro hv c2 hN
    exact codelens_step_lit fuel c c1 c2 this hlt2 hL hv hN
  · intro h16 c2 hN
    obtain ⟨r0, r1⟩ := codelens_repeat_16 this c1 c2 h16 hN
    rw [hs1] at r0 r1
    have hs2 : c2.state = c1.state := by
      have := NEEDBITS_acc (this.bits + 2) c1
      rw [hN] at this
      exact this.2.1
    constructor
    · intro h0
      refine ⟨(DROPBITS this.bits c2).bad "invalid bit length repeat", ?_, ?_⟩
      · rw [codelens_loop, if_pos hlt2, hL]
        simp only [show ¬ this.val < 16 by omega, if_false, r0 h0]
      · simp [RepeatRejected, Cfg.bad, DROPBITS, hs2, hs1]
    · intro h0
      exact codelens_step_rep fuel c c1 _ this _ _ hlt2 hL (by omega) (r1 h0) h1 h2
  · intro h17 c2 hN
    have hr := codelens_repeat_17 this c1 c2 h17 hN
    have := codelens_step_rep fuel c c1 _ this _ _ hlt2 hL (by omega) hr h1 h2
    simpa using this
  · intro h18 c2 hN
    have hr := codelens_repeat_18 this c1 c2 h18 hN
    have := codelens_step_rep fuel c c1 _ this _ _ hlt2 hL (by omega) hr h1 h2
    simpa using this

/-- Claim C24: a pass through CODELENS (`step` in mode CODELENS), one decoded
symbol at a time, and the bound on the count of lengths. With `nlen ≤ 286`,
`ndist ≤ 30` and fewer than `nlen + ndist` lengths read, a pass that decodes
the entry `this` does this once the bits it needs are at hand: for a symbol
below 16 it goes on as the pass from the state with that length appended; 16
is rejected when no length has been read (the pass ends in BAD with the message
`invalid bit length repeat`, `lens` and `have` untouched), and else the pass
goes on from the state with the previous length (an `unsigned short`) appended
`3 +` (next 2 bits) times; 17 appends `3 +` (next 3 bits) zeros; 18 appends
`11 +` (next 7 bits) zeros; a repeat that would take the count past
`nlen + ndist` ends the pass in BAD with the same message and leaves `lens` and
`have` alone. Every pass ends its loop with `have` at most `nlen + ndist ≤ 316`
and no entry of `lens` from index `nlen + ndist` on written. TABLE rejects
`nlen > 286` and `ndist > 30` and otherwise enters LENLENS with the counts it
read, and LENLENS keeps them and enters CODELENS with `have = 0`. The last two
parts state the rounds and the bound on the loop of CODELENS itself, for any
number of rounds. -/
theorem code_lengths_decoding (E : Ext) :
    (∀ (flush : Int) (c c1 : Cfg) (this : code), c.state.mode = CODELENS →
      c.state.nlen ≤ 286 → c.state.ndist ≤ 30 →
      c.state.have_ < c.state.nlen + c.state.ndist →
      code_loop c.state.lencode c.state.lenbits (c.have_ + 1) c = .got this c1 →
      (this.val < 16 → ∀ c2, NEEDBITS this.bits c1 = (true, c2) →
        ∃ c3, step E flush c = step E flush c3 ∧ Appends c.state c3.state [this.val]) ∧
      (this.val = 16 → ∀ c2, NEEDBITS (this.bits + 2) c1 = (true, c2) →
        (c.state.have_ = 0 →
          ∃ c3, step E flush c = .cont c3 ∧ RepeatRejected c c3) ∧
        (c.state.have_ ≠ 0 →
          RepeatPass E flush c (3 + BITS (DROPBITS this.bits c2) 2)
            (c.state.lens.getD (c.state.have_ - 1) 0 % 65536))) ∧
      (this.val = 17 → ∀ c2, NEEDBITS (this.bits + 3) c1 = (true, c2) →
        RepeatPass E flush c (3 + BITS (DROPBITS this.bits c2) 3) 0) ∧
      (this.val = 18 → ∀ c2, NEEDBITS (this.bits + 7) c1 = (true, c2) →
        RepeatPass E flush c (11 + BITS (DROPBITS this.bits c2) 7) 0)) ∧
    (∀ (flush : Int) (c : Cfg), c.state.mode = CODELENS →
      c.state.nlen ≤ 286 → c.state.ndist ≤ 30 →
      c.state.have_ ≤ c.state.nlen + c.state.ndist →
      ∃ c2, (step E flush c = .leave c2 ∨ step E flush c = CODELENS_tail E c2) ∧
        c2.state.nlen = c.state.nlen ∧ c2.state.ndist = c.state.ndist ∧
        c2.state.have_ ≤ c.state.nlen + c.state.ndist ∧
        c.state.nlen + c.state.ndist ≤ 316 ∧
        ∀ i, c.state.nlen + c.state.ndist ≤ i →
          c2.state.lens.getD i 0 = c.state.lens.getD i 0) ∧
    (∀ (c c1 : Cfg), NEEDBITS 14 c = (true, c1) →
      (286 < BITS c1 5 + 257 ∨ 30 < BITS (DROPBITS 5 c1) 5 + 1 →
        ∃ c2, case_TABLE E c = .cont c2 ∧ c2.state.mode = BAD ∧
          c2.strm.msg = some "too many length or distance symbols") ∧
      (¬ (286 < BITS c1 5 + 257 ∨ 30 < BITS (DROPBITS 5 c1) 5 + 1) →
        ∃ c2, case_TABLE E c = case_LENLENS E c2 ∧ c2.state.nlen = BITS c1 5 + 257 ∧
          c2.state.ndist = BITS (DROPBITS 5 c1) 5 + 1 ∧ c2.state.have_ = 0 ∧
          c2.state.nlen ≤ 286 ∧ c2.state.ndist ≤ 30)) ∧
    (∀ (c : Cfg),
      (∃ c2, case_LENLENS E c = .leave c2 ∧ c2.state.nlen = c.state.nlen ∧
        c2.state.ndist = c.state.ndist) ∨
      (∃ c2, case_LENLENS E c = .cont c2 ∧ c2.state.mode = BAD) ∨
      (∃ c2, case_LENLENS E c = case_CODELENS E c2 ∧ c2.state.have_ = 0 ∧
        c2.state.nlen = c.state.nlen ∧ c2.state.ndist = c.state.ndist)) ∧
    (∀ (fuel : Nat) (c c1 : Cfg) (this : code),
      c.state.nlen ≤ 286 → c.state.ndist ≤ 30 →
      c.state.have_ < c.state.nlen + c.state.ndist →
      code_loop c.state.lencode c.state.lenbits (c.have_ + 1) c = .got this c1 →
      (this.val < 16 → ∀ c2, NEEDBITS this.bits c1 = (true, c2) →
        ∃ c3, codelens_loop (fuel + 1) c = codelens_loop fuel c3 ∧
          Appends c.state c3.state [this.val]) ∧
      (this.val = 16 → ∀ c2, NEEDBITS (this.bits + 2) c1 = (true, c2) →
        (c.state.have_ = 0 →
          ∃ c3, codelens_loop (fuel + 1) c = (true, c3) ∧ RepeatRejected c c3) ∧
        (c.state.have_ ≠ 0 →
          RepeatOutcome fuel c (3 + BITS (DROPBITS this.bits c2) 2)
            (c.state.lens.getD (c.state.have_ - 1) 0 % 65536))) ∧
      (this.val = 17 → ∀ c2, NEEDBITS (this.bits + 3) c1 = (true, c2) →
        RepeatOutcome fuel c (3 + BITS (DROPBITS this.bits c2) 3) 0) ∧
      (this.val = 18 → ∀ c2, NEEDBITS (this.bits + 7) c1 = (true, c2) →
        RepeatOutcome fuel c (11 + BITS (DROPBITS this.bits c2) 7) 0)) ∧
    (∀ (fuel : Nat) (c : Cfg), c.state.nlen ≤ 286 → c.state.ndist ≤ 30 →
      c.state.have_ ≤ c.state.nlen + c.state.ndist →
      (codelens_loop fuel c).2.state.nlen = c.state.nlen ∧
      (codelens_loop fuel c).2.state.ndist = c.state.ndist ∧
      (codelens_loop fuel c).2.state.have_ ≤ c.state.nlen + c.state.ndist ∧
      c.state.nlen + c.state.ndist ≤ 316 ∧
      ∀ i, c.state.nlen + c.state.ndist ≤ i →
        (codelens_loop fuel c).2.state.lens.getD i 0 = c.state.lens.getD i 0) := by
  refine ⟨?_, ?_, fun c c1 hN => case_TABLE_counts E c c1 hN, fun c => case_LENLENS_counts E c,
    fun fuel c c1 this h1 h2 hlt hL => codelens_rounds fuel c c1 this h1 h2 hlt hL, ?_⟩
  · intro flush c c1 this hm h1 h2 hlt hL
    obtain ⟨r1, r2, r3, r4⟩ :=
      codelens_rounds (c.state.nlen + c.state.ndist - 1) c c1 this h1 h2 hlt hL
    refine ⟨?_, ?_, ?_, ?_⟩
    · intro hv c2 hN
      exact pass_of_append E flush c _ hm h1 h2 hlt (by simp) (r1 hv c2 hN)
    · intro h16 c2 hN
      obtain ⟨q1, q2⟩ := r2 h16 c2 hN
      exact ⟨fun h0 => pass_of_reject E flush c hm h1 h2 hlt (q1 h0),
        fun h0 => pass_of_repeat E flush c _ _ hm h1 h2 hlt (by omega) (q2 h0)⟩
    · intro h17 c2 hN
      exact pass_of_repeat E flush c _ _ hm h1 h2 hlt (by omega) (r3 h17 c2 hN)
    · intro h18 c2 hN
      exact pass_of_repeat E flush c _ _ hm h1 h2 hlt (by omega) (r4 h18 c2 hN)
  · intro flush c hm h1 h2 h3
    obtain ⟨c2, b0, b1, b2, b3, b4⟩ := case_CODELENS_bound E c h1 h2 h3
    rw [step_of_CODELENS E flush c hm]
    exact ⟨c2, b0, b1, b2, b3, by omega, b4⟩
  · intro fuel c h1 h2 h3
    obtain ⟨b1, b2, b3, b4⟩ := codelens_loop_bound fuel c h1 h2 h3
    exact ⟨b1, b2, b3, by omega, b4⟩

set_option maxRecDepth 1000000 in
theorem code_lengths_decoding_witness :
    ∃ c3, step noExt Z_NO_FLUSH (codelens_cfg 16 4 1) = step noExt Z_NO_FLUSH c3 ∧
      Appends (codelens_cfg 16 4 1).state c3.state (List.replicate 5 7) :=
  have h := (((code_lengths_decoding noExt).1 Z_NO_FLUSH (codelens_cfg 16 4 1)
    (codelens_cfg 16 4 1) ⟨0, 1, 16⟩ rfl (by decide) (by decide) (by decide)
    (by decide!)).2.1 rfl (codelens_cfg 16 4 1) (by decide!)).2 (by decide)
  have hk : 3 + BITS (DROPBITS 1 (codelens_cfg 16 4 1)) 2 = 5 := by decide!
  (hk ▸ h).2 (by decide)

/-- Claim C22: one pass through MATCH. The window is a ring buffer of the
history `H`, this call has written `O` so far (`|O| = out - left`), and MATCH
is entered with `length ≥ 1`, `left ≥ 1` and `1 ≤ offset ≤ whave + |O|`. Then
the pass goes on in the loop having written bytes `W` with
`1 ≤ |W| ≤ min(length, left)`; `left` and `length` drop by `|W|`; the mode is
LEN exactly when the new `length` is 0, and MATCH otherwise; with
`offset > |O|` all of `W` comes from the window (`|W| ≤ offset - |O|`); and
every byte of `W` is the byte `offset` places before it in `H ++ O ++ W`. -/
theorem match_copy_correct (c : Cfg) (H P0 O : List Nat)
    (hm : c.state.mode = MATCH) (hlen : 1 ≤ c.state.length) (hleft : 1 ≤ c.left)
    (hoff1 : 1 ≤ c.state.offset) (ho32 : c.out < 4294967296)
    (hput : c.put = P0 ++ O) (hO : c.left + O.length = c.out)
    (hoff2 : c.state.offset ≤ c.state.whave + O.length)
    (hR : Represents c.state H) (hws : c.state.wsize < 4294967296) :
    ∃ (W : List Nat) (c1 : Cfg), case_MATCH c = .cont c1 ∧ c1.put = c.put ++ W ∧
      1 ≤ W.length ∧ W.length ≤ min c.state.length c.left ∧
      c1.left = c.left - W.length ∧ c1.state.length = c.state.length - W.length ∧
      (c1.state.mode = LEN ↔ c1.state.length = 0) ∧
      (c1.state.mode = LEN ∨ c1.state.mode = MATCH) ∧
      (O.length < c.state.offset → W.length ≤ c.state.offset - O.length) ∧
      ∀ i, i < W.length →
        W.getD i 0 = (H ++ (O ++ W)).getD (H.length + O.length + i - c.state.offset) 0 := by
  obtain ⟨W, he, h1, h2, h3, h4⟩ :=
    case_MATCH_copy c H P0 O hlen hleft hoff1 ho32 hput hO hoff2 hR hws
  refine ⟨W, _, he, rfl, h1, h2, rfl, rfl, ?_, ?_, h3, h4⟩
  · simp only [hm]
    by_cases hz : c.state.length - W.length = 0
    · simp [hz]
    · simp [hz]
  · simp only [hm]
    by_cases hz : c.state.length - W.length = 0
    · simp [hz]
    · simp [hz]

theorem match_copy_correct_witness :
    ∃ (W : List Nat) (c1 : Cfg), case_MATCH match_cfg = .cont c1 ∧
      c1.put = match_cfg.put ++ W ∧ 1 ≤ W.length ∧
      ∀ i, i < W.length →
        W.getD i 0 = ([] ++ ([72] ++ W)).getD (([] : List Nat).length + [72].length + i -
          match_cfg.state.offset) 0 :=
  have h := match_copy_correct match_cfg [] [] [72] rfl (by decide) (by decide) (by decide)
    (by decide) rfl rfl (by decide)
    ⟨rfl, by decide, fun _ => rfl, fun d h1 h2 => absurd (Nat.le_trans h1 h2) (by decide)⟩
    (by decide)
  h.elim fun W hW => hW.elim fun c1 h1 =>
    ⟨W, c1, h1.1, h1.2.1, h1.2.2.1, h1.2.2.2.2.2.2.2.2.2⟩

/-- Claim C23, as written, fails for the 32-bit accumulator: a byte pulled while
more than 24 bits are held loses its high bits. Five bytes `FF` at hand: four
pulls, `DROPBITS(1)`, a fifth pull (at `bits = 31`) and `DROPBITS(31)`, each
drop of no more bits than are held, leave `hold = 1` and `bits = 8`, so the next
8 bits read as `1`; bits 32 to 39 of the pulled bytes, least significant bit
first, are `FF`. -/
theorem wide_pull_loses_bits :
    (runPrims [.pull, .pull, .pull, .pull, .drop 1, .pull, .drop 31]
        (acc_cfg [255, 255, 255, 255, 255]) 0).map
      (fun r => (r.1.hold, r.1.bits, BITS r.1 8, r.2)) = some (1, 8, 1, 32) ∧
    le_bytes [255, 255, 255, 255, 255] / 2 ^ 32 % 2 ^ 8 = 255 := by
  decide!

/-- Claim C23, amended. Starting from an empty accumulator with the input
bytes `I`, every sequence of the accumulator primitives in which a byte is
pulled only while `bits ≤ 24` and `DROPBITS(n)` is used with `n ≤ bits` ends,
after `k` pulls and `t` bits removed, with `bits = 8k - t ≤ 32`,
`hold < 2^bits`, and `hold` equal to the little-endian number of the `k` bytes
pulled, shifted down by `t`: the next `n ≤ bits` bits read are bits `t` to
`t + n - 1` of the pulled bytes, least significant bit first. And in every
stream reachable from an accepted init by calls of `zlib_inflate` and
`zlib_inflateIncomp`, with tables whose codes are at most 15 bits long and the
fast path at its contract, the state holds `bits ≤ 32`. -/
theorem accumulator_invariant :
    (∀ (I : List Nat) (ps : List Prim) (c1 : Cfg) (t : Nat), (∀ b ∈ I, b < 256) →
      fits ps (acc_cfg I) = true → runPrims ps (acc_cfg I) 0 = some (c1, t) →
      ∃ k, c1.have_ + k = I.length ∧ c1.bits + t = 8 * k ∧ c1.bits ≤ 32 ∧
        c1.hold < 2 ^ c1.bits ∧ c1.hold = le_bytes (I.take k) / 2 ^ t ∧
        ∀ n, n ≤ c1.bits → BITS c1 n = le_bytes (I.take k) / 2 ^ t % 2 ^ n) ∧
    (∀ (E : Ext) (s : z_stream), TableBits E → FastBits E → Reachable E s →
      ∃ st, s.state = some st ∧ st.bits ≤ 32) := by
  constructor
  · intro I ps c1 t hI hf hr
    obtain ⟨k, q1, q2, q3, q4⟩ := runPrims_inv I hI ps (acc_cfg I) 0 0 rfl (le_refl _) rfl
      (by simp [acc_cfg, enter, LOAD, ws0, le_bytes]) (Nat.zero_le 32) hf c1 t hr
    have hk : k ≤ I.length := by
      have : (acc_cfg I).have_ = I.length := rfl
      omega
    have hS : le_bytes (I.take k) < 2 ^ (8 * k) := by
      have := le_bytes_lt (I.take k) (fun b hb => hI b (List.mem_of_mem_take hb))
      rw [List.length_take, Nat.min_eq_left hk] at this
      exact this
    have hlt : c1.hold < 2 ^ c1.bits := by
      rw [q3]
      apply Nat.div_lt_of_lt_mul
      rw [← Nat.pow_add, Nat.add_comm, q2]
      exact hS
    refine ⟨k, q1, q2, q4, hlt, q3, fun n hn => ?_⟩
    have h32 : c1.hold < 4294967296 := by
      have : 2 ^ c1.bits ≤ 2 ^ 32 := Nat.pow_le_pow_right (by decide) q4
      norm_num at this
      omega
    rw [BITS_mod c1 n (by omega), Nat.mod_eq_of_lt h32, q3]
  · intro E s hT hF h
    obtain ⟨st, hs, hB⟩ := reachable_B E hT hF s h
    exact ⟨st, hs, hB.1⟩

theorem accumulator_invariant_witness :
    (∃ k, (((runPrims [.pull, .pull, .drop 4, .align] (acc_cfg [120, 156]) 0).getD
        (acc_cfg [], 0)).1).have_ + k = [120, 156].length ∧
      (((runPrims [.pull, .pull, .drop 4, .align] (acc_cfg [120, 156]) 0).getD
        (acc_cfg [], 0)).1).bits + 8 = 8 * k) ∧
    ∃ st, (streamOf (zlib_inflate noExt 10 (supply (initStream 15) first_call)
        first_call.flush)).state = some st ∧ st.bits ≤ 32 :=
  have h := accumulator_invariant.1 [120, 156] [.pull, .pull, .drop 4, .align]
    (((runPrims [.pull, .pull, .drop 4, .align] (acc_cfg [120, 156]) 0).getD (acc_cfg [], 0)).1)
    8 (by decide) (by decide!) (by decide!)
  ⟨h.elim fun k hk => ⟨k, hk.1, hk.2.1⟩,
    accumulator_invariant.2 noExt _ noExt_TableBits noExt_FastBits
      (Reachable.call (initStream 15) _ first_call 10 Z_OK
        (Reachable.init strm0 ws0 15 (Or.inl ⟨by decide, by decide⟩)) (by decide!))⟩

/-- Claim C1, with the bound on distances that it needs. Let `zlib_inflateInit2`
have accepted its window size, and let the table builder and the fast path keep
their contracts (`TablePrefix`, `TableLens`, `FastSlow`). Suppose that a single
call of `zlib_inflate`, offered the whole input `inp` and `n` bytes of output
space with a flush value `f` other than `Z_PACKET_FLUSH` and `Z_BLOCK`, returns
(the code `r1`, the stream `s1`), and that the decode of `inp` in one call reads
no distance larger than the window size (`NearAll`: whenever a pass of its loop,
taken without the fast path, ends in LEN or MATCH or with the message "invalid
distance too far back", `state->offset` is at most `state->wsize`; the field
`offset`, which `zlib_inflateInit2` does not reset, counts as cleared at the
start). Then under every schedule of calls, each offered any number of the input
bytes not yet consumed and any output space, with any flush value except
`Z_PACKET_FLUSH`, the output space of the calls together being at most `n`
(and `n + 32768 < 2^32`): every call returns, given enough passes of the loop;
the bytes written by the calls together are the start of the output of the
single call; they are all of it, and the code is that of the single call, when
the last call returns a code other than `Z_OK` and `Z_BUF_ERROR`; a call that
returns `Z_OK` or `Z_BUF_ERROR` has consumed the input it was offered, or filled
its output space, or was asked for `Z_BLOCK`; and when such a call leaves no
input unconsumed and has output space to spare, and was not asked for `Z_BLOCK`,
the bytes written are again all of the output of the single call, which then
returned `Z_OK` or `Z_BUF_ERROR`. -/
theorem incremental_equivalence (E : Ext) (hE : TablePrefix E) (hL : TableLens E)
    (hF : FastSlow E) (strm : z_stream) (ws st : inflate_state) (w : Int) (inp : List Nat)
    (ks : List Piece) (k : Piece) (n F : Nat) (f r1 : Int) (s1 : z_stream)
    (hw : (zlib_inflateInit2 strm ws w).1 = Z_OK)
    (hst : (zlib_inflateInit2 strm ws w).2.state = some st)
    (hks : ∀ q ∈ ks ++ [k], q.flush ≠ Z_PACKET_FLUSH)
    (hn : ((ks ++ [k]).map Piece.n_out).sum ≤ n) (hn32 : n + 32768 < 4294967296)
    (hf1 : f ≠ Z_PACKET_FLUSH) (hf2 : f ≠ Z_BLOCK)
    (hnear : NearAll E f
      (enter (offer (zlib_inflateInit2 strm ws w).2 inp ⟨inp.length, n, f⟩)
        { st with offset := 0 }))
    (hone : zlib_inflate E F (offer (zlib_inflateInit2 strm ws w).2 inp ⟨inp.length, n, f⟩) f =
      some (r1, s1)) :
    ∃ G r s R,
      (∀ fuel, G ≤ fuel →
        pieces E fuel Z_OK (zlib_inflateInit2 strm ws w).2 inp (ks ++ [k]) = some (r, s, R)) ∧
      s.next_out <+: s1.next_out ∧
      (r ≠ Z_OK → r ≠ Z_BUF_ERROR → s.next_out = s1.next_out ∧ r1 = r) ∧
      (r = Z_OK ∨ r = Z_BUF_ERROR → s.avail_in = 0 ∨ s.avail_out = 0 ∨ k.flush = Z_BLOCK) ∧
      (r = Z_OK ∨ r = Z_BUF_ERROR → R = [] → s.avail_out ≠ 0 → k.flush ≠ Z_BLOCK →
        s.next_out = s1.next_out ∧ (r1 = Z_OK ∨ r1 = Z_BUF_ERROR)) := by
  obtain ⟨st', i1, i2, -, -, i5, i6, i7, i8, -⟩ := init_fresh strm ws w hw
  rw [hst] at i1
  cases i1
  obtain ⟨K, Oe, e1, e2, e3⟩ := one_call_ends E hE hL hF _ s1 st inp n F f r1 hst i2 i5 i6 i7 i8
    hn32 hf1 hf2 hnear hone
  have hS : Setup E f _ K Oe := ⟨hE, hL, hF, hf2, hnear, e1⟩
  have hM0 := Mid.start E f (zlib_inflateInit2 strm ws w).2 st inp n hst i2 i5 i6 i7 i8 hn32
  rw [List.map_append, List.sum_append] at hn
  simp only [List.map_cons, List.map_nil, List.sum_cons, List.sum_nil, Nat.add_zero] at hn
  obtain ⟨G1, r0, s0, R0, d1, d2⟩ := pieces_track E f _ K Oe hS _ n ks _ inp 0 Z_OK hM0
    (fun q hq => hks q (List.mem_append_left _ hq)) (by omega)
  obtain ⟨G2, r, s, c1, c2, -, c4, c5, c6⟩ := call_track E f _ K Oe hS _ n s0 R0 _ k d2
    (hks k (by simp)) (by omega)
  have hpre := Mid.starts hS c2 (by omega)
  refine ⟨max G1 G2, r, s, R0.drop ((R0.take k.n_in).length - s.avail_in), fun fuel hf => ?_,
    by rw [e2]; exact hpre, ?_, c5, ?_⟩
  · rw [pieces_snoc, d1 fuel (le_trans (le_max_left _ _) hf)]
    show pieces E fuel r0 s0 R0 [k] = _
    rw [pieces_cons E fuel r0 r s0 s R0 k [] (c1 fuel (le_trans (le_max_right _ _) hf))]
    rfl
  · intro h1 h2
    obtain ⟨g1, g2⟩ := c4 h1 h2
    refine ⟨by rw [e2]; exact g1, ?_⟩
    rcases e3 with e3 | ⟨e3, -⟩
    · rw [e3, g2]
    · rw [g2] at e3; exact absurd e3 h1
  · intro h1 h2 h3 h4
    obtain ⟨g1, g2⟩ := c6 h1 h2 h3 h4
    refine ⟨by rw [e2]; exact g1, ?_⟩
    rcases e3 with e3 | ⟨-, e3⟩
    · exact Or.inl (e3.trans g2)
    · exact Or.inr e3

theorem incremental_equivalence_witness :
    ∃ G r s R,
      (∀ fuel, G ≤ fuel →
        pieces slowExt fuel Z_OK (zlib_inflateInit2 strm0 ws0 15).2 fixed_stream
          ([⟨1, 1, Z_NO_FLUSH⟩, ⟨4, 2, Z_BLOCK⟩, ⟨3, 0, Z_NO_FLUSH⟩] ++ [⟨20, 290, Z_FINISH⟩]) =
            some (r, s, R)) ∧
      s.next_out <+: fixed_one.2.next_out ∧
      (r ≠ Z_OK → r ≠ Z_BUF_ERROR → s.next_out = fixed_one.2.next_out ∧ fixed_one.1 = r) ∧
      (r = Z_OK ∨ r = Z_BUF_ERROR →
        s.avail_in = 0 ∨ s.avail_out = 0 ∨ (⟨20, 290, Z_FINISH⟩ : Piece).flush = Z_BLOCK) ∧
      (r = Z_OK ∨ r = Z_BUF_ERROR → R = [] → s.avail_out ≠ 0 →
        (⟨20, 290, Z_FINISH⟩ : Piece).flush ≠ Z_BLOCK →
        s.next_out = fixed_one.2.next_out ∧ (fixed_one.1 = Z_OK ∨ fixed_one.1 = Z_BUF_ERROR)) :=
  incremental_equivalence slowExt slowExt_TablePrefix slowExt_TableLens slowExt_FastSlow
    strm0 ws0 _ 15 fixed_stream [⟨1, 1, Z_NO_FLUSH⟩, ⟨4, 2, Z_BLOCK⟩, ⟨3, 0, Z_NO_FLUSH⟩]
    ⟨20, 290, Z_FINISH⟩ 300 40 Z_FINISH fixed_one.1 fixed_one.2
    (by decide) rfl (by decide) (by decide) (by decide) (by decide) (by decide)
    (near_run_all slowExt Z_FINISH 40 _ (by decide!)) (by decide!)

end Inflate
